import Mathlib

/-!
# The alic compiler front end: a shallow embedding

Definitions follow the C sources under `alc/` (`alic.h`, `astnodes.c`,
`types.c`, `expr.c`, `misc.c`, `cgen.c`, `lexer.c`, `syms.c`, `funcs.c`,
`strlits.c`, `genast.c`, `stmts.c`, `parser.c`, `main.c`) and keep their
names.

* Pointers to the twelve built-in `Type` singletons are the enumeration `Ty`
  (pointer identity is constructor identity); a possibly-NULL `Type *` is an
  `Option Ty`; a possibly-NULL `ASTnode *` is the constructor `ASTnode.NULL`.
* A function that updates a node in place returns the updated node.
* A call of `fatal()` is an `Except.error` carrying the formatted message,
  without the `file line n: ` prefix that `fatal` prints first.  A read
  through NULL or outside a table is `Err.segv`.
* Global state is passed explicitly: `Cgen` for the code generator, `Lex`
  for the lexer, `Symtab` for the symbol table.  Memory allocation is taken
  to succeed.
* A `Sym *` is the symbol together with its address `addr`; two pointers are
  equal exactly when the addresses are.
* The counters `nexttemp`, `Line` and the temporaries are unbounded integers
  (no claim depends on their overflow); literal values are 64-bit cells.
-/

namespace Alic

/-! ## alic.h -/

/-- Built-in type ids (`TypeKind` in alic.h); `code` is the enum value. -/
inductive TypeKind where
  | TY_VOID | TY_BOOL | TY_INT8 | TY_INT16
  | TY_INT32 | TY_INT64 | TY_FLT32 | TY_FLT64
  deriving DecidableEq, Repr

open TypeKind

/-- Numeric value of a `TypeKind` enumerator. -/
def TypeKind.code : TypeKind → Nat
  | TY_VOID => 0 | TY_BOOL => 1 | TY_INT8 => 2 | TY_INT16 => 3
  | TY_INT32 => 4 | TY_INT64 => 5 | TY_FLT32 => 6 | TY_FLT64 => 7

/-- A pointer to one of the twelve built-in `Type` singletons of types.c.
The sources compare types by pointer, so two types are equal exactly when
they are the same singleton. -/
inductive Ty where
  | ty_void | ty_bool
  | ty_int8 | ty_int16 | ty_int32 | ty_int64
  | ty_uint8 | ty_uint16 | ty_uint32 | ty_uint64
  | ty_flt32 | ty_flt64
  deriving DecidableEq, Repr

open Ty

/-- Field `kind` of the singleton (types.c lines 7-21). -/
def Ty.kind : Ty → TypeKind
  | ty_void => TY_VOID
  | ty_bool => TY_BOOL
  | ty_int8 => TY_INT8
  | ty_int16 => TY_INT16
  | ty_int32 => TY_INT32
  | ty_int64 => TY_INT64
  | ty_uint8 => TY_INT8
  | ty_uint16 => TY_INT16
  | ty_uint32 => TY_INT32
  | ty_uint64 => TY_INT64
  | ty_flt32 => TY_FLT32
  | ty_flt64 => TY_FLT64

/-- Field `size` of the singleton. -/
def Ty.size : Ty → Nat
  | ty_void => 1
  | ty_bool => 1
  | ty_int8 => 1
  | ty_int16 => 2
  | ty_int32 => 4
  | ty_int64 => 8
  | ty_uint8 => 1
  | ty_uint16 => 2
  | ty_uint32 => 4
  | ty_uint64 => 8
  | ty_flt32 => 4
  | ty_flt64 => 8

/-- Field `align` of the singleton. -/
def Ty.align : Ty → Nat
  | ty_void => 1
  | ty_bool => 1
  | ty_int8 => 1
  | ty_int16 => 2
  | ty_int32 => 4
  | ty_int64 => 8
  | ty_uint8 => 1
  | ty_uint16 => 2
  | ty_uint32 => 4
  | ty_uint64 => 8
  | ty_flt32 => 4
  | ty_flt64 => 8

/-- Field `is_unsigned` of the singleton (set only in the four `ty_uint*`). -/
def Ty.is_unsigned : Ty → Bool
  | ty_uint8 => true
  | ty_uint16 => true
  | ty_uint32 => true
  | ty_uint64 => true
  | _ => false

/-- The union `Litval`: one 64-bit cell read as `int64_t`, `uint64_t` or
`double`.  `bits` is the cell content, always taken modulo `2^64`. -/
structure Litval where
  bits : Nat
  deriving DecidableEq, Repr

/-- Member `uintval`. -/
def Litval.uintval (v : Litval) : Nat := v.bits % 2 ^ 64

/-- Member `intval`: the cell read as a two's complement number. -/
def Litval.intval (v : Litval) : Int :=
  if v.bits % 2 ^ 64 < 2 ^ 63 then ((v.bits % 2 ^ 64 : Nat) : Int)
  else ((v.bits % 2 ^ 64 : Nat) : Int) - 2 ^ 64

/-- Store through `uintval`. -/
def Litval.of_uint (n : Nat) : Litval := ⟨n % 2 ^ 64⟩

/-- Store through `intval`. -/
def Litval.of_int (i : Int) : Litval := ⟨(i % 2 ^ 64).toNat⟩

/-- The IEEE-754 binary64 bit pattern of an `int64_t` value, as produced by
the C conversion `double = int64_t` (round to nearest, ties to even). -/
def int64_to_double_bits (i : Int) : Nat :=
  if i = 0 then 0
  else
    let sign : Nat := if i < 0 then 1 else 0
    let m : Nat := i.natAbs
    let e : Nat := Nat.log2 m
    if e ≤ 52 then
      sign * 2 ^ 63 + (e + 1023) * 2 ^ 52 + (m * 2 ^ (52 - e) - 2 ^ 52)
    else
      let sh : Nat := e - 52
      let q : Nat := m / 2 ^ sh
      let r : Nat := m % 2 ^ sh
      let half : Nat := 2 ^ (sh - 1)
      let q1 : Nat := if r > half ∨ (r = half ∧ q % 2 = 1) then q + 1 else q
      if q1 = 2 ^ 53 then sign * 2 ^ 63 + (e + 1 + 1023) * 2 ^ 52
      else sign * 2 ^ 63 + (e + 1023) * 2 ^ 52 + (q1 - 2 ^ 52)

/-- Store through `dblval` the double converted from an integer. -/
def Litval.of_dbl_from_int (i : Int) : Litval := ⟨int64_to_double_bits i⟩

/-- List of token ids (alic.h). -/
abbrev T_EOF : Nat := 0
abbrev T_AMPER : Nat := 1
abbrev T_OR : Nat := 2
abbrev T_XOR : Nat := 3
abbrev T_EQ : Nat := 4
abbrev T_NE : Nat := 5
abbrev T_LT : Nat := 6
abbrev T_GT : Nat := 7
abbrev T_LE : Nat := 8
abbrev T_GE : Nat := 9
abbrev T_LSHIFT : Nat := 10
abbrev T_RSHIFT : Nat := 11
abbrev T_PLUS : Nat := 12
abbrev T_MINUS : Nat := 13
abbrev T_STAR : Nat := 14
abbrev T_SLASH : Nat := 15
abbrev T_MOD : Nat := 16
abbrev T_ASSIGN : Nat := 17
abbrev T_INVERT : Nat := 18
abbrev T_LOGNOT : Nat := 19
abbrev T_LOGAND : Nat := 20
abbrev T_LOGOR : Nat := 21
abbrev T_VOID : Nat := 22
abbrev T_BOOL : Nat := 23
abbrev T_INT8 : Nat := 24
abbrev T_INT16 : Nat := 25
abbrev T_INT32 : Nat := 26
abbrev T_INT64 : Nat := 27
abbrev T_UINT8 : Nat := 28
abbrev T_UINT16 : Nat := 29
abbrev T_UINT32 : Nat := 30
abbrev T_UINT64 : Nat := 31
abbrev T_FLT32 : Nat := 32
abbrev T_FLT64 : Nat := 33
abbrev T_IF : Nat := 34
abbrev T_ELSE : Nat := 35
abbrev T_FALSE : Nat := 36
abbrev T_FOR : Nat := 37
abbrev T_PRINTF : Nat := 38
abbrev T_TRUE : Nat := 39
abbrev T_WHILE : Nat := 40
abbrev T_NUMLIT : Nat := 41
abbrev T_STRLIT : Nat := 42
abbrev T_SEMI : Nat := 43
abbrev T_IDENT : Nat := 44
abbrev T_LBRACE : Nat := 45
abbrev T_RBRACE : Nat := 46
abbrev T_LPAREN : Nat := 47
abbrev T_RPAREN : Nat := 48
abbrev T_COMMA : Nat := 49

/-- What type of data is in the Token numval. -/
abbrev NUM_INT : Nat := 1
abbrev NUM_UINT : Nat := 2
abbrev NUM_FLT : Nat := 3
abbrev NUM_CHAR : Nat := 4

/-- Token structure (alic.h). -/
structure Token where
  token : Nat
  tokstr : Option String
  numval : Litval
  numtype : Nat
  deriving DecidableEq, Repr

/-- Symbol types. -/
abbrev ST_VARIABLE : Nat := 1
abbrev ST_FUNCTION : Nat := 2

/-- A symbol (`Sym` in alic.h).  The `next` link of the C struct is the
position of the symbol in the list that holds it; `memb` is the list of
function parameters.  `addr` is the address of the struct: two pointers to
symbols are equal exactly when the addresses are. -/
inductive Sym where
  | mk (name : String) (symtype : Nat) (has_addr : Bool) (type : Option Ty)
      (initval : Litval) (count : Int) (memb : List Sym) (addr : Nat) : Sym
  deriving Repr

/-- Field `name`. -/
def Sym.name : Sym → String
  | .mk n _ _ _ _ _ _ _ => n

/-- Field `symtype`. -/
def Sym.symtype : Sym → Nat
  | .mk _ s _ _ _ _ _ _ => s

/-- Field `has_addr`. -/
def Sym.has_addr : Sym → Bool
  | .mk _ _ h _ _ _ _ _ => h

/-- Field `type`. -/
def Sym.type : Sym → Option Ty
  | .mk _ _ _ t _ _ _ _ => t

/-- Field `initval`. -/
def Sym.initval : Sym → Litval
  | .mk _ _ _ _ v _ _ _ => v

/-- Field `count`. -/
def Sym.count : Sym → Int
  | .mk _ _ _ _ _ c _ _ => c

/-- Field `memb`. -/
def Sym.memb : Sym → List Sym
  | .mk _ _ _ _ _ _ m _ => m

/-- The address of the symbol. -/
def Sym.addr : Sym → Nat
  | .mk _ _ _ _ _ _ _ a => a

/-- AST node types (alic.h). -/
abbrev A_ASSIGN : Nat := 1
abbrev A_CAST : Nat := 2
abbrev A_ADD : Nat := 3
abbrev A_SUBTRACT : Nat := 4
abbrev A_MULTIPLY : Nat := 5
abbrev A_DIVIDE : Nat := 6
abbrev A_NEGATE : Nat := 7
abbrev A_EQ : Nat := 8
abbrev A_NE : Nat := 9
abbrev A_LT : Nat := 10
abbrev A_GT : Nat := 11
abbrev A_LE : Nat := 12
abbrev A_GE : Nat := 13
abbrev A_NOT : Nat := 14
abbrev A_AND : Nat := 15
abbrev A_OR : Nat := 16
abbrev A_XOR : Nat := 17
abbrev A_INVERT : Nat := 18
abbrev A_LSHIFT : Nat := 19
abbrev A_RSHIFT : Nat := 20
abbrev A_NUMLIT : Nat := 21
abbrev A_IDENT : Nat := 22
abbrev A_PRINT : Nat := 23
abbrev A_GLUE : Nat := 24
abbrev A_IF : Nat := 25
abbrev A_WHILE : Nat := 26
abbrev A_FOR : Nat := 27
abbrev A_TYPE : Nat := 28
abbrev A_STRLIT : Nat := 29
abbrev A_LOCAL : Nat := 30
abbrev A_FUNCCALL : Nat := 31

/-- The value when a code generator function has no temporary to return. -/
abbrev NOREG : Int := -1

/-- An `ASTnode *`: either NULL or a node with the fields of the C struct. -/
inductive ASTnode where
  | NULL : ASTnode
  | node (op : Nat) (type : Option Ty) (rvalue : Bool)
      (left mid right : ASTnode) (sym : Option Sym)
      (litval : Litval) (strlit : Option String) : ASTnode
  deriving Repr

/-- How a run of the compiler can stop without a result: a call of
`fatal`, a read through a NULL pointer or outside a table or of a local
that was never assigned, the fuel of the model used up, or a loop of the
program that never ends. -/
inductive Err where
  | fatal (msg : String) : Err
  | segv : Err
  | fuel : Err
  | diverge : Err
  deriving DecidableEq, Repr

/-- Result of a possibly failing compiler function. -/
abbrev Res (α : Type) : Type := Except Err α

/-- Function `fatal` of misc.c: report the message and exit. -/
def fatal {α : Type} (msg : String) : Res α := Except.error (Err.fatal msg)

/-! ## astnodes.c -/

/-- Field `op`; reading through NULL is a crash. -/
def ASTnode.op : ASTnode → Res Nat
  | .NULL => Except.error Err.segv
  | .node op _ _ _ _ _ _ _ _ => Except.ok op

/-- Field `type`; reading through NULL is a crash. -/
def ASTnode.type : ASTnode → Res (Option Ty)
  | .NULL => Except.error Err.segv
  | .node _ ty _ _ _ _ _ _ _ => Except.ok ty

/-- Field `left`; reading through NULL is a crash. -/
def ASTnode.left : ASTnode → Res ASTnode
  | .NULL => Except.error Err.segv
  | .node _ _ _ l _ _ _ _ _ => Except.ok l

/-- Field `right`; reading through NULL is a crash. -/
def ASTnode.right : ASTnode → Res ASTnode
  | .NULL => Except.error Err.segv
  | .node _ _ _ _ _ r _ _ _ => Except.ok r

/-- Field `litval`; reading through NULL is a crash. -/
def ASTnode.litval : ASTnode → Res Litval
  | .NULL => Except.error Err.segv
  | .node _ _ _ _ _ _ _ v _ => Except.ok v

/-- Is this pointer NULL? -/
def ASTnode.isNULL : ASTnode → Bool
  | .NULL => true
  | .node _ _ _ _ _ _ _ _ _ => false

/-- Assignment `n->type = ty` (on a node that is not NULL). -/
def ASTnode.set_type (ty : Option Ty) : ASTnode → ASTnode
  | .NULL => .NULL
  | .node op _ rv l m r sym v s => .node op ty rv l m r sym v s

/-- Assignment `n->rvalue = b`. -/
def ASTnode.set_rvalue (b : Bool) : ASTnode → ASTnode
  | .NULL => .NULL
  | .node op ty _ l m r sym v s => .node op ty b l m r sym v s

/-- Assignment `n->left = x`. -/
def ASTnode.set_left (x : ASTnode) : ASTnode → ASTnode
  | .NULL => .NULL
  | .node op ty rv _ m r sym v s => .node op ty rv x m r sym v s

/-- Assignment `n->right = x`. -/
def ASTnode.set_right (x : ASTnode) : ASTnode → ASTnode
  | .NULL => .NULL
  | .node op ty rv l m _ sym v s => .node op ty rv l m x sym v s

/-- Assignment `n->litval = v`. -/
def ASTnode.set_litval (v : Litval) : ASTnode → ASTnode
  | .NULL => .NULL
  | .node op ty rv l m r sym _ s => .node op ty rv l m r sym v s

/-- Build and return a generic AST node (`calloc` is taken to succeed, so
every field not set here is zero). -/
def mkastnode (op : Nat) (left mid right : ASTnode) : ASTnode :=
  ASTnode.node op none false left mid right none ⟨0⟩ none

/-- Make an AST leaf node. -/
def mkastleaf (op : Nat) (type : Option Ty) (rvalue : Bool)
    (sym : Option Sym) (intval : Nat) : ASTnode :=
  ASTnode.node op type rvalue ASTnode.NULL ASTnode.NULL ASTnode.NULL sym
    (Litval.of_uint intval) none

/-! ## types.c -/

/-- Dereference of a `Type *`: NULL is a crash. -/
def deref (ty : Option Ty) : Res Ty :=
  match ty with
  | none => Except.error Err.segv
  | some t => Except.ok t

/-- Is this type an integer? -/
def is_integer (ty : Ty) : Bool :=
  let k := ty.kind
  k = TY_INT8 || k = TY_INT16 || k = TY_INT32 || k = TY_INT64

/-- Is this type floating point? -/
def is_flonum (ty : Ty) : Bool :=
  ty.kind = TY_FLT32 || ty.kind = TY_FLT64

/-- Is this type numeric? -/
def is_numeric (ty : Ty) : Bool :=
  is_integer ty || is_flonum ty

/-- List of built-in types (the table `typename`). -/
def typename : List String :=
  ["void", "bool", "int8", "int16",
   "int32", "int64", "flt32", "flt64",
   "unsigned int8", "unsigned int16",
   "unsigned int32", "unsigned int64"]

/-- Return a string representing the type. -/
def get_typename (ty : Ty) : String :=
  if ty.is_unsigned then typename.getD (ty.kind.code + 6) ""
  else typename.getD ty.kind.code ""

/-- Given an ASTnode and a type, try to widen the node's type to match the
given type.  The result is the same node if no widening is needed, a node
which widens the first one, or NULL if the types are not compatible. -/
def widen_type (node : ASTnode) (ty : Option Ty) : Res ASTnode :=
  match node with
  | .NULL => Except.error Err.segv
  | .node op ntype _ _ _ _ _ litval _ =>
    -- They have the same type, nothing to do
    if ntype = ty then Except.ok node
    -- We can't widen to a boolean
    else if ty = some ty_bool then Except.ok ASTnode.NULL
    -- We can't widen from a void
    else if ntype = some ty_void then
      fatal "cannot widen anything of type void\n"
    else
      match ntype with
      | none => Except.error Err.segv
      | some nty =>
        match ty with
        | none => Except.error Err.segv
        | some t =>
          -- Change an int of any size to a float
          if is_integer nty && is_flonum t then
            Except.ok (((mkastnode A_CAST node ASTnode.NULL ASTnode.NULL).set_type
              (some t)).set_rvalue true)
          -- The given type is smaller than the node's type, do nothing
          else if t.size < nty.size then Except.ok node
          -- The node is a literal
          else if op = A_NUMLIT then
            -- Check we're not trying to make a negative A_NUMLIT unsigned
            if t.is_unsigned && !nty.is_unsigned && decide (litval.intval < 0) then
              fatal ("Cannot cast negative literal value " ++
                toString litval.intval ++ " to be unsigned\n")
            else
              -- Deal with changing int literals to float literals
              let litval1 :=
                if is_integer nty && is_flonum t then
                  Litval.of_dbl_from_int litval.intval
                else litval
              Except.ok ((node.set_litval litval1).set_type (some t))
          -- Signed and unsigned types cannot mix
          else if nty.is_unsigned != t.is_unsigned then Except.ok ASTnode.NULL
          -- We are left with widening the left
          else
            Except.ok (((mkastnode A_CAST node ASTnode.NULL ASTnode.NULL).set_type
              (some t)).set_rvalue true)

/-- If an AST node has no type, determine its type based on the child
nodes.  The node is updated in place in C; here the updated node is the
result. -/
def add_type : ASTnode → Res ASTnode
  | .NULL => Except.ok ASTnode.NULL
  | .node op ntype rvalue left mid right sym litval strlit =>
    -- Do nothing if it already has a type
    if ntype.isSome then
      Except.ok (ASTnode.node op ntype rvalue left mid right sym litval strlit)
    -- If a relational expression, it is boolean
    else if A_EQ ≤ op ∧ op ≤ A_NOT then
      Except.ok (ASTnode.node op (some ty_bool) rvalue left mid right sym
        litval strlit)
    else do
      -- Set the child types if they have none
      let left1 ← add_type left
      let right1 ← add_type right
      -- Try to widen each one to be the type of the other
      let rty ← right1.type
      let newnode ← widen_type left1 rty
      let left2 := if newnode.isNULL then left1 else newnode
      let lty ← left2.type
      let newnode ← widen_type right1 lty
      let right2 := if newnode.isNULL then right1 else newnode
      -- Now set the type of this node
      let lty2 ← left2.type
      Except.ok (ASTnode.node op lty2 rvalue left2 mid right2 sym litval strlit)

/-- Values of limits.h on the target (8-bit char, 16-bit short, 32-bit int). -/
abbrev SCHAR_MIN : Int := -128
abbrev SCHAR_MAX : Int := 127
abbrev SHRT_MIN : Int := -32768
abbrev SHRT_MAX : Int := 32767
abbrev INT_MIN : Int := -2147483648
abbrev INT_MAX : Int := 2147483647

/-- Given a Token, return a type that is suitable for it. -/
def parse_litval (t : Token) : Ty :=
  -- Is it a float?
  if t.numtype = NUM_FLT then ty_flt32
  else
    -- Find the smallest suitable integer type for the value
    let e := t.numval
    if e.intval ≥ SCHAR_MIN ∧ e.intval ≤ SCHAR_MAX then ty_int8
    else if e.intval ≥ SHRT_MIN ∧ e.intval ≤ SHRT_MAX then ty_int16
    else if e.intval ≥ INT_MIN ∧ e.intval ≤ INT_MAX then ty_int32
    else if t.numtype = NUM_INT then ty_int64
    else ty_uint64

/-! ## expr.c -/

/-- Perform a binary operation on two AST trees and return the resulting
AST tree. -/
def binop (l r : ASTnode) (op : Nat) : Res ASTnode :=
  -- Add a type from the children
  add_type ((mkastnode op l ASTnode.NULL r).set_rvalue true)

/-- Perform a unary operation on an AST tree and return the resulting AST
tree. -/
def unarop (l : ASTnode) (op : Nat) : Res ASTnode := do
  let lty ← l.type
  Except.ok (((mkastnode op l ASTnode.NULL ASTnode.NULL).set_type lty).set_rvalue true)

/-- Given an ASTnode representing an expression and a type, widen the node
to match the given type. -/
def widen_expression (e : ASTnode) (type : Option Ty) : Res ASTnode := do
  -- Widen the type of the expression if required
  let newnode ← widen_type e type
  if newnode.isNULL then do
    let ety ← e.type
    let et ← deref ety
    let t ← deref type
    fatal ("Incompatible types " ++ get_typename et ++ " vs " ++
      get_typename t ++ "\n")
  else Except.ok newnode

/-! ## cgen.c -/

/-- State of the code generator: the static counter `nexttemp` and the
text written so far to the output file `Outfh`. -/
structure Cgen where
  nexttemp : Int
  out : String
  deriving DecidableEq, Repr

/-- The state at program start (`static int nexttemp = 1`, nothing written). -/
def Cgen.init : Cgen := ⟨1, ""⟩

/-- Text appended by one `fprintf(Outfh, ...)`. -/
def Cgen.emit (cg : Cgen) (text : String) : Cgen :=
  { cg with out := cg.out ++ text }

/-- Allocate a QBE temporary: `return (++nexttemp)`. -/
def cgalloctemp (cg : Cgen) : Int × Cgen :=
  (cg.nexttemp + 1, { cg with nexttemp := cg.nexttemp + 1 })

/-- Table of QBE type names used after the `=` sign in instructions. -/
def qbe_typename : List String :=
  ["", "w", "w", "w", "w", "l", "s", "d"]

/-- Table of QBE type names used in store instructions. -/
def qbe_storetypename : List String :=
  ["", "b", "b", "h", "w", "l", "s", "d"]

/-- Table of QBE type names used when loading.  Second half represents
unsigned types. -/
def qbe_loadtypename : List String :=
  ["", "sb", "sb", "sh", "sw", "l", "s", "d",
   "", "ub", "ub", "uh", "uw", "l", "s", "d"]

/-- Table of QBE type names used when extending.  Second half represents
unsigned types. -/
def qbe_exttypename : List String :=
  ["", "sw", "sw", "sw", "sw", "sl", "s", "d",
   "", "uw", "uw", "uw", "uw", "ul", "s", "d"]

/-- Return the QBE type that matches the given built-in type. -/
def qbetype (type : Option Ty) : Res String := do
  let ty ← deref type
  let kind := ty.kind.code
  if ty.kind.code > TY_FLT64.code then fatal "not a built-in type"
  else if ty.kind = TY_VOID then fatal "no QBE void type"
  else Except.ok (qbe_typename.getD kind "")

/-- Ditto for stores. -/
def qbe_storetype (type : Option Ty) : Res String := do
  let ty ← deref type
  let kind := ty.kind.code
  if ty.kind.code > TY_FLT64.code then fatal "not a built-in type"
  else if ty.kind = TY_VOID then fatal "no QBE void type"
  else Except.ok (qbe_storetypename.getD kind "")

/-- Ditto for loads, with signed knowledge. -/
def qbe_loadtype (type : Option Ty) : Res String := do
  let ty ← deref type
  let kind := ty.kind.code
  if ty.kind.code > TY_FLT64.code then fatal "not a built-in type"
  else if ty.kind = TY_VOID then fatal "no QBE void type"
  else
    let kind1 := if ty.is_unsigned then kind + (TY_FLT64.code + 1) else kind
    Except.ok (qbe_loadtypename.getD kind1 "")

/-- Ditto for extends, with signed knowledge. -/
def qbe_exttype (type : Option Ty) : Res String := do
  let ty ← deref type
  let kind := ty.kind.code
  if ty.kind.code > TY_FLT64.code then fatal "not a built-in type"
  else if ty.kind = TY_VOID then fatal "no QBE void type"
  else
    let kind1 := if ty.is_unsigned then kind + (TY_FLT64.code + 1) else kind
    Except.ok (qbe_exttypename.getD kind1 "")

/-- List of QBE comparison operations.  Add 6 for unsigned. -/
def qbecmp : List String :=
  ["eq", "ne", "slt", "sgt", "sle", "sge",
   "eq", "ne", "slt", "sgt", "sle", "sge"]

/-- Compare two temporaries and return the boolean result.  An index
outside the table `qbecmp` is a crash. -/
def cgcompare (op : Nat) (t1 t2 : Int) (type : Option Ty) (cg : Cgen) :
    Res (Int × Cgen) := do
  -- Get the matching QBE type
  let qtype ← qbetype type
  let ty ← deref type
  -- Get the QBE comparison
  let offset : Nat := if ty.is_unsigned then 6 else 0
  if op < A_EQ then Except.error Err.segv
  else
    match qbecmp.get? (op - A_EQ + offset) with
    | none => Except.error Err.segv
    | some cmpstr =>
      -- Get a new temporary
      let (t, cg1) := cgalloctemp cg
      Except.ok (t, cg1.emit ("  %.t" ++ toString t ++ " =w c" ++ cmpstr ++ qtype ++
        " %.t" ++ toString t1 ++ ", %.t" ++ toString t2 ++ "\n"))

/-- Load a value from a variable into a temporary.  Return the number of
the temporary. -/
def cgloadvar (sym : Option Sym) (cg : Cgen) : Res (Int × Cgen) :=
  match sym with
  | none => Except.error Err.segv
  | some sy => do
    -- Allocate a new temporary
    let (t, cg1) := cgalloctemp cg
    -- Get the matching QBE type
    let qloadtype ← qbe_loadtype sy.type
    let qtype ← qbetype sy.type
    if sy.has_addr then
      Except.ok (t, cg1.emit ("  %.t" ++ toString t ++ " =" ++ qtype ++ " load" ++
        qloadtype ++ " %" ++ sy.name ++ "\n"))
    else
      Except.ok (t, cg1.emit ("  %.t" ++ toString t ++ " =" ++ qtype ++ " copy %" ++
        sy.name ++ "\n"))

/-- Store the temporary `t` into a variable (the parameter `exprtype` is
not used by the C function). -/
def cgstorvar (t : Int) (_exprtype : Option Ty) (sym : Option Sym) (cg : Cgen) :
    Res Cgen :=
  match sym with
  | none => Except.error Err.segv
  | some sy => do
    -- Get the matching QBE type
    let qtype ← qbe_storetype sy.type
    if sy.has_addr then
      Except.ok (cg.emit ("  store" ++ qtype ++ " %.t" ++ toString t ++ ", %" ++
        sy.name ++ "\n"))
    else
      Except.ok (cg.emit ("  %" ++ sy.name ++ " =" ++ qtype ++ " copy %.t" ++
        toString t ++ "\n"))

/-- Cast a temporary to have a new type. -/
def cgcast (t1 : Int) (type newtype : Option Ty) (cg : Cgen) : Res (Int × Cgen) := do
  -- Allocate a new temporary
  let (t2, cg1) := cgalloctemp cg
  -- As t1 is already word-sized, we can upgrade the alic type for t1
  let ty0 ← deref type
  let ty : Ty :=
    if ty0.kind = TY_BOOL ∨ ty0.kind = TY_INT8 ∨ ty0.kind = TY_INT16 then
      (if ty0.is_unsigned then ty_uint32 else ty_int32)
    else ty0
  -- Get the matching QBE types
  let oldqtype ← qbe_exttype (some ty)
  let newqtype ← qbetype newtype
  let nty ← deref newtype
  -- Conversion from int to flt
  if is_integer ty && is_flonum nty then
    Except.ok (t2, cg1.emit ("  %.t" ++ toString t2 ++ " =" ++ newqtype ++ " " ++
      oldqtype ++ "tof %.t" ++ toString t1 ++ "\n"))
  -- Widening
  else if nty.size > ty.size then
    if ty.kind = TY_INT32 then
      Except.ok (t2, cg1.emit ("  %.t" ++ toString t2 ++ " =" ++ newqtype ++ " ext" ++
        oldqtype ++ " %.t" ++ toString t1 ++ "\n"))
    else if ty.kind = TY_FLT32 then
      Except.ok (t2, cg1.emit ("  %.t" ++ toString t2 ++ " =" ++ newqtype ++ " ext" ++
        oldqtype ++ " %.t" ++ toString t1 ++ "\n"))
    else
      fatal ("Not sure how to widen from " ++ get_typename ty ++ " to " ++
        get_typename nty ++ "\n")
  -- Narrowing
  else if nty.size < ty.size then
    if ty.kind = TY_INT32 then Except.ok (t1, cg1)
    else
      fatal ("Not sure how to narrow from " ++ get_typename ty ++ " to " ++
        get_typename nty ++ "\n")
  -- We did not narrow or widen
  else Except.ok (t1, cg1)

/-! ## lexer.c

The functions `next` and `scan` call each other (a `#` at the start of a
line makes `next` scan the line number and the file name).  The recursion is
cut by a parameter `sc`, the scanner that `next` calls on `Thistoken`, and
tied again in `scan` by a fuel argument that also bounds every loop;
`Err.fuel` is returned when the fuel runs out.  The characters of the input
file are bytes (the language is ASCII only).  The bit pattern that the libc
function `strtod` returns for the text of a float literal is outside the
model and is the parameter `strtod`. -/

/-- Size of the text buffer. -/
abbrev TEXTLEN : Nat := 512

/-- The value `EOF` of stdio.h. -/
abbrev EOF : Int := -1

/-- The lexer state: the unread rest of the input file `Infh`, the statics
`Linestart` and `Putback`, the buffer `Text` (bytes that were never written
are NUL and may be left out at the end of the list), the two token slots,
and the driver globals `Line` and `Infilename`. -/
structure Lex where
  input : List Char
  Linestart : Int
  Putback : Int
  Text : List Char
  Peektoken : Token
  Thistoken : Token
  Line : Int
  Infilename : String
  deriving DecidableEq, Repr

/-- The conversion `(char) c` of an int to a byte. -/
def to_char (c : Int) : Char := Char.ofNat (c % 256).toNat

/-- The content of a char buffer as a C string: the bytes before the
first NUL. -/
def cstr (buf : List Char) : List Char := buf.takeWhile (fun c => c.toNat ≠ 0)

/-- The conversion of an `int64_t` to `int`. -/
def to_int32 (i : Int) : Int := (i + 2 ^ 31) % 2 ^ 32 - 2 ^ 31

/-- Function `isspace` of ctype.h in the C locale. -/
def isspace (c : Int) : Bool :=
  c = 32 || (9 ≤ c && c ≤ 13)

/-- Function `isdigit` of ctype.h. -/
def isdigit (c : Int) : Bool := 48 ≤ c && c ≤ 57

/-- Function `isalpha` of ctype.h in the C locale. -/
def isalpha (c : Int) : Bool := (65 ≤ c && c ≤ 90) || (97 ≤ c && c ≤ 122)

/-- Function `isxdigit` of ctype.h. -/
def isxdigit (c : Int) : Bool :=
  isdigit c || (65 ≤ c && c ≤ 70) || (97 ≤ c && c ≤ 102)

/-- Function `tolower` of ctype.h in the C locale. -/
def tolower (c : Int) : Int := if 65 ≤ c ∧ c ≤ 90 then c + 32 else c

/-- One `fgetc(Infh)`. -/
def fgetc (st : Lex) : Int × Lex :=
  match st.input with
  | [] => (EOF, st)
  | c :: rest => ((c.toNat : Int), { st with input := rest })

/-- The loop `while ((c = fgetc(Infh)) != '\n');`: the input after the next
newline, or `none` when there is no newline left (the loop never ends). -/
def skip_to_eol : List Char → Option (List Char)
  | [] => none
  | c :: rest => if c.toNat = 10 then some rest else skip_to_eol rest

/-- The `while (Linestart && c == '#')` loop of `next`, entered with the
character just read. -/
def next_linemarks (sc : Lex → Res (Int × Lex)) : Nat → Int → Lex → Res (Int × Lex)
  | fuel, c, st =>
    if st.Linestart ≠ 0 ∧ c = 35 then
      match fuel with
      | 0 => Except.error Err.fuel
      | n + 1 => do
        -- No longer at the start of the line
        let st := { st with Linestart := 0 }
        -- Get the line number into l
        let (_, st) ← sc st
        if st.Thistoken.token ≠ T_NUMLIT then
          fatal ("Expecting pre-processor line number, got " ++
            String.mk (cstr st.Text) ++ "\n")
        else do
          let l := to_int32 st.Thistoken.numval.intval
          -- Get the filename in Text
          let (_, st) ← sc st
          if st.Thistoken.token ≠ T_STRLIT then
            fatal ("Expecting pre-processor file name, got " ++
              String.mk (cstr st.Text) ++ "\n")
          else
            -- If this is a real filename and not the one we have now, save
            -- it.  Then update the line num
            let st :=
              if (cstr st.Text).head? ≠ some '<' then
                { st with
                  Infilename :=
                    if String.mk (cstr st.Text) ≠ st.Infilename then String.mk (cstr st.Text)
                    else st.Infilename,
                  Line := l }
              else st
            -- Skip to the end of the line and get the next character
            match skip_to_eol st.input with
            | none => Except.error Err.diverge
            | some rest =>
              let (c1, st) := fgetc { st with input := rest }
              next_linemarks sc n c1 { st with Linestart := 1 }
    else
      -- No longer at the start of the line
      let st := { st with Linestart := 0 }
      if c = 10 then
        Except.ok (c, { st with Line := st.Line + 1, Linestart := 1 })
      else Except.ok (c, st)

/-- Get the next character from the input file. -/
def next (sc : Lex → Res (Int × Lex)) (fuel : Nat) (st : Lex) : Res (Int × Lex) :=
  -- Use the character put back if there is one
  if st.Putback ≠ 0 then Except.ok (st.Putback, { st with Putback := 0 })
  else
    -- Read from input file
    let (c, st) := fgetc st
    next_linemarks sc fuel c st

/-- Put back an unwanted character. -/
def putback (c : Int) (st : Lex) : Lex := { st with Putback := c }

/-- The loop `while (isspace(c)) c = next();` of `skip`. -/
def skip_loop (sc : Lex → Res (Int × Lex)) (fuel : Nat) : Nat → Int → Lex → Res (Int × Lex)
  | k, c, st =>
    if isspace c then
      match k with
      | 0 => Except.error Err.fuel
      | n + 1 => do
        let (c1, st) ← next sc fuel st
        skip_loop sc fuel n c1 st
    else Except.ok (c, st)

/-- Skip past input that we do not need to deal with, i.e. whitespace,
newlines.  Return the first character we do need to deal with. -/
def skip (sc : Lex → Res (Int × Lex)) (fuel : Nat) (st : Lex) : Res (Int × Lex) := do
  let (c, st) ← next sc fuel st
  skip_loop sc fuel fuel c st

/-- Return the position of character c in string s, or -1 if c not found. -/
def chrpos (s : List Char) (c : Int) : Int :=
  match (cstr s).indexOf? (to_char c) with
  | some i => (i : Int)
  | none => -1

/-- The loop `while (isxdigit(c = next()))` of `hexchar`; the result is the
character that ended the loop, the value `n` and the flag `f`.  The value
`n` is an `int`: the sum `n * 16 + h` wraps at 32 bits. -/
def hexchar_loop (sc : Lex → Res (Int × Lex)) (fuel : Nat) :
    Nat → Int → Int → Lex → Res (Int × Int × Int × Lex)
  | k, n, f, st => do
    let (c, st) ← next sc fuel st
    if isxdigit c then
      match k with
      | 0 => Except.error Err.fuel
      | k1 + 1 =>
        -- Convert from char to int value
        let h := chrpos "0123456789abcdef".toList (tolower c)
        -- Add to running hex value
        hexchar_loop sc fuel k1 (to_int32 (n * 16 + h)) 1 st
    else Except.ok (c, n, f, st)

/-- Read in a hexadecimal constant from the input. -/
def hexchar (sc : Lex → Res (Int × Lex)) (fuel : Nat) (st : Lex) : Res (Int × Lex) := do
  let (c, n, f, st) ← hexchar_loop sc fuel fuel 0 0 st
  -- We hit a non-hex character, put it back
  let st := putback c st
  -- Flag tells us we never saw any hex characters
  if f = 0 then fatal "missing digits after '\\x'\n"
  else if n > 255 then fatal "value out of range after '\\x'\n"
  else Except.ok (n, st)

/-- The loop `for (i = c2 = 0; isdigit(c) && c < '8'; c = next())` of
`scanch`; the result is the character that ended the loop and `c2`. -/
def octal_loop (sc : Lex → Res (Int × Lex)) (fuel : Nat) :
    Nat → Int → Int → Int → Lex → Res (Int × Int × Lex)
  | k, i, c2, c, st =>
    if isdigit c && decide (c < 56) then
      if i + 1 > 3 then Except.ok (c, c2, st)
      else
        match k with
        | 0 => Except.error Err.fuel
        | k1 + 1 => do
          let (c1, st) ← next sc fuel st
          octal_loop sc fuel k1 (i + 1) (c2 * 8 + (c - 48)) c1 st
    else Except.ok (c, c2, st)

/-- Return the next character from a character or string literal. -/
def scanch (sc : Lex → Res (Int × Lex)) (fuel : Nat) (st : Lex) : Res (Int × Lex) := do
  -- Get the next input character and interpret metacharacters that start
  -- with a backslash
  let (c, st) ← next sc fuel st
  if c = 92 then do
    let (c, st) ← next sc fuel st
    if c = 97 then Except.ok (7, st)
    else if c = 98 then Except.ok (8, st)
    else if c = 102 then Except.ok (12, st)
    else if c = 110 then Except.ok (10, st)
    else if c = 114 then Except.ok (13, st)
    else if c = 116 then Except.ok (9, st)
    else if c = 118 then Except.ok (11, st)
    else if c = 92 then Except.ok (92, st)
    else if c = 34 then Except.ok (34, st)
    else if c = 39 then Except.ok (39, st)
    else if 48 ≤ c ∧ c ≤ 55 then do
      -- Deal with octal constants by reading in characters until we hit a
      -- non-octal digit.  Permit only 3 octal digits.
      let (c, c2, st) ← octal_loop sc fuel 4 0 0 c st
      -- Put back the first non-octal char
      Except.ok (c2, putback c st)
    else if c = 120 then hexchar sc fuel st
    else fatal ("unknown escape sequence " ++ String.mk [to_char c] ++ "\n")
  else
    -- Just an ordinary old character!
    Except.ok (c, st)

/-- List of characters that can be found in a numeric literal. -/
def numchar : List Char := "0123456789ABCDEFabcdef.x".toList

/-- The test `strchr(s, c) != NULL`: the byte `(char) c` occurs in the C
string s or is its terminating NUL. -/
def strchr_found (s : List Char) (c : Int) : Bool :=
  (to_char c).toNat = 0 || (cstr s).contains (to_char c)

/-- Value of a character as a digit of `strtoull` (letters count from 10). -/
def strto_digit (c : Char) : Option Nat :=
  if 48 ≤ c.toNat ∧ c.toNat ≤ 57 then some (c.toNat - 48)
  else if 97 ≤ c.toNat ∧ c.toNat ≤ 122 then some (c.toNat - 97 + 10)
  else if 65 ≤ c.toNat ∧ c.toNat ≤ 90 then some (c.toNat - 65 + 10)
  else none

/-- The digit loop of `strtoull`: the exact value of the longest prefix of
digits below the radix. -/
def strto_digits (radix : Nat) : Nat → List Char → Nat
  | acc, [] => acc
  | acc, c :: cs =>
    match strto_digit c with
    | some d => if d < radix then strto_digits radix (acc * radix + d) cs else acc
    | none => acc

/-- The libc function `strtoull(s, NULL, radix)` on the bytes of the C
string s, for a radix of 8, 10 or 16: white space, an optional sign, for
radix 16 an optional `0x`, then digits; `ULLONG_MAX` when the digits
overflow 64 bits, and the negated value modulo `2^64` after a minus sign. -/
def strtoull (s : List Char) (radix : Nat) : Nat :=
  let s1 := s.dropWhile (fun c => isspace (c.toNat : Int))
  let neg : Bool := s1.head? = some '-'
  let s2 := if s1.head? = some '-' ∨ s1.head? = some '+' then s1.tail else s1
  let s3 :=
    match s2 with
    | c0 :: c1 :: c2 :: rest =>
      if radix = 16 ∧ c0 = '0' ∧ (c1 = 'x' ∨ c1 = 'X') ∧
          (strto_digit c2).any (fun d => d < 16) then c2 :: rest
      else s2
    | _ => s2
  let v := strto_digits radix 0 s3
  if v > 2 ^ 64 - 1 then 2 ^ 64 - 1
  else if neg then (2 ^ 64 - v) % 2 ^ 64
  else v

/-- Assignment through the token pointer `t` of `scan`: to the global
`Thistoken` when `toThis` holds (the call `scan(&Thistoken)`), else to the
token of the caller. -/
def tok_set (toThis : Bool) (f : Token → Token) (p : Token × Lex) : Token × Lex :=
  if toThis then (f p.2.Thistoken, { p.2 with Thistoken := f p.2.Thistoken })
  else (f p.1, p.2)

/-- The assignment `buf[i] = c` on a char buffer. -/
def buf_write (buf : List Char) (i : Nat) (c : Char) : List Char :=
  buf.take i ++ List.replicate (i - buf.length) (Char.ofNat 0) ++ c :: buf.drop (i + 1)

/-- The assignment `Text[i] = c`. -/
def Lex.text_write (st : Lex) (i : Nat) (c : Int) : Lex :=
  { st with Text := buf_write st.Text i (to_char c) }

/-- The `for (; i < TEXTLEN - 1; i++)` loop of `scan_numlit`: `k` counts the
iterations that are left; the result is the final index `i`. -/
def scan_numlit_loop (sc : Lex → Res (Int × Lex)) (fuel : Nat) :
    Nat → Nat → Lex → Res (Nat × Lex)
  | 0, i, st => Except.ok (i, st)
  | k + 1, i, st => do
    let (c, st) ← scanch sc fuel st
    -- Found a non-numeric character
    if !strchr_found numchar c then Except.ok (i, putback c st)
    -- Otherwise add it to the buffer
    else scan_numlit_loop sc fuel k (i + 1) (st.text_write i c)

/-- Scan a numeric literal value from the input file and store it in the
given token. -/
def scan_numlit (strtod : List Char → Nat) (sc : Lex → Res (Int × Lex)) (fuel : Nat)
    (toThis : Bool) (t : Token) (c : Int) (is_negative : Bool) (st : Lex) :
    Res (Token × Lex) := do
  -- Assume an unsigned int
  let (t, st) := tok_set toThis (fun t => { t with numtype := NUM_UINT }) (t, st)
  -- Put the first character and negative sign in the buffer
  let (i, t, st) :=
    if is_negative then
      let (t, st) := tok_set toThis (fun t => { t with numtype := NUM_INT }) (t, st)
      (1, t, st.text_write 0 45)
    else (0, t, st)
  let st := st.text_write i c
  let i := i + 1
  -- Loop while we have enough buffer space
  let (i, st) ← scan_numlit_loop sc fuel (TEXTLEN - 1 - i) i st
  -- NUL terminate the string
  let st := st.text_write i 0
  -- Determine either if it is a float or any octal/hex radix
  let isfloat : Bool := (cstr st.Text).contains '.'
  let (t, st) :=
    if isfloat then tok_set toThis (fun t => { t with numtype := NUM_FLT }) (t, st)
    else (t, st)
  let radix : Nat :=
    if isfloat then 10
    else if (cstr st.Text).head? = some '0' then
      (if (cstr st.Text).tail.head? = some 'x' then 16 else 8)
    else 10
  -- Do the conversion
  if isfloat then
    Except.ok (tok_set toThis (fun t => { t with numval := ⟨strtod (cstr st.Text)⟩ }) (t, st))
  else
    Except.ok (tok_set toThis
      (fun t => { t with numval := Litval.of_uint (strtoull (cstr st.Text) radix) }) (t, st))

/-- The loop of `scanstr` on the buffer `Text`: `k` counts the iterations
that are left. -/
def scanstr_loop (sc : Lex → Res (Int × Lex)) (fuel : Nat) :
    Nat → Nat → Lex → Res (Int × Lex)
  | 0, _, _ => fatal "String literal too long\n"
  | k + 1, i, st => do
    -- Get the next char and append to buf.  Return when we hit the ending
    -- double quote
    let (c, st) ← scanch sc fuel st
    if c = 34 then Except.ok ((i : Int), st.text_write i 0)
    else scanstr_loop sc fuel k (i + 1) (st.text_write i c)

/-- Scan in a string literal from the input file, and store it in `Text`
(the only buffer it is called with).  Return the length of the string. -/
def scanstr (sc : Lex → Res (Int × Lex)) (fuel : Nat) (st : Lex) : Res (Int × Lex) :=
  -- Loop while we have enough buffer space
  scanstr_loop sc fuel (TEXTLEN - 1) 0 st

/-- The loop of `scanident` on the buffer `Text`. -/
def scanident_loop (sc : Lex → Res (Int × Lex)) (fuel : Nat) (lim : Nat) :
    Nat → Int → Nat → Lex → Res (Int × Nat × Lex)
  | k, c, i, st =>
    -- Allow digits, alpha and underscores
    if isalpha c || isdigit c || c = 95 then
      -- Error if we hit the identifier length limit, else append to buf
      -- and get next character
      if (lim : Int) - 1 = i then fatal "Identifier too long\n"
      else
        match k with
        | 0 => Except.error Err.fuel
        | k1 + 1 => do
          let (i1, st) :=
            if (i : Int) < (lim : Int) - 1 then (i + 1, st.text_write i c) else (i, st)
          let (c1, st) ← next sc fuel st
          scanident_loop sc fuel lim k1 c1 i1 st
    else Except.ok (c, i, st)

/-- Scan an identifier from the input file and store it in `Text` (the only
buffer it is called with).  Return the length of the identifier. -/
def scanident (sc : Lex → Res (Int × Lex)) (fuel : Nat) (c : Int) (lim : Nat)
    (st : Lex) : Res (Int × Lex) := do
  let (c, i, st) ← scanident_loop sc fuel lim lim c 0 st
  -- We hit a non-valid character, put it back.  NUL-terminate the buffer
  -- and return the length
  let st := putback c st
  Except.ok ((i : Int), st.text_write i 0)

/-- A keyword, its first letter and the token id associated with the
keyword. -/
structure keynode where
  first : Char
  keyword : String
  token : Nat
  deriving DecidableEq, Repr

/-- List of keywords and matching tokens (without the closing entry of
zeros). -/
def keylist : List keynode :=
  [⟨'b', "bool", T_BOOL⟩,
   ⟨'e', "else", T_ELSE⟩,
   ⟨'f', "false", T_FALSE⟩,
   ⟨'f', "flt32", T_FLT32⟩,
   ⟨'f', "flt64", T_FLT64⟩,
   ⟨'f', "for", T_FOR⟩,
   ⟨'i', "if", T_IF⟩,
   ⟨'i', "int8", T_INT8⟩,
   ⟨'i', "int16", T_INT16⟩,
   ⟨'i', "int32", T_INT32⟩,
   ⟨'i', "int64", T_INT64⟩,
   ⟨'p', "printf", T_PRINTF⟩,
   ⟨'t', "true", T_TRUE⟩,
   ⟨'u', "uint8", T_UINT8⟩,
   ⟨'u', "uint16", T_UINT16⟩,
   ⟨'u', "uint32", T_UINT32⟩,
   ⟨'u', "uint64", T_UINT64⟩,
   ⟨'v', "void", T_VOID⟩,
   ⟨'w', "while", T_WHILE⟩]

/-- The loop of `keyword` over the entries of the table; `s0` is `*s`. -/
def keyword_loop (s : List Char) (s0 : Nat) : List keynode → Nat
  | [] => 0
  | k :: rest =>
    -- Too early
    if k.first.toNat < s0 then keyword_loop s s0 rest
    -- A match
    else if s = k.keyword.toList then k.token
    -- Too late
    else if k.first.toNat > s0 then 0
    else keyword_loop s s0 rest

/-- Given a word from the input, return the matching keyword token number
or 0 if it is not a keyword. -/
def keyword (s : List Char) : Nat :=
  keyword_loop (cstr s) ((cstr s).head?.elim 0 Char.toNat) keylist

/-- The body of `scan`: scan and return the next token found in the input.
The first component of the result is the return value of the C function:
1 if the token is valid, 0 if no tokens are left. -/
def scan_body (strtod : List Char → Nat) (sc : Lex → Res (Int × Lex)) (fuel : Nat)
    (toThis : Bool) (t : Token) (st : Lex) : Res (Int × Token × Lex) :=
  -- If we have a lookahead token, return this token
  if st.Peektoken.token ≠ 0 then
    let pk := st.Peektoken
    let (t, st) := tok_set toThis (fun t =>
      { t with token := pk.token, tokstr := pk.tokstr,
               numval := Litval.of_int pk.numval.intval, numtype := pk.numtype }) (t, st)
    Except.ok (1, t, { st with Peektoken := { st.Peektoken with token := 0 } })
  else do
    -- Skip whitespace
    let (c, st) ← skip sc fuel st
    let tk (tok : Nat) (t : Token) (st : Lex) : Res (Int × Token × Lex) :=
      let (t, st) := tok_set toThis (fun t => { t with token := tok }) (t, st)
      Except.ok (1, t, st)
    -- Determine the token based on the input character
    if c = EOF then
      let (t, st) := tok_set toThis (fun t => { t with token := T_EOF }) (t, st)
      Except.ok (0, t, st)
    else if c = 43 then tk T_PLUS t st
    else if c = 45 then do
      let (c, st) ← next sc fuel st
      if isdigit c then do
        -- Negative numeric literal
        let (t, st) ← scan_numlit strtod sc fuel toThis t c true st
        tk T_NUMLIT t st
      else tk T_MINUS t (putback c st)
    else if c = 42 then tk T_STAR t st
    else if c = 47 then tk T_SLASH t st
    else if c = 59 then tk T_SEMI t st
    else if c = 123 then tk T_LBRACE t st
    else if c = 125 then tk T_RBRACE t st
    else if c = 40 then tk T_LPAREN t st
    else if c = 41 then tk T_RPAREN t st
    else if c = 126 then tk T_INVERT t st
    else if c = 94 then tk T_XOR t st
    else if c = 44 then tk T_COMMA t st
    else if c = 61 then do
      let (c, st) ← next sc fuel st
      if c = 61 then tk T_EQ t st
      else tk T_ASSIGN t (putback c st)
    else if c = 33 then do
      let (c, st) ← next sc fuel st
      if c = 61 then tk T_NE t st
      else tk T_LOGNOT t (putback c st)
    else if c = 60 then do
      let (c, st) ← next sc fuel st
      if c = 61 then tk T_LE t st
      else if c = 60 then tk T_LSHIFT t st
      else tk T_LT t (putback c st)
    else if c = 62 then do
      let (c, st) ← next sc fuel st
      if c = 61 then tk T_GE t st
      else if c = 62 then tk T_RSHIFT t st
      else tk T_GT t (putback c st)
    else if c = 38 then do
      let (c, st) ← next sc fuel st
      if c = 38 then tk T_LOGAND t st
      else tk T_AMPER t (putback c st)
    else if c = 124 then do
      let (c, st) ← next sc fuel st
      if c = 124 then tk T_LOGOR t st
      else tk T_OR t (putback c st)
    else if c = 39 then do
      -- If it is a quote, scan in the literal character value and the
      -- trailing quote
      let (v, st) ← scanch sc fuel st
      let (t, st) := tok_set toThis (fun t =>
        { t with numval := Litval.of_int v, numtype := NUM_CHAR, token := T_NUMLIT }) (t, st)
      let (c, st) ← next sc fuel st
      if c ≠ 39 then fatal "Expected '\\'' at end of char literal\n"
      else Except.ok (1, t, st)
    else if c = 34 then do
      -- Scan in a literal string
      let (_, st) ← scanstr sc fuel st
      let (t, st) := tok_set toThis (fun t =>
        { t with token := T_STRLIT, tokstr := some (String.mk (cstr st.Text)) }) (t, st)
      Except.ok (1, t, st)
    else if isdigit c then do
      -- If it is a digit, scan the literal integer value in
      let (t, st) ← scan_numlit strtod sc fuel toThis t c false st
      tk T_NUMLIT t st
    else if isalpha c || c = 95 then do
      -- Read in a keyword or identifier
      let (_, st) ← scanident sc fuel c TEXTLEN st
      -- If it is a recognised keyword, return that token
      let tokentype := keyword st.Text
      if tokentype ≠ 0 then tk tokentype t st
      else
        -- Not a recognised keyword, so it must be an identifier
        let (t, st) := tok_set toThis (fun t =>
          { t with token := T_IDENT, tokstr := some (String.mk (cstr st.Text)) }) (t, st)
        Except.ok (1, t, st)
    else
      -- The character is not part of any recognised token, error
      fatal ("Unrecognised character: " ++ String.mk [to_char c] ++ "\n")

/-- Function `scan` with its token pointer: `toThis` is the call
`scan(&Thistoken)`, otherwise the token `t` of the caller is updated.  The
fuel bounds the nesting of linemarks and every loop. -/
def scan (strtod : List Char → Nat) : Nat → Bool → Token → Lex → Res (Int × Token × Lex)
  | 0, _, _, _ => Except.error Err.fuel
  | n + 1, toThis, t, st =>
    scan_body strtod
      (fun s => (scan strtod n true s.Thistoken s).map (fun r => (r.1, r.2.2)))
      n toThis t st

/-! ## Auxiliary definitions used in the proofs -/

/-- A numeric literal ends at the end of the input or at a character that
is neither a character of numeric literals nor a backslash. -/
def ends_literal : List Char → Bool
  | [] => true
  | t :: _ => !strchr_found numchar (t.toNat : Int) && decide (t.toNat ≠ 92)

/-- The radix `scan_numlit` chooses for the text of an integer literal. -/
def literal_radix (text : List Char) : Nat :=
  if text.head? = some '0' then (if text.tail.head? = some 'x' then 16 else 8) else 10

/-- A decimal digit. -/
def dec_digit (c : Char) : Bool := decide (48 ≤ c.toNat ∧ c.toNat ≤ 57)

/-- An octal digit. -/
def oct_digit (c : Char) : Bool := decide (48 ≤ c.toNat ∧ c.toNat ≤ 55)

/-- A hexadecimal digit, in either case. -/
def hex_digit (c : Char) : Bool :=
  decide ((48 ≤ c.toNat ∧ c.toNat ≤ 57) ∨ (97 ≤ c.toNat ∧ c.toNat ≤ 102) ∨
    (65 ≤ c.toNat ∧ c.toNat ≤ 70))

/-- The value of a digit character. -/
def digit_value (c : Char) : Nat :=
  if c.toNat ≤ 57 then c.toNat - 48
  else if 97 ≤ c.toNat then c.toNat - 87
  else c.toNat - 55

/-- The number written by the digit characters ds in base b, most
significant digit first. -/
def digits_value (b : Nat) (ds : List Char) : Nat :=
  Nat.ofDigits b (ds.map digit_value).reverse

/-- The value of an integer literal of the language, written without sign:
`0x` and hexadecimal digits, or `0` and octal digits, or decimal digits that
do not start with `0`; `none` for any other text. -/
def literal_value (text : List Char) : Option Nat :=
  if text.head? = some '0' then
    if text.tail.head? = some 'x' then
      (if text.tail.tail ≠ [] ∧ text.tail.tail.all hex_digit then
        some (digits_value 16 text.tail.tail)
      else none)
    else if text.tail.all oct_digit then some (digits_value 8 text.tail)
    else none
  else if text ≠ [] ∧ text.all dec_digit then some (digits_value 10 text)
  else none

/-- The lexer state at the start of a compilation of the given input:
the statics are zero, `Line` is 1. -/
def Lex.init (input : List Char) (fname : String) : Lex :=
  ⟨input, 0, 0, [], ⟨0, none, ⟨0⟩, 0⟩, ⟨0, none, ⟨0⟩, 0⟩, 1, fname⟩

/-! ## syms.c

A `Sym *` held in a variable of the program is the address of the symbol
(`none` is NULL); a `Sym *` returned to a caller that reads its fields is the
symbol itself, which carries its address.  `calloc` returns `nextaddr`, an
address no symbol has yet.  Names are never NULL: every caller passes the text
of an identifier token. -/

/-- The symbol table: the main list `Symhead`, the statics `Globhead` and
`Curfunc`, and the next address `calloc` hands out. -/
structure Symtab where
  Symhead : List Sym
  Globhead : Option Nat
  Curfunc : Option Nat
  nextaddr : Nat
  deriving Repr

/-- The symbol table at program start. -/
def Symtab.init : Symtab := ⟨[], none, none, 0⟩

/-- The walk of `add_sym_to` that looks for the name in the list. -/
def sym_name_in (name : String) : List Sym → Bool
  | [] => false
  | this :: rest => if this.name = name then true else sym_name_in name rest

/-- The loop `for (here= *head; ; here= here->next)` of `add_sym_to`: the
new symbol goes after the first node whose `next` is NULL or `Globhead`. -/
def add_sym_append (Globhead : Option Nat) (this : Sym) : List Sym → List Sym
  | [] => [this]
  | [here] => [here, this]
  | here :: nxt :: rest =>
    if Globhead = some nxt.addr then here :: this :: nxt :: rest
    else here :: add_sym_append Globhead this (nxt :: rest)

/-- Given the head of a symbol list, add a new symbol node to the list.
If the name of the symbol is already in the list, return NULL.  Otherwise
return the new symbol.  The result holds the updated list too. -/
def add_sym_to (head : List Sym) (name : String) (symtype : Nat) (type : Option Ty)
    (st : Symtab) : Option Sym × List Sym × Symtab :=
  -- Walk the list to see if the symbol is already there
  if sym_name_in name head then (none, head, st)
  else
    -- Make the new symbol node and fill in the fields
    let this := Sym.mk name symtype false type ⟨0⟩ 0 [] st.nextaddr
    let st := { st with nextaddr := st.nextaddr + 1 }
    match head with
    -- The list is empty: make this the first node
    | [] => (some this, [this], st)
    | first :: rest =>
      -- If Globhead is the same as the head, then we are adding the first
      -- local symbol.  Prepend this to the list
      if st.Globhead = some first.addr then (some this, this :: first :: rest, st)
      -- Append the symbol to the list but do not go past Globhead
      else (some this, add_sym_append st.Globhead this (first :: rest), st)

/-- Add a new symbol to the main symbol table.  Check that a symbol of the
same name does not already exist. -/
def add_symbol (name : String) (symtype : Nat) (type : Option Ty) (st : Symtab) :
    Res (Sym × Symtab) :=
  match add_sym_to st.Symhead name symtype type st with
  | (none, _, _) => fatal ("symbol " ++ name ++ " already exists\n")
  | (some this, head, st1) => Except.ok (this, { st1 with Symhead := head })

/-- The walk of `find_symbol` over the main list. -/
def find_symbol_loop (name : String) (Curfunc : Option Nat) : List Sym → Option Sym
  | [] => none
  | this :: rest =>
    if this.name = name then some this
    -- If this is the function we are currently processing, walk the
    -- parameter list to find matching symbols
    else if Curfunc = some this.addr then
      match this.memb.find? (fun param => param.name = name) with
      | some param => some param
      | none => find_symbol_loop name Curfunc rest
    else find_symbol_loop name Curfunc rest

/-- Find a symbol in the main symbol table given its name or return NULL
if not found. -/
def find_symbol (name : Option String) (st : Symtab) : Option Sym :=
  match name with
  | none => none
  | some nm => find_symbol_loop nm st.Curfunc st.Symhead

/-- Start a new scope section on the symbol table. -/
def new_scope (func : Option Sym) (st : Symtab) : Symtab :=
  { st with Globhead := st.Symhead.head?.map Sym.addr, Curfunc := func.map Sym.addr }

/-- The list that starts at the node a pointer into the list points to. -/
def list_from (p : Option Nat) : List Sym → List Sym
  | [] => []
  | this :: rest => if p = some this.addr then this :: rest else list_from p rest

/-- Remove the latest scope section from the symbol table. -/
def end_scope (st : Symtab) : Symtab :=
  { st with Symhead := list_from st.Globhead st.Symhead, Globhead := none, Curfunc := none }

/-- Assignment `n->sym = s`. -/
def ASTnode.set_sym (sym : Option Sym) : ASTnode → ASTnode
  | .NULL => .NULL
  | .node op ty rv l m r _ v s => .node op ty rv l m r sym v s

/-- Assignment `n->op = op`. -/
def ASTnode.set_op (op : Nat) : ASTnode → ASTnode
  | .NULL => .NULL
  | .node _ ty rv l m r sym v s => .node op ty rv l m r sym v s

/-- Assignment `n->mid = x`. -/
def ASTnode.set_mid (x : ASTnode) : ASTnode → ASTnode
  | .NULL => .NULL
  | .node op ty rv l _ r sym v s => .node op ty rv l x r sym v s

/-- Assignment `n->strlit = s`. -/
def ASTnode.set_strlit (str : Option String) : ASTnode → ASTnode
  | .NULL => .NULL
  | .node op ty rv l m r sym v _ => .node op ty rv l m r sym v str

/-- Field `mid`; reading through NULL is a crash. -/
def ASTnode.mid : ASTnode → Res ASTnode
  | .NULL => Except.error Err.segv
  | .node _ _ _ _ m _ _ _ _ => Except.ok m

/-- Field `strlit`; reading through NULL is a crash. -/
def ASTnode.strlit : ASTnode → Res (Option String)
  | .NULL => Except.error Err.segv
  | .node _ _ _ _ _ _ _ _ s => Except.ok s

/-- Field `sym`; reading through NULL is a crash. -/
def ASTnode.sym : ASTnode → Res (Option Sym)
  | .NULL => Except.error Err.segv
  | .node _ _ _ _ _ _ sym _ _ => Except.ok sym

/-- The text printf writes for a `%s` argument that may be NULL. -/
def str_or_null (s : Option String) : String := s.getD "(null)"

/-- Given an A_IDENT node, confirm that it is a known symbol.  Set the type
of the node and return it. -/
def mkident (n : ASTnode) (st : Symtab) : Res ASTnode := do
  let name ← n.strlit
  match find_symbol name st with
  | none => fatal ("Unknown variable " ++ str_or_null name ++ "\n")
  | some s =>
    if s.symtype ≠ ST_VARIABLE then
      fatal ("Symbol " ++ str_or_null name ++ " is not a variable\n")
    else Except.ok ((n.set_type s.type).set_sym (some s))

/-! ## funcs.c -/

/-- Assignment to a field of the symbol at the given address, in a list of
symbols and in the parameter lists of its symbols. -/
def update_sym (addr : Nat) (f : Sym → Sym) : List Sym → List Sym
  | [] => []
  | this :: rest =>
    (if this.addr = addr then f this
     else
       match this with
       | .mk n sy h t v c m a =>
         .mk n sy h t v c (m.map (fun p => if p.addr = addr then f p else p)) a)
    :: update_sym addr f rest

/-- Assignment `s->has_addr = b`. -/
def Sym.set_has_addr (b : Bool) : Sym → Sym
  | .mk n sy _ t v c m a => .mk n sy b t v c m a

/-- Assignment `s->count = c`. -/
def Sym.set_count (c : Int) : Sym → Sym
  | .mk n sy h t v _ m a => .mk n sy h t v c m a

/-- Assignment `s->memb = m`. -/
def Sym.set_memb (m : List Sym) : Sym → Sym
  | .mk n sy h t v c _ a => .mk n sy h t v c m a

/-- Assignment `s->initval = v`. -/
def Sym.set_initval (v : Litval) : Sym → Sym
  | .mk n sy h t _ c m a => .mk n sy h t v c m a

/-- The symbol at the given address in the main list: the read `*p` of a
pointer to a node of the main list. -/
def sym_at (addr : Nat) : List Sym → Option Sym
  | [] => none
  | this :: rest => if this.addr = addr then some this else sym_at addr rest

/-- The loop of `add_function` that compares the member list of the
existing function with the new parameter list. -/
def check_params (fname : String) : List Sym → ASTnode → Res Unit
  -- No remaining parameters
  | [], .NULL => Except.ok ()
  -- Different number of parameters
  | [], .node _ _ _ _ _ _ _ _ _ =>
    fatal (fname ++ "() declaration: # params different than previous\n")
  | _ :: _, .NULL =>
    fatal (fname ++ "() declaration: # params different than previous\n")
  | this :: rest, .node _ ptype _ _ pmid _ _ _ pstrlit =>
    match pstrlit with
    | none => Except.error Err.segv
    | some pname =>
      -- Parameter names differ
      if this.name ≠ pname then
        fatal (fname ++ "() declaration: param name mismatch " ++ this.name ++ " vs " ++
          pname ++ "\n")
      -- Parameter types differ
      else if this.type ≠ ptype then
        match this.type, ptype with
        | some t1, some t2 =>
          fatal (fname ++ "() declaration: param type mismatch " ++ get_typename t1 ++
            " vs " ++ get_typename t2 ++ "\n")
        | _, _ => Except.error Err.segv
      -- Move up to the next parameter in both lists
      else check_params fname rest pmid

/-- The loop of `add_function` that adds each name and type of the
parameter list to the member list of the new function at address `fa`;
the result is the number of parameters. -/
def add_params (fa : Nat) : ASTnode → Int → Symtab → Res (Int × Symtab)
  | .NULL, paramcnt, st => Except.ok (paramcnt, st)
  | .node _ ptype _ _ pmid _ _ _ pstrlit, paramcnt, st =>
    match pstrlit, sym_at fa st.Symhead with
    | some pname, some funcptr =>
      match add_sym_to funcptr.memb pname ST_VARIABLE ptype st with
      -- The assignment `this->has_addr= false` through NULL
      | (none, _, _) => Except.error Err.segv
      | (some this, memb, st1) =>
        let memb1 := memb.map (fun p => if p.addr = this.addr then p.set_has_addr false else p)
        add_params fa pmid (paramcnt + 1)
          { st1 with Symhead := update_sym fa (Sym.set_memb memb1) st1.Symhead }
    | _, _ => Except.error Err.segv

/-- Given an ASTnode representing the name and type of a function and a
second ASTnode holding a list of parameters, add the function to the symbol
table.  Die if the function exists and the parameter list is different or
the type of the existing function does not match the new one.  Return 1 if
there was a previous function declaration that had a statement block,
otherwise 0. -/
def add_function (func paramlist : ASTnode) (st : Symtab) : Res (Int × Symtab) := do
  let fstr ← func.strlit
  let ftype ← func.type
  match fstr with
  | none => Except.error Err.segv
  | some fname =>
    -- Try to add the function to the symbol table
    match add_sym_to st.Symhead fname ST_FUNCTION ftype st with
    | (none, _, _) =>
      -- The function already exists.  Find the existing prototype
      match find_symbol (some fname) st with
      | none => Except.error Err.segv
      | some funcptr =>
        -- Check the return type
        if ftype ≠ funcptr.type then
          match ftype, funcptr.type with
          | some t1, some t2 =>
            fatal (fname ++ "() declaration has different type than previous: " ++
              get_typename t1 ++ " vs " ++ get_typename t2 ++ "\n")
          | _, _ => Except.error Err.segv
        else do
          -- Walk both the paramlist and the member list to verify both
          -- lists are the same
          check_params fname funcptr.memb paramlist
          -- All OK.  Return the intval of the function: 1 means that it
          -- was previously declared with a statement block
          Except.ok (to_int32 funcptr.initval.intval, st)
    | (some funcptr, head, st1) => do
      -- The function is a new one.  Walk the parmlist adding each name and
      -- type to the member list of the function
      let (paramcnt, st2) ← add_params funcptr.addr paramlist 0 { st1 with Symhead := head }
      -- Set the number of function parameters
      Except.ok (0, { st2 with
        Symhead := update_sym funcptr.addr (Sym.set_count paramcnt) st2.Symhead })

/-! ## cgen.c (continued), strlits.c and genast.c

The code generator works on `Genst`: the state `Cgen` of cgen.c, the label
counter of genast.c and the list of string literals of strlits.c.  The
text printf writes for a `double` with `%f` is outside the model and is the
field `fmt_f` of `Libc`, next to `strtod`. -/

/-- The libc functions on floating-point numbers that the compiler calls,
as functions on the bit pattern of a `double`. -/
structure Libc where
  strtod : List Char → Nat
  fmt_f : Nat → String

/-- An entry of the list of string literals. -/
structure Strlit where
  val : String
  label : Int
  deriving DecidableEq, Repr

/-- State of code generation: `Cgen`, the static `labelid` of genast.c
and the static list `Strhead` of strlits.c. -/
structure Genst where
  cg : Cgen
  labelid : Int
  Strhead : List Strlit
  deriving DecidableEq, Repr

/-- The state at program start (`static int labelid = 1`). -/
def Genst.init : Genst := ⟨Cgen.init, 1, []⟩

/-- One `fprintf(Outfh, ...)`. -/
def Genst.emit (g : Genst) (text : String) : Genst := { g with cg := g.cg.emit text }

/-- Generate and return a new label number: `return (labelid++)`. -/
def genlabel (g : Genst) : Int × Genst := (g.labelid, { g with labelid := g.labelid + 1 })

/-- Generate a label. -/
def cglabel (l : Int) (g : Genst) : Genst := g.emit ("@L" ++ toString l ++ "\n")

/-- The text `cgstrlit` writes for one character of a string literal. -/
def cgstrlit_char (c : Char) : String :=
  if c.toNat = 7 then "\\a"
  else if c.toNat = 8 then "\\b"
  else if c.toNat = 12 then "\\f"
  else if c.toNat = 10 then "\\n"
  else if c.toNat = 13 then "\\r"
  else if c.toNat = 9 then "\\t"
  else if c.toNat = 11 then "\\v"
  else String.mk [c]

/-- Generate a string literal. -/
def cgstrlit (label : Int) (val : String) (g : Genst) : Genst :=
  ((g.emit ("data $L" ++ toString label ++ " = \x7b b \"")).emit
    (String.join (val.toList.map cgstrlit_char))).emit "\", b 0 \x7d\n"

/-- Generate a jump to a label. -/
def cgjump (l : Int) (g : Genst) : Genst := g.emit ("  jmp @L" ++ toString l ++ "\n")

/-- Print out the file preamble. -/
def cg_file_preamble (g : Genst) : Genst := g

/-- The loop of `cg_func_preamble` over the list of parameters. -/
def cg_func_params : List Sym → Genst → Res Genst
  | [], g => Except.ok g
  | this :: rest, g => do
    -- Get the type of the parameter
    let qtype ← qbetype this.type
    let g := g.emit (qtype ++ " %" ++ this.name)
    -- Print out any comma separator
    let g := if rest.isEmpty then g else g.emit ", "
    cg_func_params rest g

/-- Print out the function preamble. -/
def cg_func_preamble (func : Sym) (g : Genst) : Res Genst := do
  let g := g.emit ("export function $" ++ func.name ++ "(")
  -- Output the list of parameters
  let g ← cg_func_params func.memb g
  Except.ok ((g.emit ") \x7b\n").emit "@START\n")

/-- Print out the function postamble. -/
def cg_func_postamble (g : Genst) : Genst :=
  ((g.emit "@END\n").emit "  ret\n").emit "\x7d\n"

/-- Print out the value of a temporary using printf(). -/
def cgprint (label temp : Int) (type : Option Ty) (g : Genst) : Res Genst := do
  -- Get the matching QBE type
  let qtype ← qbetype type
  Except.ok (g.emit ("  call $printf(l $L" ++ toString label ++ ", " ++ qtype ++ " %.t" ++
    toString temp ++ ")\n"))

/-- The allocation of a temporary in the state `Genst`. -/
def Genst.alloctemp (g : Genst) : Int × Genst :=
  ((cgalloctemp g.cg).1, { g with cg := (cgalloctemp g.cg).2 })

/-- Load an integer literal value into a temporary.  Return the number of
the temporary. -/
def cgloadlit (lc : Libc) (value : Litval) (type : Option Ty) (g : Genst) :
    Res (Int × Genst) := do
  -- Get a new temporary
  let (t, g) := g.alloctemp
  -- Get the matching QBE type
  let qtype ← qbetype type
  let ty ← deref type
  if ty.kind = TY_FLT32 ∨ ty.kind = TY_FLT64 then
    Except.ok (t, g.emit ("  %.t" ++ toString t ++ " =" ++ qtype ++ " copy " ++ qtype ++
      "_" ++ lc.fmt_f value.bits ++ "\n"))
  else
    Except.ok (t, g.emit ("  %.t" ++ toString t ++ " =" ++ qtype ++ " copy " ++
      toString value.intval ++ "\n"))

/-- Perform a binary operation on two temporaries and return the number of
the temporary with the result. -/
def cgbinop (t1 t2 : Int) (op : String) (type : Option Ty) (g : Genst) :
    Res (Int × Genst) := do
  -- Get the matching QBE type
  let qtype ← qbetype type
  Except.ok (t1, g.emit ("  %.t" ++ toString t1 ++ " =" ++ qtype ++ " " ++ op ++ " %.t" ++
    toString t1 ++ ", %.t" ++ toString t2 ++ "\n"))

/-- Add two temporaries together. -/
def cgadd (t1 t2 : Int) (type : Option Ty) (g : Genst) : Res (Int × Genst) :=
  cgbinop t1 t2 "add" type g

/-- Subtract the second temporary from the first. -/
def cgsub (t1 t2 : Int) (type : Option Ty) (g : Genst) : Res (Int × Genst) :=
  cgbinop t1 t2 "sub" type g

/-- Multiply two temporaries together. -/
def cgmul (t1 t2 : Int) (type : Option Ty) (g : Genst) : Res (Int × Genst) :=
  cgbinop t1 t2 "mul" type g

/-- Divide the first temporary by the second. -/
def cgdiv (t1 t2 : Int) (type : Option Ty) (g : Genst) : Res (Int × Genst) :=
  cgbinop t1 t2 "div" type g

/-- Negate the value of a temporary. -/
def cgnegate (t : Int) (type : Option Ty) (g : Genst) : Res (Int × Genst) := do
  let qtype ← qbetype type
  Except.ok (t, g.emit ("  %.t" ++ toString t ++ " =" ++ qtype ++ " sub 0, %.t" ++
    toString t ++ "\n"))

/-- Jump to the label if the value in t1 is zero. -/
def cgjump_if_false (t1 label : Int) (g : Genst) : Genst :=
  -- Get a label for the next instruction
  let (label2, g) := genlabel g
  let g := g.emit ("  jnz %.t" ++ toString t1 ++ ", @L" ++ toString label2 ++ ", @L" ++
    toString label ++ "\n")
  cglabel label2 g

/-- Logically NOT the value of a temporary. -/
def cgnot (t : Int) (type : Option Ty) (g : Genst) : Res (Int × Genst) := do
  -- Get the matching QBE type
  let qtype ← qbetype type
  Except.ok (t, g.emit ("  %.t" ++ toString t ++ " =" ++ qtype ++ " ceq" ++ qtype ++ " %.t" ++
    toString t ++ ", 0\n"))

/-- Invert the value of a temporary. -/
def cginvert (t : Int) (type : Option Ty) (g : Genst) : Res (Int × Genst) := do
  let qtype ← qbetype type
  Except.ok (t, g.emit ("  %.t" ++ toString t ++ " =" ++ qtype ++ " xor %.t" ++ toString t ++
    ", -1\n"))

/-- Bitwise AND two temporaries together. -/
def cgand (t1 t2 : Int) (type : Option Ty) (g : Genst) : Res (Int × Genst) :=
  cgbinop t1 t2 "and" type g

/-- Bitwise OR two temporaries together. -/
def cgor (t1 t2 : Int) (type : Option Ty) (g : Genst) : Res (Int × Genst) :=
  cgbinop t1 t2 "or" type g

/-- Bitwise XOR two temporaries together. -/
def cgxor (t1 t2 : Int) (type : Option Ty) (g : Genst) : Res (Int × Genst) :=
  cgbinop t1 t2 "xor" type g

/-- Shift left t1 by t2 bits. -/
def cgshl (t1 t2 : Int) (type : Option Ty) (g : Genst) : Res (Int × Genst) :=
  cgbinop t1 t2 "shl" type g

/-- Shift right t1 by t2 bits. -/
def cgshr (t1 t2 : Int) (type : Option Ty) (g : Genst) : Res (Int × Genst) :=
  cgbinop t1 t2 "shr" type g

/-- Add space for a local variable. -/
def cgaddlocal (type : Option Ty) (sym : Option Sym) (g : Genst) : Res Genst := do
  let ty ← deref type
  -- Get the size of the type.  Make it at least 4 bytes
  let size : Nat := if ty.size < 4 then 4 else ty.size
  match sym with
  | none => Except.error Err.segv
  | some sy =>
    Except.ok (g.emit ("  %" ++ sy.name ++ " =l alloc" ++ toString size ++ " 1\n"))

/-- The loop of `cgcall` over the arguments. -/
def cgcall_args : List (Int × Option Ty) → Genst → Res Genst
  | [], g => Except.ok g
  | (arg, ty) :: rest, g => do
    let qtype ← qbetype ty
    let g := g.emit (qtype ++ " %.t" ++ toString arg)
    let g := if rest.isEmpty then g else g.emit ", "
    cgcall_args rest g

/-- Call a function with the given symbol.  Return the temporary with the
result.  The arrays `arglist` and `typelist` are one list of pairs. -/
def cgcall (sym : Sym) (args : List (Int × Option Ty)) (g : Genst) : Res (Int × Genst) := do
  -- Get a new temporary for the return result
  let (rettemp, g) := g.alloctemp
  -- Call the function
  let g ←
    if sym.type = some ty_void then
      Except.ok (g.emit ("  call $" ++ sym.name ++ "("))
    else do
      let qtype ← qbetype sym.type
      Except.ok (g.emit ("  %.t" ++ toString rettemp ++ " =" ++ qtype ++ " call $" ++
        sym.name ++ "("))
  -- Output the list of arguments
  let g ← cgcall_args args g
  Except.ok (rettemp, g.emit ")\n")

/-- The functions that work on `Cgen`, run on the state `Genst`. -/
def Genst.lift {α : Type} (f : Cgen → Res (α × Cgen)) (g : Genst) : Res (α × Genst) := do
  let (a, cg) ← f g.cg
  Except.ok (a, { g with cg := cg })

/-- The walk of `add_strlit` that looks for the literal in the list. -/
def find_strlit (name : String) : List Strlit → Option Int
  | [] => none
  | this :: rest => if this.val = name then some this.label else find_strlit name rest

/-- Add a new string literal to the list and return its label number. -/
def add_strlit (name : String) (g : Genst) : Int × Genst :=
  -- If it already exists, do not add it
  match find_strlit name g.Strhead with
  | some label => (label, g)
  | none =>
    -- Make a new Strlit node and link it to the list
    let (label, g) := genlabel g
    (label, { g with Strhead := ⟨name, label⟩ :: g.Strhead })

/-- The loop of `gen_strlits`. -/
def gen_strlits_loop : List Strlit → Genst → Genst
  | [], g => g
  | this :: rest, g => gen_strlits_loop rest (cgstrlit this.label this.val g)

/-- Generate code for all string literals. -/
def gen_strlits (g : Genst) : Genst := gen_strlits_loop g.Strhead g

/-- The loop of `gen_funccall` that counts the A_GLUE nodes on the right
spine of the argument list. -/
def count_args : ASTnode → Int
  | .NULL => 0
  | .node op _ _ _ _ right _ _ _ => (if op = A_GLUE then 1 else 0) + count_args right

/-- The second loop of `gen_funccall`: check and, if needed, widen the type
of each expression to match the type of the parameter, generate the code
for each expression and collect the temporary and the type of each one.
`rec` is `genAST`, `i` the index into the arrays of `numargs` entries. -/
def gen_funccall_args (rec : ASTnode → Genst → Res (Int × Genst)) (numargs : Int) :
    Nat → Nat → ASTnode → List Sym → Genst → Res (List (Int × Option Ty) × Genst)
  | _, _, .NULL, _, g => Except.ok ([], g)
  | 0, _, .node _ _ _ _ _ _ _ _ _, _, _ => Except.error Err.fuel
  | k + 1, i, .node op ty rv left mid right sym v s, param, g =>
    match param with
    | [] => Except.error Err.segv
    | p :: prest =>
      if op = A_GLUE then do
        let left1 ← widen_expression left p.type
        let lty ← left1.type
        if (i : Int) ≥ numargs then Except.error Err.segv
        else do
          let (t, g) ← rec left1 g
          let (args, g) ← gen_funccall_args rec numargs k (i + 1) right prest g
          Except.ok ((t, lty) :: args, g)
      else do
        let this1 ← widen_expression (ASTnode.node op ty rv left mid right sym v s) p.type
        let tty ← this1.type
        if (i : Int) ≥ numargs then Except.error Err.segv
        else do
          let (t, g) ← rec this1 g
          let nxt ← this1.right
          let (args, g) ← gen_funccall_args rec numargs k (i + 1) nxt prest g
          Except.ok ((t, tty) :: args, g)

/-- Generate the argument values for a function call and then perform the
call itself. -/
def gen_funccall (rec : ASTnode → Genst → Res (Int × Genst)) (fuel : Nat) (syms : Symtab)
    (n : ASTnode) (g : Genst) : Res (Int × Genst) := do
  let left ← n.left
  let name ← left.strlit
  -- Get the matching symbol for the name of the function
  match find_symbol name syms with
  | none => fatal ("unknown function " ++ str_or_null name ++ "()\n")
  | some func =>
    if func.symtype ≠ ST_FUNCTION then fatal (str_or_null name ++ " is not a function\n")
    else do
      -- Walk the expression list to count the number of arguments
      let right ← n.right
      let numargs := count_args right
      -- Check the arg count vs. the function parameter count
      if numargs ≠ func.count then
        fatal ("wrong number of arguments to " ++ str_or_null name ++ "(): " ++
          toString numargs ++ " vs. " ++ toString func.count ++ "\n")
      else do
        let (args, g) ←
          if numargs > 0 then gen_funccall_args rec numargs fuel 0 right func.memb g
          else Except.ok ([], g)
        -- Generate the QBE code
        let (_, g) ← cgcall func args g
        Except.ok (NOREG, g)

/-- Generate the code for an IF statement and an optional ELSE clause. -/
def gen_IF (rec : ASTnode → Genst → Res (Int × Genst)) (n : ASTnode) (g : Genst) :
    Res Genst := do
  let left ← n.left
  let mid ← n.mid
  let right ← n.right
  -- Generate two labels: one for the false compound statement, and one for
  -- the end of the overall IF statement
  let (Lfalse, g) := genlabel g
  let (Lend, g) := if right.isNULL then (0, g) else genlabel g
  -- Generate the condition code
  let (t1, g) ← rec left g
  -- Jump if false to the false label
  let g := cgjump_if_false t1 Lfalse g
  -- Generate the true statement block
  let (_, g) ← rec mid g
  -- If there is an optional ELSE clause, generate the jump to skip to the end
  let g :=
    if right.isNULL then g
    else
      let (l, g) := genlabel g
      cgjump Lend (cglabel l g)
  -- Now the false label
  let g := cglabel Lfalse g
  -- Optional ELSE clause: generate the false statement block and the end label
  if right.isNULL then Except.ok g
  else do
    let (_, g) ← rec right g
    Except.ok (cglabel Lend g)

/-- Generate the code for a WHILE statement. -/
def gen_WHILE (rec : ASTnode → Genst → Res (Int × Genst)) (n : ASTnode) (g : Genst) :
    Res Genst := do
  let left ← n.left
  let mid ← n.mid
  -- Generate the start and end labels and output the start label
  let (Lstart, g) := genlabel g
  let (Lend, g) := genlabel g
  let g := cglabel Lstart g
  -- Generate the condition code
  let (t1, g) ← rec left g
  -- Jump if false to the end label
  let g := cgjump_if_false t1 Lend g
  -- Generate the statement block for the WHILE body
  let (_, g) ← rec mid g
  -- Finally output the jump back to the condition, and the end label
  Except.ok (cglabel Lend (cgjump Lstart g))

/-- Generate space for a local variable and assign its value. -/
def gen_local (rec : ASTnode → Genst → Res (Int × Genst)) (n : ASTnode) (g : Genst) :
    Res Genst := do
  let ty ← n.type
  let sym ← n.sym
  let left ← n.left
  let mid ← n.mid
  let right ← n.right
  -- Allocate space for the variable
  let g ← cgaddlocal ty sym g
  -- Get the value of the expression on the left
  let (lefttemp, g) ← rec left g
  -- Store this into the local variable
  let (_, g) ← g.lift (fun cg => (cgstorvar lefttemp ty sym cg).map (fun x => ((), x)))
  -- and generate any code for the other children
  let (_, g) ← rec mid g
  let (_, g) ← rec right g
  Except.ok g

/-- The value of a temporary variable of `genAST` that is read: a read of
one that was never assigned is undefined. -/
def temp_val (t : Option Int) : Res Int :=
  match t with
  | none => Except.error Err.segv
  | some v => Except.ok v

/-- Given an AST, generate assembly code recursively.  Return the temporary
id with the final value of the tree.  The fuel bounds the depth of the
walk. -/
def genAST (lc : Libc) (syms : Symtab) : Nat → ASTnode → Genst → Res (Int × Genst)
  | _, .NULL, g => Except.ok (NOREG, g)
  | 0, .node _ _ _ _ _ _ _ _ _, _ => Except.error Err.fuel
  | fuel + 1, .node op ty rv left mid right sym v s, g =>
    let n := ASTnode.node op ty rv left mid right sym v s
    let rec_ := genAST lc syms fuel
    -- Do special case nodes before the general processing
    if op = A_PRINT then do
      let (righttemp, g) ← rec_ right g
      let lstr ← left.strlit
      match lstr with
      | none => Except.error Err.segv
      | some str =>
        let (label, g) := add_strlit str g
        let rty ← right.type
        let g ← cgprint label righttemp rty g
        Except.ok (NOREG, g)
    else if op = A_LOCAL then do
      let g ← gen_local rec_ n g
      Except.ok (NOREG, g)
    else if op = A_FUNCCALL then gen_funccall rec_ fuel syms n g
    else if op = A_IF then do
      let g ← gen_IF rec_ n g
      Except.ok (NOREG, g)
    else if op = A_WHILE then do
      let g ← gen_WHILE rec_ n g
      Except.ok (NOREG, g)
    else if op = A_FOR then do
      -- Generate the initial code
      let (_, g) ← rec_ right g
      -- Now call gen_WHILE() using the left and mid children
      let g ← gen_WHILE rec_ n g
      Except.ok (NOREG, g)
    else do
      -- Load the left and right sub-trees into temporaries
      let (lefttemp, g) ←
        if left.isNULL then Except.ok ((none : Option Int), g)
        else do
          let (t, g) ← rec_ left g
          Except.ok (some t, g)
      let (righttemp, g) ←
        if right.isNULL then Except.ok ((none : Option Int), g)
        else do
          let (t, g) ← rec_ right g
          Except.ok (some t, g)
      let two (f : Int → Int → Option Ty → Genst → Res (Int × Genst)) :
          Res (Int × Genst) := do
        let l ← temp_val lefttemp
        let r ← temp_val righttemp
        f l r ty g
      let one (f : Int → Option Ty → Genst → Res (Int × Genst)) : Res (Int × Genst) := do
        let l ← temp_val lefttemp
        f l ty g
      -- General processing
      if op = A_NUMLIT then cgloadlit lc v ty g
      else if op = A_ADD then two cgadd
      else if op = A_SUBTRACT then two cgsub
      else if op = A_MULTIPLY then two cgmul
      else if op = A_DIVIDE then two cgdiv
      else if op = A_NEGATE then one cgnegate
      else if op = A_IDENT then g.lift (cgloadvar sym)
      else if op = A_ASSIGN then do
        let l ← temp_val lefttemp
        let (_, g) ← g.lift (fun cg => (cgstorvar l ty sym cg).map (fun x => ((), x)))
        Except.ok (NOREG, g)
      else if op = A_CAST then do
        let l ← temp_val lefttemp
        let lty ← left.type
        g.lift (cgcast l lty ty)
      else if A_EQ ≤ op ∧ op ≤ A_GE then do
        let l ← temp_val lefttemp
        let r ← temp_val righttemp
        let lty ← left.type
        g.lift (cgcompare op l r lty)
      else if op = A_INVERT then one cginvert
      else if op = A_AND then two cgand
      else if op = A_OR then two cgor
      else if op = A_XOR then two cgxor
      else if op = A_LSHIFT then two cgshl
      else if op = A_RSHIFT then two cgshr
      else if op = A_NOT then one cgnot
      else if op = A_GLUE then Except.ok (NOREG, g)
      -- Error
      else fatal ("genAST() unknown op " ++ toString op ++ "\n")

/-! ## stmts.c, funcs.c (continued), parser.c and main.c

The whole compiler works on `Comp`: the lexer, the symbol table and the code
generator.  The debug file is not open (`Debugfh` is NULL).  The statement
parsers call each other through `statement_block`; the recursion is cut by
the parameter `sb` and tied again in `statement_block` by the fuel, which
also bounds every loop and is handed to `scan` and `genAST`. -/

/-- The state of a compilation. -/
structure Comp where
  lex : Lex
  syms : Symtab
  gen : Genst
  deriving Repr

/-- Given an ASTnode s which holds a string literal and an ASTnode e which
holds an expression, return an A_PRINT ASTnode. -/
def print_statement (s e : ASTnode) : Res ASTnode := do
  let ety ← e.type
  let et ← deref ety
  -- If we are printing a flt32, widen it to be a flt64
  let e1 ← if et.kind = TY_FLT32 then widen_type e (some ty_flt64) else Except.ok e
  -- Make an A_PRINT AST node
  Except.ok (mkastnode A_PRINT s ASTnode.NULL e1)

/-- Given an ASTnode v which represents a variable and an ASTnode e which
holds an expression, return an A_ASSIGN ASTnode with both of them. -/
def assignment_statement (v e : ASTnode) : Res ASTnode := do
  -- Widen the type of the expression if required
  let vty ← v.type
  let e1 ← widen_expression e vty
  let vsym ← v.sym
  match vsym with
  | none => Except.error Err.segv
  | some sy =>
    Except.ok ((ASTnode.set_left e1 ((v.set_rvalue false).set_op A_ASSIGN)).set_type sy.type)

/-- Given an A_IDENT ASTnode s which represents a typed symbol and an
ASTnode e which holds an expression, add the symbol to the symbol table (or
err if it exists) and also to the ASTnode.  Change the ASTnode to be an
A_LOCAL.  Then add the expression as the left child.  Return the s node. -/
def declaration_statement (s e : ASTnode) (st : Symtab) : Res (ASTnode × Symtab) := do
  let sty ← s.type
  -- Widen the type of the expression if required
  let newnode ← widen_type e sty
  if newnode.isNULL then do
    let ety ← e.type
    let et ← deref ety
    let t ← deref sty
    fatal ("Incompatible types " ++ get_typename et ++ " vs " ++ get_typename t ++ "\n")
  else do
    -- Add the symbol to the symbol table
    let sname ← s.strlit
    match sname with
    | none => Except.error Err.segv
    | some name =>
      let (sym, st) ← add_symbol name ST_VARIABLE sty st
      let st := { st with Symhead := update_sym sym.addr (Sym.set_has_addr true) st.Symhead }
      -- Add the symbol pointer and the expresson to the s node.  Update the
      -- operation of the node
      Except.ok ((ASTnode.set_left newnode (s.set_sym (some (sym.set_has_addr true)))).set_op A_LOCAL,
        st)

/-- The symbol a pointer returned by `find_symbol` points to, read again
after an assignment through the pointer. -/
def sym_reload (s : Sym) (st : Symtab) : Sym :=
  match sym_at s.addr st.Symhead with
  | some s1 => s1
  | none =>
    match (st.Symhead.flatMap Sym.memb).find? (fun p => p.addr = s.addr) with
    | some p => p
    | none => s

/-- Declare a function which has a statement block. -/
def declare_function (f : ASTnode) (c : Comp) : Res Comp := do
  let fleft ← f.left
  -- Add the function declaration to the symbol table.  Die if a previous
  -- declaration had a statement block
  let (r, st) ← add_function f fleft c.syms
  let fname ← f.strlit
  if r ≠ 0 then fatal ("multiple declarations for " ++ str_or_null fname ++ "()\n")
  else
    -- Find the symbol entry of the function and mark that it does have a
    -- statement block
    match find_symbol fname st with
    | none => Except.error Err.segv
    | some this0 =>
      let st := { st with
        Symhead := update_sym this0.addr (Sym.set_initval (Litval.of_int 1)) st.Symhead }
      let this := sym_reload this0 st
      do
        let g ← cg_func_preamble this c.gen
        Except.ok { c with syms := new_scope (some this) st, gen := g }

/-- Generate the statement block of a function. -/
def gen_func_statement_block (lc : Libc) (fuel : Nat) (s : ASTnode) (c : Comp) :
    Res Comp := do
  let (_, g) ← genAST lc c.syms fuel s c.gen
  Except.ok { c with gen := cg_func_postamble g, syms := end_scope c.syms }

/-- List of tokens as strings. -/
def tokstr : List String :=
  ["EOF",
   "&", "|", "^",
   "==", "!=", "<", ">", "<=", ">=",
   "<<", ">>",
   "+", "-", "*", "/", "%",
   "=", "~", "!", "&&", "||",
   "void", "bool",
   "int8", "int16", "int32", "int64",
   "uint8", "uint16", "uint32", "uint64",
   "flt32", "flt64",
   "if", "else", "false", "for", "printf",
   "true", "while",
   "numlit", "strlit", ";", "ident",
   "\x7b", "\x7d", "(", ")",
   ","]

/-- Function `get_tokenstr`: an index outside the table is a crash. -/
def get_tokenstr (token : Nat) : Res String :=
  match tokstr.get? token with
  | some s => Except.ok s
  | none => Except.error Err.segv

/-- The call `scan(&Thistoken)`. -/
def scan_this (lc : Libc) (fuel : Nat) (c : Comp) : Res Comp := do
  let (_, _, lx) ← scan lc.strtod fuel true c.lex.Thistoken c.lex
  Except.ok { c with lex := lx }

/-- The call `scan(&Peektoken)`: the token is scanned into the look-ahead
slot.  When the slot holds a token already, `scan` copies it onto itself
and then marks the slot empty. -/
def scan_peek (lc : Libc) (fuel : Nat) (c : Comp) : Res Comp :=
  if c.lex.Peektoken.token ≠ 0 then
    Except.ok { c with lex := { c.lex with Peektoken := { c.lex.Peektoken with
      numval := Litval.of_int c.lex.Peektoken.numval.intval, token := 0 } } }
  else do
    let (_, t, lx) ← scan lc.strtod fuel false c.lex.Peektoken c.lex
    Except.ok { c with lex := { lx with Peektoken := t } }

/-- Function `match`: ensure that the current token is t, and possibly
fetch the next token.  Otherwise throw an error. -/
def match_tok (lc : Libc) (fuel : Nat) (t : Nat) (getnext : Bool) (c : Comp) : Res Comp :=
  if c.lex.Thistoken.token ≠ t then do
    let s1 ← get_tokenstr t
    let s2 ← get_tokenstr c.lex.Thistoken.token
    fatal ("Expected " ++ s1 ++ ", got " ++ s2 ++ "\n")
  else if getnext then scan_this lc fuel c
  else Except.ok c

/-- Match a semicolon and fetch the next token. -/
def semi (lc : Libc) (fuel : Nat) (c : Comp) : Res Comp := match_tok lc fuel T_SEMI true c

/-- Match a left brace and fetch the next token. -/
def lbrace (lc : Libc) (fuel : Nat) (c : Comp) : Res Comp := match_tok lc fuel T_LBRACE true c

/-- Match a right brace and fetch the next token. -/
def rbrace (lc : Libc) (fuel : Nat) (c : Comp) : Res Comp := match_tok lc fuel T_RBRACE true c

/-- Match a left parenthesis and fetch the next token. -/
def lparen (lc : Libc) (fuel : Nat) (c : Comp) : Res Comp := match_tok lc fuel T_LPAREN true c

/-- Match a right parenthesis and fetch the next token. -/
def rparen (lc : Libc) (fuel : Nat) (c : Comp) : Res Comp := match_tok lc fuel T_RPAREN true c

/-- Match an identifer and fetch the next token. -/
def ident (lc : Libc) (fuel : Nat) (c : Comp) : Res Comp := match_tok lc fuel T_IDENT true c

/-- Match a comma and fetch the next token. -/
def comma (lc : Libc) (fuel : Nat) (c : Comp) : Res Comp := match_tok lc fuel T_COMMA true c

/-- Function `type` of the parser: return the Type that matches the current
token.  The local `t` is not initialised and the `switch` has no default
case, so for a token that is not a type the test `t==NULL` reads a local
that was never assigned; the built binary finds NULL there and stops with
`Unknown type`, and so does the model. -/
def type_ (lc : Libc) (fuel : Nat) (c : Comp) : Res (Option Ty × Comp) := do
  let tok := c.lex.Thistoken.token
  -- See if this token is a built-in type
  let t : Option Ty ←
    if tok = T_VOID then Except.ok (some ty_void)
    else if tok = T_BOOL then Except.ok (some ty_bool)
    else if tok = T_INT8 then Except.ok (some ty_int8)
    else if tok = T_INT16 then Except.ok (some ty_int16)
    else if tok = T_INT32 then Except.ok (some ty_int32)
    else if tok = T_INT64 then Except.ok (some ty_int64)
    else if tok = T_UINT8 then Except.ok (some ty_uint8)
    else if tok = T_UINT16 then Except.ok (some ty_uint16)
    else if tok = T_UINT32 then Except.ok (some ty_uint32)
    else if tok = T_UINT64 then Except.ok (some ty_uint64)
    else if tok = T_FLT32 then Except.ok (some ty_flt32)
    else if tok = T_FLT64 then Except.ok (some ty_flt64)
    else Except.ok none
  if t = none then do
    let s ← get_tokenstr tok
    fatal ("Unknown type " ++ s ++ "\n")
  else do
    -- Get the next token and return
    let c ← scan_this lc fuel c
    Except.ok (t, c)

/-- Get a symbol declaration along with its type as an ASTnode. -/
def typed_declaration (lc : Libc) (fuel : Nat) (c : Comp) : Res (ASTnode × Comp) := do
  let (t, c) ← type_ lc fuel c
  let c ← match_tok lc fuel T_IDENT true c
  let identifier := mkastleaf A_IDENT none false none 0
  let identifier := identifier.set_strlit (some (String.mk (cstr c.lex.Text)))
  Except.ok (identifier.set_type t, c)

/-- Get a linked list of typed declarations as a set of ASTnodes linked by
the middle child.  The loop that links each declaration to the one before it
is written as a recursion on the rest of the list. -/
def typed_declaration_list (lc : Libc) (fuel : Nat) : Nat → Comp → Res (ASTnode × Comp)
  | k, c => do
    -- Get the first typed_declaration
    let (first, c) ← typed_declaration lc fuel c
    -- If no comma, stop now
    if c.lex.Thistoken.token ≠ T_COMMA then Except.ok (first, c)
    else
      match k with
      | 0 => Except.error Err.fuel
      | k1 + 1 => do
        -- Skip the comma.  Get the next declaration and link it in
        let c ← scan_this lc fuel c
        let (nxt, c) ← typed_declaration_list lc fuel k1 c
        Except.ok (ASTnode.set_mid nxt first, c)

/-- Parse a function prototype and return an ASTnode with the details. -/
def function_prototype (lc : Libc) (fuel : Nat) (c : Comp) : Res (ASTnode × Comp) := do
  -- Get the name and type of the function
  let (func, c) ← typed_declaration lc fuel c
  let c ← lparen lc fuel c
  -- If the next token is VOID, skip it
  let (paramlist, c) ←
    if c.lex.Thistoken.token = T_VOID then do
      let c ← scan_this lc fuel c
      Except.ok (ASTnode.NULL, c)
    else
      -- Get the list of parameters
      typed_declaration_list lc fuel fuel c
  let c ← rparen lc fuel c
  Except.ok (ASTnode.set_left paramlist func, c)

/-- Parser function `variable`. -/
def variable_ (lc : Libc) (fuel : Nat) (c : Comp) : Res (ASTnode × Comp) := do
  let n := mkastleaf A_IDENT none false none 0
  let n := n.set_strlit c.lex.Thistoken.tokstr
  -- Check variable exists, get its type
  let n ← mkident n c.syms
  let c ← scan_this lc fuel c
  Except.ok (n, c)

/-- Parser function `factor`. -/
def factor (lc : Libc) (fuel : Nat) (c : Comp) : Res (ASTnode × Comp) :=
  let tok := c.lex.Thistoken.token
  if tok = T_NUMLIT then do
    -- Build an ASTnode with the numeric value and suitable type
    let f := mkastleaf A_NUMLIT (some (parse_litval c.lex.Thistoken)) true none
      c.lex.Thistoken.numval.uintval
    let c ← scan_this lc fuel c
    Except.ok (f, c)
  else if tok = T_TRUE then do
    let f := mkastleaf A_NUMLIT (some ty_bool) true none 1
    let c ← scan_this lc fuel c
    Except.ok (f, c)
  else if tok = T_FALSE then do
    let f := mkastleaf A_NUMLIT (some ty_bool) true none 0
    let c ← scan_this lc fuel c
    Except.ok (f, c)
  else if tok = T_IDENT then variable_ lc fuel c
  else do
    let s ← get_tokenstr tok
    fatal ("Unknown token as a factor: " ++ s ++ "\n")

/-- The loop of `multiplicative_expression`. -/
def multiplicative_loop (lc : Libc) (fuel : Nat) : Nat → ASTnode → Comp → Res (ASTnode × Comp)
  | k, left, c =>
    let tok := c.lex.Thistoken.token
    if tok = T_STAR ∨ tok = T_SLASH then
      match k with
      | 0 => Except.error Err.fuel
      | k1 + 1 => do
        let c ← scan_this lc fuel c
        let (right, c) ← factor lc fuel c
        let left ← binop left right (if tok = T_STAR then A_MULTIPLY else A_DIVIDE)
        multiplicative_loop lc fuel k1 left c
    else Except.ok (left, c)

/-- Parser function `multiplicative_expression`. -/
def multiplicative_expression (lc : Libc) (fuel : Nat) (c : Comp) : Res (ASTnode × Comp) := do
  -- Get the first factor
  let (left, c) ← factor lc fuel c
  -- See if we have more multiplicative operations
  multiplicative_loop lc fuel fuel left c

/-- The loop of `additive_expression`. -/
def additive_loop (lc : Libc) (fuel : Nat) : Nat → ASTnode → Comp → Res (ASTnode × Comp)
  | k, left, c =>
    let tok := c.lex.Thistoken.token
    if tok = T_PLUS ∨ tok = T_MINUS then
      match k with
      | 0 => Except.error Err.fuel
      | k1 + 1 => do
        let c ← scan_this lc fuel c
        let (right, c) ← multiplicative_expression lc fuel c
        let left ← binop left right (if tok = T_PLUS then A_ADD else A_SUBTRACT)
        additive_loop lc fuel k1 left c
    else Except.ok (left, c)

/-- Parser function `additive_expression`. -/
def additive_expression (lc : Libc) (fuel : Nat) (c : Comp) : Res (ASTnode × Comp) := do
  -- Deal with a leading '+' or '-'
  let tok := c.lex.Thistoken.token
  let c ← if tok = T_PLUS ∨ tok = T_MINUS then scan_this lc fuel c else Except.ok c
  let negate : Bool := tok = T_MINUS
  -- Get the multiplicative_expression and negate it if required
  let (left, c) ← multiplicative_expression lc fuel c
  let left ← if negate then unarop left A_NEGATE else Except.ok left
  -- See if we have more additive operations
  additive_loop lc fuel fuel left c

/-- The loop of `shift_expression`. -/
def shift_loop (lc : Libc) (fuel : Nat) : Nat → ASTnode → Comp → Res (ASTnode × Comp)
  | k, left, c =>
    let tok := c.lex.Thistoken.token
    if tok = T_LSHIFT ∨ tok = T_RSHIFT then
      match k with
      | 0 => Except.error Err.fuel
      | k1 + 1 => do
        let c ← scan_this lc fuel c
        let (right, c) ← additive_expression lc fuel c
        let left ← binop left right (if tok = T_LSHIFT then A_LSHIFT else A_RSHIFT)
        shift_loop lc fuel k1 left c
    else Except.ok (left, c)

/-- Parser function `shift_expression`. -/
def shift_expression (lc : Libc) (fuel : Nat) (c : Comp) : Res (ASTnode × Comp) := do
  let (left, c) ← additive_expression lc fuel c
  -- See if we have more shft operations
  shift_loop lc fuel fuel left c

/-- The AST operation of a relational token, 0 for any other token. -/
def relational_op (tok : Nat) : Nat :=
  if tok = T_GE then A_GE
  else if tok = T_GT then A_GT
  else if tok = T_LE then A_LE
  else if tok = T_LT then A_LT
  else if tok = T_EQ then A_EQ
  else if tok = T_NE then A_NE
  else 0

/-- Parser function `relational_expression`. -/
def relational_expression (lc : Libc) (fuel : Nat) (c : Comp) : Res (ASTnode × Comp) := do
  -- Deal with a leading '!'
  let not : Bool := c.lex.Thistoken.token = T_LOGNOT
  let c ← if not then scan_this lc fuel c else Except.ok c
  -- Get the shift expression and logically not if required
  let (left, c) ← shift_expression lc fuel c
  let left ← if not then unarop left A_NOT else Except.ok left
  -- See if we a relational operation
  let tok := c.lex.Thistoken.token
  if relational_op tok ≠ 0 then do
    let c ← scan_this lc fuel c
    let (right, c) ← shift_expression lc fuel c
    let left ← binop left right (relational_op tok)
    Except.ok (left, c)
  -- Nope, return what we have
  else Except.ok (left, c)

/-- The loop of `bitwise_expression`. -/
def bitwise_loop (lc : Libc) (fuel : Nat) : Nat → ASTnode → Comp → Res (ASTnode × Comp)
  | k, left, c =>
    let tok := c.lex.Thistoken.token
    if tok = T_AMPER ∨ tok = T_OR ∨ tok = T_XOR then
      match k with
      | 0 => Except.error Err.fuel
      | k1 + 1 => do
        let c ← scan_this lc fuel c
        let (right, c) ← relational_expression lc fuel c
        let left ← binop left right
          (if tok = T_AMPER then A_AND else if tok = T_OR then A_OR else A_XOR)
        bitwise_loop lc fuel k1 left c
    else Except.ok (left, c)

/-- Parser function `bitwise_expression`. -/
def bitwise_expression (lc : Libc) (fuel : Nat) (c : Comp) : Res (ASTnode × Comp) := do
  -- Deal with a leading '~'
  let invert : Bool := c.lex.Thistoken.token = T_INVERT
  let c ← if invert then scan_this lc fuel c else Except.ok c
  -- Get the relational expression and invert if required
  let (left, c) ← relational_expression lc fuel c
  let left ← if invert then unarop left A_INVERT else Except.ok left
  -- See if we have more relational operations
  bitwise_loop lc fuel fuel left c

/-- Parser function `expression`. -/
def expression (lc : Libc) (fuel : Nat) (c : Comp) : Res (ASTnode × Comp) :=
  bitwise_expression lc fuel c

/-- Parser function `expression_list`. -/
def expression_list (lc : Libc) (fuel : Nat) : Nat → Comp → Res (ASTnode × Comp)
  | k, c => do
    -- Get the expression
    let (e, c) ← expression lc fuel c
    -- If we have a comma, skip it.  Get the following expression list
    if c.lex.Thistoken.token = T_COMMA then
      match k with
      | 0 => Except.error Err.fuel
      | k1 + 1 => do
        let c ← scan_this lc fuel c
        let (l, c) ← expression_list lc fuel k1 c
        -- Glue e and l and return them
        Except.ok (mkastnode A_GLUE e ASTnode.NULL l, c)
    else Except.ok (mkastnode A_GLUE e ASTnode.NULL ASTnode.NULL, c)

/-- Parser function `function_call`. -/
def function_call (lc : Libc) (fuel : Nat) (c : Comp) : Res (ASTnode × Comp) := do
  -- Make an IDENT node from the current token
  let s := (mkastleaf A_IDENT none false none 0).set_strlit c.lex.Thistoken.tokstr
  -- Skip the identifier and get the left parenthesis
  let c ← scan_this lc fuel c
  let c ← lparen lc fuel c
  -- If the next token is not a right parenthesis, get the expression list
  let (e, c) ←
    if c.lex.Thistoken.token ≠ T_RPAREN then expression_list lc fuel fuel c
    else Except.ok (ASTnode.NULL, c)
  -- Get the right parenthesis and semicolon
  let c ← rparen lc fuel c
  let c ← semi lc fuel c
  Except.ok (mkastnode A_FUNCCALL s ASTnode.NULL e, c)

/-- Parser function `short_assign_stmt`. -/
def short_assign_stmt (lc : Libc) (fuel : Nat) (c : Comp) : Res (ASTnode × Comp) := do
  -- Get the variable, check for an '=' then get the expression
  let (v, c) ← variable_ lc fuel c
  let c ← match_tok lc fuel T_ASSIGN true c
  let (e, c) ← expression lc fuel c
  let a ← assignment_statement v e
  Except.ok (a, c)

/-- Parser function `assign_stmt`. -/
def assign_stmt (lc : Libc) (fuel : Nat) (c : Comp) : Res (ASTnode × Comp) := do
  let (a, c) ← short_assign_stmt lc fuel c
  let c ← semi lc fuel c
  Except.ok (a, c)

/-- Parser function `declaration_stmts`: parse one or more declaration
statements and build an AST tree with them linked by the middle child. -/
def declaration_stmts (lc : Libc) (fuel : Nat) : Nat → Comp → Res (ASTnode × Comp)
  | k, c => do
    -- Get one declaration statement
    let (d, c) ← typed_declaration lc fuel c
    let c ← match_tok lc fuel T_ASSIGN true c
    let (e, c) ← expression lc fuel c
    let c ← semi lc fuel c
    -- Declare that variable
    let (this, st) ← declaration_statement d e c.syms
    let c := { c with syms := st }
    -- Look for a type.  If so, we have another declaration statement
    if T_VOID ≤ c.lex.Thistoken.token ∧ c.lex.Thistoken.token ≤ T_FLT64 then
      match k with
      | 0 => Except.error Err.fuel
      | k1 + 1 => do
        let (m, c) ← declaration_stmts lc fuel k1 c
        Except.ok (ASTnode.set_mid m this, c)
    else Except.ok (this, c)

/-- Parser function `if_stmt`; `sb` is `statement_block`. -/
def if_stmt (lc : Libc) (fuel : Nat) (sb : Comp → Res (ASTnode × Comp)) (c : Comp) :
    Res (ASTnode × Comp) := do
  -- Skip the IF, check for a left parenthesis.  Get the expression, right
  -- parenthesis and the statement block
  let c ← scan_this lc fuel c
  let c ← lparen lc fuel c
  let (e, c) ← relational_expression lc fuel c
  let c ← rparen lc fuel c
  let (t, c) ← sb c
  -- If we now have an ELSE get the following statement block
  let (f, c) ←
    if c.lex.Thistoken.token = T_ELSE then do
      let c ← scan_this lc fuel c
      sb c
    else Except.ok (ASTnode.NULL, c)
  Except.ok (mkastnode A_IF e t f, c)

/-- Parser function `while_stmt`; `sb` is `statement_block`. -/
def while_stmt (lc : Libc) (fuel : Nat) (sb : Comp → Res (ASTnode × Comp)) (c : Comp) :
    Res (ASTnode × Comp) := do
  let c ← scan_this lc fuel c
  let c ← lparen lc fuel c
  let (e, c) ← relational_expression lc fuel c
  let c ← rparen lc fuel c
  let (s, c) ← sb c
  Except.ok (mkastnode A_WHILE e s ASTnode.NULL, c)

/-- Parser function `for_stmt`; `sb` is `statement_block`. -/
def for_stmt (lc : Libc) (fuel : Nat) (sb : Comp → Res (ASTnode × Comp)) (c : Comp) :
    Res (ASTnode × Comp) := do
  let c ← scan_this lc fuel c
  let c ← lparen lc fuel c
  let (i, c) ← assign_stmt lc fuel c
  let (e, c) ← relational_expression lc fuel c
  let c ← semi lc fuel c
  let (send, c) ← short_assign_stmt lc fuel c
  let c ← rparen lc fuel c
  let (s, c) ← sb c
  -- Glue the end code after the statement block
  let s := mkastnode A_GLUE s ASTnode.NULL send
  -- We put the initial code at the end so that we can send the node to
  -- gen_WHILE()
  Except.ok (mkastnode A_FOR e s i, c)

/-- Parse a single procedural statement.  Return NULL if there is none.
`sb` is `statement_block`. -/
def procedural_stmt (lc : Libc) (fuel : Nat) (sb : Comp → Res (ASTnode × Comp)) (c : Comp) :
    Res (ASTnode × Comp) :=
  let tok := c.lex.Thistoken.token
  -- If we have a right brace, no statement
  if tok = T_RBRACE then Except.ok (ASTnode.NULL, c)
  -- See if this token is a known keyword or identifier
  else if tok = T_PRINTF then do
    -- Skip the printf and the left parenthesis
    let c ← scan_this lc fuel c
    let c ← lparen lc fuel c
    -- Check that we have a string literal and a comma.  Make an A_STRLIT node
    let c ← match_tok lc fuel T_STRLIT false c
    let left := (mkastleaf A_STRLIT none false none 0).set_strlit c.lex.Thistoken.tokstr
    let c ← scan_this lc fuel c
    let c ← comma lc fuel c
    -- Get the expression, the right parenthesis and the semicolon
    let (right, c) ← expression lc fuel c
    let c ← rparen lc fuel c
    let c ← semi lc fuel c
    let p ← print_statement left right
    Except.ok (p, c)
  else if tok = T_IF then if_stmt lc fuel sb c
  else if tok = T_WHILE then while_stmt lc fuel sb c
  else if tok = T_FOR then for_stmt lc fuel sb c
  else if tok = T_IDENT then do
    -- Get the next token.  If it is '=' then we have an assignment
    -- statement.  If it is a '(' then it is a function call
    let c ← scan_peek lc fuel c
    if c.lex.Peektoken.token = T_ASSIGN then assign_stmt lc fuel c
    else if c.lex.Peektoken.token = T_LPAREN then function_call lc fuel c
    else do
      let s ← get_tokenstr c.lex.Peektoken.token
      fatal ("Unexpected token " ++ s ++ " after identifier\n")
  else Except.ok (ASTnode.NULL, c)

/-- The loop of `procedural_stmts`. -/
def procedural_stmts_loop (lc : Libc) (fuel : Nat) (sb : Comp → Res (ASTnode × Comp)) :
    Nat → ASTnode → Comp → Res (ASTnode × Comp)
  | k, left, c => do
    -- Try to get another statement
    let (right, c) ← procedural_stmt lc fuel sb c
    if right.isNULL then Except.ok (left, c)
    else
      match k with
      | 0 => Except.error Err.fuel
      | k1 + 1 =>
        -- Glue left and right if we have both or just set left for now
        procedural_stmts_loop lc fuel sb k1
          (if left.isNULL then right else mkastnode A_GLUE left ASTnode.NULL right) c

/-- Parse zero or more procedural statements and build an AST tree holding
all the statements. -/
def procedural_stmts (lc : Libc) (fuel : Nat) (sb : Comp → Res (ASTnode × Comp)) (c : Comp) :
    Res (ASTnode × Comp) :=
  procedural_stmts_loop lc fuel sb fuel ASTnode.NULL c

/-- Parser function `statement_block`: a statement block has all the
declarations first, followed by any procedural statements. -/
def statement_block (lc : Libc) : Nat → Comp → Res (ASTnode × Comp)
  | 0, _ => Except.error Err.fuel
  | fuel + 1, c => do
    let c ← lbrace lc fuel c
    -- An empty statement body
    if c.lex.Thistoken.token = T_RBRACE then Except.ok (ASTnode.NULL, c)
    else do
      -- A declaration_stmt starts with a type, so look for one
      let (d, c) ←
        if T_VOID ≤ c.lex.Thistoken.token ∧ c.lex.Thistoken.token ≤ T_FLT64 then
          declaration_stmts lc fuel fuel c
        else Except.ok (ASTnode.NULL, c)
      -- Now get any procedural statements
      let (s, c) ← procedural_stmts lc fuel (statement_block lc fuel) c
      let d1 := if d.isNULL then s else ASTnode.set_right s d
      let c ← rbrace lc fuel c
      Except.ok (d1, c)

/-- Parse a single function declaration. -/
def function_declaration (lc : Libc) (fuel : Nat) (c : Comp) : Res Comp := do
  -- Get the prototype of the function
  let (func, c) ← function_prototype lc fuel c
  -- If the next token is a semicolon
  if c.lex.Thistoken.token = T_SEMI then do
    -- Add the function prototype to the symbol table
    let fleft ← func.left
    let (_, st) ← add_function func fleft c.syms
    -- Skip the semicolon and return
    scan_this lc fuel { c with syms := st }
  else do
    -- It is not a prototype, so we expect a statement block now
    let c ← declare_function func c
    let (s, c) ← statement_block lc fuel c
    gen_func_statement_block lc fuel s c

/-- Parser function `function_declarations`: loop parsing functions until
we hit the EOF. -/
def function_declarations (lc : Libc) (fuel : Nat) : Nat → Comp → Res Comp
  | k, c =>
    if c.lex.Thistoken.token ≠ T_EOF then
      match k with
      | 0 => Except.error Err.fuel
      | k1 + 1 => do
        let c ← function_declaration lc fuel c
        function_declarations lc fuel k1 c
    else Except.ok c

/-- Parse the input file. -/
def parse_file (lc : Libc) (fuel : Nat) (c : Comp) : Res Comp :=
  function_declarations lc fuel fuel c

/-- The state of a compilation of the given input with fresh compiler
state. -/
def Comp.init (input : List Char) (fname : String) : Comp :=
  ⟨Lex.init input fname, Symtab.init, Genst.init⟩

/-- The part of `main` after the options: scan the first token, parse the
input file and write the string literals.  The result is the final state;
its field `gen.cg.out` is the text written to the output file. -/
def compile (lc : Libc) (fuel : Nat) (input : List Char) (fname : String) : Res Comp := do
  let c := Comp.init input fname
  -- Get the first token from the input and set there is no lookahead token
  let c ← scan_this lc fuel c
  let c := { c with lex := { c.lex with Peektoken := { c.lex.Peektoken with token := 0 } } }
  let c := { c with gen := cg_file_preamble c.gen }
  -- Parse the input file
  let c ← parse_file lc fuel c
  Except.ok { c with gen := gen_strlits c.gen }

/-! ## Auxiliary definitions for the symbol table -/

/-- A sequence of calls of `add_symbol`, each given by the name, the kind
and the type of the symbol; the result holds the symbols returned, in the
order of the calls. -/
def add_symbols : List (String × Nat × Option Ty) → Symtab → Res (List Sym × Symtab)
  | [], st => Except.ok ([], st)
  | (name, symtype, type) :: rest, st => do
    let (this, st1) ← add_symbol name symtype type st
    let (more, st2) ← add_symbols rest st1
    Except.ok (this :: more, st2)

/-- The nodes of the main list have pairwise different addresses, all below
the next address `calloc` hands out. -/
def heap_ok (st : Symtab) : Prop :=
  (st.Symhead.map Sym.addr).Nodup ∧ ∀ s ∈ st.Symhead, s.addr < st.nextaddr

instance (st : Symtab) : Decidable (heap_ok st) := by
  unfold heap_ok; infer_instance

/-- The nodes of the main list in front of the node `Globhead` points to:
the whole list when `Globhead` is NULL. -/
def list_before (p : Option Nat) : List Sym → List Sym
  | [] => []
  | this :: rest => if p = some this.addr then [] else this :: list_before p rest

/-- The function being processed, if any, is not a local of the current
scope. -/
def curfunc_is_global (st : Symtab) : Prop :=
  ∀ s ∈ list_before st.Globhead st.Symhead, st.Curfunc ≠ some s.addr

instance (st : Symtab) : Decidable (curfunc_is_global st) := by
  unfold curfunc_is_global; infer_instance

/-- The parameter list `typed_declaration_list` builds for the given names
and types: A_IDENT leaves that carry the name and the type, linked through
`mid`. -/
def params_ast : List (String × Ty) → ASTnode
  | [] => ASTnode.NULL
  | (name, ty) :: rest =>
    ASTnode.set_mid (params_ast rest)
      (((mkastleaf A_IDENT none false none 0).set_strlit (some name)).set_type (some ty))

/-- The node `function_prototype` builds for a function of the given name,
return type and parameters: the parameter list is the left child. -/
def proto_ast (name : String) (ty : Ty) (params : List (String × Ty)) : ASTnode :=
  ASTnode.set_left (params_ast params)
    (((mkastleaf A_IDENT none false none 0).set_strlit (some name)).set_type (some ty))

/-- The nodes of the main list have pairwise different addresses, and every
address of the main list and of the member lists is below the next address
`calloc` hands out. -/
def symtab_ok (st : Symtab) : Prop :=
  (st.Symhead.map Sym.addr).Nodup ∧
  ∀ s ∈ st.Symhead, s.addr < st.nextaddr ∧ ∀ q ∈ s.memb, q.addr < st.nextaddr

instance (st : Symtab) : Decidable (symtab_ok st) := by
  unfold symtab_ok; infer_instance

/-- The member list `add_function` builds for the given parameters when
`calloc` hands out the addresses from `base` on. -/
def param_syms (base : Nat) : List (String × Ty) → List Sym
  | [] => []
  | (name, ty) :: rest =>
    Sym.mk name ST_VARIABLE false (some ty) ⟨0⟩ 0 [] base :: param_syms (base + 1) rest

/-- The declaration of a prototype without a body, `n` times in a row: the
call of `add_function` in `function_declaration`, whose result is dropped. -/
def add_function_times (func paramlist : ASTnode) : Nat → Symtab → Res Symtab
  | 0, st => Except.ok st
  | n + 1, st => do
    let (_, st1) ← add_function func paramlist st
    add_function_times func paramlist n st1

/-- The symbol `add_function` creates for a new function at the address
`a`, with its parameters at the addresses that follow. -/
def func_sym (name : String) (ty : Ty) (params : List (String × Ty)) (a : Nat) : Sym :=
  Sym.mk name ST_FUNCTION false (some ty) ⟨0⟩ params.length (param_syms (a + 1) params) a

/-- The symbol table after `add_function` appended a new function to the
main list. -/
def with_func (st : Symtab) (f : Sym) (nparams : Nat) : Symtab :=
  { st with Symhead := st.Symhead ++ [f], nextaddr := st.nextaddr + 1 + nparams }

/-! ## Auxiliary definitions for function calls -/

/-- The argument list `expression_list` builds for the given expressions:
A_GLUE nodes linked through `right`, each with its expression on the left. -/
def arg_list : List ASTnode → ASTnode
  | [] => ASTnode.NULL
  | e :: l => mkastnode A_GLUE e ASTnode.NULL (arg_list l)

/-- The node `function_call` builds for a call of the named function. -/
def call_ast (name : String) (right : ASTnode) : ASTnode :=
  mkastnode A_FUNCCALL ((mkastleaf A_IDENT none false none 0).set_strlit (some name))
    ASTnode.NULL right

/-- Evaluation of the arguments of a call as the specification words it:
from left to right, the i-th argument is widened with `widen_expression` to
the type of the i-th parameter and then evaluated with `rec`; the result
holds the temporary and the type of each argument. -/
def eval_args_spec (rec : ASTnode → Genst → Res (Int × Genst)) :
    List ASTnode → List Sym → Genst → Res (List (Int × Option Ty) × Genst)
  | [], _, g => Except.ok ([], g)
  | _ :: _, [], _ => Except.error Err.segv
  | a :: rest, p :: prest, g => do
    let a1 ← widen_expression a p.type
    let ty ← a1.type
    let (t, g) ← rec a1 g
    let (more, g) ← eval_args_spec rec rest prest g
    Except.ok ((t, ty) :: more, g)

/-! ## Auxiliary definitions for whole programs -/

/-- A stand-in for the two functions of the C library the model takes as
parameters, `strtod` and the `%f` conversion of `printf`: a program without
a floating-point literal never calls them. -/
def libc_unused : Libc := ⟨fun _ => 0, fun _ => ""⟩

/-- The text a compilation wrote to the output file, if it ended without an
error. -/
def output_of (r : Res Comp) : Option String :=
  match r with
  | Except.ok c => some c.gen.cg.out
  | Except.error _ => none

/-- The error a compilation stopped with, if any. -/
def error_of {α : Type} (r : Res α) : Option Err :=
  match r with
  | Except.ok _ => none
  | Except.error e => some e

/-- The compiler state after the start of `main`, before `parse_file`: the
first token is scanned, there is no lookahead token, and the file preamble
is written. -/
def main_start (lc : Libc) (fuel : Nat) (input : List Char) (fname : String) : Res Comp := do
  let c ← scan_this lc fuel (Comp.init input fname)
  let c := { c with lex := { c.lex with Peektoken := { c.lex.Peektoken with token := 0 } } }
  Except.ok { c with gen := cg_file_preamble c.gen }

/-- The current token after a run of the parser, if it ended without an
error. -/
def token_of (r : Res Comp) : Option Nat :=
  match r with
  | Except.ok c => some c.lex.Thistoken.token
  | Except.error _ => none

/-! ## Auxiliary definitions for expressions -/

/-- Names of the AST operations (`astname` in astnodes.c); entry 0 is NULL. -/
def astname : List (Option String) :=
  [none,
   some "ASSIGN", some "CAST",
   some "ADD", some "SUBTRACT", some "MULTIPLY", some "DIVIDE", some "NEGATE",
   some "EQ", some "NE", some "LT", some "GT", some "LE", some "GE", some "NOT",
   some "AND", some "OR", some "XOR", some "INVERT",
   some "LSHIFT", some "RSHIFT",
   some "NUMLIT", some "IDENT", some "PRINT", some "GLUE", some "IF", some "WHILE",
   some "FOR",
   some "TYPE", some "STRLIT", some "LOCAL", some "FUNCCALL"]

/-- The name of an AST operation. -/
def opname (op : Nat) : String := (astname.getD op none).getD ""

/-- The operator tree of an expression, written `OP(left, right)`: an
identifier is its name, a literal its value, and an A_CAST node is left out
(the tree below it is shown in its place). -/
def tree_shape : ASTnode → String
  | .NULL => ""
  | .node op _ _ left _ right _ v s =>
    if op = A_CAST then tree_shape left
    else if op = A_IDENT then s.getD ""
    else if op = A_NUMLIT then toString v.uintval
    else if right.isNULL then opname op ++ "(" ++ tree_shape left ++ ")"
    else opname op ++ "(" ++ tree_shape left ++ ", " ++ tree_shape right ++ ")"

/-- The same tree with the A_CAST nodes shown. -/
def tree_shape_casts : ASTnode → String
  | .NULL => ""
  | .node op _ _ left _ right _ v s =>
    if op = A_IDENT then s.getD ""
    else if op = A_NUMLIT then toString v.uintval
    else if right.isNULL then opname op ++ "(" ++ tree_shape_casts left ++ ")"
    else opname op ++ "(" ++ tree_shape_casts left ++ ", " ++ tree_shape_casts right ++ ")"

/-- A symbol table that holds the variables `a`, `b` and `c` of one type. -/
def vars_abc (t : Ty) : Symtab :=
  ⟨[Sym.mk "a" ST_VARIABLE true (some t) ⟨0⟩ 0 [] 0,
    Sym.mk "b" ST_VARIABLE true (some t) ⟨0⟩ 0 [] 1,
    Sym.mk "c" ST_VARIABLE true (some t) ⟨0⟩ 0 [] 2], none, none, 3⟩

/-- Run `expression` on the given text with the variables `a`, `b`, `c` of
type `t` declared: the result is the operator tree, drawn by `draw`, and
the token the parser stopped at. -/
def parse_expression (draw : ASTnode → String) (t : Ty) (input : List Char) :
    Option (String × Nat) :=
  match (main_start libc_unused 40 input "in.al").bind
      (fun c => expression libc_unused 40 { c with syms := vars_abc t }) with
  | Except.ok (e, c) => some (draw e, c.lex.Thistoken.token)
  | Except.error _ => none

/-! ## Auxiliary definitions for the lexer claims -/

/-- The keyword lookup in the words of the specification: a full linear
search of the keyword table for the entry whose text equals s, giving the
token of that entry, and 0 when no entry has that text. -/
def keyword_spec (s : List Char) : Nat :=
  match keylist.find? (fun k => k.keyword.toList = s) with
  | some k => k.token
  | none => 0

/-- The call `scan(&Thistoken)` made `k` times in a row. -/
def scan_n : Nat → Comp → Res Comp
  | 0, c => Except.ok c
  | k + 1, c => (scan_this libc_unused 60 c).bind (scan_n k)

/-- The token number `n`, counted from 0, that `scan(&Thistoken)` finds in
the given input from the lexer state at program start. -/
def nth_token (n : Nat) (input : List Char) : Option Token :=
  match scan_n (n + 1) (Comp.init input "in.al") with
  | Except.ok c => some c.lex.Thistoken
  | Except.error _ => none

/-- The line number and the file name after `n + 1` calls of
`scan(&Thistoken)` on the given input from the lexer state at program start. -/
def nth_position (n : Nat) (input : List Char) : Option (Int × String) :=
  match scan_n (n + 1) (Comp.init input "in.al") with
  | Except.ok c => some (c.lex.Line, c.lex.Infilename)
  | Except.error _ => none

/-- A character that stands for itself in a string literal: a byte other
than NUL, newline, the double quote and the backslash. -/
def plain_char (c : Char) : Bool :=
  decide (c.toNat < 256 ∧ c.toNat ≠ 0 ∧ c.toNat ≠ 10 ∧ c.toNat ≠ 34 ∧ c.toNat ≠ 92)

/-- The labels of the entries of the string table are pairwise different
and all below the label counter: they were handed out by `genlabel`. -/
def strtab_ok (g : Genst) : Prop :=
  (g.Strhead.map Strlit.label).Nodup ∧ ∀ e ∈ g.Strhead, e.label < g.labelid

instance (g : Genst) : Decidable (strtab_ok g) := by
  unfold strtab_ok; infer_instance

/-! ## Auxiliary definitions for relational chains -/

/-- The compiler state at the first token of the given text, with the
variables `a`, `b`, `c` of type `t` declared. -/
def parser_at (t : Ty) (input : List Char) : Comp :=
  match main_start libc_unused 40 input "in.al" with
  | Except.ok c => { c with syms := vars_abc t }
  | Except.error _ => Comp.init input "in.al"

/-! ## Auxiliary definitions for labels -/

/-- A piece of the output of `genAST`: a label definition written by
`cglabel`, a jump written by `cgjump`, the conditional jump written by
`cgjump_if_false`, or the text of another instruction. -/
inductive Line where
  | label (l : Int) : Line
  | jmp (l : Int) : Line
  | jnz (t l2 l : Int) : Line
  | instr (text : String) : Line
  deriving DecidableEq, Repr

/-- The text of a piece, as `cglabel`, `cgjump` and `cgjump_if_false` write
it. -/
def Line.text : Line → String
  | .label l => "@L" ++ toString l ++ "\n"
  | .jmp l => "  jmp @L" ++ toString l ++ "\n"
  | .jnz t l2 l => "  jnz %.t" ++ toString t ++ ", @L" ++ toString l2 ++ ", @L" ++
      toString l ++ "\n"
  | .instr s => s

/-- The text of a list of pieces. -/
def render : List Line → String
  | [] => ""
  | x :: rest => x.text ++ render rest

/-- The label numbers the pieces define, in the order of the text. -/
def label_defs : List Line → List Int
  | [] => []
  | .label l :: rest => l :: label_defs rest
  | _ :: rest => label_defs rest

/-- The label numbers the jumps go to. -/
def jump_targets : List Line → List Int
  | [] => []
  | .jmp l :: rest => l :: jump_targets rest
  | .jnz _ l2 l :: rest => l2 :: l :: jump_targets rest
  | _ :: rest => jump_targets rest

/-- The text of an instruction that is neither a label definition nor a
jump: it starts with two blanks and the first character of an operation
other than `jmp` and `jnz`, and it ends with a newline. -/
def instr_shape (s : String) : Prop :=
  (s.data.take 3 = "  %".data ∨ s.data.take 3 = "  s".data ∨
    s.data.take 3 = "  c".data) ∧ s.data.getLast? = some '\n'

instance (s : String) : Decidable (instr_shape s) := by
  unfold instr_shape; infer_instance

/-- Equality of results is decidable. -/
instance {α : Type} [DecidableEq α] : DecidableEq (Res α) := fun a b =>
  match a, b with
  | Except.ok x, Except.ok y =>
    if h : x = y then isTrue (by rw [h]) else isFalse (fun e => h (by injection e))
  | Except.error x, Except.error y =>
    if h : x = y then isTrue (by rw [h]) else isFalse (fun e => h (by injection e))
  | Except.ok _, Except.error _ => isFalse (fun e => by injection e)
  | Except.error _, Except.ok _ => isFalse (fun e => by injection e)

/-- The number of newline characters in a text. -/
def newlines (s : String) : Nat := s.data.count '\n'

/-- Each piece is one line of text: it holds one newline, and `instr_shape`
and `Line.text` put it at the end. -/
def lines_ok (items : List Line) : Prop := ∀ x ∈ items, newlines x.text = 1

instance (items : List Line) : Decidable (lines_ok items) := by
  unfold lines_ok; infer_instance

/-- No symbol of the tree has a newline in its name. -/
def ASTnode.names_ok : ASTnode → Bool
  | .NULL => true
  | .node _ _ _ left mid right sym _ _ =>
    (match sym with
      | none => true
      | some sy => decide (newlines sy.name = 0)) &&
    left.names_ok && mid.names_ok && right.names_ok

/-- No symbol of the table, and no parameter of one, has a newline in its
name. -/
def syms_plain (syms : Symtab) : Prop :=
  ∀ f ∈ syms.Symhead, newlines f.name = 0 ∧ ∀ p ∈ f.memb, newlines p.name = 0

instance (syms : Symtab) : Decidable (syms_plain syms) := by
  unfold syms_plain; infer_instance

/-- The step from `g` to `g1` writes instructions only: the label counter
and the list of string literals stay as they are.  Under the condition `p`
each instruction is one line. -/
def plain_step (p : Prop) (g g1 : Genst) : Prop :=
  g1.labelid = g.labelid ∧ g1.Strhead = g.Strhead ∧
  ∃ items, g1.cg.out = g.cg.out ++ render items ∧
    label_defs items = [] ∧ jump_targets items = [] ∧
    (∀ s, Line.instr s ∈ items → instr_shape s) ∧ (p → lines_ok items)

/-- The step from `g` to `g1` writes the pieces `items`: each label defined
is defined once and was handed out in the step, each jump goes to a label
defined in the step, and each string literal added in the step has a label
number handed out in the step that is not defined as a label. -/
def gen_inv (g g1 : Genst) (items : List Line) : Prop :=
  g1.cg.out = g.cg.out ++ render items ∧
  g.labelid ≤ g1.labelid ∧
  (∀ l, (label_defs items).count l = 0 ∨
    ((label_defs items).count l = 1 ∧ g.labelid ≤ l ∧ l < g1.labelid)) ∧
  (∀ l ∈ jump_targets items, (label_defs items).count l = 1) ∧
  (∀ e ∈ g1.Strhead, e ∈ g.Strhead ∨
    (g.labelid ≤ e.label ∧ e.label < g1.labelid ∧ (label_defs items).count e.label = 0)) ∧
  (∀ s, Line.instr s ∈ items → instr_shape s)

/-- The step from `g` to `g1` keeps the invariant and, under the condition
`p`, writes whole lines. -/
def step_ok (p : Prop) (g g1 : Genst) : Prop :=
  ∃ items, gen_inv g g1 items ∧ (p → lines_ok items)

/-- The tree `statement_block` builds for the given text, and the symbol
table after the parse. -/
def parse_block (input : List Char) : ASTnode × Symtab :=
  match (main_start libc_unused 60 input "in.al").bind (statement_block libc_unused 60) with
  | Except.ok (s, c) => (s, c.syms)
  | Except.error _ => (ASTnode.NULL, Symtab.init)

/-! ## Auxiliary definitions for the types of the nodes -/

/-- The operations of the nodes that `mkastnode` and the STRLIT leaf leave
without a type: the statement nodes and the string literal. -/
def untyped_op (op : Nat) : Bool :=
  op = A_GLUE || op = A_IF || op = A_WHILE || op = A_FOR || op = A_PRINT || op = A_STRLIT

/-- The leaf `function_call` makes for the name of the called function: an
A_IDENT node without a type and without children. -/
def ASTnode.is_callee : ASTnode → Bool
  | .node op ty _ .NULL .NULL .NULL _ _ _ => op = A_IDENT && ty.isNone
  | _ => false

/-- The types of the nodes of a tree: a GLUE, IF, WHILE, FOR, PRINT, STRLIT
or FUNCCALL node has no type, the left child of a FUNCCALL node is the leaf
with the name of the function, and every other node has a type. -/
def ASTnode.types_ok : ASTnode → Bool
  | .NULL => true
  | .node op ty _ left mid right _ _ _ =>
    if op = A_FUNCCALL then ty.isNone && left.is_callee && mid.types_ok && right.types_ok
    else (if untyped_op op then ty.isNone else ty.isSome) &&
      left.types_ok && mid.types_ok && right.types_ok

/-- A node that is not NULL and has a type. -/
def ASTnode.is_typed : ASTnode → Bool
  | .NULL => false
  | .node _ ty _ _ _ _ _ _ _ => ty.isSome

/-- Every symbol of the table, and every parameter of one, has a type. -/
def syms_typed (st : Symtab) : Prop :=
  ∀ f ∈ st.Symhead, f.type.isSome = true ∧ ∀ p ∈ f.memb, p.type.isSome = true

instance (st : Symtab) : Decidable (syms_typed st) := by
  unfold syms_typed; infer_instance

/-- An expression parser: on a table where every symbol has a type it
returns a typed tree with the types in order and leaves the table as it
is. -/
def expr_parser_ok (p : Comp → Res (ASTnode × Comp)) : Prop :=
  ∀ c n c1, syms_typed c.syms → p c = Except.ok (n, c1) →
    (n.types_ok = true ∧ n.is_typed = true) ∧ c1.syms = c.syms

/-- A statement parser: on a table where every symbol has a type it returns
a tree with the types in order and a table where every symbol has a
type. -/
def stmt_parser_ok (p : Comp → Res (ASTnode × Comp)) : Prop :=
  ∀ c n c1, syms_typed c.syms → p c = Except.ok (n, c1) →
    n.types_ok = true ∧ syms_typed c1.syms

/-- A list of parameters, linked by the middle child, where every node has a
type. -/
def ASTnode.params_typed : ASTnode → Bool
  | .NULL => true
  | .node _ ty _ _ mid _ _ _ _ => ty.isSome && mid.params_typed

/-- The tree of the body of the first function of the given text, and the
compiler state after its parse: the steps of `function_declaration` for a
function with a statement block, up to the call of
`gen_func_statement_block`, from the state at the start of `parse_file`. -/
def first_body (input : List Char) : Res (ASTnode × Comp) := do
  let c ← main_start libc_unused 60 input "in.al"
  let (func, c) ← function_prototype libc_unused 60 c
  let c ← declare_function func c
  statement_block libc_unused 60 c

/-- The node reached from the root by the given steps: 0 is the left child,
1 the middle child and any other number the right child. -/
def ASTnode.at_path : ASTnode → List Nat → ASTnode
  | n, [] => n
  | .NULL, _ :: _ => .NULL
  | .node _ _ _ l m r _ _ _, k :: rest =>
    if k = 0 then l.at_path rest else if k = 1 then m.at_path rest else r.at_path rest

/-- The operation and the type of a node, when it is not NULL. -/
def ASTnode.op_type : ASTnode → Option (Nat × Option Ty)
  | .NULL => none
  | .node op ty _ _ _ _ _ _ _ => some (op, ty)

/-! ## Auxiliary definitions for the temporaries -/

/-- A piece of the output of `genAST`, seen from the temporaries: an
instruction that assigns a temporary `cgalloctemp` has just handed out, an
instruction that assigns the temporary it reads as an operand, or any other
text. -/
inductive Tline where
  | fresh (t : Int) (rest : String) : Tline
  | again (t : Int) (pre post : String) : Tline
  | other (text : String) : Tline
  deriving DecidableEq, Repr

/-- The text of a piece: an assignment to the temporary `t` starts with
two blanks, `%.t`, the number and ` =`. -/
def Tline.text : Tline → String
  | .fresh t rest => "  %.t" ++ toString t ++ " =" ++ rest
  | .again t pre post => "  %.t" ++ toString t ++ " =" ++ pre ++ " %.t" ++ toString t ++ post
  | .other s => s

/-- The text of a list of pieces. -/
def trender : List Tline → String
  | [] => ""
  | x :: rest => x.text ++ trender rest

/-- The temporaries the pieces assign for the first time, in the order of
the text. -/
def fresh_temps : List Tline → List Int
  | [] => []
  | .fresh t _ :: rest => t :: fresh_temps rest
  | _ :: rest => fresh_temps rest

/-- The temporaries the pieces assign, in the order of the text. -/
def assigned_temps : List Tline → List Int
  | [] => []
  | .fresh t _ :: rest => t :: assigned_temps rest
  | .again t _ _ :: rest => t :: assigned_temps rest
  | .other _ :: rest => assigned_temps rest

/-- A piece is one line, and a piece that is not an assignment to a
temporary does not start like one. -/
def tline_ok (x : Tline) : Prop :=
  newlines x.text = 1 ∧ ∀ s, x = Tline.other s → s.data.take 4 ≠ "  %.".data

/-- The step from `g` to `g1` writes the pieces `items`: the temporaries
assigned for the first time were handed out in the step, in increasing
order, and each piece ends with a newline. -/
def temp_inv (g g1 : Genst) (items : List Tline) : Prop :=
  g1.cg.out = g.cg.out ++ trender items ∧
  g.cg.nexttemp ≤ g1.cg.nexttemp ∧
  (fresh_temps items).Pairwise (fun a b => a < b) ∧
  (∀ t ∈ fresh_temps items, g.cg.nexttemp < t ∧ t ≤ g1.cg.nexttemp) ∧
  (∀ x ∈ items, x.text.data.getLast? = some '\n')

/-- The step from `g` to `g1` keeps the invariant and, under the condition
`p`, writes whole lines. -/
def tstep (p : Prop) (g g1 : Genst) : Prop :=
  ∃ items, temp_inv g g1 items ∧ (p → ∀ x ∈ items, tline_ok x)

/-- No symbol of the tree has a newline in its name or a name that starts
with a dot. -/
def ASTnode.tnames_ok : ASTnode → Bool
  | .NULL => true
  | .node _ _ _ left mid right sym _ _ =>
    (match sym with
      | none => true
      | some sy => decide (newlines sy.name = 0) && decide (sy.name.data.head? ≠ ".".data.head?)) &&
    left.tnames_ok && mid.tnames_ok && right.tnames_ok

/-! ## Auxiliary definitions for the minus sign -/

/-- The codes of the characters of a text, as `fgetc` returns them. -/
def char_codes (s : List Char) : List Int := s.map (fun c => (c.toNat : Int))

/-- The characters the lexer has not consumed yet, in the order in which
`next` hands them out: the character put back, if there is one, and then
the rest of the input. -/
def Lex.unread (st : Lex) : List Int :=
  (if st.Putback = 0 then [] else [st.Putback]) ++ char_codes st.input

/-! ## Auxiliary definitions for the precedence of operators -/

/-- The level of precedence of a token in the words of the specification:
5 for `*` and `/`, 4 for `+` and `-`, 3 for `<<` and `>>`, 2 for the
relational operators, 1 for `&`, `|` and `^`, and 0 for a token that is not
a binary operator. -/
def op_level (tok : Nat) : Nat :=
  if tok = T_STAR ∨ tok = T_SLASH then 5
  else if tok = T_PLUS ∨ tok = T_MINUS then 4
  else if tok = T_LSHIFT ∨ tok = T_RSHIFT then 3
  else if tok = T_EQ ∨ tok = T_NE ∨ tok = T_LT ∨ tok = T_GT ∨ tok = T_LE ∨ tok = T_GE then 2
  else if tok = T_AMPER ∨ tok = T_OR ∨ tok = T_XOR then 1
  else 0

/-- The AST operation of a binary operator token, 0 for any other token. -/
def op_of_token (tok : Nat) : Nat :=
  if tok = T_STAR then A_MULTIPLY
  else if tok = T_SLASH then A_DIVIDE
  else if tok = T_PLUS then A_ADD
  else if tok = T_MINUS then A_SUBTRACT
  else if tok = T_LSHIFT then A_LSHIFT
  else if tok = T_RSHIFT then A_RSHIFT
  else if tok = T_EQ then A_EQ
  else if tok = T_NE then A_NE
  else if tok = T_LT then A_LT
  else if tok = T_GT then A_GT
  else if tok = T_LE then A_LE
  else if tok = T_GE then A_GE
  else if tok = T_AMPER then A_AND
  else if tok = T_OR then A_OR
  else if tok = T_XOR then A_XOR
  else 0

/-- A token that is an operand: a numeric literal, `true`, `false` or an
identifier. -/
def is_operand (x : Token) : Bool :=
  x.token = T_NUMLIT || x.token = T_TRUE || x.token = T_FALSE || x.token = T_IDENT

/-- The tokens of a run of pairs of an operator and the operand that
follows it. -/
def pair_tokens : List (Token × Token) → List Token
  | [] => []
  | (o, y) :: rest => o :: y :: pair_tokens rest

/-- The lexer hands out the given tokens: the current token is the first
one, and each call `scan(&Thistoken)` makes the next one the current
token.  Nothing is asked of the call after the last token. -/
def presents (lc : Libc) (fuel : Nat) : List Token → Comp → Bool
  | [], _ => true
  | [t], c => decide (c.lex.Thistoken = t)
  | t :: u :: rest, c =>
    decide (c.lex.Thistoken = t) &&
      match scan_this lc fuel c with
      | Except.ok c1 => presents lc fuel (u :: rest) c1
      | Except.error _ => false

/-- Split a run of operators and operands at the operators of the level
`lvl`: the run in front of the first of them and, for each of them, the
operator, the operand behind it and the run up to the next of them. -/
def split_level (lvl : Nat) :
    List (Token × Token) → List (Token × Token) × List (Token × Token × List (Token × Token))
  | [] => ([], [])
  | (o, y) :: rest =>
    if op_level o.token = lvl then
      ([], (o, y, (split_level lvl rest).1) :: (split_level lvl rest).2)
    else ((o, y) :: (split_level lvl rest).1, (split_level lvl rest).2)

/-- An operand of the common type `t`: a numeric literal to which
`parse_litval` gives the type `t`, `true` or `false` when `t` is bool, or
the name of a variable of type `t`. -/
def operand_ok (t : Ty) (st : Symtab) (x : Token) : Bool :=
  if x.token = T_NUMLIT then decide (parse_litval x = t)
  else if x.token = T_TRUE ∨ x.token = T_FALSE then decide (t = ty_bool)
  else if x.token = T_IDENT then
    match find_symbol x.tokstr st with
    | some s => decide (s.symtype = ST_VARIABLE) && decide (s.type = some t)
    | none => false
  else false

/-- An operand as `tree_shape` writes it: a literal is its value, `true` is
1, `false` is 0, and an identifier is its name. -/
def operand_shape (x : Token) : String :=
  if x.token = T_NUMLIT then toString x.numval.uintval
  else if x.token = T_TRUE then "1"
  else if x.token = T_FALSE then "0"
  else x.tokstr.getD ""

/-- The tree of an operand followed by operators and operands, in the words
of the specification, written as `tree_shape` writes it.  From the level
`lvl` on, with `d` levels to go: the run is split at the operators of the
loosest level, each part is grouped by the tighter levels first, and the
parts are joined from left to right, so that operators of one level group
to the left. -/
def spec_shape : Nat → Nat → Token → List (Token × Token) → String
  | 0, _, x, _ => operand_shape x
  | d + 1, lvl, x, rest =>
    (split_level lvl rest).2.foldl
      (fun acc p => opname (op_of_token p.1.token) ++ "(" ++ acc ++ ", " ++
        spec_shape d (lvl + 1) p.2.1 p.2.2 ++ ")")
      (spec_shape d (lvl + 1) x (split_level lvl rest).1)

/-- The number of relational operators in each run between operators of
level 1: the run in front of the first `&`, `|` or `^`, and the runs behind
each of them. -/
def relational_counts (rest : List (Token × Token)) : List Nat :=
  (split_level 2 (split_level 1 rest).1).2.length ::
    (split_level 1 rest).2.map (fun p => (split_level 2 p.2.2).2.length)

/-- No run between operators of level 1 holds two relational operators. -/
def chain_free (rest : List (Token × Token)) : Bool :=
  (relational_counts rest).all (fun k => decide (k ≤ 1))

/-- The token behind the expression does not continue it: it is not a
binary operator, or it is a relational operator behind a run that holds a
relational operator already. -/
def stops_expression (rest : List (Token × Token)) (stop : Token) : Bool :=
  decide (op_level stop.token = 0) ||
    (decide (op_level stop.token = 2) && decide ((relational_counts rest).getLast? = some 1))

/-- The leaf `factor` builds for the current token, before it moves to the
next token. -/
def operand_leaf (st : Symtab) (x : Token) : Res ASTnode :=
  if x.token = T_NUMLIT then
    Except.ok (mkastleaf A_NUMLIT (some (parse_litval x)) true none x.numval.uintval)
  else if x.token = T_TRUE then Except.ok (mkastleaf A_NUMLIT (some ty_bool) true none 1)
  else if x.token = T_FALSE then Except.ok (mkastleaf A_NUMLIT (some ty_bool) true none 0)
  else if x.token = T_IDENT then
    mkident ((mkastleaf A_IDENT none false none 0).set_strlit x.tokstr) st
  else do
    let s ← get_tokenstr x.token
    fatal ("Unknown token as a factor: " ++ s ++ "\n")

/-- The tree a loop of the expression parser builds from the tree on the
left and the parts that follow: each part is joined by `binop`. -/
def eval_run (ev : Token → List (Token × Token) → Res ASTnode) :
    List (Token × Token × List (Token × Token)) → ASTnode → Res ASTnode
  | [], left => Except.ok left
  | (o, y, s) :: more, left => do
    let right ← ev y s
    let left ← binop left right (op_of_token o.token)
    eval_run ev more left

/-- The tree the expression parser builds for an operand followed by
operators and operands, from the level `lvl` on, with `d` levels to go. -/
def eval_level (st : Symtab) : Nat → Nat → Token → List (Token × Token) → Res ASTnode
  | 0, _, x, _ => operand_leaf st x
  | d + 1, lvl, x, seg => do
    let left ← eval_level st d (lvl + 1) x (split_level lvl seg).1
    eval_run (eval_level st d (lvl + 1)) (split_level lvl seg).2 left

/-- The tokens of the parts `split_level` returns. -/
def part_tokens : List (Token × Token × List (Token × Token)) → List Token
  | [] => []
  | (o, y, s) :: more => o :: y :: (pair_tokens s ++ part_tokens more)

/-- A node of the common type `t`, or a node of type bool that is not a
literal. -/
def ASTnode.common (t : Ty) : ASTnode → Bool
  | .NULL => false
  | .node op ty _ _ _ _ _ _ _ =>
    decide (ty = some t) || (decide (ty = some ty_bool) && decide (op ≠ A_NUMLIT))

/-- A tree without a comparison: no node has one of the operations EQ, NE,
LT, GT, LE, GE. -/
def ASTnode.cmp_free : ASTnode → Bool
  | .NULL => true
  | .node op _ _ left mid right _ _ _ =>
    !(decide (A_EQ ≤ op) && decide (op ≤ A_GE)) && left.cmp_free && mid.cmp_free &&
      right.cmp_free

/-- The parser `sub` reads an operand followed by operators of the level
`lvl` or tighter and their operands, stops in front of the token behind
them, and builds the tree `eval_level` gives or fails as it does. -/
def parses_as (lc : Libc) (fuel : Nat) (st : Symtab) (sub : Comp → Res (ASTnode × Comp))
    (d lvl : Nat) (segok : List (Token × Token) → Prop)
    (stopok : List (Token × Token) → Token → Prop) : Prop :=
  ∀ (c : Comp) (x : Token) (seg : List (Token × Token)) (u : Token) (tail : List Token),
    c.syms = st → is_operand x = true →
    (∀ p ∈ seg, lvl ≤ op_level p.1.token ∧ is_operand p.2 = true) →
    segok seg → stopok seg u → seg.length ≤ fuel →
    presents lc fuel (x :: (pair_tokens seg ++ u :: tail)) c = true →
    ∃ c1, presents lc fuel (u :: tail) c1 = true ∧ c1.syms = st ∧
      sub c = (eval_level st d lvl x seg).map (fun n => (n, c1))

/-! ## Auxiliary definitions for two relational operators in a row -/

/-- An expression that ends in front of a second relational operator in a
row: an operand followed by operators of the level `lvl` or tighter and
their operands, in which no run between operators of level 1 holds two
relational operators and the last run holds one, and then the relational
operator `stop`. -/
def chain_shape (fuel : Nat) (lvl : Nat) (x : Token) (rest : List (Token × Token))
    (stop : Token) : Bool :=
  is_operand x &&
    rest.all (fun p => decide (lvl ≤ op_level p.1.token) && is_operand p.2) &&
    chain_free rest && decide (op_level stop.token = 2) &&
    decide ((relational_counts rest).getLast? = some 1) && decide (rest.length ≤ fuel)

/-- The lexer hands out an expression that ends in front of a second
relational operator in a row, and then the tokens `tail`. -/
def relational_chain (lc : Libc) (fuel : Nat) (lvl : Nat) (x : Token)
    (rest : List (Token × Token)) (stop : Token) (tail : List Token) (c : Comp) : Bool :=
  chain_shape fuel lvl x rest stop &&
    presents lc fuel (x :: (pair_tokens rest ++ stop :: tail)) c

/-- The tokens of the arguments of a call that are followed by a comma: for
each argument its first operand, the operators and operands behind it, and
the comma. -/
def arg_tokens : List (Token × List (Token × Token) × Token) → List Token
  | [] => []
  | (x, rest, cm) :: more => x :: (pair_tokens rest ++ cm :: arg_tokens more)

/-- Arguments of a call that are followed by a comma: each is an operand
followed by binary operators and operands, without two relational operators
in a row. -/
def args_ok (fuel : Nat) (args : List (Token × List (Token × Token) × Token)) : Bool :=
  args.all (fun a => is_operand a.1 &&
    a.2.1.all (fun p => decide (1 ≤ op_level p.1.token) && is_operand p.2) &&
    chain_free a.2.1 && decide (a.2.2.token = T_COMMA) && decide (a.2.1.length ≤ fuel)) &&
  decide (args.length ≤ fuel)

/-- The state a step of the parser returns, or the state `c` when the step
stops with an error. -/
def state_or (r : Res Comp) (c : Comp) : Comp :=
  match r with
  | Except.ok c1 => c1
  | Except.error _ => c

/-- The tree a step of the parser returns, or no tree when the step stops
with an error. -/
def tree_or (r : Res (ASTnode × Comp)) : ASTnode :=
  match r with
  | Except.ok (n, _) => n
  | Except.error _ => ASTnode.NULL

/-- The state a step of the parser returns next to a tree, or the state `c`
when the step stops with an error. -/
def next_or (r : Res (ASTnode × Comp)) (c : Comp) : Comp :=
  match r with
  | Except.ok (_, c1) => c1
  | Except.error _ => c

/-- The tree an assignment returns, or no tree when it stops with an
error. -/
def node_or (r : Res ASTnode) : ASTnode :=
  match r with
  | Except.ok n => n
  | Except.error _ => ASTnode.NULL

/-! ## Auxiliary definitions for functions that have a body -/

/-- The names and types of a parameter list, as `add_function` walks it
through `mid`. -/
def param_sigs : ASTnode → List (Option String × Option Ty)
  | .NULL => []
  | .node _ ptype _ _ pmid _ _ _ pstrlit => (pstrlit, ptype) :: param_sigs pmid

/-- A list of symbols records the function `name` with a body: the first
symbol of that name has the return type `ty`, members with the names and
types of `params`, and the has-body flag `add_function` returns is 1. -/
def body_recorded (name : String) (ty : Ty) (params : List (String × Ty))
    (l : List Sym) : Prop :=
  match find_symbol_loop name none l with
  | some fs => fs.type = some ty ∧
    fs.memb.map (fun q => (q.name, q.type)) = params.map (fun q => (q.1, some q.2)) ∧
    to_int32 fs.initval.intval = 1
  | none => False

instance (name : String) (ty : Ty) (params : List (String × Ty)) (l : List Sym) :
    Decidable (body_recorded name ty params l) := by
  unfold body_recorded; split <;> infer_instance

/-- The symbol table, outside any function body, records the function
`name` with a body; the addresses of the main list are below the next
address `calloc` hands out. -/
def declared_with_body (name : String) (ty : Ty) (params : List (String × Ty))
    (st : Symtab) : Prop :=
  st.Globhead = none ∧ st.Curfunc = none ∧ (∀ s ∈ st.Symhead, s.addr < st.nextaddr) ∧
    body_recorded name ty params st.Symhead

instance (name : String) (ty : Ty) (params : List (String × Ty)) (st : Symtab) :
    Decidable (declared_with_body name ty params st) := by
  unfold declared_with_body; infer_instance

/-- The symbol table, inside a function body, records the function `name`
with a body in its global part, the part of the main list from `Globhead`
on. -/
def body_in_scope (name : String) (ty : Ty) (params : List (String × Ty))
    (st : Symtab) : Prop :=
  (match st.Globhead with
    | some a => a < st.nextaddr
    | none => False) ∧
    (∀ s ∈ st.Symhead, s.addr < st.nextaddr) ∧
    body_recorded name ty params (list_from st.Globhead st.Symhead)

instance (name : String) (ty : Ty) (params : List (String × Ty)) (st : Symtab) :
    Decidable (body_in_scope name ty params st) := by
  unfold body_in_scope
  cases st.Globhead <;> infer_instance

/-- A parser of statements keeps the property `P` of the symbol table, on
a table where every symbol has a type. -/
def scope_parser_ok (P : Symtab → Prop) (p : Comp → Res (ASTnode × Comp)) : Prop :=
  ∀ c n c1, syms_typed c.syms → P c.syms → p c = Except.ok (n, c1) → P c1.syms

/-- The state after `n` calls of `function_declaration`; a call that stops
with an error leaves the state as it is. -/
def declarations_done (lc : Libc) (fuel : Nat) : Nat → Comp → Comp
  | 0, c => c
  | n + 1, c =>
    state_or (function_declaration lc fuel (declarations_done lc fuel n c))
      (declarations_done lc fuel n c)

/-- The state at the first token of a program text. -/
def program_start (input : List Char) : Comp :=
  state_or (main_start libc_unused 60 input "in.al") (Comp.init input "in.al")

/-- A program text that declares the function `f` with a body that holds
a local variable, then a prototype and a body of `g`, then the prototype
of `f` again and a second body of `f`. -/
def second_body_text : List Char :=
  ("void f(int32 a) \x7b int32 x = 1; \x7d int32 g(void); " ++
    "int32 g(void) \x7b int8 y = 2; \x7d void f(int32 a); " ++
    "void f(int32 a) \x7b \x7d").toList

/-! ## Theorems -/

/-! ### Type engine -/

/-- C1 (the code departs from the claim): for every A_NUMLIT node of integer
type and every floating-point target, widen_type does not retype the literal
in place; it returns a new A_CAST node of the target type whose left child
is the untouched literal (same integer type, same integer value). -/
theorem widen_type_int_literal_to_float_wraps_cast (nty t : Ty) (rv : Bool)
    (l m r : ASTnode) (sym : Option Sym) (v : Litval) (s : Option String)
    (hi : is_integer nty = true) (hf : is_flonum t = true) :
    widen_type (ASTnode.node A_NUMLIT (some nty) rv l m r sym v s) (some t) =
      Except.ok (ASTnode.node A_CAST (some t) true
        (ASTnode.node A_NUMLIT (some nty) rv l m r sym v s)
        ASTnode.NULL ASTnode.NULL none ⟨0⟩ none) := by
  cases nty <;> cases t <;>
    simp_all [widen_type, is_integer, is_flonum, Ty.kind, mkastnode,
      ASTnode.set_type, ASTnode.set_rvalue]

/-- C1 at the initializer of `flt32 f = 1;`: the int8 literal 1 widened to
flt32 comes back as CAST(flt32) over NUMLIT(int8, 1). -/
theorem widen_type_int_literal_to_float_wraps_cast_witness :
    is_integer ty_int8 = true ∧ is_flonum ty_flt32 = true ∧
    widen_type (ASTnode.node A_NUMLIT (some ty_int8) true ASTnode.NULL
        ASTnode.NULL ASTnode.NULL none ⟨1⟩ none) (some ty_flt32) =
      Except.ok (ASTnode.node A_CAST (some ty_flt32) true
        (ASTnode.node A_NUMLIT (some ty_int8) true ASTnode.NULL
          ASTnode.NULL ASTnode.NULL none ⟨1⟩ none)
        ASTnode.NULL ASTnode.NULL none ⟨0⟩ none) :=
  ⟨by decide, by decide,
    widen_type_int_literal_to_float_wraps_cast ty_int8 ty_flt32 true ASTnode.NULL
      ASTnode.NULL ASTnode.NULL none ⟨1⟩ none (by decide) (by decide)⟩

/-- C2 as stated fails: the negative literal -200 of type int16 widened to
the unsigned type uint8 is returned unchanged, without a fatal error,
because the target is smaller than the type of the node. -/
theorem widen_type_negative_literal_narrowing_accepted :
    (Litval.of_int (-200)).intval = -200 ∧
    widen_type (ASTnode.node A_NUMLIT (some ty_int16) true ASTnode.NULL
        ASTnode.NULL ASTnode.NULL none (Litval.of_int (-200)) none) (some ty_uint8) =
      Except.ok (ASTnode.node A_NUMLIT (some ty_int16) true ASTnode.NULL
        ASTnode.NULL ASTnode.NULL none (Litval.of_int (-200)) none) := by
  constructor
  · decide
  · rfl

/-- C2 (amended): for every A_NUMLIT node of signed integer type whose value
is negative and every unsigned integer target type that is not smaller than
the type of the node, widen_type fails fatally with
`Cannot cast negative literal value <v> to be unsigned`. -/
theorem widen_type_negative_literal_to_unsigned_fatal (nty t : Ty) (rv : Bool)
    (l m r : ASTnode) (sym : Option Sym) (v : Litval) (s : Option String)
    (hi : is_integer nty = true) (hs : nty.is_unsigned = false)
    (hneg : v.intval < 0)
    (hti : is_integer t = true) (hu : t.is_unsigned = true)
    (hsz : nty.size ≤ t.size) :
    widen_type (ASTnode.node A_NUMLIT (some nty) rv l m r sym v s) (some t) =
      fatal ("Cannot cast negative literal value " ++ toString v.intval ++
        " to be unsigned\n") := by
  cases nty <;> cases t <;>
    simp_all [widen_type, is_integer, is_flonum, Ty.kind, Ty.size, Ty.is_unsigned]

/-- C2 at `uint8 x = -1;`: the int8 literal -1 widened to uint8 is fatal
with the message of the claim. -/
theorem widen_type_negative_literal_to_unsigned_fatal_witness :
    widen_type (ASTnode.node A_NUMLIT (some ty_int8) true ASTnode.NULL
        ASTnode.NULL ASTnode.NULL none (Litval.of_int (-1)) none) (some ty_uint8) =
      fatal "Cannot cast negative literal value -1 to be unsigned\n" :=
  widen_type_negative_literal_to_unsigned_fatal ty_int8 ty_uint8 true ASTnode.NULL
    ASTnode.NULL ASTnode.NULL none (Litval.of_int (-1)) none
    (by decide) (by decide) (by decide) (by decide) (by decide) (by decide)

/-- C3 as stated fails: a non-literal int32 node widened to the smaller
type uint8 of the other signedness is returned unchanged (not NULL), and
widen_expression returns it too instead of failing. -/
theorem widen_type_sign_mismatch_narrowing_accepted :
    widen_type (ASTnode.node A_IDENT (some ty_int32) true ASTnode.NULL
        ASTnode.NULL ASTnode.NULL none ⟨0⟩ none) (some ty_uint8) =
      Except.ok (ASTnode.node A_IDENT (some ty_int32) true ASTnode.NULL
        ASTnode.NULL ASTnode.NULL none ⟨0⟩ none) ∧
    widen_expression (ASTnode.node A_IDENT (some ty_int32) true ASTnode.NULL
        ASTnode.NULL ASTnode.NULL none ⟨0⟩ none) (some ty_uint8) =
      Except.ok (ASTnode.node A_IDENT (some ty_int32) true ASTnode.NULL
        ASTnode.NULL ASTnode.NULL none ⟨0⟩ none) := by
  constructor <;> rfl

/-- C3 (amended): for every non-literal node of integer type and every
integer target type of the other signedness that is not smaller than the
type of the node, widen_type returns NULL and widen_expression fails fatally
with `Incompatible types <node type> vs <target type>`. -/
theorem widen_type_sign_mismatch_null (op : Nat) (nty t : Ty) (rv : Bool)
    (l m r : ASTnode) (sym : Option Sym) (v : Litval) (s : Option String)
    (hop : op ≠ A_NUMLIT)
    (hi : is_integer nty = true) (hti : is_integer t = true)
    (hs : nty.is_unsigned ≠ t.is_unsigned) (hsz : nty.size ≤ t.size) :
    widen_type (ASTnode.node op (some nty) rv l m r sym v s) (some t) =
      Except.ok ASTnode.NULL ∧
    widen_expression (ASTnode.node op (some nty) rv l m r sym v s) (some t) =
      fatal ("Incompatible types " ++ get_typename nty ++ " vs " ++
        get_typename t ++ "\n") := by
  have h1 : widen_type (ASTnode.node op (some nty) rv l m r sym v s) (some t) =
      Except.ok ASTnode.NULL := by
    cases nty <;> cases t <;>
      simp_all [widen_type, is_integer, is_flonum, Ty.kind, Ty.size, Ty.is_unsigned]
  refine ⟨h1, ?_⟩
  simp [widen_expression, h1, bind, Except.bind, ASTnode.isNULL, ASTnode.type, deref]

/-- C3 at an int8 variable widened to uint8: NULL from widen_type, and
`Incompatible types int8 vs unsigned int8` from widen_expression. -/
theorem widen_type_sign_mismatch_null_witness :
    widen_type (ASTnode.node A_IDENT (some ty_int8) true ASTnode.NULL
        ASTnode.NULL ASTnode.NULL none ⟨0⟩ none) (some ty_uint8) =
      Except.ok ASTnode.NULL ∧
    widen_expression (ASTnode.node A_IDENT (some ty_int8) true ASTnode.NULL
        ASTnode.NULL ASTnode.NULL none ⟨0⟩ none) (some ty_uint8) =
      fatal ("Incompatible types " ++ get_typename ty_int8 ++ " vs " ++
        get_typename ty_uint8 ++ "\n") :=
  widen_type_sign_mismatch_null A_IDENT ty_int8 ty_uint8 true ASTnode.NULL
    ASTnode.NULL ASTnode.NULL none ⟨0⟩ none
    (by decide) (by decide) (by decide) (by decide) (by decide)

/-- On two typed operands and an operator outside the range EQ..NOT,
`binop` is the two widening attempts of `add_type` run one after the other. -/
theorem binop_typed (op lop rop : Nat) (lt rt : Ty) (lrv rrv : Bool)
    (ll lm lr rl rm rr : ASTnode) (lsym rsym : Option Sym)
    (lv rv : Litval) (ls rs : Option String)
    (hrel : ¬ (A_EQ ≤ op ∧ op ≤ A_NOT)) :
    binop (ASTnode.node lop (some lt) lrv ll lm lr lsym lv ls)
        (ASTnode.node rop (some rt) rrv rl rm rr rsym rv rs) op =
      (widen_type (ASTnode.node lop (some lt) lrv ll lm lr lsym lv ls) (some rt) >>=
        fun n1 =>
          (if n1.isNULL then ASTnode.node lop (some lt) lrv ll lm lr lsym lv ls
            else n1).type >>= fun lty =>
          widen_type (ASTnode.node rop (some rt) rrv rl rm rr rsym rv rs) lty >>=
        fun n2 =>
          (if n1.isNULL then ASTnode.node lop (some lt) lrv ll lm lr lsym lv ls
            else n1).type >>= fun lty2 =>
          Except.ok (ASTnode.node op lty2 true
            (if n1.isNULL then ASTnode.node lop (some lt) lrv ll lm lr lsym lv ls
              else n1)
            ASTnode.NULL
            (if n2.isNULL then ASTnode.node rop (some rt) rrv rl rm rr rsym rv rs
              else n2) none ⟨0⟩ none)) := by
  simp only [binop, mkastnode, ASTnode.set_rvalue, add_type, Option.isSome,
    hrel, if_false, if_true, ASTnode.type]
  rfl

/-- C4 as stated fails: `binop` over a variable of type int8 and a variable
of type uint8 with A_ADD returns a node of type int8 whose left child has
type int8 and whose right child still has type uint8 (both widening attempts
return NULL and are ignored). -/
theorem binop_mixed_sign_children_differ :
    binop
      (ASTnode.node A_IDENT (some ty_int8) true ASTnode.NULL ASTnode.NULL
        ASTnode.NULL none ⟨0⟩ none)
      (ASTnode.node A_IDENT (some ty_uint8) true ASTnode.NULL ASTnode.NULL
        ASTnode.NULL none ⟨0⟩ none) A_ADD =
    Except.ok (ASTnode.node A_ADD (some ty_int8) true
      (ASTnode.node A_IDENT (some ty_int8) true ASTnode.NULL ASTnode.NULL
        ASTnode.NULL none ⟨0⟩ none)
      ASTnode.NULL
      (ASTnode.node A_IDENT (some ty_uint8) true ASTnode.NULL ASTnode.NULL
        ASTnode.NULL none ⟨0⟩ none) none ⟨0⟩ none) ∧
    ty_int8 ≠ ty_uint8 := by
  constructor
  · rfl
  · decide

/-- C5: parse_litval returns flt32 for every float token; for every other
token whose value, read as a signed 64-bit integer v, lies in the int32
range it returns int8 when -128 <= v <= 127, otherwise int16 when
-32768 <= v <= 32767, otherwise int32. -/
theorem parse_litval_smallest_signed (t : Token) :
    (t.numtype = NUM_FLT → parse_litval t = ty_flt32) ∧
    (t.numtype ≠ NUM_FLT → -2147483648 ≤ t.numval.intval →
      t.numval.intval ≤ 2147483647 →
      parse_litval t =
        if -128 ≤ t.numval.intval ∧ t.numval.intval ≤ 127 then ty_int8
        else if -32768 ≤ t.numval.intval ∧ t.numval.intval ≤ 32767 then ty_int16
        else ty_int32) := by
  constructor
  · intro h
    simp [parse_litval, h]
  · intro h h1 h2
    simp only [parse_litval, h, if_false, ge_iff_le, SCHAR_MIN, SCHAR_MAX, SHRT_MIN,
      SHRT_MAX, INT_MIN, INT_MAX]
    split_ifs <;> first | rfl | omega

/-- C5 at the literals 127, 128, 32767 and 32768 (unsigned-marked integer
tokens) and at a float token. -/
theorem parse_litval_smallest_signed_witness :
    parse_litval ⟨T_NUMLIT, none, Litval.of_uint 127, NUM_UINT⟩ = ty_int8 ∧
    parse_litval ⟨T_NUMLIT, none, Litval.of_uint 128, NUM_UINT⟩ = ty_int16 ∧
    parse_litval ⟨T_NUMLIT, none, Litval.of_uint 32767, NUM_UINT⟩ = ty_int16 ∧
    parse_litval ⟨T_NUMLIT, none, Litval.of_uint 32768, NUM_UINT⟩ = ty_int32 ∧
    parse_litval ⟨T_NUMLIT, none, ⟨0x400921F9F01B866E⟩, NUM_FLT⟩ = ty_flt32 :=
  ⟨(parse_litval_smallest_signed ⟨T_NUMLIT, none, Litval.of_uint 127, NUM_UINT⟩).2
      (by decide) (by decide) (by decide),
   (parse_litval_smallest_signed ⟨T_NUMLIT, none, Litval.of_uint 128, NUM_UINT⟩).2
      (by decide) (by decide) (by decide),
   (parse_litval_smallest_signed ⟨T_NUMLIT, none, Litval.of_uint 32767, NUM_UINT⟩).2
      (by decide) (by decide) (by decide),
   (parse_litval_smallest_signed ⟨T_NUMLIT, none, Litval.of_uint 32768, NUM_UINT⟩).2
      (by decide) (by decide) (by decide),
   (parse_litval_smallest_signed ⟨T_NUMLIT, none, ⟨0x400921F9F01B866E⟩, NUM_FLT⟩).1
      (by decide)⟩

/-! ### Code generator -/

/-- C8 (the code departs from the claim): for every unsigned type and every
op among LT, GT, LE, GE, cgcompare writes the signed opcode (cslt, csgt,
csle, csge followed by the backend type letter) into a fresh temporary of
backend type w; the second half of the table `qbecmp`, selected by the
offset 6 for unsigned types, repeats the signed names, so cult, cugt, cule
and cuge are never written. -/
theorem cgcompare_unsigned_emits_signed_opcode (op : Nat)
    (hop : op ∈ [A_LT, A_GT, A_LE, A_GE]) (ty : Ty) (hu : ty.is_unsigned = true)
    (t1 t2 : Int) (cg : Cgen) :
    cgcompare op t1 t2 (some ty) cg =
      Except.ok (cg.nexttemp + 1,
        ⟨cg.nexttemp + 1,
          cg.out ++ ("  %.t" ++ toString (cg.nexttemp + 1) ++ " =w c" ++
            ["slt", "sgt", "sle", "sge"].getD (op - A_LT) "" ++
            qbe_typename.getD ty.kind.code "" ++
            " %.t" ++ toString t1 ++ ", %.t" ++ toString t2 ++ "\n")⟩) := by
  simp only [List.mem_cons, List.mem_singleton, List.mem_nil_iff, or_false] at hop
  rcases hop with h | h | h | h <;> subst h <;> cases ty <;>
    first | rfl | exact absurd hu (by decide)

/-- C8 at `a < b` with a of type uint32 held in temporaries 2 and 3: the
line written is `%.t4 =w csltw %.t2, %.t3`. -/
theorem cgcompare_unsigned_emits_signed_opcode_witness :
    cgcompare A_LT 2 3 (some ty_uint32) ⟨3, ""⟩ =
      Except.ok (4, ⟨4, "  %.t4 =w csltw %.t2, %.t3\n"⟩) :=
  cgcompare_unsigned_emits_signed_opcode A_LT (by decide) ty_uint32 (by decide) 2 3 ⟨3, ""⟩

/-- C9 (the code departs from the claim): for every symbol without an
address of any non-void built-in type, cgstorvar writes
`%name =<sqt> copy %.tV` where <sqt> is the letter of the store table
(b for bool and int8, h for int16), not the backend type letter w. -/
theorem cgstorvar_copy_uses_store_letter (name : String) (symtype : Nat) (ty : Ty)
    (iv : Litval) (cnt : Int) (memb : List Sym) (addr : Nat) (t : Int) (ety : Option Ty)
    (cg : Cgen) (hv : ty ≠ ty_void) :
    cgstorvar t ety (some (Sym.mk name symtype false (some ty) iv cnt memb addr)) cg =
      Except.ok ⟨cg.nexttemp, cg.out ++ ("  %" ++ name ++ " =" ++
        qbe_storetypename.getD ty.kind.code "" ++ " copy %.t" ++ toString t ++ "\n")⟩ := by
  cases ty <;> first | rfl | exact absurd rfl hv

/-- C9 at a parameter p of type int8 assigned from temporary 2: the line
written is `%p =b copy %.t2`. -/
theorem cgstorvar_copy_uses_store_letter_witness :
    cgstorvar 2 (some ty_int8) (some (Sym.mk "p" ST_VARIABLE false (some ty_int8) ⟨0⟩ 0 [] 0))
      ⟨3, ""⟩ = Except.ok ⟨3, "  %p =b copy %.t2\n"⟩ :=
  cgstorvar_copy_uses_store_letter "p" ST_VARIABLE ty_int8 ⟨0⟩ 0 [] 0 2 (some ty_int8)
    ⟨3, ""⟩ (by decide)

/-- C10 as stated fails: cgcast from int64 to the smaller type int32 stops
with the fatal error `Not sure how to narrow from int64 to int32`. -/
theorem cgcast_narrow_int64_fatal :
    cgcast 2 (some ty_int64) (some ty_int32) ⟨3, ""⟩ =
      fatal "Not sure how to narrow from int64 to int32\n" := by
  rfl

/-- C10 (amended): for every integer target type strictly smaller than the
source type, cgcast from int32 or uint32 writes no instruction, does not
fail and returns the input temporary (one temporary number is used up);
cgcast from int64 or uint64 fails fatally with
`Not sure how to narrow from <source> to <target>`. -/
theorem cgcast_narrowing (t1 : Int) (ty nty : Ty) (cg : Cgen)
    (hsrc : ty ∈ [ty_int32, ty_uint32, ty_int64, ty_uint64])
    (hint : is_integer nty = true) (hsz : nty.size < ty.size) :
    (ty.kind = TY_INT32 →
      cgcast t1 (some ty) (some nty) cg = Except.ok (t1, ⟨cg.nexttemp + 1, cg.out⟩)) ∧
    (ty.kind = TY_INT64 →
      cgcast t1 (some ty) (some nty) cg =
        fatal ("Not sure how to narrow from " ++ get_typename ty ++ " to " ++
          get_typename nty ++ "\n")) := by
  simp only [List.mem_cons, List.mem_singleton, List.mem_nil_iff, or_false] at hsrc
  rcases hsrc with h | h | h | h <;> subst h <;> cases nty <;>
    first
    | exact absurd hint (by decide)
    | exact absurd hsz (by decide)
    | exact ⟨fun _ => rfl, fun h => absurd h (by decide)⟩
    | exact ⟨fun h => absurd h (by decide), fun _ => rfl⟩

/-- C10 at int32 to int8 (no instruction, temporary 2 returned) and at
uint64 to uint16 (fatal). -/
theorem cgcast_narrowing_witness :
    cgcast 2 (some ty_int32) (some ty_int8) ⟨3, ""⟩ = Except.ok (2, ⟨4, ""⟩) ∧
    cgcast 2 (some ty_uint64) (some ty_uint16) ⟨3, ""⟩ =
      fatal "Not sure how to narrow from unsigned int64 to unsigned int16\n" :=
  ⟨(cgcast_narrowing 2 ty_int32 ty_int8 ⟨3, ""⟩ (by decide) (by decide) (by decide)).1
      (by decide),
   (cgcast_narrowing 2 ty_uint64 ty_uint16 ⟨3, ""⟩ (by decide) (by decide) (by decide)).2
      (by decide)⟩

/-! ### Lexer -/

/-- Reading an ordinary character: with nothing put back, a character that
is not a newline and does not start a linemark is returned and removed from
the input. -/
theorem next_plain (sc : Lex → Res (Int × Lex)) (fuel : Nat) (st : Lex)
    (c : Char) (rest : List Char)
    (hp : st.Putback = 0) (hin : st.input = c :: rest)
    (h1 : st.Linestart = 0 ∨ c.toNat ≠ 35) (hnl : c.toNat ≠ 10) :
    next sc fuel st =
      Except.ok ((c.toNat : Int), { st with input := rest, Linestart := 0 }) := by
  have hc35 : ¬ (st.Linestart ≠ 0 ∧ (c.toNat : Int) = 35) := by
    rintro ⟨ha, hb⟩
    rcases h1 with h | h
    · exact ha h
    · exact h (by exact_mod_cast hb)
  have hc10 : ¬ ((c.toNat : Int) = 10) := by
    intro h; exact hnl (by exact_mod_cast h)
  unfold next
  simp only [hp, ne_eq, not_true_eq_false, if_false, fgetc, hin]
  unfold next_linemarks
  simp only [ne_eq, hc35, hc10, if_false]

/-- At the end of the input `next` returns EOF. -/
theorem next_eof (sc : Lex → Res (Int × Lex)) (fuel : Nat) (st : Lex)
    (hp : st.Putback = 0) (hin : st.input = []) :
    next sc fuel st = Except.ok (EOF, { st with Linestart := 0 }) := by
  unfold next
  simp only [hp, ne_eq, not_true_eq_false, if_false, fgetc, hin]
  unfold next_linemarks
  have e1 : ¬ ((EOF : Int) = 35) := by decide
  have e2 : ¬ ((EOF : Int) = 10) := by decide
  simp only [ne_eq, e1, e2, and_false, if_false, hin, hp]

/-- An ordinary character that is not a backslash is returned by `scanch` as
it is. -/
theorem scanch_plain (sc : Lex → Res (Int × Lex)) (fuel : Nat) (st : Lex)
    (c : Char) (rest : List Char)
    (hp : st.Putback = 0) (hin : st.input = c :: rest)
    (h1 : st.Linestart = 0 ∨ c.toNat ≠ 35) (hnl : c.toNat ≠ 10) (hbs : c.toNat ≠ 92) :
    scanch sc fuel st =
      Except.ok ((c.toNat : Int), { st with input := rest, Linestart := 0 }) := by
  have hc : ¬ ((c.toNat : Int) = 92) := by
    intro h; exact hbs (by exact_mod_cast h)
  unfold scanch
  simp only [next_plain sc fuel st c rest hp hin h1 hnl, bind, Except.bind, hc, if_false]

/-- At the end of the input `scanch` returns EOF. -/
theorem scanch_eof (sc : Lex → Res (Int × Lex)) (fuel : Nat) (st : Lex)
    (hp : st.Putback = 0) (hin : st.input = []) :
    scanch sc fuel st = Except.ok (EOF, { st with Linestart := 0 }) := by
  unfold scanch
  have e1 : ¬ ((EOF : Int) = 92) := by decide
  simp only [next_eof sc fuel st hp hin, bind, Except.bind, e1, if_false]

/-- Every character of `numchar` is an ordinary non-NUL byte that `strchr`
finds in `numchar`. -/
theorem numchar_facts : ∀ c ∈ numchar,
    c.toNat ≠ 35 ∧ c.toNat ≠ 10 ∧ c.toNat ≠ 92 ∧ c.toNat ≠ 0 ∧
    strchr_found numchar (c.toNat : Int) = true ∧ to_char (c.toNat : Int) = c := by
  decide

/-- After `buf[i] = c` the buffer has more than i bytes. -/
theorem buf_write_length (buf : List Char) (i : Nat) (c : Char) :
    i + 1 ≤ (buf_write buf i c).length := by
  simp only [buf_write, List.length_append, List.length_take, List.length_replicate,
    List.length_cons, List.length_drop]
  omega

/-- After `buf[i] = c` the first i + 1 bytes are the old first i bytes and
c. -/
theorem buf_write_take (buf : List Char) (i : Nat) (c : Char) (h : i ≤ buf.length) :
    (buf_write buf i c).take (i + 1) = buf.take i ++ [c] := by
  have h0 : i - buf.length = 0 := by omega
  have hl : (List.take i buf).length = i := by simp [h]
  simp only [buf_write, h0, List.replicate_zero, List.append_nil]
  rw [List.take_append_eq_append_take, hl]
  simp [List.take_take]

/-- A text without NUL followed by a NUL is the C string with that text. -/
theorem cstr_terminated (text rest : List Char) (h : ∀ c ∈ text, c.toNat ≠ 0) :
    cstr (text ++ Char.ofNat 0 :: rest) = text := by
  induction text with
  | nil => simp [cstr, List.takeWhile]
  | cons a t ih =>
    have ha : a.toNat ≠ 0 := h a (List.mem_cons_self _ _)
    have := ih (fun c hc => h c (List.mem_cons_of_mem _ hc))
    simp only [cstr] at this ⊢
    simp only [ne_eq, decide_not] at this ⊢
    simp [List.takeWhile, ha, this]

/-- After `buf[i] = 0` the C string in the buffer is its first i bytes, when
these hold no NUL. -/
theorem buf_write_nul (buf : List Char) (i : Nat) (h : i ≤ buf.length)
    (hz : ∀ c ∈ buf.take i, c.toNat ≠ 0) :
    cstr (buf_write buf i (to_char 0)) = buf.take i := by
  have h0 : i - buf.length = 0 := by omega
  have e : to_char 0 = Char.ofNat 0 := by decide
  simp only [buf_write, h0, List.replicate_zero, List.append_nil, e]
  exact cstr_terminated _ _ hz

/-- With `Linestart` zero, `scanch` returns any character other than a
backslash and leaves `Text` and `Thistoken` alone. -/
theorem scanch_any (sc : Lex → Res (Int × Lex)) (fuel : Nat) (st : Lex)
    (c : Char) (rest : List Char)
    (hp : st.Putback = 0) (hin : st.input = c :: rest)
    (h1 : st.Linestart = 0) (hbs : c.toNat ≠ 92) :
    ∃ st1, scanch sc fuel st = Except.ok ((c.toNat : Int), st1) ∧
      st1.Text = st.Text ∧ st1.Thistoken = st.Thistoken := by
  have hc : ¬ ((c.toNat : Int) = 92) := by
    intro h; exact hbs (by exact_mod_cast h)
  have hn : ∃ st1, next sc fuel st = Except.ok ((c.toNat : Int), st1) ∧
      st1.Text = st.Text ∧ st1.Thistoken = st.Thistoken := by
    unfold next
    simp only [hp, ne_eq, not_true_eq_false, if_false, fgetc, hin]
    unfold next_linemarks
    simp only [ne_eq, h1, not_true_eq_false, false_and, if_false]
    by_cases h10 : (c.toNat : Int) = 10
    · simp only [h10, if_true]
      exact ⟨_, rfl, rfl, rfl⟩
    · simp only [h10, if_false]
      exact ⟨_, rfl, rfl, rfl⟩
  obtain ⟨st1, e1, e2, e3⟩ := hn
  refine ⟨st1, ?_, e2, e3⟩
  unfold scanch
  simp only [e1, bind, Except.bind, hc, if_false]

/-- The loop of `scan_numlit` copies a run of literal characters into `Text`
and stops at the end of the literal. -/
theorem scan_numlit_loop_digits (sc : Lex → Res (Int × Lex)) (fuel : Nat) :
    ∀ (ds : List Char) (k i : Nat) (st : Lex) (rest : List Char),
      (∀ c ∈ ds, c ∈ numchar) → ends_literal rest = true →
      st.Putback = 0 → st.Linestart = 0 → st.input = ds ++ rest →
      ds.length ≤ k → i ≤ st.Text.length →
      ∃ st1, scan_numlit_loop sc fuel k i st = Except.ok (i + ds.length, st1) ∧
        st1.Text.take (i + ds.length) = st.Text.take i ++ ds ∧
        st1.Thistoken = st.Thistoken ∧ i + ds.length ≤ st1.Text.length := by
  intro ds
  induction ds with
  | nil =>
    intro k i st rest _ hend hp hl hin _ hi
    simp only [List.nil_append] at hin
    cases k with
    | zero => exact ⟨st, rfl, by simp, rfl, by simpa using hi⟩
    | succ k =>
      cases rest with
      | nil =>
        refine ⟨putback EOF { st with Linestart := 0 }, ?_, by simp [putback], rfl,
          by simpa [putback] using hi⟩
        have e : strchr_found numchar EOF = false := by decide
        simp only [scan_numlit_loop, scanch_eof sc fuel st hp hin, bind, Except.bind, e,
          Bool.not_false, if_true, List.length_nil, Nat.add_zero]
      | cons t r =>
        have hend1 : strchr_found numchar (t.toNat : Int) = false ∧ t.toNat ≠ 92 := by
          simpa [ends_literal] using hend
        obtain ⟨hf, hb⟩ := hend1
        obtain ⟨st1, e1, e2, e3⟩ := scanch_any sc fuel st t r hp hin hl hb
        refine ⟨putback (t.toNat : Int) st1, ?_, by simp [putback, e2], by simp [putback, e3],
          by simpa [putback, e2] using hi⟩
        simp only [scan_numlit_loop, e1, bind, Except.bind, hf, Bool.not_false, if_true,
          List.length_nil, Nat.add_zero]
  | cons d ds ih =>
    intro k i st rest hds hend hp hl hin hk hi
    cases k with
    | zero => simp at hk
    | succ k =>
      obtain ⟨h35, h10, h92, _, hfound, hch⟩ :=
        numchar_facts d (hds d (List.mem_cons_self _ _))
      have hin1 : st.input = d :: (ds ++ rest) := by simpa using hin
      have es := scanch_plain sc fuel st d (ds ++ rest) hp hin1 (Or.inl hl) h10 h92
      obtain ⟨st1, e1, e2, e3, e4⟩ :=
        ih k (i + 1)
          (({ st with input := ds ++ rest, Linestart := 0 } : Lex).text_write i (d.toNat : Int))
          rest (fun c hc => hds c (List.mem_cons_of_mem _ hc)) hend
          (by simp [Lex.text_write, hp]) (by simp [Lex.text_write])
          (by simp [Lex.text_write])
          (by simpa using hk)
          (by simpa [Lex.text_write] using buf_write_length st.Text i (to_char (d.toNat : Int)))
      refine ⟨st1, ?_, ?_, ?_, ?_⟩
      · have : i + (d :: ds).length = i + 1 + ds.length := by simp; omega
        simp only [scan_numlit_loop, es, bind, Except.bind, hfound, Bool.not_true, if_false]
        rw [e1, this]
        simp only [Bool.false_eq_true, if_false]
      · have : i + (d :: ds).length = i + 1 + ds.length := by simp; omega
        rw [this, e2]
        simp only [Lex.text_write, hch, buf_write_take st.Text i d hi, List.append_assoc,
          List.singleton_append]
      · rw [e3]; simp [Lex.text_write]
      · have : i + (d :: ds).length = i + 1 + ds.length := by simp; omega
        rw [this]; exact e4

/-- On the text of an integer literal `scan_numlit` marks the token unsigned
and stores the value `strtoull` gives for the radix of the text. -/
theorem scan_numlit_plain (strtod : List Char → Nat) (sc : Lex → Res (Int × Lex))
    (fuel : Nat) (toThis : Bool) (t : Token) (st : Lex) (c0 : Char)
    (ds rest : List Char)
    (hc0 : c0 ∈ numchar) (hds : ∀ c ∈ ds, c ∈ numchar) (hend : ends_literal rest = true)
    (hlen : (c0 :: ds).length ≤ 511) (hdot : (c0 :: ds).contains '.' = false)
    (hp : st.Putback = 0) (hl : st.Linestart = 0) (hin : st.input = ds ++ rest) :
    ∃ st1, scan_numlit strtod sc fuel toThis t (c0.toNat : Int) false st =
        Except.ok ({ (if toThis then st.Thistoken else t) with
            numtype := NUM_UINT,
            numval := Litval.of_uint (strtoull (c0 :: ds) (literal_radix (c0 :: ds))) },
          st1) ∧
      (toThis = true → st1.Thistoken = { st.Thistoken with
            numtype := NUM_UINT,
            numval := Litval.of_uint (strtoull (c0 :: ds) (literal_radix (c0 :: ds))) }) := by
  obtain ⟨_, _, _, _, _, hch⟩ := numchar_facts c0 hc0
  have hnz : ∀ c ∈ c0 :: ds, c.toNat ≠ 0 := by
    intro c hc
    rcases List.mem_cons.1 hc with h | h
    · subst h; exact (numchar_facts c hc0).2.2.2.1
    · exact (numchar_facts c (hds c h)).2.2.2.1
  -- the state and token after the first character is stored
  cases toThis with
  | false =>
    obtain ⟨st1, e1, e2, e3, e4⟩ :=
      scan_numlit_loop_digits sc fuel ds (TEXTLEN - 1 - (0 + 1)) (0 + 1)
        (st.text_write 0 (c0.toNat : Int)) rest hds hend
        (by simp [Lex.text_write, hp]) (by simp [Lex.text_write, hl])
        (by simp [Lex.text_write, hin])
        (by simp at hlen ⊢; omega)
        (by simpa [Lex.text_write] using buf_write_length st.Text 0 (to_char (c0.toNat : Int)))
    have htxt : (st.text_write 0 (c0.toNat : Int)).Text.take (0 + 1) = [c0] := by
      simp [Lex.text_write, hch, buf_write_take st.Text 0 c0 (Nat.zero_le _)]
    rw [htxt] at e2
    have e2' : List.take (0 + 1 + ds.length) st1.Text = c0 :: ds := by simpa using e2
    have hcs : cstr (st1.text_write (0 + 1 + ds.length) 0).Text = c0 :: ds := by
      simp only [Lex.text_write]
      rw [buf_write_nul st1.Text _ e4 (by rw [e2']; exact hnz), e2']
    refine ⟨st1.text_write (0 + 1 + ds.length) 0, ?_, fun h => absurd h (by decide)⟩
    simp only [scan_numlit, tok_set, Bool.false_eq_true, if_false, e1, bind, Except.bind, hcs,
      hdot, literal_radix, List.head?_cons, List.tail_cons]
  | true =>
    obtain ⟨st1, e1, e2, e3, e4⟩ :=
      scan_numlit_loop_digits sc fuel ds (TEXTLEN - 1 - (0 + 1)) (0 + 1)
        (({ st with Thistoken := { st.Thistoken with numtype := NUM_UINT } } : Lex).text_write 0
          (c0.toNat : Int)) rest hds hend
        (by simp [Lex.text_write, hp]) (by simp [Lex.text_write, hl])
        (by simp [Lex.text_write, hin])
        (by simp at hlen ⊢; omega)
        (by simpa [Lex.text_write] using buf_write_length st.Text 0 (to_char (c0.toNat : Int)))
    have htxt : (({ st with Thistoken := { st.Thistoken with numtype := NUM_UINT } } :
        Lex).text_write 0 (c0.toNat : Int)).Text.take (0 + 1) = [c0] := by
      simp [Lex.text_write, hch, buf_write_take st.Text 0 c0 (Nat.zero_le _)]
    rw [htxt] at e2
    have e2' : List.take (0 + 1 + ds.length) st1.Text = c0 :: ds := by simpa using e2
    have hcs : cstr (st1.text_write (0 + 1 + ds.length) 0).Text = c0 :: ds := by
      simp only [Lex.text_write]
      rw [buf_write_nul st1.Text _ e4 (by rw [e2']; exact hnz), e2']
    have e3' : st1.Thistoken = { st.Thistoken with numtype := NUM_UINT } := by
      rw [e3]; simp [Lex.text_write]
    refine ⟨{ st1.text_write (0 + 1 + ds.length) 0 with
        Thistoken := { st.Thistoken with
          numtype := NUM_UINT,
          numval := Litval.of_uint (strtoull (c0 :: ds) (literal_radix (c0 :: ds))) } },
      ?_, fun _ => rfl⟩
    simp only [scan_numlit, tok_set, if_true, Bool.false_eq_true, if_false, e1, bind,
      Except.bind, hcs, hdot, literal_radix, List.head?_cons, List.tail_cons]
    simp only [Lex.text_write, e3']

/-- A hexadecimal digit is a character of `numchar`, is not the dot, and is
read by `strtoull` with its value. -/
theorem hex_digit_facts (c : Char) (h : hex_digit c = true) :
    c ∈ numchar ∧ c ≠ '.' ∧ strto_digit c = some (digit_value c) ∧ digit_value c < 16 := by
  have hc : c = Char.ofNat c.toNat := (Char.ofNat_toNat c).symm
  simp only [hex_digit, decide_eq_true_eq] at h
  generalize c.toNat = n at hc h
  subst hc
  rcases h with ⟨h1, h2⟩ | ⟨h1, h2⟩ | ⟨h1, h2⟩ <;> interval_cases n <;> decide

/-- A decimal digit is a hexadecimal digit with a value below 10. -/
theorem dec_digit_facts (c : Char) (h : dec_digit c = true) :
    hex_digit c = true ∧ digit_value c < 10 ∧ 48 ≤ (c.toNat : Int) ∧ (c.toNat : Int) ≤ 57 := by
  simp only [dec_digit, decide_eq_true_eq] at h
  refine ⟨by simp [hex_digit, h], ?_, by exact_mod_cast h.1, by exact_mod_cast h.2⟩
  simp only [digit_value, h.2, if_true]
  omega

/-- An octal digit is a hexadecimal digit with a value below 8. -/
theorem oct_digit_facts (c : Char) (h : oct_digit c = true) :
    hex_digit c = true ∧ digit_value c < 8 := by
  simp only [oct_digit, decide_eq_true_eq] at h
  refine ⟨by simp [hex_digit]; omega, ?_⟩
  have : c.toNat ≤ 57 := by omega
  simp only [digit_value, this, if_true]
  omega

/-- The digit loop of `strtoull` computes the positional value of a run of
digits below the radix. -/
theorem strto_digits_value (r : Nat) :
    ∀ (ds : List Char) (acc : Nat),
      (∀ c ∈ ds, strto_digit c = some (digit_value c) ∧ digit_value c < r) →
      strto_digits r acc ds = digits_value r ds + acc * r ^ ds.length := by
  intro ds
  induction ds with
  | nil => intro acc _; simp [strto_digits, digits_value]
  | cons d ds ih =>
    intro acc h
    obtain ⟨h1, h2⟩ := h d (List.mem_cons_self _ _)
    have := ih (acc * r + digit_value d) (fun c hc => h c (List.mem_cons_of_mem _ hc))
    simp only [strto_digits, h1, h2, if_true, this, digits_value, List.map_cons,
      List.reverse_cons, Nat.ofDigits_append, Nat.ofDigits_singleton, List.length_reverse,
      List.length_map, List.length_cons]
    ring

/-- A leading zero does not change the value of a digit string. -/
theorem digits_value_zero_cons (b : Nat) (ds : List Char) :
    digits_value b ('0' :: ds) = digits_value b ds := by
  have : digit_value '0' = 0 := by decide
  simp [digits_value, Nat.ofDigits_append, this]

/-- For a radix other than 16, `strtoull` on a digit string that fits in 64
bits returns its value. -/
theorem strtoull_plain (r : Nat) (c0 : Char) (ds : List Char) (hr : r ≠ 16)
    (h0 : dec_digit c0 = true)
    (hall : ∀ c ∈ c0 :: ds, strto_digit c = some (digit_value c) ∧ digit_value c < r)
    (hmax : digits_value r (c0 :: ds) ≤ 2 ^ 64 - 1) :
    strtoull (c0 :: ds) r = digits_value r (c0 :: ds) := by
  obtain ⟨_, _, hlo, hhi⟩ := dec_digit_facts c0 h0
  have hsp : isspace (c0.toNat : Int) = false := by
    simp only [isspace, Bool.or_eq_false_iff, Bool.and_eq_false_iff, decide_eq_false_iff_not]
    constructor <;> omega
  have hm : c0 ≠ '-' := by
    intro h; subst h; revert hlo; decide
  have hp : c0 ≠ '+' := by
    intro h; subst h; revert hlo; decide
  have hv := strto_digits_value r (c0 :: ds) 0 hall
  simp only [Nat.zero_mul, Nat.add_zero] at hv
  have hnot : ¬ (digits_value r (c0 :: ds) > 2 ^ 64 - 1) := by omega
  unfold strtoull
  simp only [List.dropWhile, hsp, List.head?_cons, Option.some.injEq, hm, hp, or_self,
    if_false, hr, false_and]
  cases ds with
  | nil => simp only [hv, hnot, if_false, decide_False, Bool.false_eq_true]
  | cons a t =>
    cases t with
    | nil => simp only [hv, hnot, if_false, decide_False, Bool.false_eq_true]
    | cons b u => simp only [hv, hnot, if_false, decide_False, Bool.false_eq_true]

/-- For radix 16, `strtoull` skips the `0x` and returns the value of the
hexadecimal digits. -/
theorem strtoull_hex (h : Char) (hs : List Char)
    (hall : ∀ c ∈ h :: hs, hex_digit c = true)
    (hmax : digits_value 16 (h :: hs) ≤ 2 ^ 64 - 1) :
    strtoull ('0' :: 'x' :: h :: hs) 16 = digits_value 16 (h :: hs) := by
  have hall2 : ∀ c ∈ h :: hs, strto_digit c = some (digit_value c) ∧ digit_value c < 16 :=
    fun c hc => (hex_digit_facts c (hall c hc)).2.2
  obtain ⟨hd1, hd2⟩ := hall2 h (List.mem_cons_self _ _)
  have hv := strto_digits_value 16 (h :: hs) 0 hall2
  simp only [Nat.zero_mul, Nat.add_zero] at hv
  have hnot : ¬ (digits_value 16 (h :: hs) > 2 ^ 64 - 1) := by omega
  have hsp : isspace (('0' : Char).toNat : Int) = false := by decide
  have e1 : ('0' : Char) ≠ '-' := by decide
  have e2 : ('0' : Char) ≠ '+' := by decide
  unfold strtoull
  simp only [List.dropWhile, hsp, List.head?_cons, Option.some.injEq, e1, e2, or_self,
    if_false, true_and, true_or, hd1, Option.any_some, hd2, decide_True, if_true, hv, hnot,
    decide_False, Bool.false_eq_true]

/-- For the text of an integer literal, `strtoull` with the radix chosen by
`scan_numlit` returns the value of the literal; the text starts with a
decimal digit and consists of characters of `numchar` other than the dot. -/
theorem literal_value_scanned (text : List Char) (v : Nat)
    (hv : literal_value text = some v) (hmax : v ≤ 2 ^ 64 - 1) :
    strtoull text (literal_radix text) = v ∧
    (∃ c0 ds, text = c0 :: ds ∧ dec_digit c0 = true) ∧
    (∀ c ∈ text, c ∈ numchar) ∧ text.contains '.' = false := by
  have hx : ('x' : Char) ∈ numchar := by decide
  have hz : dec_digit '0' = true := by decide
  have hnodot : ∀ l : List Char, (∀ c ∈ l, c ≠ '.') → l.contains '.' = false := by
    intro l hl
    induction l with
    | nil => rfl
    | cons a t ih =>
      have ha : ('.' == a) = false := by
        simpa using (hl a (List.mem_cons_self _ _)).symm
      simp only [List.contains_cons, ha, Bool.false_or]
      exact ih (fun c hc => hl c (List.mem_cons_of_mem _ hc))
  cases text with
  | nil => simp [literal_value] at hv
  | cons c0 ds =>
    by_cases h0 : c0 = '0'
    · subst h0
      cases ds with
      | nil =>
        simp only [literal_value, List.head?_cons, if_true, List.tail_cons, List.head?_nil,
          List.all_nil, Option.some.injEq] at hv
        have hv0 : (0 : Nat) = v := by simpa [digits_value] using hv
        subst hv0
        refine ⟨by decide, ⟨_, _, rfl, hz⟩, by decide, by decide⟩
      | cons c1 ds1 =>
        by_cases h1 : c1 = 'x'
        · subst h1
          simp only [literal_value, List.head?_cons, if_true, List.tail_cons, ne_eq] at hv
          split_ifs at hv with hc
          obtain ⟨hne, hall⟩ := hc
          have hv1 : digits_value 16 ds1 = v := by simpa using hv
          cases ds1 with
          | nil => exact absurd rfl hne
          | cons h hs =>
            have hall1 : ∀ c ∈ h :: hs, hex_digit c = true := by
              simpa [List.all_eq_true] using hall
            refine ⟨?_, ⟨_, _, rfl, hz⟩, ?_, ?_⟩
            · simp only [literal_radix, List.head?_cons, if_true, List.tail_cons]
              rw [strtoull_hex h hs hall1 (by rw [hv1]; exact hmax), hv1]
            · intro c hc
              rcases List.mem_cons.1 hc with e | hc
              · subst e; decide
              rcases List.mem_cons.1 hc with e | hc
              · subst e; exact hx
              exact (hex_digit_facts c (hall1 c hc)).1
            · apply hnodot
              intro c hc
              rcases List.mem_cons.1 hc with e | hc
              · subst e; decide
              rcases List.mem_cons.1 hc with e | hc
              · subst e; decide
              exact (hex_digit_facts c (hall1 c hc)).2.1
        · have h1' : ¬ (some c1 = some 'x') := by simpa using h1
          simp only [literal_value, List.head?_cons, if_true, List.tail_cons, h1', if_false] at hv
          split_ifs at hv with hc
          have hv1 : digits_value 8 (c1 :: ds1) = v := by simpa using hv
          have hall1 : ∀ c ∈ c1 :: ds1, oct_digit c = true := by
            simpa [List.all_eq_true] using hc
          have hall0 : ∀ c ∈ '0' :: c1 :: ds1, oct_digit c = true := by
            intro c hc
            rcases List.mem_cons.1 hc with e | hc
            · subst e; decide
            · exact hall1 c hc
          refine ⟨?_, ⟨_, _, rfl, hz⟩, ?_, ?_⟩
          · simp only [literal_radix, List.head?_cons, if_true, List.tail_cons, h1', if_false]
            rw [strtoull_plain 8 '0' (c1 :: ds1) (by decide) hz
              (fun c hc => ⟨(hex_digit_facts c (oct_digit_facts c (hall0 c hc)).1).2.2.1,
                (oct_digit_facts c (hall0 c hc)).2⟩)
              (by rw [digits_value_zero_cons, hv1]; exact hmax),
              digits_value_zero_cons, hv1]
          · intro c hc
            exact (hex_digit_facts c (oct_digit_facts c (hall0 c hc)).1).1
          · apply hnodot
            intro c hc
            exact (hex_digit_facts c (oct_digit_facts c (hall0 c hc)).1).2.1
    · have h0' : ¬ (some c0 = some '0') := by simpa using h0
      by_cases hc : (c0 :: ds).all dec_digit = true
      swap
      · simp [literal_value, h0', hc] at hv
      have hv1 : digits_value 10 (c0 :: ds) = v := by
        simpa [literal_value, h0', hc] using hv
      have hall : ∀ c ∈ c0 :: ds, dec_digit c = true := by
        simpa [List.all_eq_true] using hc
      refine ⟨?_, ⟨_, _, rfl, hall c0 (List.mem_cons_self _ _)⟩, ?_, ?_⟩
      · simp only [literal_radix, List.head?_cons, h0', if_false]
        rw [strtoull_plain 10 c0 ds (by decide) (hall c0 (List.mem_cons_self _ _))
          (fun c hc => ⟨(hex_digit_facts c (dec_digit_facts c (hall c hc)).1).2.2.1,
            (dec_digit_facts c (hall c hc)).2.1⟩)
          (by rw [hv1]; exact hmax), hv1]
      · intro c hc
        exact (hex_digit_facts c (dec_digit_facts c (hall c hc)).1).1
      · apply hnodot
        intro c hc
        exact (hex_digit_facts c (dec_digit_facts c (hall c hc)).1).2.1

/-- Scanning an integer literal written without sign: `scan` returns 1 and
stores a T_NUMLIT token marked NUM_UINT that holds the value of the literal.
-/
theorem scan_int_literal (strtod : List Char → Nat) (n : Nat) (toThis : Bool) (t : Token)
    (st : Lex) (text rest : List Char) (v : Nat)
    (hv : literal_value text = some v) (hmax : v ≤ 2 ^ 64 - 1)
    (hlen : text.length ≤ 511) (hend : ends_literal rest = true)
    (hpk : st.Peektoken.token = 0) (hp : st.Putback = 0) (hin : st.input = text ++ rest) :
    ∃ st1, scan strtod (n + 1) toThis t st =
        Except.ok (1, { (if toThis then st.Thistoken else t) with
            token := T_NUMLIT, numtype := NUM_UINT, numval := ⟨v⟩ }, st1) ∧
      (toThis = true → st1.Thistoken = { st.Thistoken with
            token := T_NUMLIT, numtype := NUM_UINT, numval := ⟨v⟩ }) := by
  obtain ⟨hstr, ⟨c0, ds, htext, hd0⟩, hnum, hdot⟩ := literal_value_scanned text v hv hmax
  subst htext
  obtain ⟨_, _, hlo, hhi⟩ := dec_digit_facts c0 hd0
  obtain ⟨h35, h10, _, _, _, _⟩ := numchar_facts c0 (hnum c0 (List.mem_cons_self _ _))
  have hin1 : st.input = c0 :: (ds ++ rest) := by simpa using hin
  have hne : ∀ k : Int, (k < 48 ∨ 57 < k) → ¬ ((c0.toNat : Int) = k) := by
    intro k hk h; omega
  have hsp : isspace (c0.toNat : Int) = false := by
    simp only [isspace, Bool.or_eq_false_iff, Bool.and_eq_false_iff, decide_eq_false_iff_not]
    constructor <;> omega
  have hisd : isdigit (c0.toNat : Int) = true := by
    simp only [isdigit, Bool.and_eq_true, decide_eq_true_eq]
    exact ⟨hlo, hhi⟩
  have hskip : ∀ sc, skip sc n st =
      Except.ok ((c0.toNat : Int), { st with input := ds ++ rest, Linestart := 0 }) := by
    intro sc
    unfold skip
    simp only [next_plain sc n st c0 (ds ++ rest) hp hin1 (Or.inr h35) h10, bind, Except.bind]
    unfold skip_loop
    simp only [hsp, Bool.false_eq_true, if_false]
  have hov : Litval.of_uint v = ⟨v⟩ := by
    have : v % 2 ^ 64 = v := Nat.mod_eq_of_lt (by omega)
    simp only [Litval.of_uint, this]
  obtain ⟨st2, e1, e2⟩ := scan_numlit_plain strtod
    (fun s => (scan strtod n true s.Thistoken s).map (fun r => (r.1, r.2.2))) n toThis t
    { st with input := ds ++ rest, Linestart := 0 } c0 ds rest
    (hnum c0 (List.mem_cons_self _ _)) (fun c hc => hnum c (List.mem_cons_of_mem _ hc))
    hend hlen hdot hp rfl rfl
  rw [hstr, hov] at e1 e2
  have hpk' : ¬ (st.Peektoken.token ≠ 0) := by simp [hpk]
  cases toThis with
  | false =>
    refine ⟨st2, ?_, fun h => absurd h (by decide)⟩
    simp only [scan, scan_body, hpk', if_false, hskip, bind, Except.bind, EOF,
      hne (-1) (by omega), hne 43 (by omega), hne 45 (by omega), hne 42 (by omega),
      hne 47 (by omega), hne 59 (by omega), hne 123 (by omega), hne 125 (by omega),
      hne 40 (by omega), hne 41 (by omega), hne 126 (by omega), hne 94 (by omega),
      hne 44 (by omega), hne 61 (by omega), hne 33 (by omega), hne 60 (by omega),
      hne 62 (by omega), hne 38 (by omega), hne 124 (by omega), hne 39 (by omega),
      hne 34 (by omega), hisd, if_true, e1, tok_set, Bool.false_eq_true]
  | true =>
    have e2' := e2 rfl
    refine ⟨{ st2 with Thistoken := { st.Thistoken with
        token := T_NUMLIT, numtype := NUM_UINT, numval := ⟨v⟩ } }, ?_, fun _ => rfl⟩
    simp only [scan, scan_body, hpk', if_false, hskip, bind, Except.bind, EOF,
      hne (-1) (by omega), hne 43 (by omega), hne 45 (by omega), hne 42 (by omega),
      hne 47 (by omega), hne 59 (by omega), hne 123 (by omega), hne 125 (by omega),
      hne 40 (by omega), hne 41 (by omega), hne 126 (by omega), hne 94 (by omega),
      hne 44 (by omega), hne 61 (by omega), hne 33 (by omega), hne 60 (by omega),
      hne 62 (by omega), hne 38 (by omega), hne 124 (by omega), hne 39 (by omega),
      hne 34 (by omega), hisd, if_true, e1, tok_set, e2']

/-- The type `parse_litval` gives an unsigned-marked integer token, by the
value v of the token: the range tests read v as a signed 64-bit number. -/
theorem parse_litval_uint_token (tok : Token) (v : Nat) (hv : v ≤ 2 ^ 64 - 1)
    (h1 : tok.numtype = NUM_UINT) (h2 : tok.numval = ⟨v⟩) :
    parse_litval tok =
      if v ≤ 127 then ty_int8
      else if v ≤ 32767 then ty_int16
      else if v ≤ 2147483647 then ty_int32
      else if v < 2 ^ 64 - 2 ^ 31 then ty_uint64
      else if v < 2 ^ 64 - 2 ^ 15 then ty_int32
      else if v < 2 ^ 64 - 2 ^ 7 then ty_int16
      else ty_int8 := by
  have hm : v % 2 ^ 64 = v := Nat.mod_eq_of_lt (by omega)
  have e1 : ¬ (NUM_UINT = NUM_FLT) := by decide
  have e2 : ¬ (NUM_UINT = NUM_INT) := by decide
  simp only [parse_litval, h1, h2, e1, e2, if_false, Litval.intval, hm, ge_iff_le, SCHAR_MIN,
    SCHAR_MAX, SHRT_MIN, SHRT_MAX, INT_MIN, INT_MAX]
  norm_num at hv ⊢
  split_ifs <;> first | rfl | omega

/-- C6 as stated fails: scanning the literal 2147483648 (followed by `;`)
from the initial lexer state gives a T_NUMLIT token marked NUM_UINT with
value 2147483648, which parse_litval classifies as uint64, not int64. -/
theorem scan_literal_2147483648_is_uint64 :
    ∃ st1, scan (fun _ => 0) 1 false ⟨0, none, ⟨0⟩, 0⟩
        (Lex.init "2147483648;".toList "in.al") =
        Except.ok (1, ⟨T_NUMLIT, none, ⟨2147483648⟩, NUM_UINT⟩, st1) ∧
      parse_litval ⟨T_NUMLIT, none, ⟨2147483648⟩, NUM_UINT⟩ = ty_uint64 ∧
      ty_uint64 ≠ ty_int64 := by
  obtain ⟨st1, e1, _⟩ := scan_int_literal (fun _ => 0) 0 false ⟨0, none, ⟨0⟩, 0⟩
    (Lex.init "2147483648;".toList "in.al") "2147483648".toList ";".toList 2147483648
    (by decide) (by decide) (by decide) (by decide) rfl rfl rfl
  exact ⟨st1, e1, by decide, by decide⟩

/-- C6 (amended): for every integer literal written without a leading minus
(decimal, octal or hexadecimal, at most 511 characters, followed by the end
of the input or by a character that cannot continue a literal) whose value
is greater than 2147483647 and at most INT64_MAX, scanning it (nothing
peeked or put back, any fuel of at least 1) returns a T_NUMLIT token with
that value which parse_litval classifies as the unsigned type uint64. -/
theorem scan_literal_above_int32_is_uint64 (strtod : List Char → Nat) (n : Nat)
    (toThis : Bool) (t : Token) (st : Lex) (text rest : List Char) (v : Nat)
    (hv : literal_value text = some v) (hlo : 2147483647 < v) (hhi : v ≤ 2 ^ 63 - 1)
    (hlen : text.length ≤ 511) (hend : ends_literal rest = true)
    (hpk : st.Peektoken.token = 0) (hp : st.Putback = 0) (hin : st.input = text ++ rest) :
    ∃ tok st1, scan strtod (n + 1) toThis t st = Except.ok (1, tok, st1) ∧
      tok.token = T_NUMLIT ∧ tok.numtype = NUM_UINT ∧ tok.numval.uintval = v ∧
      parse_litval tok = ty_uint64 := by
  have hmax : v ≤ 2 ^ 64 - 1 := by norm_num at hhi ⊢; omega
  obtain ⟨st1, e1, _⟩ := scan_int_literal strtod n toThis t st text rest v hv hmax hlen hend
    hpk hp hin
  refine ⟨_, st1, e1, rfl, rfl, ?_, ?_⟩
  · simp only [Litval.uintval]
    exact Nat.mod_eq_of_lt (by omega)
  · rw [parse_litval_uint_token _ v hmax rfl rfl]
    norm_num at hlo hhi ⊢
    split_ifs <;> first | rfl | omega

/-- C6 at the hexadecimal literal 0x7fffffffffffffff (INT64_MAX) followed
by a closing parenthesis: the token is classified uint64. -/
theorem scan_literal_above_int32_is_uint64_witness :
    ∃ tok st1, scan (fun _ => 0) 1 true ⟨0, none, ⟨0⟩, 0⟩
        (Lex.init "0x7fffffffffffffff)".toList "in.al") = Except.ok (1, tok, st1) ∧
      tok.token = T_NUMLIT ∧ tok.numtype = NUM_UINT ∧
      tok.numval.uintval = 9223372036854775807 ∧ parse_litval tok = ty_uint64 :=
  scan_literal_above_int32_is_uint64 (fun _ => 0) 0 true ⟨0, none, ⟨0⟩, 0⟩
    (Lex.init "0x7fffffffffffffff)".toList "in.al") "0x7fffffffffffffff".toList ")".toList
    9223372036854775807 (by decide) (by decide) (by decide) (by decide) (by decide)
    rfl rfl rfl

/-- C7 (the code departs from the claim): for every integer literal written
without a leading minus whose value v exceeds INT64_MAX
(2^63 <= v <= 2^64 - 1), the scanned token is classified uint64 only when
v < 2^64 - 2^31; the range tests of parse_litval read the value as a signed
number, so the top 2^31 values are classified int32, int16 or int8. -/
theorem scan_literal_above_int64_max_type (strtod : List Char → Nat) (n : Nat)
    (toThis : Bool) (t : Token) (st : Lex) (text rest : List Char) (v : Nat)
    (hv : literal_value text = some v) (hlo : 2 ^ 63 ≤ v) (hhi : v ≤ 2 ^ 64 - 1)
    (hlen : text.length ≤ 511) (hend : ends_literal rest = true)
    (hpk : st.Peektoken.token = 0) (hp : st.Putback = 0) (hin : st.input = text ++ rest) :
    ∃ tok st1, scan strtod (n + 1) toThis t st = Except.ok (1, tok, st1) ∧
      tok.token = T_NUMLIT ∧ tok.numtype = NUM_UINT ∧ tok.numval.uintval = v ∧
      parse_litval tok =
        if v < 2 ^ 64 - 2 ^ 31 then ty_uint64
        else if v < 2 ^ 64 - 2 ^ 15 then ty_int32
        else if v < 2 ^ 64 - 2 ^ 7 then ty_int16
        else ty_int8 := by
  obtain ⟨st1, e1, _⟩ := scan_int_literal strtod n toThis t st text rest v hv hhi hlen hend
    hpk hp hin
  refine ⟨_, st1, e1, rfl, rfl, ?_, ?_⟩
  · simp only [Litval.uintval]
    exact Nat.mod_eq_of_lt (by omega)
  · rw [parse_litval_uint_token _ v hhi rfl rfl]
    norm_num at hlo hhi ⊢
    split_ifs <;> first | rfl | omega

/-- C7 at the literal 18446744073709551615 (followed by `;`): the token
holds 2^64 - 1 and parse_litval classifies it as int8. -/
theorem scan_literal_above_int64_max_type_witness :
    ∃ tok st1, scan (fun _ => 0) 1 false ⟨0, none, ⟨0⟩, 0⟩
        (Lex.init "18446744073709551615;".toList "in.al") = Except.ok (1, tok, st1) ∧
      tok.token = T_NUMLIT ∧ tok.numtype = NUM_UINT ∧
      tok.numval.uintval = 18446744073709551615 ∧ parse_litval tok = ty_int8 :=
  scan_literal_above_int64_max_type (fun _ => 0) 0 false ⟨0, none, ⟨0⟩, 0⟩
    (Lex.init "18446744073709551615;".toList "in.al") "18446744073709551615".toList
    ";".toList 18446744073709551615 (by decide) (by decide) (by decide) (by decide)
    (by decide) rfl rfl rfl

/-! ### Symbol table -/

theorem add_sym_append_scope (this : Sym) (G : List Sym) :
    ∀ loc : List Sym, loc ≠ [] →
      (∀ s ∈ loc.tail, G.head?.map Sym.addr ≠ some s.addr) →
      add_sym_append (G.head?.map Sym.addr) this (loc ++ G) = loc ++ this :: G
  | [], h, _ => absurd rfl h
  | [x], _, _ => by
    cases G with
    | nil => simp [add_sym_append]
    | cons g gs => simp [add_sym_append]
  | x :: y :: l, _, h => by
    have hy : G.head?.map Sym.addr ≠ some y.addr := h y (by simp)
    have ih := add_sym_append_scope this G (y :: l) (by simp)
      (fun s hs => h s (by simp at hs ⊢; exact Or.inr hs))
    simp only [List.cons_append] at ih ⊢
    rw [add_sym_append, if_neg hy, ih]

theorem list_from_scope (G : List Sym) :
    ∀ loc : List Sym, (∀ s ∈ loc, G.head?.map Sym.addr ≠ some s.addr) →
      list_from (G.head?.map Sym.addr) (loc ++ G) = G
  | [], _ => by
    cases G with
    | nil => rfl
    | cons g gs => simp [list_from]
  | x :: l, h => by
    have hx := h x (by simp)
    simp only [List.cons_append, list_from, if_neg hx]
    exact list_from_scope G l (fun s hs => h s (by simp [hs]))

theorem nodup_scope (loc G : List Sym) (hnd : ((loc ++ G).map Sym.addr).Nodup) :
    ∀ s ∈ loc, G.head?.map Sym.addr ≠ some s.addr := by
  intro s hs
  cases G with
  | nil => simp
  | cons g gs =>
    simp only [List.head?_cons, Option.map_some', ne_eq, Option.some.injEq]
    intro hg
    rw [List.map_append, List.nodup_append] at hnd
    exact hnd.2.2 (List.mem_map_of_mem Sym.addr hs)
      (by rw [← hg]; simp)

theorem add_symbol_scope (name : String) (symtype : Nat) (type : Option Ty)
    (G loc : List Sym) (st st1 : Symtab) (this : Sym)
    (hS : st.Symhead = loc ++ G) (hG : st.Globhead = G.head?.map Sym.addr)
    (hnd : ((loc ++ G).map Sym.addr).Nodup)
    (h : add_symbol name symtype type st = Except.ok (this, st1)) :
    st1 = { st with Symhead := loc ++ this :: G, nextaddr := st.nextaddr + 1 } ∧
    this = Sym.mk name symtype false type ⟨0⟩ 0 [] st.nextaddr ∧
    sym_name_in name (loc ++ G) = false := by
  have hsc := nodup_scope loc G hnd
  unfold add_symbol add_sym_to at h
  rw [hS] at h
  cases hin : sym_name_in name (loc ++ G) with
  | true => simp [hin, fatal] at h
  | false =>
    simp only [hin, Bool.false_eq_true, if_false] at h
    cases loc with
    | nil =>
      cases G with
      | nil =>
        simp only [List.append_nil, Except.ok.injEq, Prod.mk.injEq] at h
        obtain ⟨h1, h2⟩ := h
        subst h1; subst h2
        simp
      | cons g gs =>
        simp only [List.nil_append, hG, List.head?_cons, Option.map_some', if_true,
          Except.ok.injEq, Prod.mk.injEq] at h
        obtain ⟨h1, h2⟩ := h
        subst h1; subst h2
        simp [hG]
    | cons x l =>
      have hx : G.head?.map Sym.addr ≠ some x.addr := hsc x (by simp)
      have happ := add_sym_append_scope (Sym.mk name symtype false type ⟨0⟩ 0 [] st.nextaddr)
        G (x :: l) (by simp) (fun s hs => hsc s (by simp at hs ⊢; exact Or.inr hs))
      simp only [List.cons_append] at happ h
      simp only [hG, if_neg hx, happ, Except.ok.injEq, Prod.mk.injEq] at h
      obtain ⟨h1, h2⟩ := h
      subst h1; subst h2
      simp [hG]

theorem add_symbols_scope (G : List Sym) :
    ∀ (decls : List (String × Nat × Option Ty)) (loc added : List Sym) (st st1 : Symtab),
      st.Symhead = loc ++ G → st.Globhead = G.head?.map Sym.addr →
      ((loc ++ G).map Sym.addr).Nodup → (∀ s ∈ loc ++ G, s.addr < st.nextaddr) →
      add_symbols decls st = Except.ok (added, st1) →
      st1.Symhead = loc ++ added ++ G ∧ st1.Globhead = st.Globhead ∧
      st1.Curfunc = st.Curfunc ∧
      added.map (fun s => (s.name, s.symtype, s.type)) = decls ∧
      (∀ s ∈ added, sym_name_in s.name G = false) ∧
      ((loc ++ added ++ G).map Sym.addr).Nodup
  | [], loc, added, st, st1, hS, _, hnd, _, h => by
    simp only [add_symbols, Except.ok.injEq, Prod.mk.injEq] at h
    obtain ⟨h1, h2⟩ := h
    subst h1; subst h2
    simpa [hS] using hnd
  | (name, symtype, type) :: rest, loc, added, st, st1, hS, hG, hnd, hlt, h => by
    simp only [add_symbols] at h
    cases h1 : add_symbol name symtype type st with
    | error e => rw [h1] at h; cases h
    | ok r1 =>
      obtain ⟨this, sta⟩ := r1
      obtain ⟨hsta, hthis, hin⟩ := add_symbol_scope name symtype type G loc st sta this hS hG hnd h1
      rw [h1] at h
      cases h2 : add_symbols rest sta with
      | error e =>
        simp only [bind, Except.bind, h2] at h
        cases h
      | ok r2 =>
        obtain ⟨more, stb⟩ := r2
        simp only [bind, Except.bind, h2, Except.ok.injEq, Prod.mk.injEq] at h
        obtain ⟨ha, hb⟩ := h
        subst ha; subst hb
        have haddr : this.addr = st.nextaddr := by rw [hthis]; rfl
        have hnd1 : (((loc ++ [this]) ++ G).map Sym.addr).Nodup := by
          have hfresh : this.addr ∉ (loc ++ G).map Sym.addr := by
            intro hmem
            obtain ⟨s, hs, hsa⟩ := List.mem_map.1 hmem
            have := hlt s hs
            omega
          simp only [List.map_append, List.map_cons, List.map_nil, List.append_assoc,
            List.singleton_append] at hfresh hnd ⊢
          rw [List.nodup_append] at hnd ⊢
          refine ⟨hnd.1, ?_, ?_⟩
          · rw [List.nodup_cons]
            exact ⟨fun hm => hfresh (List.mem_append_right _ hm), hnd.2.1⟩
          · intro a ha hb
            rcases List.mem_cons.1 hb with hb | hb
            · exact hfresh (List.mem_append_left _ (hb ▸ ha))
            · exact hnd.2.2 ha hb
        have hlt1 : ∀ s ∈ (loc ++ [this]) ++ G, s.addr < sta.nextaddr := by
          intro s hs
          rw [hsta]
          simp only [List.append_assoc, List.singleton_append, List.mem_append,
            List.mem_cons] at hs
          rcases hs with hs | hs | hs
          · have := hlt s (List.mem_append_left _ hs); simp; omega
          · subst hs; simp; omega
          · have := hlt s (List.mem_append_right _ hs); simp; omega
        have ih := add_symbols_scope G rest (loc ++ [this]) more sta stb
          (by rw [hsta]; simp) (by rw [hsta]; simpa using hG) hnd1 hlt1 h2
        obtain ⟨i1, i2, i3, i4, i5, i6⟩ := ih
        refine ⟨by rw [i1]; simp, by rw [i2, hsta], by rw [i3, hsta], ?_, ?_,
          by simpa using i6⟩
        · simp only [List.map_cons, i4, List.cons.injEq, and_true]
          rw [hthis]; rfl
        · intro s hs
          rcases List.mem_cons.1 hs with hs | hs
          · have hn : s.name = name := by rw [hs, hthis]; rfl
            rw [hn]
            clear * - hin
            induction loc with
            | nil => simpa using hin
            | cons x l ih =>
              simp only [List.cons_append, sym_name_in] at hin
              split_ifs at hin
              exact ih hin
          · exact i5 s hs

theorem find_symbol_loop_not_in (name : String) :
    ∀ l : List Sym, sym_name_in name l = false → find_symbol_loop name none l = none
  | [], _ => rfl
  | x :: l, h => by
    simp only [sym_name_in] at h
    split_ifs at h with hx
    simp only [find_symbol_loop, if_neg hx]
    simpa using find_symbol_loop_not_in name l h

/-- C14: after `new_scope` and any sequence of successful `add_symbol`
calls, the main list is the added symbols, in the order of the calls and
with the given names, kinds and types, in front of the list as it was at
`new_scope`, and `Globhead` points at the first node of that earlier list.
`end_scope` then resets `Symhead` to exactly the earlier list and clears
`Globhead` and `Curfunc`, and none of the added symbols is found afterwards. -/
theorem scope_locals_precede_globals (st : Symtab) (f : Option Sym)
    (decls : List (String × Nat × Option Ty)) (added : List Sym) (st1 : Symtab)
    (hwf : heap_ok st)
    (h : add_symbols decls (new_scope f st) = Except.ok (added, st1)) :
    st1.Symhead = added ++ st.Symhead ∧
    added.map (fun s => (s.name, s.symtype, s.type)) = decls ∧
    st1.Globhead = st.Symhead.head?.map Sym.addr ∧
    (end_scope st1).Symhead = st.Symhead ∧
    (end_scope st1).Globhead = none ∧ (end_scope st1).Curfunc = none ∧
    ∀ s ∈ added, find_symbol (some s.name) (end_scope st1) = none := by
  obtain ⟨hnd, hlt⟩ := hwf
  obtain ⟨h1, h2, _, h4, h5, h6⟩ :=
    add_symbols_scope st.Symhead decls [] added (new_scope f st) st1
      rfl rfl (by simpa using hnd) (by simpa [new_scope] using hlt) h
  simp only [List.nil_append] at h1 h6
  have hg : st1.Globhead = st.Symhead.head?.map Sym.addr := by rw [h2]; rfl
  have hfrom : list_from st1.Globhead st1.Symhead = st.Symhead := by
    rw [hg, h1]
    exact list_from_scope st.Symhead added (nodup_scope added st.Symhead h6)
  refine ⟨h1, h4, hg, hfrom, rfl, rfl, ?_⟩
  intro s hs
  simp only [find_symbol, end_scope, hfrom]
  exact find_symbol_loop_not_in s.name st.Symhead (h5 s hs)

theorem scope_locals_precede_globals_witness :
    heap_ok ⟨[Sym.mk "f" ST_FUNCTION false (some ty_void) ⟨0⟩ 0 [] 0], none, none, 1⟩ ∧
    (end_scope ⟨[Sym.mk "x" ST_VARIABLE false (some ty_int32) ⟨0⟩ 0 [] 1,
        Sym.mk "y" ST_VARIABLE false (some ty_int8) ⟨0⟩ 0 [] 2,
        Sym.mk "f" ST_FUNCTION false (some ty_void) ⟨0⟩ 0 [] 0], some 0, some 0, 3⟩).Symhead =
      [Sym.mk "f" ST_FUNCTION false (some ty_void) ⟨0⟩ 0 [] 0] :=
  ⟨by decide,
   (scope_locals_precede_globals
      ⟨[Sym.mk "f" ST_FUNCTION false (some ty_void) ⟨0⟩ 0 [] 0], none, none, 1⟩
      (some (Sym.mk "f" ST_FUNCTION false (some ty_void) ⟨0⟩ 0 [] 0))
      [("x", ST_VARIABLE, some ty_int32), ("y", ST_VARIABLE, some ty_int8)]
      [Sym.mk "x" ST_VARIABLE false (some ty_int32) ⟨0⟩ 0 [] 1,
        Sym.mk "y" ST_VARIABLE false (some ty_int8) ⟨0⟩ 0 [] 2]
      ⟨[Sym.mk "x" ST_VARIABLE false (some ty_int32) ⟨0⟩ 0 [] 1,
        Sym.mk "y" ST_VARIABLE false (some ty_int8) ⟨0⟩ 0 [] 2,
        Sym.mk "f" ST_FUNCTION false (some ty_void) ⟨0⟩ 0 [] 0], some 0, some 0, 3⟩
      (by decide) rfl).2.2.2.1⟩

theorem sym_name_in_iff (name : String) :
    ∀ l : List Sym, sym_name_in name l = true ↔ ∃ s ∈ l, s.name = name
  | [] => by simp [sym_name_in]
  | x :: l => by
    by_cases hx : x.name = name
    · simp [sym_name_in, hx]
    · simp [sym_name_in, hx, sym_name_in_iff name l]

theorem sym_name_in_false (name : String) (l : List Sym) :
    sym_name_in name l = false ↔ ∀ s ∈ l, s.name ≠ name := by
  rw [← Bool.not_eq_true, sym_name_in_iff]
  simp

theorem find_after_append (this : Sym) (G cur : Option Nat) :
    ∀ l : List Sym, (∀ s ∈ l, s.name ≠ this.name) →
      (∀ x ∈ l.head?, G ≠ some x.addr) →
      (∀ s ∈ list_before G l, cur ≠ some s.addr) →
      find_symbol_loop this.name cur (add_sym_append G this l) = some this
  | [], _, _, _ => by simp [add_sym_append, find_symbol_loop]
  | [here], hn, hh, hc => by
    have h1 : here.name ≠ this.name := hn here (by simp)
    have h2 : G ≠ some here.addr := hh here (by simp)
    have h3 : cur ≠ some here.addr := hc here (by simp [list_before, h2])
    simp [add_sym_append, find_symbol_loop, h1, h3]
  | here :: nxt :: rest, hn, hh, hc => by
    have h1 : here.name ≠ this.name := hn here (by simp)
    have h2 : G ≠ some here.addr := hh here (by simp)
    have h3 : cur ≠ some here.addr := hc here (by simp [list_before, h2])
    by_cases hg : G = some nxt.addr
    · simp [add_sym_append, hg, find_symbol_loop, h1, h3]
    · rw [add_sym_append, if_neg hg]
      simp only [find_symbol_loop, if_neg h1, if_neg h3]
      exact find_after_append this G cur (nxt :: rest)
        (fun s hs => hn s (List.mem_cons_of_mem _ hs))
        (by simpa using hg)
        (fun s hs => hc s (by simp only [list_before, if_neg h2]; exact List.mem_cons_of_mem _ hs))

theorem add_sym_append_mem (G : Option Nat) (this : Sym) :
    ∀ l : List Sym, this ∈ add_sym_append G this l
  | [] => by simp [add_sym_append]
  | [here] => by simp [add_sym_append]
  | here :: nxt :: rest => by
    by_cases hg : G = some nxt.addr
    · simp [add_sym_append, hg]
    · rw [add_sym_append, if_neg hg]
      exact List.mem_cons_of_mem _ (add_sym_append_mem G this (nxt :: rest))

theorem add_sym_to_new (head : List Sym) (name : String) (symtype : Nat)
    (type : Option Ty) (st : Symtab) (h : sym_name_in name head = false) :
    ∃ head1, add_sym_to head name symtype type st =
        (some (Sym.mk name symtype false type ⟨0⟩ 0 [] st.nextaddr), head1,
          { st with nextaddr := st.nextaddr + 1 }) ∧
      Sym.mk name symtype false type ⟨0⟩ 0 [] st.nextaddr ∈ head1 ∧
      ∀ cur : Option Nat, (∀ s ∈ list_before st.Globhead head, cur ≠ some s.addr) →
        find_symbol_loop name cur head1 =
          some (Sym.mk name symtype false type ⟨0⟩ 0 [] st.nextaddr) := by
  cases head with
  | nil =>
    refine ⟨[Sym.mk name symtype false type ⟨0⟩ 0 [] st.nextaddr], ?_, by simp, ?_⟩
    · simp [add_sym_to, sym_name_in]
    · intro cur _
      simp [find_symbol_loop, Sym.name]
  | cons first rest =>
    by_cases hg : st.Globhead = some first.addr
    · refine ⟨Sym.mk name symtype false type ⟨0⟩ 0 [] st.nextaddr :: first :: rest, ?_,
        by simp, ?_⟩
      · simp only [add_sym_to, h, hg]
        simp
      · intro cur _
        simp [find_symbol_loop, Sym.name]
    · refine ⟨add_sym_append st.Globhead
        (Sym.mk name symtype false type ⟨0⟩ 0 [] st.nextaddr) (first :: rest), ?_,
        add_sym_append_mem _ _ _, ?_⟩
      · simp only [add_sym_to, h, hg]
        simp
      · intro cur hc
        exact find_after_append (Sym.mk name symtype false type ⟨0⟩ 0 [] st.nextaddr)
          st.Globhead cur (first :: rest) ((sym_name_in_false name _).1 h)
          (by simpa using hg) hc

/-- C15: if a symbol with the name is already in the list, `add_sym_to`
returns NULL and leaves the list and the state unchanged, and `add_symbol`
on the main list is fatal with `symbol NAME already exists`.  If no symbol
of the list has the name, `add_sym_to` returns a new symbol of the given
name, kind and type that is in the resulting list; on the main list
`add_symbol` succeeds and a `find_symbol` of the name afterwards returns
the symbol that was inserted. -/
theorem add_sym_duplicate_or_found (head : List Sym) (name : String) (symtype : Nat)
    (type : Option Ty) (st : Symtab) (hcur : curfunc_is_global st) :
    ((∃ s ∈ head, s.name = name) →
      add_sym_to head name symtype type st = (none, head, st)) ∧
    ((∀ s ∈ head, s.name ≠ name) →
      ∃ this head1 st1, add_sym_to head name symtype type st = (some this, head1, st1) ∧
        this ∈ head1 ∧ this.name = name ∧ this.symtype = symtype ∧ this.type = type) ∧
    ((∃ s ∈ st.Symhead, s.name = name) →
      add_symbol name symtype type st = fatal ("symbol " ++ name ++ " already exists\n")) ∧
    ((∀ s ∈ st.Symhead, s.name ≠ name) →
      ∃ this st1, add_symbol name symtype type st = Except.ok (this, st1) ∧
        find_symbol (some name) st1 = some this ∧
        this.name = name ∧ this.symtype = symtype ∧ this.type = type) := by
  refine ⟨?_, ?_, ?_, ?_⟩
  · intro h
    rw [← sym_name_in_iff] at h
    simp [add_sym_to, h]
  · intro h
    rw [← sym_name_in_false] at h
    obtain ⟨head1, h1, h2, _⟩ := add_sym_to_new head name symtype type st h
    exact ⟨_, head1, _, h1, h2, rfl, rfl, rfl⟩
  · intro h
    rw [← sym_name_in_iff] at h
    simp [add_symbol, add_sym_to, h]
  · intro h
    rw [← sym_name_in_false] at h
    obtain ⟨head1, h1, _, h3⟩ := add_sym_to_new st.Symhead name symtype type st h
    refine ⟨Sym.mk name symtype false type ⟨0⟩ 0 [] st.nextaddr,
      { st with Symhead := head1, nextaddr := st.nextaddr + 1 }, ?_, ?_, rfl, rfl, rfl⟩
    · simp only [add_symbol, h1]
    · exact h3 st.Curfunc hcur

theorem add_sym_duplicate_or_found_witness :
    curfunc_is_global ⟨[Sym.mk "f" ST_FUNCTION false (some ty_void) ⟨0⟩ 1
        [Sym.mk "x" ST_VARIABLE false (some ty_int8) ⟨0⟩ 0 [] 1] 0], some 0, some 0, 2⟩ ∧
    (∃ this st1, add_symbol "x" ST_VARIABLE (some ty_int32)
        ⟨[Sym.mk "f" ST_FUNCTION false (some ty_void) ⟨0⟩ 1
          [Sym.mk "x" ST_VARIABLE false (some ty_int8) ⟨0⟩ 0 [] 1] 0], some 0, some 0, 2⟩ =
          Except.ok (this, st1) ∧
        find_symbol (some "x") st1 = some this ∧
        this.name = "x" ∧ this.symtype = ST_VARIABLE ∧ this.type = some ty_int32) ∧
    add_symbol "f" ST_VARIABLE (some ty_int32)
        ⟨[Sym.mk "f" ST_FUNCTION false (some ty_void) ⟨0⟩ 1
          [Sym.mk "x" ST_VARIABLE false (some ty_int8) ⟨0⟩ 0 [] 1] 0], some 0, some 0, 2⟩ =
      fatal "symbol f already exists\n" :=
  ⟨by decide,
   (add_sym_duplicate_or_found [] "x" ST_VARIABLE (some ty_int32)
      ⟨[Sym.mk "f" ST_FUNCTION false (some ty_void) ⟨0⟩ 1
        [Sym.mk "x" ST_VARIABLE false (some ty_int8) ⟨0⟩ 0 [] 1] 0], some 0, some 0, 2⟩
      (by decide)).2.2.2 (by decide),
   (add_sym_duplicate_or_found [] "f" ST_VARIABLE (some ty_int32)
      ⟨[Sym.mk "f" ST_FUNCTION false (some ty_void) ⟨0⟩ 1
        [Sym.mk "x" ST_VARIABLE false (some ty_int8) ⟨0⟩ 0 [] 1] 0], some 0, some 0, 2⟩
      (by decide)).2.2.1
      ⟨Sym.mk "f" ST_FUNCTION false (some ty_void) ⟨0⟩ 1
        [Sym.mk "x" ST_VARIABLE false (some ty_int8) ⟨0⟩ 0 [] 1] 0, by simp, rfl⟩⟩

theorem find_symbol_loop_none (p : String) (cur : Option Nat) :
    ∀ l : List Sym, (∀ s ∈ l, s.name ≠ p) → (∀ s ∈ l, cur ≠ some s.addr) →
      find_symbol_loop p cur l = none
  | [], _, _ => rfl
  | x :: l, hn, hc => by
    simp only [find_symbol_loop, if_neg (hn x (by simp)), if_neg (hc x (by simp))]
    exact find_symbol_loop_none p cur l (fun s hs => hn s (List.mem_cons_of_mem _ hs))
      (fun s hs => hc s (List.mem_cons_of_mem _ hs))

theorem find_symbol_loop_params (p : String) (g : Sym) :
    ∀ l : List Sym, (∀ s ∈ l, s.name ≠ p) → (l.map Sym.addr).Nodup → g ∈ l →
      find_symbol_loop p (some g.addr) l = g.memb.find? (fun q => q.name = p)
  | [], _, _, hg => by simp at hg
  | x :: l, hn, hnd, hg => by
    have hx : x.name ≠ p := hn x (by simp)
    rw [List.map_cons, List.nodup_cons] at hnd
    by_cases hxg : x = g
    · subst hxg
      simp only [find_symbol_loop, if_neg hx, if_true]
      cases hfind : List.find? (fun q => decide (q.name = p)) x.memb with
      | some q => rfl
      | none =>
        simp only
        exact find_symbol_loop_none p (some x.addr) l
          (fun s hs => hn s (List.mem_cons_of_mem _ hs))
          (fun s hs heq => hnd.1 (by
            simp only [Option.some.injEq] at heq
            rw [heq]
            exact List.mem_map_of_mem _ hs))
    · have hgl : g ∈ l := by
        rcases List.mem_cons.1 hg with h | h
        · exact absurd h.symm hxg
        · exact h
      have hne : some g.addr ≠ some x.addr := by
        intro heq
        simp only [Option.some.injEq] at heq
        exact hnd.1 (by rw [← heq]; exact List.mem_map_of_mem _ hgl)
      simp only [find_symbol_loop, if_neg hx, if_neg hne]
      exact find_symbol_loop_params p g l (fun s hs => hn s (List.mem_cons_of_mem _ hs))
        hnd.2 hgl

/-- C16, as written, fails: with the functions `f(x)` and `g(x)` in the main
list, `x` is a parameter name of `f` and not the name of a main-list symbol,
yet while the different function `g` is active `find_symbol` of `x` is not
NULL: it returns the parameter of `g`. -/
theorem find_symbol_other_function_parameter :
    find_symbol (some "x") (new_scope
      (some (Sym.mk "g" ST_FUNCTION false (some ty_void) ⟨0⟩ 1
        [Sym.mk "x" ST_VARIABLE false (some ty_int8) ⟨0⟩ 0 [] 3] 2))
      ⟨[Sym.mk "f" ST_FUNCTION false (some ty_void) ⟨0⟩ 1
          [Sym.mk "x" ST_VARIABLE false (some ty_int32) ⟨0⟩ 0 [] 1] 0,
        Sym.mk "g" ST_FUNCTION false (some ty_void) ⟨0⟩ 1
          [Sym.mk "x" ST_VARIABLE false (some ty_int8) ⟨0⟩ 0 [] 3] 2], none, none, 4⟩) =
      some (Sym.mk "x" ST_VARIABLE false (some ty_int8) ⟨0⟩ 0 [] 3) := by
  rfl

/-- C16 (amended): for a function `f` of the main list and a parameter
name `p` of `f` that no main-list symbol has, `find_symbol` of `p` returns
the parameter of `f` while `f` is the active function, NULL after
`end_scope` and whenever no function is active, and, while a different
function `g` of the main list is active, the parameter of `g` named `p` if
`g` has one and NULL if it has none. -/
theorem find_symbol_parameter_visibility (st : Symtab) (f : Sym) (p : String) (param : Sym)
    (hnd : (st.Symhead.map Sym.addr).Nodup) (hf : f ∈ st.Symhead)
    (hp : ∀ s ∈ st.Symhead, s.name ≠ p)
    (hparam : f.memb.find? (fun q => q.name = p) = some param) :
    find_symbol (some p) (new_scope (some f) st) = some param ∧
    find_symbol (some p) (end_scope (new_scope (some f) st)) = none ∧
    (st.Curfunc = none → find_symbol (some p) st = none) ∧
    ∀ g ∈ st.Symhead, g.addr ≠ f.addr →
      find_symbol (some p) (new_scope (some g) st) = g.memb.find? (fun q => q.name = p) := by
  refine ⟨?_, ?_, ?_, ?_⟩
  · rw [← hparam]
    exact find_symbol_loop_params p f st.Symhead hp hnd hf
  · simp only [find_symbol, end_scope, new_scope]
    cases hS : st.Symhead with
    | nil => rfl
    | cons x l =>
      simp only [List.head?_cons, Option.map_some', list_from, if_true]
      exact find_symbol_loop_none p none (x :: l) (by rw [← hS]; exact hp) (by simp)
  · intro hc
    simp only [find_symbol, hc]
    exact find_symbol_loop_none p none st.Symhead hp (by simp)
  · intro g hg _
    exact find_symbol_loop_params p g st.Symhead hp hnd hg

theorem find_symbol_parameter_visibility_witness :
    find_symbol (some "x") (new_scope
      (some (Sym.mk "f" ST_FUNCTION false (some ty_void) ⟨0⟩ 1
          [Sym.mk "x" ST_VARIABLE false (some ty_int32) ⟨0⟩ 0 [] 1] 0))
      ⟨[Sym.mk "f" ST_FUNCTION false (some ty_void) ⟨0⟩ 1
          [Sym.mk "x" ST_VARIABLE false (some ty_int32) ⟨0⟩ 0 [] 1] 0,
        Sym.mk "g" ST_FUNCTION false (some ty_void) ⟨0⟩ 1
          [Sym.mk "y" ST_VARIABLE false (some ty_int8) ⟨0⟩ 0 [] 3] 2], none, none, 4⟩) =
      some (Sym.mk "x" ST_VARIABLE false (some ty_int32) ⟨0⟩ 0 [] 1) :=
  (find_symbol_parameter_visibility
    ⟨[Sym.mk "f" ST_FUNCTION false (some ty_void) ⟨0⟩ 1
        [Sym.mk "x" ST_VARIABLE false (some ty_int32) ⟨0⟩ 0 [] 1] 0,
      Sym.mk "g" ST_FUNCTION false (some ty_void) ⟨0⟩ 1
        [Sym.mk "y" ST_VARIABLE false (some ty_int8) ⟨0⟩ 0 [] 3] 2], none, none, 4⟩
    (Sym.mk "f" ST_FUNCTION false (some ty_void) ⟨0⟩ 1
        [Sym.mk "x" ST_VARIABLE false (some ty_int32) ⟨0⟩ 0 [] 1] 0)
    "x" (Sym.mk "x" ST_VARIABLE false (some ty_int32) ⟨0⟩ 0 [] 1)
    (by decide) (by simp) (by simp [Sym.name]) rfl).1

/-! ### Function declarations -/

theorem params_ast_cons (name : String) (ty : Ty) (rest : List (String × Ty)) :
    params_ast ((name, ty) :: rest) =
      ASTnode.node A_IDENT (some ty) false ASTnode.NULL (params_ast rest) ASTnode.NULL none
        ⟨0⟩ (some name) := rfl

theorem proto_ast_eq (name : String) (ty : Ty) (params : List (String × Ty)) :
    proto_ast name ty params =
      ASTnode.node A_IDENT (some ty) false (params_ast params) ASTnode.NULL ASTnode.NULL none
        ⟨0⟩ (some name) := rfl

theorem check_params_match (fname : String) :
    ∀ (memb : List Sym) (params : List (String × Ty)),
      memb.map (fun q => (q.name, q.type)) = params.map (fun q => (q.1, some q.2)) →
      check_params fname memb (params_ast params) = Except.ok ()
  | [], [], _ => rfl
  | [], _ :: _, h => by simp at h
  | _ :: _, [], h => by simp at h
  | this :: rest, (n, t) :: ps, h => by
    simp only [List.map_cons, List.cons.injEq, Prod.mk.injEq] at h
    obtain ⟨⟨h1, h2⟩, h3⟩ := h
    rw [params_ast_cons]
    simp only [check_params, h1, h2, ne_eq, not_true_eq_false, if_false]
    exact check_params_match fname rest ps h3

theorem check_params_mismatch (fname : String) :
    ∀ (memb : List Sym) (params : List (String × Ty)),
      (∀ q ∈ memb, q.type ≠ none) →
      memb.map (fun q => (q.name, q.type)) ≠ params.map (fun q => (q.1, some q.2)) →
      ∃ msg, check_params fname memb (params_ast params) = Except.error (Err.fatal msg)
  | [], [], _, h => absurd rfl h
  | [], (n, t) :: ps, _, _ => ⟨_, by rw [params_ast_cons]; rfl⟩
  | _ :: _, [], _, _ => ⟨_, rfl⟩
  | this :: rest, (n, t) :: ps, hty, h => by
    rw [params_ast_cons]
    by_cases h1 : this.name = n
    · by_cases h2 : this.type = some t
      · simp only [check_params, h1, h2, ne_eq, not_true_eq_false, if_false]
        refine check_params_mismatch fname rest ps (fun q hq => hty q (by simp [hq])) ?_
        intro h3
        exact h (by simp [h1, h2, h3])
      · cases ht : this.type with
        | none => exact absurd ht (hty this (by simp))
        | some t1 =>
          rw [ht] at h2
          simp only [check_params, h1, ne_eq, not_true_eq_false, if_false, ht, h2,
            not_false_eq_true, if_true]
          exact ⟨_, rfl⟩
    · simp only [check_params, ne_eq, h1, not_false_eq_true, if_true]
      exact ⟨_, rfl⟩

theorem find_symbol_loop_mem (name : String) :
    ∀ (l : List Sym) (f : Sym), find_symbol_loop name none l = some f →
      f ∈ l ∧ f.name = name ∧ sym_name_in name l = true
  | [], f, h => by simp [find_symbol_loop] at h
  | x :: l, f, h => by
    by_cases hx : x.name = name
    · simp only [find_symbol_loop, hx, if_true, Option.some.injEq] at h
      subst h
      simp [hx, sym_name_in]
    · simp only [find_symbol_loop, if_neg hx] at h
      have h1 : find_symbol_loop name none l = some f := by simpa using h
      obtain ⟨i1, i2, i3⟩ := find_symbol_loop_mem name l f h1
      exact ⟨List.mem_cons_of_mem _ i1, i2, by simp [sym_name_in, hx, i3]⟩

theorem add_function_existing (st : Symtab) (f : Sym) (name : String) (ty : Ty)
    (params : List (String × Ty)) (hcur : st.Curfunc = none)
    (hf : find_symbol (some name) st = some f) :
    add_function (proto_ast name ty params) (params_ast params) st =
      if some ty ≠ f.type then
        match f.type with
        | some t2 => fatal (name ++ "() declaration has different type than previous: " ++
              get_typename ty ++ " vs " ++ get_typename t2 ++ "\n")
        | none => Except.error Err.segv
      else (check_params name f.memb (params_ast params)).bind
        (fun _ => Except.ok (to_int32 f.initval.intval, st)) := by
  have hin : sym_name_in name st.Symhead = true := by
    simp only [find_symbol, hcur] at hf
    exact (find_symbol_loop_mem name _ f hf).2.2
  rw [proto_ast_eq]
  simp only [add_function, ASTnode.strlit, ASTnode.type, bind, Except.bind, add_sym_to, hin,
    if_true, hf]
  split_ifs with h1
  · cases f.type <;> rfl
  · rfl

/-- C12: `add_function` applied, outside any function body, to a name that
`find_symbol` finds as the symbol `f`: when the new return type is the
recorded one and the new parameter list has the names and types of the
recorded member list, in the same order and number, the call returns the
recorded `initval` (the has-body flag) and leaves the symbol table
unchanged; in every other case it is fatal. -/
theorem add_function_redeclaration (st : Symtab) (f : Sym) (name : String) (ty : Ty)
    (params : List (String × Ty)) (hcur : st.Curfunc = none)
    (hf : find_symbol (some name) st = some f)
    (hty : f.type ≠ none) (hmt : ∀ q ∈ f.memb, q.type ≠ none) :
    ((f.type = some ty ∧
        f.memb.map (fun q => (q.name, q.type)) = params.map (fun q => (q.1, some q.2))) →
      add_function (proto_ast name ty params) (params_ast params) st =
        Except.ok (to_int32 f.initval.intval, st)) ∧
    (¬ (f.type = some ty ∧
        f.memb.map (fun q => (q.name, q.type)) = params.map (fun q => (q.1, some q.2))) →
      ∃ msg, add_function (proto_ast name ty params) (params_ast params) st =
        Except.error (Err.fatal msg)) := by
  rw [add_function_existing st f name ty params hcur hf]
  constructor
  · rintro ⟨h1, h2⟩
    rw [if_neg (by simp [h1]), check_params_match name f.memb params h2]
    rfl
  · intro h
    by_cases h1 : f.type = some ty
    · rw [if_neg (by simp [h1])]
      obtain ⟨msg, hm⟩ := check_params_mismatch name f.memb params hmt (fun h2 => h ⟨h1, h2⟩)
      exact ⟨msg, by rw [hm]; rfl⟩
    · rw [if_pos (fun h2 => h1 h2.symm)]
      cases ht : f.type with
      | none => exact absurd ht hty
      | some t2 => exact ⟨_, rfl⟩

theorem add_function_redeclaration_witness :
    add_function (proto_ast "f" ty_void [("a", ty_int32)]) (params_ast [("a", ty_int32)])
        ⟨[Sym.mk "f" ST_FUNCTION false (some ty_void) ⟨1⟩ 1
          [Sym.mk "a" ST_VARIABLE false (some ty_int32) ⟨0⟩ 0 [] 1] 0], none, none, 2⟩ =
      Except.ok (1, ⟨[Sym.mk "f" ST_FUNCTION false (some ty_void) ⟨1⟩ 1
          [Sym.mk "a" ST_VARIABLE false (some ty_int32) ⟨0⟩ 0 [] 1] 0], none, none, 2⟩) ∧
    ∃ msg, add_function (proto_ast "f" ty_void [("a", ty_int8)]) (params_ast [("a", ty_int8)])
        ⟨[Sym.mk "f" ST_FUNCTION false (some ty_void) ⟨1⟩ 1
          [Sym.mk "a" ST_VARIABLE false (some ty_int32) ⟨0⟩ 0 [] 1] 0], none, none, 2⟩ =
      Except.error (Err.fatal msg) :=
  ⟨(add_function_redeclaration
      ⟨[Sym.mk "f" ST_FUNCTION false (some ty_void) ⟨1⟩ 1
        [Sym.mk "a" ST_VARIABLE false (some ty_int32) ⟨0⟩ 0 [] 1] 0], none, none, 2⟩
      (Sym.mk "f" ST_FUNCTION false (some ty_void) ⟨1⟩ 1
        [Sym.mk "a" ST_VARIABLE false (some ty_int32) ⟨0⟩ 0 [] 1] 0)
      "f" ty_void [("a", ty_int32)] rfl rfl (by simp [Sym.type])
      (by simp [Sym.memb, Sym.type])).1 ⟨rfl, rfl⟩,
   (add_function_redeclaration
      ⟨[Sym.mk "f" ST_FUNCTION false (some ty_void) ⟨1⟩ 1
        [Sym.mk "a" ST_VARIABLE false (some ty_int32) ⟨0⟩ 0 [] 1] 0], none, none, 2⟩
      (Sym.mk "f" ST_FUNCTION false (some ty_void) ⟨1⟩ 1
        [Sym.mk "a" ST_VARIABLE false (some ty_int32) ⟨0⟩ 0 [] 1] 0)
      "f" ty_void [("a", ty_int8)] rfl rfl (by simp [Sym.type])
      (by simp [Sym.memb, Sym.type])).2 (by simp [Sym.memb, Sym.type, Sym.name])⟩

theorem add_sym_append_top (this : Sym) :
    ∀ l : List Sym, add_sym_append none this l = l ++ [this]
  | [] => rfl
  | [here] => rfl
  | here :: nxt :: rest => by
    rw [add_sym_append, if_neg (by simp)]
    simp [add_sym_append_top this (nxt :: rest)]

theorem add_sym_to_top (head : List Sym) (name : String) (symtype : Nat)
    (type : Option Ty) (st : Symtab) (hG : st.Globhead = none)
    (h : sym_name_in name head = false) :
    add_sym_to head name symtype type st =
      (some (Sym.mk name symtype false type ⟨0⟩ 0 [] st.nextaddr),
        head ++ [Sym.mk name symtype false type ⟨0⟩ 0 [] st.nextaddr],
        { st with nextaddr := st.nextaddr + 1 }) := by
  cases head with
  | nil => simp [add_sym_to, sym_name_in]
  | cons first rest =>
    simp only [add_sym_to, h, hG]
    simp [add_sym_append_top]

theorem update_sym_last (a : Nat) (g : Sym → Sym) (fcur : Sym) (hf : fcur.addr = a) :
    ∀ old : List Sym, (∀ s ∈ old, s.addr ≠ a ∧ ∀ q ∈ s.memb, q.addr ≠ a) →
      update_sym a g (old ++ [fcur]) = old ++ [g fcur]
  | [], _ => by simp [update_sym, hf]
  | x :: l, h => by
    obtain ⟨hx, hm⟩ := h x (by simp)
    have ih := update_sym_last a g fcur hf l (fun s hs => h s (by simp [hs]))
    simp only [List.cons_append, update_sym, if_neg hx, ih]
    congr 1
    cases x with
    | mk n sy ha t v c m ad =>
      simp only [Sym.mk.injEq, true_and, and_true]
      simp only [Sym.memb] at hm
      conv_rhs => rw [← List.map_id m]
      exact List.map_congr_left (fun p hp => by simp [hm p hp])

theorem sym_at_last (a : Nat) (fcur : Sym) (hf : fcur.addr = a) :
    ∀ old : List Sym, (∀ s ∈ old, s.addr ≠ a) → sym_at a (old ++ [fcur]) = some fcur
  | [], _ => by simp [sym_at, hf]
  | x :: l, h => by
    simp only [List.cons_append, sym_at, if_neg (h x (by simp))]
    exact sym_at_last a fcur hf l (fun s hs => h s (by simp [hs]))

theorem param_syms_has_addr : ∀ (ps : List (String × Ty)) (base : Nat),
    ∀ p ∈ param_syms base ps, p.has_addr = false
  | [], _, p, hp => by simp [param_syms] at hp
  | (n, t) :: ps, base, p, hp => by
    simp only [param_syms, List.mem_cons] at hp
    rcases hp with hp | hp
    · rw [hp]; rfl
    · exact param_syms_has_addr ps (base + 1) p hp

theorem add_params_top (a : Nat) (name : String) (fty : Option Ty) (old : List Sym)
    (hold : ∀ s ∈ old, s.addr ≠ a ∧ ∀ q ∈ s.memb, q.addr ≠ a) :
    ∀ (ps : List (String × Ty)) (memb : List Sym) (cnt : Int) (st : Symtab),
      st.Globhead = none →
      st.Symhead = old ++ [Sym.mk name ST_FUNCTION false fty ⟨0⟩ 0 memb a] →
      (∀ p ∈ memb, p.has_addr = false) →
      (ps.map Prod.fst).Nodup → (∀ q ∈ ps, ∀ p ∈ memb, p.name ≠ q.1) →
      add_params a (params_ast ps) cnt st = Except.ok (cnt + ps.length,
        { st with
          Symhead := old ++ [Sym.mk name ST_FUNCTION false fty ⟨0⟩ 0
            (memb ++ param_syms st.nextaddr ps) a],
          nextaddr := st.nextaddr + ps.length })
  | [], memb, cnt, st, _, hS, _, _, _ => by
    simp [params_ast, add_params, param_syms, ← hS]
  | (n, t) :: ps, memb, cnt, st, hG, hS, hha, hnd, hnm => by
    rw [params_ast_cons]
    have hin : sym_name_in n memb = false :=
      (sym_name_in_false n memb).2 (fun p hp => hnm (n, t) (by simp) p hp)
    have hat := sym_at_last a (Sym.mk name ST_FUNCTION false fty ⟨0⟩ 0 memb a) rfl old
      (fun s hs => (hold s hs).1)
    simp only [add_params, hS, hat, Sym.memb, add_sym_to_top memb n ST_VARIABLE (some t) st hG hin]
    have hmap : (memb ++ [Sym.mk n ST_VARIABLE false (some t) ⟨0⟩ 0 [] st.nextaddr]).map
        (fun p => if p.addr = (Sym.mk n ST_VARIABLE false (some t) ⟨0⟩ 0 [] st.nextaddr).addr
          then p.set_has_addr false else p) =
        memb ++ [Sym.mk n ST_VARIABLE false (some t) ⟨0⟩ 0 [] st.nextaddr] := by
      conv_rhs => rw [← List.map_id (memb ++ _)]
      apply List.map_congr_left
      intro p hp
      have hpa : p.has_addr = false := by
        rcases List.mem_append.1 hp with hp | hp
        · exact hha p hp
        · simp only [List.mem_singleton] at hp
          rw [hp]; rfl
      cases p with
      | mk n1 sy1 ha1 t1 v1 c1 m1 ad1 =>
        simp only [Sym.has_addr] at hpa
        subst hpa
        simp [Sym.set_has_addr]
    rw [hmap, update_sym_last a
      (Sym.set_memb (memb ++ [Sym.mk n ST_VARIABLE false (some t) ⟨0⟩ 0 [] st.nextaddr]))
      (Sym.mk name ST_FUNCTION false fty ⟨0⟩ 0 memb a) rfl old hold]
    have ih := add_params_top a name fty old hold ps
      (memb ++ [Sym.mk n ST_VARIABLE false (some t) ⟨0⟩ 0 [] st.nextaddr]) (cnt + 1)
      { st with
        Symhead := old ++ [Sym.mk name ST_FUNCTION false fty ⟨0⟩ 0
          (memb ++ [Sym.mk n ST_VARIABLE false (some t) ⟨0⟩ 0 [] st.nextaddr]) a],
        nextaddr := st.nextaddr + 1 }
      hG rfl
      (by
        intro p hp
        rcases List.mem_append.1 hp with hp | hp
        · exact hha p hp
        · simp only [List.mem_singleton] at hp
          rw [hp]; rfl)
      (by simp only [List.map_cons, List.nodup_cons] at hnd; exact hnd.2)
      (by
        intro q hq p hp
        rcases List.mem_append.1 hp with hp | hp
        · exact hnm q (by simp [hq]) p hp
        · simp only [List.mem_singleton] at hp
          rw [hp]
          simp only [List.map_cons, List.nodup_cons] at hnd
          intro he
          exact hnd.1 (by
            simp only [Sym.name] at he
            rw [he]
            exact List.mem_map_of_mem Prod.fst hq))
    simp only [Sym.set_memb] at ih ⊢
    rw [ih]
    simp only [param_syms, List.append_assoc, List.singleton_append, List.length_cons,
      Nat.cast_add, Nat.cast_one, Except.ok.injEq, Prod.mk.injEq, Symtab.mk.injEq, and_true,
      true_and]
    constructor
    · ring
    · omega

theorem flag_zero : to_int32 (Litval.intval ⟨0⟩) = 0 := by
  norm_num [to_int32, Litval.intval]

theorem flag_one : to_int32 (Litval.of_int 1).intval = 1 := by
  norm_num [to_int32, Litval.intval, Litval.of_int]

theorem add_function_new (st : Symtab) (name : String) (ty : Ty)
    (params : List (String × Ty)) (hG : st.Globhead = none) (hok : symtab_ok st)
    (hnew : ∀ s ∈ st.Symhead, s.name ≠ name) (hdist : (params.map Prod.fst).Nodup) :
    add_function (proto_ast name ty params) (params_ast params) st =
      Except.ok (0, with_func st (func_sym name ty params st.nextaddr) params.length) := by
  have hin : sym_name_in name st.Symhead = false := (sym_name_in_false name _).2 hnew
  have hold : ∀ s ∈ st.Symhead, s.addr ≠ st.nextaddr ∧ ∀ q ∈ s.memb, q.addr ≠ st.nextaddr := by
    intro s hs
    obtain ⟨h1, h2⟩ := hok.2 s hs
    exact ⟨by omega, fun q hq => by have := h2 q hq; omega⟩
  have hp := add_params_top st.nextaddr name (some ty) st.Symhead hold params [] 0
    { st with
      Symhead := st.Symhead ++ [Sym.mk name ST_FUNCTION false (some ty) ⟨0⟩ 0 [] st.nextaddr],
      nextaddr := st.nextaddr + 1 }
    hG rfl (by simp) hdist (by simp)
  rw [proto_ast_eq]
  simp only [add_function, ASTnode.strlit, ASTnode.type, bind, Except.bind,
    add_sym_to_top st.Symhead name ST_FUNCTION (some ty) st hG hin, Sym.addr, hp]
  rw [update_sym_last st.nextaddr (Sym.set_count (0 + (params.length : Int)))
    (Sym.mk name ST_FUNCTION false (some ty) ⟨0⟩ 0 ([] ++ param_syms (st.nextaddr + 1) params)
      st.nextaddr) rfl st.Symhead hold]
  simp [Sym.set_count, with_func, func_sym]

theorem find_symbol_loop_last (name : String) (fs : Sym) (hf : fs.name = name) :
    ∀ old : List Sym, (∀ s ∈ old, s.name ≠ name) →
      find_symbol_loop name none (old ++ [fs]) = some fs
  | [], _ => by simp [find_symbol_loop, hf]
  | x :: l, h => by
    simp only [List.cons_append, find_symbol_loop, if_neg (h x (by simp))]
    simpa using find_symbol_loop_last name fs hf l (fun s hs => h s (by simp [hs]))

theorem find_symbol_with_func (st : Symtab) (fs : Sym) (n : Nat) (hC : st.Curfunc = none)
    (hnew : ∀ s ∈ st.Symhead, s.name ≠ fs.name) :
    find_symbol (some fs.name) (with_func st fs n) = some fs := by
  simp only [find_symbol, with_func, hC]
  exact find_symbol_loop_last fs.name fs rfl st.Symhead hnew

theorem param_syms_fields : ∀ (ps : List (String × Ty)) (base : Nat),
    (param_syms base ps).map (fun q => (q.name, q.type, q.has_addr)) =
      ps.map (fun q => (q.1, some q.2, false))
  | [], _ => rfl
  | (n, t) :: ps, base => by
    simp only [param_syms, List.map_cons, List.cons.injEq]
    exact ⟨rfl, param_syms_fields ps (base + 1)⟩

theorem param_syms_name_type (ps : List (String × Ty)) (base : Nat) :
    (param_syms base ps).map (fun q => (q.name, q.type)) =
      ps.map (fun q => (q.1, some q.2)) := by
  have h := congrArg (List.map (fun r : String × Option Ty × Bool => (r.1, r.2.1)))
    (param_syms_fields ps base)
  simpa [List.map_map, Function.comp_def] using h

/-- C17: the function symbol `add_function` creates, outside any function
body, for a new name and a parameter list with pairwise distinct names:
its member list holds the declared parameters in declaration order, with
their names and types and `has_addr` false, and `count` is the length of
that list; a later declaration with the same prototype returns 0 and leaves
the symbol table, and so both of them, unchanged. -/
theorem add_function_records_parameters (st : Symtab) (name : String) (ty : Ty)
    (params : List (String × Ty)) (hG : st.Globhead = none) (hC : st.Curfunc = none)
    (hok : symtab_ok st) (hnew : ∀ s ∈ st.Symhead, s.name ≠ name)
    (hdist : (params.map Prod.fst).Nodup) :
    ∃ st1 fs, add_function (proto_ast name ty params) (params_ast params) st =
        Except.ok (0, st1) ∧
      find_symbol (some name) st1 = some fs ∧ fs ∈ st1.Symhead ∧
      fs.symtype = ST_FUNCTION ∧ fs.type = some ty ∧
      fs.memb.map (fun q => (q.name, q.type, q.has_addr)) =
        params.map (fun q => (q.1, some q.2, false)) ∧
      fs.count = params.length ∧
      add_function (proto_ast name ty params) (params_ast params) st1 = Except.ok (0, st1) := by
  have hfind := find_symbol_with_func st (func_sym name ty params st.nextaddr) params.length
    hC hnew
  refine ⟨_, func_sym name ty params st.nextaddr,
    add_function_new st name ty params hG hok hnew hdist, hfind, by simp [with_func], rfl, rfl,
    param_syms_fields params _, rfl, ?_⟩
  rw [add_function_existing (with_func st (func_sym name ty params st.nextaddr) params.length)
    (func_sym name ty params st.nextaddr) name ty params hC hfind]
  rw [if_neg (by simp [Sym.type, func_sym])]
  simp only [func_sym, Sym.memb, Sym.initval,
    check_params_match name _ params (param_syms_name_type params _), Except.bind, flag_zero]

theorem add_function_records_parameters_witness :
    ∃ st1 fs, add_function (proto_ast "f" ty_void [("a", ty_int32), ("b", ty_int8)])
        (params_ast [("a", ty_int32), ("b", ty_int8)]) Symtab.init = Except.ok (0, st1) ∧
      find_symbol (some "f") st1 = some fs ∧ fs ∈ st1.Symhead ∧
      fs.symtype = ST_FUNCTION ∧ fs.type = some ty_void ∧
      fs.memb.map (fun q => (q.name, q.type, q.has_addr)) =
        [("a", some ty_int32, false), ("b", some ty_int8, false)] ∧
      fs.count = 2 ∧
      add_function (proto_ast "f" ty_void [("a", ty_int32), ("b", ty_int8)])
        (params_ast [("a", ty_int32), ("b", ty_int8)]) st1 = Except.ok (0, st1) :=
  add_function_records_parameters Symtab.init "f" ty_void [("a", ty_int32), ("b", ty_int8)]
    rfl rfl (by decide) (by simp [Symtab.init]) (by decide)

theorem qbetype_ok (t : Ty) (h : t ≠ ty_void) : ∃ s, qbetype (some t) = Except.ok s := by
  cases t <;> first | exact absurd rfl h | exact ⟨_, rfl⟩

theorem cg_func_params_ok : ∀ (memb : List Sym) (g : Genst),
    (∀ q ∈ memb, ∃ t, q.type = some t ∧ t ≠ ty_void) →
    ∃ g1, cg_func_params memb g = Except.ok g1
  | [], g, _ => ⟨g, rfl⟩
  | this :: rest, g, h => by
    obtain ⟨t, ht, hv⟩ := h this (by simp)
    obtain ⟨s, hs⟩ := qbetype_ok t hv
    simp only [cg_func_params, ht, hs, bind, Except.bind]
    exact cg_func_params_ok rest _ (fun q hq => h q (by simp [hq]))

theorem declare_function_with_func (st0 : Symtab) (fs : Sym) (n : Nat) (name : String)
    (ty : Ty) (params : List (String × Ty)) (c : Comp) (r : Int)
    (hadd : add_function (proto_ast name ty params) (params_ast params) c.syms =
      Except.ok (r, with_func st0 fs n))
    (hC : st0.Curfunc = none) (hname : fs.name = name)
    (hold : ∀ s ∈ st0.Symhead, s.name ≠ name ∧ s.addr ≠ fs.addr ∧
      ∀ q ∈ s.memb, q.addr ≠ fs.addr)
    (hmemb : ∀ q ∈ fs.memb, ∃ t, q.type = some t ∧ t ≠ ty_void) :
    (r = 0 → ∃ g1, declare_function (proto_ast name ty params) c =
      Except.ok { lex := c.lex,
                  syms := new_scope (some (fs.set_initval (Litval.of_int 1)))
                    (with_func st0 (fs.set_initval (Litval.of_int 1)) n),
                  gen := g1 }) ∧
    (r ≠ 0 → declare_function (proto_ast name ty params) c =
      fatal ("multiple declarations for " ++ name ++ "()\n")) := by
  have hl : (proto_ast name ty params).left = Except.ok (params_ast params) := rfl
  have hs : (proto_ast name ty params).strlit = Except.ok (some name) := rfl
  constructor
  · intro hr
    subst hr
    have hfind : find_symbol (some name) (with_func st0 fs n) = some fs := by
      rw [← hname]
      exact find_symbol_with_func st0 fs n hC (fun s hs => by rw [hname]; exact (hold s hs).1)
    have hupd : update_sym fs.addr (Sym.set_initval (Litval.of_int 1))
        (with_func st0 fs n).Symhead =
        st0.Symhead ++ [fs.set_initval (Litval.of_int 1)] :=
      update_sym_last fs.addr _ fs rfl st0.Symhead (fun s hs => (hold s hs).2)
    have haddr : (fs.set_initval (Litval.of_int 1)).addr = fs.addr := by cases fs; rfl
    have hat : sym_at fs.addr (st0.Symhead ++ [fs.set_initval (Litval.of_int 1)]) =
        some (fs.set_initval (Litval.of_int 1)) :=
      sym_at_last fs.addr _ haddr st0.Symhead (fun s hs => (hold s hs).2.1)
    have hmemb1 : (fs.set_initval (Litval.of_int 1)).memb = fs.memb := by cases fs; rfl
    obtain ⟨g1, hg1⟩ := cg_func_params_ok (fs.set_initval (Litval.of_int 1)).memb
      (c.gen.emit ("export function $" ++ (fs.set_initval (Litval.of_int 1)).name ++ "("))
      (by rw [hmemb1]; exact hmemb)
    refine ⟨(g1.emit ") \x7b\n").emit "@START\n", ?_⟩
    simp only [declare_function, hl, hs, bind, Except.bind, hadd, ne_eq, not_true_eq_false,
      if_false, hfind, hupd, sym_reload, hat, cg_func_preamble, hg1]
    rfl
  · intro hr
    simp only [declare_function, hl, hs, bind, Except.bind, hadd, ne_eq, hr,
      not_false_eq_true, if_true, str_or_null, Option.getD]

theorem add_function_times_fixed (func paramlist : ASTnode) (st : Symtab) (r : Int)
    (h : add_function func paramlist st = Except.ok (r, st)) :
    ∀ n, add_function_times func paramlist n st = Except.ok st
  | 0 => rfl
  | n + 1 => by
    simp only [add_function_times, h, bind, Except.bind]
    exact add_function_times_fixed func paramlist st r h n

/-- C13, as written, fails for a prototype with a parameter of type void:
the prototype `void f(int32 a, void b)` is accepted without a body, but the
first declaration with a body is fatal with `no QBE void type`. -/
theorem declare_function_void_parameter_fatal :
    add_function (proto_ast "f" ty_void [("a", ty_int32), ("b", ty_void)])
        (params_ast [("a", ty_int32), ("b", ty_void)]) Symtab.init =
      Except.ok (0, with_func Symtab.init
        (func_sym "f" ty_void [("a", ty_int32), ("b", ty_void)] 0) 2) ∧
    declare_function (proto_ast "f" ty_void [("a", ty_int32), ("b", ty_void)])
        ⟨Lex.init [] "", Symtab.init, Genst.init⟩ = fatal "no QBE void type" ∧
    declare_function (proto_ast "f" ty_void [("a", ty_int32), ("b", ty_void)])
        ⟨Lex.init [] "", with_func Symtab.init
          (func_sym "f" ty_void [("a", ty_int32), ("b", ty_void)] 0) 2, Genst.init⟩ =
      fatal "no QBE void type" := by
  refine ⟨rfl, rfl, rfl⟩

/-! ### Function calls -/

theorem count_args_arg_list : ∀ args : List ASTnode, count_args (arg_list args) = args.length
  | [] => rfl
  | e :: l => by
    simp only [arg_list, mkastnode, count_args, if_true, count_args_arg_list l,
      List.length_cons, Nat.cast_add, Nat.cast_one]
    ring

theorem gen_funccall_args_spec (rec : ASTnode → Genst → Res (Int × Genst)) (numargs : Int) :
    ∀ (args : List ASTnode) (k i : Nat) (params : List Sym) (g : Genst),
      args.length ≤ k → (i : Int) + args.length ≤ numargs →
      gen_funccall_args rec numargs k i (arg_list args) params g =
        eval_args_spec rec args params g
  | [], _, _, _, _, _, _ => by simp [arg_list, gen_funccall_args, eval_args_spec]
  | a :: rest, 0, _, _, _, hk, _ => by simp at hk
  | a :: rest, k + 1, i, [], g, _, _ => by
    simp [arg_list, mkastnode, gen_funccall_args, eval_args_spec]
  | a :: rest, k + 1, i, p :: prest, g, hk, hi => by
    have hlt : ¬ ((i : Int) ≥ numargs) := by
      simp only [List.length_cons, Nat.cast_add, Nat.cast_one] at hi
      omega
    have ih : ∀ g1, gen_funccall_args rec numargs k (i + 1) (arg_list rest) prest g1 =
        eval_args_spec rec rest prest g1 := fun g1 =>
      gen_funccall_args_spec rec numargs rest k (i + 1) prest g1
        (by simp only [List.length_cons] at hk; omega)
        (by simp only [List.length_cons, Nat.cast_add, Nat.cast_one] at hi ⊢; omega)
    simp only [arg_list, mkastnode, gen_funccall_args, if_true, eval_args_spec, hlt, if_false,
      ih]

/-- C20: for a call node of a name that `find_symbol` finds as a function
symbol: if the number of A_GLUE nodes on the right spine of the argument
list differs from the `count` of the callee, `gen_funccall` is fatal with
`wrong number of arguments to NAME(): N vs. C`; if the argument list holds
as many expressions as `count`, that check passes and the call is the
evaluation of the arguments from left to right, the i-th one widened with
`widen_expression` to the type of the i-th parameter, followed by the code
of the call. -/
theorem gen_funccall_argument_count (rec : ASTnode → Genst → Res (Int × Genst))
    (fuel : Nat) (syms : Symtab) (name : String) (func : Sym) (g : Genst)
    (hfind : find_symbol (some name) syms = some func)
    (hfun : func.symtype = ST_FUNCTION) :
    (∀ right : ASTnode, count_args right ≠ func.count →
      gen_funccall rec fuel syms (call_ast name right) g =
        fatal ("wrong number of arguments to " ++ name ++ "(): " ++
          toString (count_args right) ++ " vs. " ++ toString func.count ++ "\n")) ∧
    (∀ args : List ASTnode, (args.length : Int) = func.count → args.length ≤ fuel →
      count_args (arg_list args) = args.length ∧
      gen_funccall rec fuel syms (call_ast name (arg_list args)) g =
        (eval_args_spec rec args func.memb g).bind (fun r =>
          (cgcall func r.1 r.2).bind (fun r1 => Except.ok (NOREG, r1.2)))) := by
  constructor
  · intro right hne
    simp only [gen_funccall, call_ast, mkastnode, mkastleaf, ASTnode.set_strlit, ASTnode.left,
      ASTnode.right, ASTnode.strlit, bind, Except.bind, hfind, hfun, ne_eq, not_true_eq_false,
      if_false, hne, not_false_eq_true, if_true, str_or_null, Option.getD]
  · intro args heq hfuel
    refine ⟨count_args_arg_list args, ?_⟩
    have hc : count_args (arg_list args) = func.count := by
      rw [count_args_arg_list, heq]
    simp only [gen_funccall, call_ast, mkastnode, mkastleaf, ASTnode.set_strlit, ASTnode.left,
      ASTnode.right, ASTnode.strlit, bind, Except.bind, hfind, hfun, ne_eq, not_true_eq_false,
      if_false, hc]
    by_cases hpos : func.count > 0
    · rw [if_pos hpos, gen_funccall_args_spec rec func.count args fuel 0 func.memb g hfuel
        (by rw [← heq]; simp)]
    · rw [if_neg hpos]
      have hnil : args = [] := by
        cases args with
        | nil => rfl
        | cons a l =>
          simp only [List.length_cons, Nat.cast_add, Nat.cast_one] at heq
          omega
      subst hnil
      simp only [eval_args_spec]

theorem gen_funccall_argument_count_witness :
    gen_funccall (fun _ g => Except.ok (0, g)) 5
        ⟨[Sym.mk "f" ST_FUNCTION false (some ty_void) ⟨0⟩ 1
          [Sym.mk "a" ST_VARIABLE false (some ty_int32) ⟨0⟩ 0 [] 1] 0], none, none, 2⟩
        (call_ast "f" ASTnode.NULL) Genst.init =
      fatal ("wrong number of arguments to " ++ "f" ++ "(): " ++
        toString (count_args ASTnode.NULL) ++ " vs. " ++ toString (1 : Int) ++ "\n") ∧
    gen_funccall (fun _ g => Except.ok (0, g)) 5
        ⟨[Sym.mk "f" ST_FUNCTION false (some ty_void) ⟨0⟩ 1
          [Sym.mk "a" ST_VARIABLE false (some ty_int32) ⟨0⟩ 0 [] 1] 0], none, none, 2⟩
        (call_ast "f" (arg_list [mkastleaf A_NUMLIT (some ty_int8) true none 1])) Genst.init =
      (eval_args_spec (fun _ g => Except.ok (0, g))
        [mkastleaf A_NUMLIT (some ty_int8) true none 1]
        [Sym.mk "a" ST_VARIABLE false (some ty_int32) ⟨0⟩ 0 [] 1] Genst.init).bind (fun r =>
          (cgcall (Sym.mk "f" ST_FUNCTION false (some ty_void) ⟨0⟩ 1
            [Sym.mk "a" ST_VARIABLE false (some ty_int32) ⟨0⟩ 0 [] 1] 0) r.1 r.2).bind
            (fun r1 => Except.ok (NOREG, r1.2))) :=
  ⟨(gen_funccall_argument_count (fun _ g => Except.ok (0, g)) 5
      ⟨[Sym.mk "f" ST_FUNCTION false (some ty_void) ⟨0⟩ 1
        [Sym.mk "a" ST_VARIABLE false (some ty_int32) ⟨0⟩ 0 [] 1] 0], none, none, 2⟩
      "f" (Sym.mk "f" ST_FUNCTION false (some ty_void) ⟨0⟩ 1
        [Sym.mk "a" ST_VARIABLE false (some ty_int32) ⟨0⟩ 0 [] 1] 0) Genst.init rfl rfl).1
      ASTnode.NULL (by decide),
   ((gen_funccall_argument_count (fun _ g => Except.ok (0, g)) 5
      ⟨[Sym.mk "f" ST_FUNCTION false (some ty_void) ⟨0⟩ 1
        [Sym.mk "a" ST_VARIABLE false (some ty_int32) ⟨0⟩ 0 [] 1] 0], none, none, 2⟩
      "f" (Sym.mk "f" ST_FUNCTION false (some ty_void) ⟨0⟩ 1
        [Sym.mk "a" ST_VARIABLE false (some ty_int32) ⟨0⟩ 0 [] 1] 0) Genst.init rfl rfl).2
      [mkastleaf A_NUMLIT (some ty_int8) true none 1] rfl (by decide)).2⟩

/-! ### Whole programs -/

/-- C11: compiling `void f(void) { int32 x = 1; x = x + 2; }` with fresh
compiler state writes exactly: the header `export function $f() {` and
`@START`; `alloc4 1` for `%x`; `copy 1` into a temporary; `storew` of that
temporary into `%x`; `loadsw` from `%x`; `copy 2`; the `add` of the two
temporaries of type `w`; `storew` of the sum into `%x`; `@END`, `ret`, `}`.
No cast instruction is in the output. -/
theorem compile_declaration_and_assignment :
    output_of (compile libc_unused 60
      "void f(void) \x7b int32 x = 1; x = x + 2; \x7d".toList "in.al") =
    some ("export function $f() \x7b\n" ++
      "@START\n" ++
      "  %x =l alloc4 1\n" ++
      "  %.t2 =w copy 1\n" ++
      "  storew %.t2, %x\n" ++
      "  %.t3 =w loadsw %x\n" ++
      "  %.t4 =w copy 2\n" ++
      "  %.t3 =w add %.t3, %.t4\n" ++
      "  storew %.t3, %x\n" ++
      "@END\n" ++
      "  ret\n" ++
      "\x7d\n") := by
  decide!

/-- C19 does not hold: on the empty block `{ }` `statement_block` returns
NULL straight after the left brace, without the call of `rbrace()`.  After
`function_declaration` on `void f(void) { }` the output is the header
followed by the postamble, but the current token is still the right brace
and not the token after it (EOF), and the compilation of the program, which
goes on to read a declaration at the right brace, ends with an error. -/
theorem statement_block_empty_leaves_rbrace :
    ((main_start libc_unused 60 "\x7b \x7d".toList "in.al").bind
        (statement_block libc_unused 60)).toOption.map
      (fun r => (r.1.isNULL, r.2.lex.Thistoken.token)) = some (true, T_RBRACE) ∧
    token_of ((main_start libc_unused 60 "void f(void) \x7b \x7d".toList "in.al").bind
      (function_declaration libc_unused 60)) = some T_RBRACE ∧
    output_of ((main_start libc_unused 60 "void f(void) \x7b \x7d".toList "in.al").bind
      (function_declaration libc_unused 60)) =
      some ("export function $f() \x7b\n" ++ "@START\n" ++ "@END\n" ++ "  ret\n" ++ "\x7d\n") ∧
    output_of (compile libc_unused 60 "void f(void) \x7b \x7d".toList "in.al") = none ∧
    output_of (compile libc_unused 60
      "void f(void) \x7b \x7d void g(void) \x7b \x7d".toList "in.al") = none := by
  decide!

/-! ### Expressions -/

/-- C18, as written, fails at the relational level: two relational
operators in a row do not group to the left.  For `a < b < c` the parser
builds `LT(a, b)` and stops in front of the second `<`.  And for variables
of type int32 the tree of `a & b == c` is not `AND(a, EQ(b, c))` as it
stands: the bool result of `==` is wrapped in a cast. -/
theorem relational_operators_do_not_chain :
    parse_expression tree_shape ty_int32 "a < b < c".toList = some ("LT(a, b)", T_LT) ∧
    parse_expression tree_shape_casts ty_int32 "a & b == c".toList =
      some ("AND(a, CAST(EQ(b, c)))", T_EOF) := by
  decide!

/-! ### Keywords -/

theorem keyword_loop_no_match (t : List Char) (s0 : Nat) :
    ∀ l : List keynode, (∀ k ∈ l, k.keyword.toList ≠ t) → keyword_loop t s0 l = 0
  | [], _ => rfl
  | k :: rest, h => by
    have hk : ¬ (t = k.keyword.toList) := fun e => h k (by simp) e.symm
    have ih := keyword_loop_no_match t s0 rest (fun k1 h1 => h k1 (by simp [h1]))
    simp only [keyword_loop, hk, if_false, ih]
    split_ifs <;> rfl

theorem keyword_loop_full_search (t : List Char) :
    keyword_loop t (t.head?.elim 0 Char.toNat) keylist = keyword_spec t := by
  by_cases h : ∃ k ∈ keylist, k.keyword.toList = t
  · obtain ⟨k, hk, rfl⟩ := h
    simp only [keylist, List.mem_cons, List.mem_singleton, List.not_mem_nil, or_false] at hk
    rcases hk with rfl | rfl | rfl | rfl | rfl | rfl | rfl | rfl | rfl | rfl | rfl | rfl |
      rfl | rfl | rfl | rfl | rfl | rfl | rfl <;> decide
  · have hne : ∀ k ∈ keylist, k.keyword.toList ≠ t := fun k hk e => h ⟨k, hk, e⟩
    rw [keyword_loop_no_match t _ keylist hne]
    have hf : keylist.find? (fun k => decide (k.keyword.toList = t)) = none := by
      rw [List.find?_eq_none]
      intro k hk
      simpa using hne k hk
    simp only [keyword_spec, hf]

/-- C26: for every string s, `keyword` returns what a full linear search of
the keyword table returns: the token of the entry whose text equals s, and 0
when s is not one of the 19 keywords.  The table holds exactly the keywords
bool, else, false, flt32, flt64, for, if, int8, int16, int32, int64, printf,
true, uint8, uint16, uint32, uint64, void, while, each with a token other
than 0. -/
theorem keyword_is_full_search (s : List Char) :
    keyword s = keyword_spec (cstr s) ∧
    (keyword s ≠ 0 ↔ ∃ k ∈ keylist, k.keyword.toList = cstr s) ∧
    keylist.map keynode.keyword =
      ["bool", "else", "false", "flt32", "flt64", "for", "if", "int8", "int16", "int32",
       "int64", "printf", "true", "uint8", "uint16", "uint32", "uint64", "void", "while"] := by
  have h1 : keyword s = keyword_spec (cstr s) := keyword_loop_full_search (cstr s)
  refine ⟨h1, ?_, rfl⟩
  rw [h1]
  constructor
  · intro hne
    by_contra hno
    apply hne
    have hf : keylist.find? (fun k => decide (k.keyword.toList = cstr s)) = none := by
      rw [List.find?_eq_none]
      intro k hk
      simpa using fun e => hno ⟨k, hk, e⟩
    simp only [keyword_spec, hf]
  · rintro ⟨k, hk, e⟩
    rw [← e]
    simp only [keylist, List.mem_cons, List.mem_singleton, List.not_mem_nil, or_false] at hk
    rcases hk with rfl | rfl | rfl | rfl | rfl | rfl | rfl | rfl | rfl | rfl | rfl | rfl |
      rfl | rfl | rfl | rfl | rfl | rfl | rfl <;> decide

/-! ### The lookahead token -/

theorem Litval.of_int_intval (v : Litval) (h : v.bits < 2 ^ 64) :
    Litval.of_int v.intval = v := by
  cases v with
  | mk b =>
    simp only at h
    have hm : b % 2 ^ 64 = b := Nat.mod_eq_of_lt h
    simp only [Litval.of_int, Litval.intval, hm, Litval.mk.injEq]
    split_ifs with h1
    · have : ((b : Int) % 2 ^ 64) = (b : Int) := Int.emod_eq_of_lt (by omega) (by omega)
      rw [this]; simp
    · have : (((b : Int) - 2 ^ 64) % 2 ^ 64) = (b : Int) := by
        rw [Int.sub_emod, Int.emod_self, sub_zero, Int.emod_emod_of_dvd _ (dvd_refl _)]
        exact Int.emod_eq_of_lt (by omega) (by omega)
      rw [this]; simp

/-- C27: in a lexer state whose peek slot holds a token (kind not 0), `scan`
returns 1 and hands over exactly that token: kind, string payload, numeric
value and numeric sub-kind.  The state afterwards is the old one with the
kind of the peek slot set to 0 and, for the call `scan(&Thistoken)`, with the
token stored in `Thistoken`: the input, the put-back character, `Linestart`,
`Text`, `Line` and the file name are as they were, so the next `scan` finds
the peek slot empty and reads from the input. -/
theorem scan_returns_peek_token (strtod : List Char → Nat) (n : Nat) (toThis : Bool)
    (t : Token) (st : Lex) (hpk : st.Peektoken.token ≠ 0)
    (hval : st.Peektoken.numval.bits < 2 ^ 64) :
    scan strtod (n + 1) toThis t st =
      Except.ok (1, st.Peektoken,
        { st with
          Peektoken := { st.Peektoken with token := 0 },
          Thistoken := if toThis then st.Peektoken else st.Thistoken }) := by
  have hv := Litval.of_int_intval st.Peektoken.numval hval
  simp only [scan]
  unfold scan_body
  rw [if_pos hpk]
  cases toThis with
  | false => simp only [tok_set, Bool.false_eq_true, if_false, hv]
  | true => simp only [tok_set, if_true, hv]

theorem scan_returns_peek_token_witness :
    scan (fun _ => 0) 1 true ⟨0, none, ⟨0⟩, 0⟩
        ⟨"x;".toList, 0, 0, [], ⟨T_IDENT, some "y", ⟨7⟩, NUM_INT⟩, ⟨T_SEMI, none, ⟨0⟩, 0⟩, 3,
          "in.al"⟩ =
      Except.ok (1, ⟨T_IDENT, some "y", ⟨7⟩, NUM_INT⟩,
        ⟨"x;".toList, 0, 0, [], ⟨0, some "y", ⟨7⟩, NUM_INT⟩,
          ⟨T_IDENT, some "y", ⟨7⟩, NUM_INT⟩, 3, "in.al"⟩) :=
  scan_returns_peek_token (fun _ => 0) 0 true ⟨0, none, ⟨0⟩, 0⟩
    ⟨"x;".toList, 0, 0, [], ⟨T_IDENT, some "y", ⟨7⟩, NUM_INT⟩, ⟨T_SEMI, none, ⟨0⟩, 0⟩, 3,
      "in.al"⟩ (by decide) (by decide)

/-! ### String literals and linemarks in the lexer -/

/-- C22 does not hold: `scanch` returns the double quote for the escape
`\"`, and `scanstr` takes every double quote that `scanch` returns as the
end of the literal.  Scanning `"a\"b"` gives a T_STRLIT token with the value
`a`, then the identifier `b`, and then the last double quote opens a literal
that never ends. -/
theorem scanstr_escaped_quote_ends_literal :
    (nth_token 0 "\"a\\\"b\"".toList).map (fun t => (t.token, t.tokstr)) =
      some (T_STRLIT, some "a") ∧
    (nth_token 1 "\"a\\\"b\"".toList).map (fun t => (t.token, t.tokstr)) =
      some (T_IDENT, some "b") ∧
    error_of (scan_n 3 (Comp.init "\"a\\\"b\"".toList "in.al")) =
      some (Err.fatal "String literal too long\n") := by
  decide!

/-- C28 does not hold: `Linestart` is 0 at program start, so a `#` that is
the first character of the input is not taken as a linemark, and `scan`
is fatal with `Unrecognised character: #`.  The same linemark on the second
line is consumed: the line number and the file name are set and the first
token is the first token of the line after it. -/
theorem linemark_on_first_line_unrecognised :
    error_of (scan_n 1 (Comp.init "# 5 \"f.al\"\nvoid".toList "in.al")) =
      some (Err.fatal "Unrecognised character: #\n") ∧
    (nth_token 0 "\n# 5 \"f.al\"\nvoid".toList).map Token.token = some T_VOID ∧
    nth_position 0 "\n# 5 \"f.al\"\nvoid".toList = some (5, "f.al") := by
  decide!

theorem plain_char_facts (c : Char) (h : plain_char c = true) :
    c.toNat ≠ 0 ∧ c.toNat ≠ 10 ∧ c.toNat ≠ 92 ∧ ¬ ((c.toNat : Int) = 34) ∧
    to_char (c.toNat : Int) = c := by
  simp only [plain_char, decide_eq_true_eq] at h
  obtain ⟨h1, h2, h3, h4, h5⟩ := h
  refine ⟨h2, h3, h5, by omega, ?_⟩
  have hm : ((c.toNat : Int) % 256).toNat = c.toNat := by omega
  simp only [to_char, hm]
  exact Char.ofNat_toNat c

/-- The loop of `scanstr` copies a run of plain characters into `Text` and
stops at the double quote, when the run is shorter than the number of
iterations that are left. -/
theorem scanstr_loop_plain (sc : Lex → Res (Int × Lex)) (fuel : Nat) :
    ∀ (s : List Char) (k i : Nat) (st : Lex) (rest : List Char),
      (∀ c ∈ s, plain_char c = true) → st.Putback = 0 → st.Linestart = 0 →
      st.input = s ++ '"' :: rest → s.length < k → i ≤ st.Text.length →
      ∃ st1, scanstr_loop sc fuel k i st = Except.ok (((i + s.length : Nat) : Int), st1) ∧
        st1.Text = buf_write st1.Text (i + s.length) (to_char 0) ∧
        st1.Text.take (i + s.length) = st.Text.take i ++ s ∧
        i + s.length < st1.Text.length ∧
        st1.input = rest ∧ st1.Putback = 0 ∧ st1.Linestart = 0 ∧
        st1.Thistoken = st.Thistoken ∧ st1.Peektoken = st.Peektoken ∧
        st1.Line = st.Line ∧ st1.Infilename = st.Infilename := by
  intro s
  induction s with
  | nil =>
    intro k i st rest _ hp hl hin hk hi
    cases k with
    | zero => simp at hk
    | succ k =>
      simp only [List.nil_append] at hin
      have es := scanch_plain sc fuel st '"' rest hp hin (Or.inl hl) (by decide) (by decide)
      have e34 : (('"'.toNat : Nat) : Int) = 34 := by decide
      refine ⟨({ st with input := rest, Linestart := 0 } : Lex).text_write i 0, ?_, ?_, ?_, ?_,
        rfl, by simpa [Lex.text_write] using hp, rfl, rfl, rfl, rfl, rfl⟩
      · simp only [scanstr_loop, es, bind, Except.bind, e34, if_true, List.length_nil,
          Nat.add_zero]
      · simp only [Lex.text_write, List.length_nil, Nat.add_zero]
        have h0 : i - st.Text.length = 0 := by omega
        have h1 : i - (buf_write st.Text i (to_char 0)).length = 0 := by
          have := buf_write_length st.Text i (to_char 0)
          omega
        have hlt : (List.take i st.Text).length = i := by simp [hi]
        simp only [buf_write, h0, List.replicate_zero, List.append_nil]
        rw [List.take_append_eq_append_take, hlt]
        simp only [List.take_take, Nat.min_self, Nat.sub_self, List.take_zero,
          List.append_nil, List.length_append, List.length_take, List.length_cons,
          List.length_drop]
        have h2 : i - (min i st.Text.length + (st.Text.length - (i + 1) + 1)) = 0 := by omega
        rw [h2, List.replicate_zero, List.append_nil]
        congr 1
        rw [List.drop_append_eq_append_drop, hlt]
        simp [List.drop_eq_nil_of_le, hlt]
      · simp only [Lex.text_write, List.length_nil, Nat.add_zero]
        have := buf_write_take st.Text i (to_char 0) hi
        have h3 : (buf_write st.Text i (to_char 0)).take i =
            ((buf_write st.Text i (to_char 0)).take (i + 1)).take i := by
          rw [List.take_take]; simp
        rw [h3, this]
        simp [List.take_append_eq_append_take, hi]
      · simpa [Lex.text_write] using buf_write_length st.Text i (to_char 0)
  | cons d s ih =>
    intro k i st rest hs hp hl hin hk hi
    cases k with
    | zero => simp at hk
    | succ k =>
      obtain ⟨_, h10, h92, h34, hch⟩ := plain_char_facts d (hs d (List.mem_cons_self _ _))
      have hin1 : st.input = d :: (s ++ '"' :: rest) := by simpa using hin
      have es := scanch_plain sc fuel st d (s ++ '"' :: rest) hp hin1 (Or.inl hl) h10 h92
      obtain ⟨st1, e1, e2, e3, e4, e5, e6, e7, e8, e9, e10, e11⟩ :=
        ih k (i + 1)
          (({ st with input := s ++ '"' :: rest, Linestart := 0 } : Lex).text_write i
            (d.toNat : Int))
          rest (fun c hc => hs c (List.mem_cons_of_mem _ hc))
          (by simp [Lex.text_write, hp]) (by simp [Lex.text_write])
          (by simp [Lex.text_write])
          (by simpa using hk)
          (by simpa [Lex.text_write] using buf_write_length st.Text i (to_char (d.toNat : Int)))
      have hlen : i + (d :: s).length = i + 1 + s.length := by simp; omega
      refine ⟨st1, ?_, ?_, ?_, ?_, e5, e6, e7, ?_, ?_, ?_, ?_⟩
      · simp only [scanstr_loop, es, bind, Except.bind, h34, if_false]
        rw [e1, hlen]
      · rw [hlen]; exact e2
      · rw [hlen, e3]
        simp only [Lex.text_write, hch, buf_write_take st.Text i d hi, List.append_assoc,
          List.singleton_append]
      · rw [hlen]; exact e4
      · rw [e8]; simp [Lex.text_write]
      · rw [e9]; simp [Lex.text_write]
      · rw [e10]; simp [Lex.text_write]
      · rw [e11]; simp [Lex.text_write]

/-- The loop of `scanstr` is fatal when as many characters as there are
iterations left come before any double quote. -/
theorem scanstr_loop_too_long (sc : Lex → Res (Int × Lex)) (fuel : Nat) :
    ∀ (s : List Char) (k i : Nat) (st : Lex) (rest : List Char),
      (∀ c ∈ s, plain_char c = true) → st.Putback = 0 → st.Linestart = 0 →
      st.input = s ++ rest → s.length = k →
      scanstr_loop sc fuel k i st = fatal "String literal too long\n" := by
  intro s
  induction s with
  | nil =>
    intro k i st rest _ _ _ _ hk
    simp only [List.length_nil] at hk
    subst hk
    rfl
  | cons d s ih =>
    intro k i st rest hs hp hl hin hk
    cases k with
    | zero => simp at hk
    | succ k =>
      obtain ⟨_, h10, h92, h34, hch⟩ := plain_char_facts d (hs d (List.mem_cons_self _ _))
      have hin1 : st.input = d :: (s ++ rest) := by simpa using hin
      have es := scanch_plain sc fuel st d (s ++ rest) hp hin1 (Or.inl hl) h10 h92
      simp only [scanstr_loop, es, bind, Except.bind, h34, if_false]
      exact ih k (i + 1) _ rest (fun c hc => hs c (List.mem_cons_of_mem _ hc))
        (by simp [Lex.text_write, hp]) (by simp [Lex.text_write])
        (by simp [Lex.text_write]) (by simpa using hk)

/-- C25, as written, fails at the limit: a string literal of exactly 511
characters is rejected.  The loop of `scanstr` runs 511 times and needs one
of these iterations for the closing double quote. -/
theorem scanstr_511_characters_too_long :
    (List.replicate 511 'a').length = 511 ∧
    scanstr (fun _ => Except.error Err.fuel) 0
      (Lex.init (List.replicate 511 'a' ++ ['"']) "in.al") =
      fatal "String literal too long\n" :=
  ⟨List.length_replicate 511 'a',
   scanstr_loop_too_long _ 0 (List.replicate 511 'a') (TEXTLEN - 1) 0 _ ['"']
    (fun c hc => by rw [List.eq_of_mem_replicate hc]; decide) rfl rfl rfl
    (List.length_replicate 511 'a')⟩

/-- C25 (amended): for every string literal without escapes, that is, made
of bytes other than NUL, newline, double quote and backslash, read with
nothing put back: if it has at most 510 characters, `scanstr` accepts it,
returns its length and leaves its characters unchanged as the C string in
`Text`, with the input after the closing double quote left to read; if it
has 511 characters or more, `scanstr` is fatal with `String literal too
long`. -/
theorem scanstr_length_limit (sc : Lex → Res (Int × Lex)) (fuel : Nat) (st : Lex)
    (s rest : List Char) (hs : ∀ c ∈ s, plain_char c = true)
    (hp : st.Putback = 0) (hl : st.Linestart = 0) :
    (s.length ≤ 510 → st.input = s ++ '"' :: rest →
      ∃ st1, scanstr sc fuel st = Except.ok ((s.length : Int), st1) ∧
        cstr st1.Text = s ∧ st1.input = rest) ∧
    (511 ≤ s.length → st.input = s ++ rest →
      scanstr sc fuel st = fatal "String literal too long\n") := by
  constructor
  · intro hlen hin
    obtain ⟨st1, e1, e2, e3, e4, e5, _⟩ :=
      scanstr_loop_plain sc fuel s (TEXTLEN - 1) 0 st rest hs hp hl hin
        (by simp only [TEXTLEN]; omega) (Nat.zero_le _)
    simp only [Nat.zero_add, List.take_zero, List.nil_append] at e1 e2 e3 e4
    refine ⟨st1, e1, ?_, e5⟩
    rw [e2, buf_write_nul st1.Text s.length (by omega)
      (by rw [e3]; exact fun c hc => (plain_char_facts c (hs c hc)).1), e3]
  · intro hlen hin
    have hsplit : s = s.take 511 ++ s.drop 511 := (List.take_append_drop 511 s).symm
    exact scanstr_loop_too_long sc fuel (s.take 511) (TEXTLEN - 1) 0 st (s.drop 511 ++ rest)
      (fun c hc => hs c (List.mem_of_mem_take hc)) hp hl
      (by rw [← List.append_assoc, ← hsplit]; exact hin)
      (by simp only [List.length_take, TEXTLEN]; omega)

theorem scanstr_length_limit_witness :
    (∃ st1, scanstr (fun _ => Except.error Err.fuel) 0 (Lex.init "a#b\";".toList "in.al") =
        Except.ok ((3 : Int), st1) ∧
      cstr st1.Text = "a#b".toList ∧ st1.input = ";".toList) ∧
    scanstr (fun _ => Except.error Err.fuel) 0
      (Lex.init (List.replicate 600 'a' ++ ['"']) "in.al") =
      fatal "String literal too long\n" :=
  ⟨(scanstr_length_limit (fun _ => Except.error Err.fuel) 0 (Lex.init "a#b\";".toList "in.al")
      "a#b".toList ";".toList (by decide) rfl rfl).1 (by decide) rfl,
   (scanstr_length_limit (fun _ => Except.error Err.fuel) 0
      (Lex.init (List.replicate 600 'a' ++ ['"']) "in.al")
      (List.replicate 600 'a') ['"']
      (fun c hc => by rw [List.eq_of_mem_replicate hc]; decide) rfl rfl).2
      (by rw [List.length_replicate]; decide) rfl⟩

/-! ### Literals with a leading minus -/

/-- On the text of an integer literal that follows a minus sign `scan_numlit`
marks the token signed and stores what `strtoull` gives in radix 10 for the
text with the minus sign in front: the first character of `Text` is the
minus sign, so no other radix is chosen. -/
theorem scan_numlit_negative (strtod : List Char → Nat) (sc : Lex → Res (Int × Lex))
    (fuel : Nat) (toThis : Bool) (t : Token) (st : Lex) (c0 : Char)
    (ds rest : List Char)
    (hc0 : c0 ∈ numchar) (hds : ∀ c ∈ ds, c ∈ numchar) (hend : ends_literal rest = true)
    (hlen : (c0 :: ds).length ≤ 510) (hdot : (c0 :: ds).contains '.' = false)
    (hp : st.Putback = 0) (hl : st.Linestart = 0) (hin : st.input = ds ++ rest) :
    ∃ st1, scan_numlit strtod sc fuel toThis t (c0.toNat : Int) true st =
        Except.ok ({ (if toThis then st.Thistoken else t) with
            numtype := NUM_INT,
            numval := Litval.of_uint (strtoull ('-' :: c0 :: ds) 10) },
          st1) ∧
      (toThis = true → st1.Thistoken = { st.Thistoken with
            numtype := NUM_INT,
            numval := Litval.of_uint (strtoull ('-' :: c0 :: ds) 10) }) := by
  obtain ⟨_, _, _, _, _, hch⟩ := numchar_facts c0 hc0
  have hnz : ∀ c ∈ '-' :: c0 :: ds, c.toNat ≠ 0 := by
    intro c hc
    rcases List.mem_cons.1 hc with h | h
    · subst h; decide
    · rcases List.mem_cons.1 h with h | h
      · subst h; exact (numchar_facts c hc0).2.2.2.1
      · exact (numchar_facts c (hds c h)).2.2.2.1
  have hminus : to_char 45 = '-' := by decide
  have hdot1 : ('-' :: c0 :: ds).contains '.' = false := by
    simp only [List.contains_cons, Bool.or_eq_false_iff] at hdot ⊢
    exact ⟨by decide, hdot⟩
  have hwr : ∀ s : Lex, ((s.text_write 0 45).text_write 1 (c0.toNat : Int)).Text.take 2 =
      ['-', c0] ∧ 2 ≤ ((s.text_write 0 45).text_write 1 (c0.toNat : Int)).Text.length := by
    intro s
    have h1 := buf_write_take s.Text 0 '-' (Nat.zero_le _)
    have h2 := buf_write_length s.Text 0 '-'
    have h3 := buf_write_take (buf_write s.Text 0 '-') 1 c0 (by omega)
    have h4 := buf_write_length (buf_write s.Text 0 '-') 1 c0
    simp only [Lex.text_write, hminus, hch]
    refine ⟨?_, h4⟩
    rw [h3, h1]
    simp
  cases toThis with
  | false =>
    obtain ⟨ht, hlen2⟩ := hwr st
    obtain ⟨st1, e1, e2, e3, e4⟩ :=
      scan_numlit_loop_digits sc fuel ds (TEXTLEN - 1 - (1 + 1)) (1 + 1)
        ((st.text_write 0 45).text_write 1 (c0.toNat : Int)) rest hds hend
        (by simp [Lex.text_write, hp]) (by simp [Lex.text_write, hl])
        (by simp [Lex.text_write, hin])
        (by simp at hlen ⊢; omega) hlen2
    rw [ht] at e2
    have e2' : List.take (1 + 1 + ds.length) st1.Text = '-' :: c0 :: ds := by simpa using e2
    have hcs : cstr (st1.text_write (1 + 1 + ds.length) 0).Text = '-' :: c0 :: ds := by
      simp only [Lex.text_write]
      rw [buf_write_nul st1.Text _ e4 (by rw [e2']; exact hnz), e2']
    refine ⟨st1.text_write (1 + 1 + ds.length) 0, ?_, fun h => absurd h (by decide)⟩
    simp only [scan_numlit, tok_set, Bool.false_eq_true, if_false, if_true, e1, bind,
      Except.bind, hcs, hdot1, List.head?_cons, List.tail_cons]
    rfl
  | true =>
    obtain ⟨ht, hlen2⟩ := hwr
      ({ st with Thistoken := { st.Thistoken with numtype := NUM_INT } } : Lex)
    obtain ⟨st1, e1, e2, e3, e4⟩ :=
      scan_numlit_loop_digits sc fuel ds (TEXTLEN - 1 - (1 + 1)) (1 + 1)
        ((({ st with Thistoken := { st.Thistoken with numtype := NUM_INT } } : Lex).text_write
          0 45).text_write 1 (c0.toNat : Int)) rest hds hend
        (by simp [Lex.text_write, hp]) (by simp [Lex.text_write, hl])
        (by simp [Lex.text_write, hin])
        (by simp at hlen ⊢; omega) hlen2
    rw [ht] at e2
    have e2' : List.take (1 + 1 + ds.length) st1.Text = '-' :: c0 :: ds := by simpa using e2
    have hcs : cstr (st1.text_write (1 + 1 + ds.length) 0).Text = '-' :: c0 :: ds := by
      simp only [Lex.text_write]
      rw [buf_write_nul st1.Text _ e4 (by rw [e2']; exact hnz), e2']
    have e3' : st1.Thistoken = { st.Thistoken with numtype := NUM_INT } := by
      rw [e3]; simp [Lex.text_write]
    refine ⟨{ st1.text_write (1 + 1 + ds.length) 0 with
        Thistoken := { st.Thistoken with
          numtype := NUM_INT,
          numval := Litval.of_uint (strtoull ('-' :: c0 :: ds) 10) } },
      ?_, fun _ => rfl⟩
    simp only [scan_numlit, tok_set, if_true, Bool.false_eq_true, if_false, e1, bind,
      Except.bind, hcs, hdot1, List.head?_cons, List.tail_cons]
    simp only [Lex.text_write, e3']
    rfl

/-- The 64-bit cell that holds the negated value of v, read as a signed
number, is -v for v up to `2^63`. -/
theorem intval_negated (v : Nat) (hv : v ≤ 2 ^ 63) :
    (Litval.of_uint ((2 ^ 64 - v) % 2 ^ 64)).intval = -(v : Int) := by
  simp only [Litval.of_uint, Litval.intval, Nat.mod_mod]
  rcases Nat.eq_zero_or_pos v with h0 | hpos
  · subst h0; norm_num
  · have hm : (2 ^ 64 - v) % 2 ^ 64 = 2 ^ 64 - v := Nat.mod_eq_of_lt (by omega)
    rw [hm]
    have hge : ¬ (2 ^ 64 - v < 2 ^ 63) := by omega
    rw [if_neg hge]
    have : ((2 ^ 64 - v : Nat) : Int) = (2 : Int) ^ 64 - (v : Int) := by
      have h1 : v ≤ 2 ^ 64 := by omega
      rw [Nat.cast_sub h1]
      norm_num
    rw [this]
    ring

/-- With nothing put back and `Linestart` zero, `next` returns the next
character of the input, whatever it is, and leaves nothing put back. -/
theorem next_any (sc : Lex → Res (Int × Lex)) (fuel : Nat) (st : Lex)
    (c : Char) (rest : List Char)
    (hp : st.Putback = 0) (hin : st.input = c :: rest) (h1 : st.Linestart = 0) :
    ∃ st1, next sc fuel st = Except.ok ((c.toNat : Int), st1) ∧
      st1.input = rest ∧ st1.Putback = 0 ∧ st1.Peektoken = st.Peektoken ∧
      st1.Thistoken = st.Thistoken := by
  unfold next
  simp only [hp, ne_eq, not_true_eq_false, if_false, fgetc, hin]
  unfold next_linemarks
  simp only [ne_eq, h1, not_true_eq_false, false_and, if_false]
  by_cases h10 : (c.toNat : Int) = 10
  · simp only [h10, if_true]
    exact ⟨_, rfl, rfl, rfl, rfl, rfl⟩
  · simp only [h10, if_false]
    exact ⟨_, rfl, rfl, rfl, rfl, rfl⟩

/-- C23, as written, fails for a literal with a dot: in `-1.5` the minus
sign is immediately followed by a decimal digit, and `scan` returns a
T_NUMLIT token whose sub-kind is float, not signed-int. -/
theorem scan_minus_float_literal :
    (nth_token 0 "-1.5".toList).map (fun t => (t.token, t.numtype)) =
      some (T_NUMLIT, NUM_FLT) ∧ NUM_FLT ≠ NUM_INT := by
  decide!

/-- C24 does not hold for literals with a leading minus: `scan_numlit` tests
the first character of `Text` for `0`, and with the minus sign in front the
first character is `-`, so the radix stays 10.  Without the sign `010` has
the value 8, `0x10` the value 16 and `10` the value 10; but `-010` has the
value -10, not -8, and `-0x10` the value 0, not -16. -/
theorem negative_literal_radix_is_decimal :
    (nth_token 0 "010".toList).map (fun t => (t.token, t.numval.intval)) =
      some (T_NUMLIT, 8) ∧
    (nth_token 0 "0x10".toList).map (fun t => (t.token, t.numval.intval)) =
      some (T_NUMLIT, 16) ∧
    (nth_token 0 "10".toList).map (fun t => (t.token, t.numval.intval)) =
      some (T_NUMLIT, 10) ∧
    (nth_token 0 "-010".toList).map (fun t => (t.token, t.numval.intval)) =
      some (T_NUMLIT, -10) ∧
    (nth_token 0 "-0x10".toList).map (fun t => (t.token, t.numval.intval)) =
      some (T_NUMLIT, 0) ∧
    (nth_token 1 "-0x10".toList).map (fun t => t.token) = some T_EOF := by
  decide!

/-! ### String literals -/

theorem find_strlit_some (name : String) (label : Int) :
    ∀ l : List Strlit, find_strlit name l = some label → (⟨name, label⟩ : Strlit) ∈ l
  | [], h => by simp [find_strlit] at h
  | e :: rest, h => by
    by_cases he : e.val = name
    · simp only [find_strlit, he, if_true, Option.some.injEq] at h
      have : e = ⟨name, label⟩ := by cases e; simp_all
      simp [this]
    · simp only [find_strlit, he, if_false] at h
      exact List.mem_cons_of_mem _ (find_strlit_some name label rest h)

theorem add_strlit_of_found (s : String) (g : Genst) (l : Int)
    (h : find_strlit s g.Strhead = some l) : add_strlit s g = (l, g) := by
  simp only [add_strlit, h]

theorem add_strlit_of_none (s : String) (g : Genst) (h : find_strlit s g.Strhead = none) :
    add_strlit s g =
      (g.labelid, { g with labelid := g.labelid + 1, Strhead := ⟨s, g.labelid⟩ :: g.Strhead }) := by
  simp only [add_strlit, h, genlabel]

theorem add_strlit_found (s : String) (g : Genst) :
    find_strlit s (add_strlit s g).2.Strhead = some (add_strlit s g).1 := by
  cases h : find_strlit s g.Strhead with
  | some label => simp only [add_strlit, h]
  | none => simp [add_strlit, h, genlabel, find_strlit]

/-- C29: from a string table whose labels came from the label counter,
`add_strlit` called twice with the same string returns the same label both
times, and the second call changes nothing: no entry is added and the label
counter does not advance.  A call with a different string returns a
different label.  The table afterwards is again one whose labels came from
the counter. -/
theorem add_strlit_dedup (s : String) (g : Genst) (hok : strtab_ok g) :
    add_strlit s (add_strlit s g).2 = ((add_strlit s g).1, (add_strlit s g).2) ∧
    strtab_ok (add_strlit s g).2 ∧
    ∀ s2 : String, s2 ≠ s →
      (add_strlit s2 (add_strlit s g).2).1 ≠ (add_strlit s g).1 := by
  have hfound := add_strlit_found s g
  have hok1 : strtab_ok (add_strlit s g).2 := by
    cases h : find_strlit s g.Strhead with
    | some label => simpa only [add_strlit, h] using hok
    | none =>
      simp only [add_strlit, h, genlabel, strtab_ok, List.map_cons, List.nodup_cons,
        List.mem_cons, forall_eq_or_imp]
      refine ⟨⟨?_, hok.1⟩, by omega, fun e he => by have := hok.2 e he; omega⟩
      intro hmem
      obtain ⟨e, he, hl⟩ := List.mem_map.1 hmem
      have := hok.2 e he
      omega
  generalize add_strlit s g = r at hfound hok1 ⊢
  refine ⟨?_, hok1, ?_⟩
  · rw [add_strlit_of_found s r.2 r.1 hfound]
  · intro s2 hne
    have hmem1 := find_strlit_some s _ _ hfound
    cases h2 : find_strlit s2 r.2.Strhead with
    | some l2 =>
      have hmem2 := find_strlit_some s2 l2 _ h2
      rw [add_strlit_of_found s2 r.2 l2 h2]
      intro hl
      have hinj := List.inj_on_of_nodup_map hok1.1 hmem2 hmem1 hl
      exact hne (by simpa using congrArg Strlit.val hinj)
    | none =>
      rw [add_strlit_of_none s2 r.2 h2]
      have := hok1.2 _ hmem1
      simp only at this ⊢
      omega

theorem add_strlit_dedup_witness :
    strtab_ok Genst.init ∧
    add_strlit "hi" (add_strlit "hi" Genst.init).2 =
      ((add_strlit "hi" Genst.init).1, (add_strlit "hi" Genst.init).2) ∧
    (add_strlit "ho" (add_strlit "hi" Genst.init).2).1 ≠ (add_strlit "hi" Genst.init).1 ∧
    output_of (compile libc_unused 60
      "void f(void) \x7b int8 x = 1; printf(\"hi\", x); printf(\"hi\", x); \x7d".toList
      "in.al") =
    some ("export function $f() \x7b\n" ++
      "@START\n" ++
      "  %x =l alloc4 1\n" ++
      "  %.t2 =w copy 1\n" ++
      "  storeb %.t2, %x\n" ++
      "  %.t3 =w loadsb %x\n" ++
      "  call $printf(l $L1, w %.t3)\n" ++
      "  %.t4 =w loadsb %x\n" ++
      "  call $printf(l $L1, w %.t4)\n" ++
      "@END\n" ++
      "  ret\n" ++
      "\x7d\n" ++
      "data $L1 = \x7b b \"hi\", b 0 \x7d\n") :=
  ⟨by decide, (add_strlit_dedup "hi" Genst.init (by decide)).1,
   (add_strlit_dedup "hi" Genst.init (by decide)).2.2 "ho" (by decide), by decide!⟩

/-! ## Two relational operators in a row -/

/-- The function `match` in front of a relational operator, asked for a
semicolon or a right parenthesis. -/
theorem match_tok_relational (lc : Libc) (fuel : Nat) (tok : Nat) (hop : relational_op tok ≠ 0)
    (getnext : Bool) (c : Comp) (hc : c.lex.Thistoken.token = tok) :
    match_tok lc fuel T_SEMI getnext c =
      fatal ("Expected ;, got " ++ tokstr.getD tok "" ++ "\n") ∧
    match_tok lc fuel T_RPAREN getnext c =
      fatal ("Expected ), got " ++ tokstr.getD tok "" ++ "\n") := by
  have hcases : tok = T_GE ∨ tok = T_GT ∨ tok = T_LE ∨ tok = T_LT ∨ tok = T_EQ ∨ tok = T_NE := by
    unfold relational_op at hop
    by_contra hn
    simp only [not_or] at hn
    obtain ⟨h1, h2, h3, h4, h5, h6⟩ := hn
    simp only [h1, h2, h3, h4, h5, h6, if_false] at hop
    exact hop rfl
  rcases hcases with h | h | h | h | h | h <;> subst h <;>
    simp only [match_tok, hc] <;> constructor <;> rfl

/-- C21, as written, fails in an assignment: there the expression is
checked against the type of the variable before the semicolon is matched.
With `x` of type uint8, `x = 1 < 2 < 3;` is fatal with a type error and not
with an 'Expected ..., got ...' error. -/
theorem relational_chain_in_assignment_type_error :
    error_of (compile libc_unused 60
        "void f(void) \x7b uint8 x = 0; x = 1 < 2 < 3; \x7d".toList "in.al") =
      some (Err.fatal "Incompatible types bool vs unsigned int8\n") := by
  decide!

/-! ## Labels -/

theorem render_append (a b : List Line) : render (a ++ b) = render a ++ render b := by
  induction a with
  | nil => simp [render]
  | cons x rest ih => simp [render, ih, String.append_assoc]

theorem label_defs_append (a b : List Line) :
    label_defs (a ++ b) = label_defs a ++ label_defs b := by
  induction a with
  | nil => simp [label_defs]
  | cons x rest ih => cases x <;> simp [label_defs, ih]

theorem jump_targets_append (a b : List Line) :
    jump_targets (a ++ b) = jump_targets a ++ jump_targets b := by
  induction a with
  | nil => simp [jump_targets]
  | cons x rest ih => cases x <;> simp [jump_targets, ih]

/-- A text that starts as an instruction still does with more text after
it. -/
theorem take3_append (x y : String) (l : List Char) (hl : l.length = 3)
    (h : x.data.take 3 = l) : (x ++ y).data.take 3 = l := by
  have hx : 3 ≤ x.data.length := by
    by_contra hc
    have : (x.data.take 3).length = x.data.length := by
      rw [List.length_take]; omega
    rw [h, hl] at this
    omega
  rw [String.data_append, List.take_append_of_le_length hx, h]

/-- The shape of an instruction: a text that starts as an instruction,
followed by a newline. -/
theorem instr_shape_line (x : String)
    (h : x.data.take 3 = "  %".data ∨ x.data.take 3 = "  s".data ∨
      x.data.take 3 = "  c".data) : instr_shape (x ++ "\n") := by
  refine ⟨?_, ?_⟩
  · rcases h with h | h | h
    · exact Or.inl (take3_append x _ _ rfl h)
    · exact Or.inr (Or.inl (take3_append x _ _ rfl h))
    · exact Or.inr (Or.inr (take3_append x _ _ rfl h))
  · rw [String.data_append]
    simp

/-- The start of an instruction, with more text after it. -/
theorem instr_start_append (x y : String)
    (h : x.data.take 3 = "  %".data ∨ x.data.take 3 = "  s".data ∨
      x.data.take 3 = "  c".data) :
    (x ++ y).data.take 3 = "  %".data ∨ (x ++ y).data.take 3 = "  s".data ∨
      (x ++ y).data.take 3 = "  c".data := by
  rcases h with h | h | h
  · exact Or.inl (take3_append x _ _ rfl h)
  · exact Or.inr (Or.inl (take3_append x _ _ rfl h))
  · exact Or.inr (Or.inr (take3_append x _ _ rfl h))

/-- Newlines of a text followed by another. -/
theorem newlines_append (a b : String) : newlines (a ++ b) = newlines a + newlines b := by
  simp [newlines, String.data_append, List.count_append]

/-- The digits `Nat.toDigitsCore` writes are not newlines. -/
theorem toDigitsCore_count : ∀ (fuel n : Nat) (ds : List Char), ds.count '\n' = 0 →
    (Nat.toDigitsCore 10 fuel n ds).count '\n' = 0
  | 0, _, ds, h => by simpa [Nat.toDigitsCore] using h
  | fuel + 1, n, ds, h => by
    have hd : ∀ k, k < 10 → Nat.digitChar k ≠ '\n' := by decide
    have hc : ((n % 10).digitChar :: ds).count '\n' = 0 := by
      rw [List.count_cons_of_ne (hd _ (Nat.mod_lt _ (by decide))).symm]
      exact h
    unfold Nat.toDigitsCore
    simp only
    split_ifs
    · exact hc
    · exact toDigitsCore_count fuel _ _ hc

/-- The text of a natural number holds no newline. -/
theorem newlines_nat (n : Nat) : newlines (toString n) = 0 := by
  show (Nat.toDigits 10 n).asString.data.count '\n' = 0
  exact toDigitsCore_count _ _ _ rfl

/-- The text of an integer holds no newline. -/
theorem newlines_int (i : Int) : newlines (toString i) = 0 := by
  cases i with
  | ofNat m => exact newlines_nat m
  | negSucc m =>
    show newlines ("-" ++ toString (m + 1)) = 0
    rw [newlines_append, newlines_nat]
    rfl

/-- An entry of a table of texts without newlines. -/
theorem newlines_getD : ∀ (l : List String) (k : Nat), (∀ x ∈ l, newlines x = 0) →
    newlines (l.getD k "") = 0
  | [], _, _ => by simp [newlines]
  | x :: rest, 0, h => by simpa using h x (List.mem_cons_self _ _)
  | x :: rest, k + 1, h => by
    simpa using newlines_getD rest k (fun y hy => h y (List.mem_cons_of_mem _ hy))

/-- The QBE type names hold no newline. -/
theorem newlines_qbetype (type : Option Ty) (q : String) (h : qbetype type = Except.ok q) :
    newlines q = 0 := by
  unfold qbetype at h
  cases hd : deref type with
  | error e => simp [hd, bind, Except.bind] at h
  | ok ty =>
    simp only [hd, bind, Except.bind] at h
    split_ifs at h
    · simp [fatal] at h
    · simp [fatal] at h
    · simp only [Except.ok.injEq] at h
      rw [← h]
      exact newlines_getD _ _ (by decide)

/-- The QBE store type names hold no newline. -/
theorem newlines_qbe_storetype (type : Option Ty) (q : String)
    (h : qbe_storetype type = Except.ok q) : newlines q = 0 := by
  unfold qbe_storetype at h
  cases hd : deref type with
  | error e => simp [hd, bind, Except.bind] at h
  | ok ty =>
    simp only [hd, bind, Except.bind] at h
    split_ifs at h
    · simp [fatal] at h
    · simp [fatal] at h
    · simp only [Except.ok.injEq] at h
      rw [← h]
      exact newlines_getD _ _ (by decide)

/-- The QBE load type names hold no newline. -/
theorem newlines_qbe_loadtype (type : Option Ty) (q : String)
    (h : qbe_loadtype type = Except.ok q) : newlines q = 0 := by
  unfold qbe_loadtype at h
  cases hd : deref type with
  | error e => simp [hd, bind, Except.bind] at h
  | ok ty =>
    simp only [hd, bind, Except.bind] at h
    split_ifs at h <;>
      first
      | (exfalso; simp [fatal] at h; done)
      | (simp only [Except.ok.injEq] at h
         rw [← h]
         exact newlines_getD _ _ (by decide))

/-- The QBE extension type names hold no newline. -/
theorem newlines_qbe_exttype (type : Option Ty) (q : String)
    (h : qbe_exttype type = Except.ok q) : newlines q = 0 := by
  unfold qbe_exttype at h
  cases hd : deref type with
  | error e => simp [hd, bind, Except.bind] at h
  | ok ty =>
    simp only [hd, bind, Except.bind] at h
    split_ifs at h <;>
      first
      | (exfalso; simp [fatal] at h; done)
      | (simp only [Except.ok.injEq] at h
         rw [← h]
         exact newlines_getD _ _ (by decide))

/-- A label definition, a jump and a conditional jump are one line each. -/
theorem newlines_line (l t l2 : Int) :
    newlines (Line.label l).text = 1 ∧ newlines (Line.jmp l).text = 1 ∧
    newlines (Line.jnz t l2 l).text = 1 := by
  have e : newlines "\n" = 1 := rfl
  have e1 : newlines "@L" = 0 := rfl
  have e2 : newlines "  jmp @L" = 0 := rfl
  have e3 : newlines "  jnz %.t" = 0 := rfl
  have e4 : newlines ", @L" = 0 := rfl
  simp only [Line.text, newlines_append, newlines_int, e, e1, e2, e3, e4]
  exact ⟨trivial, trivial, trivial⟩

/-- A step that writes one instruction. -/
theorem plain_step_emit (p : Prop) (g : Genst) (s : String) (h : instr_shape s)
    (hn : p → newlines s = 1) : plain_step p g (g.emit s) := by
  refine ⟨rfl, rfl, [Line.instr s], ?_, rfl, rfl, ?_, ?_⟩
  · simp [Genst.emit, Cgen.emit, render, Line.text]
  · intro s1 hs1
    simp only [List.mem_singleton, Line.instr.injEq] at hs1
    rw [hs1]; exact h
  · intro hp x hx
    simp only [List.mem_singleton] at hx
    rw [hx]; exact hn hp

/-- A step that writes nothing. -/
theorem plain_step_refl (p : Prop) (g : Genst) : plain_step p g g := by
  refine ⟨rfl, rfl, [], ?_, rfl, rfl, ?_, ?_⟩
  · simp [render]
  · intro s hs; simp at hs
  · intro _ x hx; simp at hx

/-- Plain steps compose. -/
theorem plain_step_trans {p q : Prop} {g1 g2 g3 : Genst} (h1 : plain_step p g1 g2)
    (h2 : plain_step q g2 g3) : plain_step (p ∧ q) g1 g3 := by
  obtain ⟨hl1, hs1, i1, ho1, hd1, ht1, hi1, hn1⟩ := h1
  obtain ⟨hl2, hs2, i2, ho2, hd2, ht2, hi2, hn2⟩ := h2
  refine ⟨by rw [hl2, hl1], by rw [hs2, hs1], i1 ++ i2, ?_, ?_, ?_, ?_, ?_⟩
  · rw [ho2, ho1, render_append, String.append_assoc]
  · rw [label_defs_append, hd1, hd2]; rfl
  · rw [jump_targets_append, ht1, ht2]; rfl
  · intro s hs
    rcases List.mem_append.1 hs with h | h
    · exact hi1 s h
    · exact hi2 s h
  · intro hp x hx
    rcases List.mem_append.1 hx with h | h
    · exact hn1 hp.1 x h
    · exact hn2 hp.2 x h

/-- A plain step under a stronger condition. -/
theorem plain_step_mono {p q : Prop} {g g1 : Genst} (hpq : q → p) (h : plain_step p g g1) :
    plain_step q g g1 := by
  obtain ⟨hl, hs, items, ho, hd, ht, hi, hn⟩ := h
  exact ⟨hl, hs, items, ho, hd, ht, hi, fun hq => hn (hpq hq)⟩

/-- A plain step keeps the invariant. -/
theorem step_ok_of_plain {p : Prop} {g g1 : Genst} (h : plain_step p g g1) :
    step_ok p g g1 := by
  obtain ⟨hl, hs, items, ho, hd, ht, hi, hn⟩ := h
  refine ⟨items, ⟨ho, by rw [hl], ?_, ?_, ?_, hi⟩, hn⟩
  · intro l; left; rw [hd]; rfl
  · intro l hl1; rw [ht] at hl1; simp at hl1
  · intro e he; left; rw [hs] at he; exact he

/-- The invariant composes. -/
theorem gen_inv_append {g1 g2 g3 : Genst} {a b : List Line} (h1 : gen_inv g1 g2 a)
    (h2 : gen_inv g2 g3 b) : gen_inv g1 g3 (a ++ b) := by
  obtain ⟨ho1, hl1, hd1, ht1, hs1, hi1⟩ := h1
  obtain ⟨ho2, hl2, hd2, ht2, hs2, hi2⟩ := h2
  refine ⟨?_, by omega, ?_, ?_, ?_, ?_⟩
  · rw [ho2, ho1, render_append, String.append_assoc]
  · intro l
    rw [label_defs_append, List.count_append]
    have a1 := hd1 l
    have a2 := hd2 l
    omega
  · intro l hl
    rw [jump_targets_append] at hl
    rw [label_defs_append, List.count_append]
    have a1 := hd1 l
    have a2 := hd2 l
    rcases List.mem_append.1 hl with h | h
    · have := ht1 l h; omega
    · have := ht2 l h; omega
  · intro e he
    rw [label_defs_append, List.count_append]
    have a1 := hd1 e.label
    have a2 := hd2 e.label
    rcases hs2 e he with h | h
    · rcases hs1 e h with hx1 | hx1
      · exact Or.inl hx1
      · right; omega
    · right; omega
  · intro s hs
    rcases List.mem_append.1 hs with h | h
    · exact hi1 s h
    · exact hi2 s h

/-- Steps that keep the invariant compose. -/
theorem step_ok_trans {p q : Prop} {g1 g2 g3 : Genst} (h1 : step_ok p g1 g2)
    (h2 : step_ok q g2 g3) : step_ok (p ∧ q) g1 g3 := by
  obtain ⟨a, ha, hna⟩ := h1
  obtain ⟨b, hb, hnb⟩ := h2
  refine ⟨a ++ b, gen_inv_append ha hb, ?_⟩
  intro hp x hx
  rcases List.mem_append.1 hx with h | h
  · exact hna hp.1 x h
  · exact hnb hp.2 x h

/-- A step that keeps the invariant, under a stronger condition. -/
theorem step_ok_mono {p q : Prop} {g g1 : Genst} (hpq : q → p) (h : step_ok p g g1) :
    step_ok q g g1 := by
  obtain ⟨items, hi, hn⟩ := h
  exact ⟨items, hi, fun hq => hn (hpq hq)⟩

/-- A step that does nothing keeps the invariant. -/
theorem step_ok_refl (p : Prop) (g : Genst) : step_ok p g g :=
  step_ok_of_plain (plain_step_refl p g)

/-- The function `cgbinop` writes one instruction. -/
theorem cgbinop_plain (t1 t2 : Int) (op : String) (type : Option Ty) (g : Genst) (t : Int)
    (g1 : Genst) (hop : newlines op = 0) (h : cgbinop t1 t2 op type g = Except.ok (t, g1)) :
    plain_step True g g1 := by
  unfold cgbinop at h
  cases hq : qbetype type with
  | error e => simp [hq, bind, Except.bind] at h
  | ok q =>
    simp only [hq, bind, Except.bind, Except.ok.injEq, Prod.mk.injEq] at h
    obtain ⟨_, rfl⟩ := h
    refine plain_step_emit _ _ _ (instr_shape_line _ ?_) ?_
    · repeat apply instr_start_append
      exact Or.inl rfl
    · intro _
      simp only [newlines_append, newlines_int, newlines_qbetype _ _ hq, hop]
      decide

/-- The function `cgnegate` writes one instruction. -/
theorem cgnegate_plain (t0 : Int) (type : Option Ty) (g : Genst) (t : Int)
    (g1 : Genst) (h : cgnegate t0 type g = Except.ok (t, g1)) : plain_step True g g1 := by
  unfold cgnegate at h
  cases hq : qbetype type with
  | error e => simp [hq, bind, Except.bind] at h
  | ok q =>
    simp only [hq, bind, Except.bind, Except.ok.injEq, Prod.mk.injEq] at h
    obtain ⟨_, rfl⟩ := h
    refine plain_step_emit _ _ _ (instr_shape_line _ ?_) ?_
    · repeat apply instr_start_append
      exact Or.inl rfl
    · intro _
      simp only [newlines_append, newlines_int, newlines_qbetype _ _ hq]
      decide

/-- The function `cgnot` writes one instruction. -/
theorem cgnot_plain (t0 : Int) (type : Option Ty) (g : Genst) (t : Int)
    (g1 : Genst) (h : cgnot t0 type g = Except.ok (t, g1)) : plain_step True g g1 := by
  unfold cgnot at h
  cases hq : qbetype type with
  | error e => simp [hq, bind, Except.bind] at h
  | ok q =>
    simp only [hq, bind, Except.bind, Except.ok.injEq, Prod.mk.injEq] at h
    obtain ⟨_, rfl⟩ := h
    have hs : ("  %.t" ++ toString t0 ++ " =" ++ q ++ " ceq" ++ q ++ " %.t" ++
        toString t0 ++ ", 0\n") = ("  %.t" ++ toString t0 ++ " =" ++ q ++ " ceq" ++ q ++
        " %.t" ++ toString t0 ++ ", 0") ++ "\n" := by
      simp only [String.append_assoc]; rfl
    rw [hs]
    refine plain_step_emit _ _ _ (instr_shape_line _ ?_) ?_
    · repeat apply instr_start_append
      exact Or.inl rfl
    · intro _
      simp only [newlines_append, newlines_int, newlines_qbetype _ _ hq]
      decide

/-- The function `cginvert` writes one instruction. -/
theorem cginvert_plain (t0 : Int) (type : Option Ty) (g : Genst) (t : Int)
    (g1 : Genst) (h : cginvert t0 type g = Except.ok (t, g1)) : plain_step True g g1 := by
  unfold cginvert at h
  cases hq : qbetype type with
  | error e => simp [hq, bind, Except.bind] at h
  | ok q =>
    simp only [hq, bind, Except.bind, Except.ok.injEq, Prod.mk.injEq] at h
    obtain ⟨_, rfl⟩ := h
    have hs : ("  %.t" ++ toString t0 ++ " =" ++ q ++ " xor %.t" ++ toString t0 ++
        ", -1\n") = ("  %.t" ++ toString t0 ++ " =" ++ q ++ " xor %.t" ++ toString t0 ++
        ", -1") ++ "\n" := by
      simp only [String.append_assoc]; rfl
    rw [hs]
    refine plain_step_emit _ _ _ (instr_shape_line _ ?_) ?_
    · repeat apply instr_start_append
      exact Or.inl rfl
    · intro _
      simp only [newlines_append, newlines_int, newlines_qbetype _ _ hq]
      decide

/-- The function `cgprint` writes one instruction. -/
theorem cgprint_plain (label temp : Int) (type : Option Ty) (g g1 : Genst)
    (h : cgprint label temp type g = Except.ok g1) : plain_step True g g1 := by
  unfold cgprint at h
  cases hq : qbetype type with
  | error e => simp [hq, bind, Except.bind] at h
  | ok q =>
    simp only [hq, bind, Except.bind, Except.ok.injEq] at h
    subst h
    have hs : ("  call $printf(l $L" ++ toString label ++ ", " ++ q ++ " %.t" ++
        toString temp ++ ")\n") = ("  call $printf(l $L" ++ toString label ++ ", " ++ q ++
        " %.t" ++ toString temp ++ ")") ++ "\n" := by
      simp only [String.append_assoc]; rfl
    rw [hs]
    refine plain_step_emit _ _ _ (instr_shape_line _ ?_) ?_
    · repeat apply instr_start_append
      exact Or.inr (Or.inr rfl)
    · intro _
      simp only [newlines_append, newlines_int, newlines_qbetype _ _ hq]
      decide

/-- The function `cgloadlit` writes one instruction. -/
theorem cgloadlit_plain (lc : Libc) (value : Litval) (type : Option Ty) (g : Genst) (t : Int)
    (g1 : Genst) (h : cgloadlit lc value type g = Except.ok (t, g1)) :
    plain_step (∀ b, newlines (lc.fmt_f b) = 0) g g1 := by
  unfold cgloadlit at h
  cases hq : qbetype type with
  | error e => simp [hq, bind, Except.bind] at h
  | ok q =>
    cases hd : deref type with
    | error e => simp [hq, hd, bind, Except.bind] at h
    | ok ty =>
      simp only [hq, hd, bind, Except.bind] at h
      have hstep : plain_step True g g.alloctemp.2 := by
        refine ⟨rfl, rfl, [], ?_, rfl, rfl, ?_, ?_⟩
        · simp [render, Genst.alloctemp, cgalloctemp]
        · intro s hs; simp at hs
        · intro _ x hx; simp at hx
      split_ifs at h
      · simp only [Except.ok.injEq, Prod.mk.injEq] at h
        obtain ⟨_, rfl⟩ := h
        refine plain_step_mono (fun hp => ⟨trivial, hp⟩) (plain_step_trans hstep
          (plain_step_emit _ _ _ (instr_shape_line _ ?_) ?_))
        · repeat apply instr_start_append
          exact Or.inl rfl
        · intro hf
          simp only [newlines_append, newlines_int, newlines_qbetype _ _ hq, hf]
          decide
      · simp only [Except.ok.injEq, Prod.mk.injEq] at h
        obtain ⟨_, rfl⟩ := h
        refine plain_step_mono (fun hp => ⟨trivial, hp⟩) (plain_step_trans hstep
          (plain_step_emit _ _ _ (instr_shape_line _ ?_) ?_))
        · repeat apply instr_start_append
          exact Or.inl rfl
        · intro hf
          simp only [newlines_append, newlines_int, newlines_qbetype _ _ hq]
          decide

/-- The function `cgaddlocal` writes one instruction. -/
theorem cgaddlocal_plain (type : Option Ty) (sym : Option Sym) (g g1 : Genst)
    (h : cgaddlocal type sym g = Except.ok g1) :
    plain_step (∀ sy, sym = some sy → newlines sy.name = 0) g g1 := by
  unfold cgaddlocal at h
  cases hd : deref type with
  | error e => simp [hd, bind, Except.bind] at h
  | ok ty =>
    cases sym with
    | none => simp [hd, bind, Except.bind] at h
    | some sy =>
      simp only [hd, bind, Except.bind, Except.ok.injEq] at h
      subst h
      have hs : ∀ n : Nat, ("  %" ++ sy.name ++ " =l alloc" ++ toString n ++ " 1\n") =
          ("  %" ++ sy.name ++ " =l alloc" ++ toString n ++ " 1") ++ "\n" := by
        intro n; simp only [String.append_assoc]; rfl
      rw [hs]
      refine plain_step_emit _ _ _ (instr_shape_line _ ?_) ?_
      · repeat apply instr_start_append
        exact Or.inl rfl
      · intro hp
        simp only [newlines_append, newlines_nat, hp sy rfl]
        decide

/-- The loop of `cgcall` appends text without a newline and changes nothing
else. -/
theorem cgcall_args_text : ∀ (args : List (Int × Option Ty)) (g g1 : Genst),
    cgcall_args args g = Except.ok g1 →
    g1.labelid = g.labelid ∧ g1.Strhead = g.Strhead ∧
      ∃ s, g1.cg.out = g.cg.out ++ s ∧ newlines s = 0
  | [], g, g1, h => by
    simp only [cgcall_args, Except.ok.injEq] at h
    subst h
    exact ⟨rfl, rfl, "", by simp, rfl⟩
  | (arg, ty) :: rest, g, g1, h => by
    unfold cgcall_args at h
    cases hq : qbetype ty with
    | error e => simp [hq, bind, Except.bind] at h
    | ok q =>
      simp only [hq, bind, Except.bind] at h
      obtain ⟨hl, hs, s, ho, hn⟩ := cgcall_args_text rest _ g1 h
      split_ifs at hl hs ho
      · refine ⟨hl, hs, q ++ (" %.t" ++ (toString arg ++ s)), ?_, ?_⟩
        · rw [ho]; simp only [Genst.emit, Cgen.emit, String.append_assoc]
        · simp only [newlines_append, newlines_int, newlines_qbetype _ _ hq, hn]
          decide
      · refine ⟨hl, hs, q ++ (" %.t" ++ (toString arg ++ (", " ++ s))), ?_, ?_⟩
        · rw [ho]; simp only [Genst.emit, Cgen.emit, String.append_assoc]
        · simp only [newlines_append, newlines_int, newlines_qbetype _ _ hq, hn]
          decide

/-- The function `cgcall` writes one instruction. -/
theorem cgcall_plain (sym : Sym) (args : List (Int × Option Ty)) (g : Genst) (t : Int)
    (g1 : Genst) (h : cgcall sym args g = Except.ok (t, g1)) :
    plain_step (newlines sym.name = 0) g g1 := by
  unfold cgcall at h
  simp only [bind, Except.bind] at h
  split_ifs at h with hv
  · cases ha : cgcall_args args (g.alloctemp.2.emit ("  call $" ++ sym.name ++ "(")) with
    | error e => simp [ha] at h
    | ok g2 =>
      simp only [ha, Except.ok.injEq, Prod.mk.injEq] at h
      obtain ⟨_, rfl⟩ := h
      obtain ⟨hl, hs, s, ho, hn⟩ := cgcall_args_text _ _ _ ha
      refine ⟨hl, hs, [Line.instr (("  call $" ++ sym.name ++ "(" ++ s ++ ")") ++ "\n")],
        ?_, rfl, rfl, ?_, ?_⟩
      · simp only [Genst.emit, Cgen.emit, render, Line.text, ho, Genst.alloctemp, cgalloctemp,
          String.append_assoc, String.append_empty]
        rfl
      · intro s1 hs1
        simp only [List.mem_singleton, Line.instr.injEq] at hs1
        rw [hs1]
        refine instr_shape_line _ ?_
        repeat apply instr_start_append
        exact Or.inr (Or.inr rfl)
      · intro hp x hx
        simp only [List.mem_singleton] at hx
        rw [hx]
        simp only [Line.text, newlines_append, hp, hn]
        decide
  · cases hq : qbetype sym.type with
    | error e => simp [hq] at h
    | ok q =>
      simp only [hq] at h
      cases ha : cgcall_args args (g.alloctemp.2.emit ("  %.t" ++ toString g.alloctemp.1 ++
          " =" ++ q ++ " call $" ++ sym.name ++ "(")) with
      | error e => simp [ha] at h
      | ok g2 =>
        simp only [ha, Except.ok.injEq, Prod.mk.injEq] at h
        obtain ⟨_, rfl⟩ := h
        obtain ⟨hl, hs, s, ho, hn⟩ := cgcall_args_text _ _ _ ha
        refine ⟨hl, hs, [Line.instr (("  %.t" ++ toString g.alloctemp.1 ++
          " =" ++ q ++ " call $" ++ sym.name ++ "(" ++ s ++ ")") ++ "\n")], ?_, rfl, rfl,
          ?_, ?_⟩
        · simp only [Genst.emit, Cgen.emit, render, Line.text, ho, Genst.alloctemp,
            cgalloctemp, String.append_assoc, String.append_empty]
          rfl
        · intro s1 hs1
          simp only [List.mem_singleton, Line.instr.injEq] at hs1
          rw [hs1]
          refine instr_shape_line _ ?_
          repeat apply instr_start_append
          exact Or.inl rfl
        · intro hp x hx
          simp only [List.mem_singleton] at hx
          rw [hx]
          simp only [Line.text, newlines_append, newlines_int, newlines_qbetype _ _ hq, hp, hn]
          decide

/-- A step that changes the state of cgen.c only and appends one
instruction, or nothing. -/
theorem plain_step_cg (p : Prop) (g : Genst) (cg : Cgen)
    (h : cg.out = g.cg.out ∨
      ∃ s, instr_shape s ∧ (p → newlines s = 1) ∧ cg.out = g.cg.out ++ s) :
    plain_step p g { g with cg := cg } := by
  rcases h with h | ⟨s, hs, hn, h⟩
  · refine ⟨rfl, rfl, [], ?_, rfl, rfl, ?_, ?_⟩
    · simp [render, h]
    · intro s hs; simp at hs
    · intro _ x hx; simp at hx
  · refine ⟨rfl, rfl, [Line.instr s], ?_, rfl, rfl, ?_, ?_⟩
    · simp [render, Line.text, h]
    · intro s1 hs1
      simp only [List.mem_singleton, Line.instr.injEq] at hs1
      rw [hs1]; exact hs
    · intro hp x hx
      simp only [List.mem_singleton] at hx
      rw [hx]; exact hn hp

/-- The function `cgloadvar` writes one instruction. -/
theorem cgloadvar_plain (sym : Option Sym) (g : Genst) (t : Int) (g1 : Genst)
    (h : g.lift (cgloadvar sym) = Except.ok (t, g1)) :
    plain_step (∀ sy, sym = some sy → newlines sy.name = 0) g g1 := by
  unfold Genst.lift cgloadvar at h
  cases sym with
  | none => simp [bind, Except.bind] at h
  | some sy =>
    cases hl : qbe_loadtype sy.type with
    | error e => simp [hl, bind, Except.bind] at h
    | ok ql =>
      cases hq : qbetype sy.type with
      | error e => simp [hl, hq, bind, Except.bind] at h
      | ok q =>
        simp only [hl, hq, bind, Except.bind] at h
        split_ifs at h
        · simp only [Except.ok.injEq, Prod.mk.injEq] at h
          obtain ⟨_, rfl⟩ := h
          refine plain_step_cg _ _ _ (Or.inr ⟨_, instr_shape_line _ ?_, ?_, rfl⟩)
          · repeat apply instr_start_append
            exact Or.inl rfl
          · intro hp
            simp only [newlines_append, newlines_int, newlines_qbetype _ _ hq,
              newlines_qbe_loadtype _ _ hl, hp sy rfl]
            decide
        · simp only [Except.ok.injEq, Prod.mk.injEq] at h
          obtain ⟨_, rfl⟩ := h
          refine plain_step_cg _ _ _ (Or.inr ⟨_, instr_shape_line _ ?_, ?_, rfl⟩)
          · repeat apply instr_start_append
            exact Or.inl rfl
          · intro hp
            simp only [newlines_append, newlines_int, newlines_qbetype _ _ hq, hp sy rfl]
            decide

/-- The function `cgstorvar` writes one instruction. -/
theorem cgstorvar_plain (t0 : Int) (ty : Option Ty) (sym : Option Sym) (g : Genst) (u : Unit)
    (g1 : Genst)
    (h : g.lift (fun cg => (cgstorvar t0 ty sym cg).map (fun x => ((), x))) =
      Except.ok (u, g1)) :
    plain_step (∀ sy, sym = some sy → newlines sy.name = 0) g g1 := by
  unfold Genst.lift cgstorvar at h
  cases sym with
  | none => simp [bind, Except.bind, Except.map] at h
  | some sy =>
    cases hq : qbe_storetype sy.type with
    | error e => simp [hq, bind, Except.bind, Except.map] at h
    | ok q =>
      simp only [hq, bind, Except.bind] at h
      split_ifs at h
      · simp only [Except.map, Except.ok.injEq, Prod.mk.injEq] at h
        obtain ⟨_, rfl⟩ := h
        refine plain_step_cg _ _ _ (Or.inr ⟨_, instr_shape_line _ ?_, ?_, rfl⟩)
        · repeat apply instr_start_append
          exact Or.inr (Or.inl rfl)
        · intro hp
          simp only [newlines_append, newlines_int, newlines_qbe_storetype _ _ hq, hp sy rfl]
          decide
      · simp only [Except.map, Except.ok.injEq, Prod.mk.injEq] at h
        obtain ⟨_, rfl⟩ := h
        refine plain_step_cg _ _ _ (Or.inr ⟨_, instr_shape_line _ ?_, ?_, rfl⟩)
        · repeat apply instr_start_append
          exact Or.inl rfl
        · intro hp
          simp only [newlines_append, newlines_int, newlines_qbe_storetype _ _ hq, hp sy rfl]
          decide

/-- The function `cgcompare` writes one instruction. -/
theorem cgcompare_plain (op : Nat) (t1 t2 : Int) (type : Option Ty) (g : Genst) (t : Int)
    (g1 : Genst) (h : g.lift (cgcompare op t1 t2 type) = Except.ok (t, g1)) :
    plain_step True g g1 := by
  unfold Genst.lift cgcompare at h
  cases hq : qbetype type with
  | error e => simp [hq, bind, Except.bind] at h
  | ok q =>
    cases hd : deref type with
    | error e => simp [hq, hd, bind, Except.bind] at h
    | ok ty =>
      simp only [hq, hd, bind, Except.bind] at h
      by_cases hop : op < A_EQ
      · simp [hop] at h
      · simp only [hop, if_false] at h
        split at h
        · simp at h
        · rename_i v hv
          split at hv
          · simp at hv
          · rename_i c hc
            simp only [Except.ok.injEq] at hv
            subst hv
            simp only [Except.ok.injEq, Prod.mk.injEq] at h
            obtain ⟨_, rfl⟩ := h
            have hcn : newlines c = 0 := by
              have hall : ∀ x ∈ qbecmp, newlines x = 0 := by decide
              exact hall c (List.get?_mem hc)
            refine plain_step_cg _ _ _ (Or.inr ⟨_, instr_shape_line _ ?_, ?_, rfl⟩)
            · repeat apply instr_start_append
              exact Or.inl rfl
            · intro _
              simp only [newlines_append, newlines_int, newlines_qbetype _ _ hq, hcn]
              decide

/-- The function `cgcast` writes one instruction or none. -/
theorem cgcast_plain (t1 : Int) (type newtype : Option Ty) (g : Genst) (t : Int)
    (g1 : Genst) (h : g.lift (cgcast t1 type newtype) = Except.ok (t, g1)) :
    plain_step True g g1 := by
  unfold Genst.lift cgcast at h
  cases hd : deref type with
  | error e => simp [hd, bind, Except.bind] at h
  | ok ty0 =>
    simp only [hd, bind, Except.bind] at h
    cases he : qbe_exttype (some (if ty0.kind = TY_BOOL ∨ ty0.kind = TY_INT8 ∨
        ty0.kind = TY_INT16 then (if ty0.is_unsigned then ty_uint32 else ty_int32)
        else ty0)) with
    | error e => simp [he] at h
    | ok oq =>
      cases hq : qbetype newtype with
      | error e => simp [he, hq] at h
      | ok nq =>
        cases hn : deref newtype with
        | error e => simp [he, hq, hn] at h
        | ok nty =>
          simp only [he, hq, hn] at h
          split_ifs at h <;>
            first
            | (exfalso; simp [fatal] at h; done)
            | (simp only [Except.ok.injEq, Prod.mk.injEq] at h
               obtain ⟨_, rfl⟩ := h
               first
               | exact plain_step_cg _ _ _ (Or.inl rfl)
               | (refine plain_step_cg _ _ _ (Or.inr ⟨_, instr_shape_line _ ?_, ?_, rfl⟩)
                  · repeat apply instr_start_append
                    exact Or.inl rfl
                  · intro _
                    simp only [newlines_append, newlines_int, newlines_qbetype _ _ hq,
                      newlines_qbe_exttype _ _ he]
                    decide))

/-- The parts of a tree without a newline in a name. -/
theorem names_ok_parts (n : ASTnode) (hn : n.names_ok = true) :
    (∀ l, n.left = Except.ok l → l.names_ok = true) ∧
    (∀ m, n.mid = Except.ok m → m.names_ok = true) ∧
    (∀ r, n.right = Except.ok r → r.names_ok = true) ∧
    (∀ s, n.sym = Except.ok s → ∀ sy, s = some sy → newlines sy.name = 0) := by
  cases n with
  | NULL =>
    refine ⟨?_, ?_, ?_, ?_⟩ <;> intro x hx <;>
      simp [ASTnode.left, ASTnode.mid, ASTnode.right, ASTnode.sym] at hx
  | node op ty rv left mid right sym v s =>
    simp only [ASTnode.names_ok, Bool.and_eq_true] at hn
    obtain ⟨⟨⟨hs, hl⟩, hm⟩, hr⟩ := hn
    refine ⟨?_, ?_, ?_, ?_⟩
    · intro l hl1
      simp only [ASTnode.left, Except.ok.injEq] at hl1
      rw [← hl1]; exact hl
    · intro l hl1
      simp only [ASTnode.mid, Except.ok.injEq] at hl1
      rw [← hl1]; exact hm
    · intro l hl1
      simp only [ASTnode.right, Except.ok.injEq] at hl1
      rw [← hl1]; exact hr
    · intro s1 hs1 sy hsy
      simp only [ASTnode.sym, Except.ok.injEq] at hs1
      subst hs1
      subst hsy
      simpa using hs

/-- The function `gen_WHILE` keeps the invariant when `genAST` does. -/
theorem gen_WHILE_inv (q : Prop) (rec : ASTnode → Genst → Res (Int × Genst))
    (hrec : ∀ n g t g1, rec n g = Except.ok (t, g1) → step_ok (q ∧ n.names_ok = true) g g1)
    (n : ASTnode) (g g1 : Genst) (h : gen_WHILE rec n g = Except.ok g1) :
    step_ok (q ∧ n.names_ok = true) g g1 := by
  unfold gen_WHILE at h
  cases hleft : n.left with
  | error e => simp [hleft, bind, Except.bind] at h
  | ok left =>
    cases hmid : n.mid with
    | error e => simp [hleft, hmid, bind, Except.bind] at h
    | ok mid =>
      simp only [hleft, hmid, bind, Except.bind, genlabel] at h
      cases h1 : rec left (cglabel g.labelid
          { cg := g.cg, labelid := g.labelid + 1 + 1, Strhead := g.Strhead }) with
      | error e => simp [h1] at h
      | ok p1 =>
        obtain ⟨t1, gB⟩ := p1
        simp only [h1] at h
        cases h2 : rec mid (cgjump_if_false t1 (g.labelid + 1) gB) with
        | error e => simp [h2] at h
        | ok p2 =>
          obtain ⟨t2, gD⟩ := p2
          simp only [h2, Except.ok.injEq] at h
          subst h
          obtain ⟨iL, ⟨hoL, hlL, hdL, htL, hsL, hiL⟩, hnL⟩ := hrec _ _ _ _ h1
          obtain ⟨iM, ⟨hoM, hlM, hdM, htM, hsM, hiM⟩, hnM⟩ := hrec _ _ _ _ h2
          simp only [cglabel, cgjump, cgjump_if_false, genlabel, Genst.emit, Cgen.emit]
            at hoL hlL hdL hsL hoM hlM hdM hsM ⊢
          refine ⟨Line.label g.labelid :: (iL ++
            (Line.jnz t1 gB.labelid (g.labelid + 1) :: Line.label gB.labelid :: (iM ++
            [Line.jmp g.labelid, Line.label (g.labelid + 1)]))), ⟨?_, ?_, ?_, ?_, ?_, ?_⟩, ?_⟩
          · simp only [hoM, hoL, render_append, render, Line.text, String.append_assoc,
              String.append_empty]
          · show g.labelid ≤ gD.labelid
            omega
          · intro l
            simp only [label_defs_append, label_defs, List.count_append, List.count_cons,
              List.count_nil, beq_iff_eq]
            have a1 := hdL l
            have a2 := hdM l
            show _ ∨ (_ ∧ _ ∧ l < gD.labelid)
            split_ifs <;> omega
          · intro l hl
            simp only [jump_targets_append, jump_targets, List.mem_append, List.mem_cons,
              List.mem_singleton, List.not_mem_nil, or_false] at hl
            simp only [label_defs_append, label_defs, List.count_append, List.count_cons,
              List.count_nil, beq_iff_eq]
            have a1 := hdL l
            have a2 := hdM l
            rcases hl with hl | hl | hl | hl | hl
            · have := htL l hl
              split_ifs <;> omega
            · subst hl; split_ifs <;> omega
            · subst hl; split_ifs <;> omega
            · have := htM l hl
              split_ifs <;> omega
            · subst hl; split_ifs <;> omega
          · intro e he
            simp only [label_defs_append, label_defs, List.count_append, List.count_cons,
              List.count_nil, beq_iff_eq]
            have a1 := hdL e.label
            have a2 := hdM e.label
            show _ ∨ (_ ∧ e.label < gD.labelid ∧ _)
            rcases hsM e he with h | h
            · rcases hsL e h with hx1 | hx1
              · exact Or.inl hx1
              · right; split_ifs <;> omega
            · right; split_ifs <;> omega
          · intro s hs
            simp only [List.mem_append, List.mem_cons, List.mem_singleton, List.not_mem_nil,
              or_false, reduceCtorEq, false_or, or_false] at hs
            rcases hs with h | h
            · exact hiL s h
            · exact hiM s h
          · intro hp x hx
            obtain ⟨hpl, hpm, _, _⟩ := names_ok_parts n hp.2
            simp only [List.mem_append, List.mem_cons, List.mem_singleton, List.not_mem_nil,
              or_false] at hx
            rcases hx with h | h | h | h | h | h | h
            · rw [h]; exact (newlines_line _ 0 0).1
            · exact hnL ⟨hp.1, hpl _ hleft⟩ x h
            · rw [h]; exact (newlines_line _ _ _).2.2
            · rw [h]; exact (newlines_line _ 0 0).1
            · exact hnM ⟨hp.1, hpm _ hmid⟩ x h
            · rw [h]; exact (newlines_line _ 0 0).2.1
            · rw [h]; exact (newlines_line _ 0 0).1

/-- The function `gen_IF` keeps the invariant when `genAST` does. -/
theorem gen_IF_inv (q : Prop) (rec : ASTnode → Genst → Res (Int × Genst))
    (hrec : ∀ n g t g1, rec n g = Except.ok (t, g1) → step_ok (q ∧ n.names_ok = true) g g1)
    (n : ASTnode) (g g1 : Genst) (h : gen_IF rec n g = Except.ok g1) :
    step_ok (q ∧ n.names_ok = true) g g1 := by
  unfold gen_IF at h
  cases hleft : n.left with
  | error e => simp [hleft, bind, Except.bind] at h
  | ok left =>
    cases hmid : n.mid with
    | error e => simp [hleft, hmid, bind, Except.bind] at h
    | ok mid =>
      cases hright : n.right with
      | error e => simp [hleft, hmid, hright, bind, Except.bind] at h
      | ok right =>
        by_cases hr : right.isNULL = true
        · simp only [hleft, hmid, hright, hr, bind, Except.bind, genlabel, if_true] at h
          cases h1 : rec left { cg := g.cg, labelid := g.labelid + 1, Strhead := g.Strhead } with
          | error e => simp [h1] at h
          | ok p1 =>
            obtain ⟨t1, gB⟩ := p1
            simp only [h1] at h
            cases h2 : rec mid (cgjump_if_false t1 g.labelid gB) with
            | error e => simp [h2] at h
            | ok p2 =>
              obtain ⟨t2, gD⟩ := p2
              simp only [h2, Except.ok.injEq] at h
              subst h
              obtain ⟨iL, ⟨hoL, hlL, hdL, htL, hsL, hiL⟩, hnL⟩ := hrec _ _ _ _ h1
              obtain ⟨iM, ⟨hoM, hlM, hdM, htM, hsM, hiM⟩, hnM⟩ := hrec _ _ _ _ h2
              simp only [cglabel, cgjump, cgjump_if_false, genlabel, Genst.emit, Cgen.emit]
                at hoL hlL hdL hsL hoM hlM hdM hsM ⊢
              refine ⟨iL ++ (Line.jnz t1 gB.labelid g.labelid :: Line.label gB.labelid ::
                (iM ++ [Line.label g.labelid])), ⟨?_, ?_, ?_, ?_, ?_, ?_⟩, ?_⟩
              · simp only [hoM, hoL, render_append, render, Line.text, String.append_assoc,
                  String.append_empty]
              · show g.labelid ≤ gD.labelid
                omega
              · intro l
                simp only [label_defs_append, label_defs, List.count_append, List.count_cons,
                  List.count_nil, beq_iff_eq]
                have a1 := hdL l
                have a2 := hdM l
                show _ ∨ (_ ∧ _ ∧ l < gD.labelid)
                split_ifs <;> omega
              · intro l hl
                simp only [jump_targets_append, jump_targets, List.mem_append, List.mem_cons,
                  List.mem_singleton, List.not_mem_nil, or_false] at hl
                simp only [label_defs_append, label_defs, List.count_append, List.count_cons,
                  List.count_nil, beq_iff_eq]
                have a1 := hdL l
                have a2 := hdM l
                rcases hl with hl | hl | hl | hl
                · have := htL l hl
                  split_ifs <;> omega
                · subst hl; split_ifs <;> omega
                · subst hl; split_ifs <;> omega
                · have := htM l hl
                  split_ifs <;> omega
              · intro e he
                simp only [label_defs_append, label_defs, List.count_append, List.count_cons,
                  List.count_nil, beq_iff_eq]
                have a1 := hdL e.label
                have a2 := hdM e.label
                show _ ∨ (_ ∧ e.label < gD.labelid ∧ _)
                rcases hsM e he with h | h
                · rcases hsL e h with hx1 | hx1
                  · exact Or.inl hx1
                  · right; split_ifs <;> omega
                · right; split_ifs <;> omega
              · intro s hs
                simp only [List.mem_append, List.mem_cons, List.mem_singleton, List.not_mem_nil,
                  or_false, reduceCtorEq, false_or, or_false] at hs
                rcases hs with h | h
                · exact hiL s h
                · exact hiM s h
              · intro hp x hx
                obtain ⟨hpl, hpm, _, _⟩ := names_ok_parts n hp.2
                simp only [List.mem_append, List.mem_cons, List.mem_singleton,
                  List.not_mem_nil, or_false] at hx
                rcases hx with h | h | h | h | h
                · exact hnL ⟨hp.1, hpl _ hleft⟩ x h
                · rw [h]; exact (newlines_line _ _ _).2.2
                · rw [h]; exact (newlines_line _ 0 0).1
                · exact hnM ⟨hp.1, hpm _ hmid⟩ x h
                · rw [h]; exact (newlines_line _ 0 0).1
        · simp only [hleft, hmid, hright, hr, bind, Except.bind, genlabel, Bool.false_eq_true,
            if_false] at h
          cases h1 : rec left
              { cg := g.cg, labelid := g.labelid + 1 + 1, Strhead := g.Strhead } with
          | error e => simp [h1] at h
          | ok p1 =>
            obtain ⟨t1, gB⟩ := p1
            simp only [h1] at h
            cases h2 : rec mid (cgjump_if_false t1 g.labelid gB) with
            | error e => simp [h2] at h
            | ok p2 =>
              obtain ⟨t2, gD⟩ := p2
              simp only [h2] at h
              cases h3 : rec right (cglabel g.labelid (cgjump (g.labelid + 1)
                  (cglabel gD.labelid
                    { cg := gD.cg, labelid := gD.labelid + 1, Strhead := gD.Strhead }))) with
              | error e => simp [h3] at h
              | ok p3 =>
                obtain ⟨t3, gF⟩ := p3
                simp only [h3, Except.ok.injEq] at h
                subst h
                obtain ⟨iL, ⟨hoL, hlL, hdL, htL, hsL, hiL⟩, hnL⟩ := hrec _ _ _ _ h1
                obtain ⟨iM, ⟨hoM, hlM, hdM, htM, hsM, hiM⟩, hnM⟩ := hrec _ _ _ _ h2
                obtain ⟨iR, ⟨hoR, hlR, hdR, htR, hsR, hiR⟩, hnR⟩ := hrec _ _ _ _ h3
                simp only [cglabel, cgjump, cgjump_if_false, genlabel, Genst.emit, Cgen.emit]
                  at hoL hlL hdL hsL hoM hlM hdM hsM hoR hlR hdR hsR ⊢
                refine ⟨iL ++ (Line.jnz t1 gB.labelid g.labelid :: Line.label gB.labelid ::
                  (iM ++ (Line.label gD.labelid :: Line.jmp (g.labelid + 1) ::
                  Line.label g.labelid :: (iR ++ [Line.label (g.labelid + 1)])))),
                  ⟨?_, ?_, ?_, ?_, ?_, ?_⟩, ?_⟩
                · simp only [hoR, hoM, hoL, render_append, render, Line.text,
                    String.append_assoc, String.append_empty]
                · show g.labelid ≤ gF.labelid
                  omega
                · intro l
                  simp only [label_defs_append, label_defs, List.count_append, List.count_cons,
                    List.count_nil, beq_iff_eq]
                  have a1 := hdL l
                  have a2 := hdM l
                  have a3 := hdR l
                  show _ ∨ (_ ∧ _ ∧ l < gF.labelid)
                  split_ifs <;> omega
                · intro l hl
                  simp only [jump_targets_append, jump_targets, List.mem_append, List.mem_cons,
                    List.mem_singleton, List.not_mem_nil, or_false] at hl
                  simp only [label_defs_append, label_defs, List.count_append, List.count_cons,
                    List.count_nil, beq_iff_eq]
                  have a1 := hdL l
                  have a2 := hdM l
                  have a3 := hdR l
                  rcases hl with hl | hl | hl | hl | hl | hl
                  · have := htL l hl
                    split_ifs <;> omega
                  · subst hl; split_ifs <;> omega
                  · subst hl; split_ifs <;> omega
                  · have := htM l hl
                    split_ifs <;> omega
                  · subst hl; split_ifs <;> omega
                  · have := htR l hl
                    split_ifs <;> omega
                · intro e he
                  simp only [label_defs_append, label_defs, List.count_append, List.count_cons,
                    List.count_nil, beq_iff_eq]
                  have a1 := hdL e.label
                  have a2 := hdM e.label
                  have a3 := hdR e.label
                  show _ ∨ (_ ∧ e.label < gF.labelid ∧ _)
                  rcases hsR e he with h | h
                  · rcases hsM e h with hx1 | hx1
                    · rcases hsL e hx1 with hx2 | hx2
                      · exact Or.inl hx2
                      · right; split_ifs <;> omega
                    · right; split_ifs <;> omega
                  · right; split_ifs <;> omega
                · intro s hs
                  simp only [List.mem_append, List.mem_cons, List.mem_singleton,
                    List.not_mem_nil, or_false, reduceCtorEq, false_or, or_false] at hs
                  rcases hs with h | h | h
                  · exact hiL s h
                  · exact hiM s h
                  · exact hiR s h
                · intro hp x hx
                  obtain ⟨hpl, hpm, hpr, _⟩ := names_ok_parts n hp.2
                  simp only [List.mem_append, List.mem_cons, List.mem_singleton,
                    List.not_mem_nil, or_false] at hx
                  rcases hx with h | h | h | h | h | h | h | h | h
                  · exact hnL ⟨hp.1, hpl _ hleft⟩ x h
                  · rw [h]; exact (newlines_line _ _ _).2.2
                  · rw [h]; exact (newlines_line _ 0 0).1
                  · exact hnM ⟨hp.1, hpm _ hmid⟩ x h
                  · rw [h]; exact (newlines_line _ 0 0).1
                  · rw [h]; exact (newlines_line _ 0 0).2.1
                  · rw [h]; exact (newlines_line _ 0 0).1
                  · exact hnR ⟨hp.1, hpr _ hright⟩ x h
                  · rw [h]; exact (newlines_line _ 0 0).1

/-- Widening keeps the names of a tree. -/
theorem widen_type_names_ok (node : ASTnode) (ty : Option Ty) (r : ASTnode)
    (h : widen_type node ty = Except.ok r) (hn : node.names_ok = true) :
    r.names_ok = true := by
  cases node with
  | NULL => simp [widen_type] at h
  | node op ntype rv left mid right sym litval s =>
    unfold widen_type at h
    cases ntype with
    | none =>
      simp only at h
      split_ifs at h <;>
        first
        | (exfalso; simp [fatal] at h; done)
        | (simp only [Except.ok.injEq] at h
           rw [← h]
           first
           | exact hn
           | rfl)
    | some nty =>
      cases ty with
      | none =>
        simp only at h
        split_ifs at h <;>
          first
          | (exfalso; simp [fatal] at h; done)
          | (simp only [Except.ok.injEq] at h
             rw [← h]
             exact hn)
      | some t =>
        simp only at h
        split_ifs at h <;>
          first
          | (exfalso; simp [fatal] at h; done)
          | (simp only [Except.ok.injEq] at h
             rw [← h]
             first
             | exact hn
             | rfl
             | (simpa [ASTnode.names_ok, mkastnode, ASTnode.set_type, ASTnode.set_rvalue,
                  ASTnode.set_litval] using hn))

/-- Widening an expression keeps the names of a tree. -/
theorem widen_expression_names_ok (e : ASTnode) (ty : Option Ty) (r : ASTnode)
    (h : widen_expression e ty = Except.ok r) (hn : e.names_ok = true) :
    r.names_ok = true := by
  unfold widen_expression at h
  cases hw : widen_type e ty with
  | error err => simp [hw, bind, Except.bind] at h
  | ok w =>
    simp only [hw, bind, Except.bind] at h
    split_ifs at h
    · exfalso
      cases h1 : e.type with
      | error err => simp [h1] at h
      | ok ety =>
        cases h2 : deref ety with
        | error err => simp [h1, h2] at h
        | ok et =>
          cases h3 : deref ty with
          | error err => simp [h1, h2, h3] at h
          | ok t => simp [h1, h2, h3, fatal] at h
    · simp only [Except.ok.injEq] at h
      rw [← h]
      exact widen_type_names_ok _ _ _ hw hn

/-- The function `gen_local` keeps the invariant when `genAST` does. -/
theorem gen_local_inv (q : Prop) (rec : ASTnode → Genst → Res (Int × Genst))
    (hrec : ∀ n g t g1, rec n g = Except.ok (t, g1) → step_ok (q ∧ n.names_ok = true) g g1)
    (n : ASTnode) (g g1 : Genst) (h : gen_local rec n g = Except.ok g1) :
    step_ok (q ∧ n.names_ok = true) g g1 := by
  unfold gen_local at h
  cases hty : n.type with
  | error e => simp [hty, bind, Except.bind] at h
  | ok ty =>
  cases hsym : n.sym with
  | error e => simp [hty, hsym, bind, Except.bind] at h
  | ok sym =>
  cases hleft : n.left with
  | error e => simp [hty, hsym, hleft, bind, Except.bind] at h
  | ok left =>
  cases hmid : n.mid with
  | error e => simp [hty, hsym, hleft, hmid, bind, Except.bind] at h
  | ok mid =>
  cases hright : n.right with
  | error e => simp [hty, hsym, hleft, hmid, hright, bind, Except.bind] at h
  | ok right =>
  simp only [hty, hsym, hleft, hmid, hright, bind, Except.bind] at h
  cases h1 : cgaddlocal ty sym g with
  | error e => simp [h1] at h
  | ok gA =>
  simp only [h1] at h
  cases h2 : rec left gA with
  | error e => simp [h2] at h
  | ok p2 =>
  obtain ⟨t2, gB⟩ := p2
  simp only [h2] at h
  cases h3 : gB.lift (fun cg => (cgstorvar t2 ty sym cg).map (fun x => ((), x))) with
  | error e => simp [h3] at h
  | ok p3 =>
  obtain ⟨u, gC⟩ := p3
  simp only [h3] at h
  cases h4 : rec mid gC with
  | error e => simp [h4] at h
  | ok p4 =>
  obtain ⟨t4, gD⟩ := p4
  simp only [h4] at h
  cases h5 : rec right gD with
  | error e => simp [h5] at h
  | ok p5 =>
  obtain ⟨t5, gE⟩ := p5
  simp only [h5, Except.ok.injEq] at h
  subst h
  refine step_ok_mono ?_ (step_ok_trans (step_ok_of_plain (cgaddlocal_plain _ _ _ _ h1))
    (step_ok_trans (hrec _ _ _ _ h2)
      (step_ok_trans (step_ok_of_plain (cgstorvar_plain _ _ _ _ _ _ h3))
        (step_ok_trans (hrec _ _ _ _ h4) (hrec _ _ _ _ h5)))))
  intro hp
  obtain ⟨hpl, hpm, hpr, hps⟩ := names_ok_parts n hp.2
  exact ⟨hps _ hsym, ⟨hp.1, hpl _ hleft⟩, hps _ hsym, ⟨hp.1, hpm _ hmid⟩,
    ⟨hp.1, hpr _ hright⟩⟩

/-- The loop of `gen_funccall` keeps the invariant when `genAST` does. -/
theorem gen_funccall_args_inv (q : Prop) (rec : ASTnode → Genst → Res (Int × Genst))
    (hrec : ∀ n g t g1, rec n g = Except.ok (t, g1) → step_ok (q ∧ n.names_ok = true) g g1)
    (numargs : Int) : ∀ (k i : Nat) (n : ASTnode) (param : List Sym) (g : Genst)
      (args : List (Int × Option Ty)) (g1 : Genst),
    gen_funccall_args rec numargs k i n param g = Except.ok (args, g1) →
    step_ok (q ∧ n.names_ok = true) g g1
  | _, _, .NULL, _, g, args, g1, h => by
    simp only [gen_funccall_args, Except.ok.injEq, Prod.mk.injEq] at h
    obtain ⟨_, rfl⟩ := h
    exact step_ok_refl _ g
  | 0, _, .node _ _ _ _ _ _ _ _ _, _, _, _, _, h => by
    simp [gen_funccall_args] at h
  | k + 1, i, .node op ty rv left mid right sym v s, param, g, args, g1, h => by
    unfold gen_funccall_args at h
    cases param with
    | nil => simp at h
    | cons p prest =>
      simp only at h
      split_ifs at h with hop hi hi
      · cases hw : widen_expression left p.type with
        | error e => simp [hw, bind, Except.bind] at h
        | ok left1 =>
          cases hlt : left1.type with
          | error e => simp [hw, hlt, bind, Except.bind] at h
          | ok lty => simp [hw, hlt, bind, Except.bind, hi] at h
      · cases hw : widen_expression left p.type with
        | error e => simp [hw, bind, Except.bind] at h
        | ok left1 =>
          cases hlt : left1.type with
          | error e => simp [hw, hlt, bind, Except.bind] at h
          | ok lty =>
            simp only [hw, hlt, bind, Except.bind, hi, if_false] at h
            cases h1 : rec left1 g with
            | error e => simp [h1] at h
            | ok p1 =>
              obtain ⟨t1, gA⟩ := p1
              simp only [h1] at h
              cases h2 : gen_funccall_args rec numargs k (i + 1) right prest gA with
              | error e => simp [h2] at h
              | ok p2 =>
                obtain ⟨args2, gB⟩ := p2
                simp only [h2, Except.ok.injEq, Prod.mk.injEq] at h
                obtain ⟨_, rfl⟩ := h
                refine step_ok_mono ?_ (step_ok_trans (hrec _ _ _ _ h1)
                  (gen_funccall_args_inv q rec hrec numargs k (i + 1) right prest gA args2 _
                    h2))
                intro hp
                obtain ⟨hpl, _, hpr, _⟩ := names_ok_parts _ hp.2
                exact ⟨⟨hp.1, widen_expression_names_ok _ _ _ hw (hpl _ rfl)⟩, hp.1,
                  hpr _ rfl⟩
      · cases hw : widen_expression (ASTnode.node op ty rv left mid right sym v s) p.type with
        | error e => simp [hw, bind, Except.bind] at h
        | ok this1 =>
          cases hlt : this1.type with
          | error e => simp [hw, hlt, bind, Except.bind] at h
          | ok tty => simp [hw, hlt, bind, Except.bind, hi] at h
      · cases hw : widen_expression (ASTnode.node op ty rv left mid right sym v s) p.type with
        | error e => simp [hw, bind, Except.bind] at h
        | ok this1 =>
          cases hlt : this1.type with
          | error e => simp [hw, hlt, bind, Except.bind] at h
          | ok tty =>
            simp only [hw, hlt, bind, Except.bind, hi, if_false] at h
            cases h1 : rec this1 g with
            | error e => simp [h1] at h
            | ok p1 =>
              obtain ⟨t1, gA⟩ := p1
              simp only [h1] at h
              cases hn : this1.right with
              | error e => simp [hn] at h
              | ok nxt =>
                simp only [hn] at h
                cases h2 : gen_funccall_args rec numargs k (i + 1) nxt prest gA with
                | error e => simp [h2] at h
                | ok p2 =>
                  obtain ⟨args2, gB⟩ := p2
                  simp only [h2, Except.ok.injEq, Prod.mk.injEq] at h
                  obtain ⟨_, rfl⟩ := h
                  refine step_ok_mono ?_ (step_ok_trans (hrec _ _ _ _ h1)
                    (gen_funccall_args_inv q rec hrec numargs k (i + 1) nxt prest gA args2 _
                      h2))
                  intro hp
                  have hthis := widen_expression_names_ok _ _ _ hw hp.2
                  obtain ⟨_, _, hpr, _⟩ := names_ok_parts _ hthis
                  exact ⟨⟨hp.1, hthis⟩, hp.1, hpr _ hn⟩

/-- The symbol `find_symbol_loop` returns is one of the list or a parameter
of one. -/
theorem find_symbol_loop_plain (name : String) (cur : Option Nat) : ∀ (l : List Sym) (f : Sym),
    (∀ x ∈ l, newlines x.name = 0 ∧ ∀ p ∈ x.memb, newlines p.name = 0) →
    find_symbol_loop name cur l = some f → newlines f.name = 0
  | [], f, _, h => by simp [find_symbol_loop] at h
  | this :: rest, f, hl, h => by
    unfold find_symbol_loop at h
    have hthis := hl this (List.mem_cons_self _ _)
    have hrest : ∀ x ∈ rest, newlines x.name = 0 ∧ ∀ p ∈ x.memb, newlines p.name = 0 :=
      fun x hx => hl x (List.mem_cons_of_mem _ hx)
    split_ifs at h with h1 h2
    · simp only [Option.some.injEq] at h
      rw [← h]; exact hthis.1
    · cases hf : this.memb.find? (fun param => param.name = name) with
      | none =>
        simp only [hf] at h
        exact find_symbol_loop_plain name cur rest f hrest h
      | some param =>
        simp only [hf, Option.some.injEq] at h
        rw [← h]
        exact hthis.2 param (List.mem_of_find?_eq_some hf)
    · exact find_symbol_loop_plain name cur rest f hrest h

/-- The function `gen_funccall` keeps the invariant when `genAST` does. -/
theorem gen_funccall_inv (q : Prop) (rec : ASTnode → Genst → Res (Int × Genst))
    (hrec : ∀ n g t g1, rec n g = Except.ok (t, g1) → step_ok (q ∧ n.names_ok = true) g g1)
    (fuel : Nat) (syms : Symtab) (hq : q → syms_plain syms) (n : ASTnode) (g : Genst) (t : Int)
    (g1 : Genst) (h : gen_funccall rec fuel syms n g = Except.ok (t, g1)) :
    step_ok (q ∧ n.names_ok = true) g g1 := by
  unfold gen_funccall at h
  cases hleft : n.left with
  | error e => simp [hleft, bind, Except.bind] at h
  | ok left =>
  cases hname : left.strlit with
  | error e => simp [hleft, hname, bind, Except.bind] at h
  | ok name =>
  simp only [hleft, hname, bind, Except.bind] at h
  cases hf : find_symbol name syms with
  | none => simp [hf, fatal] at h
  | some func =>
  have hfn : q → newlines func.name = 0 := by
    intro hq1
    cases name with
    | none => simp [find_symbol] at hf
    | some nm => exact find_symbol_loop_plain nm _ _ _ (hq hq1) hf
  simp only [hf] at h
  split_ifs at h with hst
  · simp [fatal] at h
  · cases hright : n.right with
    | error e => simp [hright] at h
    | ok right =>
    simp only [hright] at h
    split_ifs at h with hc hpos
    · simp [fatal] at h
    · cases h1 : gen_funccall_args rec (count_args right) fuel 0 right func.memb g with
      | error e => simp [h1] at h
      | ok p1 =>
      obtain ⟨args, gA⟩ := p1
      simp only [h1] at h
      cases h2 : cgcall func args gA with
      | error e => simp [h2] at h
      | ok p2 =>
      obtain ⟨t2, gB⟩ := p2
      simp only [h2, Except.ok.injEq, Prod.mk.injEq] at h
      obtain ⟨_, rfl⟩ := h
      refine step_ok_mono ?_ (step_ok_trans
        (gen_funccall_args_inv q rec hrec _ _ _ _ _ _ _ _ h1)
        (step_ok_of_plain (cgcall_plain _ _ _ _ _ h2)))
      intro hp
      obtain ⟨_, _, hpr, _⟩ := names_ok_parts n hp.2
      exact ⟨⟨hp.1, hpr _ hright⟩, hfn hp.1⟩
    · cases h2 : cgcall func [] g with
      | error e => simp [h2] at h
      | ok p2 =>
      obtain ⟨t2, gB⟩ := p2
      simp only [h2, Except.ok.injEq, Prod.mk.injEq] at h
      obtain ⟨_, rfl⟩ := h
      exact step_ok_mono (fun hp => hfn hp.1) (step_ok_of_plain (cgcall_plain _ _ _ _ _ h2))

/-- The function `genAST` on NULL. -/
theorem genAST_null (lc : Libc) (syms : Symtab) (fuel : Nat) (g : Genst) :
    genAST lc syms fuel ASTnode.NULL g = Except.ok (NOREG, g) := by
  cases fuel <;> rfl

/-- The function `genAST` on a node, by the definition. -/
theorem genAST_succ (lc : Libc) (syms : Symtab) (fuel : Nat) (op : Nat) (ty : Option Ty)
    (rv : Bool) (left mid right : ASTnode) (sym : Option Sym) (v : Litval) (s : Option String)
    (g : Genst) :
    genAST lc syms (fuel + 1) (ASTnode.node op ty rv left mid right sym v s) g =
    (
  -- Do special case nodes before the general processing
  if op = A_PRINT then do
    let (righttemp, g) ← genAST lc syms fuel right g
    let lstr ← left.strlit
    match lstr with
    | none => Except.error Err.segv
    | some str =>
      let (label, g) := add_strlit str g
      let rty ← right.type
      let g ← cgprint label righttemp rty g
      Except.ok (NOREG, g)
  else if op = A_LOCAL then do
    let g ← gen_local (genAST lc syms fuel) (ASTnode.node op ty rv left mid right sym v s) g
    Except.ok (NOREG, g)
  else if op = A_FUNCCALL then
    gen_funccall (genAST lc syms fuel) fuel syms
      (ASTnode.node op ty rv left mid right sym v s) g
  else if op = A_IF then do
    let g ← gen_IF (genAST lc syms fuel) (ASTnode.node op ty rv left mid right sym v s) g
    Except.ok (NOREG, g)
  else if op = A_WHILE then do
    let g ← gen_WHILE (genAST lc syms fuel) (ASTnode.node op ty rv left mid right sym v s) g
    Except.ok (NOREG, g)
  else if op = A_FOR then do
    -- Generate the initial code
    let (_, g) ← genAST lc syms fuel right g
    -- Now call gen_WHILE() using the left and mid children
    let g ← gen_WHILE (genAST lc syms fuel) (ASTnode.node op ty rv left mid right sym v s) g
    Except.ok (NOREG, g)
  else do
    -- Load the left and right sub-trees into temporaries
    let (lefttemp, g) ←
      if left.isNULL then Except.ok ((none : Option Int), g)
      else do
        let (t, g) ← genAST lc syms fuel left g
        Except.ok (some t, g)
    let (righttemp, g) ←
      if right.isNULL then Except.ok ((none : Option Int), g)
      else do
        let (t, g) ← genAST lc syms fuel right g
        Except.ok (some t, g)
    let two (f : Int → Int → Option Ty → Genst → Res (Int × Genst)) :
        Res (Int × Genst) := do
      let l ← temp_val lefttemp
      let r ← temp_val righttemp
      f l r ty g
    let one (f : Int → Option Ty → Genst → Res (Int × Genst)) : Res (Int × Genst) := do
      let l ← temp_val lefttemp
      f l ty g
    -- General processing
    if op = A_NUMLIT then cgloadlit lc v ty g
    else if op = A_ADD then two cgadd
    else if op = A_SUBTRACT then two cgsub
    else if op = A_MULTIPLY then two cgmul
    else if op = A_DIVIDE then two cgdiv
    else if op = A_NEGATE then one cgnegate
    else if op = A_IDENT then g.lift (cgloadvar sym)
    else if op = A_ASSIGN then do
      let l ← temp_val lefttemp
      let (_, g) ← g.lift (fun cg => (cgstorvar l ty sym cg).map (fun x => ((), x)))
      Except.ok (NOREG, g)
    else if op = A_CAST then do
      let l ← temp_val lefttemp
      let lty ← left.type
      g.lift (cgcast l lty ty)
    else if A_EQ ≤ op ∧ op ≤ A_GE then do
      let l ← temp_val lefttemp
      let r ← temp_val righttemp
      let lty ← left.type
      g.lift (cgcompare op l r lty)
    else if op = A_INVERT then one cginvert
    else if op = A_AND then two cgand
    else if op = A_OR then two cgor
    else if op = A_XOR then two cgxor
    else if op = A_LSHIFT then two cgshl
    else if op = A_RSHIFT then two cgshr
    else if op = A_NOT then one cgnot
    else if op = A_GLUE then Except.ok (NOREG, g)
    -- Error
    else fatal ("genAST() unknown op " ++ toString op ++ "\n")
    ) := rfl

/-- The assignment step of `genAST` writes one instruction. -/
theorem assign_plain (l : Int) (ty : Option Ty) (sym : Option Sym) (g : Genst) (t : Int)
    (g1 : Genst)
    (h : (g.lift (fun cg => (cgstorvar l ty sym cg).map (fun x => ((), x))) >>=
      fun p => (Except.ok (NOREG, p.2) : Res (Int × Genst))) = Except.ok (t, g1)) :
    plain_step (∀ sy, sym = some sy → newlines sy.name = 0) g g1 := by
  cases h1 : g.lift (fun cg => (cgstorvar l ty sym cg).map (fun x => ((), x))) with
  | error e => simp [h1, bind, Except.bind] at h
  | ok p =>
    obtain ⟨u, gA⟩ := p
    simp only [h1, bind, Except.bind, Except.ok.injEq, Prod.mk.injEq] at h
    obtain ⟨_, rfl⟩ := h
    exact cgstorvar_plain _ _ _ _ _ _ h1

/-- The cast step of `genAST` writes one instruction or none. -/
theorem cast_step_plain (l : Int) (left : ASTnode) (ty : Option Ty) (g : Genst) (t : Int)
    (g1 : Genst)
    (h : (left.type >>= fun lty => g.lift (cgcast l lty ty)) = Except.ok (t, g1)) :
    plain_step True g g1 := by
  cases h1 : left.type with
  | error e => simp [h1, bind, Except.bind] at h
  | ok lty =>
    simp only [h1, bind, Except.bind] at h
    exact cgcast_plain _ _ _ _ _ _ h

/-- The comparison step of `genAST` writes one instruction. -/
theorem compare_step_plain (op : Nat) (l r : Int) (left : ASTnode) (g : Genst) (t : Int)
    (g1 : Genst)
    (h : (left.type >>= fun lty => g.lift (cgcompare op l r lty)) = Except.ok (t, g1)) :
    plain_step True g g1 := by
  cases h1 : left.type with
  | error e => simp [h1, bind, Except.bind] at h
  | ok lty =>
    simp only [h1, bind, Except.bind] at h
    exact cgcompare_plain _ _ _ _ _ _ _ h

/-- The function `add_strlit` keeps the invariant: a new literal gets the
label number handed out by `genlabel`. -/
theorem add_strlit_inv (s : String) (g : Genst) : step_ok True g (add_strlit s g).2 := by
  unfold add_strlit
  cases hf : find_strlit s g.Strhead with
  | some label => exact step_ok_refl _ g
  | none =>
    refine ⟨[], ⟨?_, ?_, ?_, ?_, ?_, ?_⟩, ?_⟩
    · simp [genlabel, render]
    · simp [genlabel]
    · intro l; left; rfl
    · intro l hl; simp [jump_targets] at hl
    · intro e he
      simp only [genlabel, List.mem_cons] at he
      rcases he with he | he
      · right
        subst he
        simp [genlabel, label_defs]
      · exact Or.inl he
    · intro s hs; simp at hs
    · intro _ x hx; simp at hx

/-- Every step of `genAST` keeps the invariant. -/
theorem genAST_inv (lc : Libc) (syms : Symtab) (fuel : Nat) : ∀ (n : ASTnode) (g : Genst)
    (t : Int) (g1 : Genst), genAST lc syms fuel n g = Except.ok (t, g1) →
    step_ok (((∀ b, newlines (lc.fmt_f b) = 0) ∧ syms_plain syms) ∧ n.names_ok = true)
      g g1 := by
  induction fuel with
  | zero =>
    intro n g t g1 h
    cases n with
    | NULL =>
      rw [genAST_null] at h
      simp only [Except.ok.injEq, Prod.mk.injEq] at h
      obtain ⟨_, rfl⟩ := h
      exact step_ok_refl _ g
    | node op ty rv left mid right sym v s => exact Except.noConfusion h
  | succ fuel hrec =>
    intro n g t g1 h
    cases n with
    | NULL =>
      rw [genAST_null] at h
      simp only [Except.ok.injEq, Prod.mk.injEq] at h
      obtain ⟨_, rfl⟩ := h
      exact step_ok_refl _ g
    | node op ty rv left mid right sym v s =>
      rw [genAST_succ] at h
      generalize genAST lc syms fuel = rec at h hrec
      have hkids : ((∀ b, newlines (lc.fmt_f b) = 0) ∧ syms_plain syms) ∧
          (ASTnode.node op ty rv left mid right sym v s).names_ok = true →
          left.names_ok = true ∧ right.names_ok = true := by
        intro hp
        obtain ⟨hpl, _, hpr, _⟩ := names_ok_parts _ hp.2
        exact ⟨hpl _ rfl, hpr _ rfl⟩
      have hsym : ((∀ b, newlines (lc.fmt_f b) = 0) ∧ syms_plain syms) ∧
          (ASTnode.node op ty rv left mid right sym v s).names_ok = true →
          ∀ sy, sym = some sy → newlines sy.name = 0 := by
        intro hp
        exact (names_ok_parts _ hp.2).2.2.2 _ rfl
      by_cases hprint : op = A_PRINT
      · rw [if_pos hprint] at h
        simp only [bind, Except.bind] at h
        rcases h1 : rec right g with e | ⟨tr, gR⟩
        · simp [h1] at h
        simp only [h1] at h
        rcases h2 : left.strlit with e | lstr
        · simp [h2] at h
        simp only [h2] at h
        cases lstr with
        | none => simp at h
        | some str =>
          simp only at h
          rcases h3 : right.type with e | rty
          · simp [h3] at h
          simp only [h3] at h
          rcases h4 : cgprint (add_strlit str gR).1 tr rty (add_strlit str gR).2 with e | gP
          · simp [h4] at h
          simp only [h4, Except.ok.injEq, Prod.mk.injEq] at h
          obtain ⟨_, rfl⟩ := h
          exact step_ok_mono (fun hp => ⟨⟨hp.1, (hkids hp).2⟩, trivial, trivial⟩)
            (step_ok_trans (hrec _ _ _ _ h1)
              (step_ok_trans (add_strlit_inv str gR)
                (step_ok_of_plain (cgprint_plain _ _ _ _ _ h4))))
      rw [if_neg hprint] at h
      by_cases hlocal : op = A_LOCAL
      · rw [if_pos hlocal] at h
        simp only [bind, Except.bind] at h
        rcases h1 : gen_local rec (ASTnode.node op ty rv left mid right sym v s) g with e | gL
        · simp [h1] at h
        simp only [h1, Except.ok.injEq, Prod.mk.injEq] at h
        obtain ⟨_, rfl⟩ := h
        exact gen_local_inv _ rec hrec _ _ _ h1
      rw [if_neg hlocal] at h
      by_cases hcall : op = A_FUNCCALL
      · rw [if_pos hcall] at h
        exact gen_funccall_inv _ rec hrec _ _ (fun hq => hq.2) _ _ _ _ h
      rw [if_neg hcall] at h
      by_cases hif : op = A_IF
      · rw [if_pos hif] at h
        simp only [bind, Except.bind] at h
        rcases h1 : gen_IF rec (ASTnode.node op ty rv left mid right sym v s) g with e | gL
        · simp [h1] at h
        simp only [h1, Except.ok.injEq, Prod.mk.injEq] at h
        obtain ⟨_, rfl⟩ := h
        exact gen_IF_inv _ rec hrec _ _ _ h1
      rw [if_neg hif] at h
      by_cases hwhile : op = A_WHILE
      · rw [if_pos hwhile] at h
        simp only [bind, Except.bind] at h
        rcases h1 : gen_WHILE rec (ASTnode.node op ty rv left mid right sym v s) g with e | gL
        · simp [h1] at h
        simp only [h1, Except.ok.injEq, Prod.mk.injEq] at h
        obtain ⟨_, rfl⟩ := h
        exact gen_WHILE_inv _ rec hrec _ _ _ h1
      rw [if_neg hwhile] at h
      by_cases hfor : op = A_FOR
      · rw [if_pos hfor] at h
        simp only [bind, Except.bind] at h
        rcases h0 : rec right g with e | ⟨tr, gR⟩
        · simp [h0] at h
        simp only [h0] at h
        rcases h1 : gen_WHILE rec (ASTnode.node op ty rv left mid right sym v s) gR with e | gL
        · simp [h1] at h
        simp only [h1, Except.ok.injEq, Prod.mk.injEq] at h
        obtain ⟨_, rfl⟩ := h
        exact step_ok_mono (fun hp => ⟨⟨hp.1, (hkids hp).2⟩, hp⟩)
          (step_ok_trans (hrec _ _ _ _ h0) (gen_WHILE_inv _ rec hrec _ _ _ h1))
      rw [if_neg hfor] at h
      dsimp only at h
      have hfin : ∀ gB,
          step_ok (((∀ b, newlines (lc.fmt_f b) = 0) ∧ syms_plain syms) ∧
            (ASTnode.node op ty rv left mid right sym v s).names_ok = true) g gB →
          plain_step (((∀ b, newlines (lc.fmt_f b) = 0) ∧ syms_plain syms) ∧
            (ASTnode.node op ty rv left mid right sym v s).names_ok = true) gB g1 →
          step_ok (((∀ b, newlines (lc.fmt_f b) = 0) ∧ syms_plain syms) ∧
            (ASTnode.node op ty rv left mid right sym v s).names_ok = true) g g1 :=
        fun gB hi hp => step_ok_mono (fun h => ⟨h, h⟩) (step_ok_trans hi (step_ok_of_plain hp))
      by_cases hl : left.isNULL = true <;> by_cases hr : right.isNULL = true <;>
        simp only [hl, hr, if_true, if_false, Bool.false_eq_true, bind, Except.bind] at h
      on_goal 1 => refine hfin g (step_ok_refl _ g) ?_
      on_goal 2 =>
        (rcases h1 : rec right g with e | ⟨tr, gR⟩
         · simp [h1] at h
         simp only [h1] at h
         refine hfin gR (step_ok_mono (fun hp => ⟨hp.1, (hkids hp).2⟩) (hrec _ _ _ _ h1)) ?_)
      on_goal 3 =>
        (rcases h1 : rec left g with e | ⟨tl, gL⟩
         · simp [h1] at h
         simp only [h1] at h
         refine hfin gL (step_ok_mono (fun hp => ⟨hp.1, (hkids hp).1⟩) (hrec _ _ _ _ h1)) ?_)
      on_goal 4 =>
        (rcases h1 : rec left g with e | ⟨tl, gL⟩
         · simp [h1] at h
         simp only [h1] at h
         rcases h2 : rec right gL with e | ⟨tr, gR⟩
         · simp [h2] at h
         simp only [h2] at h
         refine hfin gR (step_ok_mono
           (fun hp => ⟨⟨hp.1, (hkids hp).1⟩, ⟨hp.1, (hkids hp).2⟩⟩)
           (step_ok_trans (hrec _ _ _ _ h1) (hrec _ _ _ _ h2))) ?_)
      all_goals
        simp only [temp_val] at h
        by_cases c0 : op = A_NUMLIT
        · rw [if_pos c0] at h
          exact plain_step_mono (fun hp => hp.1.1) (cgloadlit_plain _ _ _ _ _ _ h)
        rw [if_neg c0] at h
        by_cases c1 : op = A_ADD
        · rw [if_pos c1] at h
          first
          | exact plain_step_mono (fun _ => trivial) (cgbinop_plain _ _ _ _ _ _ _ (by decide) h)
          | exact Except.noConfusion h
        rw [if_neg c1] at h
        by_cases c2 : op = A_SUBTRACT
        · rw [if_pos c2] at h
          first
          | exact plain_step_mono (fun _ => trivial) (cgbinop_plain _ _ _ _ _ _ _ (by decide) h)
          | exact Except.noConfusion h
        rw [if_neg c2] at h
        by_cases c3 : op = A_MULTIPLY
        · rw [if_pos c3] at h
          first
          | exact plain_step_mono (fun _ => trivial) (cgbinop_plain _ _ _ _ _ _ _ (by decide) h)
          | exact Except.noConfusion h
        rw [if_neg c3] at h
        by_cases c4 : op = A_DIVIDE
        · rw [if_pos c4] at h
          first
          | exact plain_step_mono (fun _ => trivial) (cgbinop_plain _ _ _ _ _ _ _ (by decide) h)
          | exact Except.noConfusion h
        rw [if_neg c4] at h
        by_cases c5 : op = A_NEGATE
        · rw [if_pos c5] at h
          first
          | exact plain_step_mono (fun _ => trivial) (cgnegate_plain _ _ _ _ _ h)
          | exact Except.noConfusion h
        rw [if_neg c5] at h
        by_cases c6 : op = A_IDENT
        · rw [if_pos c6] at h
          exact plain_step_mono (fun hp => hsym hp) (cgloadvar_plain _ _ _ _ h)
        rw [if_neg c6] at h
        by_cases c7 : op = A_ASSIGN
        · rw [if_pos c7] at h
          first
          | exact plain_step_mono (fun hp => hsym hp) (assign_plain _ _ _ _ _ _ h)
          | exact Except.noConfusion h
        rw [if_neg c7] at h
        by_cases c8 : op = A_CAST
        · rw [if_pos c8] at h
          first
          | exact plain_step_mono (fun _ => trivial) (cast_step_plain _ _ _ _ _ _ h)
          | exact Except.noConfusion h
        rw [if_neg c8] at h
        by_cases c9 : A_EQ ≤ op ∧ op ≤ A_GE
        · rw [if_pos c9] at h
          first
          | exact plain_step_mono (fun _ => trivial) (compare_step_plain _ _ _ _ _ _ _ h)
          | exact Except.noConfusion h
        rw [if_neg c9] at h
        by_cases c10 : op = A_INVERT
        · rw [if_pos c10] at h
          first
          | exact plain_step_mono (fun _ => trivial) (cginvert_plain _ _ _ _ _ h)
          | exact Except.noConfusion h
        rw [if_neg c10] at h
        by_cases c11 : op = A_AND
        · rw [if_pos c11] at h
          first
          | exact plain_step_mono (fun _ => trivial) (cgbinop_plain _ _ _ _ _ _ _ (by decide) h)
          | exact Except.noConfusion h
        rw [if_neg c11] at h
        by_cases c12 : op = A_OR
        · rw [if_pos c12] at h
          first
          | exact plain_step_mono (fun _ => trivial) (cgbinop_plain _ _ _ _ _ _ _ (by decide) h)
          | exact Except.noConfusion h
        rw [if_neg c12] at h
        by_cases c13 : op = A_XOR
        · rw [if_pos c13] at h
          first
          | exact plain_step_mono (fun _ => trivial) (cgbinop_plain _ _ _ _ _ _ _ (by decide) h)
          | exact Except.noConfusion h
        rw [if_neg c13] at h
        by_cases c14 : op = A_LSHIFT
        · rw [if_pos c14] at h
          first
          | exact plain_step_mono (fun _ => trivial) (cgbinop_plain _ _ _ _ _ _ _ (by decide) h)
          | exact Except.noConfusion h
        rw [if_neg c14] at h
        by_cases c15 : op = A_RSHIFT
        · rw [if_pos c15] at h
          first
          | exact plain_step_mono (fun _ => trivial) (cgbinop_plain _ _ _ _ _ _ _ (by decide) h)
          | exact Except.noConfusion h
        rw [if_neg c15] at h
        by_cases c16 : op = A_NOT
        · rw [if_pos c16] at h
          first
          | exact plain_step_mono (fun _ => trivial) (cgnot_plain _ _ _ _ _ h)
          | exact Except.noConfusion h
        rw [if_neg c16] at h
        by_cases cg : op = A_GLUE
        · rw [if_pos cg] at h
          simp only [Except.ok.injEq, Prod.mk.injEq] at h
          obtain ⟨_, rfl⟩ := h
          exact plain_step_refl _ _
        rw [if_neg cg] at h
        exact Except.noConfusion h

/-- C30: within a run of `genAST` that ends without an error, on any tree,
the text written is a sequence of pieces, each a label definition `@LN`
(written by `cglabel` for `gen_IF`, `gen_WHILE` and `cgjump_if_false`), a
`jmp`, a `jnz` or another instruction, which starts with two blanks and `%`,
`s` or `c` and ends with a newline.  No label number is defined twice, every
label defined was handed out by `genlabel` during the run, every target of a
`jmp` or `jnz` is a label defined in the run, and a string literal added by
`add_strlit` during the run has a label number that was handed out during
the run and is not defined as a label.  When the label numbers of the string
literals from before the run are below the label counter, all string literals
after the run are below the counter too and none of them is defined as a
label, so that this carries over from one run to the next.  When no symbol
name and no text of a floating-point literal holds a newline, each piece is
one line of the output. -/
theorem genAST_labels_unique (lc : Libc) (syms : Symtab) (fuel : Nat) (n : ASTnode)
    (g : Genst) (t : Int) (g1 : Genst) (h : genAST lc syms fuel n g = Except.ok (t, g1)) :
    ∃ items : List Line,
      g1.cg.out = g.cg.out ++ render items ∧
      (∀ s, Line.instr s ∈ items → instr_shape s) ∧
      (label_defs items).Nodup ∧
      (∀ l ∈ label_defs items, g.labelid ≤ l ∧ l < g1.labelid) ∧
      (∀ l ∈ jump_targets items, l ∈ label_defs items) ∧
      (∀ e ∈ g1.Strhead, e ∈ g.Strhead ∨
        (g.labelid ≤ e.label ∧ e.label < g1.labelid ∧ e.label ∉ label_defs items)) ∧
      ((∀ e ∈ g.Strhead, e.label < g.labelid) →
        ∀ e ∈ g1.Strhead, e.label < g1.labelid ∧ e.label ∉ label_defs items) ∧
      ((∀ b, newlines (lc.fmt_f b) = 0) → syms_plain syms → n.names_ok = true →
        lines_ok items) := by
  obtain ⟨items, ⟨ho, hl, hd, ht, hs, hi⟩, hn⟩ := genAST_inv lc syms fuel n g t g1 h
  have hmem : ∀ l, l ∈ label_defs items → g.labelid ≤ l ∧ l < g1.labelid := by
    intro l hl1
    have hc := List.count_pos_iff.2 hl1
    rcases hd l with h0 | h1
    · omega
    · exact h1.2
  have hnot : ∀ l, (label_defs items).count l = 0 → l ∉ label_defs items := by
    intro l h0 hl1
    have hc := List.count_pos_iff.2 hl1
    omega
  refine ⟨items, ho, hi, ?_, hmem, ?_, ?_, ?_, ?_⟩
  · rw [List.nodup_iff_count_le_one]
    intro l
    rcases hd l with h0 | h1 <;> omega
  · intro l hl1
    have := ht l hl1
    exact List.count_pos_iff.1 (by omega)
  · intro e he
    rcases hs e he with h0 | ⟨h1, h2, h3⟩
    · exact Or.inl h0
    · exact Or.inr ⟨h1, h2, hnot _ h3⟩
  · intro hold e he
    rcases hs e he with h0 | ⟨h1, h2, h3⟩
    · have hlt := hold e h0
      refine ⟨by omega, fun hin => ?_⟩
      have := (hmem _ hin).1
      omega
    · exact ⟨h2, hnot _ h3⟩
  · intro hf hsy hnm
    exact hn ⟨⟨hf, hsy⟩, hnm⟩

/-- Witness for `genAST_labels_unique`: the body of a function with a
`while`, an `if` with an `else` and two calls of `printf`.  The labels 1 to
6 and 8 are defined once each, 7 and 9 are the labels of the two string
literals. -/
theorem genAST_labels_unique_witness :
    genAST libc_unused
        (parse_block ("\x7b int32 x = 0; while (x < 3) \x7b if (x == 1) \x7b " ++
          "printf(\"a %d\\n\", x); \x7d else \x7b printf(\"b %d\\n\", x); \x7d " ++
          "x = x + 1; \x7d \x7d").toList).2 60
        (parse_block ("\x7b int32 x = 0; while (x < 3) \x7b if (x == 1) \x7b " ++
          "printf(\"a %d\\n\", x); \x7d else \x7b printf(\"b %d\\n\", x); \x7d " ++
          "x = x + 1; \x7d \x7d").toList).1 Genst.init =
      Except.ok (NOREG, ⟨⟨12,
        "  %x =l alloc4 1\n  %.t2 =w copy 0\n  storew %.t2, %x\n@L1\n" ++
        "  %.t3 =w loadsw %x\n  %.t4 =w copy 3\n  %.t5 =w csltw %.t3, %.t4\n" ++
        "  jnz %.t5, @L3, @L2\n@L3\n  %.t6 =w loadsw %x\n  %.t7 =w copy 1\n" ++
        "  %.t8 =w ceqw %.t6, %.t7\n  jnz %.t8, @L6, @L4\n@L6\n  %.t9 =w loadsw %x\n" ++
        "  call $printf(l $L7, w %.t9)\n@L8\n  jmp @L5\n@L4\n  %.t10 =w loadsw %x\n" ++
        "  call $printf(l $L9, w %.t10)\n@L5\n  %.t11 =w loadsw %x\n  %.t12 =w copy 1\n" ++
        "  %.t11 =w add %.t11, %.t12\n  storew %.t11, %x\n  jmp @L1\n@L2\n"⟩, 10,
        [⟨"b %d\n", 9⟩, ⟨"a %d\n", 7⟩]⟩) ∧
    (∀ b, newlines (libc_unused.fmt_f b) = 0) ∧
    syms_plain (parse_block ("\x7b int32 x = 0; while (x < 3) \x7b if (x == 1) \x7b " ++
      "printf(\"a %d\\n\", x); \x7d else \x7b printf(\"b %d\\n\", x); \x7d " ++
      "x = x + 1; \x7d \x7d").toList).2 ∧
    (parse_block ("\x7b int32 x = 0; while (x < 3) \x7b if (x == 1) \x7b " ++
      "printf(\"a %d\\n\", x); \x7d else \x7b printf(\"b %d\\n\", x); \x7d " ++
      "x = x + 1; \x7d \x7d").toList).1.names_ok = true ∧
    ∃ items : List Line,
      (label_defs items).Nodup ∧
      (∀ l ∈ label_defs items, 1 ≤ l ∧ l < 10) ∧
      (∀ l ∈ jump_targets items, l ∈ label_defs items) ∧
      7 ∉ label_defs items ∧ 9 ∉ label_defs items ∧ lines_ok items := by
  have h : genAST libc_unused
      (parse_block ("\x7b int32 x = 0; while (x < 3) \x7b if (x == 1) \x7b " ++
        "printf(\"a %d\\n\", x); \x7d else \x7b printf(\"b %d\\n\", x); \x7d " ++
        "x = x + 1; \x7d \x7d").toList).2 60
      (parse_block ("\x7b int32 x = 0; while (x < 3) \x7b if (x == 1) \x7b " ++
        "printf(\"a %d\\n\", x); \x7d else \x7b printf(\"b %d\\n\", x); \x7d " ++
        "x = x + 1; \x7d \x7d").toList).1 Genst.init =
      Except.ok (NOREG, ⟨⟨12,
        "  %x =l alloc4 1\n  %.t2 =w copy 0\n  storew %.t2, %x\n@L1\n" ++
        "  %.t3 =w loadsw %x\n  %.t4 =w copy 3\n  %.t5 =w csltw %.t3, %.t4\n" ++
        "  jnz %.t5, @L3, @L2\n@L3\n  %.t6 =w loadsw %x\n  %.t7 =w copy 1\n" ++
        "  %.t8 =w ceqw %.t6, %.t7\n  jnz %.t8, @L6, @L4\n@L6\n  %.t9 =w loadsw %x\n" ++
        "  call $printf(l $L7, w %.t9)\n@L8\n  jmp @L5\n@L4\n  %.t10 =w loadsw %x\n" ++
        "  call $printf(l $L9, w %.t10)\n@L5\n  %.t11 =w loadsw %x\n  %.t12 =w copy 1\n" ++
        "  %.t11 =w add %.t11, %.t12\n  storew %.t11, %x\n  jmp @L1\n@L2\n"⟩, 10,
        [⟨"b %d\n", 9⟩, ⟨"a %d\n", 7⟩]⟩) := by
    decide!
  have hf : ∀ b, newlines (libc_unused.fmt_f b) = 0 := fun _ => rfl
  have hs : syms_plain (parse_block ("\x7b int32 x = 0; while (x < 3) \x7b if (x == 1) \x7b " ++
      "printf(\"a %d\\n\", x); \x7d else \x7b printf(\"b %d\\n\", x); \x7d " ++
      "x = x + 1; \x7d \x7d").toList).2 := by
    decide!
  have hn : (parse_block ("\x7b int32 x = 0; while (x < 3) \x7b if (x == 1) \x7b " ++
      "printf(\"a %d\\n\", x); \x7d else \x7b printf(\"b %d\\n\", x); \x7d " ++
      "x = x + 1; \x7d \x7d").toList).1.names_ok = true := by
    decide!
  obtain ⟨items, _, _, h1, h2, h3, h4, h5, h6⟩ :=
    genAST_labels_unique libc_unused _ 60 _ Genst.init _ _ h
  have h7 := h5 (fun e he => absurd he (List.not_mem_nil e))
  exact ⟨h, hf, hs, hn, items, h1, h2, h3, (h7 ⟨"a %d\n", 7⟩ (by decide)).2,
    (h7 ⟨"b %d\n", 9⟩ (by decide)).2, h6 hf hs hn⟩

/-! ## More on widening and typing -/

/-- C36: `widen_type` is idempotent.  When `widen_type` on a node `n` and
a type `t` returns a node `m` (not NULL), `widen_type` on `m` and `t` returns
`m` itself: no further CAST node is stacked and no field changes. -/
theorem widen_type_idempotent (n : ASTnode) (t : Option Ty) (m : ASTnode)
    (h : widen_type n t = Except.ok m) (hm : m.isNULL = false) :
    widen_type m t = Except.ok m := by
  cases n with
  | NULL => simp [widen_type] at h
  | node op ntype rv left mid right sym litval s =>
    have hsame : m = ASTnode.node op ntype rv left mid right sym litval s →
        widen_type m t = Except.ok m := by
      intro e
      rw [e] at h ⊢
      exact h
    have hcast : ∀ ty : Ty, t = some ty →
        m = ((mkastnode A_CAST (ASTnode.node op ntype rv left mid right sym litval s)
          ASTnode.NULL ASTnode.NULL).set_type (some ty)).set_rvalue true →
        widen_type m t = Except.ok m := by
      intro ty e1 e2
      rw [e1, e2]
      simp [widen_type, mkastnode, ASTnode.set_type, ASTnode.set_rvalue]
    have hlit : ∀ (ty : Ty) (v : Litval), t = some ty →
        m = ((ASTnode.node op ntype rv left mid right sym litval s).set_litval v).set_type
          (some ty) →
        widen_type m t = Except.ok m := by
      intro ty v e1 e2
      rw [e1, e2]
      simp [widen_type, ASTnode.set_type, ASTnode.set_litval]
    unfold widen_type at h
    cases ntype with
    | none =>
      simp only at h
      split_ifs at h <;>
        first
        | (exfalso; simp [fatal] at h; done)
        | (simp only [Except.ok.injEq] at h
           first
           | exact hsame h.symm
           | (rw [← h] at hm; exact absurd hm (by simp [ASTnode.isNULL])))
    | some nty =>
      cases t with
      | none =>
        simp only at h
        split_ifs at h <;>
          first
          | (exfalso; simp [fatal] at h; done)
          | (simp only [Except.ok.injEq] at h
             exact hsame h.symm)
      | some ty =>
        simp only at h
        split_ifs at h <;>
          first
          | (exfalso; simp [fatal] at h; done)
          | (simp only [Except.ok.injEq] at h
             first
             | exact hsame h.symm
             | exact hcast ty rfl h.symm
             | exact hlit ty _ rfl h.symm
             | (rw [← h] at hm; exact absurd hm (by simp [ASTnode.isNULL])))

/-- Witness for `widen_type_idempotent`: an int8 variable widened to int32
gets a CAST node, and widening that node to int32 again returns it as it
is. -/
theorem widen_type_idempotent_witness :
    widen_type (ASTnode.node A_IDENT (some ty_int8) true ASTnode.NULL ASTnode.NULL
        ASTnode.NULL none ⟨0⟩ none) (some ty_int32) =
      Except.ok (ASTnode.node A_CAST (some ty_int32) true
        (ASTnode.node A_IDENT (some ty_int8) true ASTnode.NULL ASTnode.NULL
          ASTnode.NULL none ⟨0⟩ none) ASTnode.NULL ASTnode.NULL none ⟨0⟩ none) ∧
    widen_type (ASTnode.node A_CAST (some ty_int32) true
        (ASTnode.node A_IDENT (some ty_int8) true ASTnode.NULL ASTnode.NULL
          ASTnode.NULL none ⟨0⟩ none) ASTnode.NULL ASTnode.NULL none ⟨0⟩ none)
        (some ty_int32) =
      Except.ok (ASTnode.node A_CAST (some ty_int32) true
        (ASTnode.node A_IDENT (some ty_int8) true ASTnode.NULL ASTnode.NULL
          ASTnode.NULL none ⟨0⟩ none) ASTnode.NULL ASTnode.NULL none ⟨0⟩ none) :=
  ⟨rfl, widen_type_idempotent (ASTnode.node A_IDENT (some ty_int8) true ASTnode.NULL
    ASTnode.NULL ASTnode.NULL none ⟨0⟩ none) (some ty_int32) _ rfl rfl⟩

/-- C37: when `widen_type` on a node `n` and a type `t` returns a node `m`
(not NULL), either `m` has the type `t`, or `m` is `n` itself, unchanged,
and `t` is strictly smaller in size than the type of `n`, which is not an
integer type widened to a floating-point type.  So a successful widening
does not guarantee that the result has the requested type. -/
theorem widen_type_result_type (n : ASTnode) (t : Option Ty) (m : ASTnode)
    (h : widen_type n t = Except.ok m) (hm : m.isNULL = false) :
    m.type = Except.ok t ∨
    (m = n ∧ ∃ nty ty, n.type = Except.ok (some nty) ∧ t = some ty ∧ nty ≠ ty ∧
      ty.size < nty.size ∧ ¬ (is_integer nty = true ∧ is_flonum ty = true)) := by
  cases n with
  | NULL => simp [widen_type] at h
  | node op ntype rv left mid right sym litval s =>
    unfold widen_type at h
    cases ntype with
    | none =>
      simp only at h
      split_ifs at h with h1 <;>
        first
        | (exfalso; simp [fatal] at h; done)
        | (simp only [Except.ok.injEq] at h
           first
           | (left; rw [← h, ← h1]; rfl)
           | (rw [← h] at hm; exact absurd hm (by simp [ASTnode.isNULL])))
    | some nty =>
      cases t with
      | none =>
        exfalso
        simp only at h
        split_ifs at h <;> contradiction
      | some ty =>
        simp only at h
        split_ifs at h with h1 h2 h3 h4 h5 h6 h7
        · left
          simp only [Except.ok.injEq] at h
          rw [← h, ← h1]; rfl
        · simp only [Except.ok.injEq] at h
          rw [← h] at hm; exact absurd hm (by simp [ASTnode.isNULL])
        · simp [fatal] at h
        · left
          simp only [Except.ok.injEq] at h
          rw [← h]; rfl
        · right
          simp only [Except.ok.injEq] at h
          refine ⟨h.symm, nty, ty, rfl, rfl, ?_, h5, ?_⟩
          · intro e; exact h1 (by rw [e])
          · simpa using h4
        · simp [fatal] at h
        · left
          simp only [Except.ok.injEq] at h
          rw [← h]; rfl
        · simp only [Except.ok.injEq] at h
          rw [← h] at hm; exact absurd hm (by simp [ASTnode.isNULL])
        · left
          simp only [Except.ok.injEq] at h
          rw [← h]; rfl

/-- Witness for `widen_type_result_type`: an int32 variable widened to int8
is returned unchanged, with the type int32. -/
theorem widen_type_result_type_witness :
    widen_type (ASTnode.node A_IDENT (some ty_int32) true ASTnode.NULL ASTnode.NULL
        ASTnode.NULL none ⟨0⟩ none) (some ty_int8) =
      Except.ok (ASTnode.node A_IDENT (some ty_int32) true ASTnode.NULL ASTnode.NULL
        ASTnode.NULL none ⟨0⟩ none) ∧
    (ASTnode.node A_IDENT (some ty_int32) true ASTnode.NULL ASTnode.NULL
        ASTnode.NULL none ⟨0⟩ none).type ≠ Except.ok (some ty_int8) ∧
    ((ASTnode.node A_IDENT (some ty_int32) true ASTnode.NULL ASTnode.NULL
        ASTnode.NULL none ⟨0⟩ none).type = Except.ok (some ty_int8) ∨
      (ASTnode.node A_IDENT (some ty_int32) true ASTnode.NULL ASTnode.NULL
          ASTnode.NULL none ⟨0⟩ none =
        ASTnode.node A_IDENT (some ty_int32) true ASTnode.NULL ASTnode.NULL
          ASTnode.NULL none ⟨0⟩ none ∧
        ∃ nty ty, (ASTnode.node A_IDENT (some ty_int32) true ASTnode.NULL ASTnode.NULL
            ASTnode.NULL none ⟨0⟩ none).type = Except.ok (some nty) ∧
          some ty_int8 = some ty ∧ nty ≠ ty ∧ ty.size < nty.size ∧
          ¬ (is_integer nty = true ∧ is_flonum ty = true))) :=
  ⟨rfl, by decide,
   widen_type_result_type (ASTnode.node A_IDENT (some ty_int32) true ASTnode.NULL
     ASTnode.NULL ASTnode.NULL none ⟨0⟩ none) (some ty_int8) _ rfl rfl⟩

/-- C38: the type `binop` gives an arithmetic node depends on the order of
the operands.  For an operand `a` of type flt32 that is not a literal and an
operand `b` of type int64, `binop(a, b, ADD)` has type int64 and its left
child is a CAST of `a` to int64, with `b` as the right child; `binop(b, a,
ADD)` has type flt32 and its left child is a CAST of `b` to flt32, with `a`
as the right child. -/
theorem binop_operand_order (aop bop : Nat) (arv brv : Bool)
    (al am ar bl bm br : ASTnode) (asym bsym : Option Sym)
    (av bv : Litval) (astr bstr : Option String) (ha : aop ≠ A_NUMLIT) :
    binop (ASTnode.node aop (some ty_flt32) arv al am ar asym av astr)
        (ASTnode.node bop (some ty_int64) brv bl bm br bsym bv bstr) A_ADD =
      Except.ok (ASTnode.node A_ADD (some ty_int64) true
        (ASTnode.node A_CAST (some ty_int64) true
          (ASTnode.node aop (some ty_flt32) arv al am ar asym av astr)
          ASTnode.NULL ASTnode.NULL none ⟨0⟩ none)
        ASTnode.NULL
        (ASTnode.node bop (some ty_int64) brv bl bm br bsym bv bstr) none ⟨0⟩ none) ∧
    binop (ASTnode.node bop (some ty_int64) brv bl bm br bsym bv bstr)
        (ASTnode.node aop (some ty_flt32) arv al am ar asym av astr) A_ADD =
      Except.ok (ASTnode.node A_ADD (some ty_flt32) true
        (ASTnode.node A_CAST (some ty_flt32) true
          (ASTnode.node bop (some ty_int64) brv bl bm br bsym bv bstr)
          ASTnode.NULL ASTnode.NULL none ⟨0⟩ none)
        ASTnode.NULL
        (ASTnode.node aop (some ty_flt32) arv al am ar asym av astr) none ⟨0⟩ none) := by
  have hrel : ¬ (A_EQ ≤ A_ADD ∧ A_ADD ≤ A_NOT) := by decide
  constructor
  · rw [binop_typed A_ADD aop bop ty_flt32 ty_int64 arv brv al am ar bl bm br asym bsym av bv
      astr bstr hrel]
    have h1 : widen_type (ASTnode.node aop (some ty_flt32) arv al am ar asym av astr)
        (some ty_int64) = Except.ok (ASTnode.node A_CAST (some ty_int64) true
          (ASTnode.node aop (some ty_flt32) arv al am ar asym av astr)
          ASTnode.NULL ASTnode.NULL none ⟨0⟩ none) := by
      simp [widen_type, ha, is_integer, is_flonum, Ty.kind, Ty.size, Ty.is_unsigned,
        mkastnode, ASTnode.set_type, ASTnode.set_rvalue]
    have h2 : widen_type (ASTnode.node bop (some ty_int64) brv bl bm br bsym bv bstr)
        (some ty_int64) =
        Except.ok (ASTnode.node bop (some ty_int64) brv bl bm br bsym bv bstr) := by
      simp [widen_type]
    simp only [h1, h2, bind, Except.bind, ASTnode.isNULL, ASTnode.type, Bool.false_eq_true,
      if_false]
  · rw [binop_typed A_ADD bop aop ty_int64 ty_flt32 brv arv bl bm br al am ar bsym asym bv av
      bstr astr hrel]
    have h1 : widen_type (ASTnode.node bop (some ty_int64) brv bl bm br bsym bv bstr)
        (some ty_flt32) = Except.ok (ASTnode.node A_CAST (some ty_flt32) true
          (ASTnode.node bop (some ty_int64) brv bl bm br bsym bv bstr)
          ASTnode.NULL ASTnode.NULL none ⟨0⟩ none) := by
      simp [widen_type, is_integer, is_flonum, Ty.kind,
        mkastnode, ASTnode.set_type, ASTnode.set_rvalue]
    have h2 : widen_type (ASTnode.node aop (some ty_flt32) arv al am ar asym av astr)
        (some ty_flt32) =
        Except.ok (ASTnode.node aop (some ty_flt32) arv al am ar asym av astr) := by
      simp [widen_type]
    simp only [h1, h2, bind, Except.bind, ASTnode.isNULL, ASTnode.type, Bool.false_eq_true,
      if_false]

/-- Witness for `binop_operand_order`: two variables. -/
theorem binop_operand_order_witness :
    A_IDENT ≠ A_NUMLIT ∧
    binop (ASTnode.node A_IDENT (some ty_flt32) true ASTnode.NULL ASTnode.NULL ASTnode.NULL
          none ⟨0⟩ none)
        (ASTnode.node A_IDENT (some ty_int64) true ASTnode.NULL ASTnode.NULL ASTnode.NULL
          none ⟨0⟩ none) A_ADD =
      Except.ok (ASTnode.node A_ADD (some ty_int64) true
        (ASTnode.node A_CAST (some ty_int64) true
          (ASTnode.node A_IDENT (some ty_flt32) true ASTnode.NULL ASTnode.NULL ASTnode.NULL
            none ⟨0⟩ none)
          ASTnode.NULL ASTnode.NULL none ⟨0⟩ none)
        ASTnode.NULL
        (ASTnode.node A_IDENT (some ty_int64) true ASTnode.NULL ASTnode.NULL ASTnode.NULL
          none ⟨0⟩ none) none ⟨0⟩ none) :=
  ⟨by decide,
   (binop_operand_order A_IDENT A_IDENT true true ASTnode.NULL ASTnode.NULL ASTnode.NULL
     ASTnode.NULL ASTnode.NULL ASTnode.NULL none none ⟨0⟩ ⟨0⟩ none none (by decide)).1⟩

/-- C32, as written, fails for logical NOT: `unarop` copies the type of
the operand into the new node, so NOT over a variable of type int32 has the
type int32, not bool. -/
theorem unarop_not_keeps_operand_type :
    unarop (ASTnode.node A_IDENT (some ty_int32) true ASTnode.NULL ASTnode.NULL
      ASTnode.NULL none ⟨0⟩ none) A_NOT =
    Except.ok (ASTnode.node A_NOT (some ty_int32) true
      (ASTnode.node A_IDENT (some ty_int32) true ASTnode.NULL ASTnode.NULL
        ASTnode.NULL none ⟨0⟩ none) ASTnode.NULL ASTnode.NULL none ⟨0⟩ none) ∧
    ty_int32 ≠ ty_bool := by
  constructor
  · rfl
  · decide

/-- C32 (amended): a node built by `binop` with one of the operations EQ,
NE, LT, GT, LE, GE has the type bool, whatever the operands are, and its
children are the operands as they were given: no cast is put in and no
literal gets another type.  A node built by `unarop`, logical NOT included,
has the type of its operand and the operand, unchanged, as its left child:
a NOT node has the type bool only over an operand of type bool. -/
theorem relational_nodes_typed (l r : ASTnode) (op : Nat) :
    (A_EQ ≤ op ∧ op ≤ A_GE →
      binop l r op =
        Except.ok (ASTnode.node op (some ty_bool) true l ASTnode.NULL r none ⟨0⟩ none)) ∧
    (∀ lty, l.type = Except.ok lty →
      unarop l op = Except.ok (ASTnode.node op lty true l ASTnode.NULL ASTnode.NULL none ⟨0⟩
        none)) := by
  constructor
  · intro hop
    have h2 : A_EQ ≤ op ∧ op ≤ A_NOT := ⟨hop.1, le_trans hop.2 (by decide)⟩
    simp [binop, mkastnode, ASTnode.set_rvalue, add_type, h2]
  · intro lty hl
    simp [unarop, hl, bind, Except.bind, mkastnode, ASTnode.set_type, ASTnode.set_rvalue]

/-- Witness for `relational_nodes_typed`: `x < 1000` with x of type int8
and the literal of type int16 is a bool node over the two operands as they
are, and NOT over a bool variable is a bool node. -/
theorem relational_nodes_typed_witness :
    (A_EQ ≤ A_LT ∧ A_LT ≤ A_GE) ∧
    binop (ASTnode.node A_IDENT (some ty_int8) true ASTnode.NULL ASTnode.NULL
          ASTnode.NULL none ⟨0⟩ none)
        (ASTnode.node A_NUMLIT (some ty_int16) true ASTnode.NULL ASTnode.NULL
          ASTnode.NULL none ⟨1000⟩ none) A_LT =
      Except.ok (ASTnode.node A_LT (some ty_bool) true
        (ASTnode.node A_IDENT (some ty_int8) true ASTnode.NULL ASTnode.NULL
          ASTnode.NULL none ⟨0⟩ none)
        ASTnode.NULL
        (ASTnode.node A_NUMLIT (some ty_int16) true ASTnode.NULL ASTnode.NULL
          ASTnode.NULL none ⟨1000⟩ none) none ⟨0⟩ none) ∧
    unarop (ASTnode.node A_IDENT (some ty_bool) true ASTnode.NULL ASTnode.NULL
        ASTnode.NULL none ⟨0⟩ none) A_NOT =
      Except.ok (ASTnode.node A_NOT (some ty_bool) true
        (ASTnode.node A_IDENT (some ty_bool) true ASTnode.NULL ASTnode.NULL
          ASTnode.NULL none ⟨0⟩ none) ASTnode.NULL ASTnode.NULL none ⟨0⟩ none) :=
  ⟨by decide,
   (relational_nodes_typed _ _ A_LT).1 (by decide),
   (relational_nodes_typed (ASTnode.node A_IDENT (some ty_bool) true ASTnode.NULL
     ASTnode.NULL ASTnode.NULL none ⟨0⟩ none) ASTnode.NULL A_NOT).2 _ rfl⟩

/-! ## Names of the tokens -/

/-- C39: the names of the tokens go through the lexer and come back.  For
every token kind `k` other than EOF, `%`, numlit, strlit and ident, the
table `tokstr` has a name for `k`, and scanning that name gives one token of
kind `k` and then the end of the input; for the 19 keyword tokens, from void
to while, `keyword` of the name is `k`. -/
theorem token_names_round_trip (k : Nat) (hk : k < 50)
    (hne : k ∉ [T_EOF, T_MOD, T_NUMLIT, T_STRLIT, T_IDENT]) :
    get_tokenstr k = Except.ok (tokstr.getD k "") ∧
    (nth_token 0 (tokstr.getD k "").toList).map Token.token = some k ∧
    (nth_token 1 (tokstr.getD k "").toList).map Token.token = some T_EOF ∧
    (T_VOID ≤ k ∧ k ≤ T_WHILE → keyword (tokstr.getD k "").toList = k) := by
  revert k
  decide!

/-- Witness for `token_names_round_trip`: the token `<=` and the keyword
`printf`. -/
theorem token_names_round_trip_witness :
    (nth_token 0 "<=".toList).map Token.token = some T_LE ∧
    (nth_token 1 "<=".toList).map Token.token = some T_EOF ∧
    (nth_token 0 "printf".toList).map Token.token = some T_PRINTF ∧
    keyword "printf".toList = T_PRINTF :=
  ⟨(token_names_round_trip T_LE (by decide) (by decide)).2.1,
   (token_names_round_trip T_LE (by decide) (by decide)).2.2.1,
   (token_names_round_trip T_PRINTF (by decide) (by decide)).2.1,
   (token_names_round_trip T_PRINTF (by decide) (by decide)).2.2.2 (by decide)⟩

/-! ## A local variable with the name of a parameter -/

/-- The walk of `find_symbol` goes past symbols of other names that are not
the active function. -/
theorem find_symbol_loop_skip (p : String) (cur : Option Nat) (G : List Sym) :
    ∀ l : List Sym, (∀ s ∈ l, s.name ≠ p) → (∀ s ∈ l, cur ≠ some s.addr) →
      find_symbol_loop p cur (l ++ G) = find_symbol_loop p cur G
  | [], _, _ => rfl
  | x :: l, hn, hc => by
    simp only [List.cons_append, find_symbol_loop, if_neg (hn x (by simp)),
      if_neg (hc x (by simp))]
    exact find_symbol_loop_skip p cur G l (fun s hs => hn s (List.mem_cons_of_mem _ hs))
      (fun s hs => hc s (List.mem_cons_of_mem _ hs))

/-- The next address after a sequence of `add_symbol` calls. -/
theorem add_symbols_nextaddr : ∀ (decls : List (String × Nat × Option Ty)) (added : List Sym)
    (st st1 : Symtab), add_symbols decls st = Except.ok (added, st1) →
    st.nextaddr ≤ st1.nextaddr
  | [], added, st, st1, h => by
    simp only [add_symbols, Except.ok.injEq, Prod.mk.injEq] at h
    rw [← h.2]
  | (name, symtype, type) :: rest, added, st, st1, h => by
    simp only [add_symbols] at h
    cases h1 : add_symbol name symtype type st with
    | error e => rw [h1] at h; cases h
    | ok r1 =>
      obtain ⟨this, sta⟩ := r1
      rw [h1] at h
      cases h2 : add_symbols rest sta with
      | error e =>
        simp only [bind, Except.bind, h2] at h
        cases h
      | ok r2 =>
        obtain ⟨more, stb⟩ := r2
        simp only [bind, Except.bind, h2, Except.ok.injEq, Prod.mk.injEq] at h
        have hb := add_symbols_nextaddr rest more sta stb h2
        rw [← h.2]
        have ha : st.nextaddr ≤ sta.nextaddr := by
          unfold add_symbol at h1
          cases hadd : add_sym_to st.Symhead name symtype type st with
          | mk o r =>
            obtain ⟨head, stc⟩ := r
            cases o with
            | none => simp [hadd, fatal] at h1
            | some sy =>
              simp only [hadd, Except.ok.injEq, Prod.mk.injEq] at h1
              rw [← h1.2]
              unfold add_sym_to at hadd
              split_ifs at hadd
              · simp at hadd
              · cases hS : st.Symhead with
                | nil =>
                  simp only [hS, Prod.mk.injEq] at hadd
                  rw [← hadd.2.2]
                  simp
                | cons a as =>
                  simp only [hS] at hadd
                  split_ifs at hadd <;>
                    · simp only [Prod.mk.injEq] at hadd
                      rw [← hadd.2.2]
                      simp
        omega

theorem add_symbols_addr_lt (G : List Sym) :
    ∀ (decls : List (String × Nat × Option Ty)) (loc added : List Sym) (st st1 : Symtab),
      st.Symhead = loc ++ G → st.Globhead = G.head?.map Sym.addr →
      ((loc ++ G).map Sym.addr).Nodup → (∀ s ∈ loc ++ G, s.addr < st.nextaddr) →
      add_symbols decls st = Except.ok (added, st1) →
      ∀ s ∈ loc ++ added ++ G, s.addr < st1.nextaddr
  | [], loc, added, st, st1, _, _, _, hlt, h => by
    simp only [add_symbols, Except.ok.injEq, Prod.mk.injEq] at h
    obtain ⟨h1, h2⟩ := h
    subst h1; subst h2
    simpa using hlt
  | (name, symtype, type) :: rest, loc, added, st, st1, hS, hG, hnd, hlt, h => by
    simp only [add_symbols] at h
    cases h1 : add_symbol name symtype type st with
    | error e => rw [h1] at h; cases h
    | ok r1 =>
      obtain ⟨this, sta⟩ := r1
      obtain ⟨hsta, hthis, hin⟩ :=
        add_symbol_scope name symtype type G loc st sta this hS hG hnd h1
      rw [h1] at h
      cases h2 : add_symbols rest sta with
      | error e =>
        simp only [bind, Except.bind, h2] at h
        cases h
      | ok r2 =>
        obtain ⟨more, stb⟩ := r2
        simp only [bind, Except.bind, h2, Except.ok.injEq, Prod.mk.injEq] at h
        obtain ⟨ha, hb⟩ := h
        subst ha; subst hb
        have haddr : this.addr = st.nextaddr := by rw [hthis]; rfl
        have hnd1 : (((loc ++ [this]) ++ G).map Sym.addr).Nodup := by
          have hfresh : this.addr ∉ (loc ++ G).map Sym.addr := by
            intro hmem
            obtain ⟨s, hs, hsa⟩ := List.mem_map.1 hmem
            have := hlt s hs
            omega
          simp only [List.map_append, List.map_cons, List.map_nil, List.append_assoc,
            List.singleton_append] at hfresh hnd ⊢
          rw [List.nodup_append] at hnd ⊢
          refine ⟨hnd.1, ?_, ?_⟩
          · rw [List.nodup_cons]
            exact ⟨fun hm => hfresh (List.mem_append_right _ hm), hnd.2.1⟩
          · intro a ha hb
            rcases List.mem_cons.1 hb with hb | hb
            · exact hfresh (List.mem_append_left _ (hb ▸ ha))
            · exact hnd.2.2 ha hb
        have hlt1 : ∀ s ∈ (loc ++ [this]) ++ G, s.addr < sta.nextaddr := by
          intro s hs
          rw [hsta]
          simp only [List.append_assoc, List.singleton_append, List.mem_append,
            List.mem_cons] at hs
          rcases hs with hs | hs | hs
          · have := hlt s (List.mem_append_left _ hs); simp; omega
          · subst hs; simp; omega
          · have := hlt s (List.mem_append_right _ hs); simp; omega
        have ih := add_symbols_addr_lt G rest (loc ++ [this]) more sta stb
          (by rw [hsta]; simp) (by rw [hsta]; simpa using hG) hnd1 hlt1 h2
        simpa using ih

/-- C40: while a function `f` of the main list is the active function and
some locals are declared already, `add_symbol` accepts a local variable
whose name `p` is the name of a parameter of `f`, when no symbol of the main
list, the earlier locals included, has that name: the check for a duplicate
walks the main list only.  Before the call `find_symbol` of `p` returns the
parameter; after it, and after any further declarations in the scope,
`find_symbol` of `p` returns the new local variable, which is not a
parameter of `f`; after `end_scope` the name is not found. -/
theorem local_shadows_parameter (st : Symtab) (f : Sym) (p : String) (ty : Option Ty)
    (param : Sym) (before : List (String × Nat × Option Ty)) (added0 : List Sym)
    (st0 : Symtab) (hwf : symtab_ok st) (hf : f ∈ st.Symhead)
    (hp : ∀ s ∈ st.Symhead, s.name ≠ p) (hb : ∀ d ∈ before, d.1 ≠ p)
    (hparam : f.memb.find? (fun q => q.name = p) = some param)
    (h0 : add_symbols before (new_scope (some f) st) = Except.ok (added0, st0)) :
    find_symbol (some p) st0 = some param ∧
    ∃ loc st1, add_symbol p ST_VARIABLE ty st0 = Except.ok (loc, st1) ∧
      loc = Sym.mk p ST_VARIABLE false ty ⟨0⟩ 0 [] st0.nextaddr ∧
      (∀ q ∈ f.memb, q.addr ≠ loc.addr) ∧ loc ≠ param ∧
      find_symbol (some p) st1 = some loc ∧
      ∀ (after : List (String × Nat × Option Ty)) (added2 : List Sym) (st2 : Symtab),
        add_symbols after st1 = Except.ok (added2, st2) →
        find_symbol (some p) st2 = some loc ∧
        find_symbol (some p) (end_scope st2) = none := by
  obtain ⟨hnd, hlt⟩ := hwf
  -- the state after the earlier declarations
  obtain ⟨hS0, hG0, hC0, hdecl0, hnin0, hnd0⟩ :=
    add_symbols_scope st.Symhead before [] added0 (new_scope (some f) st) st0
      rfl rfl (by simpa using hnd) (by simpa [new_scope] using fun s hs => (hlt s hs).1) h0
  simp only [List.nil_append] at hS0 hnd0
  have hcur0 : st0.Curfunc = some f.addr := by rw [hC0]; rfl
  have hnext0 := add_symbols_nextaddr before added0 _ st0 h0
  have hnext0 : st.nextaddr ≤ st0.nextaddr := hnext0
  have hall0 : ∀ s ∈ added0 ++ st.Symhead, s.addr < st0.nextaddr := by
    have := add_symbols_addr_lt st.Symhead before [] added0 (new_scope (some f) st) st0
      rfl rfl (by simpa using hnd) (by simpa [new_scope] using fun s hs => (hlt s hs).1) h0
    simpa using this
  have hnames0 : ∀ s ∈ added0, s.name ≠ p := by
    intro s hs hsp
    have hm : (s.name, s.symtype, s.type) ∈ before := by
      rw [← hdecl0]
      exact List.mem_map_of_mem (fun s => (s.name, s.symtype, s.type)) hs
    exact hb _ hm hsp
  have hnotf : ∀ l : List Sym, ((l ++ st.Symhead).map Sym.addr).Nodup →
      ∀ s ∈ l, (some f.addr : Option Nat) ≠ some s.addr := by
    intro l hl s hs e
    simp only [Option.some.injEq] at e
    rw [List.map_append, List.nodup_append] at hl
    have hfm : s.addr ∈ st.Symhead.map Sym.addr := by
      rw [← e]
      exact List.mem_map_of_mem Sym.addr hf
    exact hl.2.2 (List.mem_map_of_mem Sym.addr hs) hfm
  have hfind0 : find_symbol (some p) st0 = some param := by
    simp only [find_symbol, hS0, hcur0]
    rw [find_symbol_loop_skip p _ st.Symhead added0 hnames0 (hnotf added0 hnd0), ← hparam]
    exact find_symbol_loop_params p f st.Symhead hp hnd hf
  refine ⟨hfind0, ?_⟩
  -- the new local is accepted
  have hin : sym_name_in p st0.Symhead = false := by
    rw [sym_name_in_false]
    intro s hs
    rw [hS0] at hs
    rcases List.mem_append.1 hs with h | h
    · exact hnames0 s h
    · exact hp s h
  have hadd : ∃ loc st1, add_symbol p ST_VARIABLE ty st0 = Except.ok (loc, st1) := by
    obtain ⟨head1, he, _, _⟩ := add_sym_to_new st0.Symhead p ST_VARIABLE ty st0 hin
    exact ⟨Sym.mk p ST_VARIABLE false ty ⟨0⟩ 0 [] st0.nextaddr,
      { Symhead := head1, Globhead := st0.Globhead, Curfunc := st0.Curfunc,
        nextaddr := st0.nextaddr + 1 }, by simp only [add_symbol, he]⟩
  obtain ⟨loc, st1, h1⟩ := hadd
  obtain ⟨hst1, hloc, _⟩ :=
    add_symbol_scope p ST_VARIABLE ty st.Symhead added0 st0 st1 loc hS0
      (by rw [hG0]; rfl) hnd0 h1
  have hlocname : loc.name = p := by rw [hloc]; rfl
  have hlocaddr : loc.addr = st0.nextaddr := by rw [hloc]; rfl
  have hS1 : st1.Symhead = added0 ++ loc :: st.Symhead := by rw [hst1]
  have hcur1 : st1.Curfunc = some f.addr := by rw [hst1]; exact hcur0
  have hloc1 : ∀ G : List Sym, find_symbol_loop p (some f.addr) (added0 ++ loc :: G) =
      some loc := by
    intro G
    rw [find_symbol_loop_skip p _ (loc :: G) added0 hnames0 (hnotf added0 hnd0)]
    simp only [find_symbol_loop, hlocname, if_true]
  have hmemb : ∀ q ∈ f.memb, q.addr ≠ loc.addr := by
    intro q hq
    have := (hlt f hf).2 q hq
    omega
  refine ⟨loc, st1, h1, hloc, hmemb, ?_, ?_, ?_⟩
  · intro e
    exact hmemb param (List.mem_of_find?_eq_some hparam) (by rw [e])
  · simp only [find_symbol, hS1, hcur1]
    exact hloc1 _
  · intro after added2 st2 h2
    have hlt1 : ∀ s ∈ (added0 ++ [loc]) ++ st.Symhead, s.addr < st1.nextaddr := by
      intro s hs
      rw [hst1]
      simp only [List.append_assoc, List.singleton_append, List.mem_append,
        List.mem_cons] at hs
      rcases hs with h | h | h
      · have hmem : s.addr ∈ (added0 ++ st.Symhead).map Sym.addr :=
          List.mem_map_of_mem Sym.addr (List.mem_append_left _ h)
        have := hall0 s (List.mem_append_left _ h)
        show s.addr < st0.nextaddr + 1
        omega
      · rw [h, hlocaddr]
        show st0.nextaddr < st0.nextaddr + 1
        omega
      · have := (hlt s h).1
        show s.addr < st0.nextaddr + 1
        omega
    have hnd1 : (((added0 ++ [loc]) ++ st.Symhead).map Sym.addr).Nodup := by
      simp only [List.append_assoc, List.singleton_append, List.map_append, List.map_cons]
      rw [List.map_append] at hnd0
      rw [List.nodup_append] at hnd0 ⊢
      refine ⟨hnd0.1, ?_, ?_⟩
      · rw [List.nodup_cons]
        refine ⟨?_, hnd0.2.1⟩
        intro hm
        obtain ⟨s, hs, hs2⟩ := List.mem_map.1 hm
        have := hall0 s (List.mem_append_right _ hs)
        omega
      · intro a ha hb2
        rcases List.mem_cons.1 hb2 with h | h
        · obtain ⟨s, hs, hs2⟩ := List.mem_map.1 ha
          have := hall0 s (List.mem_append_left _ hs)
          omega
        · exact hnd0.2.2 ha h
    obtain ⟨hS2, hG2, hC2, hdecl2, hnin2, hnd2⟩ :=
      add_symbols_scope st.Symhead after (added0 ++ [loc]) added2 st1 st2
        (by rw [hS1]; simp) (by rw [hst1]; rw [hG0]; rfl) hnd1 hlt1 h2
    have hcur2 : st2.Curfunc = some f.addr := by rw [hC2]; exact hcur1
    constructor
    · simp only [find_symbol, hS2, hcur2]
      have := hloc1 (added2 ++ st.Symhead)
      simpa using this
    · have hG2b : st2.Globhead = st.Symhead.head?.map Sym.addr := by
        rw [hG2, hst1, hG0]; rfl
      have hfrom : list_from st2.Globhead st2.Symhead = st.Symhead := by
        rw [hG2b, hS2]
        exact list_from_scope st.Symhead _ (nodup_scope _ st.Symhead hnd2)
      simp only [find_symbol, end_scope, hfrom]
      exact find_symbol_loop_none p none st.Symhead hp (fun s _ => by simp)

/-- The function `f(int32 x)` is alone in the table and active, the local
`y` is declared, and then a local `x`: the lookup of `x` gives the parameter
at address 1 before the declaration and the local at address 3 after it. -/
theorem local_shadows_parameter_witness :
    find_symbol (some "x")
      (Symtab.mk [Sym.mk "y" ST_VARIABLE false (some ty_int8) ⟨0⟩ 0 [] 2,
        Sym.mk "f" ST_FUNCTION false (some ty_void) ⟨0⟩ 0
          [Sym.mk "x" ST_VARIABLE false (some ty_int32) ⟨0⟩ 0 [] 1] 0] (some 0) (some 0) 3)
      = some (Sym.mk "x" ST_VARIABLE false (some ty_int32) ⟨0⟩ 0 [] 1) ∧
    ∃ loc st1, add_symbol "x" ST_VARIABLE (some ty_int64)
        (Symtab.mk [Sym.mk "y" ST_VARIABLE false (some ty_int8) ⟨0⟩ 0 [] 2,
          Sym.mk "f" ST_FUNCTION false (some ty_void) ⟨0⟩ 0
            [Sym.mk "x" ST_VARIABLE false (some ty_int32) ⟨0⟩ 0 [] 1] 0] (some 0) (some 0) 3)
        = Except.ok (loc, st1) ∧
      loc = Sym.mk "x" ST_VARIABLE false (some ty_int64) ⟨0⟩ 0 [] 3 ∧
      (∀ q ∈ [Sym.mk "x" ST_VARIABLE false (some ty_int32) ⟨0⟩ 0 [] 1], q.addr ≠ loc.addr) ∧
      loc ≠ Sym.mk "x" ST_VARIABLE false (some ty_int32) ⟨0⟩ 0 [] 1 ∧
      find_symbol (some "x") st1 = some loc ∧
      ∀ (after : List (String × Nat × Option Ty)) (added2 : List Sym) (st2 : Symtab),
        add_symbols after st1 = Except.ok (added2, st2) →
        find_symbol (some "x") st2 = some loc ∧
        find_symbol (some "x") (end_scope st2) = none :=
  local_shadows_parameter
    (Symtab.mk [Sym.mk "f" ST_FUNCTION false (some ty_void) ⟨0⟩ 0
      [Sym.mk "x" ST_VARIABLE false (some ty_int32) ⟨0⟩ 0 [] 1] 0] none none 2)
    (Sym.mk "f" ST_FUNCTION false (some ty_void) ⟨0⟩ 0
      [Sym.mk "x" ST_VARIABLE false (some ty_int32) ⟨0⟩ 0 [] 1] 0)
    "x" (some ty_int64) (Sym.mk "x" ST_VARIABLE false (some ty_int32) ⟨0⟩ 0 [] 1)
    [("y", ST_VARIABLE, some ty_int8)]
    [Sym.mk "y" ST_VARIABLE false (some ty_int8) ⟨0⟩ 0 [] 2]
    (Symtab.mk [Sym.mk "y" ST_VARIABLE false (some ty_int8) ⟨0⟩ 0 [] 2,
      Sym.mk "f" ST_FUNCTION false (some ty_void) ⟨0⟩ 0
        [Sym.mk "x" ST_VARIABLE false (some ty_int32) ⟨0⟩ 0 [] 1] 0] (some 0) (some 0) 3)
    (by decide) (by simp)
    (by intro s hs; rw [List.mem_singleton.1 hs]; decide) (by simp) rfl rfl

/-! ## Sequences of steps -/

/-- A sequence of two steps succeeds when both do. -/
theorem bind_ok_iff {α β : Type} (x : Res α) (f : α → Res β) (b : β) :
    x.bind f = Except.ok b ↔ ∃ a, x = Except.ok a ∧ f a = Except.ok b := by
  cases x with
  | error e => simp [Except.bind]
  | ok a => simp [Except.bind]

/-- The first step of a sequence that succeeds. -/
theorem bind_ok {α β : Type} {x : Res α} {f : α → Res β} {b : β}
    (h : (x >>= f) = Except.ok b) : ∃ a, x = Except.ok a ∧ f a = Except.ok b :=
  (bind_ok_iff x f b).1 h

/-- The first step of a sequence that succeeds, when the step is one of two
alternatives. -/
theorem bind_ite_ok {α β : Type} {b : Prop} [Decidable b] {x y : Res α} {f : α → Res β}
    {r : β} (h : (if b then x >>= f else y >>= f) = Except.ok r) :
    ∃ a, (if b then x else y) = Except.ok a ∧ f a = Except.ok r := by
  split_ifs at h ⊢
  · exact bind_ok h
  · exact bind_ok h

/-- One of the two alternatives is the one that succeeded. -/
theorem ite_ok_cases {β : Type} {b : Prop} [Decidable b] {x y : Res β} {r : β}
    (h : (if b then x else y) = Except.ok r) : x = Except.ok r ∨ y = Except.ok r := by
  split_ifs at h
  · exact Or.inl h
  · exact Or.inr h

theorem for_stmt_shape (lc : Libc) (fuel : Nat) (sb : Comp → Res (ASTnode × Comp))
    (c : Comp) (n : ASTnode) (c8 : Comp) :
    for_stmt lc fuel sb c = Except.ok (n, c8) ↔
      ∃ (c1 c2 : Comp) (i : ASTnode) (c3 : Comp) (e : ASTnode) (c4 c5 : Comp)
        (send : ASTnode) (c6 c7 : Comp) (s : ASTnode),
        scan_this lc fuel c = Except.ok c1 ∧ lparen lc fuel c1 = Except.ok c2 ∧
        assign_stmt lc fuel c2 = Except.ok (i, c3) ∧
        relational_expression lc fuel c3 = Except.ok (e, c4) ∧
        semi lc fuel c4 = Except.ok c5 ∧
        short_assign_stmt lc fuel c5 = Except.ok (send, c6) ∧
        rparen lc fuel c6 = Except.ok c7 ∧ sb c7 = Except.ok (s, c8) ∧
        n = mkastnode A_FOR e (mkastnode A_GLUE s ASTnode.NULL send) i := by
  simp only [for_stmt, bind, bind_ok_iff, Prod.exists, Except.ok.injEq, Prod.mk.injEq]
  constructor
  · rintro ⟨c1, h1, c2, h2, i, c3, h3, e, c4, h4, c5, h5, send, c6, h6, c7, h7, s, c9, h8, rfl, rfl⟩
    exact ⟨c1, c2, i, c3, e, c4, c5, send, c6, c7, s, h1, h2, h3, h4, h5, h6, h7, h8, rfl⟩
  · rintro ⟨c1, c2, i, c3, e, c4, c5, send, c6, c7, s, h1, h2, h3, h4, h5, h6, h7, h8, rfl⟩
    exact ⟨c1, h1, c2, h2, i, c3, h3, e, c4, h4, c5, h5, send, c6, h6, c7, h7, s, c8, h8, rfl, rfl⟩

/-! ## The layout of IF and FOR -/

/-- A successful call of `genAST` appends to the output and does not lower
the label counter. -/
theorem genAST_appends (lc : Libc) (syms : Symtab) (fuel : Nat) (n : ASTnode) (g : Genst)
    (t : Int) (g1 : Genst) (h : genAST lc syms fuel n g = Except.ok (t, g1)) :
    g.labelid ≤ g1.labelid ∧ ∃ code, g1.cg.out = g.cg.out ++ code := by
  obtain ⟨items, hinv, _⟩ := genAST_inv lc syms fuel n g t g1 h
  exact ⟨hinv.2.1, render items, hinv.1⟩

/-- C34: `gen_IF` on an IF node with condition `c`, then-block `t` and
else-block `e`.  With an else-block, when the three blocks are generated
the call succeeds and appends to the output, in this order: the code of `c`,
the `jnz` on the temporary of `c` to the labels La and Lfalse, the definition
of La, the code of `t`, the definition of the filler label Lfill, the `jmp`
to Lend, the definition of Lfalse, the code of `e`, the definition of Lend;
the four labels are pairwise different.  Without else-block it appends the
code of `c`, the `jnz`, the definition of La, the code of `t` and the
definition of Lfalse, and nothing else. -/
theorem gen_IF_layout (lc : Libc) (syms : Symtab) (fuel : Nat) (op : Nat) (ty : Option Ty)
    (rv : Bool) (c t e : ASTnode) (sym : Option Sym) (v : Litval) (s : Option String)
    (g : Genst) :
    (e.isNULL = false → ∀ (tc : Int) (gc : Genst) (tt : Int) (gt : Genst) (te : Int)
        (ge : Genst),
      genAST lc syms fuel c (genlabel (genlabel g).2).2 = Except.ok (tc, gc) →
      genAST lc syms fuel t (cgjump_if_false tc g.labelid gc) = Except.ok (tt, gt) →
      genAST lc syms fuel e
        (cglabel g.labelid (cgjump (g.labelid + 1) (cglabel gt.labelid (genlabel gt).2))) =
        Except.ok (te, ge) →
      ∃ codeC codeT codeE : String,
        gc.cg.out = g.cg.out ++ codeC ∧
        gt.cg.out = (cgjump_if_false tc g.labelid gc).cg.out ++ codeT ∧
        ge.cg.out = (cglabel g.labelid (cgjump (g.labelid + 1)
          (cglabel gt.labelid (genlabel gt).2))).cg.out ++ codeE ∧
        gen_IF (genAST lc syms fuel) (ASTnode.node op ty rv c t e sym v s) g =
          Except.ok (cglabel (g.labelid + 1) ge) ∧
        (cglabel (g.labelid + 1) ge).cg.out = g.cg.out ++ codeC ++
          ("  jnz %.t" ++ toString tc ++ ", @L" ++ toString gc.labelid ++ ", @L" ++
            toString g.labelid ++ "\n") ++
          ("@L" ++ toString gc.labelid ++ "\n") ++ codeT ++
          ("@L" ++ toString gt.labelid ++ "\n") ++
          ("  jmp @L" ++ toString (g.labelid + 1) ++ "\n") ++
          ("@L" ++ toString g.labelid ++ "\n") ++ codeE ++
          ("@L" ++ toString (g.labelid + 1) ++ "\n") ∧
        [gc.labelid, g.labelid, gt.labelid, g.labelid + 1].Nodup) ∧
    (e.isNULL = true → ∀ (tc : Int) (gc : Genst) (tt : Int) (gt : Genst),
      genAST lc syms fuel c (genlabel g).2 = Except.ok (tc, gc) →
      genAST lc syms fuel t (cgjump_if_false tc g.labelid gc) = Except.ok (tt, gt) →
      ∃ codeC codeT : String,
        gc.cg.out = g.cg.out ++ codeC ∧
        gt.cg.out = (cgjump_if_false tc g.labelid gc).cg.out ++ codeT ∧
        gen_IF (genAST lc syms fuel) (ASTnode.node op ty rv c t e sym v s) g =
          Except.ok (cglabel g.labelid gt) ∧
        (cglabel g.labelid gt).cg.out = g.cg.out ++ codeC ++
          ("  jnz %.t" ++ toString tc ++ ", @L" ++ toString gc.labelid ++ ", @L" ++
            toString g.labelid ++ "\n") ++
          ("@L" ++ toString gc.labelid ++ "\n") ++ codeT ++
          ("@L" ++ toString g.labelid ++ "\n") ∧
        gc.labelid ≠ g.labelid) := by
  constructor
  · intro he tc gc tt gt te ge hc ht hE
    obtain ⟨hlc, codeC, hoc⟩ := genAST_appends lc syms fuel c _ tc gc hc
    obtain ⟨hlt, codeT, hot⟩ := genAST_appends lc syms fuel t _ tt gt ht
    obtain ⟨hle, codeE, hoe⟩ := genAST_appends lc syms fuel e _ te ge hE
    refine ⟨codeC, codeT, codeE, hoc, hot, hoe, ?_, ?_, ?_⟩
    · have ht2 : genAST lc syms fuel t (cgjump_if_false tc (genlabel g).1 gc) =
          Except.ok (tt, gt) := ht
      have hE2 : genAST lc syms fuel e (cglabel (genlabel g).1
          (cgjump (genlabel (genlabel g).2).1 (cglabel (genlabel gt).1 (genlabel gt).2))) =
          Except.ok (te, ge) := hE
      simp only [gen_IF, ASTnode.left, ASTnode.mid, ASTnode.right, bind, Except.bind, he,
        Bool.false_eq_true, if_false, hc, ht2, hE2]
      rfl
    · simp only [cglabel, cgjump, cgjump_if_false, genlabel, Genst.emit, Cgen.emit]
        at hoc hot hoe ⊢
      rw [hoe, hot, hoc]
    · simp only [cglabel, cgjump, cgjump_if_false, genlabel, Genst.emit, Cgen.emit]
        at hlc hlt hle
      simp only [List.nodup_cons, List.mem_cons, List.mem_singleton, List.not_mem_nil,
        or_false, not_or, List.nodup_nil, and_true, not_false_eq_true]
      omega
  · intro he tc gc tt gt hc ht
    obtain ⟨hlc, codeC, hoc⟩ := genAST_appends lc syms fuel c _ tc gc hc
    obtain ⟨hlt, codeT, hot⟩ := genAST_appends lc syms fuel t _ tt gt ht
    refine ⟨codeC, codeT, hoc, hot, ?_, ?_, ?_⟩
    · have hc2 : genAST lc syms fuel c ((0 : Int), (genlabel g).2).2 = Except.ok (tc, gc) := hc
      have ht2 : genAST lc syms fuel t (cgjump_if_false tc (genlabel g).1 gc) =
          Except.ok (tt, gt) := ht
      simp only [gen_IF, ASTnode.left, ASTnode.mid, ASTnode.right, bind, Except.bind, he,
        if_true, hc2, ht2]
      rfl
    · simp only [cglabel, cgjump, cgjump_if_false, genlabel, Genst.emit, Cgen.emit]
        at hoc hot ⊢
      rw [hot, hoc]
    · simp only [cglabel, cgjump, cgjump_if_false, genlabel, Genst.emit, Cgen.emit]
        at hlc
      omega

/-- An IF node over three literals, with and without the else-block, from
the state at program start: the labels are La = 3, Lfalse = 1, Lfill = 4 and
Lend = 2 with the else-block, La = 2 and Lfalse = 1 without. -/
theorem gen_IF_layout_witness :
    gen_IF (genAST libc_unused Symtab.init 1)
      (ASTnode.node A_IF none false
        (ASTnode.node A_NUMLIT (some ty_int32) true ASTnode.NULL ASTnode.NULL ASTnode.NULL
          none ⟨1⟩ none)
        (ASTnode.node A_NUMLIT (some ty_int32) true ASTnode.NULL ASTnode.NULL ASTnode.NULL
          none ⟨2⟩ none)
        (ASTnode.node A_NUMLIT (some ty_int32) true ASTnode.NULL ASTnode.NULL ASTnode.NULL
          none ⟨3⟩ none) none ⟨0⟩ none) Genst.init =
      Except.ok ⟨⟨4, "  %.t2 =w copy 1\n  jnz %.t2, @L3, @L1\n@L3\n  %.t3 =w copy 2\n" ++
        "@L4\n  jmp @L2\n@L1\n  %.t4 =w copy 3\n@L2\n"⟩, 5, []⟩ ∧
    gen_IF (genAST libc_unused Symtab.init 1)
      (ASTnode.node A_IF none false
        (ASTnode.node A_NUMLIT (some ty_int32) true ASTnode.NULL ASTnode.NULL ASTnode.NULL
          none ⟨1⟩ none)
        (ASTnode.node A_NUMLIT (some ty_int32) true ASTnode.NULL ASTnode.NULL ASTnode.NULL
          none ⟨2⟩ none)
        ASTnode.NULL none ⟨0⟩ none) Genst.init =
      Except.ok ⟨⟨3, "  %.t2 =w copy 1\n  jnz %.t2, @L2, @L1\n@L2\n  %.t3 =w copy 2\n" ++
        "@L1\n"⟩, 3, []⟩ := by
  obtain ⟨_, _, _, _, _, _, h1, _, _⟩ :=
    (gen_IF_layout libc_unused Symtab.init 1 A_IF none false
      (ASTnode.node A_NUMLIT (some ty_int32) true ASTnode.NULL ASTnode.NULL ASTnode.NULL
        none ⟨1⟩ none)
      (ASTnode.node A_NUMLIT (some ty_int32) true ASTnode.NULL ASTnode.NULL ASTnode.NULL
        none ⟨2⟩ none)
      (ASTnode.node A_NUMLIT (some ty_int32) true ASTnode.NULL ASTnode.NULL ASTnode.NULL
        none ⟨3⟩ none) none ⟨0⟩ none Genst.init).1 rfl
      2 ⟨⟨2, "  %.t2 =w copy 1\n"⟩, 3, []⟩
      3 ⟨⟨3, "  %.t2 =w copy 1\n  jnz %.t2, @L3, @L1\n@L3\n  %.t3 =w copy 2\n"⟩, 4, []⟩
      4 ⟨⟨4, "  %.t2 =w copy 1\n  jnz %.t2, @L3, @L1\n@L3\n  %.t3 =w copy 2\n" ++
        "@L4\n  jmp @L2\n@L1\n  %.t4 =w copy 3\n"⟩, 5, []⟩
      (by decide!) (by decide!) (by decide!)
  obtain ⟨_, _, _, _, h2, _, _⟩ :=
    (gen_IF_layout libc_unused Symtab.init 1 A_IF none false
      (ASTnode.node A_NUMLIT (some ty_int32) true ASTnode.NULL ASTnode.NULL ASTnode.NULL
        none ⟨1⟩ none)
      (ASTnode.node A_NUMLIT (some ty_int32) true ASTnode.NULL ASTnode.NULL ASTnode.NULL
        none ⟨2⟩ none)
      ASTnode.NULL none ⟨0⟩ none Genst.init).2 rfl
      2 ⟨⟨2, "  %.t2 =w copy 1\n"⟩, 2, []⟩
      3 ⟨⟨3, "  %.t2 =w copy 1\n  jnz %.t2, @L2, @L1\n@L2\n  %.t3 =w copy 2\n"⟩, 3, []⟩
      (by decide!) (by decide!)
  exact ⟨h1.trans (by decide!), h2.trans (by decide!)⟩

/-- The function `genAST` on a FOR node: the code of the right child, then
`gen_WHILE` on the node. -/
theorem genAST_for (lc : Libc) (syms : Symtab) (fuel : Nat) (e b i : ASTnode) (g : Genst) :
    genAST lc syms (fuel + 1) (mkastnode A_FOR e b i) g =
      (genAST lc syms fuel i g).bind (fun p =>
        (gen_WHILE (genAST lc syms fuel) (mkastnode A_FOR e b i) p.2).bind
          (fun g2 => Except.ok (NOREG, g2))) := by
  simp only [mkastnode, genAST_succ]
  rfl

/-- The function `genAST` on a GLUE node without middle child: the code of
the left child, then the code of the right child. -/
theorem genAST_glue (lc : Libc) (syms : Symtab) (fuel : Nat) (s send : ASTnode) (g : Genst) :
    genAST lc syms (fuel + 1) (mkastnode A_GLUE s ASTnode.NULL send) g =
      (genAST lc syms fuel s g).bind (fun p =>
        (genAST lc syms fuel send p.2).bind (fun q => Except.ok (NOREG, q.2))) := by
  simp only [mkastnode, genAST_succ]
  cases s <;> cases send <;>
    simp [genAST_null, ASTnode.isNULL, bind, Except.bind, temp_val] <;>
    first | rfl | decide

/-- C35: the parser function `for_stmt` returns a tree exactly when its
parts are parsed in turn, and the tree is the A_FOR node with the condition
on the left, A_GLUE of the body and the increment in the middle and the
initial statement on the right.  On that node `genAST` generates the initial
statement and then does what it does on the WHILE node with the same
condition and the same A_GLUE as body.  When the four parts are generated
the call succeeds and appends, in this order: the code of the initial
statement, the definition of the start label, the code of the condition,
the `jnz`, the definition of its first label, the code of the body, the code
of the increment, the `jmp` to the start label and the definition of the
end label. -/
theorem for_stmt_lowering (lc : Libc) (syms : Symtab) (fuel : Nat) :
    (∀ (pfuel : Nat) (sb : Comp → Res (ASTnode × Comp)) (c : Comp) (n : ASTnode)
        (c8 : Comp),
      for_stmt lc pfuel sb c = Except.ok (n, c8) ↔
        ∃ (c1 c2 : Comp) (i : ASTnode) (c3 : Comp) (e : ASTnode) (c4 c5 : Comp)
          (send : ASTnode) (c6 c7 : Comp) (s : ASTnode),
          scan_this lc pfuel c = Except.ok c1 ∧ lparen lc pfuel c1 = Except.ok c2 ∧
          assign_stmt lc pfuel c2 = Except.ok (i, c3) ∧
          relational_expression lc pfuel c3 = Except.ok (e, c4) ∧
          semi lc pfuel c4 = Except.ok c5 ∧
          short_assign_stmt lc pfuel c5 = Except.ok (send, c6) ∧
          rparen lc pfuel c6 = Except.ok c7 ∧ sb c7 = Except.ok (s, c8) ∧
          n = mkastnode A_FOR e (mkastnode A_GLUE s ASTnode.NULL send) i) ∧
    (∀ (e b i : ASTnode) (g : Genst),
      genAST lc syms (fuel + 1) (mkastnode A_FOR e b i) g =
        (genAST lc syms fuel i g).bind (fun p =>
          genAST lc syms (fuel + 1) (mkastnode A_WHILE e b ASTnode.NULL) p.2)) ∧
    (∀ (e s send i : ASTnode) (g : Genst) (ti : Int) (gi : Genst) (te : Int) (ge : Genst)
        (ts : Int) (gs : Genst) (tsend : Int) (gsend : Genst),
      genAST lc syms (fuel + 1) i g = Except.ok (ti, gi) →
      genAST lc syms (fuel + 1) e (cglabel gi.labelid (genlabel (genlabel gi).2).2) =
        Except.ok (te, ge) →
      genAST lc syms fuel s (cgjump_if_false te (gi.labelid + 1) ge) = Except.ok (ts, gs) →
      genAST lc syms fuel send gs = Except.ok (tsend, gsend) →
      ∃ codeI codeE codeS codeSend : String,
        gi.cg.out = g.cg.out ++ codeI ∧
        ge.cg.out = (cglabel gi.labelid (genlabel (genlabel gi).2).2).cg.out ++ codeE ∧
        gs.cg.out = (cgjump_if_false te (gi.labelid + 1) ge).cg.out ++ codeS ∧
        gsend.cg.out = gs.cg.out ++ codeSend ∧
        genAST lc syms (fuel + 2) (mkastnode A_FOR e (mkastnode A_GLUE s ASTnode.NULL send) i)
          g = Except.ok (NOREG, cglabel (gi.labelid + 1) (cgjump gi.labelid gsend)) ∧
        (cglabel (gi.labelid + 1) (cgjump gi.labelid gsend)).cg.out = g.cg.out ++ codeI ++
          ("@L" ++ toString gi.labelid ++ "\n") ++ codeE ++
          ("  jnz %.t" ++ toString te ++ ", @L" ++ toString ge.labelid ++ ", @L" ++
            toString (gi.labelid + 1) ++ "\n") ++
          ("@L" ++ toString ge.labelid ++ "\n") ++ codeS ++ codeSend ++
          ("  jmp @L" ++ toString gi.labelid ++ "\n") ++
          ("@L" ++ toString (gi.labelid + 1) ++ "\n") ∧
        [gi.labelid, ge.labelid, gi.labelid + 1].Nodup) := by
  refine ⟨fun pfuel sb c n c8 => for_stmt_shape lc pfuel sb c n c8, ?_, ?_⟩
  · intro e b i g
    rw [genAST_for]
    congr 1
  · intro e s send i g ti gi te ge ts gs tsend gsend hi he hs hsend
    obtain ⟨hli, codeI, hoi⟩ := genAST_appends lc syms _ i _ ti gi hi
    obtain ⟨hle, codeE, hoe⟩ := genAST_appends lc syms _ e _ te ge he
    obtain ⟨hls, codeS, hos⟩ := genAST_appends lc syms _ s _ ts gs hs
    obtain ⟨hlsend, codeSend, hosend⟩ := genAST_appends lc syms _ send _ tsend gsend hsend
    refine ⟨codeI, codeE, codeS, codeSend, hoi, hoe, hos, hosend, ?_, ?_, ?_⟩
    · have hglue : genAST lc syms (fuel + 1) (mkastnode A_GLUE s ASTnode.NULL send)
          (cgjump_if_false te (gi.labelid + 1) ge) = Except.ok (NOREG, gsend) := by
        rw [genAST_glue, hs]
        simp only [Except.bind, hsend]
      have hglue2 : genAST lc syms (fuel + 1) (mkastnode A_GLUE s ASTnode.NULL send)
          (cgjump_if_false te (genlabel (genlabel gi).2).1 ge) = Except.ok (NOREG, gsend) :=
        hglue
      have he2 : genAST lc syms (fuel + 1) e
          (cglabel (genlabel gi).1 (genlabel (genlabel gi).2).2) = Except.ok (te, ge) := he
      rw [genAST_for, hi]
      simp only [Except.bind, gen_WHILE, mkastnode, ASTnode.left, ASTnode.mid, bind, he2]
      simp only [mkastnode] at hglue2
      simp only [hglue2]
      rfl
    · simp only [cglabel, cgjump, cgjump_if_false, genlabel, Genst.emit, Cgen.emit]
        at hoi hoe hos hosend ⊢
      rw [hosend, hos, hoe, hoi]
    · simp only [cglabel, cgjump, cgjump_if_false, genlabel, Genst.emit, Cgen.emit]
        at hli hle hls hlsend
      simp only [List.nodup_cons, List.mem_cons, List.mem_singleton, List.not_mem_nil,
        or_false, not_or, List.nodup_nil, and_true, not_false_eq_true]
      omega

/-- The parser on `for (a = 0; a < 3; a = a + 1) { b = a; }` with `a` and
`b` declared returns a tree of the shape above, and `genAST` on an A_FOR
node over four literals writes the initial code before the start label 1,
then the loop with the end label 2. -/
theorem for_stmt_lowering_witness :
    (∃ i e send s : ASTnode,
      (for_stmt libc_unused 40 (statement_block libc_unused 40)
        (parser_at ty_int32
          "for (a = 0; a < 3; a = a + 1) \x7b b = a; \x7d".toList)).map Prod.fst =
        Except.ok (mkastnode A_FOR e (mkastnode A_GLUE s ASTnode.NULL send) i)) ∧
    genAST libc_unused Symtab.init 3
      (mkastnode A_FOR
        (ASTnode.node A_NUMLIT (some ty_int32) true ASTnode.NULL ASTnode.NULL ASTnode.NULL
          none ⟨1⟩ none)
        (mkastnode A_GLUE
          (ASTnode.node A_NUMLIT (some ty_int32) true ASTnode.NULL ASTnode.NULL ASTnode.NULL
            none ⟨2⟩ none) ASTnode.NULL
          (ASTnode.node A_NUMLIT (some ty_int32) true ASTnode.NULL ASTnode.NULL ASTnode.NULL
            none ⟨3⟩ none))
        (ASTnode.node A_NUMLIT (some ty_int32) true ASTnode.NULL ASTnode.NULL ASTnode.NULL
          none ⟨0⟩ none)) Genst.init =
      Except.ok (NOREG, ⟨⟨5, "  %.t2 =w copy 0\n@L1\n  %.t3 =w copy 1\n" ++
        "  jnz %.t3, @L3, @L2\n@L3\n  %.t4 =w copy 2\n  %.t5 =w copy 3\n" ++
        "  jmp @L1\n@L2\n"⟩, 4, []⟩) := by
  constructor
  · have hok : (for_stmt libc_unused 40 (statement_block libc_unused 40)
        (parser_at ty_int32
          "for (a = 0; a < 3; a = a + 1) \x7b b = a; \x7d".toList)).toBool = true := by
      decide!
    cases h : for_stmt libc_unused 40 (statement_block libc_unused 40)
        (parser_at ty_int32 "for (a = 0; a < 3; a = a + 1) \x7b b = a; \x7d".toList) with
    | error err => rw [h] at hok; cases hok
    | ok p =>
      obtain ⟨n, c8⟩ := p
      obtain ⟨_, _, i, _, e, _, _, send, _, _, s, _, _, _, _, _, _, _, _, hn⟩ :=
        ((for_stmt_lowering libc_unused Symtab.init 1).1 40 _ _ n c8).1 h
      exact ⟨i, e, send, s, by rw [hn]; rfl⟩
  · obtain ⟨_, _, _, _, _, _, _, _, h1, _, _⟩ :=
      (for_stmt_lowering libc_unused Symtab.init 1).2.2
        (ASTnode.node A_NUMLIT (some ty_int32) true ASTnode.NULL ASTnode.NULL ASTnode.NULL
          none ⟨1⟩ none)
        (ASTnode.node A_NUMLIT (some ty_int32) true ASTnode.NULL ASTnode.NULL ASTnode.NULL
          none ⟨2⟩ none)
        (ASTnode.node A_NUMLIT (some ty_int32) true ASTnode.NULL ASTnode.NULL ASTnode.NULL
          none ⟨3⟩ none)
        (ASTnode.node A_NUMLIT (some ty_int32) true ASTnode.NULL ASTnode.NULL ASTnode.NULL
          none ⟨0⟩ none) Genst.init
        2 ⟨⟨2, "  %.t2 =w copy 0\n"⟩, 1, []⟩
        3 ⟨⟨3, "  %.t2 =w copy 0\n@L1\n  %.t3 =w copy 1\n"⟩, 3, []⟩
        4 ⟨⟨4, "  %.t2 =w copy 0\n@L1\n  %.t3 =w copy 1\n  jnz %.t3, @L3, @L2\n@L3\n" ++
          "  %.t4 =w copy 2\n"⟩, 4, []⟩
        5 ⟨⟨5, "  %.t2 =w copy 0\n@L1\n  %.t3 =w copy 1\n  jnz %.t3, @L3, @L2\n@L3\n" ++
          "  %.t4 =w copy 2\n  %.t5 =w copy 3\n"⟩, 4, []⟩
        (by decide!) (by decide!) (by decide!) (by decide!)
    exact h1.trans (by decide!)

/-! ## The types of the nodes of a function body -/

theorem types_ok_node (op : Nat) (ty : Option Ty) (rv : Bool) (l m r : ASTnode)
    (sym : Option Sym) (v : Litval) (s : Option String) (hop : op ≠ A_FUNCCALL) :
    (ASTnode.node op ty rv l m r sym v s).types_ok =
      ((if untyped_op op then ty.isNone else ty.isSome) &&
        l.types_ok && m.types_ok && r.types_ok) := by
  simp only [ASTnode.types_ok, if_neg hop]

/-- A typed node of a tree with the types in order is not a statement
node. -/
theorem typed_op (op : Nat) (ty : Option Ty) (rv : Bool) (l m r : ASTnode)
    (sym : Option Sym) (v : Litval) (s : Option String)
    (h : (ASTnode.node op ty rv l m r sym v s).types_ok = true) (ht : ty.isSome = true) :
    op ≠ A_FUNCCALL ∧ untyped_op op = false ∧ l.types_ok = true ∧ m.types_ok = true ∧
      r.types_ok = true := by
  cases ty with
  | none => simp at ht
  | some t =>
    by_cases hop : op = A_FUNCCALL
    · simp [ASTnode.types_ok, hop] at h
    · rw [types_ok_node _ _ _ _ _ _ _ _ _ hop] at h
      cases hu : untyped_op op with
      | true => simp [hu] at h
      | false =>
        simp only [hu, Bool.false_eq_true, if_false, Option.isSome_some, Bool.true_and,
          Bool.and_eq_true] at h
        exact ⟨hop, rfl, h.1.1, h.1.2, h.2⟩

/-- The function `widen_type` on a typed tree with the types in order
returns NULL or a typed tree with the types in order. -/
theorem widen_type_types_ok (n : ASTnode) (t : Option Ty) (m : ASTnode)
    (hn : n.types_ok = true) (hty : n.is_typed = true) (h : widen_type n t = Except.ok m)
    (hm : m.isNULL = false) : m.types_ok = true ∧ m.is_typed = true := by
  cases n with
  | NULL => simp [ASTnode.is_typed] at hty
  | node op ntype rv l mid r sym v s =>
    simp only [ASTnode.is_typed] at hty
    obtain ⟨hop, hu, hl, hmid, hr⟩ := typed_op _ _ _ _ _ _ _ _ _ hn hty
    cases ntype with
    | none => simp at hty
    | some nty =>
      have hcast : ∀ ty : Ty, (((mkastnode A_CAST (ASTnode.node op (some nty) rv l mid r sym v s)
          ASTnode.NULL ASTnode.NULL).set_type (some ty)).set_rvalue true).types_ok = true ∧
          (((mkastnode A_CAST (ASTnode.node op (some nty) rv l mid r sym v s)
          ASTnode.NULL ASTnode.NULL).set_type (some ty)).set_rvalue true).is_typed = true := by
        intro ty
        simp only [mkastnode, ASTnode.set_type, ASTnode.set_rvalue, ASTnode.is_typed,
          Option.isSome_some, and_true]
        rw [types_ok_node _ _ _ _ _ _ _ _ _ (by decide), hn]
        rfl
      cases t with
      | none =>
        simp only [widen_type] at h
        split_ifs at h
        all_goals contradiction
      | some ty =>
        simp only [widen_type] at h
        split_ifs at h
        all_goals first
          | cases h; done
          | (injection h with h; subst h; simp [ASTnode.isNULL] at hm; done)
          | (injection h with h; subst h; exact hcast ty)
          | (injection h with h; subst h; exact ⟨hn, hty⟩)

/-- A typed node with the types in order, as the expression parsers return
it. -/
theorem is_typed_node (n : ASTnode) (h : n.is_typed = true) :
    ∃ op t rv l m r sym v s, n = ASTnode.node op (some t) rv l m r sym v s := by
  cases n with
  | NULL => simp [ASTnode.is_typed] at h
  | node op ty rv l m r sym v s =>
    cases ty with
    | none => simp [ASTnode.is_typed] at h
    | some t => exact ⟨op, t, rv, l, m, r, sym, v, s, rfl⟩

/-- The function `binop` on two typed trees with the types in order, for an
operation that is not a statement, returns such a tree. -/
theorem binop_types_ok (l r : ASTnode) (op : Nat) (n : ASTnode)
    (hl : l.types_ok = true ∧ l.is_typed = true) (hr : r.types_ok = true ∧ r.is_typed = true)
    (hop : op ≠ A_FUNCCALL) (hu : untyped_op op = false) (h : binop l r op = Except.ok n) :
    n.types_ok = true ∧ n.is_typed = true := by
  obtain ⟨lop, lt, lrv, ll, lm, lr, lsym, lv, ls, rfl⟩ := is_typed_node l hl.2
  obtain ⟨rop, rt, rrv, rl, rm, rr, rsym, rv, rs, rfl⟩ := is_typed_node r hr.2
  by_cases hrel : A_EQ ≤ op ∧ op ≤ A_NOT
  · simp only [binop, mkastnode, ASTnode.set_rvalue, add_type, Option.isSome,
      hrel, if_false, if_true, Bool.false_eq_true, and_self] at h
    injection h with h
    subst h
    rw [types_ok_node _ _ _ _ _ _ _ _ _ hop, hu, hl.1, hr.1]
    exact ⟨rfl, rfl⟩
  · rw [binop_typed _ _ _ _ _ _ _ _ _ _ _ _ _ _ _ _ _ _ _ hrel] at h
    simp only [bind, bind_ok_iff] at h
    obtain ⟨n1, h1, lty, h2, n2, h3, lty2, h4, h5⟩ := h
    injection h5 with h5
    subst h5
    have hleft : (if n1.isNULL then ASTnode.node lop (some lt) lrv ll lm lr lsym lv ls
        else n1).types_ok = true ∧
        (if n1.isNULL then ASTnode.node lop (some lt) lrv ll lm lr lsym lv ls
        else n1).is_typed = true := by
      cases hn1 : n1.isNULL with
      | true => simpa using hl
      | false =>
        simpa using widen_type_types_ok _ _ _ hl.1 hl.2 h1 hn1
    have hright : (if n2.isNULL then ASTnode.node rop (some rt) rrv rl rm rr rsym rv rs
        else n2).types_ok = true := by
      cases hn2 : n2.isNULL with
      | true => simpa using hr.1
      | false =>
        simpa using (widen_type_types_ok _ _ _ hr.1 hr.2 h3 hn2).1
    obtain ⟨op2, t2, rv2, l2, m2, r2, sym2, v2, s2, he⟩ := is_typed_node _ hleft.2
    rw [he] at h4
    simp only [ASTnode.type, Except.ok.injEq] at h4
    subst h4
    rw [types_ok_node _ _ _ _ _ _ _ _ _ hop, hu, hleft.1, hright]
    exact ⟨rfl, rfl⟩

/-- The function `unarop` on a typed tree with the types in order, for an
operation that is not a statement, returns such a tree. -/
theorem unarop_types_ok (l : ASTnode) (op : Nat) (n : ASTnode)
    (hl : l.types_ok = true ∧ l.is_typed = true)
    (hop : op ≠ A_FUNCCALL) (hu : untyped_op op = false) (h : unarop l op = Except.ok n) :
    n.types_ok = true ∧ n.is_typed = true := by
  obtain ⟨lop, lt, lrv, ll, lm, lr, lsym, lv, ls, rfl⟩ := is_typed_node l hl.2
  simp only [unarop, ASTnode.type, bind, Except.bind, mkastnode, ASTnode.set_type,
    ASTnode.set_rvalue, Except.ok.injEq] at h
  subst h
  rw [types_ok_node _ _ _ _ _ _ _ _ _ hop, hu, hl.1]
  exact ⟨rfl, rfl⟩

/-- The scanner leaves the symbol table as it is. -/
theorem scan_this_syms (lc : Libc) (fuel : Nat) (c c1 : Comp)
    (h : scan_this lc fuel c = Except.ok c1) : c1.syms = c.syms := by
  simp only [scan_this, bind, bind_ok_iff, Prod.exists, Except.ok.injEq] at h
  obtain ⟨_, _, _, _, rfl⟩ := h
  rfl

theorem match_tok_syms (lc : Libc) (fuel : Nat) (t : Nat) (b : Bool) (c c1 : Comp)
    (h : match_tok lc fuel t b c = Except.ok c1) : c1.syms = c.syms := by
  simp only [match_tok] at h
  split_ifs at h
  · simp only [bind, bind_ok_iff, fatal] at h
    obtain ⟨_, _, _, _, h⟩ := h
    cases h
  · exact scan_this_syms lc fuel c c1 h
  · injection h with h
    rw [h]

theorem scan_peek_syms (lc : Libc) (fuel : Nat) (c c1 : Comp)
    (h : scan_peek lc fuel c = Except.ok c1) : c1.syms = c.syms := by
  simp only [scan_peek] at h
  split_ifs at h
  · injection h with h
    rw [← h]
  · simp only [bind, bind_ok_iff, Prod.exists, Except.ok.injEq] at h
    obtain ⟨_, _, _, _, rfl⟩ := h
    rfl

theorem find_symbol_loop_typed (name : String) (cur : Option Nat) : ∀ (l : List Sym) (f : Sym),
    (∀ x ∈ l, x.type.isSome = true ∧ ∀ p ∈ x.memb, p.type.isSome = true) →
    find_symbol_loop name cur l = some f → f.type.isSome = true
  | [], f, _, h => by simp [find_symbol_loop] at h
  | this :: rest, f, hl, h => by
    unfold find_symbol_loop at h
    have hthis := hl this (List.mem_cons_self _ _)
    have hrest : ∀ x ∈ rest, x.type.isSome = true ∧ ∀ p ∈ x.memb, p.type.isSome = true :=
      fun x hx => hl x (List.mem_cons_of_mem _ hx)
    split_ifs at h with h1 h2
    · simp only [Option.some.injEq] at h
      rw [← h]; exact hthis.1
    · cases hf : this.memb.find? (fun param => param.name = name) with
      | none =>
        simp only [hf] at h
        exact find_symbol_loop_typed name cur rest f hrest h
      | some param =>
        simp only [hf, Option.some.injEq] at h
        rw [← h]
        exact hthis.2 param (List.mem_of_find?_eq_some hf)
    · exact find_symbol_loop_typed name cur rest f hrest h

/-- The leaf `variable` returns: an A_IDENT node with the type of its
symbol, which is not NULL when every symbol has a type. -/
theorem variable_types_ok (lc : Libc) (fuel : Nat) (c : Comp) (n : ASTnode) (c1 : Comp)
    (hs : syms_typed c.syms) (h : variable_ lc fuel c = Except.ok (n, c1)) :
    (∃ (t : Ty) (sy : Sym) (v : Litval) (s : Option String), sy.type = some t ∧
      n = ASTnode.node A_IDENT (some t) false ASTnode.NULL ASTnode.NULL ASTnode.NULL
        (some sy) v s) ∧ c1.syms = c.syms := by
  simp only [variable_, bind, bind_ok_iff, Prod.exists, Except.ok.injEq, Prod.mk.injEq,
    mkident, mkastleaf, ASTnode.set_strlit, ASTnode.strlit] at h
  obtain ⟨n1, ⟨nm, hnm, h1⟩, c2, h2, rfl, rfl⟩ := h
  subst hnm
  cases hf : find_symbol c.lex.Thistoken.tokstr c.syms with
  | none => simp [hf, fatal] at h1
  | some sy =>
    simp only [hf] at h1
    split_ifs at h1
    · simp [fatal] at h1
    · injection h1 with h1
      subst h1
      have hty : sy.type.isSome = true := by
        cases hn : c.lex.Thistoken.tokstr with
        | none => simp [find_symbol, hn] at hf
        | some nm =>
          simp only [find_symbol, hn] at hf
          exact find_symbol_loop_typed nm _ _ sy hs hf
      obtain ⟨t, ht⟩ := Option.isSome_iff_exists.1 hty
      refine ⟨⟨t, sy, Litval.of_uint 0, c.lex.Thistoken.tokstr, ht, ?_⟩,
        scan_this_syms lc fuel c c2 h2⟩
      simp only [ASTnode.set_type, ASTnode.set_sym, ht]

theorem types_ok_leaf (op : Nat) (t : Ty) (rv : Bool) (sym : Option Sym) (v : Litval)
    (s : Option String) (hop : op ≠ A_FUNCCALL) (hu : untyped_op op = false) :
    (ASTnode.node op (some t) rv ASTnode.NULL ASTnode.NULL ASTnode.NULL sym v s).types_ok =
        true ∧
      (ASTnode.node op (some t) rv ASTnode.NULL ASTnode.NULL ASTnode.NULL sym v
        s).is_typed = true := by
  rw [types_ok_node _ _ _ _ _ _ _ _ _ hop, hu]
  exact ⟨rfl, rfl⟩

theorem factor_types_ok (lc : Libc) (fuel : Nat) : expr_parser_ok (factor lc fuel) := by
  intro c n c1 hs h
  simp only [factor] at h
  split_ifs at h
  · simp only [bind, bind_ok_iff, Prod.exists, Except.ok.injEq, Prod.mk.injEq] at h
    obtain ⟨c2, h2, rfl, rfl⟩ := h
    exact ⟨types_ok_leaf _ _ _ _ _ _ (by decide) (by decide), scan_this_syms _ _ _ _ h2⟩
  · simp only [bind, bind_ok_iff, Prod.exists, Except.ok.injEq, Prod.mk.injEq] at h
    obtain ⟨c2, h2, rfl, rfl⟩ := h
    exact ⟨types_ok_leaf _ _ _ _ _ _ (by decide) (by decide), scan_this_syms _ _ _ _ h2⟩
  · simp only [bind, bind_ok_iff, Prod.exists, Except.ok.injEq, Prod.mk.injEq] at h
    obtain ⟨c2, h2, rfl, rfl⟩ := h
    exact ⟨types_ok_leaf _ _ _ _ _ _ (by decide) (by decide), scan_this_syms _ _ _ _ h2⟩
  · obtain ⟨⟨t, sy, v, s, _, rfl⟩, hc⟩ := variable_types_ok lc fuel c n c1 hs h
    exact ⟨types_ok_leaf _ _ _ _ _ _ (by decide) (by decide), hc⟩
  · simp only [bind, bind_ok_iff, fatal] at h
    obtain ⟨_, _, h⟩ := h
    cases h

theorem multiplicative_loop_types_ok (lc : Libc) (fuel : Nat) :
    ∀ (k : Nat) (left : ASTnode) (c : Comp) (n : ASTnode) (c1 : Comp),
      left.types_ok = true ∧ left.is_typed = true → syms_typed c.syms →
      multiplicative_loop lc fuel k left c = Except.ok (n, c1) →
      (n.types_ok = true ∧ n.is_typed = true) ∧ c1.syms = c.syms := by
  intro k
  induction k with
  | zero =>
    intro left c n c1 hl hs h
    unfold multiplicative_loop at h
    by_cases htok : c.lex.Thistoken.token = T_STAR ∨ c.lex.Thistoken.token = T_SLASH
    · simp only [if_pos htok] at h
      cases h
    · simp only [if_neg htok, Except.ok.injEq, Prod.mk.injEq] at h
      obtain ⟨rfl, rfl⟩ := h
      exact ⟨hl, rfl⟩
  | succ k ih =>
    intro left c n c1 hl hs h
    unfold multiplicative_loop at h
    by_cases htok : c.lex.Thistoken.token = T_STAR ∨ c.lex.Thistoken.token = T_SLASH
    · simp only [if_pos htok, bind, bind_ok_iff, Prod.exists] at h
      obtain ⟨c2, h2, r, c3, h3, l2, h4, h5⟩ := h
      have e2 := scan_this_syms _ _ _ _ h2
      obtain ⟨hr, e3⟩ := factor_types_ok lc fuel c2 r c3 (by rw [e2]; exact hs) h3
      have hl2 := binop_types_ok left r _ l2 hl hr (by split_ifs <;> decide)
        (by split_ifs <;> decide) h4
      obtain ⟨hn, e4⟩ := ih l2 c3 n c1 hl2 (by rw [e3, e2]; exact hs) h5
      exact ⟨hn, by rw [e4, e3, e2]⟩
    · simp only [if_neg htok, Except.ok.injEq, Prod.mk.injEq] at h
      obtain ⟨rfl, rfl⟩ := h
      exact ⟨hl, rfl⟩

theorem multiplicative_expression_types_ok (lc : Libc) (fuel : Nat) :
    expr_parser_ok (multiplicative_expression lc fuel) := by
  intro c n c1 hs h
  simp only [multiplicative_expression, bind, bind_ok_iff, Prod.exists] at h
  obtain ⟨l, c2, h1, h2⟩ := h
  obtain ⟨hl, e1⟩ := factor_types_ok lc fuel c l c2 hs h1
  obtain ⟨hn, e2⟩ := multiplicative_loop_types_ok lc fuel fuel l c2 n c1 hl
    (by rw [e1]; exact hs) h2
  exact ⟨hn, by rw [e2, e1]⟩

theorem additive_loop_types_ok (lc : Libc) (fuel : Nat) :
    ∀ (k : Nat) (left : ASTnode) (c : Comp) (n : ASTnode) (c1 : Comp),
      left.types_ok = true ∧ left.is_typed = true → syms_typed c.syms →
      additive_loop lc fuel k left c = Except.ok (n, c1) →
      (n.types_ok = true ∧ n.is_typed = true) ∧ c1.syms = c.syms := by
  intro k
  induction k with
  | zero =>
    intro left c n c1 hl hs h
    unfold additive_loop at h
    by_cases htok : c.lex.Thistoken.token = T_PLUS ∨ c.lex.Thistoken.token = T_MINUS
    · simp only [if_pos htok] at h
      cases h
    · simp only [if_neg htok, Except.ok.injEq, Prod.mk.injEq] at h
      obtain ⟨rfl, rfl⟩ := h
      exact ⟨hl, rfl⟩
  | succ k ih =>
    intro left c n c1 hl hs h
    unfold additive_loop at h
    by_cases htok : c.lex.Thistoken.token = T_PLUS ∨ c.lex.Thistoken.token = T_MINUS
    · simp only [if_pos htok, bind, bind_ok_iff, Prod.exists] at h
      obtain ⟨c2, h2, r, c3, h3, l2, h4, h5⟩ := h
      have e2 := scan_this_syms _ _ _ _ h2
      obtain ⟨hr, e3⟩ := multiplicative_expression_types_ok lc fuel c2 r c3
        (by rw [e2]; exact hs) h3
      have hl2 := binop_types_ok left r _ l2 hl hr (by split_ifs <;> decide)
        (by split_ifs <;> decide) h4
      obtain ⟨hn, e4⟩ := ih l2 c3 n c1 hl2 (by rw [e3, e2]; exact hs) h5
      exact ⟨hn, by rw [e4, e3, e2]⟩
    · simp only [if_neg htok, Except.ok.injEq, Prod.mk.injEq] at h
      obtain ⟨rfl, rfl⟩ := h
      exact ⟨hl, rfl⟩

/-- An optional `scan_this` leaves the symbol table as it is. -/
theorem opt_scan_syms (lc : Libc) (fuel : Nat) (b : Prop) [Decidable b] (c c1 : Comp)
    (h : (if b then scan_this lc fuel c else Except.ok c) = Except.ok c1) :
    c1.syms = c.syms := by
  split_ifs at h
  · exact scan_this_syms _ _ _ _ h
  · injection h with h
    rw [h]

/-- An optional `unarop` keeps a typed tree with the types in order. -/
theorem opt_unarop_types_ok (b : Prop) [Decidable b] (l : ASTnode) (op : Nat) (n : ASTnode)
    (hl : l.types_ok = true ∧ l.is_typed = true)
    (hop : op ≠ A_FUNCCALL) (hu : untyped_op op = false)
    (h : (if b then unarop l op else Except.ok l) = Except.ok n) :
    n.types_ok = true ∧ n.is_typed = true := by
  split_ifs at h
  · exact unarop_types_ok l op n hl hop hu h
  · injection h with h
    rw [← h]
    exact hl

theorem additive_expression_types_ok (lc : Libc) (fuel : Nat) :
    expr_parser_ok (additive_expression lc fuel) := by
  intro c n c1 hs h
  unfold additive_expression at h
  dsimp only at h
  obtain ⟨c2, h1, h⟩ := bind_ite_ok h
  obtain ⟨⟨l, c3⟩, h2, h⟩ := bind_ok h
  dsimp only at h
  obtain ⟨l2, h3, h4⟩ := bind_ite_ok h
  have e1 := opt_scan_syms _ _ _ _ _ h1
  obtain ⟨hl, e2⟩ := multiplicative_expression_types_ok lc fuel c2 l c3
    (by rw [e1]; exact hs) h2
  have hl2 := opt_unarop_types_ok _ l _ l2 hl (by decide) (by decide) h3
  obtain ⟨hn, e3⟩ := additive_loop_types_ok lc fuel fuel l2 c3 n c1 hl2
    (by rw [e2, e1]; exact hs) h4
  exact ⟨hn, by rw [e3, e2, e1]⟩

theorem shift_loop_types_ok (lc : Libc) (fuel : Nat) :
    ∀ (k : Nat) (left : ASTnode) (c : Comp) (n : ASTnode) (c1 : Comp),
      left.types_ok = true ∧ left.is_typed = true → syms_typed c.syms →
      shift_loop lc fuel k left c = Except.ok (n, c1) →
      (n.types_ok = true ∧ n.is_typed = true) ∧ c1.syms = c.syms := by
  intro k
  induction k with
  | zero =>
    intro left c n c1 hl hs h
    unfold shift_loop at h
    by_cases htok : c.lex.Thistoken.token = T_LSHIFT ∨ c.lex.Thistoken.token = T_RSHIFT
    · simp only [if_pos htok] at h
      cases h
    · simp only [if_neg htok, Except.ok.injEq, Prod.mk.injEq] at h
      obtain ⟨rfl, rfl⟩ := h
      exact ⟨hl, rfl⟩
  | succ k ih =>
    intro left c n c1 hl hs h
    unfold shift_loop at h
    by_cases htok : c.lex.Thistoken.token = T_LSHIFT ∨ c.lex.Thistoken.token = T_RSHIFT
    · simp only [if_pos htok, bind, bind_ok_iff, Prod.exists] at h
      obtain ⟨c2, h2, r, c3, h3, l2, h4, h5⟩ := h
      have e2 := scan_this_syms _ _ _ _ h2
      obtain ⟨hr, e3⟩ := additive_expression_types_ok lc fuel c2 r c3
        (by rw [e2]; exact hs) h3
      have hl2 := binop_types_ok left r _ l2 hl hr (by split_ifs <;> decide)
        (by split_ifs <;> decide) h4
      obtain ⟨hn, e4⟩ := ih l2 c3 n c1 hl2 (by rw [e3, e2]; exact hs) h5
      exact ⟨hn, by rw [e4, e3, e2]⟩
    · simp only [if_neg htok, Except.ok.injEq, Prod.mk.injEq] at h
      obtain ⟨rfl, rfl⟩ := h
      exact ⟨hl, rfl⟩

theorem shift_expression_types_ok (lc : Libc) (fuel : Nat) :
    expr_parser_ok (shift_expression lc fuel) := by
  intro c n c1 hs h
  simp only [shift_expression, bind, bind_ok_iff, Prod.exists] at h
  obtain ⟨l, c2, h1, h2⟩ := h
  obtain ⟨hl, e1⟩ := additive_expression_types_ok lc fuel c l c2 hs h1
  obtain ⟨hn, e2⟩ := shift_loop_types_ok lc fuel fuel l c2 n c1 hl
    (by rw [e1]; exact hs) h2
  exact ⟨hn, by rw [e2, e1]⟩

theorem relational_op_typed (tok : Nat) :
    relational_op tok ≠ A_FUNCCALL ∧ untyped_op (relational_op tok) = false := by
  unfold relational_op
  split_ifs <;> exact ⟨by decide, by decide⟩

theorem relational_expression_types_ok (lc : Libc) (fuel : Nat) :
    expr_parser_ok (relational_expression lc fuel) := by
  intro c n c1 hs h
  unfold relational_expression at h
  dsimp only at h
  obtain ⟨c2, h1, h⟩ := bind_ite_ok h
  obtain ⟨⟨l, c3⟩, h2, h⟩ := bind_ok h
  dsimp only at h
  obtain ⟨l2, h3, h4⟩ := bind_ite_ok h
  have e1 := opt_scan_syms _ _ _ _ _ h1
  obtain ⟨hl, e2⟩ := shift_expression_types_ok lc fuel c2 l c3 (by rw [e1]; exact hs) h2
  have hl2 := opt_unarop_types_ok _ l _ l2 hl (by decide) (by decide) h3
  split_ifs at h4 with hrel
  · simp only [bind, bind_ok_iff, Prod.exists, Except.ok.injEq, Prod.mk.injEq] at h4
    obtain ⟨c4, h5, r, c5, h6, l3, h7, rfl, rfl⟩ := h4
    have e3 := scan_this_syms _ _ _ _ h5
    obtain ⟨hr, e4⟩ := shift_expression_types_ok lc fuel c4 r c5
      (by rw [e3, e2, e1]; exact hs) h6
    obtain ⟨ho1, ho2⟩ := relational_op_typed c3.lex.Thistoken.token
    exact ⟨binop_types_ok l2 r _ l3 hl2 hr ho1 ho2 h7, by rw [e4, e3, e2, e1]⟩
  · simp only [Except.ok.injEq, Prod.mk.injEq] at h4
    obtain ⟨rfl, rfl⟩ := h4
    exact ⟨hl2, by rw [e2, e1]⟩

theorem bitwise_loop_types_ok (lc : Libc) (fuel : Nat) :
    ∀ (k : Nat) (left : ASTnode) (c : Comp) (n : ASTnode) (c1 : Comp),
      left.types_ok = true ∧ left.is_typed = true → syms_typed c.syms →
      bitwise_loop lc fuel k left c = Except.ok (n, c1) →
      (n.types_ok = true ∧ n.is_typed = true) ∧ c1.syms = c.syms := by
  intro k
  induction k with
  | zero =>
    intro left c n c1 hl hs h
    unfold bitwise_loop at h
    by_cases htok : c.lex.Thistoken.token = T_AMPER ∨ c.lex.Thistoken.token = T_OR ∨
        c.lex.Thistoken.token = T_XOR
    · simp only [if_pos htok] at h
      cases h
    · simp only [if_neg htok, Except.ok.injEq, Prod.mk.injEq] at h
      obtain ⟨rfl, rfl⟩ := h
      exact ⟨hl, rfl⟩
  | succ k ih =>
    intro left c n c1 hl hs h
    unfold bitwise_loop at h
    by_cases htok : c.lex.Thistoken.token = T_AMPER ∨ c.lex.Thistoken.token = T_OR ∨
        c.lex.Thistoken.token = T_XOR
    · simp only [if_pos htok, bind, bind_ok_iff, Prod.exists] at h
      obtain ⟨c2, h2, r, c3, h3, l2, h4, h5⟩ := h
      have e2 := scan_this_syms _ _ _ _ h2
      obtain ⟨hr, e3⟩ := relational_expression_types_ok lc fuel c2 r c3
        (by rw [e2]; exact hs) h3
      have hl2 := binop_types_ok left r _ l2 hl hr (by split_ifs <;> decide)
        (by split_ifs <;> decide) h4
      obtain ⟨hn, e4⟩ := ih l2 c3 n c1 hl2 (by rw [e3, e2]; exact hs) h5
      exact ⟨hn, by rw [e4, e3, e2]⟩
    · simp only [if_neg htok, Except.ok.injEq, Prod.mk.injEq] at h
      obtain ⟨rfl, rfl⟩ := h
      exact ⟨hl, rfl⟩

theorem expression_types_ok (lc : Libc) (fuel : Nat) :
    expr_parser_ok (expression lc fuel) := by
  intro c n c1 hs h
  unfold expression bitwise_expression at h
  dsimp only at h
  obtain ⟨c2, h1, h⟩ := bind_ite_ok h
  obtain ⟨⟨l, c3⟩, h2, h⟩ := bind_ok h
  dsimp only at h
  obtain ⟨l2, h3, h4⟩ := bind_ite_ok h
  have e1 := opt_scan_syms _ _ _ _ _ h1
  obtain ⟨hl, e2⟩ := relational_expression_types_ok lc fuel c2 l c3
    (by rw [e1]; exact hs) h2
  have hl2 := opt_unarop_types_ok _ l _ l2 hl (by decide) (by decide) h3
  obtain ⟨hn, e3⟩ := bitwise_loop_types_ok lc fuel fuel l2 c3 n c1 hl2
    (by rw [e2, e1]; exact hs) h4
  exact ⟨hn, by rw [e3, e2, e1]⟩

theorem add_sym_append_of_mem (G : Option Nat) (this x : Sym) :
    ∀ l : List Sym, x ∈ add_sym_append G this l → x = this ∨ x ∈ l
  | [], h => by
    simp only [add_sym_append, List.mem_singleton] at h
    exact Or.inl h
  | [here], h => by
    simp only [add_sym_append, List.mem_cons, List.mem_singleton, List.not_mem_nil,
      or_false] at h
    rcases h with h | h
    · exact Or.inr (by simp [h])
    · exact Or.inl h
  | here :: nxt :: rest, h => by
    simp only [add_sym_append] at h
    split_ifs at h
    · simp only [List.mem_cons] at h ⊢
      tauto
    · simp only [List.mem_cons] at h
      rcases h with h | h
      · exact Or.inr (by simp [h])
      · rcases add_sym_append_of_mem G this x (nxt :: rest) h with h | h
        · exact Or.inl h
        · exact Or.inr (List.mem_cons_of_mem _ h)

/-- The list `add_sym_to` returns holds the symbols of the list it was
given and, at most, the new symbol. -/
theorem add_sym_to_mem (head : List Sym) (name : String) (symtype : Nat)
    (type : Option Ty) (st : Symtab) (r : Option Sym) (head1 : List Sym) (st1 : Symtab)
    (h : add_sym_to head name symtype type st = (r, head1, st1)) :
    (∀ x ∈ head1, x = Sym.mk name symtype false type ⟨0⟩ 0 [] st.nextaddr ∨ x ∈ head) ∧
    (r = none ∨ r = some (Sym.mk name symtype false type ⟨0⟩ 0 [] st.nextaddr)) ∧
    st1.Symhead = st.Symhead := by
  unfold add_sym_to at h
  by_cases h1 : sym_name_in name head = true
  · rw [if_pos h1] at h
    simp only [Prod.mk.injEq] at h
    obtain ⟨rfl, rfl, rfl⟩ := h
    exact ⟨fun x hx => Or.inr hx, Or.inl rfl, rfl⟩
  · rw [if_neg h1] at h
    cases head with
    | nil =>
      simp only [Prod.mk.injEq] at h
      obtain ⟨rfl, rfl, rfl⟩ := h
      exact ⟨fun x hx => Or.inl (List.mem_singleton.1 hx), Or.inr rfl, rfl⟩
    | cons first rest =>
      dsimp only at h
      by_cases h2 : st.Globhead = some first.addr
      · rw [if_pos h2] at h
        simp only [Prod.mk.injEq] at h
        obtain ⟨rfl, rfl, rfl⟩ := h
        refine ⟨fun x hx => ?_, Or.inr rfl, rfl⟩
        rcases List.mem_cons.1 hx with hx | hx
        · exact Or.inl hx
        · exact Or.inr hx
      · rw [if_neg h2] at h
        simp only [Prod.mk.injEq] at h
        obtain ⟨rfl, rfl, rfl⟩ := h
        exact ⟨fun x hx => add_sym_append_of_mem _ _ x _ hx, Or.inr rfl, rfl⟩

/-- A symbol added with a type keeps every symbol of the table typed. -/
theorem add_symbol_typed (name : String) (symtype : Nat) (ty : Option Ty) (st st1 : Symtab)
    (sy : Sym) (hty : ty.isSome = true) (hs : syms_typed st)
    (h : add_symbol name symtype ty st = Except.ok (sy, st1)) :
    syms_typed st1 ∧ sy = Sym.mk name symtype false ty ⟨0⟩ 0 [] st.nextaddr := by
  unfold add_symbol at h
  rcases hh : add_sym_to st.Symhead name symtype ty st with ⟨r, head1, st2⟩
  obtain ⟨hmem, hr, _⟩ := add_sym_to_mem _ _ _ _ _ _ _ _ hh
  rw [hh] at h
  rcases hr with rfl | rfl
  · simp [fatal] at h
  · simp only [Except.ok.injEq, Prod.mk.injEq] at h
    obtain ⟨rfl, rfl⟩ := h
    refine ⟨?_, rfl⟩
    intro x hx
    rcases hmem x hx with hx | hx
    · subst hx
      exact ⟨hty, fun p hp => absurd hp (List.not_mem_nil p)⟩
    · exact hs x hx

/-- An assignment to a field of a symbol keeps every symbol typed when it
keeps a type and a typed member list. -/
theorem update_sym_typed (addr : Nat) (f : Sym → Sym)
    (hf1 : ∀ s : Sym, s.type.isSome = true → (f s).type.isSome = true)
    (hf2 : ∀ s : Sym, (∀ p ∈ s.memb, p.type.isSome = true) →
      ∀ p ∈ (f s).memb, p.type.isSome = true) :
    ∀ l : List Sym,
      (∀ x ∈ l, x.type.isSome = true ∧ ∀ p ∈ x.memb, p.type.isSome = true) →
      ∀ x ∈ update_sym addr f l, x.type.isSome = true ∧ ∀ p ∈ x.memb, p.type.isSome = true
  | [], _, x, hx => by simp [update_sym] at hx
  | this :: rest, hl, x, hx => by
    simp only [update_sym, List.mem_cons] at hx
    have hthis := hl this (List.mem_cons_self _ _)
    rcases hx with hx | hx
    · rw [hx]
      split_ifs
      · exact ⟨hf1 this hthis.1, hf2 this hthis.2⟩
      · obtain ⟨n, sy, ha, t, v, c, m, a⟩ := this
        refine ⟨hthis.1, ?_⟩
        intro p hp
        change p ∈ m.map _ at hp
        simp only [List.mem_map] at hp
        obtain ⟨q, hq, rfl⟩ := hp
        split_ifs
        · exact hf1 q (hthis.2 q hq)
        · exact hthis.2 q hq
    · exact update_sym_typed addr f hf1 hf2 rest
        (fun y hy => hl y (List.mem_cons_of_mem _ hy)) x hx

theorem type_typed (lc : Libc) (fuel : Nat) (c : Comp) (t : Option Ty) (c1 : Comp)
    (h : type_ lc fuel c = Except.ok (t, c1)) : t.isSome = true ∧ c1.syms = c.syms := by
  unfold type_ at h
  dsimp only at h
  iterate 12
    rcases ite_ok_cases h with h | h
    · obtain ⟨t1, ht, h⟩ := bind_ok h
      injection ht with ht
      subst ht
      rw [if_neg (Option.some_ne_none _)] at h
      obtain ⟨c2, h2, h⟩ := bind_ok h
      simp only [Except.ok.injEq, Prod.mk.injEq] at h
      obtain ⟨rfl, rfl⟩ := h
      exact ⟨rfl, scan_this_syms _ _ _ _ h2⟩
  obtain ⟨t1, ht, h⟩ := bind_ok h
  injection ht with ht
  subst ht
  rw [if_pos rfl] at h
  obtain ⟨_, _, h⟩ := bind_ok h
  cases h

/-- The leaf `typed_declaration` returns: an A_IDENT node with the type
that was read, without a symbol. -/
theorem typed_declaration_shape (lc : Libc) (fuel : Nat) (c : Comp) (d : ASTnode) (c1 : Comp)
    (h : typed_declaration lc fuel c = Except.ok (d, c1)) :
    (∃ (t : Ty) (v : Litval) (s : Option String),
      d = ASTnode.node A_IDENT (some t) false ASTnode.NULL ASTnode.NULL ASTnode.NULL
        none v s) ∧ c1.syms = c.syms := by
  unfold typed_declaration at h
  obtain ⟨⟨t, c2⟩, h1, h⟩ := bind_ok h
  dsimp only at h
  obtain ⟨c3, h2, h⟩ := bind_ok h
  simp only [Except.ok.injEq, Prod.mk.injEq] at h
  obtain ⟨rfl, rfl⟩ := h
  obtain ⟨ht, e1⟩ := type_typed _ _ _ _ _ h1
  obtain ⟨ty, rfl⟩ := Option.isSome_iff_exists.1 ht
  exact ⟨⟨ty, _, _, rfl⟩, by rw [match_tok_syms _ _ _ _ _ _ h2, e1]⟩

/-- The result of `widen_type` on a typed tree with the types in order
has the types in order, NULL included. -/
theorem widen_type_types_ok_any (n : ASTnode) (t : Option Ty) (m : ASTnode)
    (hn : n.types_ok = true ∧ n.is_typed = true) (h : widen_type n t = Except.ok m) :
    m.types_ok = true := by
  cases hm : m.isNULL with
  | true =>
    cases m with
    | NULL => rfl
    | node _ _ _ _ _ _ _ _ _ => simp [ASTnode.isNULL] at hm
  | false => exact (widen_type_types_ok n t m hn.1 hn.2 h hm).1

theorem print_statement_types_ok (s e p : ASTnode) (hs : s.types_ok = true)
    (he : e.types_ok = true ∧ e.is_typed = true) (h : print_statement s e = Except.ok p) :
    p.types_ok = true := by
  unfold print_statement at h
  obtain ⟨ety, _, h⟩ := bind_ok h
  obtain ⟨et, _, h⟩ := bind_ok h
  dsimp only at h
  obtain ⟨e1, h1, h⟩ := bind_ite_ok h
  injection h with h
  subst h
  have he1 : e1.types_ok = true := by
    split_ifs at h1
    · exact widen_type_types_ok_any e _ e1 he h1
    · injection h1 with h1
      rw [← h1]
      exact he.1
  simp only [mkastnode]
  rw [types_ok_node _ _ _ _ _ _ _ _ _ (by decide), hs, he1]
  rfl

theorem assignment_statement_types_ok (v e a : ASTnode) (t : Ty) (sy : Sym) (lv : Litval)
    (s : Option String) (hsy : sy.type = some t)
    (hv : v = ASTnode.node A_IDENT (some t) false ASTnode.NULL ASTnode.NULL ASTnode.NULL
      (some sy) lv s)
    (he : e.types_ok = true ∧ e.is_typed = true) (h : assignment_statement v e = Except.ok a) :
    a.types_ok = true := by
  subst hv
  unfold assignment_statement at h
  simp only [ASTnode.type, ASTnode.sym] at h
  obtain ⟨vty, hvty, h⟩ := bind_ok h
  injection hvty with hvty
  subst hvty
  obtain ⟨e1, h1, h⟩ := bind_ok h
  obtain ⟨vsym, hvsym, h⟩ := bind_ok h
  injection hvsym with hvsym
  subst hvsym
  dsimp only at h
  injection h with h
  subst h
  have he1 : e1.types_ok = true := by
    unfold widen_expression at h1
    obtain ⟨m, hm, h1⟩ := bind_ok h1
    split_ifs at h1 with hnull
    · obtain ⟨_, _, h1⟩ := bind_ok h1
      obtain ⟨_, _, h1⟩ := bind_ok h1
      obtain ⟨_, _, h1⟩ := bind_ok h1
      cases h1
    · injection h1 with h1
      subst h1
      exact widen_type_types_ok_any e _ m he hm
  simp only [ASTnode.set_rvalue, ASTnode.set_op, ASTnode.set_left, ASTnode.set_type, hsy]
  rw [types_ok_node _ _ _ _ _ _ _ _ _ (by decide), he1]
  rfl

theorem short_assign_stmt_types_ok (lc : Libc) (fuel : Nat) :
    stmt_parser_ok (short_assign_stmt lc fuel) := by
  intro c n c1 hs h
  unfold short_assign_stmt at h
  obtain ⟨⟨v, c2⟩, h1, h⟩ := bind_ok h
  dsimp only at h
  obtain ⟨c3, h2, h⟩ := bind_ok h
  obtain ⟨⟨e, c4⟩, h3, h⟩ := bind_ok h
  dsimp only at h
  obtain ⟨a, h4, h⟩ := bind_ok h
  simp only [Except.ok.injEq, Prod.mk.injEq] at h
  obtain ⟨rfl, rfl⟩ := h
  obtain ⟨⟨t, sy, lv, s, hsy, hv⟩, e1⟩ := variable_types_ok lc fuel c v c2 hs h1
  have e2 := match_tok_syms _ _ _ _ _ _ h2
  obtain ⟨he, e3⟩ := expression_types_ok lc fuel c3 e c4 (by rw [e2, e1]; exact hs) h3
  refine ⟨assignment_statement_types_ok v e a t sy lv s hsy hv he h4, ?_⟩
  rw [e3, e2, e1]
  exact hs

theorem assign_stmt_types_ok (lc : Libc) (fuel : Nat) :
    stmt_parser_ok (assign_stmt lc fuel) := by
  intro c n c1 hs h
  unfold assign_stmt at h
  obtain ⟨⟨a, c2⟩, h1, h⟩ := bind_ok h
  dsimp only at h
  obtain ⟨c3, h2, h⟩ := bind_ok h
  simp only [Except.ok.injEq, Prod.mk.injEq] at h
  obtain ⟨rfl, rfl⟩ := h
  obtain ⟨ha, hs2⟩ := short_assign_stmt_types_ok lc fuel c a c2 hs h1
  exact ⟨ha, by rw [match_tok_syms _ _ _ _ _ _ h2]; exact hs2⟩

/-- The node `declaration_statement` returns: an A_LOCAL node with the
declared type, the widened expression on the left and no other child. -/
theorem declaration_statement_types_ok (d e : ASTnode) (st : Symtab) (this : ASTnode)
    (st1 : Symtab) (t : Ty) (lv : Litval) (s : Option String)
    (hd : d = ASTnode.node A_IDENT (some t) false ASTnode.NULL ASTnode.NULL ASTnode.NULL
      none lv s)
    (he : e.types_ok = true ∧ e.is_typed = true) (hs : syms_typed st)
    (h : declaration_statement d e st = Except.ok (this, st1)) :
    (∃ (l : ASTnode) (sy : Option Sym), l.types_ok = true ∧
      this = ASTnode.node A_LOCAL (some t) false l ASTnode.NULL ASTnode.NULL sy lv s) ∧
    syms_typed st1 := by
  subst hd
  unfold declaration_statement at h
  simp only [ASTnode.type, ASTnode.strlit] at h
  obtain ⟨sty, hsty, h⟩ := bind_ok h
  injection hsty with hsty
  subst hsty
  obtain ⟨newnode, hw, h⟩ := bind_ok h
  split_ifs at h with hnull
  · obtain ⟨_, _, h⟩ := bind_ok h
    obtain ⟨_, _, h⟩ := bind_ok h
    obtain ⟨_, _, h⟩ := bind_ok h
    cases h
  · obtain ⟨sname, hsname, h⟩ := bind_ok h
    injection hsname with hsname
    subst hsname
    cases s with
    | none => cases h
    | some name =>
      dsimp only at h
      obtain ⟨⟨sym, st2⟩, hadd, h⟩ := bind_ok h
      simp only [Except.ok.injEq, Prod.mk.injEq] at h
      obtain ⟨rfl, rfl⟩ := h
      obtain ⟨hs2, _⟩ := add_symbol_typed name ST_VARIABLE (some t) st st2 sym rfl hs hadd
      refine ⟨⟨newnode, _, widen_type_types_ok_any e _ newnode he hw, rfl⟩, ?_⟩
      exact update_sym_typed _ _ (fun x hx => by cases x; exact hx)
        (fun x hx => by cases x; exact hx) _ hs2

theorem types_ok_local (t : Ty) (rv : Bool) (l m r : ASTnode) (sy : Option Sym) (lv : Litval)
    (s : Option String) (hl : l.types_ok = true) (hm : m.types_ok = true)
    (hr : r.types_ok = true) :
    (ASTnode.node A_LOCAL (some t) rv l m r sy lv s).types_ok = true := by
  rw [types_ok_node _ _ _ _ _ _ _ _ _ (by decide), hl, hm, hr]
  rfl

/-- The tree `declaration_stmts` returns: A_LOCAL nodes linked by the middle
child, each without a right child. -/
theorem declaration_stmts_types_ok (lc : Libc) (fuel : Nat) :
    ∀ (k : Nat) (c : Comp) (n : ASTnode) (c1 : Comp), syms_typed c.syms →
      declaration_stmts lc fuel k c = Except.ok (n, c1) →
      (∃ (t : Ty) (rv : Bool) (l m : ASTnode) (sy : Option Sym) (lv : Litval)
        (s : Option String), l.types_ok = true ∧ m.types_ok = true ∧
        n = ASTnode.node A_LOCAL (some t) rv l m ASTnode.NULL sy lv s) ∧
      syms_typed c1.syms := by
  intro k
  induction k with
  | zero =>
    intro c n c1 hs h
    unfold declaration_stmts at h
    obtain ⟨⟨d, c2⟩, h1, h⟩ := bind_ok h
    dsimp only at h
    obtain ⟨c3, h2, h⟩ := bind_ok h
    obtain ⟨⟨e, c4⟩, h3, h⟩ := bind_ok h
    dsimp only at h
    obtain ⟨c5, h4, h⟩ := bind_ok h
    obtain ⟨⟨this, st⟩, h5, h⟩ := bind_ok h
    dsimp only at h
    obtain ⟨⟨t, lv, s, hd⟩, e1⟩ := typed_declaration_shape lc fuel c d c2 h1
    have e2 := match_tok_syms _ _ _ _ _ _ h2
    obtain ⟨he, e3⟩ := expression_types_ok lc fuel c3 e c4 (by rw [e2, e1]; exact hs) h3
    have e4 := match_tok_syms _ _ _ _ _ _ h4
    obtain ⟨⟨l, sy, hl, hthis⟩, hst⟩ := declaration_statement_types_ok d e c5.syms this st
      t lv s hd he (by rw [e4, e3, e2, e1]; exact hs) h5
    split_ifs at h
    simp only [Except.ok.injEq, Prod.mk.injEq] at h
    obtain ⟨rfl, rfl⟩ := h
    exact ⟨⟨t, false, l, ASTnode.NULL, sy, lv, s, hl, rfl, hthis⟩, hst⟩
  | succ k ih =>
    intro c n c1 hs h
    unfold declaration_stmts at h
    obtain ⟨⟨d, c2⟩, h1, h⟩ := bind_ok h
    dsimp only at h
    obtain ⟨c3, h2, h⟩ := bind_ok h
    obtain ⟨⟨e, c4⟩, h3, h⟩ := bind_ok h
    dsimp only at h
    obtain ⟨c5, h4, h⟩ := bind_ok h
    obtain ⟨⟨this, st⟩, h5, h⟩ := bind_ok h
    dsimp only at h
    obtain ⟨⟨t, lv, s, hd⟩, e1⟩ := typed_declaration_shape lc fuel c d c2 h1
    have e2 := match_tok_syms _ _ _ _ _ _ h2
    obtain ⟨he, e3⟩ := expression_types_ok lc fuel c3 e c4 (by rw [e2, e1]; exact hs) h3
    have e4 := match_tok_syms _ _ _ _ _ _ h4
    obtain ⟨⟨l, sy, hl, hthis⟩, hst⟩ := declaration_statement_types_ok d e c5.syms this st
      t lv s hd he (by rw [e4, e3, e2, e1]; exact hs) h5
    split_ifs at h
    · obtain ⟨⟨m, c6⟩, h6, h⟩ := bind_ok h
      simp only [Except.ok.injEq, Prod.mk.injEq] at h
      obtain ⟨rfl, rfl⟩ := h
      obtain ⟨⟨t2, rv2, l2, m2, sy2, lv2, s2, hl2, hm2, rfl⟩, hs6⟩ :=
        ih _ m c6 hst h6
      refine ⟨⟨t, false, l, _, sy, lv, s, hl, ?_, by rw [hthis]; rfl⟩, hs6⟩
      exact types_ok_local t2 rv2 l2 m2 ASTnode.NULL sy2 lv2 s2 hl2 hm2 rfl
    · simp only [Except.ok.injEq, Prod.mk.injEq] at h
      obtain ⟨rfl, rfl⟩ := h
      exact ⟨⟨t, false, l, ASTnode.NULL, sy, lv, s, hl, rfl, hthis⟩, hst⟩

/-- The tree `expression_list` returns: A_GLUE nodes linked by the right
child, each with an expression on the left. -/
theorem expression_list_types_ok (lc : Libc) (fuel : Nat) :
    ∀ (k : Nat) (c : Comp) (n : ASTnode) (c1 : Comp), syms_typed c.syms →
      expression_list lc fuel k c = Except.ok (n, c1) →
      n.types_ok = true ∧ c1.syms = c.syms := by
  intro k
  induction k with
  | zero =>
    intro c n c1 hs h
    unfold expression_list at h
    obtain ⟨⟨e, c2⟩, h1, h⟩ := bind_ok h
    dsimp only at h
    obtain ⟨he, e1⟩ := expression_types_ok lc fuel c e c2 hs h1
    split_ifs at h
    simp only [Except.ok.injEq, Prod.mk.injEq] at h
    obtain ⟨rfl, rfl⟩ := h
    refine ⟨?_, e1⟩
    simp only [mkastnode]
    rw [types_ok_node _ _ _ _ _ _ _ _ _ (by decide), he.1]
    rfl
  | succ k ih =>
    intro c n c1 hs h
    unfold expression_list at h
    obtain ⟨⟨e, c2⟩, h1, h⟩ := bind_ok h
    dsimp only at h
    obtain ⟨he, e1⟩ := expression_types_ok lc fuel c e c2 hs h1
    split_ifs at h
    · obtain ⟨c3, h2, h⟩ := bind_ok h
      obtain ⟨⟨l, c4⟩, h3, h⟩ := bind_ok h
      simp only [Except.ok.injEq, Prod.mk.injEq] at h
      obtain ⟨rfl, rfl⟩ := h
      have e2 := scan_this_syms _ _ _ _ h2
      obtain ⟨hl, e3⟩ := ih c3 l c4 (by rw [e2, e1]; exact hs) h3
      refine ⟨?_, by rw [e3, e2, e1]⟩
      simp only [mkastnode]
      rw [types_ok_node _ _ _ _ _ _ _ _ _ (by decide), he.1, hl]
      rfl
    · simp only [Except.ok.injEq, Prod.mk.injEq] at h
      obtain ⟨rfl, rfl⟩ := h
      refine ⟨?_, e1⟩
      simp only [mkastnode]
      rw [types_ok_node _ _ _ _ _ _ _ _ _ (by decide), he.1]
      rfl

theorem function_call_types_ok (lc : Libc) (fuel : Nat) :
    stmt_parser_ok (function_call lc fuel) := by
  intro c n c1 hs h
  unfold function_call at h
  dsimp only at h
  obtain ⟨c2, h1, h⟩ := bind_ok h
  obtain ⟨c3, h2, h⟩ := bind_ok h
  obtain ⟨⟨e, c4⟩, h3, h⟩ := bind_ite_ok h
  dsimp only at h
  obtain ⟨c5, h4, h⟩ := bind_ok h
  obtain ⟨c6, h5, h⟩ := bind_ok h
  simp only [Except.ok.injEq, Prod.mk.injEq] at h
  obtain ⟨rfl, rfl⟩ := h
  have e1 := scan_this_syms _ _ _ _ h1
  have e2 := match_tok_syms _ _ _ _ _ _ h2
  have e4 := match_tok_syms _ _ _ _ _ _ h4
  have e5 := match_tok_syms _ _ _ _ _ _ h5
  have he : e.types_ok = true ∧ c4.syms = c3.syms := by
    split_ifs at h3
    · exact expression_list_types_ok lc fuel fuel c3 e c4 (by rw [e2, e1]; exact hs) h3
    · simp only [Except.ok.injEq, Prod.mk.injEq] at h3
      obtain ⟨rfl, rfl⟩ := h3
      exact ⟨rfl, rfl⟩
  refine ⟨?_, by rw [e5, e4, he.2, e2, e1]; exact hs⟩
  simp only [mkastnode, mkastleaf, ASTnode.set_strlit, ASTnode.types_ok, if_true,
    ASTnode.is_callee, he.1]
  rfl

theorem types_ok_stmt (op : Nat) (l m r : ASTnode) (hop : op ≠ A_FUNCCALL)
    (hu : untyped_op op = true) (hl : l.types_ok = true) (hm : m.types_ok = true)
    (hr : r.types_ok = true) : (mkastnode op l m r).types_ok = true := by
  simp only [mkastnode]
  rw [types_ok_node _ _ _ _ _ _ _ _ _ hop, hu, hl, hm, hr]
  rfl

theorem if_stmt_types_ok (lc : Libc) (fuel : Nat) (sb : Comp → Res (ASTnode × Comp))
    (hsb : stmt_parser_ok sb) : stmt_parser_ok (if_stmt lc fuel sb) := by
  intro c n c1 hs h
  unfold if_stmt at h
  obtain ⟨c2, h1, h⟩ := bind_ok h
  obtain ⟨c3, h2, h⟩ := bind_ok h
  obtain ⟨⟨e, c4⟩, h3, h⟩ := bind_ok h
  dsimp only at h
  obtain ⟨c5, h4, h⟩ := bind_ok h
  obtain ⟨⟨t, c6⟩, h5, h⟩ := bind_ok h
  dsimp only at h
  have e1 := scan_this_syms _ _ _ _ h1
  have e2 := match_tok_syms _ _ _ _ _ _ h2
  obtain ⟨he, e3⟩ := relational_expression_types_ok lc fuel c3 e c4
    (by rw [e2, e1]; exact hs) h3
  have e4 := match_tok_syms _ _ _ _ _ _ h4
  obtain ⟨ht, hs6⟩ := hsb c5 t c6 (by rw [e4, e3, e2, e1]; exact hs) h5
  by_cases helse : c6.lex.Thistoken.token = T_ELSE
  · rw [if_pos helse] at h
    obtain ⟨c7, h6, h⟩ := bind_ok h
    obtain ⟨⟨f, c8⟩, h7, h⟩ := bind_ok h
    simp only [Except.ok.injEq, Prod.mk.injEq] at h
    obtain ⟨rfl, rfl⟩ := h
    obtain ⟨hf, hs8⟩ := hsb c7 f c8 (by rw [scan_this_syms _ _ _ _ h6]; exact hs6) h7
    exact ⟨types_ok_stmt _ _ _ _ (by decide) (by decide) he.1 ht hf, hs8⟩
  · rw [if_neg helse] at h
    obtain ⟨⟨f, c8⟩, h7, h⟩ := bind_ok h
    simp only [Except.ok.injEq, Prod.mk.injEq] at h7 h
    obtain ⟨rfl, rfl⟩ := h7
    obtain ⟨rfl, rfl⟩ := h
    exact ⟨types_ok_stmt _ _ _ _ (by decide) (by decide) he.1 ht rfl, hs6⟩

theorem while_stmt_types_ok (lc : Libc) (fuel : Nat) (sb : Comp → Res (ASTnode × Comp))
    (hsb : stmt_parser_ok sb) : stmt_parser_ok (while_stmt lc fuel sb) := by
  intro c n c1 hs h
  unfold while_stmt at h
  obtain ⟨c2, h1, h⟩ := bind_ok h
  obtain ⟨c3, h2, h⟩ := bind_ok h
  obtain ⟨⟨e, c4⟩, h3, h⟩ := bind_ok h
  dsimp only at h
  obtain ⟨c5, h4, h⟩ := bind_ok h
  obtain ⟨⟨t, c6⟩, h5, h⟩ := bind_ok h
  simp only [Except.ok.injEq, Prod.mk.injEq] at h
  obtain ⟨rfl, rfl⟩ := h
  have e1 := scan_this_syms _ _ _ _ h1
  have e2 := match_tok_syms _ _ _ _ _ _ h2
  obtain ⟨he, e3⟩ := relational_expression_types_ok lc fuel c3 e c4
    (by rw [e2, e1]; exact hs) h3
  have e4 := match_tok_syms _ _ _ _ _ _ h4
  obtain ⟨ht, hs6⟩ := hsb c5 t c6 (by rw [e4, e3, e2, e1]; exact hs) h5
  exact ⟨types_ok_stmt _ _ _ _ (by decide) (by decide) he.1 ht rfl, hs6⟩

theorem for_stmt_types_ok (lc : Libc) (fuel : Nat) (sb : Comp → Res (ASTnode × Comp))
    (hsb : stmt_parser_ok sb) : stmt_parser_ok (for_stmt lc fuel sb) := by
  intro c n c1 hs h
  obtain ⟨c2, c3, i, c4, e, c5, c6, send, c7, c8, s, h1, h2, h3, h4, h5, h6, h7, h8, rfl⟩ :=
    (for_stmt_shape lc fuel sb c n c1).1 h
  have e1 := scan_this_syms _ _ _ _ h1
  have e2 := match_tok_syms _ _ _ _ _ _ h2
  obtain ⟨hi, hs4⟩ := assign_stmt_types_ok lc fuel c3 i c4 (by rw [e2, e1]; exact hs) h3
  obtain ⟨he, e4⟩ := relational_expression_types_ok lc fuel c4 e c5 hs4 h4
  have e5 := match_tok_syms _ _ _ _ _ _ h5
  obtain ⟨hsend, hs7⟩ := short_assign_stmt_types_ok lc fuel c6 send c7
    (by rw [e5, e4]; exact hs4) h6
  have e7 := match_tok_syms _ _ _ _ _ _ h7
  obtain ⟨hbody, hs1⟩ := hsb c8 s c1 (by rw [e7]; exact hs7) h8
  exact ⟨types_ok_stmt _ _ _ _ (by decide) (by decide) he.1
    (types_ok_stmt _ _ _ _ (by decide) (by decide) hbody rfl hsend) hi, hs1⟩

theorem procedural_stmt_types_ok (lc : Libc) (fuel : Nat) (sb : Comp → Res (ASTnode × Comp))
    (hsb : stmt_parser_ok sb) : stmt_parser_ok (procedural_stmt lc fuel sb) := by
  intro c n c1 hs h
  unfold procedural_stmt at h
  dsimp only at h
  rcases ite_ok_cases h with h | h
  · simp only [Except.ok.injEq, Prod.mk.injEq] at h
    obtain ⟨rfl, rfl⟩ := h
    exact ⟨rfl, hs⟩
  rcases ite_ok_cases h with h | h
  · obtain ⟨c2, h1, h⟩ := bind_ok h
    obtain ⟨c3, h2, h⟩ := bind_ok h
    obtain ⟨c4, h3, h⟩ := bind_ok h
    obtain ⟨c5, h4, h⟩ := bind_ok h
    obtain ⟨c6, h5, h⟩ := bind_ok h
    obtain ⟨⟨right, c7⟩, h6, h⟩ := bind_ok h
    dsimp only at h
    obtain ⟨c8, h7, h⟩ := bind_ok h
    obtain ⟨c9, h8, h⟩ := bind_ok h
    obtain ⟨p, h9, h⟩ := bind_ok h
    simp only [Except.ok.injEq, Prod.mk.injEq] at h
    obtain ⟨rfl, rfl⟩ := h
    have e1 := scan_this_syms _ _ _ _ h1
    have e2 := match_tok_syms _ _ _ _ _ _ h2
    have e3 := match_tok_syms _ _ _ _ _ _ h3
    have e4 := scan_this_syms _ _ _ _ h4
    have e5 := match_tok_syms _ _ _ _ _ _ h5
    obtain ⟨hr, e6⟩ := expression_types_ok lc fuel c6 right c7
      (by rw [e5, e4, e3, e2, e1]; exact hs) h6
    have e7 := match_tok_syms _ _ _ _ _ _ h7
    have e8 := match_tok_syms _ _ _ _ _ _ h8
    refine ⟨print_statement_types_ok _ right p ?_ hr h9, ?_⟩
    · simp only [mkastleaf, ASTnode.set_strlit]
      rw [types_ok_node _ _ _ _ _ _ _ _ _ (by decide)]
      rfl
    · rw [e8, e7, e6, e5, e4, e3, e2, e1]
      exact hs
  rcases ite_ok_cases h with h | h
  · exact if_stmt_types_ok lc fuel sb hsb c n c1 hs h
  rcases ite_ok_cases h with h | h
  · exact while_stmt_types_ok lc fuel sb hsb c n c1 hs h
  rcases ite_ok_cases h with h | h
  · exact for_stmt_types_ok lc fuel sb hsb c n c1 hs h
  rcases ite_ok_cases h with h | h
  · obtain ⟨c2, h1, h⟩ := bind_ok h
    have e1 := scan_peek_syms _ _ _ _ h1
    rcases ite_ok_cases h with h | h
    · exact (fun r => ⟨r.1, r.2⟩)
        (assign_stmt_types_ok lc fuel c2 n c1 (by rw [e1]; exact hs) h)
    rcases ite_ok_cases h with h | h
    · exact function_call_types_ok lc fuel c2 n c1 (by rw [e1]; exact hs) h
    · obtain ⟨_, _, h⟩ := bind_ok h
      cases h
  · simp only [Except.ok.injEq, Prod.mk.injEq] at h
    obtain ⟨rfl, rfl⟩ := h
    exact ⟨rfl, hs⟩

theorem procedural_stmts_loop_types_ok (lc : Libc) (fuel : Nat)
    (sb : Comp → Res (ASTnode × Comp)) (hsb : stmt_parser_ok sb) :
    ∀ (k : Nat) (left : ASTnode) (c : Comp) (n : ASTnode) (c1 : Comp),
      left.types_ok = true → syms_typed c.syms →
      procedural_stmts_loop lc fuel sb k left c = Except.ok (n, c1) →
      n.types_ok = true ∧ syms_typed c1.syms := by
  intro k
  induction k with
  | zero =>
    intro left c n c1 hl hs h
    unfold procedural_stmts_loop at h
    obtain ⟨⟨right, c2⟩, h1, h⟩ := bind_ok h
    dsimp only at h
    obtain ⟨hr, hs2⟩ := procedural_stmt_types_ok lc fuel sb hsb c right c2 hs h1
    split_ifs at h
    simp only [Except.ok.injEq, Prod.mk.injEq] at h
    obtain ⟨rfl, rfl⟩ := h
    exact ⟨hl, hs2⟩
  | succ k ih =>
    intro left c n c1 hl hs h
    unfold procedural_stmts_loop at h
    obtain ⟨⟨right, c2⟩, h1, h⟩ := bind_ok h
    dsimp only at h
    obtain ⟨hr, hs2⟩ := procedural_stmt_types_ok lc fuel sb hsb c right c2 hs h1
    by_cases hnull : right.isNULL = true
    · rw [if_pos hnull] at h
      simp only [Except.ok.injEq, Prod.mk.injEq] at h
      obtain ⟨rfl, rfl⟩ := h
      exact ⟨hl, hs2⟩
    · rw [if_neg hnull] at h
      refine ih _ c2 n c1 ?_ hs2 h
      split_ifs
      · exact hr
      · exact types_ok_stmt _ _ _ _ (by decide) (by decide) hl rfl hr

/-- A tree with the types in order stays so when a tree with the types in
order becomes its right child. -/
theorem set_right_types_ok (s d : ASTnode) (hs : s.types_ok = true)
    (hd : d.types_ok = true) : (ASTnode.set_right s d).types_ok = true := by
  cases d with
  | NULL => rfl
  | node op ty rv l m r sym v str =>
    simp only [ASTnode.set_right]
    by_cases hop : op = A_FUNCCALL
    · subst hop
      simp only [ASTnode.types_ok, if_true, Bool.and_eq_true] at hd ⊢
      exact ⟨hd.1, hs⟩
    · rw [types_ok_node _ _ _ _ _ _ _ _ _ hop] at hd ⊢
      simp only [Bool.and_eq_true] at hd ⊢
      exact ⟨hd.1, hs⟩

theorem statement_block_types_ok (lc : Libc) :
    ∀ fuel : Nat, stmt_parser_ok (statement_block lc fuel) := by
  intro fuel
  induction fuel with
  | zero =>
    intro c n c1 hs h
    simp [statement_block] at h
  | succ fuel ih =>
    intro c n c1 hs h
    unfold statement_block at h
    obtain ⟨c2, h1, h⟩ := bind_ok h
    have e1 := match_tok_syms _ _ _ _ _ _ h1
    have hs2 : syms_typed c2.syms := by rw [e1]; exact hs
    rcases ite_ok_cases h with h | h
    · simp only [Except.ok.injEq, Prod.mk.injEq] at h
      obtain ⟨rfl, rfl⟩ := h
      exact ⟨rfl, hs2⟩
    · obtain ⟨⟨d, c3⟩, h2, h⟩ := bind_ite_ok h
      dsimp only at h
      obtain ⟨⟨s, c4⟩, h3, h⟩ := bind_ok h
      dsimp only at h
      obtain ⟨c5, h4, h⟩ := bind_ok h
      simp only [Except.ok.injEq, Prod.mk.injEq] at h
      obtain ⟨rfl, rfl⟩ := h
      have hd : d.types_ok = true ∧ syms_typed c3.syms := by
        split_ifs at h2
        · obtain ⟨⟨t, rv, l, m, sy, lv, str, hl, hm, rfl⟩, hs3⟩ :=
            declaration_stmts_types_ok lc fuel fuel c2 d c3 hs2 h2
          exact ⟨types_ok_local t rv l m ASTnode.NULL sy lv str hl hm rfl, hs3⟩
        · simp only [Except.ok.injEq, Prod.mk.injEq] at h2
          obtain ⟨rfl, rfl⟩ := h2
          exact ⟨rfl, hs2⟩
      obtain ⟨hsok, hs4⟩ := procedural_stmts_loop_types_ok lc fuel (statement_block lc fuel)
        ih fuel ASTnode.NULL c3 s c4 rfl hd.2 h3
      refine ⟨?_, by rw [match_tok_syms _ _ _ _ _ _ h4]; exact hs4⟩
      split_ifs
      · exact hsok
      · exact set_right_types_ok s d hsok hd.1

theorem typed_declaration_list_typed (lc : Libc) (fuel : Nat) :
    ∀ (k : Nat) (c : Comp) (n : ASTnode) (c1 : Comp),
      typed_declaration_list lc fuel k c = Except.ok (n, c1) →
      n.params_typed = true ∧ c1.syms = c.syms := by
  intro k
  induction k with
  | zero =>
    intro c n c1 h
    unfold typed_declaration_list at h
    obtain ⟨⟨first, c2⟩, h1, h⟩ := bind_ok h
    dsimp only at h
    obtain ⟨⟨t, v, s, rfl⟩, e1⟩ := typed_declaration_shape lc fuel c first c2 h1
    split_ifs at h
    simp only [Except.ok.injEq, Prod.mk.injEq] at h
    obtain ⟨rfl, rfl⟩ := h
    exact ⟨rfl, e1⟩
  | succ k ih =>
    intro c n c1 h
    unfold typed_declaration_list at h
    obtain ⟨⟨first, c2⟩, h1, h⟩ := bind_ok h
    dsimp only at h
    obtain ⟨⟨t, v, s, rfl⟩, e1⟩ := typed_declaration_shape lc fuel c first c2 h1
    split_ifs at h
    · simp only [Except.ok.injEq, Prod.mk.injEq] at h
      obtain ⟨rfl, rfl⟩ := h
      exact ⟨rfl, e1⟩
    · obtain ⟨c3, h2, h⟩ := bind_ok h
      obtain ⟨⟨nxt, c4⟩, h3, h⟩ := bind_ok h
      simp only [Except.ok.injEq, Prod.mk.injEq] at h
      obtain ⟨rfl, rfl⟩ := h
      obtain ⟨hn, e3⟩ := ih c3 nxt c4 h3
      refine ⟨?_, by rw [e3, scan_this_syms _ _ _ _ h2, e1]⟩
      simp only [ASTnode.set_mid, ASTnode.params_typed, hn]
      rfl

/-- The node `function_prototype` returns: a typed A_IDENT node with the
list of the parameters, each with a type, on the left. -/
theorem function_prototype_typed (lc : Libc) (fuel : Nat) (c : Comp) (func : ASTnode)
    (c1 : Comp) (h : function_prototype lc fuel c = Except.ok (func, c1)) :
    (∃ (t : Ty) (plist : ASTnode) (v : Litval) (s : Option String),
      plist.params_typed = true ∧
      func = ASTnode.node A_IDENT (some t) false plist ASTnode.NULL ASTnode.NULL none v s) ∧
    c1.syms = c.syms := by
  unfold function_prototype at h
  obtain ⟨⟨f0, c2⟩, h1, h⟩ := bind_ok h
  dsimp only at h
  obtain ⟨c3, h2, h⟩ := bind_ok h
  obtain ⟨⟨t, v, s, rfl⟩, e1⟩ := typed_declaration_shape lc fuel c f0 c2 h1
  have e2 := match_tok_syms _ _ _ _ _ _ h2
  rcases ite_ok_cases h with h | h
  · obtain ⟨c6, h5, h⟩ := bind_ok h
    obtain ⟨⟨pl, c7⟩, hy, h⟩ := bind_ok h
    simp only [Except.ok.injEq, Prod.mk.injEq] at hy
    obtain ⟨rfl, rfl⟩ := hy
    dsimp only at h
    obtain ⟨c5, h4, h⟩ := bind_ok h
    simp only [Except.ok.injEq, Prod.mk.injEq] at h
    obtain ⟨rfl, rfl⟩ := h
    exact ⟨⟨t, ASTnode.NULL, v, s, rfl, rfl⟩,
      by rw [match_tok_syms _ _ _ _ _ _ h4, scan_this_syms _ _ _ _ h5, e2, e1]⟩
  · obtain ⟨⟨plist, c4⟩, h3, h⟩ := bind_ok h
    dsimp only at h
    obtain ⟨c5, h4, h⟩ := bind_ok h
    simp only [Except.ok.injEq, Prod.mk.injEq] at h
    obtain ⟨rfl, rfl⟩ := h
    obtain ⟨hp, e3⟩ := typed_declaration_list_typed lc fuel fuel c3 plist c4 h3
    exact ⟨⟨t, plist, v, s, hp, rfl⟩, by rw [match_tok_syms _ _ _ _ _ _ h4, e3, e2, e1]⟩

theorem sym_at_mem (a : Nat) (s : Sym) : ∀ l : List Sym, sym_at a l = some s → s ∈ l
  | [], h => by simp [sym_at] at h
  | x :: l, h => by
    simp only [sym_at] at h
    split_ifs at h
    · injection h with h
      rw [← h]
      exact List.mem_cons_self _ _
    · exact List.mem_cons_of_mem _ (sym_at_mem a s l h)

theorem list_from_mem (p : Option Nat) (s : Sym) : ∀ l : List Sym, s ∈ list_from p l → s ∈ l
  | [], h => by simp [list_from] at h
  | x :: l, h => by
    simp only [list_from] at h
    split_ifs at h
    · exact h
    · exact List.mem_cons_of_mem _ (list_from_mem p s l h)

theorem add_params_typed (fa : Nat) : ∀ (plist : ASTnode) (cnt : Int) (st : Symtab)
    (cnt1 : Int) (st1 : Symtab), plist.params_typed = true → syms_typed st →
    add_params fa plist cnt st = Except.ok (cnt1, st1) → syms_typed st1
  | .NULL, cnt, st, cnt1, st1, _, hs, h => by
    simp only [add_params, Except.ok.injEq, Prod.mk.injEq] at h
    rw [← h.2]
    exact hs
  | .node op ptype rv l pmid r sym v pstrlit, cnt, st, cnt1, st1, hp, hs, h => by
    simp only [ASTnode.params_typed, Bool.and_eq_true] at hp
    unfold add_params at h
    cases pstrlit with
    | none => simp at h
    | some pname =>
      cases hfa : sym_at fa st.Symhead with
      | none => simp [hfa] at h
      | some funcptr =>
        simp only [hfa] at h
        rcases hadd : add_sym_to funcptr.memb pname ST_VARIABLE ptype st with ⟨r1, memb, st2⟩
        obtain ⟨hmem, hr, hS⟩ := add_sym_to_mem _ _ _ _ _ _ _ _ hadd
        rw [hadd] at h
        rcases hr with rfl | rfl
        · simp at h
        · dsimp only at h
          refine add_params_typed fa pmid _ _ cnt1 st1 hp.2 ?_ h
          have hfm := hs funcptr (sym_at_mem fa funcptr _ hfa)
          have hmemb : ∀ x ∈ memb, x.type.isSome = true := by
            intro x hx
            rcases hmem x hx with hx | hx
            · rw [hx]
              exact hp.1
            · exact hfm.2 x hx
          refine update_sym_typed fa _ (fun x hx => by cases x; exact hx) ?_ _
            (by rw [hS]; exact hs)
          intro x _ p hpm
          cases x
          change p ∈ memb.map _ at hpm
          simp only [List.mem_map] at hpm
          obtain ⟨q, hq, rfl⟩ := hpm
          split_ifs
          · have := hmemb q hq
            cases q
            exact this
          · exact hmemb q hq

theorem add_function_typed (func : ASTnode) (st : Symtab) (r : Int) (st1 : Symtab) (t : Ty)
    (plist : ASTnode) (v : Litval) (s : Option String) (hp : plist.params_typed = true)
    (hf : func = ASTnode.node A_IDENT (some t) false plist ASTnode.NULL ASTnode.NULL none v s)
    (hs : syms_typed st) (h : add_function func plist st = Except.ok (r, st1)) :
    syms_typed st1 := by
  subst hf
  unfold add_function at h
  simp only [ASTnode.strlit, ASTnode.type] at h
  obtain ⟨fstr, hfstr, h⟩ := bind_ok h
  injection hfstr with hfstr
  subst hfstr
  obtain ⟨ftype, hftype, h⟩ := bind_ok h
  injection hftype with hftype
  subst hftype
  cases s with
  | none => cases h
  | some fname =>
    dsimp only at h
    rcases hadd : add_sym_to st.Symhead fname ST_FUNCTION (some t) st with ⟨r1, head, st2⟩
    obtain ⟨hmem, hr, hS⟩ := add_sym_to_mem _ _ _ _ _ _ _ _ hadd
    rw [hadd] at h
    rcases hr with rfl | rfl
    · dsimp only at h
      cases hfind : find_symbol (some fname) st with
      | none => simp [hfind] at h
      | some funcptr =>
        simp only [hfind] at h
        split_ifs at h
        · split at h <;> cases h
        · obtain ⟨_, _, h⟩ := bind_ok h
          simp only [Except.ok.injEq, Prod.mk.injEq] at h
          rw [← h.2]
          exact hs
    · dsimp only at h
      obtain ⟨⟨paramcnt, st3⟩, hpar, h⟩ := bind_ok h
      simp only [Except.ok.injEq, Prod.mk.injEq] at h
      obtain ⟨_, rfl⟩ := h
      have hs2 : syms_typed { st2 with Symhead := head } := by
        intro x hx
        rcases hmem x hx with hx | hx
        · rw [hx]
          exact ⟨rfl, fun p hp => absurd hp (List.not_mem_nil p)⟩
        · exact hs x hx
      have hs3 := add_params_typed _ plist 0 _ paramcnt st3 hp hs2 hpar
      exact update_sym_typed _ _ (fun x hx => by cases x; exact hx)
        (fun x hx => by cases x; exact hx) _ hs3

theorem declare_function_typed (func : ASTnode) (c c1 : Comp) (t : Ty) (plist : ASTnode)
    (v : Litval) (s : Option String) (hp : plist.params_typed = true)
    (hf : func = ASTnode.node A_IDENT (some t) false plist ASTnode.NULL ASTnode.NULL none v s)
    (hs : syms_typed c.syms) (h : declare_function func c = Except.ok c1) :
    syms_typed c1.syms := by
  unfold declare_function at h
  obtain ⟨fleft, hl, h⟩ := bind_ok h
  have hfl : fleft = plist := by
    rw [hf] at hl
    simp only [ASTnode.left, Except.ok.injEq] at hl
    exact hl.symm
  subst hfl
  obtain ⟨⟨r, st⟩, hadd, h⟩ := bind_ok h
  dsimp only at h
  obtain ⟨fname, _, h⟩ := bind_ok h
  have hst := add_function_typed func c.syms r st t fleft v s hp hf hs hadd
  split_ifs at h
  · cases h
  · cases hfind : find_symbol fname st with
    | none => simp [hfind] at h
    | some this0 =>
      simp only [hfind] at h
      obtain ⟨g, _, h⟩ := bind_ok h
      injection h with h
      subst h
      exact update_sym_typed _ _ (fun x hx => by cases x; exact hx)
        (fun x hx => by cases x; exact hx) _ hst

theorem gen_func_statement_block_typed (lc : Libc) (fuel : Nat) (s : ASTnode) (c c1 : Comp)
    (hs : syms_typed c.syms) (h : gen_func_statement_block lc fuel s c = Except.ok c1) :
    syms_typed c1.syms := by
  unfold gen_func_statement_block at h
  obtain ⟨⟨_, g⟩, _, h⟩ := bind_ok h
  injection h with h
  subst h
  intro x hx
  exact hs x (list_from_mem _ x _ hx)

theorem function_declaration_typed (lc : Libc) (fuel : Nat) (c c1 : Comp)
    (hs : syms_typed c.syms) (h : function_declaration lc fuel c = Except.ok c1) :
    syms_typed c1.syms := by
  unfold function_declaration at h
  obtain ⟨⟨func, c2⟩, h1, h⟩ := bind_ok h
  dsimp only at h
  obtain ⟨⟨t, plist, v, s, hp, hf⟩, e1⟩ := function_prototype_typed lc fuel c func c2 h1
  have hs2 : syms_typed c2.syms := by rw [e1]; exact hs
  rcases ite_ok_cases h with h | h
  · obtain ⟨fleft, hl, h⟩ := bind_ok h
    have hfl : fleft = plist := by
      rw [hf] at hl
      simp only [ASTnode.left, Except.ok.injEq] at hl
      exact hl.symm
    subst hfl
    obtain ⟨⟨r, st⟩, hadd, h⟩ := bind_ok h
    dsimp only at h
    rw [scan_this_syms _ _ _ _ h]
    exact add_function_typed func c2.syms r st t fleft v s hp hf hs2 hadd
  · obtain ⟨c3, h2, h⟩ := bind_ok h
    obtain ⟨⟨body, c4⟩, h3, h⟩ := bind_ok h
    dsimp only at h
    have hs3 := declare_function_typed func c2 c3 t plist v s hp hf hs2 h2
    obtain ⟨_, hs4⟩ := statement_block_types_ok lc fuel c3 body c4 hs3 h3
    exact gen_func_statement_block_typed lc fuel body c4 c1 hs4 h

/-- The steps of `first_body` when it succeeds. -/
theorem first_body_ok (input : List Char) (n : ASTnode) (c3 : Comp)
    (h : first_body input = Except.ok (n, c3)) :
    ∃ (c0 : Comp) (func : ASTnode) (c1 c2 : Comp),
      main_start libc_unused 60 input "in.al" = Except.ok c0 ∧
      function_prototype libc_unused 60 c0 = Except.ok (func, c1) ∧
      declare_function func c1 = Except.ok c2 ∧
      statement_block libc_unused 60 c2 = Except.ok (n, c3) := by
  unfold first_body at h
  obtain ⟨c0, h0, h⟩ := bind_ok h
  obtain ⟨⟨func, c1⟩, h1, h⟩ := bind_ok h
  dsimp only at h
  obtain ⟨c2, h2, h⟩ := bind_ok h
  exact ⟨c0, func, c1, c2, h0, h1, h2, h⟩

/-- C33 (the claim does not hold): in the body of
`void f(int32 y) { int32 x = 1; if (x < y) { printf("%d\n", x); } x = 2; g(y); }`
the A_LOCAL node at the root is typed, but the A_GLUE node on its right, the
A_IF node, the A_PRINT node, the A_STRLIT leaf, the A_FUNCCALL node and
the A_IDENT leaf with the name `g` have no type. -/
theorem statement_nodes_have_no_type :
    (first_body ("void f(int32 y) \x7b int32 x = 1; if (x < y) \x7b " ++
      "printf(\"%d\\n\", x); \x7d x = 2; g(y); \x7d").toList).map
      (fun p => [p.1.op_type, (p.1.at_path [2]).op_type, (p.1.at_path [2, 0, 0]).op_type,
        (p.1.at_path [2, 0, 0, 1]).op_type, (p.1.at_path [2, 0, 0, 1, 0]).op_type,
        (p.1.at_path [2, 2]).op_type, (p.1.at_path [2, 2, 0]).op_type]) =
      Except.ok [some (A_LOCAL, some ty_int32), some (A_GLUE, none), some (A_IF, none),
        some (A_PRINT, none), some (A_STRLIT, none), some (A_FUNCCALL, none),
        some (A_IDENT, none)] := by
  decide!

/-- C33, amended: when every symbol of the table and every parameter has a
type, each tree `statement_block` returns has the types in order: a node has
no type exactly when it is a GLUE, IF, WHILE, FOR, PRINT, STRLIT or FUNCCALL
node or the leaf with the name of the called function on the left of a
FUNCCALL node, and every other node has a type.  The table keeps the
property: it holds after the parse of the block, it holds for the table
`declare_function` hands to the parse of the body, and it holds after
`function_declaration`. -/
theorem function_body_types (lc : Libc) (fuel : Nat) (c : Comp) (hs : syms_typed c.syms) :
    (∀ (n : ASTnode) (c1 : Comp), statement_block lc fuel c = Except.ok (n, c1) →
      n.types_ok = true ∧ syms_typed c1.syms) ∧
    (∀ (func : ASTnode) (c1 c2 : Comp) (n : ASTnode) (c3 : Comp),
      function_prototype lc fuel c = Except.ok (func, c1) →
      declare_function func c1 = Except.ok c2 →
      statement_block lc fuel c2 = Except.ok (n, c3) →
      syms_typed c2.syms ∧ n.types_ok = true) ∧
    (∀ c1 : Comp, function_declaration lc fuel c = Except.ok c1 → syms_typed c1.syms) := by
  refine ⟨fun n c1 h => statement_block_types_ok lc fuel c n c1 hs h, ?_,
    fun c1 h => function_declaration_typed lc fuel c c1 hs h⟩
  intro func c1 c2 n c3 h1 h2 h3
  obtain ⟨⟨t, plist, v, s, hp, hf⟩, e1⟩ := function_prototype_typed lc fuel c func c1 h1
  have hs2 := declare_function_typed func c1 c2 t plist v s hp hf (by rw [e1]; exact hs) h2
  exact ⟨hs2, (statement_block_types_ok lc fuel c2 n c3 hs2 h3).1⟩

/-- The body of `void f(int32 y) { int32 x = 1; if (x < y) { printf("%d\n",
x); } x = 2; g(y); }` is parsed and has the types in order. -/
theorem function_body_types_witness :
    syms_typed Symtab.init ∧
    (first_body ("void f(int32 y) \x7b int32 x = 1; if (x < y) \x7b " ++
      "printf(\"%d\\n\", x); \x7d x = 2; g(y); \x7d").toList).map
      (fun p => p.1.types_ok) = Except.ok true := by
  have hok : (first_body ("void f(int32 y) \x7b int32 x = 1; if (x < y) \x7b " ++
      "printf(\"%d\\n\", x); \x7d x = 2; g(y); \x7d").toList).toBool = true := by
    decide!
  have hinit : syms_typed Symtab.init := by decide
  refine ⟨hinit, ?_⟩
  cases h : first_body ("void f(int32 y) \x7b int32 x = 1; if (x < y) \x7b " ++
      "printf(\"%d\\n\", x); \x7d x = 2; g(y); \x7d").toList with
  | error e =>
    rw [h] at hok
    cases hok
  | ok p =>
    obtain ⟨n, c3⟩ := p
    obtain ⟨c0, func, c1, c2, h0, h1, h2, h3⟩ := first_body_ok _ n c3 h
    have hs0 : syms_typed c0.syms := by
      unfold main_start at h0
      obtain ⟨c, hc, h0⟩ := bind_ok h0
      injection h0 with h0
      rw [← h0]
      have := scan_this_syms _ _ _ _ hc
      exact this ▸ hinit
    have := (function_body_types libc_unused 60 c0 hs0).2.1 func c1 c2 n c3 h1 h2 h3
    simp only [Except.map, this.2]

/-! ## Temporaries -/

theorem trender_append (a b : List Tline) : trender (a ++ b) = trender a ++ trender b := by
  induction a with
  | nil => simp [trender]
  | cons x rest ih => simp [trender, ih, String.append_assoc]

theorem fresh_temps_append (a b : List Tline) :
    fresh_temps (a ++ b) = fresh_temps a ++ fresh_temps b := by
  induction a with
  | nil => simp [fresh_temps]
  | cons x rest ih => cases x <;> simp [fresh_temps, ih]

theorem tstep_refl (p : Prop) (g : Genst) : tstep p g g := by
  refine ⟨[], ⟨?_, le_refl _, ?_, ?_, ?_⟩, ?_⟩
  · simp [trender]
  · simp [fresh_temps]
  · intro t ht; simp [fresh_temps] at ht
  · intro x hx; simp at hx
  · intro _ x hx; simp at hx

theorem tstep_trans {p q : Prop} {g1 g2 g3 : Genst} (h1 : tstep p g1 g2)
    (h2 : tstep q g2 g3) : tstep (p ∧ q) g1 g3 := by
  obtain ⟨a, ⟨ha1, ha2, ha3, ha4, ha5⟩, ha6⟩ := h1
  obtain ⟨b, ⟨hb1, hb2, hb3, hb4, hb5⟩, hb6⟩ := h2
  refine ⟨a ++ b, ⟨?_, le_trans ha2 hb2, ?_, ?_, ?_⟩, ?_⟩
  · rw [hb1, ha1, trender_append, String.append_assoc]
  · rw [fresh_temps_append, List.pairwise_append]
    refine ⟨ha3, hb3, ?_⟩
    intro x hx y hy
    have := ha4 x hx
    have := hb4 y hy
    omega
  · intro t ht
    rw [fresh_temps_append, List.mem_append] at ht
    rcases ht with ht | ht
    · have := ha4 t ht
      omega
    · have := hb4 t ht
      omega
  · intro x hx
    rcases List.mem_append.1 hx with hx | hx
    · exact ha5 x hx
    · exact hb5 x hx
  · intro hpq x hx
    rcases List.mem_append.1 hx with hx | hx
    · exact ha6 hpq.1 x hx
    · exact hb6 hpq.2 x hx

theorem tstep_mono {p q : Prop} {g g1 : Genst} (hpq : q → p) (h : tstep p g g1) :
    tstep q g g1 := by
  obtain ⟨a, ha, ha6⟩ := h
  exact ⟨a, ha, fun hq => ha6 (hpq hq)⟩

/-- A step that writes nothing and does not lower the counter of the
temporaries. -/
theorem tstep_nothing (p : Prop) (g g1 : Genst) (hout : g1.cg.out = g.cg.out)
    (hnext : g.cg.nexttemp ≤ g1.cg.nexttemp) : tstep p g g1 := by
  refine ⟨[], ⟨?_, hnext, ?_, ?_, ?_⟩, ?_⟩
  · simp [trender, hout]
  · simp [fresh_temps]
  · intro t ht; simp [fresh_temps] at ht
  · intro x hx; simp at hx
  · intro _ x hx; simp at hx

/-- A step that writes one piece. -/
theorem tstep_one (p : Prop) (g g1 : Genst) (x : Tline)
    (hout : g1.cg.out = g.cg.out ++ x.text) (hnext : g.cg.nexttemp ≤ g1.cg.nexttemp)
    (hfresh : ∀ t ∈ fresh_temps [x], g.cg.nexttemp < t ∧ t ≤ g1.cg.nexttemp)
    (hlast : x.text.data.getLast? = some '\n') (hok : p → tline_ok x) : tstep p g g1 := by
  refine ⟨[x], ⟨?_, hnext, ?_, hfresh, ?_⟩, ?_⟩
  · simp [trender, hout]
  · cases x <;> simp [fresh_temps]
  · intro y hy
    rw [List.mem_singleton.1 hy]
    exact hlast
  · intro hp y hy
    rw [List.mem_singleton.1 hy]
    exact hok hp

/-- A text that ends with a newline, with more text in front of it. -/
theorem last_append (a b : String) (h : b.data.getLast? = some '\n') :
    (a ++ b).data.getLast? = some '\n' := by
  rw [String.data_append, List.getLast?_append, h]
  rfl

/-- The first characters of a text, with more text after it. -/
theorem take_append_of_take (k : Nat) (x y : String) (l : List Char) (hl : l.length = k)
    (h : x.data.take k = l) : (x ++ y).data.take k = l := by
  have hx : k ≤ x.data.length := by
    by_contra hc
    have : (x.data.take k).length = x.data.length := by
      rw [List.length_take]; omega
    rw [h, hl] at this
    omega
  rw [String.data_append, List.take_append_of_le_length hx, h]

/-- A text whose first characters are not those of an assignment to a
temporary does not start like one. -/
theorem not_temp_of_take (k : Nat) (s : String) (l : List Char) (hk : k ≤ 4)
    (h : s.data.take k = l) (hne : l ≠ "  %.".data.take k) :
    s.data.take 4 ≠ "  %.".data := by
  intro h4
  apply hne
  rw [← h, ← h4, List.take_take, Nat.min_eq_left hk]

/-- The text `  %name...` does not start like an assignment to a temporary
when the name does not start with a dot and the text after it starts with a
blank. -/
theorem not_temp_of_name (name rest : String) (hn : name.data.head? ≠ ".".data.head?)
    (hr : rest.data.head? = " ".data.head?) :
    ("  %" ++ (name ++ rest)).data.take 4 ≠ "  %.".data := by
  rw [String.data_append, String.data_append]
  have key : ∀ (c : Char) (cs : List Char),
      ("  %".data ++ (c :: cs)).take 4 = "  %.".data → some c = ".".data.head? := by
    intro c cs h
    have h2 : "  %".data ++ [c] = "  %".data ++ ".".data := h
    have h3 := List.append_cancel_left h2
    rw [← h3]
    rfl
  cases hd : name.data with
  | nil =>
    cases hrd : rest.data with
    | nil => rw [hrd] at hr; exact absurd hr (by decide)
    | cons c cs =>
      rw [hrd] at hr
      intro h
      have hc := key c cs h
      have hr2 : some c = " ".data.head? := hr
      exact absurd (hr2.symm.trans hc) (by decide)
  | cons c cs =>
    rw [hd] at hn
    intro h
    exact hn (key c (cs ++ rest.data) h)

/-- A step that writes one line which is not an assignment to a
temporary. -/
theorem tstep_emit_other (p : Prop) (g : Genst) (s : String)
    (hlast : s.data.getLast? = some '\n') (hn : p → newlines s = 1)
    (hs : p → s.data.take 4 ≠ "  %.".data) : tstep p g (g.emit s) := by
  refine tstep_one p g _ (Tline.other s) rfl (le_refl _) ?_ hlast ?_
  · intro t ht; simp [fresh_temps] at ht
  · intro hp
    refine ⟨hn hp, ?_⟩
    intro s1 hs1
    injection hs1 with hs1
    rw [← hs1]
    exact hs hp

/-- A step that writes an instruction which assigns the temporary it
reads. -/
theorem tstep_emit_again (p : Prop) (g : Genst) (t : Int) (pre post : String)
    (hlast : post.data.getLast? = some '\n')
    (hn : p → newlines pre = 0 ∧ newlines post = 1) :
    tstep p g (g.emit ("  %.t" ++ toString t ++ " =" ++ pre ++ " %.t" ++ toString t ++ post)) := by
  refine tstep_one p g _ (Tline.again t pre post) rfl (le_refl _) ?_ ?_ ?_
  · intro t ht; simp [fresh_temps] at ht
  · exact last_append _ _ hlast
  · intro hp
    refine ⟨?_, fun s hs => by cases hs⟩
    simp only [Tline.text, newlines_append, newlines_int, (hn hp).1, (hn hp).2]
    decide

/-- A step that hands out a temporary and writes the instruction that
assigns it. -/
theorem tstep_fresh (p : Prop) (g g1 : Genst) (rest : String)
    (hout : g1.cg.out = g.cg.out ++
      ("  %.t" ++ toString (g.cg.nexttemp + 1) ++ " =" ++ rest))
    (hnext : g1.cg.nexttemp = g.cg.nexttemp + 1)
    (hlast : rest.data.getLast? = some '\n') (hn : p → newlines rest = 1) :
    tstep p g g1 := by
  refine tstep_one p g g1 (Tline.fresh (g.cg.nexttemp + 1) rest) hout (by omega) ?_ ?_ ?_
  · intro t ht
    simp only [fresh_temps, List.mem_singleton] at ht
    omega
  · exact last_append _ _ hlast
  · intro hp
    refine ⟨?_, fun s hs => by cases hs⟩
    simp only [Tline.text, newlines_append, newlines_int, hn hp]
    decide

theorem genlabel_temp (p : Prop) (g : Genst) : tstep p g (genlabel g).2 :=
  tstep_nothing p g _ rfl (le_refl _)

theorem cglabel_temp (p : Prop) (l : Int) (g : Genst) : tstep p g (cglabel l g) := by
  refine tstep_emit_other p g _ (last_append _ _ rfl) (fun _ => (newlines_line l 0 0).1) ?_
  intro _
  refine not_temp_of_take 2 _ "@L".data (by decide) ?_ (by decide)
  rfl

theorem cgjump_temp (p : Prop) (l : Int) (g : Genst) : tstep p g (cgjump l g) := by
  refine tstep_emit_other p g _ (last_append _ _ rfl) (fun _ => (newlines_line l 0 0).2.1) ?_
  intro _
  refine not_temp_of_take 3 _ "  j".data (by decide) ?_ (by decide)
  rfl

theorem cgjump_if_false_temp (p : Prop) (t l : Int) (g : Genst) :
    tstep p g (cgjump_if_false t l g) := by
  unfold cgjump_if_false
  refine tstep_mono (fun hp => ⟨hp, hp⟩) (tstep_trans (genlabel_temp p g)
    (tstep_mono (fun hp => ⟨hp, hp⟩) (tstep_trans ?_ (cglabel_temp p _ _))))
  refine tstep_emit_other p _ _ (last_append _ _ rfl)
    (fun _ => (newlines_line l t (genlabel g).1).2.2) ?_
  intro _
  refine not_temp_of_take 3 _ "  j".data (by decide) ?_ (by decide)
  rfl

theorem add_strlit_temp (p : Prop) (s : String) (g : Genst) :
    tstep p g (add_strlit s g).2 := by
  unfold add_strlit
  cases hf : find_strlit s g.Strhead with
  | some label => exact tstep_refl _ g
  | none => exact tstep_nothing p g _ rfl (le_refl _)

theorem cgbinop_temp (t1 t2 : Int) (op : String) (type : Option Ty) (g : Genst) (t : Int)
    (g1 : Genst) (hop : newlines op = 0) (h : cgbinop t1 t2 op type g = Except.ok (t, g1)) :
    tstep True g g1 := by
  unfold cgbinop at h
  obtain ⟨q, hq, h⟩ := bind_ok h
  simp only [Except.ok.injEq, Prod.mk.injEq] at h
  obtain ⟨_, rfl⟩ := h
  have e : ("  %.t" ++ toString t1 ++ " =" ++ q ++ " " ++ op ++ " %.t" ++ toString t1 ++
      ", %.t" ++ toString t2 ++ "\n") =
      "  %.t" ++ toString t1 ++ " =" ++ (q ++ " " ++ op) ++ " %.t" ++ toString t1 ++
        (", %.t" ++ toString t2 ++ "\n") := by
    simp only [String.append_assoc]
  rw [e]
  refine tstep_emit_again _ g t1 _ _ (last_append _ _ rfl) ?_
  intro _
  simp only [newlines_append, newlines_int, newlines_qbetype _ _ hq, hop]
  decide

theorem cgnegate_temp (t0 : Int) (type : Option Ty) (g : Genst) (t : Int)
    (g1 : Genst) (h : cgnegate t0 type g = Except.ok (t, g1)) : tstep True g g1 := by
  unfold cgnegate at h
  obtain ⟨q, hq, h⟩ := bind_ok h
  simp only [Except.ok.injEq, Prod.mk.injEq] at h
  obtain ⟨_, rfl⟩ := h
  have e : ("  %.t" ++ toString t0 ++ " =" ++ q ++ " sub 0, %.t" ++ toString t0 ++ "\n") =
      "  %.t" ++ toString t0 ++ " =" ++ (q ++ " sub 0,") ++ " %.t" ++ toString t0 ++ "\n" := by
    simp only [String.append_assoc]
    rfl
  rw [e]
  refine tstep_emit_again _ g t0 _ _ rfl ?_
  intro _
  simp only [newlines_append, newlines_int, newlines_qbetype _ _ hq]
  decide

theorem cgnot_temp (t0 : Int) (type : Option Ty) (g : Genst) (t : Int)
    (g1 : Genst) (h : cgnot t0 type g = Except.ok (t, g1)) : tstep True g g1 := by
  unfold cgnot at h
  obtain ⟨q, hq, h⟩ := bind_ok h
  simp only [Except.ok.injEq, Prod.mk.injEq] at h
  obtain ⟨_, rfl⟩ := h
  have e : ("  %.t" ++ toString t0 ++ " =" ++ q ++ " ceq" ++ q ++ " %.t" ++ toString t0 ++
      ", 0\n") =
      "  %.t" ++ toString t0 ++ " =" ++ (q ++ " ceq" ++ q) ++ " %.t" ++ toString t0 ++
        ", 0\n" := by
    simp only [String.append_assoc]
  rw [e]
  refine tstep_emit_again _ g t0 _ _ rfl ?_
  intro _
  simp only [newlines_append, newlines_int, newlines_qbetype _ _ hq]
  decide

theorem cginvert_temp (t0 : Int) (type : Option Ty) (g : Genst) (t : Int)
    (g1 : Genst) (h : cginvert t0 type g = Except.ok (t, g1)) : tstep True g g1 := by
  unfold cginvert at h
  obtain ⟨q, hq, h⟩ := bind_ok h
  simp only [Except.ok.injEq, Prod.mk.injEq] at h
  obtain ⟨_, rfl⟩ := h
  have e : ("  %.t" ++ toString t0 ++ " =" ++ q ++ " xor %.t" ++ toString t0 ++ ", -1\n") =
      "  %.t" ++ toString t0 ++ " =" ++ (q ++ " xor") ++ " %.t" ++ toString t0 ++
        ", -1\n" := by
    simp only [String.append_assoc]
    rfl
  rw [e]
  refine tstep_emit_again _ g t0 _ _ rfl ?_
  intro _
  simp only [newlines_append, newlines_int, newlines_qbetype _ _ hq]
  decide

theorem cgprint_temp (label temp : Int) (type : Option Ty) (g g1 : Genst)
    (h : cgprint label temp type g = Except.ok g1) : tstep True g g1 := by
  unfold cgprint at h
  obtain ⟨q, hq, h⟩ := bind_ok h
  injection h with h
  subst h
  refine tstep_emit_other _ g _ (last_append _ _ rfl) ?_ ?_
  · intro _
    simp only [newlines_append, newlines_int, newlines_qbetype _ _ hq]
    decide
  · intro _
    refine not_temp_of_take 3 _ "  c".data (by decide) ?_ (by decide)
    rfl

theorem cgloadlit_temp (lc : Libc) (value : Litval) (type : Option Ty) (g : Genst) (t : Int)
    (g1 : Genst) (h : cgloadlit lc value type g = Except.ok (t, g1)) :
    tstep (∀ b, newlines (lc.fmt_f b) = 0) g g1 := by
  unfold cgloadlit at h
  dsimp only at h
  obtain ⟨q, hq, h⟩ := bind_ok h
  obtain ⟨ty, hd, h⟩ := bind_ok h
  split_ifs at h
  · simp only [Except.ok.injEq, Prod.mk.injEq] at h
    obtain ⟨_, rfl⟩ := h
    refine tstep_fresh _ g _ (q ++ " copy " ++ q ++ "_" ++ lc.fmt_f value.bits ++ "\n")
      ?_ rfl (last_append _ _ rfl) ?_
    · simp only [Genst.emit, Cgen.emit, Genst.alloctemp, cgalloctemp, String.append_assoc]
    · intro hf
      simp only [newlines_append, newlines_qbetype _ _ hq, hf]
      decide
  · simp only [Except.ok.injEq, Prod.mk.injEq] at h
    obtain ⟨_, rfl⟩ := h
    refine tstep_fresh _ g _ (q ++ " copy " ++ toString value.intval ++ "\n")
      ?_ rfl (last_append _ _ rfl) ?_
    · simp only [Genst.emit, Cgen.emit, Genst.alloctemp, cgalloctemp, String.append_assoc]
    · intro hf
      simp only [newlines_append, newlines_int, newlines_qbetype _ _ hq]
      decide

theorem cgaddlocal_temp (type : Option Ty) (sym : Option Sym) (g g1 : Genst)
    (h : cgaddlocal type sym g = Except.ok g1) :
    tstep (∀ sy, sym = some sy → newlines sy.name = 0 ∧ sy.name.data.head? ≠ ".".data.head?)
      g g1 := by
  unfold cgaddlocal at h
  obtain ⟨ty, hd, h⟩ := bind_ok h
  cases sym with
  | none => cases h
  | some sy =>
    dsimp only at h
    injection h with h
    subst h
    refine tstep_emit_other _ g _ (last_append _ _ rfl) ?_ ?_
    · intro hp
      simp only [newlines_append, newlines_nat, (hp sy rfl).1]
      decide
    · intro hp
      have e : ∀ n : Nat, ("  %" ++ sy.name ++ " =l alloc" ++ toString n ++ " 1\n") =
          "  %" ++ (sy.name ++ (" =l alloc" ++ toString n ++ " 1\n")) := by
        intro n; simp only [String.append_assoc]
      rw [e]
      refine not_temp_of_name _ _ (hp sy rfl).2 ?_
      simp only [String.data_append]
      rfl

/-- The loop of `cgcall` leaves the counter of the temporaries as it is. -/
theorem cgcall_args_nexttemp : ∀ (args : List (Int × Option Ty)) (g g1 : Genst),
    cgcall_args args g = Except.ok g1 → g1.cg.nexttemp = g.cg.nexttemp
  | [], g, g1, h => by
    simp only [cgcall_args, Except.ok.injEq] at h
    rw [← h]
  | (arg, ty) :: rest, g, g1, h => by
    unfold cgcall_args at h
    obtain ⟨q, _, h⟩ := bind_ok h
    have := cgcall_args_nexttemp rest _ g1 h
    rw [this]
    split_ifs <;> rfl

theorem cgcall_temp (sym : Sym) (args : List (Int × Option Ty)) (g : Genst) (t : Int)
    (g1 : Genst) (h : cgcall sym args g = Except.ok (t, g1)) :
    tstep (newlines sym.name = 0) g g1 := by
  unfold cgcall at h
  dsimp only at h
  rcases ite_ok_cases h with h | h
  · obtain ⟨g2, h1, h⟩ := bind_ok h
    obtain ⟨g3, h2, h⟩ := bind_ok h
    simp only [Except.ok.injEq, Prod.mk.injEq] at h
    obtain ⟨_, rfl⟩ := h
    injection h1 with h1
    subst h1
    obtain ⟨_, _, s, ho, hn⟩ := cgcall_args_text _ _ _ h2
    have hnt := cgcall_args_nexttemp _ _ _ h2
    refine tstep_one _ g _ (Tline.other ("  call $" ++ sym.name ++ "(" ++ s ++ ")\n"))
      ?_ ?_ ?_ (last_append _ _ rfl) ?_
    · simp only [Genst.emit, Cgen.emit, ho, Genst.alloctemp, cgalloctemp, Tline.text,
        String.append_assoc]
    · simp only [Genst.emit, Cgen.emit, Genst.alloctemp, cgalloctemp] at hnt ⊢
      omega
    · intro t ht; simp [fresh_temps] at ht
    · intro hp
      refine ⟨?_, ?_⟩
      · simp only [Tline.text, newlines_append, hp, hn]
        decide
      · intro s1 hs1
        injection hs1 with hs1
        rw [← hs1]
        refine not_temp_of_take 3 _ "  c".data (by decide) ?_ (by decide)
        rfl
  · obtain ⟨q, hq, h⟩ := bind_ok h
    obtain ⟨g2, h1, h⟩ := bind_ok h
    obtain ⟨g3, h2, h⟩ := bind_ok h
    simp only [Except.ok.injEq, Prod.mk.injEq] at h
    obtain ⟨_, rfl⟩ := h
    injection h1 with h1
    subst h1
    obtain ⟨_, _, s, ho, hn⟩ := cgcall_args_text _ _ _ h2
    have hnt := cgcall_args_nexttemp _ _ _ h2
    refine tstep_fresh _ g _ (q ++ " call $" ++ sym.name ++ "(" ++ s ++ ")\n") ?_ ?_
      (last_append _ _ rfl) ?_
    · simp only [Genst.emit, Cgen.emit, ho, Genst.alloctemp, cgalloctemp,
        String.append_assoc]
    · simp only [Genst.emit, Cgen.emit, Genst.alloctemp, cgalloctemp] at hnt ⊢
      exact hnt
    · intro hp
      simp only [newlines_append, newlines_qbetype _ _ hq, hp, hn]
      decide

theorem cgloadvar_temp (sym : Option Sym) (g : Genst) (t : Int) (g1 : Genst)
    (h : g.lift (cgloadvar sym) = Except.ok (t, g1)) :
    tstep (∀ sy, sym = some sy → newlines sy.name = 0) g g1 := by
  unfold Genst.lift at h
  obtain ⟨⟨a, cg⟩, h1, h⟩ := bind_ok h
  simp only [Except.ok.injEq, Prod.mk.injEq] at h
  obtain ⟨_, rfl⟩ := h
  unfold cgloadvar at h1
  cases sym with
  | none => cases h1
  | some sy =>
    dsimp only at h1
    obtain ⟨ql, hl, h1⟩ := bind_ok h1
    obtain ⟨q, hq, h1⟩ := bind_ok h1
    split_ifs at h1
    · simp only [Except.ok.injEq, Prod.mk.injEq] at h1
      obtain ⟨_, rfl⟩ := h1
      refine tstep_fresh _ g _ (q ++ " load" ++ ql ++ " %" ++ sy.name ++ "\n") ?_ rfl
        (last_append _ _ rfl) ?_
      · simp only [Cgen.emit, cgalloctemp, String.append_assoc]
      · intro hp
        simp only [newlines_append, newlines_qbetype _ _ hq, newlines_qbe_loadtype _ _ hl,
          hp sy rfl]
        decide
    · simp only [Except.ok.injEq, Prod.mk.injEq] at h1
      obtain ⟨_, rfl⟩ := h1
      refine tstep_fresh _ g _ (q ++ " copy %" ++ sy.name ++ "\n") ?_ rfl
        (last_append _ _ rfl) ?_
      · simp only [Cgen.emit, cgalloctemp, String.append_assoc]
      · intro hp
        simp only [newlines_append, newlines_qbetype _ _ hq, hp sy rfl]
        decide

theorem cgstorvar_temp (t0 : Int) (ty : Option Ty) (sym : Option Sym) (g : Genst) (u : Unit)
    (g1 : Genst)
    (h : g.lift (fun cg => (cgstorvar t0 ty sym cg).map (fun x => ((), x))) =
      Except.ok (u, g1)) :
    tstep (∀ sy, sym = some sy → newlines sy.name = 0 ∧ sy.name.data.head? ≠ ".".data.head?)
      g g1 := by
  unfold Genst.lift at h
  obtain ⟨⟨a, cg⟩, h1, h⟩ := bind_ok h
  simp only [Except.ok.injEq, Prod.mk.injEq] at h
  obtain ⟨_, rfl⟩ := h
  have h1 : Except.map (fun x => ((), x)) (cgstorvar t0 ty sym g.cg) = Except.ok (a, cg) := h1
  cases h2 : cgstorvar t0 ty sym g.cg with
  | error e => rw [h2] at h1; cases h1
  | ok cg2 =>
    rw [h2] at h1
    simp only [Except.map, Except.ok.injEq, Prod.mk.injEq] at h1
    obtain ⟨_, rfl⟩ := h1
    unfold cgstorvar at h2
    cases sym with
    | none => cases h2
    | some sy =>
      dsimp only at h2
      obtain ⟨q, hq, h2⟩ := bind_ok h2
      split_ifs at h2
      · injection h2 with h2
        subst h2
        refine tstep_one _ g _ (Tline.other ("  store" ++ q ++ " %.t" ++ toString t0 ++
          ", %" ++ sy.name ++ "\n")) rfl (le_refl _) ?_ (last_append _ _ rfl) ?_
        · intro t ht; simp [fresh_temps] at ht
        · intro hp
          refine ⟨?_, ?_⟩
          · simp only [Tline.text, newlines_append, newlines_int,
              newlines_qbe_storetype _ _ hq, (hp sy rfl).1]
            decide
          · intro s1 hs1
            injection hs1 with hs1
            rw [← hs1]
            refine not_temp_of_take 3 _ "  s".data (by decide) ?_ (by decide)
            rfl
      · injection h2 with h2
        subst h2
        refine tstep_one _ g _ (Tline.other ("  %" ++ sy.name ++ " =" ++ q ++ " copy %.t" ++
          toString t0 ++ "\n")) rfl (le_refl _) ?_ (last_append _ _ rfl) ?_
        · intro t ht; simp [fresh_temps] at ht
        · intro hp
          refine ⟨?_, ?_⟩
          · simp only [Tline.text, newlines_append, newlines_int,
              newlines_qbe_storetype _ _ hq, (hp sy rfl).1]
            decide
          · intro s1 hs1
            injection hs1 with hs1
            rw [← hs1]
            have e : ("  %" ++ sy.name ++ " =" ++ q ++ " copy %.t" ++ toString t0 ++ "\n") =
                "  %" ++ (sy.name ++ (" =" ++ q ++ " copy %.t" ++ toString t0 ++ "\n")) := by
              simp only [String.append_assoc]
            rw [e]
            refine not_temp_of_name _ _ (hp sy rfl).2 ?_
            simp only [String.data_append]
            rfl

theorem cgcompare_temp (op : Nat) (t1 t2 : Int) (type : Option Ty) (g : Genst) (t : Int)
    (g1 : Genst) (h : g.lift (cgcompare op t1 t2 type) = Except.ok (t, g1)) :
    tstep True g g1 := by
  unfold Genst.lift at h
  obtain ⟨⟨a, cg⟩, h1, h⟩ := bind_ok h
  simp only [Except.ok.injEq, Prod.mk.injEq] at h
  obtain ⟨_, rfl⟩ := h
  unfold cgcompare at h1
  obtain ⟨q, hq, h1⟩ := bind_ok h1
  obtain ⟨ty, hd, h1⟩ := bind_ok h1
  dsimp only at h1
  by_cases hop : op < A_EQ
  · rw [if_pos hop] at h1
    cases h1
  · rw [if_neg hop] at h1
    split at h1
    · cases h1
    · rename_i c hc
      simp only [Except.ok.injEq, Prod.mk.injEq] at h1
      obtain ⟨_, rfl⟩ := h1
      have hcn : newlines c = 0 := by
        have hall : ∀ x ∈ qbecmp, newlines x = 0 := by decide
        exact hall c (List.get?_mem hc)
      refine tstep_fresh _ g _ ("w c" ++ c ++ q ++ " %.t" ++ toString t1 ++ ", %.t" ++
        toString t2 ++ "\n") ?_ rfl (last_append _ _ rfl) ?_
      · simp only [Cgen.emit, cgalloctemp, String.append_assoc]
        rfl
      · intro _
        simp only [newlines_append, newlines_int, newlines_qbetype _ _ hq, hcn]
        decide

theorem cgcast_temp (t1 : Int) (type newtype : Option Ty) (g : Genst) (t : Int)
    (g1 : Genst) (h : g.lift (cgcast t1 type newtype) = Except.ok (t, g1)) :
    tstep True g g1 := by
  unfold Genst.lift at h
  obtain ⟨⟨a, cg⟩, h1, h⟩ := bind_ok h
  simp only [Except.ok.injEq, Prod.mk.injEq] at h
  obtain ⟨_, rfl⟩ := h
  unfold cgcast at h1
  dsimp only at h1
  obtain ⟨ty0, hd, h1⟩ := bind_ok h1
  obtain ⟨oq, he, h1⟩ := bind_ok h1
  obtain ⟨nq, hq, h1⟩ := bind_ok h1
  obtain ⟨nty, hn, h1⟩ := bind_ok h1
  split_ifs at h1 <;>
    first
    | (cases h1; done)
    | (simp only [Except.ok.injEq, Prod.mk.injEq] at h1
       obtain ⟨_, rfl⟩ := h1
       first
       | exact tstep_nothing _ g _ rfl (by simp [cgalloctemp])
       | (refine tstep_fresh _ g _ (nq ++ " " ++ oq ++ "tof %.t" ++ toString t1 ++ "\n") ?_ rfl
            (last_append _ _ rfl) ?_
          · simp only [Cgen.emit, cgalloctemp, String.append_assoc]
          · intro _
            simp only [newlines_append, newlines_int, newlines_qbetype _ _ hq,
              newlines_qbe_exttype _ _ he]
            decide)
       | (refine tstep_fresh _ g _ (nq ++ " ext" ++ oq ++ " %.t" ++ toString t1 ++ "\n") ?_ rfl
            (last_append _ _ rfl) ?_
          · simp only [Cgen.emit, cgalloctemp, String.append_assoc]
          · intro _
            simp only [newlines_append, newlines_int, newlines_qbetype _ _ hq,
              newlines_qbe_exttype _ _ he]
            decide))

/-- The parts of a tree whose names have no newline and no dot in front. -/
theorem tnames_ok_parts (n : ASTnode) (hn : n.tnames_ok = true) :
    (∀ l, n.left = Except.ok l → l.tnames_ok = true) ∧
    (∀ m, n.mid = Except.ok m → m.tnames_ok = true) ∧
    (∀ r, n.right = Except.ok r → r.tnames_ok = true) ∧
    (∀ s, n.sym = Except.ok s → ∀ sy, s = some sy →
      newlines sy.name = 0 ∧ sy.name.data.head? ≠ ".".data.head?) := by
  cases n with
  | NULL =>
    refine ⟨?_, ?_, ?_, ?_⟩ <;> intro x hx <;>
      simp [ASTnode.left, ASTnode.mid, ASTnode.right, ASTnode.sym] at hx
  | node op ty rv left mid right sym v s =>
    simp only [ASTnode.tnames_ok, Bool.and_eq_true] at hn
    obtain ⟨⟨⟨hs, hl⟩, hm⟩, hr⟩ := hn
    refine ⟨?_, ?_, ?_, ?_⟩
    · intro l hl1
      simp only [ASTnode.left, Except.ok.injEq] at hl1
      rw [← hl1]; exact hl
    · intro l hl1
      simp only [ASTnode.mid, Except.ok.injEq] at hl1
      rw [← hl1]; exact hm
    · intro l hl1
      simp only [ASTnode.right, Except.ok.injEq] at hl1
      rw [← hl1]; exact hr
    · intro s1 hs1 sy hsy
      simp only [ASTnode.sym, Except.ok.injEq] at hs1
      subst hs1
      subst hsy
      simpa using hs

theorem widen_type_tnames_ok (node : ASTnode) (ty : Option Ty) (r : ASTnode)
    (h : widen_type node ty = Except.ok r) (hn : node.tnames_ok = true) :
    r.tnames_ok = true := by
  cases node with
  | NULL => simp [widen_type] at h
  | node op ntype rv left mid right sym litval s =>
    unfold widen_type at h
    cases ntype with
    | none =>
      simp only at h
      split_ifs at h <;>
        first
        | (exfalso; simp [fatal] at h; done)
        | (simp only [Except.ok.injEq] at h
           rw [← h]
           first
           | exact hn
           | rfl)
    | some nty =>
      cases ty with
      | none =>
        simp only at h
        split_ifs at h <;>
          first
          | (exfalso; simp [fatal] at h; done)
          | (simp only [Except.ok.injEq] at h
             rw [← h]
             exact hn)
      | some t =>
        simp only at h
        split_ifs at h <;>
          first
          | (exfalso; simp [fatal] at h; done)
          | (simp only [Except.ok.injEq] at h
             rw [← h]
             first
             | exact hn
             | rfl
             | (simpa [ASTnode.tnames_ok, mkastnode, ASTnode.set_type, ASTnode.set_rvalue,
                  ASTnode.set_litval] using hn))

theorem widen_expression_tnames_ok (e : ASTnode) (ty : Option Ty) (r : ASTnode)
    (h : widen_expression e ty = Except.ok r) (hn : e.tnames_ok = true) :
    r.tnames_ok = true := by
  unfold widen_expression at h
  obtain ⟨w, hw, h⟩ := bind_ok h
  split_ifs at h
  · obtain ⟨_, _, h⟩ := bind_ok h
    obtain ⟨_, _, h⟩ := bind_ok h
    obtain ⟨_, _, h⟩ := bind_ok h
    cases h
  · injection h with h
    rw [← h]
    exact widen_type_tnames_ok _ _ _ hw hn

theorem gen_WHILE_temp (q : Prop) (rec : ASTnode → Genst → Res (Int × Genst))
    (hrec : ∀ n g t g1, rec n g = Except.ok (t, g1) → tstep (q ∧ n.tnames_ok = true) g g1)
    (n : ASTnode) (g g1 : Genst) (h : gen_WHILE rec n g = Except.ok g1) :
    tstep (q ∧ n.tnames_ok = true) g g1 := by
  unfold gen_WHILE at h
  obtain ⟨left, hleft, h⟩ := bind_ok h
  obtain ⟨mid, hmid, h⟩ := bind_ok h
  dsimp only at h
  obtain ⟨⟨t1, gB⟩, h1, h⟩ := bind_ok h
  dsimp only at h
  obtain ⟨⟨t2, gD⟩, h2, h⟩ := bind_ok h
  injection h with h
  subst h
  refine tstep_mono ?_ (tstep_trans (genlabel_temp True g) (tstep_trans (genlabel_temp True _)
    (tstep_trans (cglabel_temp True _ _) (tstep_trans (hrec _ _ _ _ h1)
      (tstep_trans (cgjump_if_false_temp True _ _ _) (tstep_trans (hrec _ _ _ _ h2)
        (tstep_trans (cgjump_temp True _ _) (cglabel_temp True _ _))))))))
  intro hp
  obtain ⟨hpl, hpm, _, _⟩ := tnames_ok_parts n hp.2
  exact ⟨trivial, trivial, trivial, ⟨hp.1, hpl _ hleft⟩, trivial, ⟨hp.1, hpm _ hmid⟩,
    trivial, trivial⟩

theorem gen_IF_temp (q : Prop) (rec : ASTnode → Genst → Res (Int × Genst))
    (hrec : ∀ n g t g1, rec n g = Except.ok (t, g1) → tstep (q ∧ n.tnames_ok = true) g g1)
    (n : ASTnode) (g g1 : Genst) (h : gen_IF rec n g = Except.ok g1) :
    tstep (q ∧ n.tnames_ok = true) g g1 := by
  unfold gen_IF at h
  obtain ⟨left, hleft, h⟩ := bind_ok h
  obtain ⟨mid, hmid, h⟩ := bind_ok h
  obtain ⟨right, hright, h⟩ := bind_ok h
  dsimp only at h
  obtain ⟨⟨t1, gB⟩, h1, h⟩ := bind_ok h
  dsimp only at h
  obtain ⟨⟨t2, gD⟩, h2, h⟩ := bind_ok h
  dsimp only at h
  have hkids : q ∧ n.tnames_ok = true →
      left.tnames_ok = true ∧ mid.tnames_ok = true ∧ right.tnames_ok = true := by
    intro hp
    obtain ⟨hpl, hpm, hpr, _⟩ := tnames_ok_parts n hp.2
    exact ⟨hpl _ hleft, hpm _ hmid, hpr _ hright⟩
  have s0 : tstep True g (if right.isNULL = true then ((0 : Int), (genlabel g).2)
      else genlabel (genlabel g).2).2 := by
    split_ifs
    · exact genlabel_temp True g
    · exact tstep_mono (fun _ => ⟨trivial, trivial⟩)
        (tstep_trans (genlabel_temp True g) (genlabel_temp True _))
  have s1 := tstep_trans s0 (tstep_trans (hrec _ _ _ _ h1)
    (tstep_trans (cgjump_if_false_temp True _ _ _) (hrec _ _ _ _ h2)))
  by_cases hnull : right.isNULL = true
  · simp only [hnull, if_true] at h s1
    injection h with h
    subst h
    refine tstep_mono ?_ (tstep_trans s1 (cglabel_temp True _ _))
    intro hp
    exact ⟨⟨trivial, ⟨hp.1, (hkids hp).1⟩, trivial, ⟨hp.1, (hkids hp).2.1⟩⟩, trivial⟩
  · simp only [hnull, if_false, Bool.false_eq_true] at h s1
    obtain ⟨⟨t3, gE⟩, h3, h⟩ := bind_ok h
    injection h with h
    subst h
    refine tstep_mono ?_ (tstep_trans s1 (tstep_trans (genlabel_temp True _)
      (tstep_trans (cglabel_temp True _ _) (tstep_trans (cgjump_temp True _ _)
        (tstep_trans (cglabel_temp True _ _) (tstep_trans (hrec _ _ _ _ h3)
          (cglabel_temp True _ _)))))))
    intro hp
    exact ⟨⟨trivial, ⟨hp.1, (hkids hp).1⟩, trivial, ⟨hp.1, (hkids hp).2.1⟩⟩, trivial,
      trivial, trivial, trivial, ⟨hp.1, (hkids hp).2.2⟩, trivial⟩

/-- The function `gen_local` keeps the invariant of the temporaries when
`genAST` does. -/
theorem gen_local_temp (q : Prop) (rec : ASTnode → Genst → Res (Int × Genst))
    (hrec : ∀ n g t g1, rec n g = Except.ok (t, g1) → tstep (q ∧ n.tnames_ok = true) g g1)
    (n : ASTnode) (g g1 : Genst) (h : gen_local rec n g = Except.ok g1) :
    tstep (q ∧ n.tnames_ok = true) g g1 := by
  unfold gen_local at h
  cases hty : n.type with
  | error e => simp [hty, bind, Except.bind] at h
  | ok ty =>
  cases hsym : n.sym with
  | error e => simp [hty, hsym, bind, Except.bind] at h
  | ok sym =>
  cases hleft : n.left with
  | error e => simp [hty, hsym, hleft, bind, Except.bind] at h
  | ok left =>
  cases hmid : n.mid with
  | error e => simp [hty, hsym, hleft, hmid, bind, Except.bind] at h
  | ok mid =>
  cases hright : n.right with
  | error e => simp [hty, hsym, hleft, hmid, hright, bind, Except.bind] at h
  | ok right =>
  simp only [hty, hsym, hleft, hmid, hright, bind, Except.bind] at h
  cases h1 : cgaddlocal ty sym g with
  | error e => simp [h1] at h
  | ok gA =>
  simp only [h1] at h
  cases h2 : rec left gA with
  | error e => simp [h2] at h
  | ok p2 =>
  obtain ⟨t2, gB⟩ := p2
  simp only [h2] at h
  cases h3 : gB.lift (fun cg => (cgstorvar t2 ty sym cg).map (fun x => ((), x))) with
  | error e => simp [h3] at h
  | ok p3 =>
  obtain ⟨u, gC⟩ := p3
  simp only [h3] at h
  cases h4 : rec mid gC with
  | error e => simp [h4] at h
  | ok p4 =>
  obtain ⟨t4, gD⟩ := p4
  simp only [h4] at h
  cases h5 : rec right gD with
  | error e => simp [h5] at h
  | ok p5 =>
  obtain ⟨t5, gE⟩ := p5
  simp only [h5, Except.ok.injEq] at h
  subst h
  refine tstep_mono ?_ (tstep_trans ((cgaddlocal_temp _ _ _ _ h1))
    (tstep_trans (hrec _ _ _ _ h2)
      (tstep_trans ((cgstorvar_temp _ _ _ _ _ _ h3))
        (tstep_trans (hrec _ _ _ _ h4) (hrec _ _ _ _ h5)))))
  intro hp
  obtain ⟨hpl, hpm, hpr, hps⟩ := tnames_ok_parts n hp.2
  exact ⟨hps _ hsym, ⟨hp.1, hpl _ hleft⟩, hps _ hsym, ⟨hp.1, hpm _ hmid⟩,
    ⟨hp.1, hpr _ hright⟩⟩

/-- The loop of `gen_funccall` keeps the invariant of the temporaries when
`genAST` does. -/
theorem gen_funccall_args_temp (q : Prop) (rec : ASTnode → Genst → Res (Int × Genst))
    (hrec : ∀ n g t g1, rec n g = Except.ok (t, g1) → tstep (q ∧ n.tnames_ok = true) g g1)
    (numargs : Int) : ∀ (k i : Nat) (n : ASTnode) (param : List Sym) (g : Genst)
      (args : List (Int × Option Ty)) (g1 : Genst),
    gen_funccall_args rec numargs k i n param g = Except.ok (args, g1) →
    tstep (q ∧ n.tnames_ok = true) g g1
  | _, _, .NULL, _, g, args, g1, h => by
    simp only [gen_funccall_args, Except.ok.injEq, Prod.mk.injEq] at h
    obtain ⟨_, rfl⟩ := h
    exact tstep_refl _ g
  | 0, _, .node _ _ _ _ _ _ _ _ _, _, _, _, _, h => by
    simp [gen_funccall_args] at h
  | k + 1, i, .node op ty rv left mid right sym v s, param, g, args, g1, h => by
    unfold gen_funccall_args at h
    cases param with
    | nil => simp at h
    | cons p prest =>
      simp only at h
      split_ifs at h with hop hi hi
      · cases hw : widen_expression left p.type with
        | error e => simp [hw, bind, Except.bind] at h
        | ok left1 =>
          cases hlt : left1.type with
          | error e => simp [hw, hlt, bind, Except.bind] at h
          | ok lty => simp [hw, hlt, bind, Except.bind, hi] at h
      · cases hw : widen_expression left p.type with
        | error e => simp [hw, bind, Except.bind] at h
        | ok left1 =>
          cases hlt : left1.type with
          | error e => simp [hw, hlt, bind, Except.bind] at h
          | ok lty =>
            simp only [hw, hlt, bind, Except.bind, hi, if_false] at h
            cases h1 : rec left1 g with
            | error e => simp [h1] at h
            | ok p1 =>
              obtain ⟨t1, gA⟩ := p1
              simp only [h1] at h
              cases h2 : gen_funccall_args rec numargs k (i + 1) right prest gA with
              | error e => simp [h2] at h
              | ok p2 =>
                obtain ⟨args2, gB⟩ := p2
                simp only [h2, Except.ok.injEq, Prod.mk.injEq] at h
                obtain ⟨_, rfl⟩ := h
                refine tstep_mono ?_ (tstep_trans (hrec _ _ _ _ h1)
                  (gen_funccall_args_temp q rec hrec numargs k (i + 1) right prest gA args2 _
                    h2))
                intro hp
                obtain ⟨hpl, _, hpr, _⟩ := tnames_ok_parts _ hp.2
                exact ⟨⟨hp.1, widen_expression_tnames_ok _ _ _ hw (hpl _ rfl)⟩, hp.1,
                  hpr _ rfl⟩
      · cases hw : widen_expression (ASTnode.node op ty rv left mid right sym v s) p.type with
        | error e => simp [hw, bind, Except.bind] at h
        | ok this1 =>
          cases hlt : this1.type with
          | error e => simp [hw, hlt, bind, Except.bind] at h
          | ok tty => simp [hw, hlt, bind, Except.bind, hi] at h
      · cases hw : widen_expression (ASTnode.node op ty rv left mid right sym v s) p.type with
        | error e => simp [hw, bind, Except.bind] at h
        | ok this1 =>
          cases hlt : this1.type with
          | error e => simp [hw, hlt, bind, Except.bind] at h
          | ok tty =>
            simp only [hw, hlt, bind, Except.bind, hi, if_false] at h
            cases h1 : rec this1 g with
            | error e => simp [h1] at h
            | ok p1 =>
              obtain ⟨t1, gA⟩ := p1
              simp only [h1] at h
              cases hn : this1.right with
              | error e => simp [hn] at h
              | ok nxt =>
                simp only [hn] at h
                cases h2 : gen_funccall_args rec numargs k (i + 1) nxt prest gA with
                | error e => simp [h2] at h
                | ok p2 =>
                  obtain ⟨args2, gB⟩ := p2
                  simp only [h2, Except.ok.injEq, Prod.mk.injEq] at h
                  obtain ⟨_, rfl⟩ := h
                  refine tstep_mono ?_ (tstep_trans (hrec _ _ _ _ h1)
                    (gen_funccall_args_temp q rec hrec numargs k (i + 1) nxt prest gA args2 _
                      h2))
                  intro hp
                  have hthis := widen_expression_tnames_ok _ _ _ hw hp.2
                  obtain ⟨_, _, hpr, _⟩ := tnames_ok_parts _ hthis
                  exact ⟨⟨hp.1, hthis⟩, hp.1, hpr _ hn⟩

/-- The function `gen_funccall` keeps the invariant of the temporaries when
`genAST` does. -/
theorem gen_funccall_temp (q : Prop) (rec : ASTnode → Genst → Res (Int × Genst))
    (hrec : ∀ n g t g1, rec n g = Except.ok (t, g1) → tstep (q ∧ n.tnames_ok = true) g g1)
    (fuel : Nat) (syms : Symtab) (hq : q → syms_plain syms) (n : ASTnode) (g : Genst) (t : Int)
    (g1 : Genst) (h : gen_funccall rec fuel syms n g = Except.ok (t, g1)) :
    tstep (q ∧ n.tnames_ok = true) g g1 := by
  unfold gen_funccall at h
  cases hleft : n.left with
  | error e => simp [hleft, bind, Except.bind] at h
  | ok left =>
  cases hname : left.strlit with
  | error e => simp [hleft, hname, bind, Except.bind] at h
  | ok name =>
  simp only [hleft, hname, bind, Except.bind] at h
  cases hf : find_symbol name syms with
  | none => simp [hf, fatal] at h
  | some func =>
  have hfn : q → newlines func.name = 0 := by
    intro hq1
    cases name with
    | none => simp [find_symbol] at hf
    | some nm => exact find_symbol_loop_plain nm _ _ _ (hq hq1) hf
  simp only [hf] at h
  split_ifs at h with hst
  · simp [fatal] at h
  · cases hright : n.right with
    | error e => simp [hright] at h
    | ok right =>
    simp only [hright] at h
    split_ifs at h with hc hpos
    · simp [fatal] at h
    · cases h1 : gen_funccall_args rec (count_args right) fuel 0 right func.memb g with
      | error e => simp [h1] at h
      | ok p1 =>
      obtain ⟨args, gA⟩ := p1
      simp only [h1] at h
      cases h2 : cgcall func args gA with
      | error e => simp [h2] at h
      | ok p2 =>
      obtain ⟨t2, gB⟩ := p2
      simp only [h2, Except.ok.injEq, Prod.mk.injEq] at h
      obtain ⟨_, rfl⟩ := h
      refine tstep_mono ?_ (tstep_trans
        (gen_funccall_args_temp q rec hrec _ _ _ _ _ _ _ _ h1)
        ((cgcall_temp _ _ _ _ _ h2)))
      intro hp
      obtain ⟨_, _, hpr, _⟩ := tnames_ok_parts n hp.2
      exact ⟨⟨hp.1, hpr _ hright⟩, hfn hp.1⟩
    · cases h2 : cgcall func [] g with
      | error e => simp [h2] at h
      | ok p2 =>
      obtain ⟨t2, gB⟩ := p2
      simp only [h2, Except.ok.injEq, Prod.mk.injEq] at h
      obtain ⟨_, rfl⟩ := h
      exact tstep_mono (fun hp => hfn hp.1) ((cgcall_temp _ _ _ _ _ h2))

/-- The assignment step of `genAST` writes one line that assigns no
temporary. -/
theorem assign_temp (l : Int) (ty : Option Ty) (sym : Option Sym) (g : Genst) (t : Int)
    (g1 : Genst)
    (h : (g.lift (fun cg => (cgstorvar l ty sym cg).map (fun x => ((), x))) >>=
      fun p => (Except.ok (NOREG, p.2) : Res (Int × Genst))) = Except.ok (t, g1)) :
    tstep (∀ sy, sym = some sy → newlines sy.name = 0 ∧ sy.name.data.head? ≠ ".".data.head?)
      g g1 := by
  cases h1 : g.lift (fun cg => (cgstorvar l ty sym cg).map (fun x => ((), x))) with
  | error e => simp [h1, bind, Except.bind] at h
  | ok p =>
    obtain ⟨u, gA⟩ := p
    simp only [h1, bind, Except.bind, Except.ok.injEq, Prod.mk.injEq] at h
    obtain ⟨_, rfl⟩ := h
    exact cgstorvar_temp _ _ _ _ _ _ h1

/-- The cast step of `genAST` hands out a temporary and writes the
instruction that assigns it, or none. -/
theorem cast_step_temp (l : Int) (left : ASTnode) (ty : Option Ty) (g : Genst) (t : Int)
    (g1 : Genst)
    (h : (left.type >>= fun lty => g.lift (cgcast l lty ty)) = Except.ok (t, g1)) :
    tstep True g g1 := by
  cases h1 : left.type with
  | error e => simp [h1, bind, Except.bind] at h
  | ok lty =>
    simp only [h1, bind, Except.bind] at h
    exact cgcast_temp _ _ _ _ _ _ h

/-- The comparison step of `genAST` hands out a temporary and writes the
instruction that assigns it. -/
theorem compare_step_temp (op : Nat) (l r : Int) (left : ASTnode) (g : Genst) (t : Int)
    (g1 : Genst)
    (h : (left.type >>= fun lty => g.lift (cgcompare op l r lty)) = Except.ok (t, g1)) :
    tstep True g g1 := by
  cases h1 : left.type with
  | error e => simp [h1, bind, Except.bind] at h
  | ok lty =>
    simp only [h1, bind, Except.bind] at h
    exact cgcompare_temp _ _ _ _ _ _ _ h

/-- Every step of `genAST` keeps the invariant of the temporaries. -/
theorem genAST_temp (lc : Libc) (syms : Symtab) (fuel : Nat) : ∀ (n : ASTnode) (g : Genst)
    (t : Int) (g1 : Genst), genAST lc syms fuel n g = Except.ok (t, g1) →
    tstep (((∀ b, newlines (lc.fmt_f b) = 0) ∧ syms_plain syms) ∧ n.tnames_ok = true)
      g g1 := by
  induction fuel with
  | zero =>
    intro n g t g1 h
    cases n with
    | NULL =>
      rw [genAST_null] at h
      simp only [Except.ok.injEq, Prod.mk.injEq] at h
      obtain ⟨_, rfl⟩ := h
      exact tstep_refl _ g
    | node op ty rv left mid right sym v s => exact Except.noConfusion h
  | succ fuel hrec =>
    intro n g t g1 h
    cases n with
    | NULL =>
      rw [genAST_null] at h
      simp only [Except.ok.injEq, Prod.mk.injEq] at h
      obtain ⟨_, rfl⟩ := h
      exact tstep_refl _ g
    | node op ty rv left mid right sym v s =>
      rw [genAST_succ] at h
      generalize genAST lc syms fuel = rec at h hrec
      have hkids : ((∀ b, newlines (lc.fmt_f b) = 0) ∧ syms_plain syms) ∧
          (ASTnode.node op ty rv left mid right sym v s).tnames_ok = true →
          left.tnames_ok = true ∧ right.tnames_ok = true := by
        intro hp
        obtain ⟨hpl, _, hpr, _⟩ := tnames_ok_parts _ hp.2
        exact ⟨hpl _ rfl, hpr _ rfl⟩
      have hsym : ((∀ b, newlines (lc.fmt_f b) = 0) ∧ syms_plain syms) ∧
          (ASTnode.node op ty rv left mid right sym v s).tnames_ok = true →
          ∀ sy, sym = some sy → newlines sy.name = 0 ∧ sy.name.data.head? ≠ ".".data.head? := by
        intro hp
        exact (tnames_ok_parts _ hp.2).2.2.2 _ rfl
      by_cases hprint : op = A_PRINT
      · rw [if_pos hprint] at h
        simp only [bind, Except.bind] at h
        rcases h1 : rec right g with e | ⟨tr, gR⟩
        · simp [h1] at h
        simp only [h1] at h
        rcases h2 : left.strlit with e | lstr
        · simp [h2] at h
        simp only [h2] at h
        cases lstr with
        | none => simp at h
        | some str =>
          simp only at h
          rcases h3 : right.type with e | rty
          · simp [h3] at h
          simp only [h3] at h
          rcases h4 : cgprint (add_strlit str gR).1 tr rty (add_strlit str gR).2 with e | gP
          · simp [h4] at h
          simp only [h4, Except.ok.injEq, Prod.mk.injEq] at h
          obtain ⟨_, rfl⟩ := h
          exact tstep_mono (fun hp => ⟨⟨hp.1, (hkids hp).2⟩, trivial, trivial⟩)
            (tstep_trans (hrec _ _ _ _ h1)
              (tstep_trans (add_strlit_temp True str gR)
                ((cgprint_temp _ _ _ _ _ h4))))
      rw [if_neg hprint] at h
      by_cases hlocal : op = A_LOCAL
      · rw [if_pos hlocal] at h
        simp only [bind, Except.bind] at h
        rcases h1 : gen_local rec (ASTnode.node op ty rv left mid right sym v s) g with e | gL
        · simp [h1] at h
        simp only [h1, Except.ok.injEq, Prod.mk.injEq] at h
        obtain ⟨_, rfl⟩ := h
        exact gen_local_temp _ rec hrec _ _ _ h1
      rw [if_neg hlocal] at h
      by_cases hcall : op = A_FUNCCALL
      · rw [if_pos hcall] at h
        exact gen_funccall_temp _ rec hrec _ _ (fun hq => hq.2) _ _ _ _ h
      rw [if_neg hcall] at h
      by_cases hif : op = A_IF
      · rw [if_pos hif] at h
        simp only [bind, Except.bind] at h
        rcases h1 : gen_IF rec (ASTnode.node op ty rv left mid right sym v s) g with e | gL
        · simp [h1] at h
        simp only [h1, Except.ok.injEq, Prod.mk.injEq] at h
        obtain ⟨_, rfl⟩ := h
        exact gen_IF_temp _ rec hrec _ _ _ h1
      rw [if_neg hif] at h
      by_cases hwhile : op = A_WHILE
      · rw [if_pos hwhile] at h
        simp only [bind, Except.bind] at h
        rcases h1 : gen_WHILE rec (ASTnode.node op ty rv left mid right sym v s) g with e | gL
        · simp [h1] at h
        simp only [h1, Except.ok.injEq, Prod.mk.injEq] at h
        obtain ⟨_, rfl⟩ := h
        exact gen_WHILE_temp _ rec hrec _ _ _ h1
      rw [if_neg hwhile] at h
      by_cases hfor : op = A_FOR
      · rw [if_pos hfor] at h
        simp only [bind, Except.bind] at h
        rcases h0 : rec right g with e | ⟨tr, gR⟩
        · simp [h0] at h
        simp only [h0] at h
        rcases h1 : gen_WHILE rec (ASTnode.node op ty rv left mid right sym v s) gR with e | gL
        · simp [h1] at h
        simp only [h1, Except.ok.injEq, Prod.mk.injEq] at h
        obtain ⟨_, rfl⟩ := h
        exact tstep_mono (fun hp => ⟨⟨hp.1, (hkids hp).2⟩, hp⟩)
          (tstep_trans (hrec _ _ _ _ h0) (gen_WHILE_temp _ rec hrec _ _ _ h1))
      rw [if_neg hfor] at h
      dsimp only at h
      have hfin : ∀ gB,
          tstep (((∀ b, newlines (lc.fmt_f b) = 0) ∧ syms_plain syms) ∧
            (ASTnode.node op ty rv left mid right sym v s).tnames_ok = true) g gB →
          tstep (((∀ b, newlines (lc.fmt_f b) = 0) ∧ syms_plain syms) ∧
            (ASTnode.node op ty rv left mid right sym v s).tnames_ok = true) gB g1 →
          tstep (((∀ b, newlines (lc.fmt_f b) = 0) ∧ syms_plain syms) ∧
            (ASTnode.node op ty rv left mid right sym v s).tnames_ok = true) g g1 :=
        fun gB hi hp => tstep_mono (fun h => ⟨h, h⟩) (tstep_trans hi (hp))
      by_cases hl : left.isNULL = true <;> by_cases hr : right.isNULL = true <;>
        simp only [hl, hr, if_true, if_false, Bool.false_eq_true, bind, Except.bind] at h
      on_goal 1 => refine hfin g (tstep_refl _ g) ?_
      on_goal 2 =>
        (rcases h1 : rec right g with e | ⟨tr, gR⟩
         · simp [h1] at h
         simp only [h1] at h
         refine hfin gR (tstep_mono (fun hp => ⟨hp.1, (hkids hp).2⟩) (hrec _ _ _ _ h1)) ?_)
      on_goal 3 =>
        (rcases h1 : rec left g with e | ⟨tl, gL⟩
         · simp [h1] at h
         simp only [h1] at h
         refine hfin gL (tstep_mono (fun hp => ⟨hp.1, (hkids hp).1⟩) (hrec _ _ _ _ h1)) ?_)
      on_goal 4 =>
        (rcases h1 : rec left g with e | ⟨tl, gL⟩
         · simp [h1] at h
         simp only [h1] at h
         rcases h2 : rec right gL with e | ⟨tr, gR⟩
         · simp [h2] at h
         simp only [h2] at h
         refine hfin gR (tstep_mono
           (fun hp => ⟨⟨hp.1, (hkids hp).1⟩, ⟨hp.1, (hkids hp).2⟩⟩)
           (tstep_trans (hrec _ _ _ _ h1) (hrec _ _ _ _ h2))) ?_)
      all_goals
        simp only [temp_val] at h
        by_cases c0 : op = A_NUMLIT
        · rw [if_pos c0] at h
          exact tstep_mono (fun hp => hp.1.1) (cgloadlit_temp _ _ _ _ _ _ h)
        rw [if_neg c0] at h
        by_cases c1 : op = A_ADD
        · rw [if_pos c1] at h
          first
          | exact tstep_mono (fun _ => trivial) (cgbinop_temp _ _ _ _ _ _ _ (by decide) h)
          | exact Except.noConfusion h
        rw [if_neg c1] at h
        by_cases c2 : op = A_SUBTRACT
        · rw [if_pos c2] at h
          first
          | exact tstep_mono (fun _ => trivial) (cgbinop_temp _ _ _ _ _ _ _ (by decide) h)
          | exact Except.noConfusion h
        rw [if_neg c2] at h
        by_cases c3 : op = A_MULTIPLY
        · rw [if_pos c3] at h
          first
          | exact tstep_mono (fun _ => trivial) (cgbinop_temp _ _ _ _ _ _ _ (by decide) h)
          | exact Except.noConfusion h
        rw [if_neg c3] at h
        by_cases c4 : op = A_DIVIDE
        · rw [if_pos c4] at h
          first
          | exact tstep_mono (fun _ => trivial) (cgbinop_temp _ _ _ _ _ _ _ (by decide) h)
          | exact Except.noConfusion h
        rw [if_neg c4] at h
        by_cases c5 : op = A_NEGATE
        · rw [if_pos c5] at h
          first
          | exact tstep_mono (fun _ => trivial) (cgnegate_temp _ _ _ _ _ h)
          | exact Except.noConfusion h
        rw [if_neg c5] at h
        by_cases c6 : op = A_IDENT
        · rw [if_pos c6] at h
          exact tstep_mono (fun hp sy hsy => (hsym hp sy hsy).1) (cgloadvar_temp _ _ _ _ h)
        rw [if_neg c6] at h
        by_cases c7 : op = A_ASSIGN
        · rw [if_pos c7] at h
          first
          | exact tstep_mono (fun hp => hsym hp) (assign_temp _ _ _ _ _ _ h)
          | exact Except.noConfusion h
        rw [if_neg c7] at h
        by_cases c8 : op = A_CAST
        · rw [if_pos c8] at h
          first
          | exact tstep_mono (fun _ => trivial) (cast_step_temp _ _ _ _ _ _ h)
          | exact Except.noConfusion h
        rw [if_neg c8] at h
        by_cases c9 : A_EQ ≤ op ∧ op ≤ A_GE
        · rw [if_pos c9] at h
          first
          | exact tstep_mono (fun _ => trivial) (compare_step_temp _ _ _ _ _ _ _ h)
          | exact Except.noConfusion h
        rw [if_neg c9] at h
        by_cases c10 : op = A_INVERT
        · rw [if_pos c10] at h
          first
          | exact tstep_mono (fun _ => trivial) (cginvert_temp _ _ _ _ _ h)
          | exact Except.noConfusion h
        rw [if_neg c10] at h
        by_cases c11 : op = A_AND
        · rw [if_pos c11] at h
          first
          | exact tstep_mono (fun _ => trivial) (cgbinop_temp _ _ _ _ _ _ _ (by decide) h)
          | exact Except.noConfusion h
        rw [if_neg c11] at h
        by_cases c12 : op = A_OR
        · rw [if_pos c12] at h
          first
          | exact tstep_mono (fun _ => trivial) (cgbinop_temp _ _ _ _ _ _ _ (by decide) h)
          | exact Except.noConfusion h
        rw [if_neg c12] at h
        by_cases c13 : op = A_XOR
        · rw [if_pos c13] at h
          first
          | exact tstep_mono (fun _ => trivial) (cgbinop_temp _ _ _ _ _ _ _ (by decide) h)
          | exact Except.noConfusion h
        rw [if_neg c13] at h
        by_cases c14 : op = A_LSHIFT
        · rw [if_pos c14] at h
          first
          | exact tstep_mono (fun _ => trivial) (cgbinop_temp _ _ _ _ _ _ _ (by decide) h)
          | exact Except.noConfusion h
        rw [if_neg c14] at h
        by_cases c15 : op = A_RSHIFT
        · rw [if_pos c15] at h
          first
          | exact tstep_mono (fun _ => trivial) (cgbinop_temp _ _ _ _ _ _ _ (by decide) h)
          | exact Except.noConfusion h
        rw [if_neg c15] at h
        by_cases c16 : op = A_NOT
        · rw [if_pos c16] at h
          first
          | exact tstep_mono (fun _ => trivial) (cgnot_temp _ _ _ _ _ h)
          | exact Except.noConfusion h
        rw [if_neg c16] at h
        by_cases cg : op = A_GLUE
        · rw [if_pos cg] at h
          simp only [Except.ok.injEq, Prod.mk.injEq] at h
          obtain ⟨_, rfl⟩ := h
          exact tstep_refl _ _
        rw [if_neg cg] at h
        exact Except.noConfusion h

/-- C31 (the claim does not hold): for `void f(void) { int32 x = 1; x = x +
1; }` the compiler writes the body below.  The instructions assign the
temporaries 2, 3, 4 and 3 in this order: `cgbinop` writes the sum to the
temporary of its left operand, so `%.t3` is assigned twice and the numbers
are not increasing. -/
theorem temporary_assigned_twice :
    output_of (compile libc_unused 60
      "void f(void) \x7b int32 x = 1; x = x + 1; \x7d".toList "in.al") =
      some ("export function $f() \x7b\n@START\n" ++
        trender [Tline.other "  %x =l alloc4 1\n", Tline.fresh 2 "w copy 1\n",
          Tline.other "  storew %.t2, %x\n", Tline.fresh 3 "w loadsw %x\n",
          Tline.fresh 4 "w copy 1\n", Tline.again 3 "w add" ", %.t4\n",
          Tline.other "  storew %.t3, %x\n"] ++ "@END\n  ret\n\x7d\n") ∧
    trender [Tline.other "  %x =l alloc4 1\n", Tline.fresh 2 "w copy 1\n",
        Tline.other "  storew %.t2, %x\n", Tline.fresh 3 "w loadsw %x\n",
        Tline.fresh 4 "w copy 1\n", Tline.again 3 "w add" ", %.t4\n",
        Tline.other "  storew %.t3, %x\n"] =
      "  %x =l alloc4 1\n  %.t2 =w copy 1\n  storew %.t2, %x\n  %.t3 =w loadsw %x\n" ++
      "  %.t4 =w copy 1\n  %.t3 =w add %.t3, %.t4\n  storew %.t3, %x\n" ∧
    assigned_temps [Tline.other "  %x =l alloc4 1\n", Tline.fresh 2 "w copy 1\n",
        Tline.other "  storew %.t2, %x\n", Tline.fresh 3 "w loadsw %x\n",
        Tline.fresh 4 "w copy 1\n", Tline.again 3 "w add" ", %.t4\n",
        Tline.other "  storew %.t3, %x\n"] = [2, 3, 4, 3] ∧
    ¬ ([2, 3, 4, 3] : List Int).Nodup ∧
    ¬ ([2, 3, 4, 3] : List Int).Pairwise (fun a b => a < b) := by
  refine ⟨by decide!, by decide!, rfl, by decide, by decide⟩

/-- C31, amended: within a run of `genAST` that ends without an error, on
any tree, the text written is a sequence of pieces, each ending with a
newline: an instruction that assigns a temporary `cgalloctemp` handed out
for it (the load of a literal or of a variable, a comparison, a widening
cast, a call with a result), an instruction that assigns the temporary it
reads as an operand (the arithmetic, bitwise and shift operations, negate,
not and invert), or another text.  The temporaries of the first kind are
strictly increasing in the order of the text, so each is assigned by one
such instruction only, and all of them lie above the counter of the
temporaries before the run and not above the counter after it.  When no
symbol name and no text of a floating-point literal holds a newline and no
symbol name of the tree starts with a dot, each piece is one line of the
output and a piece of the third kind does not start like an assignment to a
temporary. -/
theorem genAST_temporaries (lc : Libc) (syms : Symtab) (fuel : Nat) (n : ASTnode)
    (g : Genst) (t : Int) (g1 : Genst) (h : genAST lc syms fuel n g = Except.ok (t, g1)) :
    ∃ items : List Tline,
      g1.cg.out = g.cg.out ++ trender items ∧
      g.cg.nexttemp ≤ g1.cg.nexttemp ∧
      (fresh_temps items).Pairwise (fun a b => a < b) ∧
      (fresh_temps items).Nodup ∧
      (∀ t ∈ fresh_temps items, g.cg.nexttemp < t ∧ t ≤ g1.cg.nexttemp) ∧
      (∀ x ∈ items, x.text.data.getLast? = some '\n') ∧
      ((∀ b, newlines (lc.fmt_f b) = 0) → syms_plain syms → n.tnames_ok = true →
        ∀ x ∈ items, tline_ok x) := by
  obtain ⟨items, ⟨h1, h2, h3, h4, h5⟩, h6⟩ := genAST_temp lc syms fuel n g t g1 h
  refine ⟨items, h1, h2, h3, ?_, h4, h5, fun hf hs hn => h6 ⟨⟨hf, hs⟩, hn⟩⟩
  exact h3.imp (fun hab => ne_of_lt hab)

/-- Witness for `genAST_temporaries`: the body `{ int32 x = 1; x = x + 1; }`
from the state at program start.  The counter of the temporaries goes from
1 to 4. -/
theorem genAST_temporaries_witness :
    genAST libc_unused (parse_block "\x7b int32 x = 1; x = x + 1; \x7d".toList).2 60
        (parse_block "\x7b int32 x = 1; x = x + 1; \x7d".toList).1 Genst.init =
      Except.ok (NOREG, ⟨⟨4,
        "  %x =l alloc4 1\n  %.t2 =w copy 1\n  storew %.t2, %x\n  %.t3 =w loadsw %x\n" ++
        "  %.t4 =w copy 1\n  %.t3 =w add %.t3, %.t4\n  storew %.t3, %x\n"⟩, 1, []⟩) ∧
    (∀ b, newlines (libc_unused.fmt_f b) = 0) ∧
    syms_plain (parse_block "\x7b int32 x = 1; x = x + 1; \x7d".toList).2 ∧
    (parse_block "\x7b int32 x = 1; x = x + 1; \x7d".toList).1.tnames_ok = true ∧
    ∃ items : List Tline,
      ("  %x =l alloc4 1\n  %.t2 =w copy 1\n  storew %.t2, %x\n  %.t3 =w loadsw %x\n" ++
        "  %.t4 =w copy 1\n  %.t3 =w add %.t3, %.t4\n  storew %.t3, %x\n") =
        "" ++ trender items ∧
      (fresh_temps items).Pairwise (fun a b => a < b) ∧
      (∀ t ∈ fresh_temps items, (1 : Int) < t ∧ t ≤ 4) ∧
      (∀ x ∈ items, tline_ok x) := by
  have h : genAST libc_unused (parse_block "\x7b int32 x = 1; x = x + 1; \x7d".toList).2 60
      (parse_block "\x7b int32 x = 1; x = x + 1; \x7d".toList).1 Genst.init =
      Except.ok (NOREG, ⟨⟨4,
        "  %x =l alloc4 1\n  %.t2 =w copy 1\n  storew %.t2, %x\n  %.t3 =w loadsw %x\n" ++
        "  %.t4 =w copy 1\n  %.t3 =w add %.t3, %.t4\n  storew %.t3, %x\n"⟩, 1, []⟩) := by
    decide!
  have hf : ∀ b, newlines (libc_unused.fmt_f b) = 0 := fun _ => rfl
  have hs : syms_plain (parse_block "\x7b int32 x = 1; x = x + 1; \x7d".toList).2 := by
    decide!
  have hn : (parse_block "\x7b int32 x = 1; x = x + 1; \x7d".toList).1.tnames_ok = true := by
    decide!
  obtain ⟨items, h1, _, h3, _, h5, _, h7⟩ :=
    genAST_temporaries libc_unused _ 60 _ Genst.init _ _ h
  exact ⟨h, hf, hs, hn, items, h1, h3, h5, h7 hf hs hn⟩

/-! ## The types of the children of a binary node -/

/-- The if-chain of `widen_type` on a typed node that is not of type void. -/
theorem widen_type_typed (op : Nat) (nty t : Ty) (rv : Bool) (l m r : ASTnode)
    (sym : Option Sym) (v : Litval) (s : Option String) (hv : nty ≠ ty_void) :
    widen_type (ASTnode.node op (some nty) rv l m r sym v s) (some t) =
      if nty = t then Except.ok (ASTnode.node op (some nty) rv l m r sym v s)
      else if t = ty_bool then Except.ok ASTnode.NULL
      else if (is_integer nty && is_flonum t) = true then
        Except.ok (ASTnode.node A_CAST (some t) true
          (ASTnode.node op (some nty) rv l m r sym v s) ASTnode.NULL ASTnode.NULL none ⟨0⟩ none)
      else if t.size < nty.size then Except.ok (ASTnode.node op (some nty) rv l m r sym v s)
      else if op = A_NUMLIT then
        if (t.is_unsigned && !nty.is_unsigned && decide (v.intval < 0)) = true then
          fatal ("Cannot cast negative literal value " ++ toString v.intval ++
            " to be unsigned\n")
        else Except.ok (ASTnode.node op (some t) rv l m r sym v s)
      else if (nty.is_unsigned != t.is_unsigned) = true then Except.ok ASTnode.NULL
      else
        Except.ok (ASTnode.node A_CAST (some t) true
          (ASTnode.node op (some nty) rv l m r sym v s) ASTnode.NULL ASTnode.NULL none ⟨0⟩ none) := by
  unfold widen_type
  simp only [Option.some.injEq, hv, if_false]
  by_cases h1 : nty = t
  · simp only [h1, if_true]
  · simp only [h1, if_false]
    by_cases h2 : t = ty_bool
    · simp only [h2, if_true]
    · simp only [h2, if_false]
      by_cases h3 : (is_integer nty && is_flonum t) = true
      · simp only [h3, if_true]; rfl
      · simp only [h3, if_false, Bool.false_eq_true]
        by_cases h4 : t.size < nty.size
        · simp only [h4, if_true]
        · simp only [h4, if_false]
          by_cases h5 : op = A_NUMLIT
          · simp only [h5, if_true]
            by_cases h6 : (t.is_unsigned && !nty.is_unsigned && decide (v.intval < 0)) = true
            · simp only [h6, if_true]
            · simp only [h6, if_false, Bool.false_eq_true]
              rfl
          · simp only [h5, if_false]
            by_cases h7 : (nty.is_unsigned != t.is_unsigned) = true
            · simp only [h7, if_true]
            · simp only [h7, if_false, Bool.false_eq_true]; rfl

/-- What `add_type` gets from `widen_type` on a typed node that is not of
type void: the node is kept with its type, or the child ends with the type
asked for, or the node is a negative literal asked to become unsigned. -/
theorem widen_type_outcome (op : Nat) (nty t : Ty) (rv : Bool) (l m r : ASTnode)
    (sym : Option Sym) (v : Litval) (s : Option String) (hv : nty ≠ ty_void) :
    ((nty ≠ t ∧ (t = ty_bool ∨ ((is_integer nty && is_flonum t) = false ∧
        (t.size < nty.size ∨ (decide (op = A_NUMLIT) = false ∧
          nty.is_unsigned ≠ t.is_unsigned))))) ∧
      ∃ n, widen_type (ASTnode.node op (some nty) rv l m r sym v s) (some t) = Except.ok n ∧
        (if n.isNULL then ASTnode.node op (some nty) rv l m r sym v s else n) =
          ASTnode.node op (some nty) rv l m r sym v s) ∨
    (∃ n, widen_type (ASTnode.node op (some nty) rv l m r sym v s) (some t) = Except.ok n ∧
      (if n.isNULL then ASTnode.node op (some nty) rv l m r sym v s else n).type =
        Except.ok (some t)) ∨
    (op = A_NUMLIT ∧ v.intval < 0 ∧ t.is_unsigned = true ∧ nty.is_unsigned = false ∧
      widen_type (ASTnode.node op (some nty) rv l m r sym v s) (some t) =
        fatal ("Cannot cast negative literal value " ++ toString v.intval ++
          " to be unsigned\n")) := by
  rw [widen_type_typed op nty t rv l m r sym v s hv]
  by_cases h1 : nty = t
  · rw [if_pos h1]
    exact Or.inr (Or.inl ⟨_, rfl, by rw [h1]; rfl⟩)
  · rw [if_neg h1]
    by_cases h2 : t = ty_bool
    · rw [if_pos h2]
      exact Or.inl ⟨⟨h1, Or.inl h2⟩, _, rfl, rfl⟩
    · rw [if_neg h2]
      by_cases h3 : (is_integer nty && is_flonum t) = true
      · rw [if_pos h3]
        exact Or.inr (Or.inl ⟨_, rfl, rfl⟩)
      · rw [if_neg h3]
        have h3f : (is_integer nty && is_flonum t) = false := by simpa using h3
        by_cases h4 : t.size < nty.size
        · rw [if_pos h4]
          exact Or.inl ⟨⟨h1, Or.inr ⟨h3f, Or.inl h4⟩⟩, _, rfl, rfl⟩
        · rw [if_neg h4]
          by_cases h5 : op = A_NUMLIT
          · rw [if_pos h5]
            by_cases h6 : (t.is_unsigned && !nty.is_unsigned && decide (v.intval < 0)) = true
            · rw [if_pos h6]
              simp only [Bool.and_eq_true, Bool.not_eq_true', decide_eq_true_eq] at h6
              exact Or.inr (Or.inr ⟨h5, h6.2, h6.1.1, h6.1.2, rfl⟩)
            · rw [if_neg h6]
              exact Or.inr (Or.inl ⟨_, rfl, rfl⟩)
          · rw [if_neg h5]
            by_cases h7 : (nty.is_unsigned != t.is_unsigned) = true
            · rw [if_pos h7]
              refine Or.inl ⟨⟨h1, Or.inr ⟨h3f, Or.inr ⟨by simpa using h5, ?_⟩⟩⟩, _, rfl, rfl⟩
              simpa using h7
            · rw [if_neg h7]
              exact Or.inr (Or.inl ⟨_, rfl, rfl⟩)

/-- When both operands are kept as they are, the operand types differ in
signedness, neither is a float type, and neither operand is a literal that
could take the type of the other. -/
theorem kept_both (lt rt : Ty) (p q : Bool) :
    lt ≠ rt →
    (rt = ty_bool ∨ ((is_integer lt && is_flonum rt) = false ∧
      (rt.size < lt.size ∨ (p = false ∧ lt.is_unsigned ≠ rt.is_unsigned)))) →
    (lt = ty_bool ∨ ((is_integer rt && is_flonum lt) = false ∧
      (lt.size < rt.size ∨ (q = false ∧ rt.is_unsigned ≠ lt.is_unsigned)))) →
    lt.is_unsigned ≠ rt.is_unsigned ∧ is_flonum lt = false ∧ is_flonum rt = false ∧
      (p = false ∨ rt.size < lt.size ∨ rt = ty_bool) ∧
      (q = false ∨ lt.size < rt.size ∨ lt = ty_bool) := by
  cases lt <;> cases rt <;> cases p <;> cases q <;> decide

/-- A typed node is kept as it is when the type asked for is another one and
is bool, or is smaller, or differs in signedness from that of a node that is
not a literal, no integer being asked to become a float. -/
theorem widen_type_kept (op : Nat) (nty t : Ty) (rv : Bool) (l m r : ASTnode)
    (sym : Option Sym) (v : Litval) (s : Option String) (hv : nty ≠ ty_void)
    (hne : nty ≠ t)
    (hk : t = ty_bool ∨ ((is_integer nty && is_flonum t) = false ∧
      (t.size < nty.size ∨ (op ≠ A_NUMLIT ∧ nty.is_unsigned ≠ t.is_unsigned)))) :
    ∃ n, widen_type (ASTnode.node op (some nty) rv l m r sym v s) (some t) = Except.ok n ∧
      (if n.isNULL then ASTnode.node op (some nty) rv l m r sym v s else n) =
        ASTnode.node op (some nty) rv l m r sym v s := by
  rw [widen_type_typed op nty t rv l m r sym v s hv, if_neg hne]
  by_cases h2 : t = ty_bool
  · rw [if_pos h2]; exact ⟨_, rfl, rfl⟩
  · rw [if_neg h2]
    rcases hk with hk | ⟨h3, hk⟩
    · exact absurd hk h2
    · rw [if_neg (by rw [h3]; decide)]
      by_cases h4 : t.size < nty.size
      · rw [if_pos h4]; exact ⟨_, rfl, rfl⟩
      · rw [if_neg h4]
        rcases hk with hk | ⟨h5, h7⟩
        · exact absurd hk h4
        · rw [if_neg h5, if_pos (by simpa using h7)]
          exact ⟨_, rfl, rfl⟩

/-- C4 (amended): for every binary node built by binop with a non-relational
operator (ADD, SUBTRACT, MULTIPLY, DIVIDE, AND, OR, XOR, LSHIFT, RSHIFT) over
two typed, non-void operands.  When the operand types differ in the
signedness flag, neither is a float type, and each operand is either not a
literal or faces a type that is bool or smaller than its own, binop returns
the node with both children as they were, of two different types, and the
node has the type of the left child.  In every other case binop either
returns a node whose left child and right child have the same type, which is
the type of the node, or it stops with `Cannot cast negative literal value`
because a negative signed literal operand faces an unsigned type. -/
theorem binop_unifies (op : Nat)
    (hop : op ∈ [A_ADD, A_SUBTRACT, A_MULTIPLY, A_DIVIDE, A_AND, A_OR, A_XOR,
      A_LSHIFT, A_RSHIFT])
    (lop rop : Nat) (lt rt : Ty) (lrv rrv : Bool)
    (ll lm lr rl rm rr : ASTnode) (lsym rsym : Option Sym)
    (lv rv : Litval) (ls rs : Option String)
    (hl : lt ≠ ty_void) (hr : rt ≠ ty_void) :
    (lt.is_unsigned ≠ rt.is_unsigned ∧ is_flonum lt = false ∧ is_flonum rt = false ∧
        (lop ≠ A_NUMLIT ∨ rt.size < lt.size ∨ rt = ty_bool) ∧
        (rop ≠ A_NUMLIT ∨ lt.size < rt.size ∨ lt = ty_bool) →
      binop (ASTnode.node lop (some lt) lrv ll lm lr lsym lv ls)
          (ASTnode.node rop (some rt) rrv rl rm rr rsym rv rs) op =
        Except.ok (ASTnode.node op (some lt) true
          (ASTnode.node lop (some lt) lrv ll lm lr lsym lv ls) ASTnode.NULL
          (ASTnode.node rop (some rt) rrv rl rm rr rsym rv rs) none ⟨0⟩ none) ∧
      lt ≠ rt) ∧
    (¬ (lt.is_unsigned ≠ rt.is_unsigned ∧ is_flonum lt = false ∧ is_flonum rt = false ∧
        (lop ≠ A_NUMLIT ∨ rt.size < lt.size ∨ rt = ty_bool) ∧
        (rop ≠ A_NUMLIT ∨ lt.size < rt.size ∨ lt = ty_bool)) →
      (∃ l1 r1 ty,
        binop (ASTnode.node lop (some lt) lrv ll lm lr lsym lv ls)
            (ASTnode.node rop (some rt) rrv rl rm rr rsym rv rs) op =
          Except.ok (ASTnode.node op (some ty) true l1 ASTnode.NULL r1 none ⟨0⟩ none) ∧
        l1.type = Except.ok (some ty) ∧ r1.type = Except.ok (some ty)) ∨
      (lop = A_NUMLIT ∧ lv.intval < 0 ∧ rt.is_unsigned = true ∧ lt.is_unsigned = false ∧
        binop (ASTnode.node lop (some lt) lrv ll lm lr lsym lv ls)
            (ASTnode.node rop (some rt) rrv rl rm rr rsym rv rs) op =
          fatal ("Cannot cast negative literal value " ++ toString lv.intval ++
            " to be unsigned\n")) ∨
      (rop = A_NUMLIT ∧ rv.intval < 0 ∧ lt.is_unsigned = true ∧ rt.is_unsigned = false ∧
        binop (ASTnode.node lop (some lt) lrv ll lm lr lsym lv ls)
            (ASTnode.node rop (some rt) rrv rl rm rr rsym rv rs) op =
          fatal ("Cannot cast negative literal value " ++ toString rv.intval ++
            " to be unsigned\n"))) := by
  have hrel : ¬ (A_EQ ≤ op ∧ op ≤ A_NOT) := by
    simp only [List.mem_cons, List.mem_singleton, List.mem_nil_iff, or_false] at hop
    rcases hop with h | h | h | h | h | h | h | h | h <;> subst h <;> decide
  rw [binop_typed op lop rop lt rt lrv rrv ll lm lr rl rm rr lsym rsym lv rv ls rs hrel]
  constructor
  · rintro ⟨hS, hfl, hfr, hA, hB⟩
    have hne : lt ≠ rt := fun e => hS (by rw [e])
    have hil : (is_integer lt && is_flonum rt) = false := by rw [hfr]; simp
    have hir : (is_integer rt && is_flonum lt) = false := by rw [hfl]; simp
    obtain ⟨n1, h1, h1n⟩ := widen_type_kept lop lt rt lrv ll lm lr lsym lv ls hl hne (by
      rcases hA with h | h | h
      · exact Or.inr ⟨hil, Or.inr ⟨h, hS⟩⟩
      · exact Or.inr ⟨hil, Or.inl h⟩
      · exact Or.inl h)
    obtain ⟨n2, h2, h2n⟩ := widen_type_kept rop rt lt rrv rl rm rr rsym rv rs hr (Ne.symm hne) (by
      rcases hB with h | h | h
      · exact Or.inr ⟨hir, Or.inr ⟨h, Ne.symm hS⟩⟩
      · exact Or.inr ⟨hir, Or.inl h⟩
      · exact Or.inl h)
    refine ⟨?_, hne⟩
    simp only [h1, h1n, h2, h2n, bind, Except.bind, ASTnode.type]
  · intro hnR
    rcases widen_type_outcome lop lt rt lrv ll lm lr lsym lv ls hl with
      ⟨⟨hne, hk1⟩, n1, h1, h1n⟩ | ⟨n1, h1, h1t⟩ | ⟨ha, hb, hc, hd, h1⟩
    · rcases widen_type_outcome rop rt lt rrv rl rm rr rsym rv rs hr with
        ⟨⟨_, hk2⟩, n2, h2, h2n⟩ | ⟨n2, h2, h2t⟩ | ⟨ha, hb, hc, hd, h2⟩
      · exfalso
        apply hnR
        have := kept_both lt rt (decide (lop = A_NUMLIT)) (decide (rop = A_NUMLIT)) hne hk1 hk2
        simpa only [decide_eq_false_iff_not, ne_eq] using this
      · refine Or.inl ⟨ASTnode.node lop (some lt) lrv ll lm lr lsym lv ls,
          (if n2.isNULL then ASTnode.node rop (some rt) rrv rl rm rr rsym rv rs else n2), lt,
          ?_, rfl, h2t⟩
        simp only [h1, h1n, h2, bind, Except.bind, ASTnode.type]
      · refine Or.inr (Or.inr ⟨ha, hb, hc, hd, ?_⟩)
        simp only [h1, h1n, h2, bind, Except.bind, ASTnode.type, fatal]
    · have h2 : widen_type (ASTnode.node rop (some rt) rrv rl rm rr rsym rv rs) (some rt) =
          Except.ok (ASTnode.node rop (some rt) rrv rl rm rr rsym rv rs) := by
        rw [widen_type_typed rop rt rt rrv rl rm rr rsym rv rs hr, if_pos rfl]
      refine Or.inl ⟨(if n1.isNULL then ASTnode.node lop (some lt) lrv ll lm lr lsym lv ls
          else n1), ASTnode.node rop (some rt) rrv rl rm rr rsym rv rs, rt, ?_, h1t, rfl⟩
      simp only [h1, h1t, h2, bind, Except.bind]
      rfl
    · refine Or.inr (Or.inl ⟨ha, hb, hc, hd, ?_⟩)
      simp only [h1, bind, Except.bind, fatal]

/-- Witness for `binop_unifies`: `x + 5` with x of type uint8 and the
literal of type int8, two types of different signedness: the literal takes
the type of x. -/
theorem binop_unifies_witness :
    A_ADD ∈ [A_ADD, A_SUBTRACT, A_MULTIPLY, A_DIVIDE, A_AND, A_OR, A_XOR, A_LSHIFT, A_RSHIFT] ∧
    ty_uint8 ≠ ty_void ∧ ty_int8 ≠ ty_void ∧
    ∃ l1 r1 ty,
      binop (ASTnode.node A_IDENT (some ty_uint8) true ASTnode.NULL ASTnode.NULL
          ASTnode.NULL none ⟨0⟩ none)
        (ASTnode.node A_NUMLIT (some ty_int8) true ASTnode.NULL ASTnode.NULL
          ASTnode.NULL none ⟨5⟩ none) A_ADD =
        Except.ok (ASTnode.node A_ADD (some ty) true l1 ASTnode.NULL r1 none ⟨0⟩ none) ∧
      l1.type = Except.ok (some ty) ∧ r1.type = Except.ok (some ty) :=
  ⟨by decide, by decide, by decide,
    (((binop_unifies A_ADD (by decide) A_IDENT A_NUMLIT ty_uint8 ty_int8 true true
      ASTnode.NULL ASTnode.NULL ASTnode.NULL ASTnode.NULL ASTnode.NULL ASTnode.NULL
      none none ⟨0⟩ ⟨5⟩ none none (by decide) (by decide)).2 (by decide)).resolve_right
        (by
          rintro (⟨h, _⟩ | ⟨_, h, _⟩)
          · exact absurd h (by decide)
          · exact absurd h (by decide)))⟩

/-! ## The minus sign in front of a literal -/

theorem char_codes_inj : ∀ a b : List Char, char_codes a = char_codes b → a = b
  | [], [], _ => rfl
  | [], _ :: _, h => by simp [char_codes] at h
  | _ :: _, [], h => by simp [char_codes] at h
  | x :: a, y :: b, h => by
    simp only [char_codes, List.map_cons, List.cons.injEq] at h
    have hxy : x.toNat = y.toNat := by exact_mod_cast h.1
    have : x = y := by rw [← Char.ofNat_toNat x, ← Char.ofNat_toNat y, hxy]
    rw [this, char_codes_inj a b h.2]

/-- With nothing put back, `next` returns the next character of the input
when that character does not start a linemark. -/
theorem next_char (sc : Lex → Res (Int × Lex)) (fuel : Nat) (st : Lex)
    (c : Char) (rest : List Char)
    (hp : st.Putback = 0) (hin : st.input = c :: rest)
    (h1 : st.Linestart = 0 ∨ c.toNat ≠ 35) :
    ∃ st1, next sc fuel st = Except.ok ((c.toNat : Int), st1) ∧
      st1.input = rest ∧ st1.Putback = 0 ∧ st1.Peektoken = st.Peektoken ∧
      st1.Thistoken = st.Thistoken ∧ (c.toNat ≠ 10 → st1.Linestart = 0) := by
  have hc35 : ¬ (st.Linestart ≠ 0 ∧ (c.toNat : Int) = 35) := by
    rintro ⟨ha, hb⟩
    rcases h1 with h | h
    · exact ha h
    · exact h (by exact_mod_cast hb)
  unfold next
  simp only [hp, ne_eq, not_true_eq_false, if_false, fgetc, hin]
  unfold next_linemarks
  simp only [ne_eq, hc35, if_false]
  by_cases h10 : (c.toNat : Int) = 10
  · simp only [h10, if_true]
    exact ⟨_, rfl, rfl, rfl, rfl, rfl, fun h => absurd (by exact_mod_cast h10) h⟩
  · simp only [h10, if_false]
    exact ⟨_, rfl, rfl, rfl, rfl, rfl, fun _ => rfl⟩

/-- The loop of `skip` runs over white space up to a minus sign. -/
theorem skip_loop_minus (sc : Lex → Res (Int × Lex)) (fuel : Nat) (tail : List Char) :
    ∀ (ws : List Char) (k : Nat) (w : Int) (st : Lex),
      isspace w = true → (∀ c ∈ ws, isspace (c.toNat : Int) = true) → ws.length + 1 ≤ k →
      st.Putback = 0 → st.input = ws ++ '-' :: tail →
      ∃ st1, skip_loop sc fuel k w st = Except.ok (45, st1) ∧
        st1.input = tail ∧ st1.Putback = 0 ∧ st1.Linestart = 0 ∧
        st1.Peektoken = st.Peektoken ∧ st1.Thistoken = st.Thistoken := by
  intro ws
  induction ws with
  | nil =>
    intro k w st hw _ hk hp hin
    obtain ⟨k1, rfl⟩ : ∃ k1, k = k1 + 1 := ⟨k - 1, by omega⟩
    obtain ⟨st1, e1, e2, e3, e4, e5, e6⟩ :=
      next_char sc fuel st '-' tail hp (by simpa using hin) (Or.inr (by decide))
    refine ⟨st1, ?_, e2, e3, e6 (by decide), e4, e5⟩
    unfold skip_loop
    simp only [hw, if_true, e1, bind, Except.bind]
    unfold skip_loop
    have e : ((('-' : Char).toNat : Nat) : Int) = 45 := by decide
    have hsp45 : isspace 45 = false := by decide
    simp only [e, hsp45, Bool.false_eq_true, if_false]
  | cons a ws ih =>
    intro k w st hw hws hk hp hin
    obtain ⟨k1, rfl⟩ : ∃ k1, k = k1 + 1 := ⟨k - 1, by omega⟩
    have ha : isspace (a.toNat : Int) = true := hws a (List.mem_cons_self _ _)
    have ha35 : a.toNat ≠ 35 := by
      intro h
      rw [h] at ha
      revert ha
      decide
    obtain ⟨st1, e1, e2, e3, e4, e5, _⟩ :=
      next_char sc fuel st a (ws ++ '-' :: tail) hp (by simpa using hin) (Or.inr ha35)
    obtain ⟨st2, f1, f2, f3, f4, f5, f6⟩ :=
      ih k1 (a.toNat : Int) st1 ha (fun c hc => hws c (List.mem_cons_of_mem _ hc))
        (by simp only [List.length_cons] at hk; omega) e3 e2
    refine ⟨st2, ?_, f2, f3, f4, by rw [f5, e4], by rw [f6, e5]⟩
    unfold skip_loop
    simp only [hw, if_true, e1, bind, Except.bind, f1]

/-- From a state whose unread characters are white space and then a minus
sign, `skip` returns the minus sign: the input after it is left to read. -/
theorem skip_minus (sc : Lex → Res (Int × Lex)) (n : Nat) (st : Lex)
    (ws tail : List Char) (hws : ∀ c ∈ ws, isspace (c.toNat : Int) = true)
    (hfuel : ws.length ≤ n) (hin : st.unread = char_codes (ws ++ '-' :: tail)) :
    ∃ st1, skip sc n st = Except.ok (45, st1) ∧
      st1.input = tail ∧ st1.Putback = 0 ∧
      (st1.Linestart = 0 ∨ (st.Putback = 45 ∧ st1.Linestart = st.Linestart)) ∧
      st1.Peektoken = st.Peektoken ∧ st1.Thistoken = st.Thistoken := by
  have e45 : ((('-' : Char).toNat : Nat) : Int) = 45 := by decide
  have hsp45 : isspace 45 = false := by decide
  by_cases hp : st.Putback = 0
  · have hin1 : st.input = ws ++ '-' :: tail := by
      apply char_codes_inj
      simpa [Lex.unread, hp] using hin
    cases ws with
    | nil =>
      obtain ⟨st1, e1, e2, e3, e4, e5, e6⟩ :=
        next_char sc n st '-' tail hp (by simpa using hin1) (Or.inr (by decide))
      refine ⟨st1, ?_, e2, e3, Or.inl (e6 (by decide)), e4, e5⟩
      unfold skip
      simp only [e1, bind, Except.bind]
      unfold skip_loop
      simp only [e45, hsp45, Bool.false_eq_true, if_false]
    | cons a ws =>
      have ha : isspace (a.toNat : Int) = true := hws a (List.mem_cons_self _ _)
      have ha35 : a.toNat ≠ 35 := by
        intro h
        rw [h] at ha
        revert ha
        decide
      obtain ⟨st1, e1, e2, e3, e4, e5, _⟩ :=
        next_char sc n st a (ws ++ '-' :: tail) hp (by simpa using hin1) (Or.inr ha35)
      obtain ⟨st2, f1, f2, f3, f4, f5, f6⟩ :=
        skip_loop_minus sc n tail ws n (a.toNat : Int) st1 ha
          (fun c hc => hws c (List.mem_cons_of_mem _ hc))
          (by simp only [List.length_cons] at hfuel; omega) e3 e2
      refine ⟨st2, ?_, f2, f3, Or.inl f4, by rw [f5, e4], by rw [f6, e5]⟩
      unfold skip
      simp only [e1, bind, Except.bind, f1]
  · have hnext : next sc n st = Except.ok (st.Putback, { st with Putback := 0 }) := by
      unfold next
      simp only [ne_eq, hp, not_false_eq_true, if_true]
    cases ws with
    | nil =>
      have h2 : st.Putback = 45 ∧ st.input = tail := by
        simp only [Lex.unread, hp, if_false, List.nil_append, char_codes, List.map_cons,
          List.singleton_append, List.cons.injEq, e45] at hin
        exact ⟨hin.1, char_codes_inj _ _ hin.2⟩
      refine ⟨{ st with Putback := 0 }, ?_, h2.2, rfl, Or.inr ⟨h2.1, rfl⟩, rfl, rfl⟩
      unfold skip
      simp only [hnext, bind, Except.bind]
      unfold skip_loop
      simp only [h2.1, hsp45, Bool.false_eq_true, if_false]
    | cons a ws =>
      have h2 : st.Putback = (a.toNat : Int) ∧ st.input = ws ++ '-' :: tail := by
        simp only [Lex.unread, hp, if_false, List.cons_append, char_codes, List.map_cons,
          List.singleton_append, List.cons.injEq, List.nil_append] at hin
        exact ⟨hin.1, char_codes_inj _ _ hin.2⟩
      have ha : isspace (a.toNat : Int) = true := hws a (List.mem_cons_self _ _)
      obtain ⟨st2, f1, f2, f3, f4, f5, f6⟩ :=
        skip_loop_minus sc n tail ws n (a.toNat : Int) { st with Putback := 0 } ha
          (fun c hc => hws c (List.mem_cons_of_mem _ hc))
          (by simp only [List.length_cons] at hfuel; omega) rfl h2.2
      refine ⟨st2, ?_, f2, f3, Or.inl f4, f5, f6⟩
      unfold skip
      simp only [hnext, bind, Except.bind, h2.1, f1]

/-- The digit loop of `strtoull` stops at a character that is not a digit
below the radix. -/
theorem strto_digits_stop (r : Nat) (more : List Char)
    (hmore : ∀ m ∈ more.head?, (strto_digit m).all (fun d => decide (r ≤ d)) = true) :
    ∀ (ds : List Char) (acc : Nat),
      (∀ c ∈ ds, strto_digit c = some (digit_value c) ∧ digit_value c < r) →
      strto_digits r acc (ds ++ more) = strto_digits r acc ds := by
  intro ds
  induction ds with
  | nil =>
    intro acc _
    cases more with
    | nil => rfl
    | cons m rest =>
      have h := hmore m (by simp)
      simp only [List.nil_append, strto_digits]
      cases hd : strto_digit m with
      | none => rfl
      | some d =>
        rw [hd] at h
        have hle : r ≤ d := by simpa using h
        simp only [Nat.not_lt.2 hle, if_false]
  | cons d ds ih =>
    intro acc h
    obtain ⟨h1, h2⟩ := h d (List.mem_cons_self _ _)
    simp only [List.cons_append, strto_digits, h1, h2, if_true]
    exact ih _ (fun c hc => h c (List.mem_cons_of_mem _ hc))

/-- A character of numeric literals that is neither a decimal digit nor the
dot is not a digit in radix 10. -/
theorem numchar_not_decimal : ∀ c ∈ numchar, c ≠ '.' → dec_digit c = false →
    (strto_digit c).all (fun d => decide (10 ≤ d)) = true := by
  decide

/-- After a minus sign `strtoull` in radix 10 returns the negated value of
the leading run of decimal digits, modulo `2^64`. -/
theorem strtoull_minus_run (c0 : Char) (ds more : List Char)
    (hall : ∀ c ∈ c0 :: ds, dec_digit c = true)
    (hmore : ∀ m ∈ more.head?, (strto_digit m).all (fun d => decide (10 ≤ d)) = true)
    (hmax : digits_value 10 (c0 :: ds) ≤ 2 ^ 64 - 1) :
    strtoull ('-' :: c0 :: (ds ++ more)) 10 =
      (2 ^ 64 - digits_value 10 (c0 :: ds)) % 2 ^ 64 := by
  have hall2 : ∀ c ∈ c0 :: ds, strto_digit c = some (digit_value c) ∧ digit_value c < 10 := by
    intro c hc
    obtain ⟨h1, h2, _, _⟩ := dec_digit_facts c (hall c hc)
    exact ⟨(hex_digit_facts c h1).2.2.1, h2⟩
  have hv := strto_digits_value 10 (c0 :: ds) 0 hall2
  simp only [Nat.zero_mul, Nat.add_zero] at hv
  have hv2 : strto_digits 10 0 (c0 :: (ds ++ more)) = digits_value 10 (c0 :: ds) := by
    rw [← hv]
    exact strto_digits_stop 10 more hmore (c0 :: ds) 0 hall2
  have hnot : ¬ (digits_value 10 (c0 :: ds) > 2 ^ 64 - 1) := by omega
  have hsp : isspace (('-' : Char).toNat : Int) = false := by decide
  have e16 : ¬ ((10 : Nat) = 16) := by decide
  generalize ds ++ more = l at hv2
  unfold strtoull
  simp only [List.dropWhile, hsp, List.head?_cons, true_or, if_true, List.tail_cons, e16,
    false_and, if_false]
  cases l with
  | nil => simp only [hv2, hnot, if_false, decide_True, if_true]
  | cons a u =>
    cases u with
    | nil => simp only [hv2, hnot, if_false, decide_True, if_true]
    | cons b w => simp only [hv2, hnot, if_false, decide_True, if_true]

/-- C23 (amended): from any lexer state with an empty peek slot whose unread
characters (the character put back, if any, and then the input) are white
space, or nothing, and then a `-`.  When the `-` is immediately followed by a
decimal digit and the characters of numeric literals that start at that
digit (at most 510 of them) hold no dot, `scan` returns one T_NUMLIT token
of sub-kind signed-int; when the first digit is not `0` its value is the
negated decimal value of the leading run of decimal digits, for values up to
`2^63`.  When the `-` is followed by a character that is neither a digit nor
NUL, `scan` returns T_MINUS and that character is the next one `next` hands
out, in front of the rest of the input.  When the input ends after the `-`,
`scan` returns T_MINUS. -/
theorem scan_minus_sign (strtod : List Char → Nat) (n : Nat) (toThis : Bool) (t : Token)
    (st : Lex) (ws : List Char) (hpk : st.Peektoken.token = 0)
    (hws : ∀ c ∈ ws, isspace (c.toNat : Int) = true) (hfuel : ws.length ≤ n) :
    (∀ (c0 : Char) (ds more rest : List Char),
      (∀ c ∈ c0 :: ds, dec_digit c = true) →
      (∀ c ∈ more, c ∈ numchar ∧ c ≠ '.') → (∀ m ∈ more.head?, dec_digit m = false) →
      ends_literal rest = true → (c0 :: (ds ++ more)).length ≤ 510 →
      st.unread = char_codes (ws ++ '-' :: c0 :: (ds ++ more ++ rest)) →
      ∃ tok st1, scan strtod (n + 1) toThis t st = Except.ok (1, tok, st1) ∧
        tok.token = T_NUMLIT ∧ tok.numtype = NUM_INT ∧
        (c0 ≠ '0' → digits_value 10 (c0 :: ds) ≤ 2 ^ 63 →
          tok.numval.intval = -(digits_value 10 (c0 :: ds) : Int)) ∧
        (toThis = true → st1.Thistoken = tok)) ∧
    (∀ (c : Char) (rest : List Char),
      isdigit (c.toNat : Int) = false → c.toNat ≠ 0 →
      (st.Putback = 45 → st.Linestart = 0) →
      st.unread = char_codes (ws ++ '-' :: c :: rest) →
      ∃ tok st1, scan strtod (n + 1) toThis t st = Except.ok (1, tok, st1) ∧
        tok.token = T_MINUS ∧ st1.unread = char_codes (c :: rest) ∧
        (toThis = true → st1.Thistoken = tok) ∧
        ∀ sc fuel, next sc fuel st1 =
          Except.ok ((c.toNat : Int), { st1 with Putback := 0 })) ∧
    (st.unread = char_codes (ws ++ ['-']) →
      ∃ tok st1, scan strtod (n + 1) toThis t st = Except.ok (1, tok, st1) ∧
        tok.token = T_MINUS ∧ st1.input = [] ∧ st1.Putback = EOF ∧
        (toThis = true → st1.Thistoken = tok)) := by
  have hpk' : ¬ (st.Peektoken.token ≠ 0) := by simp [hpk]
  have e1 : ¬ ((45 : Int) = EOF) := by decide
  have e2 : ¬ ((45 : Int) = 43) := by decide
  refine ⟨?_, ?_, ?_⟩
  · intro c0 ds more rest hall hmore hhead hend hlen hin
    obtain ⟨sk, hskip, k1, k2, _, _, _⟩ :=
      skip_minus (fun s => (scan strtod n true s.Thistoken s).map (fun r => (r.1, r.2.2))) n st
        ws (c0 :: (ds ++ more ++ rest)) hws hfuel hin
    have hd0 := hall c0 (List.mem_cons_self _ _)
    obtain ⟨hhex, _, hlo, hhi⟩ := dec_digit_facts c0 hd0
    have hnumd : ∀ c ∈ c0 :: ds, c ∈ numchar := fun c hc =>
      (hex_digit_facts c (dec_digit_facts c (hall c hc)).1).1
    have hnum : ∀ c ∈ c0 :: (ds ++ more), c ∈ numchar := by
      intro c hc
      rcases List.mem_cons.1 hc with h | h
      · exact hnumd c (by rw [h]; exact List.mem_cons_self _ _)
      · rcases List.mem_append.1 h with h | h
        · exact hnumd c (List.mem_cons_of_mem _ h)
        · exact (hmore c h).1
    have hdot : (c0 :: (ds ++ more)).contains '.' = false := by
      rw [← Bool.not_eq_true]
      intro hc
      have hmem : '.' ∈ c0 :: (ds ++ more) := by simpa using hc
      rcases List.mem_cons.1 hmem with h | h
      · exact (hex_digit_facts '.' (dec_digit_facts '.'
          (hall '.' (by rw [h]; exact List.mem_cons_self _ _))).1).2.1 rfl
      · rcases List.mem_append.1 h with h | h
        · exact (hex_digit_facts '.' (dec_digit_facts '.'
            (hall '.' (List.mem_cons_of_mem _ h))).1).2.1 rfl
        · exact (hmore '.' h).2 rfl
    obtain ⟨h35, h10, _, _, _, _⟩ := numchar_facts c0 (hnum c0 (List.mem_cons_self _ _))
    have hisd : isdigit (c0.toNat : Int) = true := by
      simp only [isdigit, Bool.and_eq_true, decide_eq_true_eq]
      exact ⟨hlo, hhi⟩
    have hnext : ∀ sc, next sc n sk =
        Except.ok ((c0.toNat : Int), { sk with input := ds ++ more ++ rest, Linestart := 0 }) := by
      intro sc
      exact next_plain sc n sk c0 (ds ++ more ++ rest) k2 k1 (Or.inr h35) h10
    obtain ⟨st2, g1, g2⟩ := scan_numlit_negative strtod
      (fun s => (scan strtod n true s.Thistoken s).map (fun r => (r.1, r.2.2))) n toThis t
      { sk with input := ds ++ more ++ rest, Linestart := 0 } c0 (ds ++ more) rest
      (hnum c0 (List.mem_cons_self _ _)) (fun c hc => hnum c (List.mem_cons_of_mem _ hc))
      hend hlen hdot k2 rfl rfl
    have hval : c0 ≠ '0' → digits_value 10 (c0 :: ds) ≤ 2 ^ 63 →
        (Litval.of_uint (strtoull ('-' :: c0 :: (ds ++ more)) 10)).intval =
          -(digits_value 10 (c0 :: ds) : Int) := by
      intro _ hmax
      rw [strtoull_minus_run c0 ds more hall
        (fun m hm => by
          have hm1 : m ∈ more := by
            cases more with
            | nil => simp at hm
            | cons a u =>
              simp only [List.head?_cons, Option.mem_def, Option.some.injEq] at hm
              rw [← hm]; exact List.mem_cons_self _ _
          exact numchar_not_decimal m (hmore m hm1).1 (hmore m hm1).2 (hhead m hm))
        (by omega)]
      exact intval_negated _ hmax
    cases toThis with
    | false =>
      refine ⟨{ t with
                token := T_NUMLIT
                numtype := NUM_INT
                numval := Litval.of_uint (strtoull ('-' :: c0 :: (ds ++ more)) 10) },
        st2, ?_, rfl, rfl, hval, fun h => absurd h (by decide)⟩
      simp only [scan, scan_body, hpk', if_false, hskip, bind, Except.bind, e1, e2,
        if_true, hnext, hisd, g1, tok_set, Bool.false_eq_true]
    | true =>
      have g2' := g2 rfl
      refine ⟨{ sk.Thistoken with
                token := T_NUMLIT
                numtype := NUM_INT
                numval := Litval.of_uint (strtoull ('-' :: c0 :: (ds ++ more)) 10) },
        { st2 with Thistoken := { sk.Thistoken with
          token := T_NUMLIT, numtype := NUM_INT,
          numval := Litval.of_uint (strtoull ('-' :: c0 :: (ds ++ more)) 10) } }, ?_, rfl, rfl,
        hval, fun _ => rfl⟩
      simp only [scan, scan_body, hpk', if_false, hskip, bind, Except.bind, e1, e2,
        if_true, hnext, hisd, g1, tok_set, g2']
  · intro c rest hnd hnz hls hin
    obtain ⟨sk, hskip, k1, k2, k3, _, _⟩ :=
      skip_minus (fun s => (scan strtod n true s.Thistoken s).map (fun r => (r.1, r.2.2))) n st
        ws (c :: rest) hws hfuel hin
    have hl0 : sk.Linestart = 0 := by
      rcases k3 with h | ⟨h1, h2⟩
      · exact h
      · rw [h2]; exact hls h1
    obtain ⟨st1, f1, f2, f3, f4, f5⟩ := next_any
      (fun s => (scan strtod n true s.Thistoken s).map (fun r => (r.1, r.2.2))) n
      sk c rest k2 k1 hl0
    have hcz : ¬ ((c.toNat : Int) = 0) := by omega
    have hnextpb : ∀ (s : Lex), s.Putback = (c.toNat : Int) → ∀ sc fuel,
        next sc fuel s = Except.ok ((c.toNat : Int), { s with Putback := 0 }) := by
      intro s hs sc fuel
      unfold next
      simp only [hs, ne_eq, hcz, not_false_eq_true, if_true]
    have hun : ∀ s : Lex, s.Putback = (c.toNat : Int) → s.input = rest →
        s.unread = char_codes (c :: rest) := by
      intro s h1 h2
      simp only [Lex.unread, h1, hcz, if_false, h2, char_codes, List.map_cons,
        List.singleton_append]
    cases toThis with
    | false =>
      refine ⟨{ t with token := T_MINUS }, putback (c.toNat : Int) st1, ?_, rfl,
        hun _ rfl (by simpa [putback] using f2), fun h => absurd h (by decide),
        hnextpb _ rfl⟩
      simp only [scan, scan_body, hpk', if_false, hskip, bind, Except.bind, e1, e2,
        if_true, f1, hnd, Bool.false_eq_true, tok_set]
    | true =>
      refine ⟨{ (putback (c.toNat : Int) st1).Thistoken with token := T_MINUS },
        { putback (c.toNat : Int) st1 with
          Thistoken := { (putback (c.toNat : Int) st1).Thistoken with token := T_MINUS } },
        ?_, rfl, hun _ rfl (by simpa [putback] using f2), fun _ => rfl, hnextpb _ rfl⟩
      simp only [scan, scan_body, hpk', if_false, hskip, bind, Except.bind, e1, e2,
        if_true, f1, hnd, Bool.false_eq_true, tok_set]
  · intro hin
    obtain ⟨sk, hskip, k1, k2, _, _, _⟩ :=
      skip_minus (fun s => (scan strtod n true s.Thistoken s).map (fun r => (r.1, r.2.2))) n st
        ws [] hws hfuel hin
    have hnext := next_eof
      (fun s => (scan strtod n true s.Thistoken s).map (fun r => (r.1, r.2.2))) n sk k2 k1
    have hnd : isdigit EOF = false := by decide
    cases toThis with
    | false =>
      refine ⟨{ t with token := T_MINUS }, putback EOF { sk with Linestart := 0 }, ?_, rfl,
        by simpa [putback] using k1, rfl, fun h => absurd h (by decide)⟩
      simp only [scan, scan_body, hpk', if_false, hskip, bind, Except.bind, e1, e2,
        if_true, hnext, hnd, Bool.false_eq_true, tok_set]
    | true =>
      refine ⟨{ (putback EOF { sk with Linestart := 0 }).Thistoken with token := T_MINUS },
        { putback EOF { sk with Linestart := 0 } with
          Thistoken := { (putback EOF { sk with Linestart := 0 }).Thistoken with
            token := T_MINUS } },
        ?_, rfl, by simpa [putback] using k1, rfl, fun _ => rfl⟩
      simp only [scan, scan_body, hpk', if_false, hskip, bind, Except.bind, e1, e2,
        if_true, hnext, hnd, Bool.false_eq_true, tok_set]

/-- Witness for `scan_minus_sign`: `-5;` after a blank that was put back, as
in `x = -5;`; `5` after a minus sign that was put back, as in `a-5`; and
`- 5`, where the blank is put back. -/
theorem scan_minus_sign_witness :
    (∃ tok st1, scan (fun _ => 0) 2 true ⟨0, none, ⟨0⟩, 0⟩
          { Lex.init "-5;".toList "in.al" with Putback := 32 } = Except.ok (1, tok, st1) ∧
        tok.token = T_NUMLIT ∧ tok.numtype = NUM_INT ∧
        ('5' ≠ '0' → digits_value 10 ('5' :: []) ≤ 2 ^ 63 →
          tok.numval.intval = -(digits_value 10 ('5' :: []) : Int)) ∧
        (true = true → st1.Thistoken = tok)) ∧
    (∃ tok st1, scan (fun _ => 0) 2 true ⟨0, none, ⟨0⟩, 0⟩
          { Lex.init "5".toList "in.al" with Putback := 45 } = Except.ok (1, tok, st1) ∧
        tok.token = T_NUMLIT ∧ tok.numtype = NUM_INT ∧
        ('5' ≠ '0' → digits_value 10 ('5' :: []) ≤ 2 ^ 63 →
          tok.numval.intval = -(digits_value 10 ('5' :: []) : Int)) ∧
        (true = true → st1.Thistoken = tok)) ∧
    (∃ tok st1, scan (fun _ => 0) 2 true ⟨0, none, ⟨0⟩, 0⟩ (Lex.init "- 5".toList "in.al") =
        Except.ok (1, tok, st1) ∧
      tok.token = T_MINUS ∧ st1.unread = char_codes " 5".toList ∧
      (true = true → st1.Thistoken = tok) ∧
      ∀ sc fuel, next sc fuel st1 =
        Except.ok (((' ' : Char).toNat : Int), { st1 with Putback := 0 })) ∧
    digits_value 10 ('5' :: []) = 5 ∧
    (nth_token 2 "x = -5;".toList).map (fun t => (t.token, t.numtype, t.numval.intval)) =
      some (T_NUMLIT, NUM_INT, -5) ∧
    (nth_token 1 "a-5".toList).map (fun t => (t.token, t.numtype, t.numval.intval)) =
      some (T_NUMLIT, NUM_INT, -5) :=
  ⟨(scan_minus_sign (fun _ => 0) 1 true ⟨0, none, ⟨0⟩, 0⟩
      { Lex.init "-5;".toList "in.al" with Putback := 32 } " ".toList rfl (by decide)
      (by decide)).1 '5' [] [] ";".toList (by decide) (by decide) (by decide) (by decide)
      (by decide) (by decide),
   (scan_minus_sign (fun _ => 0) 1 true ⟨0, none, ⟨0⟩, 0⟩
      { Lex.init "5".toList "in.al" with Putback := 45 } [] rfl (by decide)
      (by decide)).1 '5' [] [] [] (by decide) (by decide) (by decide) (by decide)
      (by decide) (by decide),
   (scan_minus_sign (fun _ => 0) 1 true ⟨0, none, ⟨0⟩, 0⟩ (Lex.init "- 5".toList "in.al")
      [] rfl (by decide) (by decide)).2.1 ' ' "5".toList (by decide) (by decide) (by decide)
      (by decide),
   by decide, by decide!, by decide!⟩

/-! ## The precedence of operators -/

theorem presents_head (lc : Libc) (fuel : Nat) (t : Token) (rest : List Token) (c : Comp)
    (h : presents lc fuel (t :: rest) c = true) : c.lex.Thistoken = t := by
  cases rest with
  | nil => simpa [presents] using h
  | cons u r =>
    simp only [presents, Bool.and_eq_true, decide_eq_true_eq] at h
    exact h.1

theorem presents_cons (lc : Libc) (fuel : Nat) (t u : Token) (rest : List Token) (c : Comp)
    (h : presents lc fuel (t :: u :: rest) c = true) :
    c.lex.Thistoken = t ∧
      ∃ c1, scan_this lc fuel c = Except.ok c1 ∧ presents lc fuel (u :: rest) c1 = true := by
  simp only [presents, Bool.and_eq_true, decide_eq_true_eq] at h
  refine ⟨h.1, ?_⟩
  cases hs : scan_this lc fuel c with
  | error e => rw [hs] at h; exact absurd h.2 (by simp)
  | ok c1 => rw [hs] at h; exact ⟨c1, rfl, h.2⟩

theorem op_level_le (tok : Nat) : op_level tok ≤ 5 := by
  unfold op_level
  split_ifs <;> omega

theorem op_level_five (tok : Nat) : op_level tok = 5 ↔ (tok = T_STAR ∨ tok = T_SLASH) := by
  unfold op_level
  split_ifs with h1 h2 h3 h4 h5 <;> simp [h1]

theorem op_level_four (tok : Nat) : op_level tok = 4 ↔ (tok = T_PLUS ∨ tok = T_MINUS) := by
  unfold op_level
  split_ifs with h1 h2 h3 h4 h5
  · rcases h1 with h | h <;> subst h <;> decide
  · simp [h2]
  · simp [h2]
  · simp [h2]
  · simp [h2]
  · simp [h2]

theorem op_level_three (tok : Nat) : op_level tok = 3 ↔ (tok = T_LSHIFT ∨ tok = T_RSHIFT) := by
  unfold op_level
  split_ifs with h1 h2 h3 h4 h5
  · rcases h1 with h | h <;> subst h <;> decide
  · rcases h2 with h | h <;> subst h <;> decide
  · simp [h3]
  · simp [h3]
  · simp [h3]
  · simp [h3]

theorem op_level_two (tok : Nat) : op_level tok = 2 ↔ relational_op tok ≠ 0 := by
  unfold op_level relational_op
  split_ifs <;> simp_all

theorem op_level_one (tok : Nat) :
    op_level tok = 1 ↔ (tok = T_AMPER ∨ tok = T_OR ∨ tok = T_XOR) := by
  unfold op_level
  split_ifs with h1 h2 h3 h4 h5
  · rcases h1 with h | h <;> subst h <;> decide
  · rcases h2 with h | h <;> subst h <;> decide
  · rcases h3 with h | h <;> subst h <;> decide
  · rcases h4 with h | h | h | h | h | h <;> subst h <;> decide
  · simp [h5]
  · simp [h5]

theorem op_of_token_two (tok : Nat) (h : op_level tok = 2) :
    op_of_token tok = relational_op tok := by
  unfold op_level at h
  split_ifs at h with h1 h2 h3 h4 h5
  · exact absurd h (by decide)
  · exact absurd h (by decide)
  · exact absurd h (by decide)
  · rcases h4 with h | h | h | h | h | h <;> subst h <;> rfl
  · exact absurd h (by decide)

theorem is_operand_level (x : Token) (h : is_operand x = true) :
    op_level x.token = 0 ∧ x.token ≠ T_PLUS ∧ x.token ≠ T_MINUS ∧ x.token ≠ T_LOGNOT ∧
      x.token ≠ T_INVERT := by
  simp only [is_operand, Bool.or_eq_true, decide_eq_true_eq] at h
  rcases h with ((h | h) | h) | h <;> rw [h] <;> decide

theorem split_level_tokens (lvl : Nat) : ∀ seg : List (Token × Token),
    pair_tokens seg = pair_tokens (split_level lvl seg).1 ++ part_tokens (split_level lvl seg).2
  | [] => rfl
  | (o, y) :: rest => by
    have ih := split_level_tokens lvl rest
    by_cases h : op_level o.token = lvl
    · simp only [split_level, h, if_true, pair_tokens, part_tokens, List.nil_append]
      rw [ih]
    · simp only [split_level, h, if_false, pair_tokens, List.cons_append]
      rw [ih]

theorem split_level_first (lvl : Nat) : ∀ (seg : List (Token × Token)),
    ∀ p ∈ (split_level lvl seg).1, p ∈ seg ∧ op_level p.1.token ≠ lvl
  | [], p, hp => by simp [split_level] at hp
  | (o, y) :: rest, p, hp => by
    by_cases h : op_level o.token = lvl
    · simp [split_level, h] at hp
    · simp only [split_level, h, if_false, List.mem_cons] at hp
      rcases hp with hp | hp
      · subst hp
        exact ⟨List.mem_cons_self _ _, h⟩
      · obtain ⟨h1, h2⟩ := split_level_first lvl rest p hp
        exact ⟨List.mem_cons_of_mem _ h1, h2⟩

theorem split_level_parts (lvl : Nat) : ∀ (seg : List (Token × Token)),
    ∀ p ∈ (split_level lvl seg).2, op_level p.1.token = lvl ∧ (p.1, p.2.1) ∈ seg ∧
      ∀ q ∈ p.2.2, q ∈ seg ∧ op_level q.1.token ≠ lvl
  | [], p, hp => by simp [split_level] at hp
  | (o, y) :: rest, p, hp => by
    by_cases h : op_level o.token = lvl
    · simp only [split_level, h, if_true, List.mem_cons] at hp
      rcases hp with hp | hp
      · subst hp
        refine ⟨h, List.mem_cons_self _ _, ?_⟩
        intro q hq
        obtain ⟨h1, h2⟩ := split_level_first lvl rest q hq
        exact ⟨List.mem_cons_of_mem _ h1, h2⟩
      · obtain ⟨h1, h2, h3⟩ := split_level_parts lvl rest p hp
        exact ⟨h1, List.mem_cons_of_mem _ h2, fun q hq =>
          ⟨List.mem_cons_of_mem _ (h3 q hq).1, (h3 q hq).2⟩⟩
    · simp only [split_level, h, if_false] at hp
      obtain ⟨h1, h2, h3⟩ := split_level_parts lvl rest p hp
      exact ⟨h1, List.mem_cons_of_mem _ h2, fun q hq =>
        ⟨List.mem_cons_of_mem _ (h3 q hq).1, (h3 q hq).2⟩⟩

theorem split_level_length (lvl : Nat) : ∀ (seg : List (Token × Token)),
    (split_level lvl seg).1.length ≤ seg.length ∧
      (split_level lvl seg).2.length ≤ seg.length ∧
      ∀ p ∈ (split_level lvl seg).2, p.2.2.length ≤ seg.length
  | [] => by simp [split_level]
  | (o, y) :: rest => by
    obtain ⟨h1, h2, h3⟩ := split_level_length lvl rest
    by_cases h : op_level o.token = lvl
    · simp only [split_level, h, if_true, List.length_nil, List.length_cons, List.mem_cons]
      refine ⟨by omega, by omega, ?_⟩
      intro p hp
      rcases hp with hp | hp
      · subst hp
        simp only
        omega
      · have := h3 p hp
        omega
    · simp only [split_level, h, if_false, List.length_cons]
      refine ⟨by omega, by omega, ?_⟩
      intro p hp
      have := h3 p hp
      omega

/-- The function `factor` builds the leaf of the current token and moves to
the next token. -/
theorem factor_eq (lc : Libc) (fuel : Nat) (c : Comp) :
    factor lc fuel c =
      operand_leaf c.syms c.lex.Thistoken >>= fun n =>
        scan_this lc fuel c >>= fun c1 => Except.ok (n, c1) := by
  unfold factor operand_leaf
  by_cases h1 : c.lex.Thistoken.token = T_NUMLIT
  · simp only [h1, if_true]
    rfl
  · by_cases h2 : c.lex.Thistoken.token = T_TRUE
    · simp only [h2, if_true]
      rfl
    · by_cases h3 : c.lex.Thistoken.token = T_FALSE
      · simp only [h3, if_true]
        rfl
      · by_cases h4 : c.lex.Thistoken.token = T_IDENT
        · simp only [h4, if_true]
          rfl
        · simp only [h1, h2, h3, h4, if_false]
          cases get_tokenstr c.lex.Thistoken.token <;> rfl

theorem part_tokens_head (u : Token) (tail : List Token) :
    ∀ more : List (Token × Token × List (Token × Token)),
      ∃ u1 tail1, part_tokens more ++ u :: tail = u1 :: tail1 ∧
        (more = [] → u1 = u ∧ tail1 = tail) ∧ (∀ p ∈ more.head?, u1 = p.1)
  | [] => ⟨u, tail, rfl, fun _ => ⟨rfl, rfl⟩, by simp⟩
  | (o, y, s) :: more => ⟨o, y :: ((pair_tokens s ++ part_tokens more) ++ u :: tail), rfl,
      (fun h => by cases h), (by simp)⟩

/-- A loop of the expression parser over the parts that follow the first
operand of its level. -/
theorem loop_eval (lc : Libc) (fuel : Nat) (st : Symtab)
    (loop : Nat → ASTnode → Comp → Res (ASTnode × Comp)) (sub : Comp → Res (ASTnode × Comp))
    (lvl : Nat) (ev : Token → List (Token × Token) → Res ASTnode)
    (segok : List (Token × Token) → Prop) (stopok : List (Token × Token) → Token → Prop)
    (hstep : ∀ k left c, op_level c.lex.Thistoken.token = lvl →
      loop (k + 1) left c = scan_this lc fuel c >>= fun c1 => sub c1 >>= fun p =>
        binop left p.1 (op_of_token c.lex.Thistoken.token) >>= fun l1 => loop k l1 p.2)
    (hstop : ∀ k left c, op_level c.lex.Thistoken.token ≠ lvl →
      loop k left c = Except.ok (left, c))
    (hsub : ∀ (c : Comp) (y : Token) (s : List (Token × Token)) (u : Token) (tail : List Token),
      c.syms = st → is_operand y = true →
      (∀ q ∈ s, lvl + 1 ≤ op_level q.1.token ∧ is_operand q.2 = true) →
      segok s → stopok s u → s.length ≤ fuel →
      presents lc fuel (y :: (pair_tokens s ++ u :: tail)) c = true →
      ∃ c1, presents lc fuel (u :: tail) c1 = true ∧ c1.syms = st ∧
        sub c = (ev y s).map (fun n => (n, c1)))
    (hmid : ∀ s (o : Token), op_level o.token = lvl → stopok s o) :
    ∀ (more : List (Token × Token × List (Token × Token))) (c : Comp) (u : Token)
      (tail : List Token) (k : Nat),
      c.syms = st →
      (∀ p ∈ more, op_level p.1.token = lvl ∧ is_operand p.2.1 = true ∧
        (∀ q ∈ p.2.2, lvl + 1 ≤ op_level q.1.token ∧ is_operand q.2 = true) ∧
        segok p.2.2 ∧ p.2.2.length ≤ fuel) →
      (∀ p ∈ more.getLast?, stopok p.2.2 u) → more.length ≤ k → op_level u.token ≠ lvl →
      presents lc fuel (part_tokens more ++ u :: tail) c = true →
      ∃ c1, presents lc fuel (u :: tail) c1 = true ∧ c1.syms = st ∧
        ∀ left, loop k left c = (eval_run ev more left).map (fun n => (n, c1)) := by
  intro more
  induction more with
  | nil =>
    intro c u tail k hc _ _ _ hu hin
    have hin1 : presents lc fuel (u :: tail) c = true := hin
    have ht := presents_head lc fuel u tail c hin1
    refine ⟨c, hin1, hc, fun left => ?_⟩
    rw [hstop k left c (by rw [ht]; exact hu)]
    rfl
  | cons p more ih =>
    obtain ⟨o, y, s⟩ := p
    intro c u tail k hc hall hlast hk hu hin
    obtain ⟨k1, rfl⟩ : ∃ k1, k = k1 + 1 := ⟨k - 1, by simp only [List.length_cons] at hk; omega⟩
    obtain ⟨ho, hy, hs, hsok, hslen⟩ := hall (o, y, s) (List.mem_cons_self _ _)
    obtain ⟨u1, tail1, he, hnil, hhead⟩ := part_tokens_head u tail more
    have hin1 : presents lc fuel (o :: y :: (pair_tokens s ++ u1 :: tail1)) c = true := by
      rw [← he]
      simpa only [part_tokens, List.cons_append, List.append_assoc] using hin
    obtain ⟨hto, c2, hscan, hin2⟩ := presents_cons lc fuel o y _ c hin1
    have hstop1 : stopok s u1 := by
      cases more with
      | nil =>
        rw [(hnil rfl).1]
        exact hlast (o, y, s) (by simp)
      | cons p2 more2 =>
        have hu1 : u1 = p2.1 := hhead p2 (by simp)
        rw [hu1]
        exact hmid s p2.1 (hall p2 (by simp)).1
    obtain ⟨c3, hin3, hc3, hsubeq⟩ :=
      hsub c2 y s u1 tail1 (by rw [scan_this_syms lc fuel c c2 hscan, hc]) hy hs hsok hstop1
        hslen hin2
    obtain ⟨c1, hin4, hc1, hloop⟩ := ih c3 u tail k1 hc3
      (fun p hp => hall p (List.mem_cons_of_mem _ hp))
      (by
        intro p hp
        apply hlast p
        cases more with
        | nil => simp at hp
        | cons p2 more2 => simpa [List.getLast?_cons_cons] using hp)
      (by simp only [List.length_cons] at hk; omega) hu (by rw [he]; exact hin3)
    refine ⟨c1, hin4, hc1, fun left => ?_⟩
    rw [hstep k1 left c (by rw [hto]; exact ho), hscan, hto]
    simp only [bind, Except.bind, hsubeq, eval_run]
    cases ev y s with
    | error e => rfl
    | ok right =>
      simp only [Except.map]
      cases binop left right (op_of_token o.token) with
      | error e => rfl
      | ok l1 => exact hloop l1

/-- The function `factor` reads one operand. -/
theorem factor_parses (lc : Libc) (fuel : Nat) (st : Symtab) :
    parses_as lc fuel st (factor lc fuel) 0 6 (fun _ => True) (fun _ _ => True) := by
  intro c x seg u tail hc _ hseg _ _ _ hin
  have hnil : seg = [] := by
    cases seg with
    | nil => rfl
    | cons p rest =>
      have := (hseg p (List.mem_cons_self _ _)).1
      have := op_level_le p.1.token
      omega
  subst hnil
  obtain ⟨hx, c1, hscan, hin1⟩ := presents_cons lc fuel x u tail c hin
  refine ⟨c1, hin1, by rw [scan_this_syms lc fuel c c1 hscan, hc], ?_⟩
  rw [factor_eq, hscan, hx, hc]
  simp only [eval_level]
  cases operand_leaf st x <;> rfl

/-- A parser that reads its first operand with `sub` and the rest with a
loop reads the runs of its level. -/
theorem level_parses (lc : Libc) (fuel : Nat) (st : Symtab)
    (loop : Nat → ASTnode → Comp → Res (ASTnode × Comp)) (sub : Comp → Res (ASTnode × Comp))
    (d lvl : Nat) (segok : List (Token × Token) → Prop)
    (stopok : List (Token × Token) → Token → Prop)
    (hstep : ∀ k left c, op_level c.lex.Thistoken.token = lvl →
      loop (k + 1) left c = scan_this lc fuel c >>= fun c1 => sub c1 >>= fun p =>
        binop left p.1 (op_of_token c.lex.Thistoken.token) >>= fun l1 => loop k l1 p.2)
    (hstop : ∀ k left c, op_level c.lex.Thistoken.token ≠ lvl →
      loop k left c = Except.ok (left, c))
    (hsub : parses_as lc fuel st sub d (lvl + 1) segok stopok)
    (hmid : ∀ s (o : Token), op_level o.token = lvl → stopok s o) :
    parses_as lc fuel st (fun c => sub c >>= fun p => loop fuel p.1 p.2) (d + 1) lvl
      (fun seg => segok (split_level lvl seg).1 ∧ ∀ p ∈ (split_level lvl seg).2, segok p.2.2)
      (fun seg u => op_level u.token ≠ lvl ∧
        stopok (match (split_level lvl seg).2.getLast? with
          | some p => p.2.2
          | none => (split_level lvl seg).1) u) := by
  intro c x seg u tail hc hx hseg hsegok hstopok hlen hin
  obtain ⟨hl1, hl2, hl3⟩ := split_level_length lvl seg
  have hfirst : ∀ q ∈ (split_level lvl seg).1,
      lvl + 1 ≤ op_level q.1.token ∧ is_operand q.2 = true := by
    intro q hq
    obtain ⟨h1, h2⟩ := split_level_first lvl seg q hq
    have := hseg q h1
    exact ⟨by omega, this.2⟩
  obtain ⟨u1, tail1, he, hnil, hhead⟩ := part_tokens_head u tail (split_level lvl seg).2
  have hin1 : presents lc fuel
      (x :: (pair_tokens (split_level lvl seg).1 ++ u1 :: tail1)) c = true := by
    rw [← he, ← List.append_assoc, ← split_level_tokens]
    exact hin
  have hstop1 : stopok (split_level lvl seg).1 u1 := by
    cases hm : (split_level lvl seg).2 with
    | nil =>
      rw [(hnil hm).1]
      have := hstopok.2
      rw [hm] at this
      exact this
    | cons p2 more2 =>
      have hu1 : u1 = p2.1 := hhead p2 (by rw [hm]; simp)
      rw [hu1]
      exact hmid _ p2.1 (split_level_parts lvl seg p2 (by rw [hm]; simp)).1
  obtain ⟨c2, hin2, hc2, hsubeq⟩ :=
    hsub c x (split_level lvl seg).1 u1 tail1 hc hx hfirst hsegok.1 hstop1 (by omega) hin1
  obtain ⟨c1, hin3, hc1, hloop⟩ :=
    loop_eval lc fuel st loop sub lvl (eval_level st d (lvl + 1)) segok stopok hstep hstop
      hsub hmid (split_level lvl seg).2 c2 u tail fuel hc2
      (by
        intro p hp
        obtain ⟨h1, h2, h3⟩ := split_level_parts lvl seg p hp
        refine ⟨h1, (hseg _ h2).2, ?_, hsegok.2 p hp, by have := hl3 p hp; omega⟩
        intro q hq
        have := hseg q (h3 q hq).1
        have := (h3 q hq).2
        exact ⟨by omega, (hseg q (h3 q hq).1).2⟩)
      (by
        intro p hp
        have := hstopok.2
        rw [Option.mem_def.1 hp] at this
        exact this)
      (by omega) hstopok.1 (by rw [he]; exact hin2)
  refine ⟨c1, hin3, hc1, ?_⟩
  simp only [hsubeq, eval_level]
  cases eval_level st d (lvl + 1) x (split_level lvl seg).1 with
  | error e => rfl
  | ok left => exact hloop left

theorem multiplicative_loop_step (lc : Libc) (fuel : Nat) (k : Nat) (left : ASTnode) (c : Comp)
    (h : op_level c.lex.Thistoken.token = 5) :
    multiplicative_loop lc fuel (k + 1) left c =
      scan_this lc fuel c >>= fun c1 => factor lc fuel c1 >>= fun p =>
        binop left p.1 (op_of_token c.lex.Thistoken.token) >>= fun l1 =>
          multiplicative_loop lc fuel k l1 p.2 := by
  rw [op_level_five] at h
  rw [multiplicative_loop]
  rcases h with h | h <;> simp only [h] <;> rfl

theorem multiplicative_loop_stop (lc : Libc) (fuel : Nat) (k : Nat) (left : ASTnode) (c : Comp)
    (h : op_level c.lex.Thistoken.token ≠ 5) :
    multiplicative_loop lc fuel k left c = Except.ok (left, c) := by
  rw [Ne, op_level_five] at h
  unfold multiplicative_loop
  simp only [h, if_false]

theorem additive_loop_step (lc : Libc) (fuel : Nat) (k : Nat) (left : ASTnode) (c : Comp)
    (h : op_level c.lex.Thistoken.token = 4) :
    additive_loop lc fuel (k + 1) left c =
      scan_this lc fuel c >>= fun c1 => multiplicative_expression lc fuel c1 >>= fun p =>
        binop left p.1 (op_of_token c.lex.Thistoken.token) >>= fun l1 =>
          additive_loop lc fuel k l1 p.2 := by
  rw [op_level_four] at h
  rw [additive_loop]
  rcases h with h | h <;> simp only [h] <;> rfl

theorem additive_loop_stop (lc : Libc) (fuel : Nat) (k : Nat) (left : ASTnode) (c : Comp)
    (h : op_level c.lex.Thistoken.token ≠ 4) :
    additive_loop lc fuel k left c = Except.ok (left, c) := by
  rw [Ne, op_level_four] at h
  unfold additive_loop
  simp only [h, if_false]

theorem shift_loop_step (lc : Libc) (fuel : Nat) (k : Nat) (left : ASTnode) (c : Comp)
    (h : op_level c.lex.Thistoken.token = 3) :
    shift_loop lc fuel (k + 1) left c =
      scan_this lc fuel c >>= fun c1 => additive_expression lc fuel c1 >>= fun p =>
        binop left p.1 (op_of_token c.lex.Thistoken.token) >>= fun l1 =>
          shift_loop lc fuel k l1 p.2 := by
  rw [op_level_three] at h
  rw [shift_loop]
  rcases h with h | h <;> simp only [h] <;> rfl

theorem shift_loop_stop (lc : Libc) (fuel : Nat) (k : Nat) (left : ASTnode) (c : Comp)
    (h : op_level c.lex.Thistoken.token ≠ 3) :
    shift_loop lc fuel k left c = Except.ok (left, c) := by
  rw [Ne, op_level_three] at h
  unfold shift_loop
  simp only [h, if_false]

theorem bitwise_loop_step (lc : Libc) (fuel : Nat) (k : Nat) (left : ASTnode) (c : Comp)
    (h : op_level c.lex.Thistoken.token = 1) :
    bitwise_loop lc fuel (k + 1) left c =
      scan_this lc fuel c >>= fun c1 => relational_expression lc fuel c1 >>= fun p =>
        binop left p.1 (op_of_token c.lex.Thistoken.token) >>= fun l1 =>
          bitwise_loop lc fuel k l1 p.2 := by
  rw [op_level_one] at h
  rw [bitwise_loop]
  rcases h with h | h | h <;> simp only [h] <;> rfl

theorem bitwise_loop_stop (lc : Libc) (fuel : Nat) (k : Nat) (left : ASTnode) (c : Comp)
    (h : op_level c.lex.Thistoken.token ≠ 1) :
    bitwise_loop lc fuel k left c = Except.ok (left, c) := by
  rw [Ne, op_level_one] at h
  unfold bitwise_loop
  simp only [h, if_false]

theorem parses_as_mono (lc : Libc) (fuel : Nat) (st : Symtab)
    (sub sub2 : Comp → Res (ASTnode × Comp)) (d lvl : Nat)
    (segok1 segok2 : List (Token × Token) → Prop)
    (stopok1 stopok2 : List (Token × Token) → Token → Prop)
    (h : parses_as lc fuel st sub d lvl segok1 stopok1)
    (hsub : ∀ c, is_operand c.lex.Thistoken = true → sub2 c = sub c)
    (hseg : ∀ seg, segok2 seg → segok1 seg)
    (hstop : ∀ seg u, segok2 seg → stopok2 seg u → stopok1 seg u) :
    parses_as lc fuel st sub2 d lvl segok2 stopok2 := by
  intro c x seg u tail hc hx hs hsegok hstopok hlen hin
  have hxt := presents_head lc fuel x _ c hin
  rw [hsub c (by rw [hxt]; exact hx)]
  exact h c x seg u tail hc hx hs (hseg seg hsegok) (hstop seg u hsegok hstopok) hlen hin

/-- The function `multiplicative_expression` reads the runs of `*` and `/`. -/
theorem multiplicative_parses (lc : Libc) (fuel : Nat) (st : Symtab) :
    parses_as lc fuel st (multiplicative_expression lc fuel) 1 5 (fun _ => True)
      (fun _ u => op_level u.token < 5) :=
  parses_as_mono lc fuel st _ _ 1 5 _ _ _ _
    (level_parses lc fuel st (multiplicative_loop lc fuel) (factor lc fuel) 0 5
      (fun _ => True) (fun _ _ => True) (multiplicative_loop_step lc fuel)
      (multiplicative_loop_stop lc fuel) (factor_parses lc fuel st) (fun _ _ _ => trivial))
    (fun _ _ => rfl) (fun _ _ => ⟨trivial, fun _ _ => trivial⟩)
    (fun _ u _ h => ⟨by omega, trivial⟩)

theorem additive_expression_operand (lc : Libc) (fuel : Nat) (c : Comp)
    (h : is_operand c.lex.Thistoken = true) :
    additive_expression lc fuel c =
      multiplicative_expression lc fuel c >>= fun p => additive_loop lc fuel fuel p.1 p.2 := by
  obtain ⟨_, h1, h2, _, _⟩ := is_operand_level _ h
  unfold additive_expression
  simp only [h1, h2, or_self, if_false, decide_False, Bool.false_eq_true]
  rfl

/-- The function `additive_expression` reads the runs of `+` and `-` from an
operand on. -/
theorem additive_parses (lc : Libc) (fuel : Nat) (st : Symtab) :
    parses_as lc fuel st (additive_expression lc fuel) 2 4 (fun _ => True)
      (fun _ u => op_level u.token < 4) :=
  parses_as_mono lc fuel st _ _ 2 4 _ _ _ _
    (level_parses lc fuel st (additive_loop lc fuel) (multiplicative_expression lc fuel) 1 4
      (fun _ => True) (fun _ u => op_level u.token < 5) (additive_loop_step lc fuel)
      (additive_loop_stop lc fuel) (multiplicative_parses lc fuel st)
      (fun _ o h => by omega))
    (additive_expression_operand lc fuel) (fun _ _ => ⟨trivial, fun _ _ => trivial⟩)
    (fun _ u _ h => ⟨by omega, by omega⟩)

/-- The function `shift_expression` reads the runs of `<<` and `>>` from an
operand on. -/
theorem shift_parses (lc : Libc) (fuel : Nat) (st : Symtab) :
    parses_as lc fuel st (shift_expression lc fuel) 3 3 (fun _ => True)
      (fun _ u => op_level u.token < 3) :=
  parses_as_mono lc fuel st _ _ 3 3 _ _ _ _
    (level_parses lc fuel st (shift_loop lc fuel) (additive_expression lc fuel) 2 3
      (fun _ => True) (fun _ u => op_level u.token < 4) (shift_loop_step lc fuel)
      (shift_loop_stop lc fuel) (additive_parses lc fuel st)
      (fun _ o h => by omega))
    (fun _ _ => rfl) (fun _ _ => ⟨trivial, fun _ _ => trivial⟩)
    (fun _ u _ h => ⟨by omega, by omega⟩)

theorem relational_expression_operand (lc : Libc) (fuel : Nat) (c : Comp)
    (h : is_operand c.lex.Thistoken = true) :
    relational_expression lc fuel c =
      shift_expression lc fuel c >>= fun p =>
        if relational_op p.2.lex.Thistoken.token ≠ 0 then
          scan_this lc fuel p.2 >>= fun c2 => shift_expression lc fuel c2 >>= fun q =>
            binop p.1 q.1 (relational_op p.2.lex.Thistoken.token) >>= fun l =>
              Except.ok (l, q.2)
        else Except.ok (p.1, p.2) := by
  obtain ⟨_, _, _, h3, _⟩ := is_operand_level _ h
  unfold relational_expression
  simp only [h3, if_false, decide_False, Bool.false_eq_true]
  rfl

/-- The function `relational_expression` reads a run with at most one
relational operator from an operand on, and stops in front of a second
relational operator. -/
theorem relational_parses (lc : Libc) (fuel : Nat) (st : Symtab) :
    parses_as lc fuel st (relational_expression lc fuel) 4 2
      (fun seg => (split_level 2 seg).2.length ≤ 1)
      (fun seg u => op_level u.token < 2 ∨
        (op_level u.token = 2 ∧ (split_level 2 seg).2.length = 1)) := by
  intro c x seg u tail hc hx hseg hsegok hstopok hlen hin
  have hxt := presents_head lc fuel x _ c hin
  obtain ⟨hl1, hl2, hl3⟩ := split_level_length 2 seg
  have hfirst : ∀ q ∈ (split_level 2 seg).1,
      3 ≤ op_level q.1.token ∧ is_operand q.2 = true := by
    intro q hq
    obtain ⟨h1, h2⟩ := split_level_first 2 seg q hq
    have := hseg q h1
    exact ⟨by omega, this.2⟩
  rw [relational_expression_operand lc fuel c (by rw [hxt]; exact hx)]
  have htok := split_level_tokens 2 seg
  cases hm : (split_level 2 seg).2 with
  | nil =>
    rw [hm] at htok hstopok
    simp only [part_tokens, List.append_nil] at htok
    have hu : op_level u.token < 2 := by
      rcases hstopok with h | ⟨_, h⟩
      · exact h
      · simp at h
    obtain ⟨c1, hin1, hc1, he⟩ := shift_parses lc fuel st c x (split_level 2 seg).1 u tail hc hx
      hfirst trivial (by omega) (by omega) (by rw [← htok]; exact hin)
    have hut := presents_head lc fuel u tail c1 hin1
    have hrel : ¬ (relational_op u.token ≠ 0) := by
      rw [← op_level_two]
      omega
    refine ⟨c1, hin1, hc1, ?_⟩
    rw [he, show eval_level st 4 2 x seg =
      (eval_level st 3 3 x (split_level 2 seg).1 >>= fun left =>
        eval_run (eval_level st 3 3) (split_level 2 seg).2 left) from rfl, hm]
    generalize eval_level st 3 3 x (split_level 2 seg).1 = r
    cases r with
    | error e => rfl
    | ok left =>
      simp only [Except.map, bind, Except.bind, hut, hrel, if_false, eval_run]
  | cons p more =>
    obtain ⟨o, y, s⟩ := p
    have hmore : more = [] := by
      rw [hm] at hsegok
      cases more with
      | nil => rfl
      | cons a b => simp at hsegok
    subst hmore
    rw [hm] at htok
    obtain ⟨ho, hoy, hs⟩ := split_level_parts 2 seg (o, y, s) (by rw [hm]; simp)
    have hslen := hl3 (o, y, s) (by rw [hm]; simp)
    have hin1 : presents lc fuel
        (x :: (pair_tokens (split_level 2 seg).1 ++ o :: (y :: (pair_tokens s ++ u :: tail)))) c =
        true := by
      have : pair_tokens seg ++ u :: tail =
          pair_tokens (split_level 2 seg).1 ++ o :: (y :: (pair_tokens s ++ u :: tail)) := by
        rw [htok]
        simp [part_tokens]
      rw [← this]
      exact hin
    obtain ⟨c1, hin2, hc1, he1⟩ := shift_parses lc fuel st c x (split_level 2 seg).1 o _ hc hx
      hfirst trivial (by show op_level o.token < 3; simp only at ho; omega) (by omega) hin1
    obtain ⟨hot, c2, hscan, hin3⟩ := presents_cons lc fuel o y _ c1 hin2
    have hu : op_level u.token < 3 := by
      rcases hstopok with h | ⟨h, _⟩ <;> omega
    obtain ⟨c3, hin4, hc3, he2⟩ := shift_parses lc fuel st c2 y s u tail
      (by rw [scan_this_syms lc fuel c1 c2 hscan, hc1]) (hseg _ hoy).2
      (by
        intro q hq
        have := hseg q (hs q hq).1
        have := (hs q hq).2
        exact ⟨by omega, (hseg q (hs q hq).1).2⟩)
      trivial hu (by simp only at hslen; omega) hin3
    have hrel : relational_op o.token ≠ 0 := (op_level_two o.token).1 ho
    refine ⟨c3, hin4, hc3, ?_⟩
    rw [he1, show eval_level st 4 2 x seg =
      (eval_level st 3 3 x (split_level 2 seg).1 >>= fun left =>
        eval_run (eval_level st 3 3) (split_level 2 seg).2 left) from rfl, hm]
    generalize eval_level st 3 3 x (split_level 2 seg).1 = r
    cases r with
    | error e => rfl
    | ok left =>
      simp only [Except.map, bind, Except.bind, hot, hrel, ne_eq, not_false_eq_true, if_true,
        hscan, he2, op_of_token_two o.token ho, eval_run]
      generalize eval_level st 3 3 y s = r2
      cases r2 with
      | error e => rfl
      | ok right =>
        simp only [Except.map]
        cases binop left right (relational_op o.token) <;> rfl

theorem getLast_counts (a : Nat) (f : (Token × Token × List (Token × Token)) → Nat) :
    ∀ l : List (Token × Token × List (Token × Token)),
      (a :: l.map f).getLast? = some (match l.getLast? with
        | some p => f p
        | none => a)
  | [] => rfl
  | [p] => rfl
  | p :: q :: l => by
    have := getLast_counts (f p) f (q :: l)
    simp only [List.map_cons, List.getLast?_cons_cons] at this ⊢
    rw [this]
    cases h : (q :: l).getLast? with
    | none => simp at h
    | some z => rfl

theorem bitwise_expression_operand (lc : Libc) (fuel : Nat) (c : Comp)
    (h : is_operand c.lex.Thistoken = true) :
    expression lc fuel c =
      relational_expression lc fuel c >>= fun p => bitwise_loop lc fuel fuel p.1 p.2 := by
  obtain ⟨_, _, _, _, h4⟩ := is_operand_level _ h
  unfold expression bitwise_expression
  simp only [h4, if_false, decide_False, Bool.false_eq_true]
  rfl

/-- The function `expression` reads an operand followed by operators and
operands in which no two relational operators follow each other, and stops
in front of a token that does not continue the expression. -/
theorem expression_parses (lc : Libc) (fuel : Nat) (st : Symtab) :
    parses_as lc fuel st (expression lc fuel) 5 1 (fun seg => chain_free seg = true)
      (fun seg u => stops_expression seg u = true) := by
  refine parses_as_mono lc fuel st _ _ 5 1 _ _ _ _
    (level_parses lc fuel st (bitwise_loop lc fuel) (relational_expression lc fuel) 4 1
      (fun seg => (split_level 2 seg).2.length ≤ 1)
      (fun seg u => op_level u.token < 2 ∨
        (op_level u.token = 2 ∧ (split_level 2 seg).2.length = 1))
      (bitwise_loop_step lc fuel) (bitwise_loop_stop lc fuel) (relational_parses lc fuel st)
      (fun _ o h => Or.inl (by omega)))
    (bitwise_expression_operand lc fuel) ?_ ?_
  · intro seg h
    simp only [chain_free, relational_counts, List.all_cons, Bool.and_eq_true,
      decide_eq_true_eq] at h
    refine ⟨h.1, fun p hp => ?_⟩
    have := List.all_eq_true.1 h.2 _
      (List.mem_map_of_mem (fun p => (split_level 2 p.2.2).2.length) hp)
    simpa using this
  · intro seg u _ h
    simp only [stops_expression, relational_counts, getLast_counts, Bool.or_eq_true,
      Bool.and_eq_true, decide_eq_true_eq, Option.some.injEq] at h
    rcases h with h | ⟨h1, h2⟩
    · refine ⟨by omega, Or.inl (by omega)⟩
    · refine ⟨by omega, Or.inr ⟨h1, ?_⟩⟩
      cases hl : (split_level 1 seg).2.getLast? with
      | none => rw [hl] at h2; exact h2
      | some p => rw [hl] at h2; exact h2

theorem common_node (t : Ty) (n : ASTnode) (h : n.common t = true) :
    ∃ op nty rv l m r sym v s, n = ASTnode.node op (some nty) rv l m r sym v s ∧
      (nty = t ∨ (nty = ty_bool ∧ op ≠ A_NUMLIT)) := by
  cases n with
  | NULL => simp [ASTnode.common] at h
  | node op ty rv l m r sym v s =>
    simp only [ASTnode.common, Bool.or_eq_true, Bool.and_eq_true, decide_eq_true_eq] at h
    rcases h with h | ⟨h1, h2⟩
    · exact ⟨op, t, rv, l, m, r, sym, v, s, by rw [h], Or.inl rfl⟩
    · exact ⟨op, ty_bool, rv, l, m, r, sym, v, s, by rw [h1], Or.inr ⟨rfl, h2⟩⟩

theorem tree_shape_cast (ty : Option Ty) (rv : Bool) (n m r : ASTnode) (sym : Option Sym)
    (v : Litval) (s : Option String) :
    tree_shape (ASTnode.node A_CAST ty rv n m r sym v s) = tree_shape n := by
  simp only [tree_shape, if_true]

theorem size_not_below_bool (t : Ty) : ¬ (t.size < ty_bool.size) := by
  cases t <;> decide

/-- Widening a node of the common type, or of type bool, towards the common
type or bool: the child `add_type` keeps is again such a node and draws the
same tree. -/
theorem widen_common (t : Ty) (ht : t ≠ ty_void) (op : Nat) (nty : Ty) (rv : Bool)
    (l m r : ASTnode) (sym : Option Sym) (v : Litval) (s : Option String)
    (hn : nty = t ∨ (nty = ty_bool ∧ op ≠ A_NUMLIT)) (ty : Ty) (hty : ty = t ∨ ty = ty_bool) :
    ∃ n1, widen_type (ASTnode.node op (some nty) rv l m r sym v s) (some ty) = Except.ok n1 ∧
      (if n1.isNULL then ASTnode.node op (some nty) rv l m r sym v s else n1).common t = true ∧
      tree_shape (if n1.isNULL then ASTnode.node op (some nty) rv l m r sym v s else n1) =
        tree_shape (ASTnode.node op (some nty) rv l m r sym v s) := by
  have hcom : (ASTnode.node op (some nty) rv l m r sym v s).common t = true := by
    simp only [ASTnode.common, Bool.or_eq_true, Bool.and_eq_true, decide_eq_true_eq,
      Option.some.injEq]
    rcases hn with h | ⟨h1, h2⟩
    · exact Or.inl h
    · exact Or.inr ⟨h1, h2⟩
  have hnv : nty ≠ ty_void := by
    rcases hn with h | ⟨h, _⟩
    · rw [h]; exact ht
    · rw [h]; decide
  rw [widen_type_typed op nty ty rv l m r sym v s hnv]
  by_cases h1 : nty = ty
  · rw [if_pos h1]
    exact ⟨_, rfl, hcom, rfl⟩
  · rw [if_neg h1]
    by_cases h2 : ty = ty_bool
    · rw [if_pos h2]
      exact ⟨_, rfl, hcom, rfl⟩
    · rw [if_neg h2]
      have hty1 : ty = t := by
        rcases hty with h | h
        · exact h
        · exact absurd h h2
      have hnb : nty = ty_bool ∧ op ≠ A_NUMLIT := by
        rcases hn with h | h
        · exact absurd (h.trans hty1.symm) h1
        · exact h
      have h3 : ¬ ((is_integer nty && is_flonum ty) = true) := by
        rw [hnb.1]
        simp [is_integer, Ty.kind]
      have h4 : ¬ (ty.size < nty.size) := by
        rw [hnb.1]
        exact size_not_below_bool ty
      rw [if_neg h3, if_neg h4, if_neg hnb.2]
      by_cases h7 : (nty.is_unsigned != ty.is_unsigned) = true
      · rw [if_pos h7]
        exact ⟨_, rfl, hcom, rfl⟩
      · rw [if_neg h7]
        refine ⟨_, rfl, ?_, ?_⟩
        · simp only [ASTnode.isNULL, Bool.false_eq_true, if_false, ASTnode.common, hty1,
            decide_True, Bool.true_or]
        · simp only [ASTnode.isNULL, Bool.false_eq_true, if_false, tree_shape_cast]

theorem tree_shape_binary (op : Nat) (ty : Option Ty) (rv : Bool) (l m r : ASTnode)
    (sym : Option Sym) (v : Litval) (s : Option String)
    (h1 : op ≠ A_CAST) (h2 : op ≠ A_IDENT) (h3 : op ≠ A_NUMLIT) (hr : r.isNULL = false) :
    tree_shape (ASTnode.node op ty rv l m r sym v s) =
      opname op ++ "(" ++ tree_shape l ++ ", " ++ tree_shape r ++ ")" := by
  simp only [tree_shape, h1, h2, h3, hr, if_false, Bool.false_eq_true]

/-- The operation of a binary operator token: a comparison, or one of the
operations that `add_type` unifies. -/
theorem op_of_token_binary (tok : Nat) (h : 1 ≤ op_level tok) :
    op_of_token tok ≠ A_CAST ∧ op_of_token tok ≠ A_IDENT ∧ op_of_token tok ≠ A_NUMLIT ∧
      ((A_EQ ≤ op_of_token tok ∧ op_of_token tok ≤ A_GE) ∨
        ¬ (A_EQ ≤ op_of_token tok ∧ op_of_token tok ≤ A_NOT)) := by
  unfold op_level at h
  split_ifs at h with h1 h2 h3 h4 h5
  · rcases h1 with h | h <;> subst h <;> decide
  · rcases h2 with h | h <;> subst h <;> decide
  · rcases h3 with h | h <;> subst h <;> decide
  · rcases h4 with h | h | h | h | h | h <;> subst h <;> decide
  · rcases h5 with h | h | h <;> subst h <;> decide
  · exact absurd h (by decide)

/-- The function `binop` on two operands of the common type or of type bool
returns a node of that kind whose tree is the operation over the trees of
the operands. -/
theorem binop_common (t : Ty) (ht : t ≠ ty_void) (l r : ASTnode) (op : Nat)
    (hl : l.common t = true) (hr : r.common t = true)
    (h1 : op ≠ A_CAST) (h2 : op ≠ A_IDENT) (h3 : op ≠ A_NUMLIT)
    (hop : (A_EQ ≤ op ∧ op ≤ A_GE) ∨ ¬ (A_EQ ≤ op ∧ op ≤ A_NOT)) :
    ∃ n, binop l r op = Except.ok n ∧ n.common t = true ∧
      tree_shape n = opname op ++ "(" ++ tree_shape l ++ ", " ++ tree_shape r ++ ")" := by
  obtain ⟨lop, lt, lrv, ll, lm, lr, lsym, lv, ls, rfl, hlt⟩ := common_node t l hl
  obtain ⟨rop, rt, rrv, rl, rm, rr, rsym, rv, rs, rfl, hrt⟩ := common_node t r hr
  rcases hop with hrel | hrel
  · have hrel2 : A_EQ ≤ op ∧ op ≤ A_NOT := ⟨hrel.1, by have := hrel.2; simp only [A_GE, A_NOT] at *; omega⟩
    refine ⟨ASTnode.node op (some ty_bool) true (ASTnode.node lop (some lt) lrv ll lm lr lsym lv ls)
      ASTnode.NULL (ASTnode.node rop (some rt) rrv rl rm rr rsym rv rs) none ⟨0⟩ none, ?_, ?_, ?_⟩
    · simp only [binop, mkastnode, ASTnode.set_rvalue, add_type, Option.isSome, hrel2,
        Bool.false_eq_true, if_false, and_self, if_true]
    · simp only [ASTnode.common, decide_True, Bool.true_and, Bool.or_eq_true,
        decide_eq_true_eq, ne_eq, h3, not_false_eq_true, or_true]
    · exact tree_shape_binary op _ _ _ _ _ _ _ _ h1 h2 h3 rfl
  · rw [binop_typed op lop rop lt rt lrv rrv ll lm lr rl rm rr lsym rsym lv rv ls rs hrel]
    have hrty : rt = t ∨ rt = ty_bool := by
      rcases hrt with h | h
      · exact Or.inl h
      · exact Or.inr h.1
    obtain ⟨n1, e1, c1, s1⟩ := widen_common t ht lop lt lrv ll lm lr lsym lv ls hlt rt hrty
    obtain ⟨op1, t1, rv1, l1, m1, r1, sym1, v1, ss1, e1n, ht1⟩ := common_node t _ c1
    have hlty : t1 = t ∨ t1 = ty_bool := by
      rcases ht1 with h | h
      · exact Or.inl h
      · exact Or.inr h.1
    obtain ⟨n2, e2, c2, s2⟩ := widen_common t ht rop rt rrv rl rm rr rsym rv rs hrt t1 hlty
    obtain ⟨op2, t2, rv2, l2, m2, r2, sym2, v2, ss2, e2n, _⟩ := common_node t _ c2
    refine ⟨ASTnode.node op (some t1) true
      (if n1.isNULL then ASTnode.node lop (some lt) lrv ll lm lr lsym lv ls else n1) ASTnode.NULL
      (if n2.isNULL then ASTnode.node rop (some rt) rrv rl rm rr rsym rv rs else n2)
      none ⟨0⟩ none, ?_, ?_, ?_⟩
    · simp only [e1, bind, Except.bind, e1n, ASTnode.type, e2]
    · simp only [ASTnode.common, Bool.or_eq_true, Bool.and_eq_true, decide_eq_true_eq,
        Option.some.injEq, ne_eq, h3, not_false_eq_true, and_true]
      exact hlty
    · rw [tree_shape_binary op _ _ _ _ _ _ _ _ h1 h2 h3 (by rw [e2n]; rfl), s1, s2]

theorem operand_ok_is_operand (t : Ty) (st : Symtab) (x : Token)
    (h : operand_ok t st x = true) : is_operand x = true := by
  unfold operand_ok at h
  unfold is_operand
  split_ifs at h with h1 h2 h3
  · simp [h1]
  · rcases h2 with h2 | h2 <;> simp [h2]
  · simp [h3]

/-- The leaf of an operand of the common type has that type and is drawn as
the operand. -/
theorem operand_leaf_common (t : Ty) (st : Symtab) (x : Token)
    (h : operand_ok t st x = true) :
    ∃ n, operand_leaf st x = Except.ok n ∧ n.common t = true ∧
      tree_shape n = operand_shape x := by
  unfold operand_ok at h
  unfold operand_leaf operand_shape
  by_cases h1 : x.token = T_NUMLIT
  · simp only [h1, if_true, decide_eq_true_eq] at h ⊢
    refine ⟨_, rfl, ?_, ?_⟩
    · simp only [mkastleaf, ASTnode.common, h, decide_True, Bool.true_or]
    · simp only [mkastleaf, tree_shape, Litval.of_uint, Litval.uintval, Nat.mod_mod]
      rfl
  · simp only [h1, if_false] at h ⊢
    by_cases h2 : x.token = T_TRUE
    · simp only [h2, true_or, if_true, decide_eq_true_eq] at h ⊢
      refine ⟨_, rfl, ?_, rfl⟩
      simp only [mkastleaf, ASTnode.common, h, decide_True, Bool.true_or]
    · by_cases h3 : x.token = T_FALSE
      · simp only [h3, or_true, if_true, decide_eq_true_eq] at h ⊢
        have hne : ¬ (T_FALSE = T_TRUE) := by decide
        simp only [hne, if_false]
        refine ⟨_, rfl, ?_, rfl⟩
        simp only [mkastleaf, ASTnode.common, h, decide_True, Bool.true_or]
      · simp only [h2, h3, or_self, if_false] at h ⊢
        by_cases h4 : x.token = T_IDENT
        · simp only [h4, if_true] at h ⊢
          cases hf : find_symbol x.tokstr st with
          | none => rw [hf] at h; exact absurd h (by simp)
          | some sy =>
            rw [hf] at h
            simp only [Bool.and_eq_true, decide_eq_true_eq] at h
            refine ⟨ASTnode.set_sym (some sy) (ASTnode.set_type sy.type
              (ASTnode.set_strlit x.tokstr (mkastleaf A_IDENT none false none 0))), ?_, ?_, ?_⟩
            · simp only [mkident, mkastleaf, ASTnode.set_strlit, ASTnode.strlit, bind,
                Except.bind, hf, h.1, ne_eq, not_true_eq_false, if_false]
            · simp only [mkastleaf, ASTnode.set_strlit, ASTnode.set_type, ASTnode.set_sym,
                ASTnode.common, h.2, decide_True, Bool.true_or]
            · simp only [mkastleaf, ASTnode.set_strlit, ASTnode.set_type, ASTnode.set_sym,
                tree_shape]
              rfl
        · simp only [h4, if_false] at h
          exact absurd h (by simp)

/-- The pure form of a loop of the expression parser, over parts of the
common type. -/
theorem eval_run_common (t : Ty) (ht : t ≠ ty_void)
    (ev : Token → List (Token × Token) → Res ASTnode)
    (sh : Token → List (Token × Token) → String) :
    ∀ (more : List (Token × Token × List (Token × Token))) (left : ASTnode),
      (∀ p ∈ more, 1 ≤ op_level p.1.token ∧
        ∃ n, ev p.2.1 p.2.2 = Except.ok n ∧ n.common t = true ∧
          tree_shape n = sh p.2.1 p.2.2) →
      left.common t = true →
      ∃ n, eval_run ev more left = Except.ok n ∧ n.common t = true ∧
        tree_shape n = more.foldl
          (fun acc p => opname (op_of_token p.1.token) ++ "(" ++ acc ++ ", " ++
            sh p.2.1 p.2.2 ++ ")") (tree_shape left) := by
  intro more
  induction more with
  | nil => intro left _ hl; exact ⟨left, rfl, hl, rfl⟩
  | cons p more ih =>
    obtain ⟨o, y, s⟩ := p
    intro left hall hl
    obtain ⟨ho, right, e1, c1, s1⟩ := hall (o, y, s) (List.mem_cons_self _ _)
    obtain ⟨b1, b2, b3, b4⟩ := op_of_token_binary o.token ho
    obtain ⟨n1, e2, c2, s2⟩ := binop_common t ht left right (op_of_token o.token) hl c1 b1 b2 b3 b4
    obtain ⟨n, e3, c3, s3⟩ := ih n1 (fun p hp => hall p (List.mem_cons_of_mem _ hp)) c2
    refine ⟨n, ?_, c3, ?_⟩
    · simp only [eval_run, e1, e2, bind, Except.bind, e3]
    · rw [s3, s2, s1]
      rfl

/-- The tree of operands of one common type: it is built without an error
and drawn as the specification says. -/
theorem eval_level_common (t : Ty) (ht : t ≠ ty_void) (st : Symtab) :
    ∀ (d lvl : Nat) (x : Token) (seg : List (Token × Token)),
      operand_ok t st x = true →
      (∀ p ∈ seg, 1 ≤ op_level p.1.token ∧ operand_ok t st p.2 = true) →
      ∃ n, eval_level st d lvl x seg = Except.ok n ∧ n.common t = true ∧
        tree_shape n = spec_shape d lvl x seg := by
  intro d
  induction d with
  | zero =>
    intro lvl x seg hx _
    exact operand_leaf_common t st x hx
  | succ d ih =>
    intro lvl x seg hx hseg
    obtain ⟨left, e1, c1, s1⟩ := ih (lvl + 1) x (split_level lvl seg).1 hx
      (fun p hp => hseg p (split_level_first lvl seg p hp).1)
    obtain ⟨n, e2, c2, s2⟩ := eval_run_common t ht (eval_level st d (lvl + 1))
      (spec_shape d (lvl + 1)) (split_level lvl seg).2 left
      (by
        intro p hp
        obtain ⟨h1, h2, h3⟩ := split_level_parts lvl seg p hp
        refine ⟨(hseg _ h2).1, ih (lvl + 1) p.2.1 p.2.2 (hseg _ h2).2 ?_⟩
        intro q hq
        exact hseg q (h3 q hq).1)
      c1
    refine ⟨n, ?_, c2, ?_⟩
    · simp only [eval_level, e1, bind, Except.bind, e2]
    · rw [s2, s1]
      rfl

/-- C18 (amended): let the lexer hand out an operand followed by binary
operators and operands and then a token that does not continue the
expression, where the operands are variables and literals of one common
type other than void and no two relational operators follow each other
without an `&`, `|` or `^` between them.  Then `expression` returns the tree
in which `*` and `/` bind tighter than `+` and `-`, these tighter than `<<`
and `>>`, these tighter than the relational operators and these tighter than
`&`, `|` and `^`, and in which operators of one level group to the left
(cast nodes left out), and it stops at the token behind the last operand.
That token may be a second relational operator in a row: the relational
level takes one operator only and the parser stops in front of the next. -/
theorem expression_tree_precedence (lc : Libc) (fuel : Nat) (t : Ty) (c : Comp) (x : Token)
    (rest : List (Token × Token)) (stop : Token) (tail : List Token)
    (ht : t ≠ ty_void) (hx : operand_ok t c.syms x = true)
    (hrest : ∀ p ∈ rest, 1 ≤ op_level p.1.token ∧ operand_ok t c.syms p.2 = true)
    (hfree : chain_free rest = true) (hstop : stops_expression rest stop = true)
    (hfuel : rest.length ≤ fuel)
    (hin : presents lc fuel (x :: (pair_tokens rest ++ stop :: tail)) c = true) :
    ∃ n c1, expression lc fuel c = Except.ok (n, c1) ∧
      tree_shape n = spec_shape 5 1 x rest ∧ c1.lex.Thistoken = stop ∧
      presents lc fuel (stop :: tail) c1 = true := by
  obtain ⟨c1, hin1, _, he⟩ := expression_parses lc fuel c.syms c x rest stop tail rfl
    (operand_ok_is_operand t c.syms x hx)
    (fun p hp => ⟨(hrest p hp).1, operand_ok_is_operand t c.syms p.2 (hrest p hp).2⟩)
    hfree hstop hfuel hin
  obtain ⟨n, e1, _, s1⟩ := eval_level_common t ht c.syms 5 1 x rest hx hrest
  refine ⟨n, c1, ?_, s1, presents_head lc fuel stop tail c1 hin1, hin1⟩
  rw [he, e1]
  rfl

/-- Witness for `expression_tree_precedence`: `a + b * c`, `a - b - c`,
`a & b == c` and `a < b < c` over int32 variables, and `a + 2 * 3 << 1;`
over an int8 variable and int8 literals. -/
theorem expression_tree_precedence_witness :
    (presents libc_unused 40
        [⟨T_IDENT, some "a", ⟨0⟩, 0⟩, ⟨T_PLUS, some "a", ⟨0⟩, 0⟩, ⟨T_IDENT, some "b", ⟨0⟩, 0⟩,
          ⟨T_STAR, some "b", ⟨0⟩, 0⟩, ⟨T_IDENT, some "c", ⟨0⟩, 0⟩, ⟨T_EOF, some "c", ⟨0⟩, 0⟩]
        (parser_at ty_int32 "a + b * c".toList) = true ∧
      ∃ n c1, expression libc_unused 40 (parser_at ty_int32 "a + b * c".toList) =
          Except.ok (n, c1) ∧
        tree_shape n = "ADD(a, MULTIPLY(b, c))" ∧ c1.lex.Thistoken.token = T_EOF) ∧
    (presents libc_unused 40
        [⟨T_IDENT, some "a", ⟨0⟩, 0⟩, ⟨T_MINUS, some "a", ⟨0⟩, 0⟩, ⟨T_IDENT, some "b", ⟨0⟩, 0⟩,
          ⟨T_MINUS, some "b", ⟨0⟩, 0⟩, ⟨T_IDENT, some "c", ⟨0⟩, 0⟩, ⟨T_EOF, some "c", ⟨0⟩, 0⟩]
        (parser_at ty_int32 "a - b - c".toList) = true ∧
      ∃ n c1, expression libc_unused 40 (parser_at ty_int32 "a - b - c".toList) =
          Except.ok (n, c1) ∧
        tree_shape n = "SUBTRACT(SUBTRACT(a, b), c)" ∧ c1.lex.Thistoken.token = T_EOF) ∧
    (presents libc_unused 40
        [⟨T_IDENT, some "a", ⟨0⟩, 0⟩, ⟨T_AMPER, some "a", ⟨0⟩, 0⟩, ⟨T_IDENT, some "b", ⟨0⟩, 0⟩,
          ⟨T_EQ, some "b", ⟨0⟩, 0⟩, ⟨T_IDENT, some "c", ⟨0⟩, 0⟩, ⟨T_EOF, some "c", ⟨0⟩, 0⟩]
        (parser_at ty_int32 "a & b == c".toList) = true ∧
      ∃ n c1, expression libc_unused 40 (parser_at ty_int32 "a & b == c".toList) =
          Except.ok (n, c1) ∧
        tree_shape n = "AND(a, EQ(b, c))" ∧ c1.lex.Thistoken.token = T_EOF) ∧
    (presents libc_unused 40
        [⟨T_IDENT, some "a", ⟨0⟩, 0⟩, ⟨T_LT, some "a", ⟨0⟩, 0⟩, ⟨T_IDENT, some "b", ⟨0⟩, 0⟩,
          ⟨T_LT, some "b", ⟨0⟩, 0⟩, ⟨T_IDENT, some "c", ⟨0⟩, 0⟩]
        (parser_at ty_int32 "a < b < c".toList) = true ∧
      ∃ n c1, expression libc_unused 40 (parser_at ty_int32 "a < b < c".toList) =
          Except.ok (n, c1) ∧
        tree_shape n = "LT(a, b)" ∧ c1.lex.Thistoken.token = T_LT) ∧
    (presents libc_unused 40
        [⟨T_IDENT, some "a", ⟨0⟩, 0⟩, ⟨T_PLUS, some "a", ⟨0⟩, 0⟩,
          ⟨T_NUMLIT, some "a", ⟨2⟩, NUM_UINT⟩, ⟨T_STAR, some "a", ⟨2⟩, NUM_UINT⟩,
          ⟨T_NUMLIT, some "a", ⟨3⟩, NUM_UINT⟩, ⟨T_LSHIFT, some "a", ⟨3⟩, NUM_UINT⟩,
          ⟨T_NUMLIT, some "a", ⟨1⟩, NUM_UINT⟩, ⟨T_SEMI, some "a", ⟨1⟩, NUM_UINT⟩]
        (parser_at ty_int8 "a + 2 * 3 << 1;".toList) = true ∧
      ∃ n c1, expression libc_unused 40 (parser_at ty_int8 "a + 2 * 3 << 1;".toList) =
          Except.ok (n, c1) ∧
        tree_shape n = "LSHIFT(ADD(a, MULTIPLY(2, 3)), 1)" ∧ c1.lex.Thistoken.token = T_SEMI) := by
  refine ⟨⟨by decide!, ?_⟩, ⟨by decide!, ?_⟩, ⟨by decide!, ?_⟩, ⟨by decide!, ?_⟩,
    ⟨by decide!, ?_⟩⟩
  · obtain ⟨n, c1, h1, h2, h3, _⟩ := expression_tree_precedence libc_unused 40 ty_int32
      (parser_at ty_int32 "a + b * c".toList) ⟨T_IDENT, some "a", ⟨0⟩, 0⟩
      [(⟨T_PLUS, some "a", ⟨0⟩, 0⟩, ⟨T_IDENT, some "b", ⟨0⟩, 0⟩),
        (⟨T_STAR, some "b", ⟨0⟩, 0⟩, ⟨T_IDENT, some "c", ⟨0⟩, 0⟩)]
      ⟨T_EOF, some "c", ⟨0⟩, 0⟩ [] (by decide) (by decide!) (by decide!) (by decide)
      (by decide) (by decide) (by decide!)
    exact ⟨n, c1, h1, h2.trans (by decide), by rw [h3]⟩
  · obtain ⟨n, c1, h1, h2, h3, _⟩ := expression_tree_precedence libc_unused 40 ty_int32
      (parser_at ty_int32 "a - b - c".toList) ⟨T_IDENT, some "a", ⟨0⟩, 0⟩
      [(⟨T_MINUS, some "a", ⟨0⟩, 0⟩, ⟨T_IDENT, some "b", ⟨0⟩, 0⟩),
        (⟨T_MINUS, some "b", ⟨0⟩, 0⟩, ⟨T_IDENT, some "c", ⟨0⟩, 0⟩)]
      ⟨T_EOF, some "c", ⟨0⟩, 0⟩ [] (by decide) (by decide!) (by decide!) (by decide)
      (by decide) (by decide) (by decide!)
    exact ⟨n, c1, h1, h2.trans (by decide), by rw [h3]⟩
  · obtain ⟨n, c1, h1, h2, h3, _⟩ := expression_tree_precedence libc_unused 40 ty_int32
      (parser_at ty_int32 "a & b == c".toList) ⟨T_IDENT, some "a", ⟨0⟩, 0⟩
      [(⟨T_AMPER, some "a", ⟨0⟩, 0⟩, ⟨T_IDENT, some "b", ⟨0⟩, 0⟩),
        (⟨T_EQ, some "b", ⟨0⟩, 0⟩, ⟨T_IDENT, some "c", ⟨0⟩, 0⟩)]
      ⟨T_EOF, some "c", ⟨0⟩, 0⟩ [] (by decide) (by decide!) (by decide!) (by decide)
      (by decide) (by decide) (by decide!)
    exact ⟨n, c1, h1, h2.trans (by decide), by rw [h3]⟩
  · obtain ⟨n, c1, h1, h2, h3, _⟩ := expression_tree_precedence libc_unused 40 ty_int32
      (parser_at ty_int32 "a < b < c".toList) ⟨T_IDENT, some "a", ⟨0⟩, 0⟩
      [(⟨T_LT, some "a", ⟨0⟩, 0⟩, ⟨T_IDENT, some "b", ⟨0⟩, 0⟩)]
      ⟨T_LT, some "b", ⟨0⟩, 0⟩ [⟨T_IDENT, some "c", ⟨0⟩, 0⟩] (by decide) (by decide!)
      (by decide!) (by decide) (by decide) (by decide) (by decide!)
    exact ⟨n, c1, h1, h2.trans (by decide), by rw [h3]⟩
  · obtain ⟨n, c1, h1, h2, h3, _⟩ := expression_tree_precedence libc_unused 40 ty_int8
      (parser_at ty_int8 "a + 2 * 3 << 1;".toList) ⟨T_IDENT, some "a", ⟨0⟩, 0⟩
      [(⟨T_PLUS, some "a", ⟨0⟩, 0⟩, ⟨T_NUMLIT, some "a", ⟨2⟩, NUM_UINT⟩),
        (⟨T_STAR, some "a", ⟨2⟩, NUM_UINT⟩, ⟨T_NUMLIT, some "a", ⟨3⟩, NUM_UINT⟩),
        (⟨T_LSHIFT, some "a", ⟨3⟩, NUM_UINT⟩, ⟨T_NUMLIT, some "a", ⟨1⟩, NUM_UINT⟩)]
      ⟨T_SEMI, some "a", ⟨1⟩, NUM_UINT⟩ [] (by decide) (by decide!) (by decide!) (by decide)
      (by decide) (by decide) (by decide!)
    exact ⟨n, c1, h1, h2.trans (by decide), by rw [h3]⟩

/-! ## Results of parse steps -/

theorem state_or_ok (r : Res Comp) (c : Comp) (h : (error_of r).isNone = true) :
    r = Except.ok (state_or r c) := by
  cases r with
  | error e => cases h
  | ok a => rfl

theorem next_or_ok (r : Res (ASTnode × Comp)) (c : Comp) (h : (error_of r).isNone = true) :
    r = Except.ok (tree_or r, next_or r c) := by
  cases r with
  | error e => cases h
  | ok a => rfl

theorem node_or_ok (r : Res ASTnode) (h : (error_of r).isNone = true) :
    r = Except.ok (node_or r) := by
  cases r with
  | error e => cases h
  | ok a => rfl

/-! ## Two relational operators in a row -/

theorem cmp_free_node (op : Nat) (ty : Option Ty) (rv : Bool) (l m r : ASTnode)
    (sym : Option Sym) (v : Litval) (s : Option String) :
    (ASTnode.node op ty rv l m r sym v s).cmp_free = true ↔
      ¬ (A_EQ ≤ op ∧ op ≤ A_GE) ∧ l.cmp_free = true ∧ m.cmp_free = true ∧
        r.cmp_free = true := by
  simp only [ASTnode.cmp_free, Bool.and_eq_true, Bool.not_eq_true', Bool.and_eq_false_iff,
    decide_eq_false_iff_not, decide_eq_true_eq, not_and_or]
  tauto

/-- The function `widen_type` adds no comparison. -/
theorem widen_type_cmp_free (n : ASTnode) (ty : Option Ty) (n1 : ASTnode)
    (h : widen_type n ty = Except.ok n1) (hn : n.cmp_free = true) : n1.cmp_free = true := by
  cases n with
  | NULL => simp [widen_type] at h
  | node op nty rv l m r sym v s =>
    have hcast : ∀ t : Option Ty, (((mkastnode A_CAST (ASTnode.node op nty rv l m r sym v s)
        ASTnode.NULL ASTnode.NULL).set_type t).set_rvalue true).cmp_free = true := by
      intro t
      simp only [mkastnode, ASTnode.set_type, ASTnode.set_rvalue]
      rw [cmp_free_node]
      exact ⟨by decide, hn, rfl, rfl⟩
    cases nty <;> cases ty <;> unfold widen_type at h <;> simp only at h <;>
      split_ifs at h <;>
      first
        | (injection h with h
           rw [← h]
           first
             | exact hn
             | rfl
             | exact hcast _)
        | cases h

/-- The function `add_type` adds no comparison. -/
theorem add_type_cmp_free : ∀ (n n1 : ASTnode), add_type n = Except.ok n1 →
    n.cmp_free = true → n1.cmp_free = true := by
  intro n
  induction n with
  | NULL =>
    intro n1 h _
    simp only [add_type, Except.ok.injEq] at h
    rw [← h]; rfl
  | node op ty rv l m r sym v s ihl _ ihr =>
    intro n1 h hn
    obtain ⟨h1, h2, h3, h4⟩ := (cmp_free_node op ty rv l m r sym v s).1 hn
    rw [add_type] at h
    by_cases c1 : ty.isSome = true
    · rw [if_pos c1] at h
      injection h with h; rw [← h]; exact hn
    · rw [if_neg c1] at h
      by_cases c2 : A_EQ ≤ op ∧ op ≤ A_NOT
      · rw [if_pos c2] at h
        injection h with h
        rw [← h, cmp_free_node]
        exact ⟨h1, h2, h3, h4⟩
      · rw [if_neg c2] at h
        obtain ⟨left1, e1, h⟩ := bind_ok h
        obtain ⟨right1, e2, h⟩ := bind_ok h
        obtain ⟨rty, e3, h⟩ := bind_ok h
        obtain ⟨new1, e4, h⟩ := bind_ok h
        obtain ⟨lty, e5, h⟩ := bind_ok h
        obtain ⟨new2, e6, h⟩ := bind_ok h
        obtain ⟨lty2, e7, h⟩ := bind_ok h
        injection h with h
        have hl1 := ihl left1 e1 h2
        have hr1 := ihr right1 e2 h4
        have hn1 := widen_type_cmp_free left1 rty new1 e4 hl1
        have hn2 := widen_type_cmp_free right1 lty new2 e6 hr1
        rw [← h, cmp_free_node]
        refine ⟨h1, ?_, h3, ?_⟩
        · split_ifs
          · exact hl1
          · exact hn1
        · split_ifs
          · exact hr1
          · exact hn2

/-- The function `binop` with an operation that is not a comparison adds no
comparison. -/
theorem binop_cmp_free (l r : ASTnode) (op : Nat) (n : ASTnode)
    (h : binop l r op = Except.ok n) (hop : ¬ (A_EQ ≤ op ∧ op ≤ A_GE))
    (hl : l.cmp_free = true) (hr : r.cmp_free = true) : n.cmp_free = true := by
  unfold binop at h
  refine add_type_cmp_free _ n h ?_
  simp only [mkastnode, ASTnode.set_rvalue]
  rw [cmp_free_node]
  exact ⟨hop, hl, rfl, hr⟩

theorem operand_leaf_cmp_free (st : Symtab) (x : Token) (n : ASTnode)
    (h : operand_leaf st x = Except.ok n) : n.cmp_free = true := by
  unfold operand_leaf at h
  split_ifs at h
  · injection h with h; rw [← h]; rfl
  · injection h with h; rw [← h]; rfl
  · injection h with h; rw [← h]; rfl
  · simp only [mkident, mkastleaf, ASTnode.set_strlit, ASTnode.strlit, bind, Except.bind] at h
    cases hf : find_symbol x.tokstr st with
    | none => rw [hf] at h; cases h
    | some sy =>
      rw [hf] at h
      simp only at h
      split_ifs at h
      · cases h
      · injection h with h; rw [← h]; rfl
  · obtain ⟨_, _, h⟩ := bind_ok h
    cases h

theorem op_of_token_not_cmp (tok : Nat) (h : 3 ≤ op_level tok) :
    ¬ (A_EQ ≤ op_of_token tok ∧ op_of_token tok ≤ A_GE) := by
  unfold op_level at h
  split_ifs at h with h1 h2 h3 h4 h5
  · rcases h1 with h | h <;> subst h <;> decide
  · rcases h2 with h | h <;> subst h <;> decide
  · rcases h3 with h | h <;> subst h <;> decide
  · exact absurd h (by decide)
  · exact absurd h (by decide)
  · exact absurd h (by decide)

theorem eval_run_cmp_free (ev : Token → List (Token × Token) → Res ASTnode) :
    ∀ (more : List (Token × Token × List (Token × Token))) (left n : ASTnode),
      (∀ p ∈ more, 3 ≤ op_level p.1.token ∧
        ∀ r, ev p.2.1 p.2.2 = Except.ok r → r.cmp_free = true) →
      left.cmp_free = true → eval_run ev more left = Except.ok n → n.cmp_free = true := by
  intro more
  induction more with
  | nil =>
    intro left n _ hl h
    simp only [eval_run, Except.ok.injEq] at h
    rw [← h]; exact hl
  | cons p more ih =>
    obtain ⟨o, y, s⟩ := p
    intro left n hall hl h
    simp only [eval_run] at h
    obtain ⟨right, e1, h⟩ := bind_ok h
    obtain ⟨l1, e2, h⟩ := bind_ok h
    obtain ⟨ho, hr⟩ := hall (o, y, s) (List.mem_cons_self _ _)
    exact ih l1 n (fun p hp => hall p (List.mem_cons_of_mem _ hp))
      (binop_cmp_free left right _ l1 e2 (op_of_token_not_cmp o.token ho) hl (hr right e1)) h

/-- A tree built from operators tighter than the relational ones holds no
comparison. -/
theorem eval_level_cmp_free (st : Symtab) : ∀ (d lvl : Nat) (x : Token)
    (seg : List (Token × Token)) (n : ASTnode),
    (∀ p ∈ seg, 3 ≤ op_level p.1.token) →
    eval_level st d lvl x seg = Except.ok n → n.cmp_free = true := by
  intro d
  induction d with
  | zero =>
    intro lvl x seg n _ h
    exact operand_leaf_cmp_free st x n h
  | succ d ih =>
    intro lvl x seg n hseg h
    simp only [eval_level] at h
    obtain ⟨left, e1, h⟩ := bind_ok h
    have hl := ih (lvl + 1) x _ left (fun p hp => hseg p (split_level_first lvl seg p hp).1) e1
    refine eval_run_cmp_free _ _ left n ?_ hl h
    intro p hp
    obtain ⟨h1, h2, h3⟩ := split_level_parts lvl seg p hp
    exact ⟨hseg _ h2, fun r hr => ih (lvl + 1) p.2.1 p.2.2 r (fun q hq => hseg q (h3 q hq).1) hr⟩

theorem map_ok {α β : Type} {r : Res α} {f : α → β} {b : β}
    (h : r.map f = Except.ok b) : ∃ a, r = Except.ok a ∧ f a = b := by
  cases r with
  | error e => cases h
  | ok a => exact ⟨a, rfl, by injection h⟩

theorem relational_chain_facts (lc : Libc) (fuel : Nat) (lvl : Nat) (x : Token)
    (rest : List (Token × Token)) (stop : Token) (tail : List Token) (c : Comp)
    (h : relational_chain lc fuel lvl x rest stop tail c = true) :
    is_operand x = true ∧
      (∀ p ∈ rest, lvl ≤ op_level p.1.token ∧ is_operand p.2 = true) ∧
      chain_free rest = true ∧ op_level stop.token = 2 ∧
      (relational_counts rest).getLast? = some 1 ∧ rest.length ≤ fuel ∧
      presents lc fuel (x :: (pair_tokens rest ++ stop :: tail)) c = true := by
  simp only [relational_chain, chain_shape, Bool.and_eq_true, decide_eq_true_eq,
    List.all_eq_true] at h
  obtain ⟨⟨⟨⟨⟨⟨h1, h2⟩, h3⟩, h4⟩, h5⟩, h6⟩, h7⟩ := h
  exact ⟨h1, h2, h3, h4, h5, h6, h7⟩

theorem split_level_none (lvl : Nat) : ∀ seg : List (Token × Token),
    (∀ p ∈ seg, op_level p.1.token ≠ lvl) → split_level lvl seg = (seg, [])
  | [], _ => rfl
  | (o, y) :: rest, h => by
    have h1 := h (o, y) (List.mem_cons_self _ _)
    have ih := split_level_none lvl rest (fun p hp => h p (List.mem_cons_of_mem _ hp))
    simp only [split_level, h1, if_false, ih]

/-- In front of a second relational operator in a row, `expression` stops
when it returns. -/
theorem chain_expression (lc : Libc) (fuel : Nat) (x : Token) (rest : List (Token × Token))
    (stop : Token) (tail : List Token) (c : Comp) (n : ASTnode) (c1 : Comp)
    (h : relational_chain lc fuel 1 x rest stop tail c = true)
    (he : expression lc fuel c = Except.ok (n, c1)) : c1.lex.Thistoken = stop := by
  obtain ⟨h1, h2, h3, h4, h5, h6, h7⟩ := relational_chain_facts lc fuel 1 x rest stop tail c h
  obtain ⟨c2, hin, _, heq⟩ := expression_parses lc fuel c.syms c x rest stop tail rfl h1 h2 h3
    (by simp [stops_expression, h4, h5]) h6 h7
  rw [heq] at he
  obtain ⟨a, _, ha⟩ := map_ok he
  injection ha with _ ha
  rw [← ha]
  exact presents_head lc fuel stop tail c2 hin

/-- In front of a second relational operator in a row,
`relational_expression` stops when it returns, and what it returns is one
comparison whose operands hold no comparison. -/
theorem chain_relational (lc : Libc) (fuel : Nat) (x : Token) (rest : List (Token × Token))
    (stop : Token) (tail : List Token) (c : Comp) (n : ASTnode) (c1 : Comp)
    (h : relational_chain lc fuel 2 x rest stop tail c = true)
    (he : relational_expression lc fuel c = Except.ok (n, c1)) :
    c1.lex.Thistoken = stop ∧
      ∃ op l r, n = ASTnode.node op (some ty_bool) true l ASTnode.NULL r none ⟨0⟩ none ∧
        (A_EQ ≤ op ∧ op ≤ A_GE) ∧ l.cmp_free = true ∧ r.cmp_free = true := by
  obtain ⟨h1, h2, h3, h4, h5, h6, h7⟩ := relational_chain_facts lc fuel 2 x rest stop tail c h
  have hnone := split_level_none 1 rest (fun p hp => by have := (h2 p hp).1; omega)
  have hcount : (split_level 2 rest).2.length = 1 := by
    simp only [relational_counts, hnone, List.map_nil, List.getLast?_singleton,
      Option.some.injEq] at h5
    exact h5
  obtain ⟨c2, hin, _, heq⟩ := relational_parses lc fuel c.syms c x rest stop tail rfl h1 h2
    (by show (split_level 2 rest).2.length ≤ 1; omega) (Or.inr ⟨h4, hcount⟩) h6 h7
  rw [heq] at he
  obtain ⟨a, ha1, ha⟩ := map_ok he
  injection ha with ha2 ha3
  subst ha2
  refine ⟨by rw [← ha3]; exact presents_head lc fuel stop tail c2 hin, ?_⟩
  rw [show eval_level c.syms 4 2 x rest =
    (eval_level c.syms 3 3 x (split_level 2 rest).1 >>= fun left =>
      eval_run (eval_level c.syms 3 3) (split_level 2 rest).2 left) from rfl] at ha1
  obtain ⟨left, e1, ha1⟩ := bind_ok ha1
  cases hm : (split_level 2 rest).2 with
  | nil => rw [hm] at hcount; simp at hcount
  | cons p more =>
    obtain ⟨o, y, s⟩ := p
    have hmore : more = [] := by
      rw [hm] at hcount
      cases more with
      | nil => rfl
      | cons q more2 => simp at hcount
    subst hmore
    rw [hm] at ha1
    simp only [eval_run] at ha1
    obtain ⟨right, e2, ha1⟩ := bind_ok ha1
    obtain ⟨l1, e3, ha1⟩ := bind_ok ha1
    injection ha1 with ha1
    subst ha1
    obtain ⟨ho, hoy, hs⟩ := split_level_parts 2 rest (o, y, s) (by rw [hm]; simp)
    have hrel : A_EQ ≤ op_of_token o.token ∧ op_of_token o.token ≤ A_GE := by
      simp only at ho
      unfold op_level at ho
      split_ifs at ho with g1 g2 g3 g4 g5
      · exact absurd ho (by decide)
      · exact absurd ho (by decide)
      · exact absurd ho (by decide)
      · rcases g4 with g | g | g | g | g | g <;> rw [g] <;> decide
      · exact absurd ho (by decide)
    have hrel2 : A_EQ ≤ op_of_token o.token ∧ op_of_token o.token ≤ A_NOT :=
      ⟨hrel.1, by have := hrel.2; simp only [A_GE, A_NOT] at *; omega⟩
    refine ⟨op_of_token o.token, left, right, ?_, hrel, ?_, ?_⟩
    · simp only [binop, mkastnode, ASTnode.set_rvalue, add_type, Option.isSome, hrel2,
        Bool.false_eq_true, if_false, and_self, if_true, Except.ok.injEq] at e3
      exact e3.symm
    · refine eval_level_cmp_free c.syms 3 3 x _ left ?_ e1
      intro p hp
      obtain ⟨g1, g2⟩ := split_level_first 2 rest p hp
      have := (h2 p g1).1
      omega
    · refine eval_level_cmp_free c.syms 3 3 y s right ?_ e2
      intro p hp
      have := (h2 p (hs p hp).1).1
      have := (hs p hp).2
      omega

theorem arg_tokens_head (x : Token) (tail : List Token) :
    ∀ args : List (Token × List (Token × Token) × Token),
      ∃ u1 tail1, arg_tokens args ++ x :: tail = u1 :: tail1
  | [] => ⟨x, tail, rfl⟩
  | (y, rest, cm) :: more => ⟨y, (pair_tokens rest ++ cm :: arg_tokens more) ++ x :: tail, rfl⟩

/-- Behind arguments that are followed by a comma, an argument that ends in
front of a second relational operator in a row: `expression_list` stops
there when it returns. -/
theorem chain_expression_list (lc : Libc) (fuel : Nat) (x : Token)
    (rest : List (Token × Token)) (stop : Token) (tail : List Token)
    (h1 : is_operand x = true)
    (h2 : ∀ p ∈ rest, 1 ≤ op_level p.1.token ∧ is_operand p.2 = true)
    (h3 : chain_free rest = true) (h4 : op_level stop.token = 2)
    (h5 : (relational_counts rest).getLast? = some 1) (h6 : rest.length ≤ fuel) :
    ∀ (args : List (Token × List (Token × Token) × Token)) (k : Nat) (c : Comp)
      (l : ASTnode) (c3 : Comp),
      (∀ a ∈ args, is_operand a.1 = true ∧
        (∀ p ∈ a.2.1, 1 ≤ op_level p.1.token ∧ is_operand p.2 = true) ∧
        chain_free a.2.1 = true ∧ a.2.2.token = T_COMMA ∧ a.2.1.length ≤ fuel) →
      presents lc fuel (arg_tokens args ++ x :: (pair_tokens rest ++ stop :: tail)) c = true →
      expression_list lc fuel k c = Except.ok (l, c3) → c3.lex.Thistoken = stop := by
  intro args
  induction args with
  | nil =>
    intro k c l c3 _ hin h
    unfold expression_list at h
    obtain ⟨⟨e, c1⟩, he, h⟩ := bind_ok h
    obtain ⟨c2, hin2, _, heq⟩ := expression_parses lc fuel c.syms c x rest stop tail rfl h1 h2
      h3 (by simp [stops_expression, h4, h5]) h6 hin
    rw [heq] at he
    obtain ⟨a, _, ha⟩ := map_ok he
    injection ha with _ ha
    subst ha
    have ht := presents_head lc fuel stop tail c2 hin2
    have hne : ¬ (c2.lex.Thistoken.token = T_COMMA) := by
      rw [ht]
      intro hc
      rw [hc] at h4
      revert h4
      decide
    simp only [hne, if_false, Except.ok.injEq, Prod.mk.injEq] at h
    rw [← h.2]
    exact ht
  | cons a args ih =>
    obtain ⟨y, rest1, cm⟩ := a
    intro k c l c3 hall hin h
    obtain ⟨g1, g2, g3, g4, g5⟩ := hall (y, rest1, cm) (List.mem_cons_self _ _)
    obtain ⟨u1, tail1, hu⟩ := arg_tokens_head x (pair_tokens rest ++ stop :: tail) args
    have hin1 : presents lc fuel (y :: (pair_tokens rest1 ++ cm :: (u1 :: tail1))) c = true := by
      rw [← hu]
      simpa only [arg_tokens, List.cons_append, List.append_assoc] using hin
    obtain ⟨c1, hin2, _, heq⟩ := expression_parses lc fuel c.syms c y rest1 cm (u1 :: tail1) rfl
      g1 g2 g3 (by simp only at g4; simp [stops_expression, g4, op_level]) g5 hin1
    obtain ⟨hcm, c2, hscan, hin3⟩ := presents_cons lc fuel cm u1 tail1 c1 hin2
    unfold expression_list at h
    obtain ⟨⟨e, c1'⟩, he, h⟩ := bind_ok h
    rw [heq] at he
    obtain ⟨b, _, hb⟩ := map_ok he
    injection hb with _ hb
    subst hb
    have hcomma : c1.lex.Thistoken.token = T_COMMA := by rw [hcm]; exact g4
    simp only [hcomma, if_true] at h
    cases k with
    | zero => cases h
    | succ k1 =>
      obtain ⟨c2', hs2, h⟩ := bind_ok h
      rw [hscan] at hs2
      injection hs2 with hs2
      subst hs2
      obtain ⟨⟨l1, c4⟩, hl, h⟩ := bind_ok h
      injection h with h
      injection h with _ h
      subst h
      exact ih k1 c2 l1 c4 (fun a ha => hall a (List.mem_cons_of_mem _ ha))
        (by rw [hu]; exact hin3) hl

/-- In front of a second relational operator in a row, the expression
parsers return when the operands are literals and variables of one type. -/
theorem chain_returns (lc : Libc) (fuel : Nat) (t : Ty) (x : Token)
    (rest : List (Token × Token)) (stop : Token) (tail : List Token) (c : Comp)
    (ht : t ≠ ty_void) (hx : operand_ok t c.syms x = true)
    (hrest : ∀ p ∈ rest, operand_ok t c.syms p.2 = true) :
    (relational_chain lc fuel 2 x rest stop tail c = true →
      ∃ n c1, relational_expression lc fuel c = Except.ok (n, c1)) ∧
    (relational_chain lc fuel 1 x rest stop tail c = true →
      ∃ n c1, expression lc fuel c = Except.ok (n, c1)) := by
  constructor
  · intro h
    obtain ⟨h1, h2, h3, h4, h5, h6, h7⟩ := relational_chain_facts lc fuel 2 x rest stop tail c h
    have hnone := split_level_none 1 rest (fun p hp => by have := (h2 p hp).1; omega)
    have hcount : (split_level 2 rest).2.length = 1 := by
      simp only [relational_counts, hnone, List.map_nil, List.getLast?_singleton,
        Option.some.injEq] at h5
      exact h5
    obtain ⟨c2, _, _, heq⟩ := relational_parses lc fuel c.syms c x rest stop tail rfl h1 h2
      (by show (split_level 2 rest).2.length ≤ 1; omega) (Or.inr ⟨h4, hcount⟩) h6 h7
    obtain ⟨n, e1, _, _⟩ := eval_level_common t ht c.syms 4 2 x rest hx
      (fun p hp => ⟨by have := (h2 p hp).1; omega, hrest p hp⟩)
    exact ⟨n, c2, by rw [heq, e1]; rfl⟩
  · intro h
    obtain ⟨h1, h2, h3, h4, h5, h6, h7⟩ := relational_chain_facts lc fuel 1 x rest stop tail c h
    obtain ⟨c2, _, _, heq⟩ := expression_parses lc fuel c.syms c x rest stop tail rfl h1 h2 h3
      (by simp [stops_expression, h4, h5]) h6 h7
    obtain ⟨n, e1, _, _⟩ := eval_level_common t ht c.syms 5 1 x rest hx
      (fun p hp => ⟨(h2 p hp).1, hrest p hp⟩)
    exact ⟨n, c2, by rw [heq, e1]; rfl⟩

/-- C21 (amended): let the lexer hand out an expression that ends in front
of a second relational operator in a row: an operand followed by binary
operators and operands and then the relational operator `stop`, where the
last run without `&`, `|`, `^` holds one relational operator already.  If
`relational_expression` returns on such tokens, it has taken one relational
operator only: its tree is one comparison whose operands hold no comparison,
and `stop` is the current token; `expression` stops at `stop` as well; and both
do return when the operands are literals and declared variables of one
type.  The statement around the expression is then fatal in `match` with 'Expected ;,
got stop' (a declaration; an assignment; the initial assignment and the
condition of a `for`) or 'Expected ), got stop' (the condition of an `if` or
a `while`; the end assignment of a `for`; the argument of `printf`; an
argument of a function call), provided that the parts in front of the
expression and the expression itself parse and, in an assignment, that the
comparison passes the type check against the variable, which runs before
the semicolon is matched. -/
theorem second_relational_fatal (lc : Libc) (fuel : Nat) (x : Token)
    (rest : List (Token × Token)) (stop : Token) (tail : List Token) :
    (∀ c n c1, relational_chain lc fuel 2 x rest stop tail c = true →
      relational_expression lc fuel c = Except.ok (n, c1) →
      c1.lex.Thistoken = stop ∧
        ∃ op l r, n = ASTnode.node op (some ty_bool) true l ASTnode.NULL r none ⟨0⟩ none ∧
          (A_EQ ≤ op ∧ op ≤ A_GE) ∧ l.cmp_free = true ∧ r.cmp_free = true) ∧
    (∀ c n c1, relational_chain lc fuel 1 x rest stop tail c = true →
      expression lc fuel c = Except.ok (n, c1) → c1.lex.Thistoken = stop) ∧
    (∀ t c, t ≠ ty_void → operand_ok t c.syms x = true →
      (∀ p ∈ rest, operand_ok t c.syms p.2 = true) →
      (relational_chain lc fuel 2 x rest stop tail c = true →
        ∃ n c1, relational_expression lc fuel c = Except.ok (n, c1)) ∧
      (relational_chain lc fuel 1 x rest stop tail c = true →
        ∃ n c1, expression lc fuel c = Except.ok (n, c1))) ∧
    (∀ k c0 d c1 c2 e c3,
      typed_declaration lc fuel c0 = Except.ok (d, c1) →
      match_tok lc fuel T_ASSIGN true c1 = Except.ok c2 →
      relational_chain lc fuel 1 x rest stop tail c2 = true →
      expression lc fuel c2 = Except.ok (e, c3) →
      declaration_stmts lc fuel k c0 =
        fatal ("Expected ;, got " ++ tokstr.getD stop.token "" ++ "\n")) ∧
    (∀ c0 v c1 c2 e c3 a,
      variable_ lc fuel c0 = Except.ok (v, c1) →
      match_tok lc fuel T_ASSIGN true c1 = Except.ok c2 →
      relational_chain lc fuel 1 x rest stop tail c2 = true →
      expression lc fuel c2 = Except.ok (e, c3) →
      assignment_statement v e = Except.ok a →
      assign_stmt lc fuel c0 =
        fatal ("Expected ;, got " ++ tokstr.getD stop.token "" ++ "\n")) ∧
    (∀ sb c0 c1 c2 e c3,
      scan_this lc fuel c0 = Except.ok c1 → lparen lc fuel c1 = Except.ok c2 →
      relational_chain lc fuel 2 x rest stop tail c2 = true →
      relational_expression lc fuel c2 = Except.ok (e, c3) →
      if_stmt lc fuel sb c0 = fatal ("Expected ), got " ++ tokstr.getD stop.token "" ++ "\n") ∧
      while_stmt lc fuel sb c0 =
        fatal ("Expected ), got " ++ tokstr.getD stop.token "" ++ "\n")) ∧
    (∀ sb c0 c1 c2 v c3 c4 e c5 a,
      scan_this lc fuel c0 = Except.ok c1 → lparen lc fuel c1 = Except.ok c2 →
      variable_ lc fuel c2 = Except.ok (v, c3) →
      match_tok lc fuel T_ASSIGN true c3 = Except.ok c4 →
      relational_chain lc fuel 1 x rest stop tail c4 = true →
      expression lc fuel c4 = Except.ok (e, c5) →
      assignment_statement v e = Except.ok a →
      for_stmt lc fuel sb c0 =
        fatal ("Expected ;, got " ++ tokstr.getD stop.token "" ++ "\n")) ∧
    (∀ sb c0 c1 c2 i c3 e c4,
      scan_this lc fuel c0 = Except.ok c1 → lparen lc fuel c1 = Except.ok c2 →
      assign_stmt lc fuel c2 = Except.ok (i, c3) →
      relational_chain lc fuel 2 x rest stop tail c3 = true →
      relational_expression lc fuel c3 = Except.ok (e, c4) →
      for_stmt lc fuel sb c0 =
        fatal ("Expected ;, got " ++ tokstr.getD stop.token "" ++ "\n")) ∧
    (∀ sb c0 c1 c2 i c3 e c4 c5 v c6 c7 e2 c8 a,
      scan_this lc fuel c0 = Except.ok c1 → lparen lc fuel c1 = Except.ok c2 →
      assign_stmt lc fuel c2 = Except.ok (i, c3) →
      relational_expression lc fuel c3 = Except.ok (e, c4) →
      semi lc fuel c4 = Except.ok c5 →
      variable_ lc fuel c5 = Except.ok (v, c6) →
      match_tok lc fuel T_ASSIGN true c6 = Except.ok c7 →
      relational_chain lc fuel 1 x rest stop tail c7 = true →
      expression lc fuel c7 = Except.ok (e2, c8) →
      assignment_statement v e2 = Except.ok a →
      for_stmt lc fuel sb c0 =
        fatal ("Expected ), got " ++ tokstr.getD stop.token "" ++ "\n")) ∧
    (∀ sb c0 c1 c2 c3 c4 c5 e c6, c0.lex.Thistoken.token = T_PRINTF →
      scan_this lc fuel c0 = Except.ok c1 → lparen lc fuel c1 = Except.ok c2 →
      match_tok lc fuel T_STRLIT false c2 = Except.ok c3 →
      scan_this lc fuel c3 = Except.ok c4 → comma lc fuel c4 = Except.ok c5 →
      relational_chain lc fuel 1 x rest stop tail c5 = true →
      expression lc fuel c5 = Except.ok (e, c6) →
      procedural_stmt lc fuel sb c0 =
        fatal ("Expected ), got " ++ tokstr.getD stop.token "" ++ "\n")) ∧
    (∀ (args : List (Token × List (Token × Token) × Token)) c0 c1 c2 l c3,
      scan_this lc fuel c0 = Except.ok c1 → lparen lc fuel c1 = Except.ok c2 →
      chain_shape fuel 1 x rest stop = true → args_ok fuel args = true →
      presents lc fuel (arg_tokens args ++ x :: (pair_tokens rest ++ stop :: tail)) c2 = true →
      expression_list lc fuel fuel c2 = Except.ok (l, c3) →
      function_call lc fuel c0 =
        fatal ("Expected ), got " ++ tokstr.getD stop.token "" ++ "\n")) := by
  have hmt : ∀ lvl c, relational_chain lc fuel lvl x rest stop tail c = true →
      ∀ (b : Bool) (c3 : Comp), c3.lex.Thistoken = stop →
        match_tok lc fuel T_SEMI b c3 =
          fatal ("Expected ;, got " ++ tokstr.getD stop.token "" ++ "\n") ∧
        match_tok lc fuel T_RPAREN b c3 =
          fatal ("Expected ), got " ++ tokstr.getD stop.token "" ++ "\n") := by
    intro lvl c h b c3 hc3
    obtain ⟨_, _, _, h4, _, _, _⟩ := relational_chain_facts lc fuel lvl x rest stop tail c h
    exact match_tok_relational lc fuel stop.token ((op_level_two _).1 h4) b c3 (by rw [hc3])
  refine ⟨?_, ?_, ?_, ?_, ?_, ?_, ?_, ?_, ?_, ?_, ?_⟩
  · intro c n c1 h he
    exact chain_relational lc fuel x rest stop tail c n c1 h he
  · intro c n c1 h he
    exact chain_expression lc fuel x rest stop tail c n c1 h he
  · intro t c ht hx hrest
    exact chain_returns lc fuel t x rest stop tail c ht hx hrest
  · intro k c0 d c1 c2 e c3 hd hm hch he
    have hst := chain_expression lc fuel x rest stop tail c2 e c3 hch he
    unfold declaration_stmts
    simp only [hd, hm, he, semi, (hmt 1 c2 hch true c3 hst).1, bind, Except.bind, fatal]
  · intro c0 v c1 c2 e c3 a hv hm hch he ha
    have hst := chain_expression lc fuel x rest stop tail c2 e c3 hch he
    simp only [assign_stmt, short_assign_stmt, hv, hm, he, ha, semi,
      (hmt 1 c2 hch true c3 hst).1, bind, Except.bind, fatal]
  · intro sb c0 c1 c2 e c3 h1 h2 hch he
    have hst := (chain_relational lc fuel x rest stop tail c2 e c3 hch he).1
    constructor
    · simp only [if_stmt, h1, h2, he, rparen, (hmt 2 c2 hch true c3 hst).2, bind, Except.bind,
        fatal]
    · simp only [while_stmt, h1, h2, he, rparen, (hmt 2 c2 hch true c3 hst).2, bind,
        Except.bind, fatal]
  · intro sb c0 c1 c2 v c3 c4 e c5 a h1 h2 hv hm hch he ha
    have hst := chain_expression lc fuel x rest stop tail c4 e c5 hch he
    simp only [for_stmt, assign_stmt, short_assign_stmt, h1, h2, hv, hm, he, ha, semi,
      (hmt 1 c4 hch true c5 hst).1, bind, Except.bind, fatal]
  · intro sb c0 c1 c2 i c3 e c4 h1 h2 hi hch he
    have hst := (chain_relational lc fuel x rest stop tail c3 e c4 hch he).1
    simp only [for_stmt, h1, h2, hi, he, semi, (hmt 2 c3 hch true c4 hst).1, bind, Except.bind,
      fatal]
  · intro sb c0 c1 c2 i c3 e c4 c5 v c6 c7 e2 c8 a h1 h2 hi he hs hv hm hch he2 ha
    have hst := chain_expression lc fuel x rest stop tail c7 e2 c8 hch he2
    simp only [for_stmt, short_assign_stmt, h1, h2, hi, he, hs, hv, hm, he2, ha, rparen,
      (hmt 1 c7 hch true c8 hst).2, bind, Except.bind, fatal]
  · intro sb c0 c1 c2 c3 c4 c5 e c6 ht h1 h2 h3 h4 h5 hch he
    have hst := chain_expression lc fuel x rest stop tail c5 e c6 hch he
    have hne : ¬ T_PRINTF = T_RBRACE := by decide
    simp only [procedural_stmt, ht, hne, if_false, if_true, h1, h2, h3, h4, h5, he, rparen,
      (hmt 1 c5 hch true c6 hst).2, bind, Except.bind, fatal]
  · intro args c0 c1 c2 l c3 h1 h2 hsh hargs hin hl
    simp only [chain_shape, Bool.and_eq_true, decide_eq_true_eq, List.all_eq_true] at hsh
    obtain ⟨⟨⟨⟨⟨g1, g2⟩, g3⟩, g4⟩, g5⟩, g6⟩ := hsh
    simp only [args_ok, Bool.and_eq_true, decide_eq_true_eq, List.all_eq_true] at hargs
    have hst := chain_expression_list lc fuel x rest stop tail g1 g2 g3 g4 g5 g6 args fuel c2 l c3
      (fun a ha => by
        obtain ⟨⟨⟨⟨a1, a2⟩, a3⟩, a4⟩, a5⟩ := hargs.1 a ha
        exact ⟨a1, a2, a3, a4, a5⟩) hin hl
    have hm := (match_tok_relational lc fuel stop.token ((op_level_two _).1 g4) true c3
      (by rw [hst])).2
    obtain ⟨u1, tail1, hu⟩ := arg_tokens_head x (pair_tokens rest ++ stop :: tail) args
    have hfirst : is_operand c2.lex.Thistoken = true := by
      rw [hu] at hin
      have ht := presents_head lc fuel u1 tail1 c2 hin
      rw [ht]
      cases args with
      | nil =>
        simp only [arg_tokens, List.nil_append, List.cons.injEq] at hu
        rw [← hu.1]; exact g1
      | cons a more =>
        obtain ⟨y, r1, cm⟩ := a
        simp only [arg_tokens, List.cons_append, List.cons.injEq] at hu
        rw [← hu.1]
        exact (hargs.1 (y, r1, cm) (List.mem_cons_self _ _)).1.1.1.1
    have hr : c2.lex.Thistoken.token ≠ T_RPAREN := by
      simp only [is_operand, Bool.or_eq_true, decide_eq_true_eq] at hfirst
      rcases hfirst with ((h | h) | h) | h <;> rw [h] <;> decide
    simp only [function_call, h1, h2, hl, hr, rparen, hm, bind, Except.bind, fatal, if_true,
      ne_eq, not_false_eq_true]

/-- Witness for `second_relational_fatal`: with int32 variables `a`, `b`,
`c`, the expression `a < b` in front of a second `<` in each of the
positions, and `a + 1 < b & c < b * 2` in front of `>` in a declaration;
`sb` is a statement block parser that is never reached. -/
theorem second_relational_fatal_witness :
    (relational_chain libc_unused 40 1 ⟨T_IDENT, some "a", ⟨0⟩, 0⟩
        [(⟨T_PLUS, some "a", ⟨0⟩, 0⟩, ⟨T_NUMLIT, some "a", ⟨1⟩, NUM_UINT⟩),
          (⟨T_LT, some "a", ⟨1⟩, NUM_UINT⟩, ⟨T_IDENT, some "b", ⟨1⟩, NUM_UINT⟩),
          (⟨T_AMPER, some "b", ⟨1⟩, NUM_UINT⟩, ⟨T_IDENT, some "c", ⟨1⟩, NUM_UINT⟩),
          (⟨T_LT, some "c", ⟨1⟩, NUM_UINT⟩, ⟨T_IDENT, some "b", ⟨1⟩, NUM_UINT⟩),
          (⟨T_STAR, some "b", ⟨1⟩, NUM_UINT⟩, ⟨T_NUMLIT, some "b", ⟨2⟩, NUM_UINT⟩)]
        ⟨T_GT, some "b", ⟨2⟩, NUM_UINT⟩ []
        (state_or (match_tok libc_unused 40 T_ASSIGN true
          (next_or (typed_declaration libc_unused 40
            (parser_at ty_int32 "int32 x = a + 1 < b & c < b * 2 > a;".toList))
            (parser_at ty_int32 [])))
          (parser_at ty_int32 [])) = true ∧
      declaration_stmts libc_unused 40 40
          (parser_at ty_int32 "int32 x = a + 1 < b & c < b * 2 > a;".toList) =
        fatal "Expected ;, got >\n") ∧
    (relational_chain libc_unused 40 1 ⟨T_IDENT, some "a", ⟨0⟩, 0⟩
        [(⟨T_LT, some "a", ⟨0⟩, 0⟩, ⟨T_IDENT, some "b", ⟨0⟩, 0⟩)] ⟨T_LT, some "b", ⟨0⟩, 0⟩ []
        (state_or (match_tok libc_unused 40 T_ASSIGN true
          (next_or (variable_ libc_unused 40 (parser_at ty_int32 "a = a < b < c;".toList))
            (parser_at ty_int32 [])))
          (parser_at ty_int32 [])) = true ∧
      assign_stmt libc_unused 40 (parser_at ty_int32 "a = a < b < c;".toList) =
        fatal "Expected ;, got <\n") ∧
    (relational_chain libc_unused 40 2 ⟨T_IDENT, some "a", ⟨0⟩, 0⟩
        [(⟨T_LT, some "a", ⟨0⟩, 0⟩, ⟨T_IDENT, some "b", ⟨0⟩, 0⟩)] ⟨T_LT, some "b", ⟨0⟩, 0⟩ []
        (state_or (lparen libc_unused 40
          (state_or (scan_this libc_unused 40 (parser_at ty_int32 "if (a < b < c)".toList))
            (parser_at ty_int32 [])))
          (parser_at ty_int32 [])) = true ∧
      if_stmt libc_unused 40 (fun _ => Except.error Err.fuel)
          (parser_at ty_int32 "if (a < b < c)".toList) = fatal "Expected ), got <\n" ∧
      while_stmt libc_unused 40 (fun _ => Except.error Err.fuel)
          (parser_at ty_int32 "if (a < b < c)".toList) = fatal "Expected ), got <\n") ∧
    for_stmt libc_unused 40 (fun _ => Except.error Err.fuel)
        (parser_at ty_int32 "for (a = a < b < c;".toList) = fatal "Expected ;, got <\n" ∧
    for_stmt libc_unused 40 (fun _ => Except.error Err.fuel)
        (parser_at ty_int32 "for (a = b; a < b < c;".toList) = fatal "Expected ;, got <\n" ∧
    for_stmt libc_unused 40 (fun _ => Except.error Err.fuel)
        (parser_at ty_int32 "for (a = b; a < b; a = a < b < c)".toList) =
      fatal "Expected ), got <\n" ∧
    procedural_stmt libc_unused 40 (fun _ => Except.error Err.fuel)
        (parser_at ty_int32 "printf(\"x\", a < b < c);".toList) = fatal "Expected ), got <\n" ∧
    (args_ok 40 [(⟨T_IDENT, some "a", ⟨0⟩, 0⟩, [], ⟨T_COMMA, some "a", ⟨0⟩, 0⟩)] = true ∧
      presents libc_unused 40
        (arg_tokens [(⟨T_IDENT, some "a", ⟨0⟩, 0⟩, [], ⟨T_COMMA, some "a", ⟨0⟩, 0⟩)] ++
          ⟨T_IDENT, some "a", ⟨0⟩, 0⟩ ::
            (pair_tokens [(⟨T_LT, some "a", ⟨0⟩, 0⟩, ⟨T_IDENT, some "b", ⟨0⟩, 0⟩)] ++
              [⟨T_LT, some "b", ⟨0⟩, 0⟩]))
        (state_or (lparen libc_unused 40
          (state_or (scan_this libc_unused 40 (parser_at ty_int32 "g(a, a < b < c, b);".toList))
            (parser_at ty_int32 [])))
          (parser_at ty_int32 [])) = true ∧
      function_call libc_unused 40 (parser_at ty_int32 "g(a, a < b < c, b);".toList) =
        fatal "Expected ), got <\n") := by
  have h := second_relational_fatal libc_unused 40 ⟨T_IDENT, some "a", ⟨0⟩, 0⟩
    [(⟨T_LT, some "a", ⟨0⟩, 0⟩, ⟨T_IDENT, some "b", ⟨0⟩, 0⟩)] ⟨T_LT, some "b", ⟨0⟩, 0⟩ []
  have d := (second_relational_fatal libc_unused 40 ⟨T_IDENT, some "a", ⟨0⟩, 0⟩
    [(⟨T_PLUS, some "a", ⟨0⟩, 0⟩, ⟨T_NUMLIT, some "a", ⟨1⟩, NUM_UINT⟩),
      (⟨T_LT, some "a", ⟨1⟩, NUM_UINT⟩, ⟨T_IDENT, some "b", ⟨1⟩, NUM_UINT⟩),
      (⟨T_AMPER, some "b", ⟨1⟩, NUM_UINT⟩, ⟨T_IDENT, some "c", ⟨1⟩, NUM_UINT⟩),
      (⟨T_LT, some "c", ⟨1⟩, NUM_UINT⟩, ⟨T_IDENT, some "b", ⟨1⟩, NUM_UINT⟩),
      (⟨T_STAR, some "b", ⟨1⟩, NUM_UINT⟩, ⟨T_NUMLIT, some "b", ⟨2⟩, NUM_UINT⟩)]
    ⟨T_GT, some "b", ⟨2⟩, NUM_UINT⟩ []).2.2.2.1
  refine ⟨⟨by decide!,
      d 40 (parser_at ty_int32 "int32 x = a + 1 < b & c < b * 2 > a;".toList) _ _ _ _ _
        (next_or_ok _ (parser_at ty_int32 []) (by decide!))
        (state_or_ok _ (parser_at ty_int32 []) (by decide!)) (by decide!)
        (next_or_ok _ (parser_at ty_int32 []) (by decide!))⟩,
    ⟨by decide!,
      h.2.2.2.2.1 (parser_at ty_int32 "a = a < b < c;".toList) _ _ _ _ _ _
        (next_or_ok _ (parser_at ty_int32 []) (by decide!))
        (state_or_ok _ (parser_at ty_int32 []) (by decide!)) (by decide!)
        (next_or_ok _ (parser_at ty_int32 []) (by decide!)) (node_or_ok _ (by decide!))⟩,
    ⟨by decide!,
      h.2.2.2.2.2.1 (fun _ => Except.error Err.fuel)
        (parser_at ty_int32 "if (a < b < c)".toList) _ _ _ _
        (state_or_ok _ (parser_at ty_int32 []) (by decide!))
        (state_or_ok _ (parser_at ty_int32 []) (by decide!)) (by decide!)
        (next_or_ok _ (parser_at ty_int32 []) (by decide!))⟩,
    h.2.2.2.2.2.2.1 (fun _ => Except.error Err.fuel)
      (parser_at ty_int32 "for (a = a < b < c;".toList) _ _ _ _ _ _ _ _
      (state_or_ok _ (parser_at ty_int32 []) (by decide!))
      (state_or_ok _ (parser_at ty_int32 []) (by decide!))
      (next_or_ok _ (parser_at ty_int32 []) (by decide!))
      (state_or_ok _ (parser_at ty_int32 []) (by decide!)) (by decide!)
      (next_or_ok _ (parser_at ty_int32 []) (by decide!)) (node_or_ok _ (by decide!)),
    h.2.2.2.2.2.2.2.1 (fun _ => Except.error Err.fuel)
      (parser_at ty_int32 "for (a = b; a < b < c;".toList) _ _ _ _ _ _
      (state_or_ok _ (parser_at ty_int32 []) (by decide!))
      (state_or_ok _ (parser_at ty_int32 []) (by decide!))
      (next_or_ok _ (parser_at ty_int32 []) (by decide!)) (by decide!)
      (next_or_ok _ (parser_at ty_int32 []) (by decide!)),
    h.2.2.2.2.2.2.2.2.1 (fun _ => Except.error Err.fuel)
      (parser_at ty_int32 "for (a = b; a < b; a = a < b < c)".toList) _ _ _ _ _ _ _ _ _ _ _ _ _
      (state_or_ok _ (parser_at ty_int32 []) (by decide!))
      (state_or_ok _ (parser_at ty_int32 []) (by decide!))
      (next_or_ok _ (parser_at ty_int32 []) (by decide!))
      (next_or_ok _ (parser_at ty_int32 []) (by decide!))
      (state_or_ok _ (parser_at ty_int32 []) (by decide!))
      (next_or_ok _ (parser_at ty_int32 []) (by decide!))
      (state_or_ok _ (parser_at ty_int32 []) (by decide!)) (by decide!)
      (next_or_ok _ (parser_at ty_int32 []) (by decide!)) (node_or_ok _ (by decide!)),
    h.2.2.2.2.2.2.2.2.2.1 (fun _ => Except.error Err.fuel)
      (parser_at ty_int32 "printf(\"x\", a < b < c);".toList) _ _ _ _ _ _ _ (by decide!)
      (state_or_ok _ (parser_at ty_int32 []) (by decide!))
      (state_or_ok _ (parser_at ty_int32 []) (by decide!))
      (state_or_ok _ (parser_at ty_int32 []) (by decide!))
      (state_or_ok _ (parser_at ty_int32 []) (by decide!))
      (state_or_ok _ (parser_at ty_int32 []) (by decide!)) (by decide!)
      (next_or_ok _ (parser_at ty_int32 []) (by decide!)),
    ⟨by decide!, by decide!, h.2.2.2.2.2.2.2.2.2.2
      [(⟨T_IDENT, some "a", ⟨0⟩, 0⟩, [], ⟨T_COMMA, some "a", ⟨0⟩, 0⟩)]
      (parser_at ty_int32 "g(a, a < b < c, b);".toList) _ _ _ _
      (state_or_ok _ (parser_at ty_int32 []) (by decide!))
      (state_or_ok _ (parser_at ty_int32 []) (by decide!)) (by decide!) (by decide!)
      (by decide!) (next_or_ok _ (parser_at ty_int32 []) (by decide!))⟩⟩

/-! ## A function is declared with a body once -/

theorem body_recorded_iff (name : String) (ty : Ty) (params : List (String × Ty))
    (l : List Sym) :
    body_recorded name ty params l ↔
      ∃ fs, find_symbol_loop name none l = some fs ∧ fs.type = some ty ∧
        fs.memb.map (fun q => (q.name, q.type)) = params.map (fun q => (q.1, some q.2)) ∧
        to_int32 fs.initval.intval = 1 := by
  unfold body_recorded
  cases h : find_symbol_loop name none l with
  | none => simp
  | some fs => simp

/-- An assignment to a field other than the name keeps the order of the
names, so `find_symbol` finds the same node. -/
theorem find_symbol_loop_update (name : String) (a : Nat) (f : Sym → Sym)
    (hn : ∀ s : Sym, (f s).name = s.name) :
    ∀ (l : List Sym) (fs : Sym), find_symbol_loop name none l = some fs →
      ∃ fs1, find_symbol_loop name none (update_sym a f l) = some fs1 ∧
        ((fs.addr = a ∧ fs1 = f fs) ∨
          (fs.addr ≠ a ∧ fs1.type = fs.type ∧ fs1.initval = fs.initval ∧
            fs1.memb = fs.memb.map (fun p => if p.addr = a then f p else p)))
  | [], fs, h => by simp [find_symbol_loop] at h
  | x :: l, fs, h => by
    by_cases hx : x.name = name
    · simp only [find_symbol_loop, hx, if_true, Option.some.injEq] at h
      subst h
      by_cases ha : x.addr = a
      · refine ⟨f x, ?_, Or.inl ⟨ha, rfl⟩⟩
        simp only [update_sym, ha, if_true, find_symbol_loop, hn, hx]
      · obtain ⟨n, sy, h0, t, v, c, m, ad⟩ := x
        refine ⟨Sym.mk n sy h0 t v c (m.map (fun p : Sym => if p.addr = a then f p else p)) ad, ?_,
          Or.inr ⟨ha, rfl, rfl, rfl⟩⟩
        simp only [update_sym, if_neg ha, find_symbol_loop]
        exact if_pos hx
    · simp only [find_symbol_loop, if_neg hx] at h
      have h1 : find_symbol_loop name none l = some fs := by simpa using h
      obtain ⟨fs1, e1, e2⟩ := find_symbol_loop_update name a f hn l fs h1
      refine ⟨fs1, ?_, e2⟩
      by_cases ha : x.addr = a
      · have hx1 : (f x).name ≠ name := by rw [hn]; exact hx
        simp only [update_sym, if_pos ha, find_symbol_loop, if_neg hx1]
        simpa using e1
      · obtain ⟨n, sy, h0, t, v, c, m, ad⟩ := x
        have hx1 : (Sym.mk n sy h0 t v c (m.map (fun p => if p.addr = a then f p else p))
            ad).name ≠ name := hx
        simp only [update_sym, if_neg ha, find_symbol_loop, if_neg hx1]
        simpa using e1

theorem map_sigs_update (a : Nat) (f : Sym → Sym) (hn : ∀ s : Sym, (f s).name = s.name)
    (ht : ∀ s : Sym, (f s).type = s.type) (m : List Sym) :
    (m.map (fun p => if p.addr = a then f p else p)).map (fun q => (q.name, q.type)) =
      m.map (fun q => (q.name, q.type)) := by
  rw [List.map_map]
  apply List.map_congr_left
  intro p _
  simp only [Function.comp]
  split_ifs
  · rw [hn, ht]
  · rfl

/-- An assignment that keeps the name, the type and the member list of a
symbol and leaves the has-body flag at 1 keeps the record of a body. -/
theorem body_recorded_update (name : String) (ty : Ty) (params : List (String × Ty))
    (a : Nat) (f : Sym → Sym) (hn : ∀ s : Sym, (f s).name = s.name)
    (ht : ∀ s : Sym, (f s).type = s.type) (hm : ∀ s : Sym, (f s).memb = s.memb)
    (hv : ∀ s : Sym, to_int32 s.initval.intval = 1 → to_int32 (f s).initval.intval = 1)
    (l : List Sym) (h : body_recorded name ty params l) :
    body_recorded name ty params (update_sym a f l) := by
  rw [body_recorded_iff] at h ⊢
  obtain ⟨fs, h1, h2, h3, h4⟩ := h
  obtain ⟨fs1, e1, e2⟩ := find_symbol_loop_update name a f hn l fs h1
  refine ⟨fs1, e1, ?_⟩
  rcases e2 with ⟨_, rfl⟩ | ⟨_, e3, e4, e5⟩
  · exact ⟨by rw [ht]; exact h2, by rw [hm]; exact h3, hv fs h4⟩
  · exact ⟨by rw [e3]; exact h2, by rw [e5, map_sigs_update a f hn ht]; exact h3,
      by rw [e4]; exact h4⟩

/-- An assignment to a symbol of another address keeps the record of a
body, when it keeps names and types. -/
theorem body_recorded_update_other (name : String) (ty : Ty) (params : List (String × Ty))
    (a : Nat) (f : Sym → Sym) (hn : ∀ s : Sym, (f s).name = s.name)
    (ht : ∀ s : Sym, (f s).type = s.type)
    (l : List Sym) (ha : ∀ s ∈ l, s.name = name → s.addr ≠ a)
    (h : body_recorded name ty params l) :
    body_recorded name ty params (update_sym a f l) := by
  rw [body_recorded_iff] at h ⊢
  obtain ⟨fs, h1, h2, h3, h4⟩ := h
  obtain ⟨fs1, e1, e2⟩ := find_symbol_loop_update name a f hn l fs h1
  obtain ⟨hmem, hname, _⟩ := find_symbol_loop_mem name l fs h1
  refine ⟨fs1, e1, ?_⟩
  rcases e2 with ⟨e, _⟩ | ⟨_, e3, e4, e5⟩
  · exact absurd e (ha fs hmem hname)
  · exact ⟨by rw [e3]; exact h2, by rw [e5, map_sigs_update a f hn ht]; exact h3,
      by rw [e4]; exact h4⟩

/-- The symbols of an updated list have the names and addresses of the
symbols of the list. -/
theorem update_sym_mem (a : Nat) (f : Sym → Sym) (hn : ∀ s : Sym, (f s).name = s.name)
    (had : ∀ s : Sym, (f s).addr = s.addr) :
    ∀ (l : List Sym), ∀ s1 ∈ update_sym a f l, ∃ s ∈ l, s1.name = s.name ∧ s1.addr = s.addr
  | [], s1, h => by simp [update_sym] at h
  | x :: l, s1, h => by
    simp only [update_sym, List.mem_cons] at h
    rcases h with h | h
    · refine ⟨x, List.mem_cons_self _ _, ?_⟩
      rw [h]
      split_ifs
      · exact ⟨hn x, had x⟩
      · obtain ⟨n, sy, h0, t, v, c, m, ad⟩ := x
        exact ⟨rfl, rfl⟩
    · obtain ⟨s, hs, e⟩ := update_sym_mem a f hn had l s1 h
      exact ⟨s, List.mem_cons_of_mem _ hs, e⟩

theorem update_sym_head_addr (a : Nat) (f : Sym → Sym) (had : ∀ s : Sym, (f s).addr = s.addr)
    (l : List Sym) : (update_sym a f l).head?.map Sym.addr = l.head?.map Sym.addr := by
  cases l with
  | nil => rfl
  | cons x l =>
    simp only [update_sym, List.head?_cons, Option.map_some', Option.some.injEq]
    split_ifs
    · exact had x
    · obtain ⟨n, sy, h0, t, v, c, m, ad⟩ := x
      rfl

theorem update_sym_cons (a : Nat) (f : Sym → Sym) (had : ∀ s : Sym, (f s).addr = s.addr)
    (x : Sym) (l : List Sym) :
    ∃ x1, update_sym a f (x :: l) = x1 :: update_sym a f l ∧ x1.addr = x.addr := by
  by_cases ha : x.addr = a
  · exact ⟨f x, by simp only [update_sym, if_pos ha], had x⟩
  · obtain ⟨n, sy, h0, t, v, c, m, ad⟩ := x
    exact ⟨Sym.mk n sy h0 t v c (m.map (fun p : Sym => if p.addr = a then f p else p)) ad,
      by simp only [update_sym, if_neg ha], rfl⟩

/-- The part of the list from a node on, after an assignment to a field, is
that part with the assignment made. -/
theorem list_from_update (p : Option Nat) (a : Nat) (f : Sym → Sym)
    (had : ∀ s : Sym, (f s).addr = s.addr) :
    ∀ l : List Sym, list_from p (update_sym a f l) = update_sym a f (list_from p l)
  | [] => rfl
  | x :: l => by
    obtain ⟨x1, e, e1⟩ := update_sym_cons a f had x l
    rw [e]
    simp only [list_from, e1]
    split_ifs
    · exact e.symm
    · exact list_from_update p a f had l

theorem body_recorded_append (name : String) (ty : Ty) (params : List (String × Ty))
    (x : Sym) : ∀ l : List Sym, body_recorded name ty params l →
      body_recorded name ty params (l ++ [x])
  | [], h => by simp [body_recorded, find_symbol_loop] at h
  | y :: l, h => by
    by_cases hy : y.name = name
    · simpa [body_recorded, find_symbol_loop, hy] using h
    · have h1 : body_recorded name ty params l := by
        simpa [body_recorded, find_symbol_loop, hy] using h
      have h2 := body_recorded_append name ty params x l h1
      simpa [body_recorded, find_symbol_loop, hy] using h2

theorem body_recorded_ne_nil (name : String) (ty : Ty) (params : List (String × Ty))
    (l : List Sym) (h : body_recorded name ty params l) : l ≠ [] := by
  intro e
  subst e
  simp [body_recorded, find_symbol_loop] at h

/-- A new symbol goes in front of the node `Globhead` points to. -/
theorem list_from_add_sym_append (a : Nat) (this : Sym) (ht : this.addr ≠ a) :
    ∀ l : List Sym, (∀ x ∈ l.head?, x.addr ≠ a) →
      list_from (some a) (add_sym_append (some a) this l) = list_from (some a) l
  | [], _ => by simp [add_sym_append, list_from, ht.symm]
  | [here], h => by
    have h1 : here.addr ≠ a := h here (by simp)
    simp [add_sym_append, list_from, ht.symm, h1.symm]
  | here :: nxt :: rest, h => by
    have h1 : here.addr ≠ a := h here (by simp)
    rw [add_sym_append]
    by_cases h2 : some a = some nxt.addr
    · rw [if_pos h2]
      simp only [Option.some.injEq] at h2
      subst h2
      simp only [list_from, Option.some.injEq, if_neg h1.symm, if_neg ht.symm, if_true]
    · rw [if_neg h2]
      have ih := list_from_add_sym_append a this ht (nxt :: rest)
        (fun x hx => by
          simp only [List.head?_cons, Option.mem_def, Option.some.injEq] at hx
          subst hx
          intro e
          exact h2 (by rw [e]))
      rw [list_from, if_neg (by simpa using h1.symm), ih]
      conv_rhs => rw [list_from, if_neg (by simpa using h1.symm)]

/-- The statics `add_sym_to` leaves as they are, and the next address. -/
theorem add_sym_to_frame (head : List Sym) (name : String) (symtype : Nat)
    (type : Option Ty) (st : Symtab) (r : Option Sym) (head1 : List Sym) (st1 : Symtab)
    (h : add_sym_to head name symtype type st = (r, head1, st1)) :
    st1.Symhead = st.Symhead ∧ st1.Globhead = st.Globhead ∧ st1.Curfunc = st.Curfunc ∧
      st.nextaddr ≤ st1.nextaddr ∧ (r ≠ none → st1.nextaddr = st.nextaddr + 1) ∧
      (r = none → head1 = head) := by
  unfold add_sym_to at h
  by_cases h1 : sym_name_in name head = true
  · rw [if_pos h1] at h
    simp only [Prod.mk.injEq] at h
    obtain ⟨rfl, rfl, rfl⟩ := h
    exact ⟨rfl, rfl, rfl, le_refl _, fun e => absurd rfl e, fun _ => rfl⟩
  · rw [if_neg h1] at h
    cases head with
    | nil =>
      simp only [Prod.mk.injEq] at h
      obtain ⟨rfl, rfl, rfl⟩ := h
      exact ⟨rfl, rfl, rfl, Nat.le_succ _, fun _ => rfl, fun e => by cases e⟩
    | cons first rest =>
      dsimp only at h
      by_cases h2 : st.Globhead = some first.addr
      · rw [if_pos h2] at h
        simp only [Prod.mk.injEq] at h
        obtain ⟨rfl, rfl, rfl⟩ := h
        exact ⟨rfl, rfl, rfl, Nat.le_succ _, fun _ => rfl, fun e => by cases e⟩
      · rw [if_neg h2] at h
        simp only [Prod.mk.injEq] at h
        obtain ⟨rfl, rfl, rfl⟩ := h
        exact ⟨rfl, rfl, rfl, Nat.le_succ _, fun _ => rfl, fun e => by cases e⟩

/-- Inside a function body `add_sym_to` leaves the global part of the list
as it is. -/
theorem add_sym_to_scope (head : List Sym) (name : String) (symtype : Nat)
    (type : Option Ty) (st : Symtab) (r : Option Sym) (head1 : List Sym) (st1 : Symtab)
    (a : Nat) (hG : st.Globhead = some a) (ha : a < st.nextaddr)
    (h : add_sym_to head name symtype type st = (r, head1, st1)) :
    list_from (some a) head1 = list_from (some a) head := by
  unfold add_sym_to at h
  by_cases h1 : sym_name_in name head = true
  · rw [if_pos h1] at h
    simp only [Prod.mk.injEq] at h
    rw [← h.2.1]
  · rw [if_neg h1] at h
    have hne : st.nextaddr ≠ a := by omega
    cases head with
    | nil =>
      simp only [Prod.mk.injEq] at h
      rw [← h.2.1]
      have hx : ¬ some a = some (Sym.mk name symtype false type ⟨0⟩ 0 [] st.nextaddr).addr := by
        simpa using hne.symm
      simp only [list_from, hx, if_false]
    | cons first rest =>
      dsimp only at h
      by_cases h2 : st.Globhead = some first.addr
      · rw [if_pos h2] at h
        simp only [Prod.mk.injEq] at h
        rw [← h.2.1]
        have hx : ¬ some a = some (Sym.mk name symtype false type ⟨0⟩ 0 [] st.nextaddr).addr := by
          simpa using hne.symm
        conv_lhs => rw [list_from, if_neg hx]
      · rw [if_neg h2] at h
        simp only [Prod.mk.injEq] at h
        rw [← h.2.1, hG]
        exact list_from_add_sym_append a
          (Sym.mk name symtype false type ⟨0⟩ 0 [] st.nextaddr) hne (first :: rest) (fun x hx => by
          simp only [List.head?_cons, Option.mem_def, Option.some.injEq] at hx
          subst hx
          intro e
          exact h2 (by rw [hG, e]))

theorem body_in_scope_iff (name : String) (ty : Ty) (params : List (String × Ty))
    (st : Symtab) :
    body_in_scope name ty params st ↔
      ∃ a, st.Globhead = some a ∧ a < st.nextaddr ∧
        (∀ s ∈ st.Symhead, s.addr < st.nextaddr) ∧
        body_recorded name ty params (list_from (some a) st.Symhead) := by
  unfold body_in_scope
  cases h : st.Globhead with
  | none => simp
  | some a => simp

/-- A local variable leaves the record of a body as it is. -/
theorem add_symbol_in_scope (name : String) (ty : Ty) (params : List (String × Ty))
    (lname : String) (symtype : Nat) (lty : Option Ty) (st st1 : Symtab) (sy : Sym)
    (hs : body_in_scope name ty params st)
    (h : add_symbol lname symtype lty st = Except.ok (sy, st1)) :
    body_in_scope name ty params st1 := by
  rw [body_in_scope_iff] at hs ⊢
  obtain ⟨a, hG, ha, hb, hr⟩ := hs
  unfold add_symbol at h
  rcases hh : add_sym_to st.Symhead lname symtype lty st with ⟨r, head1, st2⟩
  obtain ⟨hmem, hrr, _⟩ := add_sym_to_mem _ _ _ _ _ _ _ _ hh
  obtain ⟨_, f2, _, f4, f5, _⟩ := add_sym_to_frame _ _ _ _ _ _ _ _ hh
  have hl := add_sym_to_scope _ _ _ _ _ _ _ _ a hG ha hh
  rw [hh] at h
  rcases hrr with rfl | rfl
  · simp [fatal] at h
  · simp only [Except.ok.injEq, Prod.mk.injEq] at h
    obtain ⟨_, rfl⟩ := h
    have hn := f5 (by simp)
    refine ⟨a, by rw [← hG]; exact f2, by simp only; omega, ?_, by simp only; rw [hl]; exact hr⟩
    intro s hs
    rcases hmem s hs with e | e
    · rw [e]
      show st.nextaddr < st2.nextaddr
      omega
    · have := hb s e
      show s.addr < st2.nextaddr
      omega

theorem body_in_scope_update (name : String) (ty : Ty) (params : List (String × Ty))
    (a : Nat) (f : Sym → Sym) (hn : ∀ s : Sym, (f s).name = s.name)
    (had : ∀ s : Sym, (f s).addr = s.addr)
    (ht : ∀ s : Sym, (f s).type = s.type) (hm : ∀ s : Sym, (f s).memb = s.memb)
    (hv : ∀ s : Sym, to_int32 s.initval.intval = 1 → to_int32 (f s).initval.intval = 1)
    (st : Symtab) (hs : body_in_scope name ty params st) :
    body_in_scope name ty params { st with Symhead := update_sym a f st.Symhead } := by
  rw [body_in_scope_iff] at hs ⊢
  obtain ⟨g, hG, hg, hb, hr⟩ := hs
  refine ⟨g, hG, hg, ?_, ?_⟩
  · intro s hs
    obtain ⟨s0, hs0, _, e⟩ := update_sym_mem a f hn had st.Symhead s hs
    simp only
    rw [e]
    exact hb s0 hs0
  · simp only
    rw [list_from_update (some g) a f had]
    exact body_recorded_update name ty params a f hn ht hm hv _ hr

/-- The declaration of a local variable leaves the record of a body as it
is. -/
theorem declaration_statement_scope (name : String) (ty : Ty) (params : List (String × Ty))
    (d e : ASTnode) (st : Symtab) (this : ASTnode) (st1 : Symtab)
    (hs : body_in_scope name ty params st)
    (h : declaration_statement d e st = Except.ok (this, st1)) :
    body_in_scope name ty params st1 := by
  unfold declaration_statement at h
  obtain ⟨sty, _, h⟩ := bind_ok h
  obtain ⟨newnode, _, h⟩ := bind_ok h
  split_ifs at h with hnull
  · obtain ⟨_, _, h⟩ := bind_ok h
    obtain ⟨_, _, h⟩ := bind_ok h
    obtain ⟨_, _, h⟩ := bind_ok h
    cases h
  · obtain ⟨sname, _, h⟩ := bind_ok h
    cases sname with
    | none => cases h
    | some lname =>
      dsimp only at h
      obtain ⟨⟨sym, st2⟩, hadd, h⟩ := bind_ok h
      simp only [Except.ok.injEq, Prod.mk.injEq] at h
      obtain ⟨_, rfl⟩ := h
      have hs2 := add_symbol_in_scope name ty params lname ST_VARIABLE sty st st2 sym hs hadd
      exact body_in_scope_update name ty params sym.addr (Sym.set_has_addr true)
        (fun s => by cases s; rfl) (fun s => by cases s; rfl) (fun s => by cases s; rfl)
        (fun s => by cases s; rfl) (fun s hv => by cases s; exact hv) st2 hs2

/-! ### Statements that leave the symbol table as it is -/

theorem short_assign_stmt_syms (lc : Libc) (fuel : Nat) (c : Comp) (n : ASTnode) (c1 : Comp)
    (hs : syms_typed c.syms) (h : short_assign_stmt lc fuel c = Except.ok (n, c1)) :
    c1.syms = c.syms := by
  unfold short_assign_stmt at h
  obtain ⟨⟨v, c2⟩, h1, h⟩ := bind_ok h
  dsimp only at h
  obtain ⟨c3, h2, h⟩ := bind_ok h
  obtain ⟨⟨e, c4⟩, h3, h⟩ := bind_ok h
  dsimp only at h
  obtain ⟨a, h4, h⟩ := bind_ok h
  simp only [Except.ok.injEq, Prod.mk.injEq] at h
  obtain ⟨rfl, rfl⟩ := h
  obtain ⟨_, e1⟩ := variable_types_ok lc fuel c v c2 hs h1
  have e2 := match_tok_syms _ _ _ _ _ _ h2
  obtain ⟨_, e3⟩ := expression_types_ok lc fuel c3 e c4 (by rw [e2, e1]; exact hs) h3
  rw [e3, e2, e1]

theorem assign_stmt_syms (lc : Libc) (fuel : Nat) (c : Comp) (n : ASTnode) (c1 : Comp)
    (hs : syms_typed c.syms) (h : assign_stmt lc fuel c = Except.ok (n, c1)) :
    c1.syms = c.syms := by
  unfold assign_stmt at h
  obtain ⟨⟨a, c2⟩, h1, h⟩ := bind_ok h
  dsimp only at h
  obtain ⟨c3, h2, h⟩ := bind_ok h
  simp only [Except.ok.injEq, Prod.mk.injEq] at h
  obtain ⟨rfl, rfl⟩ := h
  rw [match_tok_syms _ _ _ _ _ _ h2, short_assign_stmt_syms lc fuel c a c2 hs h1]

theorem function_call_syms (lc : Libc) (fuel : Nat) (c : Comp) (n : ASTnode) (c1 : Comp)
    (hs : syms_typed c.syms) (h : function_call lc fuel c = Except.ok (n, c1)) :
    c1.syms = c.syms := by
  unfold function_call at h
  dsimp only at h
  obtain ⟨c2, h1, h⟩ := bind_ok h
  obtain ⟨c3, h2, h⟩ := bind_ok h
  obtain ⟨⟨e, c4⟩, h3, h⟩ := bind_ite_ok h
  dsimp only at h
  obtain ⟨c5, h4, h⟩ := bind_ok h
  obtain ⟨c6, h5, h⟩ := bind_ok h
  simp only [Except.ok.injEq, Prod.mk.injEq] at h
  obtain ⟨rfl, rfl⟩ := h
  have e1 := scan_this_syms _ _ _ _ h1
  have e2 := match_tok_syms _ _ _ _ _ _ h2
  have e4 := match_tok_syms _ _ _ _ _ _ h4
  have e5 := match_tok_syms _ _ _ _ _ _ h5
  have he : c4.syms = c3.syms := by
    split_ifs at h3
    · exact (expression_list_types_ok lc fuel fuel c3 e c4 (by rw [e2, e1]; exact hs) h3).2
    · simp only [Except.ok.injEq, Prod.mk.injEq] at h3
      obtain ⟨rfl, rfl⟩ := h3
      rfl
  rw [e5, e4, he, e2, e1]

/-! ### Statements that hold statement blocks -/

theorem if_stmt_scope (P : Symtab → Prop) (lc : Libc) (fuel : Nat)
    (sb : Comp → Res (ASTnode × Comp)) (hsb : stmt_parser_ok sb)
    (hsc : scope_parser_ok P sb) : scope_parser_ok P (if_stmt lc fuel sb) := by
  intro c n c1 hs hp h
  unfold if_stmt at h
  obtain ⟨c2, h1, h⟩ := bind_ok h
  obtain ⟨c3, h2, h⟩ := bind_ok h
  obtain ⟨⟨e, c4⟩, h3, h⟩ := bind_ok h
  dsimp only at h
  obtain ⟨c5, h4, h⟩ := bind_ok h
  obtain ⟨⟨t, c6⟩, h5, h⟩ := bind_ok h
  dsimp only at h
  have e1 := scan_this_syms _ _ _ _ h1
  have e2 := match_tok_syms _ _ _ _ _ _ h2
  obtain ⟨_, e3⟩ := relational_expression_types_ok lc fuel c3 e c4
    (by rw [e2, e1]; exact hs) h3
  have e4 := match_tok_syms _ _ _ _ _ _ h4
  have e5 : c5.syms = c.syms := by rw [e4, e3, e2, e1]
  obtain ⟨_, hs6⟩ := hsb c5 t c6 (by rw [e5]; exact hs) h5
  have hp6 := hsc c5 t c6 (by rw [e5]; exact hs) (by rw [e5]; exact hp) h5
  by_cases helse : c6.lex.Thistoken.token = T_ELSE
  · rw [if_pos helse] at h
    obtain ⟨c7, h6, h⟩ := bind_ok h
    obtain ⟨⟨f, c8⟩, h7, h⟩ := bind_ok h
    simp only [Except.ok.injEq, Prod.mk.injEq] at h
    obtain ⟨rfl, rfl⟩ := h
    have e7 := scan_this_syms _ _ _ _ h6
    exact hsc c7 f c8 (by rw [e7]; exact hs6) (by rw [e7]; exact hp6) h7
  · rw [if_neg helse] at h
    obtain ⟨⟨f, c8⟩, h7, h⟩ := bind_ok h
    simp only [Except.ok.injEq, Prod.mk.injEq] at h7 h
    obtain ⟨rfl, rfl⟩ := h7
    obtain ⟨rfl, rfl⟩ := h
    exact hp6

theorem while_stmt_scope (P : Symtab → Prop) (lc : Libc) (fuel : Nat)
    (sb : Comp → Res (ASTnode × Comp))
    (hsc : scope_parser_ok P sb) : scope_parser_ok P (while_stmt lc fuel sb) := by
  intro c n c1 hs hp h
  unfold while_stmt at h
  obtain ⟨c2, h1, h⟩ := bind_ok h
  obtain ⟨c3, h2, h⟩ := bind_ok h
  obtain ⟨⟨e, c4⟩, h3, h⟩ := bind_ok h
  dsimp only at h
  obtain ⟨c5, h4, h⟩ := bind_ok h
  obtain ⟨⟨t, c6⟩, h5, h⟩ := bind_ok h
  simp only [Except.ok.injEq, Prod.mk.injEq] at h
  obtain ⟨rfl, rfl⟩ := h
  have e1 := scan_this_syms _ _ _ _ h1
  have e2 := match_tok_syms _ _ _ _ _ _ h2
  obtain ⟨_, e3⟩ := relational_expression_types_ok lc fuel c3 e c4
    (by rw [e2, e1]; exact hs) h3
  have e4 := match_tok_syms _ _ _ _ _ _ h4
  have e5 : c5.syms = c.syms := by rw [e4, e3, e2, e1]
  exact hsc c5 t c6 (by rw [e5]; exact hs) (by rw [e5]; exact hp) h5

theorem for_stmt_scope (P : Symtab → Prop) (lc : Libc) (fuel : Nat)
    (sb : Comp → Res (ASTnode × Comp))
    (hsc : scope_parser_ok P sb) : scope_parser_ok P (for_stmt lc fuel sb) := by
  intro c n c1 hs hp h
  obtain ⟨c2, c3, i, c4, e, c5, c6, send, c7, c8, s, h1, h2, h3, h4, h5, h6, h7, h8, rfl⟩ :=
    (for_stmt_shape lc fuel sb c n c1).1 h
  have e1 := scan_this_syms _ _ _ _ h1
  have e2 := match_tok_syms _ _ _ _ _ _ h2
  have hs3 : syms_typed c3.syms := by rw [e2, e1]; exact hs
  have e3 := assign_stmt_syms lc fuel c3 i c4 hs3 h3
  have hs4 : syms_typed c4.syms := by rw [e3]; exact hs3
  obtain ⟨_, e4⟩ := relational_expression_types_ok lc fuel c4 e c5 hs4 h4
  have e5 := match_tok_syms _ _ _ _ _ _ h5
  have hs6 : syms_typed c6.syms := by rw [e5, e4]; exact hs4
  have e6 := short_assign_stmt_syms lc fuel c6 send c7 hs6 h6
  have e7 := match_tok_syms _ _ _ _ _ _ h7
  have e8 : c8.syms = c.syms := by rw [e7, e6, e5, e4, e3, e2, e1]
  exact hsc c8 s c1 (by rw [e8]; exact hs) (by rw [e8]; exact hp) h8

theorem procedural_stmt_scope (P : Symtab → Prop) (lc : Libc) (fuel : Nat)
    (sb : Comp → Res (ASTnode × Comp)) (hsb : stmt_parser_ok sb)
    (hsc : scope_parser_ok P sb) : scope_parser_ok P (procedural_stmt lc fuel sb) := by
  intro c n c1 hs hp h
  unfold procedural_stmt at h
  dsimp only at h
  rcases ite_ok_cases h with h | h
  · simp only [Except.ok.injEq, Prod.mk.injEq] at h
    obtain ⟨rfl, rfl⟩ := h
    exact hp
  rcases ite_ok_cases h with h | h
  · obtain ⟨c2, h1, h⟩ := bind_ok h
    obtain ⟨c3, h2, h⟩ := bind_ok h
    obtain ⟨c4, h3, h⟩ := bind_ok h
    obtain ⟨c5, h4, h⟩ := bind_ok h
    obtain ⟨c6, h5, h⟩ := bind_ok h
    obtain ⟨⟨right, c7⟩, h6, h⟩ := bind_ok h
    dsimp only at h
    obtain ⟨c8, h7, h⟩ := bind_ok h
    obtain ⟨c9, h8, h⟩ := bind_ok h
    obtain ⟨p, h9, h⟩ := bind_ok h
    simp only [Except.ok.injEq, Prod.mk.injEq] at h
    obtain ⟨rfl, rfl⟩ := h
    have e1 := scan_this_syms _ _ _ _ h1
    have e2 := match_tok_syms _ _ _ _ _ _ h2
    have e3 := match_tok_syms _ _ _ _ _ _ h3
    have e4 := scan_this_syms _ _ _ _ h4
    have e5 := match_tok_syms _ _ _ _ _ _ h5
    obtain ⟨_, e6⟩ := expression_types_ok lc fuel c6 right c7
      (by rw [e5, e4, e3, e2, e1]; exact hs) h6
    have e7 := match_tok_syms _ _ _ _ _ _ h7
    have e8 := match_tok_syms _ _ _ _ _ _ h8
    rw [e8, e7, e6, e5, e4, e3, e2, e1]
    exact hp
  rcases ite_ok_cases h with h | h
  · exact if_stmt_scope P lc fuel sb hsb hsc c n c1 hs hp h
  rcases ite_ok_cases h with h | h
  · exact while_stmt_scope P lc fuel sb hsc c n c1 hs hp h
  rcases ite_ok_cases h with h | h
  · exact for_stmt_scope P lc fuel sb hsc c n c1 hs hp h
  rcases ite_ok_cases h with h | h
  · obtain ⟨c2, h1, h⟩ := bind_ok h
    have e1 := scan_peek_syms _ _ _ _ h1
    rcases ite_ok_cases h with h | h
    · rw [assign_stmt_syms lc fuel c2 n c1 (by rw [e1]; exact hs) h, e1]
      exact hp
    rcases ite_ok_cases h with h | h
    · rw [function_call_syms lc fuel c2 n c1 (by rw [e1]; exact hs) h, e1]
      exact hp
    · obtain ⟨_, _, h⟩ := bind_ok h
      cases h
  · simp only [Except.ok.injEq, Prod.mk.injEq] at h
    obtain ⟨rfl, rfl⟩ := h
    exact hp

theorem procedural_stmts_loop_scope (P : Symtab → Prop) (lc : Libc) (fuel : Nat)
    (sb : Comp → Res (ASTnode × Comp)) (hsb : stmt_parser_ok sb)
    (hsc : scope_parser_ok P sb) :
    ∀ (k : Nat) (left : ASTnode) (c : Comp) (n : ASTnode) (c1 : Comp),
      syms_typed c.syms → P c.syms →
      procedural_stmts_loop lc fuel sb k left c = Except.ok (n, c1) → P c1.syms := by
  intro k
  induction k with
  | zero =>
    intro left c n c1 hs hp h
    unfold procedural_stmts_loop at h
    obtain ⟨⟨right, c2⟩, h1, h⟩ := bind_ok h
    dsimp only at h
    have hp2 := procedural_stmt_scope P lc fuel sb hsb hsc c right c2 hs hp h1
    split_ifs at h
    simp only [Except.ok.injEq, Prod.mk.injEq] at h
    obtain ⟨rfl, rfl⟩ := h
    exact hp2
  | succ k ih =>
    intro left c n c1 hs hp h
    unfold procedural_stmts_loop at h
    obtain ⟨⟨right, c2⟩, h1, h⟩ := bind_ok h
    dsimp only at h
    obtain ⟨_, hs2⟩ := procedural_stmt_types_ok lc fuel sb hsb c right c2 hs h1
    have hp2 := procedural_stmt_scope P lc fuel sb hsb hsc c right c2 hs hp h1
    by_cases hnull : right.isNULL = true
    · rw [if_pos hnull] at h
      simp only [Except.ok.injEq, Prod.mk.injEq] at h
      obtain ⟨rfl, rfl⟩ := h
      exact hp2
    · rw [if_neg hnull] at h
      exact ih _ c2 n c1 hs2 hp2 h

theorem declaration_stmts_scope (P : Symtab → Prop)
    (hP : ∀ (d e : ASTnode) (st : Symtab) (this : ASTnode) (st1 : Symtab), P st →
      declaration_statement d e st = Except.ok (this, st1) → P st1)
    (lc : Libc) (fuel : Nat) :
    ∀ (k : Nat) (c : Comp) (n : ASTnode) (c1 : Comp), syms_typed c.syms → P c.syms →
      declaration_stmts lc fuel k c = Except.ok (n, c1) → P c1.syms := by
  intro k
  induction k with
  | zero =>
    intro c n c1 hs hp h
    unfold declaration_stmts at h
    obtain ⟨⟨d, c2⟩, h1, h⟩ := bind_ok h
    dsimp only at h
    obtain ⟨c3, h2, h⟩ := bind_ok h
    obtain ⟨⟨e, c4⟩, h3, h⟩ := bind_ok h
    dsimp only at h
    obtain ⟨c5, h4, h⟩ := bind_ok h
    obtain ⟨⟨this, st⟩, h5, h⟩ := bind_ok h
    dsimp only at h
    obtain ⟨_, e1⟩ := typed_declaration_shape lc fuel c d c2 h1
    have e2 := match_tok_syms _ _ _ _ _ _ h2
    obtain ⟨_, e3⟩ := expression_types_ok lc fuel c3 e c4 (by rw [e2, e1]; exact hs) h3
    have e4 := match_tok_syms _ _ _ _ _ _ h4
    have hst := hP d e c5.syms this st (by rw [e4, e3, e2, e1]; exact hp) h5
    split_ifs at h
    simp only [Except.ok.injEq, Prod.mk.injEq] at h
    obtain ⟨rfl, rfl⟩ := h
    exact hst
  | succ k ih =>
    intro c n c1 hs hp h
    unfold declaration_stmts at h
    obtain ⟨⟨d, c2⟩, h1, h⟩ := bind_ok h
    dsimp only at h
    obtain ⟨c3, h2, h⟩ := bind_ok h
    obtain ⟨⟨e, c4⟩, h3, h⟩ := bind_ok h
    dsimp only at h
    obtain ⟨c5, h4, h⟩ := bind_ok h
    obtain ⟨⟨this, st⟩, h5, h⟩ := bind_ok h
    dsimp only at h
    obtain ⟨⟨t, lv, s, hd⟩, e1⟩ := typed_declaration_shape lc fuel c d c2 h1
    have e2 := match_tok_syms _ _ _ _ _ _ h2
    obtain ⟨he, e3⟩ := expression_types_ok lc fuel c3 e c4 (by rw [e2, e1]; exact hs) h3
    have e4 := match_tok_syms _ _ _ _ _ _ h4
    have hst := hP d e c5.syms this st (by rw [e4, e3, e2, e1]; exact hp) h5
    obtain ⟨_, hst2⟩ := declaration_statement_types_ok d e c5.syms this st
      t lv s hd he (by rw [e4, e3, e2, e1]; exact hs) h5
    split_ifs at h
    · obtain ⟨⟨m, c6⟩, h6, h⟩ := bind_ok h
      simp only [Except.ok.injEq, Prod.mk.injEq] at h
      obtain ⟨rfl, rfl⟩ := h
      exact ih _ m c6 hst2 hst h6
    · simp only [Except.ok.injEq, Prod.mk.injEq] at h
      obtain ⟨rfl, rfl⟩ := h
      exact hst

/-- A statement block keeps every property of the symbol table that the
declaration of a local variable keeps. -/
theorem statement_block_scope (P : Symtab → Prop)
    (hP : ∀ (d e : ASTnode) (st : Symtab) (this : ASTnode) (st1 : Symtab), P st →
      declaration_statement d e st = Except.ok (this, st1) → P st1)
    (lc : Libc) : ∀ fuel : Nat, scope_parser_ok P (statement_block lc fuel) := by
  intro fuel
  induction fuel with
  | zero =>
    intro c n c1 hs hp h
    simp [statement_block] at h
  | succ fuel ih =>
    intro c n c1 hs hp h
    unfold statement_block at h
    obtain ⟨c2, h1, h⟩ := bind_ok h
    have e1 := match_tok_syms _ _ _ _ _ _ h1
    have hs2 : syms_typed c2.syms := by rw [e1]; exact hs
    have hp2 : P c2.syms := by rw [e1]; exact hp
    rcases ite_ok_cases h with h | h
    · simp only [Except.ok.injEq, Prod.mk.injEq] at h
      obtain ⟨rfl, rfl⟩ := h
      exact hp2
    · obtain ⟨⟨d, c3⟩, h2, h⟩ := bind_ite_ok h
      dsimp only at h
      obtain ⟨⟨s, c4⟩, h3, h⟩ := bind_ok h
      dsimp only at h
      obtain ⟨c5, h4, h⟩ := bind_ok h
      simp only [Except.ok.injEq, Prod.mk.injEq] at h
      obtain ⟨rfl, rfl⟩ := h
      have hd : syms_typed c3.syms ∧ P c3.syms := by
        split_ifs at h2
        · exact ⟨(declaration_stmts_types_ok lc fuel fuel c2 d c3 hs2 h2).2,
            declaration_stmts_scope P hP lc fuel fuel c2 d c3 hs2 hp2 h2⟩
        · simp only [Except.ok.injEq, Prod.mk.injEq] at h2
          obtain ⟨rfl, rfl⟩ := h2
          exact ⟨hs2, hp2⟩
      have hp4 := procedural_stmts_loop_scope P lc fuel (statement_block lc fuel)
        (statement_block_types_ok lc fuel) ih fuel ASTnode.NULL c3 s c4 hd.1 hd.2 h3
      rw [match_tok_syms _ _ _ _ _ _ h4]
      exact hp4

/-! ### Later declarations keep the record of a body -/

theorem declared_with_body_update (name : String) (ty : Ty) (params : List (String × Ty))
    (a : Nat) (f : Sym → Sym) (hn : ∀ s : Sym, (f s).name = s.name)
    (had : ∀ s : Sym, (f s).addr = s.addr)
    (ht : ∀ s : Sym, (f s).type = s.type) (hm : ∀ s : Sym, (f s).memb = s.memb)
    (hv : ∀ s : Sym, to_int32 s.initval.intval = 1 → to_int32 (f s).initval.intval = 1)
    (st : Symtab) (hs : declared_with_body name ty params st) :
    declared_with_body name ty params { st with Symhead := update_sym a f st.Symhead } := by
  obtain ⟨hG, hC, hb, hr⟩ := hs
  refine ⟨hG, hC, ?_, body_recorded_update name ty params a f hn ht hm hv _ hr⟩
  intro s hs
  obtain ⟨s0, hs0, _, e⟩ := update_sym_mem a f hn had st.Symhead s hs
  show s.addr < st.nextaddr
  rw [e]
  exact hb s0 hs0

theorem add_params_keeps (name : String) (ty : Ty) (params : List (String × Ty))
    (fa : Nat) : ∀ (plist : ASTnode) (cnt : Int) (st : Symtab) (cnt1 : Int) (st1 : Symtab),
    declared_with_body name ty params st →
    (∀ s ∈ st.Symhead, s.name = name → s.addr ≠ fa) →
    add_params fa plist cnt st = Except.ok (cnt1, st1) →
    declared_with_body name ty params st1 ∧ ∀ s ∈ st1.Symhead, s.name = name → s.addr ≠ fa
  | .NULL, cnt, st, cnt1, st1, hs, ha, h => by
    simp only [add_params, Except.ok.injEq, Prod.mk.injEq] at h
    rw [← h.2]
    exact ⟨hs, ha⟩
  | .node op ptype rv l pmid r sym v pstrlit, cnt, st, cnt1, st1, hs, ha, h => by
    unfold add_params at h
    cases pstrlit with
    | none => simp at h
    | some pname =>
      cases hfa : sym_at fa st.Symhead with
      | none => simp [hfa] at h
      | some funcptr =>
        simp only [hfa] at h
        rcases hadd : add_sym_to funcptr.memb pname ST_VARIABLE ptype st with ⟨r1, memb, st2⟩
        obtain ⟨_, hr, _⟩ := add_sym_to_mem _ _ _ _ _ _ _ _ hadd
        obtain ⟨f1, f2, f3, f4, _, _⟩ := add_sym_to_frame _ _ _ _ _ _ _ _ hadd
        rw [hadd] at h
        rcases hr with rfl | rfl
        · simp at h
        · dsimp only at h
          obtain ⟨hG, hC, hb, hrec⟩ := hs
          have hn : ∀ s : Sym, (Sym.set_memb (memb.map (fun p =>
              if p.addr = (Sym.mk pname ST_VARIABLE false ptype ⟨0⟩ 0 [] st.nextaddr).addr
              then p.set_has_addr false else p)) s).name = s.name := fun s => by cases s; rfl
          have had : ∀ s : Sym, (Sym.set_memb (memb.map (fun p =>
              if p.addr = (Sym.mk pname ST_VARIABLE false ptype ⟨0⟩ 0 [] st.nextaddr).addr
              then p.set_has_addr false else p)) s).addr = s.addr := fun s => by cases s; rfl
          have hty : ∀ s : Sym, (Sym.set_memb (memb.map (fun p =>
              if p.addr = (Sym.mk pname ST_VARIABLE false ptype ⟨0⟩ 0 [] st.nextaddr).addr
              then p.set_has_addr false else p)) s).type = s.type := fun s => by cases s; rfl
          refine add_params_keeps name ty params fa pmid _ _ cnt1 st1 ?_ ?_ h
          · refine ⟨by rw [← hG]; exact f2, by rw [← hC]; exact f3, ?_, ?_⟩
            · intro s hs
              obtain ⟨s0, hs0, _, e⟩ := update_sym_mem fa _ hn had st2.Symhead s hs
              rw [f1] at hs0
              have := hb s0 hs0
              show s.addr < st2.nextaddr
              omega
            · show body_recorded name ty params (update_sym fa _ st2.Symhead)
              rw [f1]
              exact body_recorded_update_other name ty params fa _ hn hty _ ha hrec
          · intro s hs hname
            obtain ⟨s0, hs0, e1, e2⟩ := update_sym_mem fa _ hn had st2.Symhead s hs
            rw [f1] at hs0
            rw [e2]
            exact ha s0 hs0 (by rw [← e1]; exact hname)

/-- A call of `add_function`, outside any function body, keeps the record of
a body. -/
theorem add_function_keeps (name : String) (ty : Ty) (params : List (String × Ty))
    (func plist : ASTnode) (st : Symtab) (r : Int) (st1 : Symtab)
    (hs : declared_with_body name ty params st)
    (h : add_function func plist st = Except.ok (r, st1)) :
    declared_with_body name ty params st1 := by
  unfold add_function at h
  obtain ⟨fstr, _, h⟩ := bind_ok h
  obtain ⟨ftype, _, h⟩ := bind_ok h
  cases fstr with
  | none => cases h
  | some fname =>
    dsimp only at h
    obtain ⟨hG, hC, hb, hrec⟩ := hs
    by_cases hin : sym_name_in fname st.Symhead = true
    · simp only [add_sym_to, hin, if_true] at h
      cases hf : find_symbol (some fname) st with
      | none => simp [hf] at h
      | some funcptr =>
        simp only [hf] at h
        split_ifs at h
        · split at h <;> cases h
        · obtain ⟨_, _, h⟩ := bind_ok h
          simp only [Except.ok.injEq, Prod.mk.injEq] at h
          rw [← h.2]
          exact ⟨hG, hC, hb, hrec⟩
    · have hin1 : sym_name_in fname st.Symhead = false := by
        cases hh : sym_name_in fname st.Symhead
        · rfl
        · exact absurd hh hin
      rw [add_sym_to_top st.Symhead fname ST_FUNCTION ftype st hG hin1] at h
      dsimp only at h
      obtain ⟨⟨paramcnt, st2⟩, hp, h⟩ := bind_ok h
      simp only [Except.ok.injEq, Prod.mk.injEq] at h
      rw [← h.2]
      have hne : fname ≠ name := by
        intro e
        rw [body_recorded_iff] at hrec
        obtain ⟨fs, hfs, _⟩ := hrec
        have := (find_symbol_loop_mem name _ fs hfs).2.2
        rw [e] at hin
        exact hin this
      have key := fun a b =>
        add_params_keeps name ty params st.nextaddr plist 0 _ paramcnt st2 a b hp
      obtain ⟨hs2, _⟩ := key
        ⟨hG, hC, by
          intro s hs
          simp only [List.mem_append, List.mem_singleton] at hs
          show s.addr < st.nextaddr + 1
          rcases hs with hs | hs
          · have := hb s hs
            omega
          · rw [hs]
            exact Nat.lt_succ_self _,
          body_recorded_append name ty params _ _ hrec⟩
        (by
          intro s hs hname
          simp only [List.mem_append, List.mem_singleton] at hs
          rcases hs with hs | hs
          · have := hb s hs
            show s.addr ≠ st.nextaddr
            omega
          · rw [hs] at hname
            exact absurd hname hne)
      exact declared_with_body_update name ty params _ (Sym.set_count paramcnt)
        (fun s => by cases s; rfl) (fun s => by cases s; rfl) (fun s => by cases s; rfl)
        (fun s => by cases s; rfl) (fun s hv => by cases s; exact hv) st2 hs2

/-- The table `declare_function` hands to the parse of a body keeps the
record of a body in its global part. -/
theorem declare_function_scope (name : String) (ty : Ty) (params : List (String × Ty))
    (func : ASTnode) (c c1 : Comp) (hs : declared_with_body name ty params c.syms)
    (h : declare_function func c = Except.ok c1) :
    body_in_scope name ty params c1.syms := by
  unfold declare_function at h
  obtain ⟨fleft, _, h⟩ := bind_ok h
  obtain ⟨⟨r, st⟩, hadd, h⟩ := bind_ok h
  dsimp only at h
  obtain ⟨fname, _, h⟩ := bind_ok h
  have hst := add_function_keeps name ty params func fleft c.syms r st hs hadd
  split_ifs at h
  · cases h
  · cases hfind : find_symbol fname st with
    | none => simp [hfind] at h
    | some this0 =>
      simp only [hfind] at h
      obtain ⟨g, _, h⟩ := bind_ok h
      injection h with h
      subst h
      have hu := declared_with_body_update name ty params this0.addr
        (Sym.set_initval (Litval.of_int 1))
        (fun s => by cases s; rfl) (fun s => by cases s; rfl) (fun s => by cases s; rfl)
        (fun s => by cases s; rfl) (fun s _ => by cases s; exact flag_one) st hst
      obtain ⟨_, _, hb, hrec⟩ := hu
      simp only at hb hrec
      rw [body_in_scope_iff]
      cases hl : update_sym this0.addr (Sym.set_initval (Litval.of_int 1)) st.Symhead with
      | nil => exact absurd hl (body_recorded_ne_nil name ty params _ hrec)
      | cons x l =>
        rw [hl] at hb hrec
        refine ⟨x.addr, ?_, hb x (List.mem_cons_self _ _), ?_, ?_⟩
        · simp only [new_scope, hl, List.head?_cons, Option.map_some']
        · simp only [new_scope, hl]
          exact hb
        · simp only [new_scope, hl, list_from, if_true]
          exact hrec

/-- At the end of a function body the table records the body as before. -/
theorem gen_func_statement_block_top (name : String) (ty : Ty)
    (params : List (String × Ty)) (lc : Libc) (fuel : Nat) (s : ASTnode) (c c1 : Comp)
    (hs : body_in_scope name ty params c.syms)
    (h : gen_func_statement_block lc fuel s c = Except.ok c1) :
    declared_with_body name ty params c1.syms := by
  unfold gen_func_statement_block at h
  obtain ⟨⟨_, g⟩, _, h⟩ := bind_ok h
  injection h with h
  subst h
  rw [body_in_scope_iff] at hs
  obtain ⟨a, hG, _, hb, hrec⟩ := hs
  refine ⟨rfl, rfl, ?_, ?_⟩
  · intro x hx
    exact hb x (list_from_mem _ x _ hx)
  · simp only [end_scope, hG]
    exact hrec

/-- A function declaration, with or without a body, keeps the record of a
body. -/
theorem function_declaration_keeps (name : String) (ty : Ty) (params : List (String × Ty))
    (lc : Libc) (fuel : Nat) (c c1 : Comp) (hs : syms_typed c.syms)
    (hd : declared_with_body name ty params c.syms)
    (h : function_declaration lc fuel c = Except.ok c1) :
    declared_with_body name ty params c1.syms := by
  unfold function_declaration at h
  obtain ⟨⟨func, c2⟩, h1, h⟩ := bind_ok h
  dsimp only at h
  obtain ⟨⟨t, plist, v, s, hp, hf⟩, e1⟩ := function_prototype_typed lc fuel c func c2 h1
  have hs2 : syms_typed c2.syms := by rw [e1]; exact hs
  have hd2 : declared_with_body name ty params c2.syms := by rw [e1]; exact hd
  rcases ite_ok_cases h with h | h
  · obtain ⟨fleft, _, h⟩ := bind_ok h
    obtain ⟨⟨r, st⟩, hadd, h⟩ := bind_ok h
    dsimp only at h
    rw [scan_this_syms _ _ _ _ h]
    exact add_function_keeps name ty params func fleft c2.syms r st hd2 hadd
  · obtain ⟨c3, h2, h⟩ := bind_ok h
    obtain ⟨⟨body, c4⟩, h3, h⟩ := bind_ok h
    dsimp only at h
    have hs3 := declare_function_typed func c2 c3 t plist v s hp hf hs2 h2
    have hd3 := declare_function_scope name ty params func c2 c3 hd2 h2
    have hd4 := statement_block_scope (body_in_scope name ty params)
      (declaration_statement_scope name ty params) lc fuel c3 body c4 hs3 hd3 h3
    exact gen_func_statement_block_top name ty params lc fuel body c4 c1 hd4 h

theorem function_declarations_keeps (name : String) (ty : Ty) (params : List (String × Ty))
    (lc : Libc) (fuel : Nat) : ∀ (k : Nat) (c c1 : Comp), syms_typed c.syms →
      declared_with_body name ty params c.syms →
      function_declarations lc fuel k c = Except.ok c1 →
      syms_typed c1.syms ∧ declared_with_body name ty params c1.syms := by
  intro k
  induction k with
  | zero =>
    intro c c1 hs hd h
    unfold function_declarations at h
    split_ifs at h
    · injection h with h
      subst h
      exact ⟨hs, hd⟩
  | succ k ih =>
    intro c c1 hs hd h
    unfold function_declarations at h
    split_ifs at h
    · obtain ⟨c2, h1, h⟩ := bind_ok h
      exact ih c2 c1 (function_declaration_typed lc fuel c c2 hs h1)
        (function_declaration_keeps name ty params lc fuel c c2 hs hd h1) h
    · injection h with h
      subst h
      exact ⟨hs, hd⟩

/-! ### A recorded body: prototypes are accepted, bodies are fatal -/

theorem param_sigs_params_ast : ∀ params : List (String × Ty),
    param_sigs (params_ast params) = params.map (fun q => (some q.1, some q.2))
  | [] => rfl
  | (n, t) :: ps => by
    rw [params_ast_cons]
    simp only [param_sigs, List.map_cons, param_sigs_params_ast ps]

theorem check_params_sigs (fname : String) :
    ∀ (memb : List Sym) (plist : ASTnode),
      memb.map (fun q => (some q.name, q.type)) = param_sigs plist →
      check_params fname memb plist = Except.ok ()
  | [], .NULL, _ => rfl
  | [], .node _ _ _ _ _ _ _ _ _, h => by simp [param_sigs] at h
  | _ :: _, .NULL, h => by simp [param_sigs] at h
  | this :: rest, .node _ ptype _ _ pmid _ _ _ pstrlit, h => by
    simp only [List.map_cons, param_sigs, List.cons.injEq, Prod.mk.injEq] at h
    obtain ⟨⟨h1, h2⟩, h3⟩ := h
    subst h1
    simp only [check_params, h2, ne_eq, not_true_eq_false, if_false]
    exact check_params_sigs fname rest pmid h3

/-- On a table that records the body, a declaration of the same prototype
returns the has-body flag 1 and leaves the table as it is. -/
theorem add_function_recorded (name : String) (ty : Ty) (params : List (String × Ty))
    (func plist : ASTnode) (st : Symtab) (hs : declared_with_body name ty params st)
    (hstr : func.strlit = Except.ok (some name)) (htype : func.type = Except.ok (some ty))
    (hsig : param_sigs plist = params.map (fun q => (some q.1, some q.2))) :
    add_function func plist st = Except.ok (1, st) := by
  obtain ⟨hG, hC, _, hrec⟩ := hs
  rw [body_recorded_iff] at hrec
  obtain ⟨fs, hfs, h1, h2, h3⟩ := hrec
  have hin : sym_name_in name st.Symhead = true := (find_symbol_loop_mem name _ fs hfs).2.2
  have hfind : find_symbol (some name) st = some fs := by
    simp only [find_symbol, hC]
    exact hfs
  have hmemb : fs.memb.map (fun q => (some q.name, q.type)) = param_sigs plist := by
    rw [hsig]
    have h4 := congrArg (List.map (fun r : String × Option Ty => (some r.1, r.2))) h2
    simpa [List.map_map, Function.comp_def] using h4
  simp only [add_function, hstr, htype, bind, Except.bind, add_sym_to, hin, if_true, hfind]
  rw [if_neg (by simp [h1]), check_params_sigs name fs.memb plist hmemb, h3]

/-- On a table that records the body, a declaration of the same prototype
with a body is fatal. -/
theorem declare_function_recorded (name : String) (ty : Ty) (params : List (String × Ty))
    (func plist : ASTnode) (c : Comp) (hs : declared_with_body name ty params c.syms)
    (hstr : func.strlit = Except.ok (some name)) (htype : func.type = Except.ok (some ty))
    (hleft : func.left = Except.ok plist)
    (hsig : param_sigs plist = params.map (fun q => (some q.1, some q.2))) :
    declare_function func c = fatal ("multiple declarations for " ++ name ++ "()\n") := by
  have hadd := add_function_recorded name ty params func plist c.syms hs hstr htype hsig
  simp only [declare_function, hleft, hstr, bind, Except.bind, hadd, ne_eq, one_ne_zero,
    not_false_eq_true, if_true, str_or_null, Option.getD]

/-- On a table that records the body, `function_declaration` accepts the
same prototype followed by a semicolon and is fatal when a body follows. -/
theorem function_declaration_recorded (name : String) (ty : Ty)
    (params : List (String × Ty)) (lc : Libc) (fuel : Nat) (c0 : Comp) (func plist : ASTnode)
    (c : Comp) (hs : declared_with_body name ty params c.syms)
    (hstr : func.strlit = Except.ok (some name)) (htype : func.type = Except.ok (some ty))
    (hleft : func.left = Except.ok plist)
    (hsig : param_sigs plist = params.map (fun q => (some q.1, some q.2)))
    (hp : function_prototype lc fuel c0 = Except.ok (func, c)) :
    function_declaration lc fuel c0 =
      if c.lex.Thistoken.token = T_SEMI then scan_this lc fuel c
      else fatal ("multiple declarations for " ++ name ++ "()\n") := by
  have hadd := add_function_recorded name ty params func plist c.syms hs hstr htype hsig
  have hdec := declare_function_recorded name ty params func plist c hs hstr htype hleft hsig
  simp only [function_declaration, hp, bind, Except.bind, hleft, hadd, hdec]
  split_ifs
  · rfl
  · rfl

theorem body_recorded_with_func (st : Symtab) (name : String) (ty : Ty)
    (params : List (String × Ty)) (hnew : ∀ s ∈ st.Symhead, s.name ≠ name) :
    body_recorded name ty params
      (st.Symhead ++ [(func_sym name ty params st.nextaddr).set_initval (Litval.of_int 1)]) := by
  rw [body_recorded_iff]
  refine ⟨(func_sym name ty params st.nextaddr).set_initval (Litval.of_int 1),
    find_symbol_loop_last name
      ((func_sym name ty params st.nextaddr).set_initval (Litval.of_int 1)) rfl st.Symhead hnew,
    rfl, ?_, flag_one⟩
  exact param_syms_name_type params _

/-- C13 (amended): for a function name that is not declared and a prototype
whose parameters have pairwise distinct names and no void type, outside any
function body: declaring the prototype without a body any number of times is
accepted and leaves `initval` at 0; the first declaration with a body, after
such prototypes or without any, is accepted and sets `initval` to 1, and the
table then records the body.  The record is kept from there on: through the
statement block of that body, whatever local variables it declares, to the
table `gen_func_statement_block` leaves, and through every function
declaration that is accepted later, with or without a body, of this or of
another function, one at a time or in the loop of `function_declarations`
(the tables are those where every symbol has a type, as the table at program
start).  On every table with the record, a declaration of the same name,
type and parameters without a body is accepted, returns the flag 1 and
leaves the table as it is, any number of times, and a declaration with a
body is fatal with `multiple declarations for NAME()`, in `declare_function`
and in `function_declaration`. -/
theorem function_body_once (st : Symtab) (name : String) (ty : Ty)
    (params : List (String × Ty)) (hG : st.Globhead = none) (hC : st.Curfunc = none)
    (hok : symtab_ok st) (hnew : ∀ s ∈ st.Symhead, s.name ≠ name)
    (hdist : (params.map Prod.fst).Nodup) (hnv : ∀ q ∈ params, q.2 ≠ ty_void) :
    (∃ st1 st2 f0 f1,
      (∀ n, 0 < n →
        add_function_times (proto_ast name ty params) (params_ast params) n st =
          Except.ok st1) ∧
      find_symbol (some name) st1 = some f0 ∧ f0.initval.intval = 0 ∧
      (∀ lex g, ∃ g1, declare_function (proto_ast name ty params) ⟨lex, st, g⟩ =
        Except.ok ⟨lex, new_scope (some f1) st2, g1⟩) ∧
      (∀ lex g, ∃ g1, declare_function (proto_ast name ty params) ⟨lex, st1, g⟩ =
        Except.ok ⟨lex, new_scope (some f1) st2, g1⟩) ∧
      find_symbol (some name) st2 = some f1 ∧ f1.initval.intval = 1 ∧
      body_in_scope name ty params (new_scope (some f1) st2) ∧
      (syms_typed st → syms_typed (new_scope (some f1) st2)) ∧
      end_scope (new_scope (some f1) st2) = st2 ∧
      declared_with_body name ty params st2) ∧
    (∀ (lc : Libc) (fuel : Nat) (c : Comp) (s : ASTnode) (c1 c2 : Comp),
      syms_typed c.syms → body_in_scope name ty params c.syms →
      statement_block lc fuel c = Except.ok (s, c1) →
      gen_func_statement_block lc fuel s c1 = Except.ok c2 →
      syms_typed c2.syms ∧ declared_with_body name ty params c2.syms) ∧
    (∀ (lc : Libc) (fuel k : Nat) (c c1 : Comp),
      syms_typed c.syms → declared_with_body name ty params c.syms →
      function_declaration lc fuel c = Except.ok c1 ∨
        function_declarations lc fuel k c = Except.ok c1 →
      syms_typed c1.syms ∧ declared_with_body name ty params c1.syms) ∧
    (∀ (func plist : ASTnode) (c : Comp), declared_with_body name ty params c.syms →
      func.strlit = Except.ok (some name) → func.type = Except.ok (some ty) →
      func.left = Except.ok plist →
      param_sigs plist = params.map (fun q => (some q.1, some q.2)) →
      add_function func plist c.syms = Except.ok (1, c.syms) ∧
      (∀ n, add_function_times func plist n c.syms = Except.ok c.syms) ∧
      declare_function func c = fatal ("multiple declarations for " ++ name ++ "()\n") ∧
      ∀ (lc : Libc) (fuel : Nat) (c0 : Comp),
        function_prototype lc fuel c0 = Except.ok (func, c) →
        function_declaration lc fuel c0 =
          if c.lex.Thistoken.token = T_SEMI then scan_this lc fuel c
          else fatal ("multiple declarations for " ++ name ++ "()\n")) ∧
    ((proto_ast name ty params).strlit = Except.ok (some name) ∧
      (proto_ast name ty params).type = Except.ok (some ty) ∧
      (proto_ast name ty params).left = Except.ok (params_ast params) ∧
      param_sigs (params_ast params) = params.map (fun q => (some q.1, some q.2))) := by
  have hnewf := add_function_new st name ty params hG hok hnew hdist
  have hold : ∀ s ∈ st.Symhead, s.name ≠ name ∧ s.addr ≠ st.nextaddr ∧
      ∀ q ∈ s.memb, q.addr ≠ st.nextaddr := by
    intro s hs
    obtain ⟨h1, h2⟩ := hok.2 s hs
    exact ⟨hnew s hs, by omega, fun q hq => by have := h2 q hq; omega⟩
  have hmemb : ∀ q ∈ (func_sym name ty params st.nextaddr).memb,
      ∃ t, q.type = some t ∧ t ≠ ty_void := by
    intro q hq
    have hmap := param_syms_name_type params (st.nextaddr + 1)
    have hq1 : (q.name, q.type) ∈ (param_syms (st.nextaddr + 1) params).map
        (fun q => (q.name, q.type)) := List.mem_map_of_mem _ hq
    rw [hmap] at hq1
    obtain ⟨p, hp, hpe⟩ := List.mem_map.1 hq1
    simp only [Prod.mk.injEq] at hpe
    exact ⟨p.2, hpe.2.symm, hnv p hp⟩
  have hf0 : find_symbol (some name)
      (with_func st (func_sym name ty params st.nextaddr) params.length) =
      some (func_sym name ty params st.nextaddr) :=
    find_symbol_with_func st (func_sym name ty params st.nextaddr) params.length hC hnew
  have hf1 : find_symbol (some name)
      (with_func st ((func_sym name ty params st.nextaddr).set_initval (Litval.of_int 1))
        params.length) =
      some ((func_sym name ty params st.nextaddr).set_initval (Litval.of_int 1)) :=
    find_symbol_with_func st
      ((func_sym name ty params st.nextaddr).set_initval (Litval.of_int 1)) params.length
      hC hnew
  have hex0 : add_function (proto_ast name ty params) (params_ast params)
      (with_func st (func_sym name ty params st.nextaddr) params.length) =
      Except.ok (0, with_func st (func_sym name ty params st.nextaddr) params.length) := by
    rw [add_function_existing
      (with_func st (func_sym name ty params st.nextaddr) params.length)
      (func_sym name ty params st.nextaddr) name ty params hC hf0]
    rw [if_neg (by simp [Sym.type, func_sym])]
    simp only [func_sym, Sym.memb, Sym.initval,
      check_params_match name _ params (param_syms_name_type params _), Except.bind, flag_zero]
  have hbound : ∀ s ∈ st.Symhead ++
      [(func_sym name ty params st.nextaddr).set_initval (Litval.of_int 1)],
      s.addr < st.nextaddr + 1 + params.length := by
    intro s hs
    simp only [List.mem_append, List.mem_singleton] at hs
    rcases hs with hs | hs
    · have := (hok.2 s hs).1
      omega
    · rw [hs]
      show st.nextaddr < st.nextaddr + 1 + params.length
      omega
  have hrec := body_recorded_with_func st name ty params hnew
  have htop : declared_with_body name ty params
      (with_func st ((func_sym name ty params st.nextaddr).set_initval (Litval.of_int 1))
        params.length) := ⟨hG, hC, hbound, hrec⟩
  refine ⟨⟨with_func st (func_sym name ty params st.nextaddr) params.length,
    with_func st ((func_sym name ty params st.nextaddr).set_initval (Litval.of_int 1))
      params.length,
    func_sym name ty params st.nextaddr,
    (func_sym name ty params st.nextaddr).set_initval (Litval.of_int 1),
    ?_, hf0, ?_, ?_, ?_, hf1, ?_, ?_, ?_, ?_, htop⟩, ?_, ?_, ?_, rfl, rfl, rfl,
    param_sigs_params_ast params⟩
  · intro n hn
    obtain ⟨m, rfl⟩ := Nat.exists_eq_succ_of_ne_zero (Nat.pos_iff_ne_zero.1 hn)
    simp only [add_function_times, hnewf, bind, Except.bind]
    exact add_function_times_fixed _ _ _ 0 hex0 m
  · norm_num [func_sym, Sym.initval, Litval.intval]
  · intro lex g
    exact (declare_function_with_func st (func_sym name ty params st.nextaddr) params.length
      name ty params ⟨lex, st, g⟩ 0 hnewf hC rfl hold hmemb).1 rfl
  · intro lex g
    exact (declare_function_with_func st (func_sym name ty params st.nextaddr) params.length
      name ty params ⟨lex, _, g⟩ 0 hex0 hC rfl hold hmemb).1 rfl
  · norm_num [func_sym, Sym.set_initval, Sym.initval, Litval.intval, Litval.of_int]
  · rw [body_in_scope_iff]
    cases hS : st.Symhead with
    | nil =>
      refine ⟨st.nextaddr,
        by simp [new_scope, with_func, hS, func_sym, Sym.set_initval, Sym.addr], ?_,
        ?_, ?_⟩
      · show st.nextaddr < st.nextaddr + 1 + params.length
        omega
      · exact hbound
      · have := hrec
        rw [hS] at this
        simpa [new_scope, with_func, hS, list_from, func_sym, Sym.set_initval, Sym.addr]
          using this
    | cons x l =>
      refine ⟨x.addr, by simp [new_scope, with_func, hS], ?_, hbound, ?_⟩
      · have := (hok.2 x (by rw [hS]; exact List.mem_cons_self _ _)).1
        show x.addr < st.nextaddr + 1 + params.length
        omega
      · have := hrec
        rw [hS] at this
        simpa [new_scope, with_func, hS, list_from] using this
  · intro hty x hx
    simp only [new_scope, with_func, List.mem_append, List.mem_singleton] at hx
    rcases hx with hx | hx
    · exact hty x hx
    · rw [hx]
      refine ⟨rfl, ?_⟩
      intro p hp
      obtain ⟨t, ht, _⟩ := hmemb p hp
      rw [ht]
      rfl
  · simp only [end_scope, new_scope, with_func, hG, hC]
    cases hS : st.Symhead with
    | nil => simp [list_from]
    | cons x l => simp [list_from]
  · intro lc fuel c s c1 c2 hs hb h1 h2
    have hs1 := (statement_block_types_ok lc fuel c s c1 hs h1).2
    have hb1 := statement_block_scope (body_in_scope name ty params)
      (declaration_statement_scope name ty params) lc fuel c s c1 hs hb h1
    exact ⟨gen_func_statement_block_typed lc fuel s c1 c2 hs1 h2,
      gen_func_statement_block_top name ty params lc fuel s c1 c2 hb1 h2⟩
  · intro lc fuel k c c1 hs hd h
    rcases h with h | h
    · exact ⟨function_declaration_typed lc fuel c c1 hs h,
        function_declaration_keeps name ty params lc fuel c c1 hs hd h⟩
    · exact function_declarations_keeps name ty params lc fuel k c c1 hs hd h
  · intro func plist c hd hstr htype hleft hsig
    have hadd := add_function_recorded name ty params func plist c.syms hd hstr htype hsig
    exact ⟨hadd, add_function_times_fixed _ _ _ 1 hadd,
      declare_function_recorded name ty params func plist c hd hstr htype hleft hsig,
      fun lc fuel c0 hp =>
        function_declaration_recorded name ty params lc fuel c0 func plist c hd hstr htype
          hleft hsig hp⟩

theorem declarations_done_succ (lc : Libc) (fuel : Nat) (n : Nat) (c : Comp)
    (h : (error_of (function_declaration lc fuel (declarations_done lc fuel n c))).isNone =
      true) :
    function_declaration lc fuel (declarations_done lc fuel n c) =
      Except.ok (declarations_done lc fuel (n + 1) c) :=
  state_or_ok _ _ h

/-- Witness for `function_body_once`: the function `void f(int32 a)` on the
table at program start, and the program text
`void f(int32 a) { int32 x = 1; } int32 g(void); int32 g(void) { int8 y = 2; }
void f(int32 a); void f(int32 a) { }`: the record of the body of `f` is in
the table after the first declaration and after the fourth, and the fifth
declaration is fatal. -/
theorem function_body_once_witness :
    (∃ st1 st2 f0 f1,
      (∀ n, 0 < n →
        add_function_times (proto_ast "f" ty_void [("a", ty_int32)])
          (params_ast [("a", ty_int32)]) n Symtab.init = Except.ok st1) ∧
      find_symbol (some "f") st1 = some f0 ∧ f0.initval.intval = 0 ∧
      (∀ lex g, ∃ g1, declare_function (proto_ast "f" ty_void [("a", ty_int32)])
        ⟨lex, Symtab.init, g⟩ = Except.ok ⟨lex, new_scope (some f1) st2, g1⟩) ∧
      (∀ lex g, ∃ g1, declare_function (proto_ast "f" ty_void [("a", ty_int32)])
        ⟨lex, st1, g⟩ = Except.ok ⟨lex, new_scope (some f1) st2, g1⟩) ∧
      find_symbol (some "f") st2 = some f1 ∧ f1.initval.intval = 1 ∧
      body_in_scope "f" ty_void [("a", ty_int32)] (new_scope (some f1) st2) ∧
      (syms_typed Symtab.init → syms_typed (new_scope (some f1) st2)) ∧
      end_scope (new_scope (some f1) st2) = st2 ∧
      declared_with_body "f" ty_void [("a", ty_int32)] st2) ∧
    syms_typed (declarations_done libc_unused 60 1 (program_start second_body_text)).syms ∧
    declared_with_body "f" ty_void [("a", ty_int32)]
      (declarations_done libc_unused 60 1 (program_start second_body_text)).syms ∧
    declared_with_body "f" ty_void [("a", ty_int32)]
      (declarations_done libc_unused 60 4 (program_start second_body_text)).syms ∧
    function_declaration libc_unused 60
      (declarations_done libc_unused 60 4 (program_start second_body_text)) =
      fatal "multiple declarations for f()\n" := by
  have h := function_body_once Symtab.init "f" ty_void [("a", ty_int32)] rfl rfl (by decide)
    (by simp [Symtab.init]) (by decide) (by decide)
  have s1 : syms_typed
      (declarations_done libc_unused 60 1 (program_start second_body_text)).syms := by
    decide!
  have k1 : declared_with_body "f" ty_void [("a", ty_int32)]
      (declarations_done libc_unused 60 1 (program_start second_body_text)).syms := by
    decide!
  have k2 := h.2.2.1 libc_unused 60 0 _ _ s1 k1
    (Or.inl (declarations_done_succ libc_unused 60 1 (program_start second_body_text)
      (by decide!)))
  have k3 := h.2.2.1 libc_unused 60 0 _ _ k2.1 k2.2
    (Or.inl (declarations_done_succ libc_unused 60 2 (program_start second_body_text)
      (by decide!)))
  have k4 := h.2.2.1 libc_unused 60 0 _ _ k3.1 k3.2
    (Or.inl (declarations_done_succ libc_unused 60 3 (program_start second_body_text)
      (by decide!)))
  have hp := next_or_ok
    (function_prototype libc_unused 60
      (declarations_done libc_unused 60 4 (program_start second_body_text)))
    (declarations_done libc_unused 60 4 (program_start second_body_text)) (by decide!)
  have e := (function_prototype_typed _ _ _ _ _ hp).2
  have k5 := (h.2.2.2.1
    (tree_or (function_prototype libc_unused 60
      (declarations_done libc_unused 60 4 (program_start second_body_text))))
    (node_or (tree_or (function_prototype libc_unused 60
      (declarations_done libc_unused 60 4 (program_start second_body_text)))).left)
    (next_or (function_prototype libc_unused 60
      (declarations_done libc_unused 60 4 (program_start second_body_text)))
      (declarations_done libc_unused 60 4 (program_start second_body_text)))
    (by rw [e]; exact k4.2) (by decide!) (by decide!) (node_or_ok _ (by decide!))
    (by decide!)).2.2.2 libc_unused 60
    (declarations_done libc_unused 60 4 (program_start second_body_text)) hp
  refine ⟨h.1, s1, k1, k4.2, ?_⟩
  rw [k5]
  exact if_neg (by decide!)

end Alic
